import Mathlib

/-!
# x86 teaching kernel: shallow embedding and verified properties

The C sources (`mm/kmm.c`, `mm/vmm.c`, `mm/kheap.c`, `filesys/hfs.c`,
`process/process.c`) are embedded as pure Lean functions over explicit state.
Machine integers are `Nat` with explicit reduction modulo `2^32` wherever the C arithmetic can wrap.
Physical memory is a function from frame number and word index to a 32-bit
word; the frame bitmap is a function from word index to a 32-bit word.
-/

namespace X86Kernel

/-! ## Machine words -/

/-- The modulus of `uint32_t` arithmetic. -/
def U32 : Nat := 4294967296

/-- The value `(uint32_t)-1`, which `find_first_free` returns for "no frame". -/
def NO_FRAME : Nat := 4294967295

/-- Modelled from the spec: `_KMM_BLOCK_SIZE` of the header `mm/kmm.h`, which is
not among the sources; a frame is "a 4 KiB aligned physical region". -/
def _KMM_BLOCK_SIZE : Nat := 4096

/-- Bitwise complement of a 32-bit word, the C operator `~` on `uint32_t`. -/
def not32 (x : Nat) : Nat := 4294967295 ^^^ (x % U32)

/-! ## Physical frame allocator (`mm/kmm.c`) -/

/-- The static variables of `kmm.c`: the bitmap (indexed by word), the number
of frames, the counter of used frames and the number of bitmap words. -/
structure KmmState where
  memory_bitmap : Nat → Nat
  total_frames : Nat
  used_frames : Nat
  bitmap_size : Nat

/-- Store of one word of the bitmap: `memory_bitmap[idx] = w`. -/
def KmmState.setWord (s : KmmState) (idx w : Nat) : KmmState :=
  { s with memory_bitmap := fun i => if i = idx then w else s.memory_bitmap i }

/-- `mark_frame`: `memory_bitmap[frame / 32] |= (1 << frame % 32)`. -/
def mark_frame (s : KmmState) (frame : Nat) : KmmState :=
  s.setWord (frame / 32) (s.memory_bitmap (frame / 32) ||| (1 <<< (frame % 32)))

/-- `unmark_frame`: `memory_bitmap[frame / 32] &= ~(1 << frame % 32)`. -/
def unmark_frame (s : KmmState) (frame : Nat) : KmmState :=
  s.setWord (frame / 32) (s.memory_bitmap (frame / 32) &&& not32 (1 <<< (frame % 32)))

/-- `isframe_used`: `(memory_bitmap[frame / 32] & (1 << frame % 32)) != 0`. -/
def isframe_used (s : KmmState) (frame : Nat) : Bool :=
  (s.memory_bitmap (frame / 32) &&& (1 <<< (frame % 32))) != 0

/-- The inner loop of `find_first_free` over the bits `j, j+1, ...` of word `i`,
with `n` iterations left: `some r` when the loop executes `return r`, `none`
when it runs to `j = 32` without returning. -/
def find_first_free_word (s : KmmState) (i : Nat) : Nat → Nat → Option Nat
  | 0, _ => none
  | n + 1, j =>
    let frame := (i * 32 + j) % U32
    if frame ≥ s.total_frames then some NO_FRAME
    else if !isframe_used s frame then some frame
    else find_first_free_word s i n (j + 1)

/-- The outer loop of `find_first_free` over the words `i, i+1, ...`, with `n`
words left. -/
def find_first_free_from (s : KmmState) : Nat → Nat → Nat
  | 0, _ => NO_FRAME
  | n + 1, i =>
    if s.memory_bitmap i ≠ 4294967295 then
      match find_first_free_word s i 32 0 with
      | some r => r
      | none => find_first_free_from s n (i + 1)
    else find_first_free_from s n (i + 1)

/-- `find_first_free`: the first clear bit below `total_frames`, or `(uint32_t)-1`. -/
def find_first_free (s : KmmState) : Nat :=
  find_first_free_from s s.bitmap_size 0

/-- `used_frames++` on a `uint32_t`. -/
def KmmState.incUsed (s : KmmState) : KmmState :=
  { s with used_frames := (s.used_frames + 1) % U32 }

/-- `used_frames--` on a `uint32_t`. -/
def KmmState.decUsed (s : KmmState) : KmmState :=
  { s with used_frames := (s.used_frames + 4294967295) % U32 }

/-- The `while(frame != -1 && frame < 256)` loop of `kmm_frame_alloc`, which
marks every free frame of the reserved low region as used.  Every iteration
marks one more of the 256 low frames, so `fuel = 256` iterations are enough
(`kmm_frame_alloc_loop_done`). -/
def kmm_frame_alloc_loop : Nat → KmmState → Nat → KmmState × Nat
  | 0, s, frame => (s, frame)
  | fuel + 1, s, frame =>
    if frame ≠ NO_FRAME ∧ frame < 256 then
      let s1 := (mark_frame s frame).incUsed
      kmm_frame_alloc_loop fuel s1 (find_first_free s1)
    else (s, frame)

/-- `kmm_frame_alloc`: returns the new state and the physical address of the
frame handed out, `0` (NULL) when there is none. -/
def kmm_frame_alloc (s : KmmState) : KmmState × Nat :=
  let r := kmm_frame_alloc_loop 256 s (find_first_free s)
  if r.2 = NO_FRAME then (r.1, 0)
  else ((mark_frame r.1 r.2).incUsed, (r.2 * _KMM_BLOCK_SIZE) % U32)

/-- `kmm_frame_free`: clears the bit of the frame of `phys_addr`, unless the
address is NULL, the frame is out of range or in the low region, or the frame
is not marked used. -/
def kmm_frame_free (s : KmmState) (phys_addr : Nat) : KmmState :=
  if phys_addr = 0 then s
  else
    let frame := phys_addr / _KMM_BLOCK_SIZE
    if frame ≥ s.total_frames ∨ frame < 256 then s
    else if !isframe_used s frame then s
    else (unmark_frame s frame).decUsed

/-- The number of set bits among the frames `0 .. total_frames - 1` of the
bitmap (the population count that `used_frames` is meant to track). -/
def usedCount (s : KmmState) : Nat :=
  (List.range s.total_frames).countP (isframe_used s)

/-- What `kmm_init` establishes about the sizes: `bitmap_size` is
`(total_frames + 31) / 32`, and `total_frames` is a 32-bit byte count divided
by the frame size, hence at most `2^20`. -/
def KmmState.SizesOk (s : KmmState) : Prop :=
  s.bitmap_size = (s.total_frames + 31) / 32 ∧ s.total_frames ≤ 1048576

instance (s : KmmState) : Decidable s.SizesOk := by
  unfold KmmState.SizesOk
  infer_instance

/-- Every frame `g` with `lo ≤ g < hi` is marked used. -/
def AllUsed (s : KmmState) (lo hi : Nat) : Prop :=
  ∀ g, lo ≤ g → g < hi → isframe_used s g = true

/-- One call of the allocator interface. -/
inductive KmmOp where
  | alloc : KmmOp
  | free (phys_addr : Nat) : KmmOp

/-- The state after one call. -/
def kmm_step (s : KmmState) : KmmOp → KmmState
  | KmmOp.alloc => (kmm_frame_alloc s).1
  | KmmOp.free a => kmm_frame_free s a

/-- The state after a sequence of calls. -/
def kmm_run (s : KmmState) (ops : List KmmOp) : KmmState :=
  ops.foldl kmm_step s

/-- A small allocator state for concrete evaluation: 320 frames in 10 words,
frames 0..287 used, frames 288..319 free. -/
def kmmSmall : KmmState :=
  { memory_bitmap := fun i => if i < 9 then 4294967295 else 0
    total_frames := 320
    used_frames := 288
    bitmap_size := 10 }

/-- The result `r` of a scan for the first free frame is right: either it is
`(uint32_t)-1` and every frame below `total_frames` is used, or it is the
lowest free frame below `total_frames`. -/
def FirstFree (s : KmmState) (r : Nat) : Prop :=
  (r = NO_FRAME ∧ AllUsed s 0 s.total_frames) ∨
  (r < s.total_frames ∧ isframe_used s r = false ∧ AllUsed s 0 r)

/-- The number of free frames of the reserved low region (frames below 256). -/
def lowClear (s : KmmState) : Nat :=
  (List.range 256).countP (fun g => decide (g < s.total_frames) && !isframe_used s g)

/-! ## Virtual memory manager (`mm/vmm.c`)

Pointers to page directories, page tables and entries are the kernel's virtual
addresses inside the physical window, as in the C code; a load or store through
such a pointer reaches the physical word at `VIRT_TO_PHYS` of it.  Physical
memory is a function from the physical address of a 32-bit word to its value.
The TLB is not modelled, so `invlpg` has no effect on the state. -/

/-- Modelled from the spec: `PHYS_BASE` of the header `mem.h`, which is not
among the sources; "all physical memory is windowed at `PHYS_BASE` in the
kernel half", and the kernel half begins at directory index 768, that is at
`0xC0000000`. -/
def PHYS_BASE : Nat := 3221225472

/-- Modelled from the spec: `PHYS_TO_VIRT(p) = p + PHYS_BASE` (32-bit). -/
def PHYS_TO_VIRT (p : Nat) : Nat := (p + PHYS_BASE) % U32

/-- Modelled from the spec: `VIRT_TO_PHYS(v) = v - PHYS_BASE` (32-bit), the
inverse of `PHYS_TO_VIRT`. -/
def VIRT_TO_PHYS (v : Nat) : Nat := (v + 1073741824) % U32

/-- Modelled from the spec: `VMM_PAGE_SIZE` of `mm/vmm.h` (4 KiB pages). -/
def VMM_PAGE_SIZE : Nat := 4096

/-- Modelled from the spec: `VMM_PAGES_PER_TABLE` of `mm/vmm.h` (1024 entries). -/
def VMM_PAGES_PER_TABLE : Nat := 1024

/-- Modelled from the spec: `VMM_PAGES_PER_DIR` of `mm/vmm.h` (1024 entries). -/
def VMM_PAGES_PER_DIR : Nat := 1024

/-- Modelled from the spec: `PDE_FRAME_MASK` of `mm/vmm.h`; an entry is the
32-bit encoding of (frame number | flags) with 12 flag bits. -/
def PDE_FRAME_MASK : Nat := 4294963200

/-- Modelled from the spec: `PTE_FRAME_MASK` of `mm/vmm.h`. -/
def PTE_FRAME_MASK : Nat := 4294963200

/-- Modelled from the spec: the x86 present flag of a page-table entry. -/
def PTE_PRESENT : Nat := 1

/-- Modelled from the spec: the x86 writable flag of a page-table entry. -/
def PTE_WRITABLE : Nat := 2

/-- Modelled from the spec: the x86 user flag of a page-table entry. -/
def PTE_USER : Nat := 4

/-- Modelled from the spec: the x86 present flag of a directory entry. -/
def PDE_PRESENT : Nat := 1

/-- Modelled from the spec: the x86 writable flag of a directory entry. -/
def PDE_WRITABLE : Nat := 2

/-- Modelled from the spec: the x86 user flag of a directory entry. -/
def PDE_USER : Nat := 4

/-- Modelled from the spec: `VMM_DIR_INDEX(v)`, bits 22..31 of the address. -/
def VMM_DIR_INDEX (v : Nat) : Nat := (v >>> 22) &&& 1023

/-- Modelled from the spec: `VMM_TABLE_INDEX(v)`, bits 12..21 of the address. -/
def VMM_TABLE_INDEX (v : Nat) : Nat := (v >>> 12) &&& 1023

/-- Modelled from the spec: `PDE_IS_PRESENT(e)`, the present bit of the entry. -/
def PDE_IS_PRESENT (e : Nat) : Bool := (e &&& PDE_PRESENT) != 0

/-- Modelled from the spec: `PTE_IS_PRESENT(e)`, the present bit of the entry. -/
def PTE_IS_PRESENT (e : Nat) : Bool := (e &&& PTE_PRESENT) != 0

/-- Modelled from the spec: `PDE_PTABLE_ADDR(e)`, the frame address of the entry. -/
def PDE_PTABLE_ADDR (e : Nat) : Nat := e &&& PDE_FRAME_MASK

/-- Modelled from the spec: `PTE_FRAME_ADDR(e)`, the frame address of the entry. -/
def PTE_FRAME_ADDR (e : Nat) : Nat := e &&& PTE_FRAME_MASK

/-- `pde_create`: `(phys_addr & PDE_FRAME_MASK) | (flags & 0xFFF)`. -/
def pde_create (phys_addr flags : Nat) : Nat :=
  (phys_addr &&& PDE_FRAME_MASK) ||| (flags &&& 4095)

/-- `pte_create`: `(phys_addr & PTE_FRAME_MASK) | (flags & 0xFFF)`. -/
def pte_create (phys_addr flags : Nat) : Nat :=
  (phys_addr &&& PTE_FRAME_MASK) ||| (flags &&& 4095)

/-- The state of the memory manager: the frame allocator, physical memory (by
physical address of the word), and the two static directory pointers. -/
structure VmmState where
  kmm : KmmState
  mem : Nat → Nat
  kernel_directory : Nat
  current_directory : Nat

/-- Load of the 32-bit word at a window pointer. -/
def VmmState.load (s : VmmState) (ptr : Nat) : Nat := s.mem (VIRT_TO_PHYS ptr)

/-- Store of a 32-bit word at a window pointer. -/
def VmmState.store (s : VmmState) (ptr val : Nat) : VmmState :=
  { s with mem := fun a => if a = VIRT_TO_PHYS ptr then val else s.mem a }

/-- `memset(ptr, 0, 4096)` for a page-aligned window pointer. -/
def VmmState.memsetPage (s : VmmState) (ptr : Nat) : VmmState :=
  { s with mem := fun a =>
      if VIRT_TO_PHYS ptr ≤ a ∧ a < VIRT_TO_PHYS ptr + 4096 then 0 else s.mem a }

/-- `memcpy(dst, src, VMM_PAGE_SIZE)` for page-aligned window pointers. -/
def VmmState.memcpyPage (s : VmmState) (dst src : Nat) : VmmState :=
  { s with mem := fun a =>
      if VIRT_TO_PHYS dst ≤ a ∧ a < VIRT_TO_PHYS dst + 4096 then
        s.mem (VIRT_TO_PHYS src + (a - VIRT_TO_PHYS dst))
      else s.mem a }

/-- The pointer `&table->table[i]` for a pointer to a directory or a table. -/
def entryPtr (table i : Nat) : Nat := (table + 4 * i) % U32

/-- The state with the frame allocator replaced. -/
def VmmState.withKmm (s : VmmState) (k : KmmState) : VmmState := { s with kmm := k }

/-- `vmm_create_address_space`: the new state and the directory pointer (NULL
when no frame is available). -/
def vmm_create_address_space (s : VmmState) : VmmState × Nat :=
  let r := kmm_frame_alloc s.kmm
  let s1 := s.withKmm r.1
  if r.2 = 0 then (s1, 0)
  else (s1.memsetPage (PHYS_TO_VIRT r.2), PHYS_TO_VIRT r.2)

/-- `vmm_create_pt`: makes sure the directory entry of `virtual` has a page
table, allocating and zeroing one when the entry is not present; leaves the
entry absent when no frame is available. -/
def vmm_create_pt (s : VmmState) (pdir virtual flags : Nat) : VmmState :=
  let pd_index := VMM_DIR_INDEX virtual
  if PDE_IS_PRESENT (s.load (entryPtr pdir pd_index)) then s
  else
    let r := kmm_frame_alloc s.kmm
    let s1 := s.withKmm r.1
    if r.2 = 0 then s1
    else
      let s2 := s1.memsetPage (PHYS_TO_VIRT r.2)
      let pde_flags := (PDE_PRESENT ||| (if flags &&& PTE_WRITABLE ≠ 0 then PDE_WRITABLE else 0))
        ||| (if flags &&& PTE_USER ≠ 0 then PDE_USER else 0)
      s2.store (entryPtr pdir pd_index) (pde_create r.2 pde_flags)

/-- `vmm_map_page`. -/
def vmm_map_page (s : VmmState) (pdir virtual physical flags : Nat) : VmmState :=
  if pdir = 0 ∨ virtual = 0 then s
  else
    let s1 := vmm_create_pt s pdir virtual flags
    let directory_entry := s1.load (entryPtr pdir (VMM_DIR_INDEX virtual))
    let table := PHYS_TO_VIRT (PDE_PTABLE_ADDR directory_entry)
    s1.store (entryPtr table (VMM_TABLE_INDEX virtual)) (pte_create physical (flags ||| PTE_PRESENT))

/-- `vmm_get_phys_frame`: the frame address that `virtual` translates to, NULL
when the directory entry or the table entry is not present. -/
def vmm_get_phys_frame (s : VmmState) (pdir virtual : Nat) : Nat :=
  if pdir = 0 ∨ virtual = 0 then 0
  else
    let directory_entry := s.load (entryPtr pdir (VMM_DIR_INDEX virtual))
    if !PDE_IS_PRESENT directory_entry then 0
    else
      let table := PHYS_TO_VIRT (PDE_PTABLE_ADDR directory_entry)
      let table_entry := s.load (entryPtr table (VMM_TABLE_INDEX virtual))
      if !PTE_IS_PRESENT table_entry then 0
      else PTE_FRAME_ADDR table_entry

/-- `vmm_page_alloc`: gives the entry behind `pte` a fresh frame unless it is
already present; returns 0 on success and -1 on failure. -/
def vmm_page_alloc (s : VmmState) (pte flags : Nat) : VmmState × Int :=
  if pte = 0 then (s, -1)
  else if PTE_IS_PRESENT (s.load pte) then (s, 0)
  else
    let r := kmm_frame_alloc s.kmm
    let s1 := s.withKmm r.1
    if r.2 = 0 then (s1, -1)
    else (s1.store pte (pte_create r.2 (flags ||| PTE_PRESENT)), 0)

/-- `vmm_page_free`: frees the frame of a present entry and clears its frame
bits and its present bit. -/
def vmm_page_free (s : VmmState) (pte : Nat) : VmmState :=
  if pte = 0 ∨ !PTE_IS_PRESENT (s.load pte) then s
  else
    let s1 := s.withKmm (kmm_frame_free s.kmm (PTE_FRAME_ADDR (s.load pte)))
    let s2 := s1.store pte (s1.load pte &&& not32 PTE_FRAME_MASK)
    s2.store pte (s2.load pte &&& not32 PTE_PRESENT)

/-- The first loop of `vmm_free_region`, from `virt_addr` in steps of a page
while `virt_addr < region_end`.  Both bounds are page-aligned, so the loop runs
at most `2^20` times. -/
def vmm_free_region_pages (pdir region_end : Nat) : Nat → VmmState → Nat → VmmState
  | 0, s, _ => s
  | fuel + 1, s, virt_addr =>
    if virt_addr < region_end then
      let pd_index := VMM_DIR_INDEX virt_addr
      if !PDE_IS_PRESENT (s.load (entryPtr pdir pd_index)) then
        vmm_free_region_pages pdir region_end fuel s ((virt_addr + VMM_PAGE_SIZE) % U32)
      else
        let table := PHYS_TO_VIRT (PDE_PTABLE_ADDR (s.load (entryPtr pdir pd_index)))
        let entry := entryPtr table (VMM_TABLE_INDEX virt_addr)
        let s1 := if PTE_IS_PRESENT (s.load entry) then vmm_page_free s entry else s
        vmm_free_region_pages pdir region_end fuel s1 ((virt_addr + VMM_PAGE_SIZE) % U32)
    else s

/-- The emptiness check of `vmm_free_region`: whether some entry of the table
is present. -/
def table_has_entries (s : VmmState) (table : Nat) : Bool :=
  (List.range VMM_PAGES_PER_TABLE).any (fun i => PTE_IS_PRESENT (s.load (entryPtr table i)))

/-- The second loop of `vmm_free_region`, over the directory indices
`pd_idx .. end_pd` (at most 1024 of them): frees every page table that has no
present entry and clears its directory entry. -/
def vmm_free_region_tables (pdir end_pd : Nat) : Nat → VmmState → Nat → VmmState
  | 0, s, _ => s
  | fuel + 1, s, pd_idx =>
    if pd_idx ≤ end_pd then
      if !PDE_IS_PRESENT (s.load (entryPtr pdir pd_idx)) then
        vmm_free_region_tables pdir end_pd fuel s (pd_idx + 1)
      else
        let table_phys := PDE_PTABLE_ADDR (s.load (entryPtr pdir pd_idx))
        let s1 :=
          if !table_has_entries s (PHYS_TO_VIRT table_phys) then
            (s.withKmm (kmm_frame_free s.kmm table_phys)).store (entryPtr pdir pd_idx) 0
          else s
        vmm_free_region_tables pdir end_pd fuel s1 (pd_idx + 1)
    else s

/-- `vmm_free_region`. -/
def vmm_free_region (s : VmmState) (pdir virtual size : Nat) : VmmState × Bool :=
  if pdir = 0 ∨ virtual = 0 ∨ size = 0 then (s, false)
  else
    let region_start := virtual &&& not32 (VMM_PAGE_SIZE - 1)
    let region_end := ((virtual + size + VMM_PAGE_SIZE - 1) % U32) &&& not32 (VMM_PAGE_SIZE - 1)
    let s1 := vmm_free_region_pages pdir region_end 1048576 s region_start
    let start_pd := VMM_DIR_INDEX region_start
    let end_pd := VMM_DIR_INDEX ((region_end + 4294967295) % U32)
    (vmm_free_region_tables pdir end_pd 1024 s1 start_pd, true)

/-- The loop of `vmm_alloc_region` from `virt_addr`; `none` when the fuel runs
out, which stands for a loop that does not terminate (the address wraps around
and every page it meets is already present). -/
def vmm_alloc_region_loop (pdir virtual region_start region_end flags : Nat) :
    Nat → VmmState → Nat → Option (VmmState × Bool)
  | 0, _, _ => none
  | fuel + 1, s, virt_addr =>
    if virt_addr < region_end then
      let s1 := vmm_create_pt s pdir virt_addr flags
      let pd_index := VMM_DIR_INDEX virt_addr
      if !PDE_IS_PRESENT (s1.load (entryPtr pdir pd_index)) then
        some ((vmm_free_region s1 pdir virtual ((virt_addr + (U32 - region_start)) % U32)).1, false)
      else
        let table := PHYS_TO_VIRT (PDE_PTABLE_ADDR (s1.load (entryPtr pdir pd_index)))
        let entry := entryPtr table (VMM_TABLE_INDEX virt_addr)
        let r := vmm_page_alloc s1 entry flags
        if r.2 ≠ 0 then
          some ((vmm_free_region r.1 pdir virtual ((virt_addr + (U32 - region_start)) % U32)).1,
            false)
        else
          vmm_alloc_region_loop pdir virtual region_start region_end flags fuel r.1
            ((virt_addr + VMM_PAGE_SIZE) % U32)
    else some (s, true)

/-- `vmm_alloc_region`.  A terminating run of the loop visits every page of the
address space at most once, plus the exit test. -/
def vmm_alloc_region (s : VmmState) (pdir virtual size flags : Nat) :
    Option (VmmState × Bool) :=
  if pdir = 0 ∨ virtual = 0 ∨ size = 0 then some (s, false)
  else
    vmm_alloc_region_loop pdir virtual virtual ((virtual + size) % U32) flags 1048577 s virtual

/-- The failure path of `vmm_clone_pagetable`: frees the frame of every present
entry `j, j+1, ...` of the new table, `n` entries in all. -/
def vmm_clone_pagetable_undo (new_table : Nat) : Nat → VmmState → Nat → VmmState
  | 0, s, _ => s
  | n + 1, s, j =>
    let e := s.load (entryPtr new_table j)
    let s1 := if PTE_IS_PRESENT e then s.withKmm (kmm_frame_free s.kmm (PTE_FRAME_ADDR e)) else s
    vmm_clone_pagetable_undo new_table n s1 (j + 1)

/-- The copy loop of `vmm_clone_pagetable` over the entries `i, i+1, ...`, with
`n` entries left; returns the pointer to the new table, or NULL after a failed
frame allocation (with the frames of the new table and the table freed). -/
def vmm_clone_pagetable_loop (src new_table_phys : Nat) : Nat → VmmState → Nat → VmmState × Nat
  | 0, s, _ => (s, PHYS_TO_VIRT new_table_phys)
  | n + 1, s, i =>
    let source_entry := s.load (entryPtr src i)
    if !PTE_IS_PRESENT source_entry then
      vmm_clone_pagetable_loop src new_table_phys n s (i + 1)
    else
      let r := kmm_frame_alloc s.kmm
      let s1 := s.withKmm r.1
      if r.2 = 0 then
        let s2 := vmm_clone_pagetable_undo (PHYS_TO_VIRT new_table_phys) i s1 0
        (s2.withKmm (kmm_frame_free s2.kmm new_table_phys), 0)
      else
        let s2 := s1.memcpyPage (PHYS_TO_VIRT r.2) (PHYS_TO_VIRT (PTE_FRAME_ADDR source_entry))
        let s3 := s2.store (entryPtr (PHYS_TO_VIRT new_table_phys) i)
          (pte_create r.2 (source_entry &&& 4095))
        vmm_clone_pagetable_loop src new_table_phys n s3 (i + 1)

/-- `vmm_clone_pagetable`: a deep copy of the table behind `src`. -/
def vmm_clone_pagetable (s : VmmState) (src : Nat) : VmmState × Nat :=
  if src = 0 then (s, 0)
  else
    let r := kmm_frame_alloc s.kmm
    let s1 := s.withKmm r.1
    if r.2 = 0 then (s1, 0)
    else
      vmm_clone_pagetable_loop src r.2 VMM_PAGES_PER_TABLE (s1.memsetPage (PHYS_TO_VIRT r.2)) 0

/-- The failure path of `vmm_clone_pagedir`: frees the table frame of every
present entry `j, j+1, ...` of the new directory, `n` entries in all. -/
def vmm_clone_pagedir_undo (new_dir : Nat) : Nat → VmmState → Nat → VmmState
  | 0, s, _ => s
  | n + 1, s, j =>
    let e := s.load (entryPtr new_dir j)
    let s1 := if PDE_IS_PRESENT e then s.withKmm (kmm_frame_free s.kmm (PDE_PTABLE_ADDR e)) else s
    vmm_clone_pagedir_undo new_dir n s1 (j + 1)

/-- The loop of `vmm_clone_pagedir` over the directory entries `i, i+1, ...`,
with `n` entries left. -/
def vmm_clone_pagedir_loop (new_dir : Nat) : Nat → VmmState → Nat → VmmState × Nat
  | 0, s, _ => (s, new_dir)
  | n + 1, s, i =>
    let current_entry := s.load (entryPtr s.current_directory i)
    if !PDE_IS_PRESENT current_entry then vmm_clone_pagedir_loop new_dir n s (i + 1)
    else if i ≥ 768 then
      vmm_clone_pagedir_loop new_dir n (s.store (entryPtr new_dir i) current_entry) (i + 1)
    else
      let kernel_entry := s.load (entryPtr s.kernel_directory i)
      let is_kernel_mapping := PDE_IS_PRESENT kernel_entry &&
        (PDE_PTABLE_ADDR kernel_entry == PDE_PTABLE_ADDR current_entry)
      if is_kernel_mapping then
        vmm_clone_pagedir_loop new_dir n (s.store (entryPtr new_dir i) current_entry) (i + 1)
      else
        let source_table := PHYS_TO_VIRT (PDE_PTABLE_ADDR current_entry)
        let r := vmm_clone_pagetable s source_table
        if r.2 = 0 then
          let s2 := vmm_clone_pagedir_undo new_dir i r.1 0
          (s2.withKmm (kmm_frame_free s2.kmm (VIRT_TO_PHYS new_dir)), 0)
        else
          vmm_clone_pagedir_loop new_dir n
            (r.1.store (entryPtr new_dir i) (pde_create (VIRT_TO_PHYS r.2) (current_entry &&& 4095)))
            (i + 1)

/-- `vmm_clone_pagedir`: a copy of the current directory, shallow for the
kernel half and for entries shared with the kernel directory, deep otherwise;
NULL on failure. -/
def vmm_clone_pagedir (s : VmmState) : VmmState × Nat :=
  if s.current_directory = 0 ∨ s.kernel_directory = 0 then (s, 0)
  else
    let r := vmm_create_address_space s
    if r.2 = 0 then (r.1, 0)
    else vmm_clone_pagedir_loop r.2 VMM_PAGES_PER_DIR r.1 0

/-! ### Specification vocabulary for the memory manager -/

/-- The allocator will not hand out the frame of physical address `a`: the
frame is in the reserved low region, beyond the installed memory, or marked
used. -/
def Reserved (k : KmmState) (a : Nat) : Prop :=
  a / 4096 < 256 ∨ k.total_frames ≤ a / 4096 ∨ isframe_used k (a / 4096) = true

/-- The directory entry `pdir->table[i]`. -/
def pde (s : VmmState) (pdir i : Nat) : Nat := s.load (entryPtr pdir i)

/-- The table entry `j` of the page table that directory entry `i` points to. -/
def pteAt (s : VmmState) (pdir i j : Nat) : Nat :=
  s.load (entryPtr (PHYS_TO_VIRT (PDE_PTABLE_ADDR (pde s pdir i))) j)

/-- The page with directory index `i` and table index `j` is mapped: both the
directory entry and the table entry are present. -/
def presentAt (s : VmmState) (pdir i j : Nat) : Prop :=
  PDE_IS_PRESENT (pde s pdir i) = true ∧ PTE_IS_PRESENT (pteAt s pdir i j) = true

/-- The directory and its page tables do not share memory: the directory is a
page-aligned non-NULL pointer, no present entry points to the directory's own
frame, no two present entries point to the same table, and every table has a
non-NULL pointer in the physical window (it is not at physical address
`2^32 - PHYS_BASE`). -/
structure DirSep (s : VmmState) (pdir : Nat) : Prop where
  nonnull : pdir ≠ 0
  lt : pdir < U32
  aligned : pdir % 4096 = 0
  tab_ne_dir : ∀ i, i < 1024 → PDE_IS_PRESENT (pde s pdir i) = true →
    PDE_PTABLE_ADDR (pde s pdir i) ≠ VIRT_TO_PHYS pdir
  tab_inj : ∀ i j, i < 1024 → j < 1024 → PDE_IS_PRESENT (pde s pdir i) = true →
    PDE_IS_PRESENT (pde s pdir j) = true →
    PDE_PTABLE_ADDR (pde s pdir i) = PDE_PTABLE_ADDR (pde s pdir j) → i = j
  tab_window : ∀ i, i < 1024 → PDE_IS_PRESENT (pde s pdir i) = true →
    PDE_PTABLE_ADDR (pde s pdir i) ≠ 1073741824

/-- The directory is consistent with the frame allocator: it is separated
(`DirSep`), the installed memory fits the physical window (at most `2^18`
frames, 1 GiB), and neither the directory's frame nor the frame of any of its
page tables can be handed out. -/
structure DirOk (s : VmmState) (pdir : Nat) extends DirSep s pdir : Prop where
  total : s.kmm.total_frames ≤ 262144
  dir_reserved : Reserved s.kmm (VIRT_TO_PHYS pdir)
  tab_reserved : ∀ i, i < 1024 → PDE_IS_PRESENT (pde s pdir i) = true →
    Reserved s.kmm (PDE_PTABLE_ADDR (pde s pdir i))

/-- The state `s'` extends the mappings of directory `pdir` in state `s`: the
directory is consistent in `s'`, the number of frames is the same, no reserved
frame became available, every
page mapped in `s` is mapped in `s'` with the same entry, and the pages mapped
in `s'` but not in `s` are backed by frames that the allocator could hand out
in `s`, are reserved in `s'`, and differ from page to page. -/
structure Ext (s s' : VmmState) (pdir : Nat) : Prop where
  ok : DirOk s' pdir
  total : s'.kmm.total_frames = s.kmm.total_frames
  mono : ∀ a, Reserved s.kmm a → Reserved s'.kmm a
  keep : ∀ i j, i < 1024 → j < 1024 → presentAt s pdir i j →
    presentAt s' pdir i j ∧ pteAt s' pdir i j = pteAt s pdir i j
  fresh : ∀ i j, i < 1024 → j < 1024 → presentAt s' pdir i j → ¬ presentAt s pdir i j →
    ¬ Reserved s.kmm (PTE_FRAME_ADDR (pteAt s' pdir i j)) ∧
      Reserved s'.kmm (PTE_FRAME_ADDR (pteAt s' pdir i j))
  inj : ∀ i j i' j', i < 1024 → j < 1024 → i' < 1024 → j' < 1024 →
    presentAt s' pdir i j → ¬ presentAt s pdir i j →
    presentAt s' pdir i' j' → ¬ presentAt s pdir i' j' →
    PTE_FRAME_ADDR (pteAt s' pdir i j) = PTE_FRAME_ADDR (pteAt s' pdir i' j') →
    i = i' ∧ j = j'

/-- The page table at physical address `src` can be cloned safely in the state
`s0`: its frame and the frames of its present entries cannot be handed out by
the allocator. -/
structure SrcOk (s0 : VmmState) (src : Nat) : Prop where
  aligned : src % 4096 = 0
  lt : src < U32
  reserved : Reserved s0.kmm src
  pages : ∀ j, j < 1024 → PTE_IS_PRESENT (s0.mem (src + 4 * j)) = true →
    Reserved s0.kmm (PTE_FRAME_ADDR (s0.mem (src + 4 * j)))

/-- The current address space is consistent with the frame allocator: the two
directories are page-aligned, the installed memory fits the physical window,
and no frame that the current address space uses (the two directories, the
page tables of its user half and the pages they map) can be handed out. -/
structure CloneOk (s : VmmState) : Prop where
  cur_aligned : s.current_directory % 4096 = 0
  cur_lt : s.current_directory < U32
  ker_aligned : s.kernel_directory % 4096 = 0
  ker_lt : s.kernel_directory < U32
  total : s.kmm.total_frames ≤ 262144
  cur_reserved : Reserved s.kmm (VIRT_TO_PHYS s.current_directory)
  ker_reserved : Reserved s.kmm (VIRT_TO_PHYS s.kernel_directory)
  tab_reserved : ∀ i, i < 768 → PDE_IS_PRESENT (pde s s.current_directory i) = true →
    Reserved s.kmm (PDE_PTABLE_ADDR (pde s s.current_directory i))
  page_reserved : ∀ i j, i < 768 → j < 1024 → presentAt s s.current_directory i j →
    Reserved s.kmm (PTE_FRAME_ADDR (pteAt s s.current_directory i j))

/-- Directory index `i` of the current directory is cloned deeply: it is in the
user half, its entry is present, and the kernel directory does not have a
present entry with the same table at that index. -/
def DeepIndex (s : VmmState) (i : Nat) : Prop :=
  i < 768 ∧ PDE_IS_PRESENT (pde s s.current_directory i) = true ∧
  ¬ (PDE_IS_PRESENT (pde s s.kernel_directory i) = true ∧
      PDE_PTABLE_ADDR (pde s s.kernel_directory i) =
        PDE_PTABLE_ADDR (pde s s.current_directory i))

/-- A frame allocator with 320 frames of which only frame 319 is free. -/
def kmmOneFree : KmmState :=
  { memory_bitmap := fun i => if i < 9 then 4294967295 else if i = 9 then 2147483647 else 0
    total_frames := 320
    used_frames := 319
    bitmap_size := 10 }

/-- A memory manager state with one free frame and an empty page directory in
frame 288 (physical address `0x120000`), which is both the kernel directory and
the current directory. -/
def vmmOneFree : VmmState :=
  { kmm := kmmOneFree
    mem := fun _ => 0
    kernel_directory := 3222405120
    current_directory := 3222405120 }

/-- A memory manager state with 32 free frames (288..319) and an empty page
directory in frame 287 (physical address `0x11F000`, pointer `0xC011F000`). -/
def vmmFresh : VmmState :=
  { kmm := kmmSmall
    mem := fun _ => 0
    kernel_directory := 3222401024
    current_directory := 3222401024 }

/-- A memory manager state whose directory (frame 287) has one page table
(frame 286, directory index 1) in which the pages `0x400000` and `0x401000`
are both mapped to frame 285. -/
def vmmAlias : VmmState :=
  { kmm := kmmSmall
    mem := fun a =>
      if a = 1175556 then 1171463
      else if a = 1171456 then 1167367
      else if a = 1171460 then 1167367
      else 0
    kernel_directory := 3222401024
    current_directory := 3222401024 }

/-- A memory manager state whose directory (frame 287) has one page table
(frame 286, directory index 1) in which the page `0x400000` is mapped to the
reserved low frame 5. -/
def vmmLow : VmmState :=
  { kmm := kmmSmall
    mem := fun a =>
      if a = 1175556 then 1171463
      else if a = 1171456 then 20487
      else 0
    kernel_directory := 3222401024
    current_directory := 3222401024 }

/-- A frame allocator with 320 frames of which 316..319 are free. -/
def kmmFourFree : KmmState :=
  { memory_bitmap := fun i => if i < 9 then 4294967295 else if i = 9 then 268435455 else 0
    total_frames := 320
    used_frames := 316
    bitmap_size := 10 }

/-- A memory manager state with four free frames.  The kernel directory
(frame 282) is empty; the current directory (frame 287) has two user page
tables (frames 286 and 285 at directory indices 1 and 2), each mapping one
page (frames 284 and 283). -/
def vmmClone : VmmState :=
  { kmm := kmmFourFree
    mem := fun a =>
      if a = 1175556 then 1171463
      else if a = 1175560 then 1167367
      else if a = 1171456 then 1163271
      else if a = 1167360 then 1159175
      else 0
    kernel_directory := 3222380544
    current_directory := 3222401024 }

/-- A frame allocator with 320 frames of which 318 and 319 are free. -/
def kmmTwoFree : KmmState :=
  { memory_bitmap := fun i => if i < 9 then 4294967295 else if i = 9 then 1073741823 else 0
    total_frames := 320
    used_frames := 318
    bitmap_size := 10 }

/-- A memory manager state with two free frames.  The kernel directory
(frame 282) has a page table in frame 281 at directory index 0; the current
directory (frame 287) shares that entry and has one user page table of its own
(frame 286 at index 1) mapping one page (frame 284). -/
def vmmCloneShared : VmmState :=
  { kmm := kmmTwoFree
    mem := fun a =>
      if a = 1175552 then 1150979
      else if a = 1155072 then 1150979
      else if a = 1175556 then 1171463
      else if a = 1171456 then 1163271
      else 0
    kernel_directory := 3222380544
    current_directory := 3222401024 }

/-- A memory manager state with 32 free frames (288..319).  The kernel
directory (frame 282) is empty; the current directory (frame 287) has one user
page table (frame 286 at directory index 1) mapping one page (frame 284). -/
def vmmCloneable : VmmState :=
  { kmm := kmmSmall
    mem := fun a =>
      if a = 1175556 then 1171463
      else if a = 1171456 then 1163271
      else 0
    kernel_directory := 3222380544
    current_directory := 3222401024 }
/-! ## Physical frame allocator: regions and initialisation -/

/-- The loop of `kmm_setup_memory_region` from `frame` on, with `fuel`
iterations left: every frame below `end_frame` and below `total_frames` is
marked or unmarked and the counter is stepped. -/
def kmm_setup_loop (end_frame : Nat) (is_reserved : Bool) : Nat → KmmState → Nat → KmmState
  | 0, s, _ => s
  | fuel + 1, s, frame =>
    if frame < end_frame ∧ frame < s.total_frames then
      kmm_setup_loop end_frame is_reserved fuel
        (if is_reserved then (mark_frame s frame).incUsed else (unmark_frame s frame).decUsed)
        ((frame + 1) % U32)
    else s

/-- `kmm_setup_memory_region`; `base + size` is a sum of `uint32_t`. The loop
runs at most `end_frame - start_frame` times. -/
def kmm_setup_memory_region (s : KmmState) (base size : Nat) (is_reserved : Bool) : KmmState :=
  kmm_setup_loop ((base + size) % U32 / _KMM_BLOCK_SIZE) is_reserved
    ((base + size) % U32 / _KMM_BLOCK_SIZE - base / _KMM_BLOCK_SIZE) s (base / _KMM_BLOCK_SIZE)

/-- Modelled from the spec: an entry of the firmware memory map, of which
`kmm_init` reads the low words of the base and of the length and the type
("type-1 entries are usable RAM"). -/
structure E820Entry where
  baseLow : Nat
  lengthLow : Nat
  type : Nat

/-- The loop of `kmm_init` over the entries of the memory map. -/
def kmm_init_regions : List E820Entry → KmmState → KmmState
  | [], s => s
  | e :: es, s =>
    kmm_init_regions es
      (if e.type = 1 then kmm_setup_memory_region s e.baseLow e.lengthLow false else s)

/-- Modelled from the spec: `_KMM_BLOCK_ALIGNMENT` of the header `mm/kmm.h`;
the bitmap is "placed immediately above the kernel image, page-aligned". -/
def _KMM_BLOCK_ALIGNMENT : Nat := 4096

/-- `kmm_init`: the static variables after the call. `memLow` and `memHigh`
are the fields of the memory-size structure, `memory_map` the entries of the
memory map, `kernel_start_virt` and `kernel_end_virt` the addresses of the
linker symbols, and `mem` the words found where the bitmap is placed. -/
def kmm_init (memLow memHigh : Nat) (memory_map : List E820Entry)
    (kernel_start_virt kernel_end_virt : Nat) (mem : Nat → Nat) : KmmState :=
  let total_memory := (1024 * 1024 + memLow * 1024 + memHigh * 64 * 1024) % U32
  let total_frames := total_memory / _KMM_BLOCK_SIZE
  let bitmap_size := (total_frames + 31) % U32 / 32
  let kernel_start_phys := VIRT_TO_PHYS kernel_start_virt
  let kernel_end_phys := VIRT_TO_PHYS kernel_end_virt
  let kernel_end_virt_aligned :=
    ((kernel_end_virt + _KMM_BLOCK_ALIGNMENT - 1) % U32) &&& not32 (_KMM_BLOCK_ALIGNMENT - 1)
  let bitmap_phys := VIRT_TO_PHYS kernel_end_virt_aligned
  let s0 : KmmState :=
    { memory_bitmap := fun i => if i < bitmap_size then 4294967295 else mem i
      total_frames := total_frames
      used_frames := total_frames
      bitmap_size := bitmap_size }
  let s1 := kmm_init_regions memory_map s0
  let s2 := kmm_setup_memory_region s1 0 1048576 true
  let kernel_size := (kernel_end_phys + U32 - kernel_start_phys) % U32
  let s3 := kmm_setup_memory_region s2 kernel_start_phys kernel_size true
  let bitmap_memory_size :=
    ((bitmap_size * 4 + _KMM_BLOCK_SIZE - 1) % U32) &&& not32 (_KMM_BLOCK_SIZE - 1)
  kmm_setup_memory_region s3 bitmap_phys bitmap_memory_size true

/-- A memory map with one usable region of 16 KiB at 1 MiB. -/
def mapSmall : List E820Entry := [{ baseLow := 1048576, lengthLow := 16384, type := 1 }]

/-- The allocator after `kmm_init` on a machine of 1 MiB + 16 KiB whose map is
`mapSmall`, with the kernel image at the physical addresses
`[0x100000, 0x100800)`: 260 frames, the bitmap in frame 257. -/
def kmmAfterInit : KmmState :=
  kmm_init 16 0 mapSmall 3222274048 3222276096 (fun _ => 0)
/-! ## Kernel heap: buddy allocator (`mm/kheap.c`)

Heap memory is a function from byte address to byte; the 32-bit fields of the
allocation header `{size, magic}` and of the free-list node `{next, prev}` are
read and written little-endian at the block address and the block address + 4.
A free list is kept as the list of its block addresses, head first; every
pointer store that the C list operations perform is performed on the memory as
well, so that a header read sees what the list operations wrote. -/

/-- `BUDDY_MIN_ORDER`. -/
def BUDDY_MIN_ORDER : Nat := 5

/-- `BUDDY_MAX_ORDER`. -/
def BUDDY_MAX_ORDER : Nat := 20

/-- `BUDDY_MAGIC`, `0xDEADBEEF`. -/
def BUDDY_MAGIC : Nat := 3735928559

/-- `sizeof(alloc_block_hdr)`: two `uint32_t` fields. -/
def HDR_SIZE : Nat := 8

/-- Little-endian load of a `uint32_t` from byte memory. -/
def load32 (m : Nat → Nat) (a : Nat) : Nat :=
  m a % 256 + 256 * (m (a + 1) % 256) + 65536 * (m (a + 2) % 256) + 16777216 * (m (a + 3) % 256)

/-- Little-endian store of a `uint32_t` to byte memory. -/
def store32 (m : Nat → Nat) (a v : Nat) : Nat → Nat :=
  fun x =>
    if x = a then v % 256
    else if x = a + 1 then v / 256 % 256
    else if x = a + 2 then v / 65536 % 256
    else if x = a + 3 then v / 16777216 % 256
    else m x

/-- `memcpy(dst, src, n)` on byte memory. -/
def memcpy (m : Nat → Nat) (dst src n : Nat) : Nat → Nat :=
  fun x => if dst ≤ x ∧ x < dst + n then m (src + (x - dst)) else m x

/-- The `buddy_state_t` of a heap together with the heap memory. -/
structure BuddyState where
  base : Nat
  size : Nat
  min_order : Nat
  max_order : Nat
  free_lists : Nat → List Nat
  mem : Nat → Nat

/-- `log2_floor`: the loop `while(val > 1){ val >>= 1; order++; }`, which runs
at most 32 times on a 32-bit value. -/
def log2_floor_loop : Nat → Nat → Nat → Nat
  | 0, _, order => order
  | fuel + 1, val, order =>
    if val > 1 then log2_floor_loop fuel (val >>> 1) (order + 1) else order

/-- `log2_floor`. -/
def log2_floor (val : Nat) : Nat := log2_floor_loop 32 val 0

/-- `order_to_size`: `1UL << order` on a 32-bit `size_t`. -/
def order_to_size (order : Nat) : Nat := (1 <<< order) % U32

/-- `get_buddy_addr`: `base + ((block - base) ^ size)` in 32-bit arithmetic. -/
def get_buddy_addr (base block size : Nat) : Nat :=
  (base + (((block + (U32 - base % U32)) % U32) ^^^ size)) % U32

/-- The state with the free list of one order replaced. -/
def BuddyState.setList (s : BuddyState) (order : Nat) (l : List Nat) : BuddyState :=
  { s with free_lists := fun k => if k = order then l else s.free_lists k }

/-- The state with the memory replaced. -/
def BuddyState.setMem (s : BuddyState) (m : Nat → Nat) : BuddyState :=
  { s with mem := m }

/-- `list_push(&free_lists[order], node)`: `node->next = *head`,
`node->prev = NULL`, `(*head)->prev = node` when the list is not empty,
`*head = node`. -/
def list_push (s : BuddyState) (order node : Nat) : BuddyState :=
  match s.free_lists order with
  | [] =>
    (s.setMem (store32 (store32 s.mem node 0) (node + 4) 0)).setList order [node]
  | h :: rest =>
    (s.setMem (store32 (store32 (store32 s.mem node h) (node + 4) 0) (h + 4) node)).setList
      order (node :: h :: rest)

/-- `list_pop(&free_lists[order])`: returns the head (NULL for an empty list),
makes its successor the head and clears the successor's `prev`. -/
def list_pop (s : BuddyState) (order : Nat) : BuddyState × Nat :=
  match s.free_lists order with
  | [] => (s, 0)
  | node :: [] => (s.setList order [], node)
  | node :: h :: rest => ((s.setMem (store32 s.mem (h + 4) 0)).setList order (h :: rest), node)

/-- The pointer stores of `list_remove` for a node between the list segments
`pre` (reversed: its head is the predecessor) and `post` (its head is the
successor): `prev->next = next` and `next->prev = prev`. -/
def list_remove_mem (m : Nat → Nat) (pre post : List Nat) : Nat → Nat :=
  let m1 := match pre with
    | [] => m
    | p :: _ => store32 m p (post.headD 0)
  match post with
  | [] => m1
  | n :: _ => store32 m1 (n + 4) (pre.headD 0)

/-- Walks the list to the node: returns the memory after the stores of
`list_remove`, `pre` being the nodes already passed, most recent first. -/
def list_remove_walk (m : Nat → Nat) (node : Nat) : List Nat → List Nat → Nat → Nat
  | _, [] => m
  | pre, x :: post =>
    if x = node then list_remove_mem m pre post else list_remove_walk m node (x :: pre) post

/-- `list_remove(&free_lists[order], node)` for a node that is on the list. -/
def list_remove (s : BuddyState) (order node : Nat) : BuddyState :=
  (s.setMem (list_remove_walk s.mem node [] (s.free_lists order))).setList order
    ((s.free_lists order).erase node)

/-- `buddy_init`: all lists empty except the list of `max_order`, which holds
the block at `base` with both links NULL. -/
def buddy_init (mem : Nat → Nat) (base size min_order max_order : Nat) : BuddyState :=
  { base := base
    size := size
    min_order := min_order
    max_order := max_order
    free_lists := fun k => if k = max_order then [base] else []
    mem := store32 (store32 mem base 0) (base + 4) 0 }

/-- The first loop of `kmalloc`:
`while(order_to_size(order) < total_size && order <= max_order) order++`. -/
def kmalloc_order (max_order total_size : Nat) : Nat → Nat → Nat
  | 0, order => order
  | fuel + 1, order =>
    if order_to_size order < total_size ∧ order ≤ max_order then
      kmalloc_order max_order total_size fuel (order + 1)
    else order

/-- The second loop of `kmalloc`:
`while(current_order <= max_order && !free_lists[current_order]) current_order++`. -/
def kmalloc_find (s : BuddyState) : Nat → Nat → Nat
  | 0, current_order => current_order
  | fuel + 1, current_order =>
    if current_order ≤ s.max_order ∧ s.free_lists current_order = [] then
      kmalloc_find s fuel (current_order + 1)
    else current_order

/-- The split loop of `kmalloc`, `while(current_order > order)`: pops the head
of the current order and pushes its two halves, the second half last, on the
order below. -/
def kmalloc_split (order : Nat) : Nat → BuddyState → Nat → BuddyState
  | 0, s, _ => s
  | fuel + 1, s, current_order =>
    if current_order > order then
      let r := list_pop s current_order
      let half_size := order_to_size (current_order - 1)
      let first_half := r.2
      let second_half := (first_half + half_size) % U32
      let s1 := list_push r.1 (current_order - 1) first_half
      let s2 := list_push s1 (current_order - 1) second_half
      kmalloc_split order fuel s2 (current_order - 1)
    else s

/-- `kmalloc`: the new state and the returned pointer (NULL on failure). -/
def kmalloc (s : BuddyState) (size : Nat) : BuddyState × Nat :=
  if size = 0 then (s, 0)
  else
    let total_size := (((size + HDR_SIZE) % U32 + 7) % U32) &&& not32 7
    let order := kmalloc_order s.max_order total_size (s.max_order + 2) s.min_order
    if order > s.max_order then (s, 0)
    else
      let current_order := kmalloc_find s (s.max_order + 2) order
      if current_order > s.max_order then (s, 0)
      else
        let s1 := kmalloc_split order (current_order - order) s current_order
        let r := list_pop s1 order
        let block := r.2
        let m1 := store32 r.1.mem block (order_to_size order)
        let m2 := store32 m1 (block + 4) BUDDY_MAGIC
        (r.1.setMem m2, (block + HDR_SIZE) % U32)

/-- The coalescing loop of `kfree`, `while(order < max_order)`: returns the
state, the block address and the order at which the block is to be pushed. -/
def kfree_merge : Nat → BuddyState → Nat → Nat → Nat → BuddyState × Nat × Nat
  | 0, s, block_addr, _, order => (s, block_addr, order)
  | fuel + 1, s, block_addr, block_size, order =>
    if order < s.max_order then
      let buddy_addr := get_buddy_addr s.base block_addr block_size
      if buddy_addr ∈ s.free_lists order then
        let s1 := list_remove s order buddy_addr
        let block_addr1 := if buddy_addr < block_addr then buddy_addr else block_addr
        kfree_merge fuel s1 block_addr1 ((block_size * 2) % U32) (order + 1)
      else (s, block_addr, order)
    else (s, block_addr, order)

/-- `kfree`. -/
def kfree (s : BuddyState) (ptr : Nat) : BuddyState :=
  if ptr = 0 then s
  else
    let hdr_addr := (ptr + (U32 - HDR_SIZE)) % U32
    if load32 s.mem (hdr_addr + 4) ≠ BUDDY_MAGIC then s
    else
      let block_size := load32 s.mem hdr_addr
      let order := log2_floor block_size
      let s1 := s.setMem (store32 s.mem (hdr_addr + 4) 0)
      let r := kfree_merge s.max_order s1 hdr_addr block_size order
      let s2 := r.1.setMem (store32 (store32 r.1.mem r.2.1 0) (r.2.1 + 4) 0)
      list_push s2 r.2.2 r.2.1

/-- `krealloc`: the new state and the returned pointer. -/
def krealloc (s : BuddyState) (ptr new_size : Nat) : BuddyState × Nat :=
  if ptr = 0 then kmalloc s new_size
  else if new_size = 0 then (kfree s ptr, 0)
  else
    let hdr_addr := (ptr + (U32 - HDR_SIZE)) % U32
    if load32 s.mem (hdr_addr + 4) ≠ BUDDY_MAGIC then (s, 0)
    else
      let required_size := (new_size + HDR_SIZE) % U32
      if required_size ≤ load32 s.mem hdr_addr then (s, ptr)
      else
        let r := kmalloc s new_size
        if r.2 = 0 then (r.1, 0)
        else
          let copy_size0 := (load32 r.1.mem hdr_addr + (U32 - HDR_SIZE)) % U32
          let copy_size := if copy_size0 > new_size then new_size else copy_size0
          let s1 := r.1.setMem (memcpy r.1.mem r.2 ptr copy_size)
          (kfree s1 ptr, r.2)

/-- One call on the heap: `kmalloc(n)`, `kfree` of the pointer that call number
`i` of the sequence returned, `krealloc` of that pointer to `n` bytes. -/
inductive HeapOp where
  | malloc (n : Nat)
  | free (i : Nat)
  | realloc (i n : Nat)

/-- An allocator state together with the pointers returned so far, one per call
(0 for a call that returns nothing), and the pointers that are live. -/
structure HeapTrace where
  heap : BuddyState
  returned : List Nat
  live : List Nat

/-- Performs one call. A `kfree` or `krealloc` of a pointer that is not live is
not a step. -/
def heap_step (t : HeapTrace) : HeapOp → Option HeapTrace
  | HeapOp.malloc n =>
    let r := kmalloc t.heap n
    some { heap := r.1, returned := t.returned ++ [r.2],
           live := if r.2 = 0 then t.live else t.live ++ [r.2] }
  | HeapOp.free i =>
    let p := t.returned.getD i 0
    if p ∈ t.live then
      some { heap := kfree t.heap p, returned := t.returned ++ [0], live := t.live.erase p }
    else none
  | HeapOp.realloc i n =>
    let p := t.returned.getD i 0
    if p ∈ t.live then
      let r := krealloc t.heap p n
      some { heap := r.1, returned := t.returned ++ [r.2],
             live := if r.2 = p then t.live
                     else if r.2 = 0 then (if n = 0 then t.live.erase p else t.live)
                     else t.live.erase p ++ [r.2] }
    else none

/-- Performs a sequence of calls. -/
def heap_run (t : HeapTrace) : List HeapOp → Option HeapTrace
  | [] => some t
  | op :: ops => (heap_step t op).bind (fun t1 => heap_run t1 ops)

/-- The trace of a freshly initialised heap. -/
def heap_fresh (mem : Nat → Nat) (base size min_order max_order : Nat) : HeapTrace :=
  { heap := buddy_init mem base size min_order max_order, returned := [], live := [] }

/-- Two blocks, given by address and size, overlap. -/
def blocksOverlap (b1 b2 : Nat × Nat) : Bool :=
  decide (b1.1 < b2.1 + b2.2) && decide (b2.1 < b1.1 + b1.2)

/-- The blocks on the free lists of the orders up to `max_order`, each with
its size. -/
def freeBlocks (s : BuddyState) : List (Nat × Nat) :=
  (List.range (s.max_order + 1)).flatMap (fun k => (s.free_lists k).map (fun a => (a, 2 ^ k)))

/-- The blocks of the live allocations: the header address and the size the
header holds. -/
def liveBlocks (t : HeapTrace) : List (Nat × Nat) :=
  t.live.map (fun p => (p - HDR_SIZE, load32 t.heap.mem (p - HDR_SIZE)))

/-- No two blocks of the list overlap. -/
def noOverlap : List (Nat × Nat) → Bool
  | [] => true
  | b :: bs => bs.all (fun c => !blocksOverlap b c) && noOverlap bs

/-- The free lists are coalesced-maximal: below `max_order` no block has its
buddy on the same list. -/
def coalesced (s : BuddyState) : Bool :=
  (List.range s.max_order).all (fun k =>
    (s.free_lists k).all (fun a => !(s.free_lists k).contains (get_buddy_addr s.base a (2 ^ k))))

/-- The `next` fields in memory chain the blocks of the list in order and end
with NULL. -/
def chainOk (m : Nat → Nat) : List Nat → Bool
  | [] => true
  | x :: rest => (load32 m x == rest.headD 0) && chainOk m rest

/-- A heap memory in which the eight bytes at `addr` hold the little-endian
words `w0` and `w1` and every other byte is zero. -/
def memWithWords (addr w0 w1 : Nat) : Nat → Nat :=
  store32 (store32 (fun _ => 0) addr w0) (addr + 4) w1

/-- A fresh heap of 512 bytes at address 4224 (orders 5 to 9), the bytes at
heap offset 416 holding the words 128 and `BUDDY_MAGIC`. -/
def heapForged128 : HeapTrace :=
  heap_fresh (memWithWords 4640 128 BUDDY_MAGIC) 4224 572 5 9

/-- A fresh heap of 512 bytes at address 4224 (orders 5 to 9), the bytes at
heap offset 416 holding the words 96 and `BUDDY_MAGIC`. -/
def heapForged96 : HeapTrace :=
  heap_fresh (memWithWords 4640 96 BUDDY_MAGIC) 4224 572 5 9

/-! ### Example heaps -/

/-- A fresh heap of 512 bytes at address 4224 (orders 5 to 9) in zeroed
memory. -/
def heapFresh512 : BuddyState := buddy_init (fun _ => 0) 4224 512 5 9

/-- The heap of 64 bytes at address 4224 (orders 5 and 6) after a first
`kmalloc(24)`, which returns the pointer 4264: the block at 4224 is free and
the header `{32, 0xDEADBEEF}` is at 4256. -/
def heapOneLive : BuddyState :=
  { base := 4224, size := 64, min_order := 5, max_order := 6
    free_lists := fun k => if k = 5 then [4224] else []
    mem := memWithWords 4256 32 BUDDY_MAGIC }


/-- The first call of the sequence `a = kmalloc(24)`, `b = kmalloc(24)`,
`kfree(a)`, `kfree(b)`, `c = kmalloc(56)` on the state `s`: the state after
the call and the pointer `a`. -/
def pairA (s : BuddyState) : BuddyState × Nat := kmalloc s 24

/-- The second call of the sequence: the state after it and the pointer `b`. -/
def pairB (s : BuddyState) : BuddyState × Nat := kmalloc (pairA s).1 24

/-- The state after the third call of the sequence, `kfree(a)`. -/
def pairFreeA (s : BuddyState) : BuddyState := kfree (pairB s).1 (pairA s).2

/-- The state after the fourth call of the sequence, `kfree(b)`. -/
def pairFreeB (s : BuddyState) : BuddyState := kfree (pairFreeA s) (pairB s).2

/-- The last call of the sequence: the state after it and the pointer `c`. -/
def pairC (s : BuddyState) : BuddyState × Nat := kmalloc (pairFreeB s) 56

/-- The heap is as when initialised: its only free block is the block of the
largest order at the base. -/
structure FreshShape (s : BuddyState) (base M : Nat) : Prop where
  base_eq : s.base = base
  max_eq : s.max_order = M
  min_eq : s.min_order = BUDDY_MIN_ORDER
  lists : ∀ j, s.free_lists j = if j = M then [base] else []

/-- The top `2 ^ c` bytes of the heap are allocated and the rest is free in
one block per order from `c` on, each below the next smaller one. -/
structure TopShape (s : BuddyState) (base M c : Nat) : Prop where
  base_eq : s.base = base
  max_eq : s.max_order = M
  min_eq : s.min_order = BUDDY_MIN_ORDER
  lists : ∀ j, s.free_lists j = if c ≤ j ∧ j < M then [base + 2 ^ M - 2 ^ (j + 1)] else []
/-! ## Kernel heap: `kheap_init` and the invariant of the buddy allocator -/

/-- `sizeof(buddy_state_t)`: four 32-bit fields and the 21 heads of the free
lists. -/
def BUDDY_STATE_SIZE : Nat := 100

/-- `kheap_init`: the buddy state that it builds at the start of the region
`[start, start + size)`; `mem` is the memory of the region before the call.
The heap descriptor `heap_t` and the page mappings that the call makes are not
part of the model. -/
def kheap_init (mem : Nat → Nat) (start size : Nat) : BuddyState :=
  let aligned_start := ((start + 4095) % U32) &&& not32 4095
  let min_block_size := order_to_size BUDDY_MIN_ORDER
  let aligned_start1 :=
    ((aligned_start + min_block_size + (U32 - 1)) % U32) &&& not32 (min_block_size - 1)
  let usable_size := (size + (U32 - (aligned_start1 + (U32 - start % U32)) % U32)) % U32
  let usable_size1 := (usable_size / min_block_size * min_block_size) % U32
  let aligned_start2 := (aligned_start1 + BUDDY_STATE_SIZE) % U32
  let usable_size2 := (usable_size1 + (U32 - BUDDY_STATE_SIZE)) % U32
  let aligned_start3 :=
    ((aligned_start2 + min_block_size + (U32 - 1)) % U32) &&& not32 (min_block_size - 1)
  let max_order :=
    if log2_floor usable_size2 > BUDDY_MAX_ORDER then BUDDY_MAX_ORDER
    else log2_floor usable_size2
  buddy_init mem aligned_start3 usable_size2 BUDDY_MIN_ORDER max_order

/-- The trace of a heap that `kheap_init` has just set up. -/
def kheap_trace (mem : Nat → Nat) (start size : Nat) : HeapTrace :=
  { heap := kheap_init mem start size, returned := [], live := [] }

/-- The size that a `krealloc` call asks for leaves room for the header and
the rounding in 32 bits; the other calls carry no condition. -/
def reallocFits : HeapOp → Bool
  | HeapOp.realloc _ n => decide (n + 15 < U32)
  | _ => true

/-- The call is a `kmalloc` or a `kfree`. -/
def notRealloc : HeapOp → Bool
  | HeapOp.realloc _ _ => false
  | _ => true

/-- The block of the order `k` at `a` is a block of the heap: it lies in the
block of the largest order at the base, at an offset from the base that is a
multiple of its size. -/
def Blk (s : BuddyState) (k a : Nat) : Prop :=
  k ≤ s.max_order ∧ s.base ≤ a ∧ (a - s.base) % 2 ^ k = 0 ∧
    a + 2 ^ k ≤ s.base + 2 ^ s.max_order

/-- The byte at `x` lies in a block of a free list. -/
def InFree (s : BuddyState) (x : Nat) : Prop :=
  ∃ k a, a ∈ s.free_lists k ∧ a ≤ x ∧ x < a + 2 ^ k

/-- The invariant of the allocator for the live pointers `live`, of which the
pointer `p` has a block of the order `ord p`: the heap block lies in the
address space; the free blocks are blocks of the heap, no list holds a block
twice, no two free blocks overlap and no free block has its buddy on its list;
the header of every live pointer holds the size of its block and the magic
number, and the live blocks overlap neither each other nor a free block. -/
structure HeapInv (s : BuddyState) (live : List Nat) (ord : Nat → Nat) : Prop where
  fit : s.base + 2 ^ s.max_order ≤ U32
  max_le : s.max_order ≤ BUDDY_MAX_ORDER
  min_ge : 4 ≤ s.min_order
  free_blk : ∀ k a, a ∈ s.free_lists k → Blk s k a ∧ s.min_order ≤ k
  free_nodup : ∀ k, (s.free_lists k).Nodup
  free_disj : ∀ k a k2 a2, a ∈ s.free_lists k → a2 ∈ s.free_lists k2 → (k ≠ k2 ∨ a ≠ a2) →
    a + 2 ^ k ≤ a2 ∨ a2 + 2 ^ k2 ≤ a
  coal : ∀ k a, k < s.max_order → a ∈ s.free_lists k →
    get_buddy_addr s.base a (2 ^ k) ∉ s.free_lists k
  live_hdr : ∀ p, p ∈ live →
    load32 s.mem (p - 8) = 2 ^ ord p ∧ load32 s.mem (p - 8 + 4) = BUDDY_MAGIC ∧ 8 ≤ p ∧
      s.min_order ≤ ord p ∧ Blk s (ord p) (p - 8)
  live_nodup : live.Nodup
  live_disj : ∀ p q, p ∈ live → q ∈ live → p ≠ q →
    p - 8 + 2 ^ ord p ≤ q - 8 ∨ q - 8 + 2 ^ ord q ≤ p - 8
  live_free : ∀ p k a, p ∈ live → a ∈ s.free_lists k →
    a + 2 ^ k ≤ p - 8 ∨ p - 8 + 2 ^ ord p ≤ a

/-- A sequence of calls on the heap that `kheap_init` sets up in the 672 bytes
at 4096 (base 4224, orders 5 to 9): `a = kmalloc(24)`, `b = kmalloc(56)`,
`kfree(a)`. -/
def opsThree : List HeapOp := [HeapOp.malloc 24, HeapOp.malloc 56, HeapOp.free 0]

/-- The heap of 672 bytes at 4096 after the calls `opsThree`: `b` is live at
4616, and the blocks at 4672, 4480 and 4224 are free on the orders 6, 7
and 8. -/
def heapThreeCalls : HeapTrace :=
  (heap_run (kheap_trace (fun _ => 0) 4096 672) opsThree).getD
    (kheap_trace (fun _ => 0) 4096 672)

/-- A sequence of calls with a `krealloc`: `a = kmalloc(24)`, `b = kmalloc(56)`,
`kfree(a)`, `c = krealloc(b, 200)`, `d = kmalloc(8)`. -/
def opsFive : List HeapOp :=
  [HeapOp.malloc 24, HeapOp.malloc 56, HeapOp.free 0, HeapOp.realloc 1 200, HeapOp.malloc 8]

/-- The heap of 672 bytes at 4096 after the calls `opsFive`. -/
def heapFiveCalls : HeapTrace :=
  (heap_run (kheap_trace (fun _ => 0) 4096 672) opsFive).getD
    (kheap_trace (fun _ => 0) 4096 672)

/-- A sequence of calls whose `krealloc` asks for `0xFFFFFFF5` bytes:
`b = kmalloc(56)`, `a = kmalloc(56)`, `krealloc(a, 0xFFFFFFF5)`. -/
def opsWrapped : List HeapOp :=
  [HeapOp.malloc 56, HeapOp.malloc 56, HeapOp.realloc 1 4294967285]
/-! ## Hierarchical file system (`filesys/hfs.c`)

A block buffer (`union block`) is a function from byte index to byte, of which
the indices below `BLOCK_SIZE` are meaningful; its views (`inodes`, `bitmap`,
`directory_block`, `data`, `pointers`) read the same bytes. Strings are lists
of non-zero bytes. -/

/-- Modelled from the spec: the constants of `fs/hfs.h`. The block size, the
number of direct pointers of an inode and the size of the name field of a
directory entry are parameters; the sizes derived below follow the spec's
record layouts with little-endian 32-bit fields. -/
structure HfsLayout where
  BLOCK_SIZE : Nat
  INODE_DIRECT_POINTERS : Nat
  DIRECTORY_NAME_SIZE : Nat
  VNODE_NAME_SIZE : Nat

/-- Modelled from the spec: `sizeof(struct inode)`, the record
`{is_directory, size, direct_pointers[N], single_indirect_pointer}`. -/
def HfsLayout.INODE_SIZE (L : HfsLayout) : Nat := 4 * L.INODE_DIRECT_POINTERS + 12

/-- Modelled from the spec: `INODES_PER_BLOCK`. -/
def HfsLayout.INODES_PER_BLOCK (L : HfsLayout) : Nat := L.BLOCK_SIZE / L.INODE_SIZE

/-- Modelled from the spec: `sizeof(struct directory_entry)`, the record
`{name[DIRECTORY_NAME_SIZE], inode_number}`. -/
def HfsLayout.DIRENT_SIZE (L : HfsLayout) : Nat := L.DIRECTORY_NAME_SIZE + 4

/-- Modelled from the spec: `DIRECTORY_ENTRIES_PER_BLOCK`. -/
def HfsLayout.DIRECTORY_ENTRIES_PER_BLOCK (L : HfsLayout) : Nat := L.BLOCK_SIZE / L.DIRENT_SIZE

/-- Modelled from the spec: `INODE_INDIRECT_POINTERS_PER_BLOCK`, the number of
`uint16_t` block numbers in a block. -/
def HfsLayout.INODE_INDIRECT_POINTERS_PER_BLOCK (L : HfsLayout) : Nat := L.BLOCK_SIZE / 2

/-- The value of a 32-bit unsigned number converted to `int32_t`. -/
def toInt32 (x : Nat) : Int :=
  if x % U32 < 2147483648 then ((x % U32 : Nat) : Int) else ((x % U32 : Nat) : Int) - 4294967296

/-- The value of an `int32_t` converted to `uint32_t`. -/
def toU32 (z : Int) : Nat := (z % 4294967296).toNat

/-- Little-endian load of a `uint16_t` from a byte buffer. -/
def load16 (m : Nat → Nat) (a : Nat) : Nat := m a % 256 + 256 * (m (a + 1) % 256)

/-- Little-endian store of a `uint16_t` to a byte buffer. -/
def store16 (m : Nat → Nat) (a v : Nat) : Nat → Nat :=
  fun x => if x = a then v % 256 else if x = a + 1 then v / 256 % 256 else m x

/-- The buffer `dst` after `memcpy(dst + doff, src + soff, n)`. -/
def copy_bytes (dst : Nat → Nat) (doff : Nat) (src : Nat → Nat) (soff n : Nat) : Nat → Nat :=
  fun x => if doff ≤ x ∧ x < doff + n then src (soff + (x - doff)) else dst x

/-- The buffer `dst` after `memset(dst + doff, 0, n)`. -/
def zero_bytes (dst : Nat → Nat) (doff n : Nat) : Nat → Nat :=
  fun x => if doff ≤ x ∧ x < doff + n then 0 else dst x

/-- A block buffer after `memset(&blk, 0, sizeof(union block))`. -/
def zero_block : Nat → Nat := fun _ => 0

/-- Modelled from the spec: a block device is its number of blocks and their
contents; `blkread` and `blkwrite` return 0 for a block number below the
number of blocks and a negative value otherwise. -/
structure BlockDevice where
  num_blocks : Nat
  blocks : Nat → Nat → Nat

/-- Modelled from the spec: `blkread`; `none` is a negative return. -/
def blkread (dev : BlockDevice) (block_no : Nat) : Option (Nat → Nat) :=
  if block_no < dev.num_blocks then some (dev.blocks block_no) else none

/-- Modelled from the spec: `blkwrite`; `none` is a negative return. -/
def blkwrite (dev : BlockDevice) (block_no : Nat) (buf : Nat → Nat) : Option BlockDevice :=
  if block_no < dev.num_blocks then
    some { dev with blocks := fun b => if b = block_no then buf else dev.blocks b }
  else none

/-- The `struct superblock`. -/
structure Superblock where
  s_magic : Nat
  s_blocks_count : Nat
  s_inodes_count : Nat
  s_block_bitmap : Nat
  s_inode_bitmap : Nat
  s_inode_table_block_start : Nat
  s_data_blocks_start : Nat

/-- The `struct hfs_data` of a mounted file system: the device, the copy of
the superblock and the two in-memory bitmaps (byte buffers of one block). -/
structure HfsData where
  device : BlockDevice
  sb : Superblock
  block_bitmap : Nat → Nat
  inode_bitmap : Nat → Nat

/-- The `struct inode` in memory. -/
structure Inode where
  i_is_directory : Nat
  i_size : Nat
  i_direct_pointers : List Nat
  i_single_indirect_pointer : Nat
deriving DecidableEq

/-- A `struct inode` after `memset(&inode, 0, sizeof(struct inode))`. -/
def zero_inode (L : HfsLayout) : Inode :=
  { i_is_directory := 0, i_size := 0,
    i_direct_pointers := List.replicate L.INODE_DIRECT_POINTERS 0,
    i_single_indirect_pointer := 0 }

/-- The `struct inode` read from a buffer at byte offset `off`. -/
def inode_load (L : HfsLayout) (blk : Nat → Nat) (off : Nat) : Inode :=
  { i_is_directory := load32 blk off
    i_size := load32 blk (off + 4)
    i_direct_pointers :=
      (List.range L.INODE_DIRECT_POINTERS).map (fun k => load32 blk (off + 8 + 4 * k))
    i_single_indirect_pointer := load32 blk (off + 8 + 4 * L.INODE_DIRECT_POINTERS) }

/-- Stores the direct pointers `k, k + 1, ...` of the list at `off + 4 * k`. -/
def store_pointers (blk : Nat → Nat) (off : Nat) : List Nat → Nat → Nat → Nat
  | [], _ => blk
  | p :: ps, k => store_pointers (store32 blk (off + 4 * k) p) off ps (k + 1)

/-- The buffer after a `struct inode` is copied to byte offset `off`. -/
def inode_store (L : HfsLayout) (blk : Nat → Nat) (off : Nat) (ino : Inode) : Nat → Nat :=
  store32
    (store_pointers (store32 (store32 blk off ino.i_is_directory) (off + 4) ino.i_size)
      (off + 8) (ino.i_direct_pointers.take L.INODE_DIRECT_POINTERS) 0)
    (off + 8 + 4 * L.INODE_DIRECT_POINTERS) ino.i_single_indirect_pointer

/-- `get_bit`. -/
def get_bit (bitmap : Nat → Nat) (bit_index : Nat) : Nat :=
  (load32 bitmap (4 * (bit_index / 32)) >>> (bit_index % 32)) &&& 1

/-- `set_bit`. -/
def set_bit (bitmap : Nat → Nat) (bit_index : Nat) : Nat → Nat :=
  store32 bitmap (4 * (bit_index / 32))
    (load32 bitmap (4 * (bit_index / 32)) ||| (1 <<< (bit_index % 32)))

/-- `clear_bit`. -/
def clear_bit (bitmap : Nat → Nat) (bit_index : Nat) : Nat → Nat :=
  store32 bitmap (4 * (bit_index / 32))
    (load32 bitmap (4 * (bit_index / 32)) &&& not32 (1 <<< (bit_index % 32)))

/-- The loop of `find_free_bit_from`. -/
def find_free_bit_loop (bitmap : Nat → Nat) (max_bits : Nat) : Nat → Nat → Int
  | 0, _ => -1
  | fuel + 1, i =>
    if i < max_bits then
      if get_bit bitmap i = 0 then toInt32 i else find_free_bit_loop bitmap max_bits fuel (i + 1)
    else -1

/-- `find_free_bit_from`: the first clear bit in `[start, max_bits)`, or -1. -/
def find_free_bit_from (bitmap : Nat → Nat) (start max_bits : Nat) : Int :=
  find_free_bit_loop bitmap max_bits (max_bits - start) start

/-- `sync_bitmaps_from_disk`. -/
def sync_bitmaps_from_disk (hfs : HfsData) : HfsData :=
  let hfs1 := match blkread hfs.device hfs.sb.s_block_bitmap with
    | some b => { hfs with block_bitmap := b }
    | none => hfs
  match blkread hfs1.device hfs1.sb.s_inode_bitmap with
  | some b => { hfs1 with inode_bitmap := b }
  | none => hfs1

/-- `alloc_block`: the new state and the block number, or -1. -/
def alloc_block (hfs : HfsData) : HfsData × Int :=
  let block := find_free_bit_from hfs.block_bitmap hfs.sb.s_data_blocks_start hfs.sb.s_blocks_count
  let r : HfsData × Int :=
    if block < 0 then
      match blkread hfs.device hfs.sb.s_block_bitmap with
      | some b =>
        ({ hfs with block_bitmap := b },
          find_free_bit_from b hfs.sb.s_data_blocks_start hfs.sb.s_blocks_count)
      | none => (hfs, block)
    else (hfs, block)
  if r.2 < 0 then (r.1, -1)
  else
    let bm := set_bit r.1.block_bitmap (toU32 r.2)
    match blkwrite r.1.device r.1.sb.s_block_bitmap bm with
    | none => ({ r.1 with block_bitmap := clear_bit bm (toU32 r.2) }, -1)
    | some dev => ({ r.1 with device := dev, block_bitmap := bm }, r.2)

/-- `free_block`. -/
def free_block (hfs : HfsData) (block_num : Nat) : HfsData :=
  if block_num < hfs.sb.s_data_blocks_start ∨ block_num ≥ hfs.sb.s_blocks_count then hfs
  else
    let bm := clear_bit hfs.block_bitmap block_num
    match blkwrite hfs.device hfs.sb.s_block_bitmap bm with
    | none => { hfs with block_bitmap := bm }
    | some dev => { hfs with device := dev, block_bitmap := bm }

/-- `alloc_inode`: the new state and the inode number, or -1. -/
def alloc_inode (hfs : HfsData) : HfsData × Int :=
  let inode_num := find_free_bit_from hfs.inode_bitmap 1 hfs.sb.s_inodes_count
  let r : HfsData × Int :=
    if inode_num < 0 then
      match blkread hfs.device hfs.sb.s_inode_bitmap with
      | some b =>
        ({ hfs with inode_bitmap := b }, find_free_bit_from b 1 hfs.sb.s_inodes_count)
      | none => (hfs, inode_num)
    else (hfs, inode_num)
  if r.2 < 0 then (r.1, -1)
  else
    let bm := set_bit r.1.inode_bitmap (toU32 r.2)
    match blkwrite r.1.device r.1.sb.s_inode_bitmap bm with
    | none => ({ r.1 with inode_bitmap := clear_bit bm (toU32 r.2) }, -1)
    | some dev => ({ r.1 with device := dev, inode_bitmap := bm }, r.2)

/-- `free_inode`. -/
def free_inode (hfs : HfsData) (inode_num : Nat) : HfsData :=
  if inode_num = 0 ∨ inode_num ≥ hfs.sb.s_inodes_count then hfs
  else
    let bm := clear_bit hfs.inode_bitmap inode_num
    match blkwrite hfs.device hfs.sb.s_inode_bitmap bm with
    | none => { hfs with inode_bitmap := bm }
    | some dev => { hfs with device := dev, inode_bitmap := bm }

/-- `read_inode`; `none` is the return value -1. -/
def read_inode (L : HfsLayout) (hfs : HfsData) (inode_num : Nat) : Option Inode :=
  if inode_num ≥ hfs.sb.s_inodes_count then none
  else
    match blkread hfs.device
        ((hfs.sb.s_inode_table_block_start + inode_num / L.INODES_PER_BLOCK) % U32) with
    | none => none
    | some blk => some (inode_load L blk (inode_num % L.INODES_PER_BLOCK * L.INODE_SIZE))

/-- `write_inode`: the new state and the return value. -/
def write_inode (L : HfsLayout) (hfs : HfsData) (inode_num : Nat) (ino : Inode) :
    HfsData × Int :=
  if inode_num ≥ hfs.sb.s_inodes_count then (hfs, -1)
  else
    let block_num := (hfs.sb.s_inode_table_block_start + inode_num / L.INODES_PER_BLOCK) % U32
    match blkread hfs.device block_num with
    | none => (hfs, -1)
    | some blk =>
      match blkwrite hfs.device block_num
          (inode_store L blk (inode_num % L.INODES_PER_BLOCK * L.INODE_SIZE) ino) with
      | none => (hfs, -1)
      | some dev => ({ hfs with device := dev }, 0)

/-- `get_block_for_offset`. -/
def get_block_for_offset (L : HfsLayout) (hfs : HfsData) (inode : Inode) (offset : Nat) : Int :=
  let block_index := offset / L.BLOCK_SIZE
  if block_index < L.INODE_DIRECT_POINTERS then
    toInt32 (inode.i_direct_pointers.getD block_index 0)
  else if inode.i_single_indirect_pointer = 0 then 0
  else if block_index - L.INODE_DIRECT_POINTERS ≥ L.INODE_INDIRECT_POINTERS_PER_BLOCK then 0
  else
    match blkread hfs.device inode.i_single_indirect_pointer with
    | none => -1
    | some indirect_blk =>
      (load16 indirect_blk (2 * (block_index - L.INODE_DIRECT_POINTERS)) : Nat)

/-- `alloc_block_for_offset`: the new state, the updated inode and the number
of the new block, or -1. -/
def alloc_block_for_offset (L : HfsLayout) (hfs : HfsData) (inode : Inode) (offset : Nat) :
    HfsData × Inode × Int :=
  let block_index := offset / L.BLOCK_SIZE
  let a := alloc_block hfs
  if a.2 < 0 then (a.1, inode, -1)
  else
    match blkwrite a.1.device (toU32 a.2) zero_block with
    | none => (free_block a.1 (toU32 a.2), inode, -1)
    | some dev1 =>
      let hfs1 := { a.1 with device := dev1 }
      if block_index < L.INODE_DIRECT_POINTERS then
        (hfs1, { inode with i_direct_pointers :=
                   inode.i_direct_pointers.set block_index (toU32 a.2) }, a.2)
      else if block_index - L.INODE_DIRECT_POINTERS ≥ L.INODE_INDIRECT_POINTERS_PER_BLOCK then
        (free_block hfs1 (toU32 a.2), inode, -1)
      else
        let r : Option (HfsData × Inode) :=
          if inode.i_single_indirect_pointer = 0 then
            let b := alloc_block hfs1
            if b.2 < 0 then none
            else some (b.1, { inode with i_single_indirect_pointer := toU32 b.2 })
          else some (hfs1, inode)
        match r with
        | none => (free_block (alloc_block hfs1).1 (toU32 a.2), inode, -1)
        | some (hfs2, inode2) =>
          let z : Option HfsData :=
            if inode.i_single_indirect_pointer = 0 then
              match blkwrite hfs2.device inode2.i_single_indirect_pointer zero_block with
              | none => none
              | some dev => some { hfs2 with device := dev }
            else some hfs2
          match z with
          | none =>
            (free_block (free_block hfs2 inode2.i_single_indirect_pointer) (toU32 a.2),
              { inode2 with i_single_indirect_pointer := 0 }, -1)
          | some hfs3 =>
            match blkread hfs3.device inode2.i_single_indirect_pointer with
            | none => (free_block hfs3 (toU32 a.2), inode2, -1)
            | some indirect_blk =>
              match blkwrite hfs3.device inode2.i_single_indirect_pointer
                  (store16 indirect_blk (2 * (block_index - L.INODE_DIRECT_POINTERS))
                    (toU32 a.2)) with
              | none => (free_block hfs3 (toU32 a.2), inode2, -1)
              | some dev => ({ hfs3 with device := dev }, inode2, a.2)

/-- The character `/`. -/
def SLASH : Nat := 47

/-- `find_last_slash`: the index of the last `/` of the string, if any. -/
def find_last_slash_loop : List Nat → Nat → Option Nat → Option Nat
  | [], _, last => last
  | c :: cs, i, last => find_last_slash_loop cs (i + 1) (if c = SLASH then some i else last)

/-- `find_last_slash`. -/
def find_last_slash (str : List Nat) : Option Nat := find_last_slash_loop str 0 none

/-- `split_path` with the buffers of its callers, `parent[256]` and
`filename[DIRECTORY_NAME_SIZE]`: the parent path and the final name, or `none`
when a copy runs over the end of its buffer. -/
def split_path (L : HfsLayout) (path : List Nat) : Option (List Nat × List Nat) :=
  let r : List Nat × List Nat :=
    match find_last_slash path with
    | none => ([SLASH], path)
    | some last_slash =>
      if last_slash = 0 then ([SLASH], path.drop 1)
      else (path.take last_slash, path.drop (last_slash + 1))
  if r.1.length < 256 ∧ r.2.length < L.DIRECTORY_NAME_SIZE then some r else none

/-- `strcmp(m + off, name) == 0` for a string `name` of non-zero bytes: the
bytes at `off` are those of `name`, followed by a zero byte. -/
def strcmp_eq (m : Nat → Nat) (off : Nat) : List Nat → Bool
  | [] => m off == 0
  | c :: cs => m off == c && strcmp_eq m (off + 1) cs

/-- The `inode_number` of entry `j` of a directory block. -/
def dirent_inode_number (L : HfsLayout) (blk : Nat → Nat) (j : Nat) : Nat :=
  load32 blk (j * L.DIRENT_SIZE + L.DIRECTORY_NAME_SIZE)

/-- The directory block after entry `j` receives the name, by
`strncpy(name, DIRECTORY_NAME_SIZE - 1)` and a final zero byte, and the inode
number. -/
def dirent_set (L : HfsLayout) (blk : Nat → Nat) (j : Nat) (name : List Nat) (inode_num : Nat) :
    Nat → Nat :=
  store32
    (fun x =>
      if j * L.DIRENT_SIZE ≤ x ∧ x < j * L.DIRENT_SIZE + (L.DIRECTORY_NAME_SIZE - 1) then
        name.getD (x - j * L.DIRENT_SIZE) 0
      else if x = j * L.DIRENT_SIZE + (L.DIRECTORY_NAME_SIZE - 1) then 0
      else blk x)
    (j * L.DIRENT_SIZE + L.DIRECTORY_NAME_SIZE) inode_num

/-- The inner loop of `find_dir_entry`: the inode number of the first entry
from `j` on that is in use and has the name. -/
def find_dir_entry_block (L : HfsLayout) (blk : Nat → Nat) (name : List Nat) :
    Nat → Nat → Option Nat
  | 0, _ => none
  | fuel + 1, j =>
    if dirent_inode_number L blk j ≠ 0 ∧ strcmp_eq blk (j * L.DIRENT_SIZE) name = true then
      some (dirent_inode_number L blk j)
    else find_dir_entry_block L blk name fuel (j + 1)

/-- The outer loop of `find_dir_entry` over the block indices from `i` on. -/
def find_dir_entry_loop (L : HfsLayout) (hfs : HfsData) (dir_inode : Inode) (name : List Nat) :
    Nat → Nat → Int
  | 0, _ => -1
  | fuel + 1, i =>
    let block_num := get_block_for_offset L hfs dir_inode (i * L.BLOCK_SIZE % U32)
    if block_num ≤ 0 then find_dir_entry_loop L hfs dir_inode name fuel (i + 1)
    else
      match blkread hfs.device (toU32 block_num) with
      | none => find_dir_entry_loop L hfs dir_inode name fuel (i + 1)
      | some blk =>
        match find_dir_entry_block L blk name L.DIRECTORY_ENTRIES_PER_BLOCK 0 with
        | some inum => toInt32 inum
        | none => find_dir_entry_loop L hfs dir_inode name fuel (i + 1)

/-- `find_dir_entry`. -/
def find_dir_entry (L : HfsLayout) (hfs : HfsData) (dir_inode : Inode) (name : List Nat) : Int :=
  if dir_inode.i_is_directory = 0 then -1
  else
    find_dir_entry_loop L hfs dir_inode name
      ((dir_inode.i_size + L.BLOCK_SIZE - 1) % U32 / L.BLOCK_SIZE) 0

/-- The first unused entry of a directory block from `j` on. -/
def find_free_entry (L : HfsLayout) (blk : Nat → Nat) : Nat → Nat → Option Nat
  | 0, _ => none
  | fuel + 1, j =>
    if dirent_inode_number L blk j = 0 then some j else find_free_entry L blk fuel (j + 1)

/-- The first loop of `add_dir_entry` over the block indices from `i` on: the
state, the directory inode and the value returned from inside the loop, `none`
when the loop ends without returning. -/
def add_dir_entry_loop (L : HfsLayout) (name : List Nat) (inode_num : Nat) :
    Nat → HfsData → Inode → Nat → HfsData × Inode × Option Int
  | 0, hfs, dir_inode, _ => (hfs, dir_inode, none)
  | fuel + 1, hfs, dir_inode, i =>
    let block_num0 := get_block_for_offset L hfs dir_inode (i * L.BLOCK_SIZE % U32)
    let a : HfsData × Inode × Int :=
      if block_num0 = 0 then alloc_block_for_offset L hfs dir_inode (i * L.BLOCK_SIZE % U32)
      else (hfs, dir_inode, block_num0)
    if block_num0 = 0 ∧ a.2.2 < 0 then (a.1, a.2.1, some (-1))
    else
      match blkread a.1.device (toU32 a.2.2) with
      | none => add_dir_entry_loop L name inode_num fuel a.1 a.2.1 (i + 1)
      | some blk =>
        match find_free_entry L blk L.DIRECTORY_ENTRIES_PER_BLOCK 0 with
        | none => add_dir_entry_loop L name inode_num fuel a.1 a.2.1 (i + 1)
        | some j =>
          match blkwrite a.1.device (toU32 a.2.2) (dirent_set L blk j name inode_num) with
          | none => (a.1, a.2.1, some (-1))
          | some dev =>
            let new_size := (i * L.BLOCK_SIZE + (j + 1) * L.DIRENT_SIZE) % U32
            ({ a.1 with device := dev },
              (if a.2.1.i_size < new_size then { a.2.1 with i_size := new_size } else a.2.1),
              some 0)

/-- `add_dir_entry`: the new state, the updated directory inode and the return
value. -/
def add_dir_entry (L : HfsLayout) (hfs : HfsData) (dir_inode : Inode) (name : List Nat)
    (inode_num : Nat) : HfsData × Inode × Int :=
  if dir_inode.i_is_directory = 0 then (hfs, dir_inode, -1)
  else
    let num_blocks0 := (dir_inode.i_size + L.BLOCK_SIZE - 1) % U32 / L.BLOCK_SIZE
    let num_blocks := if num_blocks0 = 0 then 1 else num_blocks0
    match add_dir_entry_loop L name inode_num num_blocks hfs dir_inode 0 with
    | (hfs1, dir_inode1, some r) => (hfs1, dir_inode1, r)
    | (hfs1, dir_inode1, none) =>
      let new_block_offset := num_blocks * L.BLOCK_SIZE % U32
      let a := alloc_block_for_offset L hfs1 dir_inode1 new_block_offset
      if a.2.2 < 0 then (a.1, a.2.1, -1)
      else
        match blkwrite a.1.device (toU32 a.2.2) (dirent_set L zero_block 0 name inode_num) with
        | none => (a.1, a.2.1, -1)
        | some dev =>
          ({ a.1 with device := dev },
            { a.2.1 with i_size := (new_block_offset + L.DIRENT_SIZE) % U32 }, 0)

/-- The tokens that `strtok_r` with the delimiter `/` returns for a string:
its maximal runs of bytes other than `/`; `acc` is the run being read,
reversed. -/
def strtok_tokens : List Nat → List Nat → List (List Nat)
  | [], acc => if acc = [] then [] else [acc.reverse]
  | c :: cs, acc =>
    if c = SLASH then
      if acc = [] then strtok_tokens cs [] else acc.reverse :: strtok_tokens cs []
    else strtok_tokens cs (c :: acc)

/-- The loop of `resolve_path` over the tokens. -/
def resolve_path_loop (L : HfsLayout) (hfs : HfsData) : List (List Nat) → Nat → Int
  | [], current_inode_num => toInt32 current_inode_num
  | token :: rest, current_inode_num =>
    match read_inode L hfs current_inode_num with
    | none => -1
    | some current_inode =>
      if current_inode.i_is_directory = 0 then -1
      else
        let next_inode := find_dir_entry L hfs current_inode token
        if next_inode < 0 then -1
        else resolve_path_loop L hfs rest (toU32 next_inode)

/-- `resolve_path`: the path is copied to a buffer of 256 bytes, one leading
`/` is skipped and the tokens are looked up in turn from inode 0. -/
def resolve_path (L : HfsLayout) (hfs : HfsData) (path : List Nat) : Int :=
  if path = [] then -1
  else if path = [SLASH] then 0
  else
    let path_copy := path.take 255
    let p := if path_copy.head? = some SLASH then path_copy.drop 1 else path_copy
    resolve_path_loop L hfs (strtok_tokens p []) 0

/-- `hfs_create` on a mounted file system; `none` when `split_path` runs over
a buffer. -/
def hfs_create (L : HfsLayout) (hfs0 : HfsData) (path : List Nat) : Option (HfsData × Int) :=
  let hfs := sync_bitmaps_from_disk hfs0
  match split_path L path with
  | none => none
  | some (parent_path, filename) =>
    if filename.length = 0 then some (hfs, -1)
    else
      let parent_inode_num := resolve_path L hfs parent_path
      if parent_inode_num < 0 then some (hfs, -1)
      else
        match read_inode L hfs (toU32 parent_inode_num) with
        | none => some (hfs, -1)
        | some parent_inode =>
          if parent_inode.i_is_directory = 0 then some (hfs, -1)
          else if find_dir_entry L hfs parent_inode filename ≥ 0 then some (hfs, -1)
          else
            let a := alloc_inode hfs
            if a.2 < 0 then some (a.1, -1)
            else
              let w := write_inode L a.1 (toU32 a.2) (zero_inode L)
              if w.2 < 0 then some (free_inode w.1 (toU32 a.2), -1)
              else
                let d := add_dir_entry L w.1 parent_inode filename (toU32 a.2)
                if d.2.2 < 0 then some (free_inode d.1 (toU32 a.2), -1)
                else
                  let w2 := write_inode L d.1 (toU32 parent_inode_num) d.2.1
                  if w2.2 < 0 then some (w2.1, -1) else some (w2.1, 0)

/-- The type of a vnode. -/
inductive VnodeType where
  | V_FILE
  | V_DIRECTORY
deriving DecidableEq

/-- The vnode of an open file: its name, type and flags, and the inode number
held in its `data`. The vnode and its `data` are heap objects; their
allocation is taken to succeed. -/
structure Vnode where
  name : List Nat
  type : VnodeType
  flags : Nat
  inode_num : Nat
deriving DecidableEq

/-- `hfs_open` on a mounted file system; `none` is NULL. -/
def hfs_open (L : HfsLayout) (hfs : HfsData) (path : List Nat) (flags : Nat) : Option Vnode :=
  let inode_num := resolve_path L hfs path
  if inode_num < 0 then none
  else
    match read_inode L hfs (toU32 inode_num) with
    | none => none
    | some inode =>
      let filename := match find_last_slash path with
        | some i => path.drop (i + 1)
        | none => path
      some { name := filename.take (L.VNODE_NAME_SIZE - 1)
             type := if inode.i_is_directory ≠ 0 then VnodeType.V_DIRECTORY else VnodeType.V_FILE
             flags := flags
             inode_num := toU32 inode_num }

/-- `hfs_close`. -/
def hfs_close (node : Option Vnode) : Int :=
  match node with
  | none => -1
  | some _ => 0

/-- The loop of `hfs_read`, `while(bytes_read < size)`: the buffer and the
return value. Every pass reads at least one byte, so `size` passes suffice. -/
def hfs_read_loop (L : HfsLayout) (hfs : HfsData) (inode : Inode) (offset size : Nat) :
    Nat → (Nat → Nat) → Nat → (Nat → Nat) × Int
  | 0, buffer, bytes_read => (buffer, toInt32 bytes_read)
  | fuel + 1, buffer, bytes_read =>
    if bytes_read < size then
      let current_offset := (offset + bytes_read) % U32
      let block_offset := current_offset % L.BLOCK_SIZE
      let bytes_to_read :=
        if L.BLOCK_SIZE - block_offset > size - bytes_read then size - bytes_read
        else L.BLOCK_SIZE - block_offset
      let block_num := get_block_for_offset L hfs inode current_offset
      if block_num ≤ 0 then
        hfs_read_loop L hfs inode offset size fuel (zero_bytes buffer bytes_read bytes_to_read)
          (bytes_read + bytes_to_read)
      else
        match blkread hfs.device (toU32 block_num) with
        | none => (buffer, if bytes_read > 0 then toInt32 bytes_read else -1)
        | some blk =>
          hfs_read_loop L hfs inode offset size fuel
            (copy_bytes buffer bytes_read blk block_offset bytes_to_read)
            (bytes_read + bytes_to_read)
    else (buffer, toInt32 bytes_read)

/-- `hfs_read` on a mounted file system: the buffer after the call and the
return value. -/
def hfs_read (L : HfsLayout) (hfs : HfsData) (node : Option Vnode) (offset size : Nat)
    (buf : Nat → Nat) : (Nat → Nat) × Int :=
  match node with
  | none => (buf, -1)
  | some nd =>
    match read_inode L hfs nd.inode_num with
    | none => (buf, -1)
    | some inode =>
      if offset ≥ inode.i_size then (buf, 0)
      else
        let size1 := if (offset + size) % U32 > inode.i_size then inode.i_size - offset else size
        hfs_read_loop L hfs inode offset size1 size1 buf 0

/-- The exit of `hfs_write` on a failure inside its loop: the size is advanced
over the bytes written, the inode is rewritten and the short count is
returned. -/
def hfs_write_fail (L : HfsLayout) (hfs : HfsData) (inode_num : Nat) (inode : Inode)
    (offset bytes_written : Nat) : HfsData × Int :=
  let inode1 :=
    if bytes_written > 0 ∧ (offset + bytes_written) % U32 > inode.i_size then
      { inode with i_size := (offset + bytes_written) % U32 }
    else inode
  ((write_inode L hfs inode_num inode1).1, if bytes_written > 0 then toInt32 bytes_written else -1)

/-- The loop of `hfs_write`, `while(bytes_written < size)`, and the code after
it. Every pass writes at least one byte, so `size` passes suffice. -/
def hfs_write_loop (L : HfsLayout) (inode_num offset size : Nat) (buffer : Nat → Nat) :
    Nat → HfsData → Inode → Nat → HfsData × Int
  | 0, hfs, inode, bytes_written =>
    let inode1 :=
      if (offset + bytes_written) % U32 > inode.i_size then
        { inode with i_size := (offset + bytes_written) % U32 }
      else inode
    ((write_inode L hfs inode_num inode1).1, toInt32 bytes_written)
  | fuel + 1, hfs, inode, bytes_written =>
    if bytes_written < size then
      let current_offset := (offset + bytes_written) % U32
      let block_offset := current_offset % L.BLOCK_SIZE
      let bytes_to_write :=
        if L.BLOCK_SIZE - block_offset > size - bytes_written then size - bytes_written
        else L.BLOCK_SIZE - block_offset
      let block_num0 := get_block_for_offset L hfs inode current_offset
      let a : HfsData × Inode × Int :=
        if block_num0 = 0 then alloc_block_for_offset L hfs inode current_offset
        else (hfs, inode, block_num0)
      if block_num0 = 0 ∧ a.2.2 < 0 then hfs_write_fail L a.1 inode_num a.2.1 offset bytes_written
      else
        let hfs1 := if block_num0 = 0 then (write_inode L a.1 inode_num a.2.1).1 else a.1
        let blk0 : Option (Nat → Nat) :=
          if block_offset ≠ 0 ∨ bytes_to_write ≠ L.BLOCK_SIZE then
            blkread hfs1.device (toU32 a.2.2)
          else some zero_block
        match blk0 with
        | none => hfs_write_fail L hfs1 inode_num a.2.1 offset bytes_written
        | some blk =>
          match blkwrite hfs1.device (toU32 a.2.2)
              (copy_bytes blk block_offset buffer bytes_written bytes_to_write) with
          | none => hfs_write_fail L hfs1 inode_num a.2.1 offset bytes_written
          | some dev =>
            hfs_write_loop L inode_num offset size buffer fuel { hfs1 with device := dev } a.2.1
              (bytes_written + bytes_to_write)
    else
      let inode1 :=
        if (offset + bytes_written) % U32 > inode.i_size then
          { inode with i_size := (offset + bytes_written) % U32 }
        else inode
      ((write_inode L hfs inode_num inode1).1, toInt32 bytes_written)

/-- `hfs_write` on a mounted file system: the new state and the return value. -/
def hfs_write (L : HfsLayout) (hfs0 : HfsData) (node : Option Vnode) (offset size : Nat)
    (buf : Nat → Nat) : HfsData × Int :=
  match node with
  | none => (hfs0, -1)
  | some nd =>
    let hfs := sync_bitmaps_from_disk hfs0
    match read_inode L hfs nd.inode_num with
    | none => (hfs, -1)
    | some inode => hfs_write_loop L nd.inode_num offset size buf size hfs inode 0

/-- The sequence `hfs_create(path)`, `hfs_open(path)`,
`hfs_write(node, 0, size, data)`, `hfs_close(node)`, `hfs_open(path)`,
`hfs_read(node, 0, size, q)`: the state after the sequence, the buffer `q`
after the read and the value the read returns. `hfs_close` frees the vnode
and leaves the file system as it is. -/
def hfs_round_trip (L : HfsLayout) (hfs : HfsData) (path : List Nat) (size : Nat)
    (data q : Nat → Nat) : Option (HfsData × (Nat → Nat) × Int) :=
  match hfs_create L hfs path with
  | none => none
  | some c =>
    let node := hfs_open L c.1 path 0
    let w := hfs_write L c.1 node 0 size data
    let node2 := hfs_open L w.1 path 0
    let r := hfs_read L w.1 node2 0 size q
    some (w.1, r.1, r.2)

/-- A small layout: blocks of 32 bytes, one direct pointer, names of up to 3
characters. -/
def hfsSmallLayout : HfsLayout :=
  { BLOCK_SIZE := 32, INODE_DIRECT_POINTERS := 1, DIRECTORY_NAME_SIZE := 4, VNODE_NAME_SIZE := 8 }

/-- A freshly formatted device of 32 blocks for the small layout, mounted:
bitmaps in blocks 1 and 2, the table of 8 inodes in blocks 3 to 6, data from
block 7, which is the first block of the empty root directory. -/
def hfsSmall : HfsData :=
  { device :=
      { num_blocks := 32
        blocks := fun b i =>
          if b = 1 ∧ i = 0 then 255
          else if b = 2 ∧ i = 0 then 1
          else if b = 3 ∧ i = 0 then 1
          else if b = 3 ∧ i = 8 then 7
          else 0 }
    sb := { s_magic := 0, s_blocks_count := 32, s_inodes_count := 8, s_block_bitmap := 1,
            s_inode_bitmap := 2, s_inode_table_block_start := 3, s_data_blocks_start := 7 }
    block_bitmap := fun i => if i = 0 then 255 else 0
    inode_bitmap := fun i => if i = 0 then 1 else 0 }

/-! ## File system: consistency of a mounted file system -/

/-- The fields of an in-memory inode fit their 32-bit words and the array of
direct pointers has its length. -/
structure Inode.Valid (L : HfsLayout) (ino : Inode) : Prop where
  dir_lt : ino.i_is_directory < 4294967296
  size_lt : ino.i_size < 4294967296
  len : ino.i_direct_pointers.length = L.INODE_DIRECT_POINTERS
  ptr_lt : ∀ k, ino.i_direct_pointers.getD k 0 < 4294967296
  ind_lt : ino.i_single_indirect_pointer < 4294967296

/-- The constraints on the layout: an inode and a directory entry fit in a
block, the name field is not empty and the largest file offset fits a signed
32-bit number. -/
structure HfsLayout.Ok (L : HfsLayout) : Prop where
  inode_fits : L.INODE_SIZE ≤ L.BLOCK_SIZE
  dirent_fits : L.DIRENT_SIZE ≤ L.BLOCK_SIZE
  name_pos : 0 < L.DIRECTORY_NAME_SIZE
  file_max :
    (L.INODE_DIRECT_POINTERS + L.INODE_INDIRECT_POINTERS_PER_BLOCK + 1) * L.BLOCK_SIZE
      < 2147483648

/-- The device after block `n` is overwritten with `buf`. -/
def BlockDevice.write (dev : BlockDevice) (n : Nat) (buf : Nat → Nat) : BlockDevice :=
  { dev with blocks := fun b => if b = n then buf else dev.blocks b }

/-- The block bitmap on the device. -/
def HfsData.disk_block_bitmap (hfs : HfsData) : Nat → Nat :=
  hfs.device.blocks hfs.sb.s_block_bitmap

/-- The inode bitmap on the device. -/
def HfsData.disk_inode_bitmap (hfs : HfsData) : Nat → Nat :=
  hfs.device.blocks hfs.sb.s_inode_bitmap

/-- The superblock of a mounted file system describes the device: the blocks
are on the device and covered by the one-block bitmap and by 16-bit block
numbers, the bitmaps and the inode table lie below the data blocks and do not
share a block. -/
structure SbOk (L : HfsLayout) (hfs : HfsData) : Prop where
  blocks_le_dev : hfs.sb.s_blocks_count ≤ hfs.device.num_blocks
  blocks_le_bits : hfs.sb.s_blocks_count ≤ 8 * L.BLOCK_SIZE
  blocks_le_u16 : hfs.sb.s_blocks_count ≤ 65536
  inodes_pos : 0 < hfs.sb.s_inodes_count
  inodes_le_bits : hfs.sb.s_inodes_count ≤ 8 * L.BLOCK_SIZE
  data_pos : 0 < hfs.sb.s_data_blocks_start
  data_le : hfs.sb.s_data_blocks_start ≤ hfs.sb.s_blocks_count
  bbm_lt : hfs.sb.s_block_bitmap < hfs.sb.s_data_blocks_start
  ibm_lt : hfs.sb.s_inode_bitmap < hfs.sb.s_data_blocks_start
  bbm_ne_ibm : hfs.sb.s_block_bitmap ≠ hfs.sb.s_inode_bitmap
  table_lt : ∀ i, i < hfs.sb.s_inodes_count →
    hfs.sb.s_inode_table_block_start + i / L.INODES_PER_BLOCK < hfs.sb.s_data_blocks_start
  table_ne_bbm : ∀ i, i < hfs.sb.s_inodes_count →
    hfs.sb.s_inode_table_block_start + i / L.INODES_PER_BLOCK ≠ hfs.sb.s_block_bitmap
  table_ne_ibm : ∀ i, i < hfs.sb.s_inodes_count →
    hfs.sb.s_inode_table_block_start + i / L.INODES_PER_BLOCK ≠ hfs.sb.s_inode_bitmap

/-- Block `b` is a data block that the block bitmap on the device marks used. -/
def HfsData.dataUsed (hfs : HfsData) (b : Nat) : Prop :=
  hfs.sb.s_data_blocks_start ≤ b ∧ b < hfs.sb.s_blocks_count ∧
    get_bit hfs.disk_block_bitmap b = 1

/-- Inode `i` is in use: it is the root or the inode bitmap on the device
marks it used. -/
def HfsData.inUse (hfs : HfsData) (i : Nat) : Prop :=
  i < hfs.sb.s_inodes_count ∧ (i = 0 ∨ get_bit hfs.disk_inode_bitmap i = 1)

/-- The number of free data blocks, counted as `fs_stat` counts them on the
bitmap of the device. -/
def HfsData.free_blocks (hfs : HfsData) : Nat :=
  (List.range hfs.sb.s_blocks_count).countP
    (fun b => decide (hfs.sb.s_data_blocks_start ≤ b) && decide (get_bit hfs.disk_block_bitmap b = 0))

/-- Block `b` holds data of the inode: a direct pointer or a pointer in the
indirect block refers to it. -/
def dataBlockOf (L : HfsLayout) (hfs : HfsData) (ino : Inode) (b : Nat) : Prop :=
  b ≠ 0 ∧
    ((∃ k, k < L.INODE_DIRECT_POINTERS ∧ ino.i_direct_pointers.getD k 0 = b) ∨
     (ino.i_single_indirect_pointer ≠ 0 ∧
       ∃ k, k < L.INODE_INDIRECT_POINTERS_PER_BLOCK ∧
         load16 (hfs.device.blocks ino.i_single_indirect_pointer) (2 * k) = b))

/-- Block `b` belongs to the inode: it is its indirect block or holds its
data. -/
def refsBlock (L : HfsLayout) (hfs : HfsData) (ino : Inode) (b : Nat) : Prop :=
  b ≠ 0 ∧ (ino.i_single_indirect_pointer = b ∨ dataBlockOf L hfs ino b)

/-- A string of the C program: its bytes are not zero and fit a byte. -/
def CStr (s : List Nat) : Prop := ∀ c, c ∈ s → c ≠ 0 ∧ c < 256

/-- The state after block `b` is marked used in the in-memory block bitmap and
the bitmap is written to the device. -/
def HfsData.markBlock (hfs : HfsData) (b : Nat) : HfsData :=
  { hfs with device := hfs.device.write hfs.sb.s_block_bitmap (set_bit hfs.block_bitmap b),
             block_bitmap := set_bit hfs.block_bitmap b }

/-- The state after inode `i` is marked used in the in-memory inode bitmap and
the bitmap is written to the device. -/
def HfsData.markInode (hfs : HfsData) (i : Nat) : HfsData :=
  { hfs with device := hfs.device.write hfs.sb.s_inode_bitmap (set_bit hfs.inode_bitmap i),
             inode_bitmap := set_bit hfs.inode_bitmap i }

/-- The state after block `b` of the device is overwritten with `buf`. -/
def HfsData.setBlock (hfs : HfsData) (b : Nat) (buf : Nat → Nat) : HfsData :=
  { hfs with device := hfs.device.write b buf }

/-- The block of the inode table that holds inode `i`. -/
def HfsData.tableBlock (L : HfsLayout) (hfs : HfsData) (i : Nat) : Nat :=
  hfs.sb.s_inode_table_block_start + i / L.INODES_PER_BLOCK

/-- The state after inode `i` is overwritten in the inode table. -/
def HfsData.setInode (L : HfsLayout) (hfs : HfsData) (i : Nat) (ino : Inode) : HfsData :=
  hfs.setBlock (hfs.tableBlock L i)
    (inode_store L (hfs.device.blocks (hfs.tableBlock L i))
      (i % L.INODES_PER_BLOCK * L.INODE_SIZE) ino)

/-- The state `h2` comes from `h` by allocations and writes that leave alone
every used data block outside `X` and every inode outside `Y`. -/
structure Frame (L : HfsLayout) (h h2 : HfsData) (X Y : Nat → Prop) : Prop where
  sb_eq : h2.sb = h.sb
  nb_eq : h2.device.num_blocks = h.device.num_blocks
  bits_mono : ∀ b, get_bit h.disk_block_bitmap b = 1 → get_bit h2.disk_block_bitmap b = 1
  ibits_mono : ∀ i, get_bit h.disk_inode_bitmap i = 1 → get_bit h2.disk_inode_bitmap i = 1
  blocks_keep : ∀ b, h.dataUsed b → ¬ X b → h2.device.blocks b = h.device.blocks b
  inodes_keep : ∀ i, ¬ Y i → read_inode L h2 i = read_inode L h i

/-- The in-memory bitmaps are those on the device. -/
def HfsData.Synced (hfs : HfsData) : Prop :=
  hfs.block_bitmap = hfs.disk_block_bitmap ∧ hfs.inode_bitmap = hfs.disk_inode_bitmap

/-- The block that holds block index `k` of the inode, 0 for a hole: the
direct pointer, or the pointer in the indirect block. -/
def bmap (L : HfsLayout) (hfs : HfsData) (ino : Inode) (k : Nat) : Nat :=
  if k < L.INODE_DIRECT_POINTERS then ino.i_direct_pointers.getD k 0
  else if ino.i_single_indirect_pointer = 0 then 0
  else if k - L.INODE_DIRECT_POINTERS ≥ L.INODE_INDIRECT_POINTERS_PER_BLOCK then 0
  else load16 (hfs.device.blocks ino.i_single_indirect_pointer)
    (2 * (k - L.INODE_DIRECT_POINTERS))

/-- Every block of the inode is a data block marked used. -/
def PtrsOk (L : HfsLayout) (hfs : HfsData) (ino : Inode) : Prop :=
  ∀ b, refsBlock L hfs ino b → hfs.dataUsed b

/-- The state `h1` comes from `h` by allocating the free block `nb` and
filling it with zero bytes. -/
structure FreshBlock (L : HfsLayout) (h h1 : HfsData) (nb : Nat) : Prop where
  ge : h.sb.s_data_blocks_start ≤ nb
  lt : nb < h.sb.s_blocks_count
  clear : get_bit h.disk_block_bitmap nb = 0
  eq : h1 = (h.markBlock nb).setBlock nb zero_block

/-- The outcome of a successful `alloc_block_for_offset` for block index `k`:
the new block `nb` was free, is zero and is the block of index `k`; the other
indices keep their blocks; only the bitmap, the new blocks and the indirect
block of the inode are written; a second block is taken only for an indirect
block that the inode did not have. -/
structure AllocAt (L : HfsLayout) (h : HfsData) (ino : Inode) (k : Nat) (h2 : HfsData)
    (ino2 : Inode) (nb : Nat) : Prop where
  fresh_ge : h.sb.s_data_blocks_start ≤ nb
  fresh_lt : nb < h.sb.s_blocks_count
  not_used : ¬ h.dataUsed nb
  frame : Frame L h h2 (fun b => b = ino.i_single_indirect_pointer) (fun _ => False)
  sb : SbOk L h2
  synced : h2.Synced
  free : h.free_blocks ≤ h2.free_blocks + 2
  valid : ino2.Valid L
  dir_eq : ino2.i_is_directory = ino.i_is_directory
  size_eq : ino2.i_size = ino.i_size
  bmap_new : bmap L h2 ino2 k = nb
  bmap_old : ∀ k2, k2 ≠ k → bmap L h2 ino2 k2 = bmap L h ino k2
  zero : h2.device.blocks nb = zero_block
  ptrs : PtrsOk L h2 ino2
  ind_sep : ¬ dataBlockOf L h2 ino2 ino2.i_single_indirect_pointer
  refs_new : ∀ b, refsBlock L h2 ino2 b → refsBlock L h ino b ∨ ¬ h.dataUsed b
  free_one : (k < L.INODE_DIRECT_POINTERS ∨ ino.i_single_indirect_pointer ≠ 0) →
    h.free_blocks ≤ h2.free_blocks + 1
  ind_keep : (k < L.INODE_DIRECT_POINTERS ∨ ino.i_single_indirect_pointer ≠ 0) →
    ino2.i_single_indirect_pointer = ino.i_single_indirect_pointer
  ind_set : L.INODE_DIRECT_POINTERS ≤ k → ino2.i_single_indirect_pointer ≠ 0

/-- Every entry in use of the directory block holds a name that ends inside
its name field. -/
def Terminated (L : HfsLayout) (blk : Nat → Nat) : Prop :=
  ∀ j, j < L.DIRECTORY_ENTRIES_PER_BLOCK → dirent_inode_number L blk j ≠ 0 →
    ∃ l, l < L.DIRECTORY_NAME_SIZE ∧ blk (j * L.DIRENT_SIZE + l) = 0

/-- The value that the scan of `find_dir_entry` obtains at block index `i` of
a directory: the inode number of the first entry of the block with the name,
if the index lies below the size of the directory and has a block. -/
def scanRes (L : HfsLayout) (h : HfsData) (ino : Inode) (t : List Nat) (i : Nat) : Option Nat :=
  if i < (ino.i_size + L.BLOCK_SIZE - 1) / L.BLOCK_SIZE ∧ bmap L h ino i ≠ 0 then
    find_dir_entry_block L (h.device.blocks (bmap L h ino i)) t L.DIRECTORY_ENTRIES_PER_BLOCK 0
  else none

/-- The blocks of an inode are consistent: each is a data block marked used,
the indirect block holds none of the data, and no block holds two indices. -/
structure InodeOk (L : HfsLayout) (h : HfsData) (ino : Inode) : Prop where
  ptrs : PtrsOk L h ino
  ind_sep : ¬ dataBlockOf L h ino ino.i_single_indirect_pointer
  inj : ∀ k k2, bmap L h ino k ≠ 0 → bmap L h ino k = bmap L h ino k2 → k = k2

/-- A directory inode is consistent: its blocks are, its size is at most the
largest size of a file, every entry in use lies below the size of the
directory, names an inode in use and has a name that ends inside the name
field. -/
structure DirInodeOk (L : HfsLayout) (h : HfsData) (ino : Inode) extends InodeOk L h ino :
    Prop where
  size_le : ino.i_size
    ≤ (L.INODE_DIRECT_POINTERS + L.INODE_INDIRECT_POINTERS_PER_BLOCK) * L.BLOCK_SIZE
  term : ∀ b, dataBlockOf L h ino b → Terminated L (h.device.blocks b)
  in_size : ∀ i j, j < L.DIRECTORY_ENTRIES_PER_BLOCK → bmap L h ino i ≠ 0 →
    dirent_inode_number L (h.device.blocks (bmap L h ino i)) j ≠ 0 →
    i * L.BLOCK_SIZE + (j + 1) * L.DIRENT_SIZE ≤ ino.i_size
  targets : ∀ b j, dataBlockOf L h ino b → j < L.DIRECTORY_ENTRIES_PER_BLOCK →
    dirent_inode_number L (h.device.blocks b) j ≠ 0 →
    h.inUse (dirent_inode_number L (h.device.blocks b) j)

/-- The file system on the device is consistent: the superblock describes the
device; the blocks of every inode in use are consistent; every directory in
use is consistent; and no block belongs to two inodes in use. -/
structure HfsOk (L : HfsLayout) (hfs : HfsData) extends SbOk L hfs : Prop where
  inode_ok : ∀ i ino, hfs.inUse i → read_inode L hfs i = some ino → InodeOk L hfs ino
  dir_ok : ∀ i ino, hfs.inUse i → read_inode L hfs i = some ino → ino.i_is_directory ≠ 0 →
    DirInodeOk L hfs ino
  disjoint : ∀ i i2 ino ino2 b, hfs.inUse i → hfs.inUse i2 → i ≠ i2 →
    read_inode L hfs i = some ino → read_inode L hfs i2 = some ino2 →
    refsBlock L hfs ino b → ¬ refsBlock L hfs ino2 b

/-- The outcome of a successful `add_dir_entry`: the scan of the directory
finds the new entry under its name and finds what it found before under every
other name; only the bitmap, new blocks and blocks of the directory are
written. -/
structure DirAdded (L : HfsLayout) (h : HfsData) (pino : Inode) (name : List Nat) (n : Nat)
    (h2 : HfsData) (pino2 : Inode) (i0 : Nat) : Prop where
  frame : Frame L h h2 (refsBlock L h pino) (fun _ => False)
  sb : SbOk L h2
  synced : h2.Synced
  free : h.free_blocks ≤ h2.free_blocks + 2
  valid : pino2.Valid L
  dir_eq : pino2.i_is_directory = pino.i_is_directory
  size_le : pino2.i_size + L.BLOCK_SIZE
    ≤ (L.INODE_DIRECT_POINTERS + L.INODE_INDIRECT_POINTERS_PER_BLOCK + 1) * L.BLOCK_SIZE
  ptrs : PtrsOk L h2 pino2
  found : scanRes L h2 pino2 name i0 = some n
  before : ∀ i2, i2 < i0 → scanRes L h2 pino2 name i2 = none
  other : ∀ t, CStr t → t ≠ name → ∀ i2, scanRes L h2 pino2 t i2 = scanRes L h pino t i2

/-- The result of a scan that takes the first value that `f` has on the
indices `i, i + 1, ...`, as `find_dir_entry` returns it. -/
def scanFrom (f : Nat → Option Nat) : Nat → Nat → Int
  | 0, _ => -1
  | fuel + 1, i =>
    match f i with
    | some r => toInt32 r
    | none => scanFrom f fuel (i + 1)

/-- The tokens that `resolve_path` looks up for a path: those of its first 255
bytes without one leading `/`. -/
def path_tokens (path : List Nat) : List (List Nat) :=
  strtok_tokens
    (if (path.take 255).head? = some SLASH then (path.take 255).drop 1 else path.take 255) []


/-- One more than the number of block indices of an inode. -/
def HfsLayout.MAXB (L : HfsLayout) : Nat :=
  L.INODE_DIRECT_POINTERS + L.INODE_INDIRECT_POINTERS_PER_BLOCK + 1

/-- What a lookup in a directory inode relies on: the blocks of the inode are
data blocks marked used and its size is within the largest size. -/
structure DirLook (L : HfsLayout) (h : HfsData) (ino : Inode) : Prop where
  ptrs : PtrsOk L h ino
  dir : ino.i_is_directory ≠ 0
  size_le : ino.i_size + L.BLOCK_SIZE ≤ L.MAXB * L.BLOCK_SIZE

/-- The state `B` holds the file system `h` with one more entry: every lookup
that succeeds in a directory of `h` gives the same inode in `B`, and the
directory `p` of `B` holds the name `name` for the inode `n`. -/
structure Created (L : HfsLayout) (h : HfsData) (p : Nat) (name : List Nat) (n : Nat)
    (B : HfsData) : Prop where
  sb : SbOk L B
  look : ∀ c ino, h.inUse c → read_inode L h c = some ino → ino.i_is_directory ≠ 0 →
    ∃ ino2, read_inode L B c = some ino2 ∧ DirLook L B ino2 ∧
      ∀ t, CStr t → 0 ≤ find_dir_entry L h ino t →
        find_dir_entry L B ino2 t = find_dir_entry L h ino t
  last : ∃ pino2, read_inode L B p = some pino2 ∧ DirLook L B pino2 ∧
    find_dir_entry L B pino2 name = (n : Int)
/-! ## File system: directories, removal, format and mount -/

/-- `hfs_mkdir` on a mounted file system; `none` when `split_path` runs over
a buffer. -/
def hfs_mkdir (L : HfsLayout) (hfs0 : HfsData) (path : List Nat) : Option (HfsData × Int) :=
  let hfs := sync_bitmaps_from_disk hfs0
  match split_path L path with
  | none => none
  | some (parent_path, dirname) =>
    if dirname.length = 0 then some (hfs, -1)
    else
      let parent_inode_num := resolve_path L hfs parent_path
      if parent_inode_num < 0 then some (hfs, -1)
      else
        match read_inode L hfs (toU32 parent_inode_num) with
        | none => some (hfs, -1)
        | some parent_inode =>
          if parent_inode.i_is_directory = 0 then some (hfs, -1)
          else if find_dir_entry L hfs parent_inode dirname ≥ 0 then some (hfs, -1)
          else
            let a := alloc_inode hfs
            if a.2 < 0 then some (a.1, -1)
            else
              let w := write_inode L a.1 (toU32 a.2) { zero_inode L with i_is_directory := 1 }
              if w.2 < 0 then some (free_inode w.1 (toU32 a.2), -1)
              else
                let d := add_dir_entry L w.1 parent_inode dirname (toU32 a.2)
                if d.2.2 < 0 then some (free_inode d.1 (toU32 a.2), -1)
                else
                  let w2 := write_inode L d.1 (toU32 parent_inode_num) d.2.1
                  if w2.2 < 0 then some (w2.1, -1) else some (w2.1, 0)

/-- The inner loop of `remove_dir_entry`: the index of the first entry from
`j` on that is in use and has the name. -/
def remove_dir_entry_block (L : HfsLayout) (blk : Nat → Nat) (name : List Nat) :
    Nat → Nat → Option Nat
  | 0, _ => none
  | fuel + 1, j =>
    if dirent_inode_number L blk j ≠ 0 ∧ strcmp_eq blk (j * L.DIRENT_SIZE) name = true then
      some j
    else remove_dir_entry_block L blk name fuel (j + 1)

/-- The outer loop of `remove_dir_entry` over the block indices from `i` on:
the first entry with the name is filled with zero bytes and its block is
written back. -/
def remove_dir_entry_loop (L : HfsLayout) (hfs : HfsData) (dir_inode : Inode) (name : List Nat) :
    Nat → Nat → HfsData × Int
  | 0, _ => (hfs, -1)
  | fuel + 1, i =>
    let block_num := get_block_for_offset L hfs dir_inode (i * L.BLOCK_SIZE % U32)
    if block_num ≤ 0 then remove_dir_entry_loop L hfs dir_inode name fuel (i + 1)
    else
      match blkread hfs.device (toU32 block_num) with
      | none => remove_dir_entry_loop L hfs dir_inode name fuel (i + 1)
      | some blk =>
        match remove_dir_entry_block L blk name L.DIRECTORY_ENTRIES_PER_BLOCK 0 with
        | some j =>
          match blkwrite hfs.device (toU32 block_num)
              (zero_bytes blk (j * L.DIRENT_SIZE) L.DIRENT_SIZE) with
          | none => (hfs, 0)
          | some dev => ({ hfs with device := dev }, 0)
        | none => remove_dir_entry_loop L hfs dir_inode name fuel (i + 1)

/-- `remove_dir_entry`: the new state and the return value. -/
def remove_dir_entry (L : HfsLayout) (hfs : HfsData) (dir_inode : Inode) (name : List Nat) :
    HfsData × Int :=
  if dir_inode.i_is_directory = 0 then (hfs, -1)
  else
    remove_dir_entry_loop L hfs dir_inode name
      ((dir_inode.i_size + L.BLOCK_SIZE - 1) % U32 / L.BLOCK_SIZE) 0

/-- The first loop of `free_inode_blocks` over the direct pointers from index
`i` on. -/
def free_direct_loop : Nat → Nat → HfsData → Inode → HfsData × Inode
  | 0, _, hfs, inode => (hfs, inode)
  | fuel + 1, i, hfs, inode =>
    if inode.i_direct_pointers.getD i 0 ≠ 0 then
      free_direct_loop fuel (i + 1) (free_block hfs (inode.i_direct_pointers.getD i 0))
        { inode with i_direct_pointers := inode.i_direct_pointers.set i 0 }
    else free_direct_loop fuel (i + 1) hfs inode

/-- The loop of `free_inode_blocks` over the pointers of the indirect block
from index `i` on. -/
def free_indirect_loop (indirect_blk : Nat → Nat) : Nat → Nat → HfsData → HfsData
  | 0, _, hfs => hfs
  | fuel + 1, i, hfs =>
    free_indirect_loop indirect_blk fuel (i + 1)
      (if load16 indirect_blk (2 * i) ≠ 0 then free_block hfs (load16 indirect_blk (2 * i))
       else hfs)

/-- `free_inode_blocks`: the new state and the inode, whose pointers are set
to zero. -/
def free_inode_blocks (L : HfsLayout) (hfs : HfsData) (inode : Inode) : HfsData × Inode :=
  let d := free_direct_loop L.INODE_DIRECT_POINTERS 0 hfs inode
  if d.2.i_single_indirect_pointer ≠ 0 then
    let hfs1 :=
      match blkread d.1.device d.2.i_single_indirect_pointer with
      | some indirect_blk =>
        free_indirect_loop indirect_blk L.INODE_INDIRECT_POINTERS_PER_BLOCK 0 d.1
      | none => d.1
    (free_block hfs1 d.2.i_single_indirect_pointer, { d.2 with i_single_indirect_pointer := 0 })
  else d

/-- The string that starts at byte `off` of a buffer and ends before the first
zero byte, read within a field of `fuel` bytes; `none` when the field holds
no zero byte. -/
def cstr_at (m : Nat → Nat) : Nat → Nat → Option (List Nat)
  | 0, _ => none
  | fuel + 1, off =>
    if m off = 0 then some []
    else
      match cstr_at m fuel (off + 1) with
      | none => none
      | some s => some (m off :: s)

/-- The loop of `hfs_remove` over the entries from `j` on of a block of the
directory `path`, as it was read: every entry in use whose path fits
`child_path[512]` is removed by `rm`, the recursive call, whose return value
is not looked at. `none` when a name is not ended inside its field or a call
gives `none`. -/
def hfs_remove_entries (L : HfsLayout) (rm : HfsData → List Nat → Option HfsData)
    (path : List Nat) (blk : Nat → Nat) : Nat → Nat → HfsData → Option HfsData
  | 0, _, hfs => some hfs
  | fuel + 1, j, hfs =>
    if dirent_inode_number L blk j ≠ 0 then
      match cstr_at blk L.DIRECTORY_NAME_SIZE (j * L.DIRENT_SIZE) with
      | none => none
      | some name =>
        if path.length + 1 + name.length + 1 < 512 then
          match rm hfs (path ++ SLASH :: name) with
          | none => none
          | some hfs1 => hfs_remove_entries L rm path blk fuel (j + 1) hfs1
        else hfs_remove_entries L rm path blk fuel (j + 1) hfs
    else hfs_remove_entries L rm path blk fuel (j + 1) hfs

/-- The loop of `hfs_remove` over the block indices from `i` on of the
directory that is removed. -/
def hfs_remove_children (L : HfsLayout) (rm : HfsData → List Nat → Option HfsData)
    (path : List Nat) (target_inode : Inode) : Nat → Nat → HfsData → Option HfsData
  | 0, _, hfs => some hfs
  | fuel + 1, i, hfs =>
    let block_num := get_block_for_offset L hfs target_inode (i * L.BLOCK_SIZE % U32)
    if block_num ≤ 0 then hfs_remove_children L rm path target_inode fuel (i + 1) hfs
    else
      match blkread hfs.device (toU32 block_num) with
      | none => hfs_remove_children L rm path target_inode fuel (i + 1) hfs
      | some blk =>
        match hfs_remove_entries L rm path blk L.DIRECTORY_ENTRIES_PER_BLOCK 0 hfs with
        | none => none
        | some hfs1 => hfs_remove_children L rm path target_inode fuel (i + 1) hfs1

/-- The part of `hfs_remove` after the loop over the children: the blocks of
the inode and the inode are freed and the entry is removed from the parent
directory; `none` when `split_path` runs over a buffer. -/
def hfs_remove_finish (L : HfsLayout) (hfs1 : HfsData) (target_inode : Inode) (inode_num : Nat)
    (path : List Nat) : Option (HfsData × Int) :=
  let hfs2 := free_inode (free_inode_blocks L hfs1 target_inode).1 inode_num
  match split_path L path with
  | none => none
  | some (parent_path, filename) =>
    let parent_inode_num := resolve_path L hfs2 parent_path
    if parent_inode_num ≥ 0 then
      match read_inode L hfs2 (toU32 parent_inode_num) with
      | some parent_inode =>
        some ((write_inode L (remove_dir_entry L hfs2 parent_inode filename).1
          (toU32 parent_inode_num) parent_inode).1, 0)
      | none => some (hfs2, 0)
    else some (hfs2, 0)

/-- `hfs_remove` with a bound on the depth of its recursion: the new state and
the return value. `none` when the bound is reached, when `split_path` runs
over a buffer or when a name in a directory is not ended inside its field. -/
def hfs_remove_depth (L : HfsLayout) : Nat → HfsData → List Nat → Option (HfsData × Int)
  | 0, _, _ => none
  | depth + 1, hfs, path =>
    let inode_num := resolve_path L hfs path
    if inode_num < 0 then some (hfs, -1)
    else if inode_num = 0 then some (hfs, -1)
    else
      match read_inode L hfs (toU32 inode_num) with
      | none => some (hfs, -1)
      | some target_inode =>
        let c : Option HfsData :=
          if target_inode.i_is_directory ≠ 0 then
            hfs_remove_children L (fun h p => (hfs_remove_depth L depth h p).map Prod.fst) path
              target_inode ((target_inode.i_size + L.BLOCK_SIZE - 1) % U32 / L.BLOCK_SIZE) 0 hfs
          else some hfs
        match c with
        | none => none
        | some hfs1 => hfs_remove_finish L hfs1 target_inode (toU32 inode_num) path

/-- `hfs_remove` on a mounted file system. A call for a child has a path that
is longer than the path of its directory and shorter than 512 bytes, so the
depth of the recursion stays below 512. -/
def hfs_remove (L : HfsLayout) (hfs : HfsData) (path : List Nat) : Option (HfsData × Int) :=
  hfs_remove_depth L 512 hfs path

/-- Modelled from the spec: the `struct superblock` in a block, seven
little-endian 32-bit fields in the order `{magic, block_count, inode_count,
block_bitmap_blk, inode_bitmap_blk, inode_table_start, data_blocks_start}`. -/
def sb_store (blk : Nat → Nat) (sb : Superblock) : Nat → Nat :=
  store32 (store32 (store32 (store32 (store32 (store32 (store32 blk 0 sb.s_magic)
    4 sb.s_blocks_count) 8 sb.s_inodes_count) 12 sb.s_block_bitmap) 16 sb.s_inode_bitmap)
    20 sb.s_inode_table_block_start) 24 sb.s_data_blocks_start

/-- Modelled from the spec: the `struct superblock` read from a block. -/
def sb_load (blk : Nat → Nat) : Superblock :=
  { s_magic := load32 blk 0, s_blocks_count := load32 blk 4, s_inodes_count := load32 blk 8,
    s_block_bitmap := load32 blk 12, s_inode_bitmap := load32 blk 16,
    s_inode_table_block_start := load32 blk 20, s_data_blocks_start := load32 blk 24 }

/-- The loop of `hfs_format` that sets the bits `i, i + 1, ...` below `n`. -/
def format_set_bits (n : Nat) : Nat → Nat → (Nat → Nat) → Nat → Nat
  | 0, _, bm => bm
  | fuel + 1, i, bm => if i < n then format_set_bits n fuel (i + 1) (set_bit bm i) else bm

/-- The loop of `hfs_format` that clears the blocks `start + i, ...` of the
inode table: the device after the loop and whether every write succeeded. The
loop stops at the first write that fails; the blocks cleared before it stay
cleared. -/
def format_clear_table (start inode_blocks : Nat) :
    Nat → Nat → BlockDevice → BlockDevice × Bool
  | 0, _, dev => (dev, true)
  | fuel + 1, i, dev =>
    if i < inode_blocks then
      match blkwrite dev ((start + i) % U32) zero_block with
      | none => (dev, false)
      | some dev1 => format_clear_table start inode_blocks fuel (i + 1) dev1
    else (dev, true)

/-- The superblock that `hfs_format` writes to a device of `num_blocks`
blocks; `magic` is the constant `HFS_MAGIC`. -/
def format_sb (L : HfsLayout) (magic num_blocks : Nat) : Superblock :=
  let n0 := num_blocks / 4 % U32
  let num_inodes := if n0 < 64 then 64 else if n0 > 4096 then 4096 else n0
  let inode_blocks := (num_inodes * L.INODE_SIZE + L.BLOCK_SIZE - 1) % U32 / L.BLOCK_SIZE
  { s_magic := magic, s_blocks_count := num_blocks % U32, s_inodes_count := num_inodes,
    s_block_bitmap := 1, s_inode_bitmap := 2, s_inode_table_block_start := 3,
    s_data_blocks_start := (3 + inode_blocks) % U32 }

/-- `hfs_format` of a device whose block size is `BLOCK_SIZE`, with no file
system mounted: the device after the call and the return value. The writes
made before a failed write stay on the device. -/
def hfs_format (L : HfsLayout) (magic : Nat) (dev : BlockDevice) : BlockDevice × Int :=
  let sb := format_sb L magic dev.num_blocks
  match blkwrite dev 0 (sb_store zero_block sb) with
  | none => (dev, -1)
  | some dev1 =>
    let bmap_block := format_set_bits sb.s_data_blocks_start sb.s_data_blocks_start 0 zero_block
    match blkwrite dev1 sb.s_block_bitmap bmap_block with
    | none => (dev1, -1)
    | some dev2 =>
      match blkwrite dev2 sb.s_inode_bitmap (set_bit zero_block 0) with
      | none => (dev2, -1)
      | some dev3 =>
        let inode_blocks := (sb.s_inodes_count * L.INODE_SIZE + L.BLOCK_SIZE - 1) % U32 / L.BLOCK_SIZE
        match format_clear_table sb.s_inode_table_block_start inode_blocks inode_blocks 0 dev3 with
        | (dev4, false) => (dev4, -1)
        | (dev4, true) =>
          let root_data_block := sb.s_data_blocks_start
          match blkwrite dev4 sb.s_block_bitmap (set_bit bmap_block root_data_block) with
          | none => (dev4, -1)
          | some dev5 =>
            match blkwrite dev5 root_data_block zero_block with
            | none => (dev5, -1)
            | some dev6 =>
              let root_inode : Inode :=
                { zero_inode L with
                  i_is_directory := 1
                  i_direct_pointers := (zero_inode L).i_direct_pointers.set 0 root_data_block }
              match blkwrite dev6 sb.s_inode_table_block_start
                  (inode_store L zero_block 0 root_inode) with
              | none => (dev6, -1)
              | some dev7 => (dev7, 0)

/-- `hfs_mount`: the `struct hfs_data` of the mounted file system, `none` for
NULL; `magic` is the constant `HFS_MAGIC`. The allocations of the heap are
taken to succeed. -/
def hfs_mount (magic : Nat) (dev : BlockDevice) : Option HfsData :=
  match blkread dev 0 with
  | none => none
  | some sb_block =>
    if (sb_load sb_block).s_magic ≠ magic then none
    else
      match blkread dev (sb_load sb_block).s_block_bitmap with
      | none => none
      | some bmap_block =>
        match blkread dev (sb_load sb_block).s_inode_bitmap with
        | none => none
        | some ibmap_block =>
          some { device := dev, sb := sb_load sb_block, block_bitmap := bmap_block,
                 inode_bitmap := ibmap_block }

/-- The counting loops of `fs_stat`: the number of clear bits of the bitmap
among the bits `i, i + 1, ...` below `n`, added to `acc`. -/
def fs_stat_count (bitmap : Nat → Nat) (n : Nat) : Nat → Nat → Nat → Nat
  | 0, _, acc => acc
  | fuel + 1, i, acc =>
    if i < n then
      fs_stat_count bitmap n fuel (i + 1) (if get_bit bitmap i = 0 then (acc + 1) % U32 else acc)
    else acc

/-- `fs_stat`: the numbers of free data blocks and of free inodes that it
logs, counted on the in-memory bitmaps. -/
def fs_stat (hfs : HfsData) : Nat × Nat :=
  (fs_stat_count hfs.block_bitmap hfs.sb.s_blocks_count
      (hfs.sb.s_blocks_count - hfs.sb.s_data_blocks_start) hfs.sb.s_data_blocks_start 0,
   fs_stat_count hfs.inode_bitmap hfs.sb.s_inodes_count (hfs.sb.s_inodes_count - 1) 1 0)
/-! ## File system: the contents of a mounted file system -/

/-- The contents of a mounted file system: the two bitmaps, the inodes of the
inode table and the data blocks. -/
structure View where
  bbm : Nat → Nat
  ibm : Nat → Nat
  inode : Nat → Inode
  data : Nat → Nat → Nat

/-- The state `h` of a mounted file system with the superblock `sb0` on a
device of `nblk` blocks holds the contents `v`: each bitmap is `v`'s in memory
and on the device, the inode table holds `v`'s inodes and the data blocks are
`v`'s. -/
structure Rep (L : HfsLayout) (sb0 : Superblock) (nblk : Nat) (h : HfsData) (v : View) :
    Prop where
  sb_eq : h.sb = sb0
  nb_eq : h.device.num_blocks = nblk
  ok : SbOk L h
  bbm_mem : h.block_bitmap = v.bbm
  bbm_disk : h.disk_block_bitmap = v.bbm
  ibm_mem : h.inode_bitmap = v.ibm
  ibm_disk : h.disk_inode_bitmap = v.ibm
  inode : ∀ i, i < sb0.s_inodes_count → read_inode L h i = some (v.inode i)
  data : ∀ b, sb0.s_data_blocks_start ≤ b → h.device.blocks b = v.data b

/-- The state `h2` has the superblock and the number of blocks of `h`. -/
def SameSb (h h2 : HfsData) : Prop :=
  h2.sb = h.sb ∧ h2.device.num_blocks = h.device.num_blocks

/-- The state after inode `i` is marked free in the in-memory inode bitmap and
the bitmap is written to the device. -/
def HfsData.unmarkInode (hfs : HfsData) (i : Nat) : HfsData :=
  { hfs with device := hfs.device.write hfs.sb.s_inode_bitmap (clear_bit hfs.inode_bitmap i),
             inode_bitmap := clear_bit hfs.inode_bitmap i }

/-- The state after block `b` is marked free in the in-memory block bitmap and
the bitmap is written to the device. -/
def HfsData.unmarkBlock (hfs : HfsData) (b : Nat) : HfsData :=
  { hfs with device := hfs.device.write hfs.sb.s_block_bitmap (clear_bit hfs.block_bitmap b),
             block_bitmap := clear_bit hfs.block_bitmap b }

/-- Every value of the buffer is a byte. -/
def Bytes (m : Nat → Nat) : Prop := ∀ x, m x < 256

/-- The inode of an empty directory or file, as `hfs_mkdir` and `hfs_create`
write it. -/
def new_inode (L : HfsLayout) (is_directory : Nat) : Inode :=
  { zero_inode L with i_is_directory := is_directory }

/-- The inode of a directory or file whose first block is `b` and whose size
is `size`. -/
def one_block_inode (L : HfsLayout) (is_directory b size : Nat) : Inode :=
  { i_is_directory := is_directory, i_size := size,
    i_direct_pointers := (zero_inode L).i_direct_pointers.set 0 b,
    i_single_indirect_pointer := 0 }

/-- The common body of `hfs_create` and `hfs_mkdir`, which differ in the inode
`new_inode` that they write for the new name. -/
def make_node (L : HfsLayout) (new_inode : Inode) (hfs0 : HfsData) (path : List Nat) :
    Option (HfsData × Int) :=
  let hfs := sync_bitmaps_from_disk hfs0
  match split_path L path with
  | none => none
  | some (parent_path, filename) =>
    if filename.length = 0 then some (hfs, -1)
    else
      let parent_inode_num := resolve_path L hfs parent_path
      if parent_inode_num < 0 then some (hfs, -1)
      else
        match read_inode L hfs (toU32 parent_inode_num) with
        | none => some (hfs, -1)
        | some parent_inode =>
          if parent_inode.i_is_directory = 0 then some (hfs, -1)
          else if find_dir_entry L hfs parent_inode filename ≥ 0 then some (hfs, -1)
          else
            let a := alloc_inode hfs
            if a.2 < 0 then some (a.1, -1)
            else
              let w := write_inode L a.1 (toU32 a.2) new_inode
              if w.2 < 0 then some (free_inode w.1 (toU32 a.2), -1)
              else
                let d := add_dir_entry L w.1 parent_inode filename (toU32 a.2)
                if d.2.2 < 0 then some (free_inode d.1 (toU32 a.2), -1)
                else
                  let w2 := write_inode L d.1 (toU32 parent_inode_num) d.2.1
                  if w2.2 < 0 then some (w2.1, -1) else some (w2.1, 0)

/-- The walk over the tokens of a path in the contents `v`, from the directory
`c` to the inode `r`: every directory on the way has one block, whose first
entry holds the token. -/
def VWalk (L : HfsLayout) (sb0 : Superblock) (v : View) : List (List Nat) → Nat → Nat → Prop
  | [], c, r => r = c ∧ c < 2147483648
  | t :: ts, c, r =>
    c < sb0.s_inodes_count ∧
      ∃ b n, v.inode c = one_block_inode L 1 b L.DIRENT_SIZE ∧
        sb0.s_data_blocks_start ≤ b ∧ b < sb0.s_blocks_count ∧
        v.data b = dirent_set L zero_block 0 t n ∧ n ≠ 0 ∧ n < 2147483648 ∧ CStr t ∧
        t.length < L.DIRECTORY_NAME_SIZE ∧ VWalk L sb0 v ts n r

/-- What `hfs_format` and `hfs_mount` are given: a layout whose inodes fill
a block, with room for one direct pointer and for a name of one byte, a magic
number of 32 bits, and a device whose blocks are covered by the one-block
bitmap and by 16-bit block numbers and leave `room` data blocks after the
first block of the root directory. -/
structure FormatOk (L : HfsLayout) (magic : Nat) (dev : BlockDevice) (room : Nat) : Prop where
  layout : L.Ok
  direct : 1 ≤ L.INODE_DIRECT_POINTERS
  name : 2 ≤ L.DIRECTORY_NAME_SIZE
  inodes_fill : L.BLOCK_SIZE % L.INODE_SIZE = 0
  magic_lt : magic < 4294967296
  blocks_le_bits : dev.num_blocks ≤ 8 * L.BLOCK_SIZE
  blocks_le_u16 : dev.num_blocks ≤ 65536
  room : (format_sb L magic dev.num_blocks).s_data_blocks_start + room < dev.num_blocks

/-- The contents of a file system right after `hfs_format`: the inode and the
first block of the empty root directory are there, the bits of the blocks up
to the first block of the root directory and the bit of the root inode are
set, and the bitmaps hold bytes. -/
structure FreshView (L : HfsLayout) (sb0 : Superblock) (v : View) : Prop where
  root : v.inode 0 = one_block_inode L 1 sb0.s_data_blocks_start 0
  root_block : v.data sb0.s_data_blocks_start = zero_block
  bbits : ∀ j, get_bit v.bbm j = if j ≤ sb0.s_data_blocks_start then 1 else 0
  ibits : ∀ j, get_bit v.ibm j = if j = 0 then 1 else 0
  bbytes : Bytes v.bbm
  ibytes : Bytes v.ibm

/-- The path `/a`. -/
def PATH_A : List Nat := [47, 97]

/-- The path `/a/b`. -/
def PATH_AB : List Nat := [47, 97, 47, 98]

/-- The path `/a/b/f`. -/
def PATH_ABF : List Nat := [47, 97, 47, 98, 47, 102]

/-- The path `/a/f`. -/
def PATH_AF : List Nat := [47, 97, 47, 102]

/-- A buffer that holds the five bytes `hello`. -/
def HELLO : Nat → Nat := fun i => [104, 101, 108, 108, 111].getD i 0

/-- The sequence `hfs_format`, `hfs_mount`, `hfs_mkdir("/a")`,
`hfs_mkdir("/a/b")`, `hfs_create("/a/b/f")`, `hfs_remove("/a")` on a device:
the state after the mount, the state before the removal, the state after it
and the value that `hfs_remove` returns; `none` when a call before the removal
does not return 0. -/
def tree_scenario (L : HfsLayout) (magic : Nat) (dev : BlockDevice) :
    Option (HfsData × HfsData × HfsData × Int) :=
  if (hfs_format L magic dev).2 ≠ 0 then none
  else
    match hfs_mount magic (hfs_format L magic dev).1 with
    | none => none
    | some F =>
      match hfs_mkdir L F PATH_A with
      | none => none
      | some m1 =>
        if m1.2 ≠ 0 then none
        else
          match hfs_mkdir L m1.1 PATH_AB with
          | none => none
          | some m2 =>
            if m2.2 ≠ 0 then none
            else
              match hfs_create L m2.1 PATH_ABF with
              | none => none
              | some m3 =>
                if m3.2 ≠ 0 then none
                else
                  match hfs_remove L m3.1 PATH_A with
                  | none => none
                  | some m4 => some (F, m3.1, m4.1, m4.2)

/-- The sequence `hfs_format`, `hfs_mount`, `fs_stat`, `hfs_mkdir("/a")`,
`hfs_create("/a/f")`, `hfs_open("/a/f")`, `hfs_write` of the five bytes
`hello` at offset 0, `fs_stat` on a device: the two pairs of numbers that
`fs_stat` logs and the value that `hfs_write` returns; `none` when a call
before the write does not succeed. -/
def stat_scenario (L : HfsLayout) (magic : Nat) (dev : BlockDevice) :
    Option ((Nat × Nat) × (Nat × Nat) × Int) :=
  if (hfs_format L magic dev).2 ≠ 0 then none
  else
    match hfs_mount magic (hfs_format L magic dev).1 with
    | none => none
    | some F =>
      match hfs_mkdir L F PATH_A with
      | none => none
      | some m1 =>
        if m1.2 ≠ 0 then none
        else
          match hfs_create L m1.1 PATH_AF with
          | none => none
          | some m2 =>
            if m2.2 ≠ 0 then none
            else
              match hfs_open L m2.1 PATH_AF 0 with
              | none => none
              | some node =>
                some (fs_stat F, fs_stat (hfs_write L m2.1 (some node) 0 5 HELLO).1,
                  (hfs_write L m2.1 (some node) 0 5 HELLO).2)

/-- A blank device of 64 blocks, for the small layout. -/
def devBlank64 : BlockDevice := { num_blocks := 64, blocks := fun _ _ => 0 }

/-- A layout with blocks of 128 bytes, whose one-block bitmap covers 1024
blocks. -/
def hfsLayout128 : HfsLayout :=
  { BLOCK_SIZE := 128, INODE_DIRECT_POINTERS := 1, DIRECTORY_NAME_SIZE := 4, VNODE_NAME_SIZE := 8 }

/-- A blank device of 1024 blocks. -/
def devBlank1024 : BlockDevice := { num_blocks := 1024, blocks := fun _ _ => 0 }

/-! ## File system: the components of a path -/

/-- The components of a path, as the specification names them: the non-empty
strings between the `/` of the path. -/
def path_components (path : List Nat) : List (List Nat) :=
  (path.splitOn SLASH).filter (fun t => !t.isEmpty)

/-- The lookup of the specification: each component is looked up in turn with
`find_dir_entry`, from the inode `c` on; the result is -1 as soon as the inode
being searched cannot be read or is not a directory, or the component is
missing. -/
def lookup_components (L : HfsLayout) (hfs : HfsData) : List (List Nat) → Nat → Int
  | [], c => (c : Int)
  | t :: ts, c =>
    match read_inode L hfs c with
    | none => -1
    | some ino =>
      if ino.i_is_directory = 0 then -1
      else if find_dir_entry L hfs ino t < 0 then -1
      else lookup_components L hfs ts (find_dir_entry L hfs ino t).toNat

/-- The small file system after `hfs_mkdir("/a")`. -/
def hfsSmallWithA : HfsData :=
  match hfs_mkdir hfsSmallLayout hfsSmall [SLASH, 97] with
  | some r => r.1
  | none => hfsSmall
/-! ## Processes, threads and the scheduler (`process/process.c`)

Threads, processes and trap frames are objects of the kernel heap; the state
holds them as records by address. The heap and the memory manager are the
states of `mm/kheap.c` and `mm/vmm.c`. A pointer is an address, 0 is NULL. -/

/-- Modelled from the spec: the states of a thread,
`{READY, RUNNING, BLOCKED, TERMINATED}`, of the header `proc/process.h`, which
is not among the sources. -/
inductive ThreadState where
  | THREAD_READY
  | THREAD_RUNNING
  | THREAD_BLOCKED
  | THREAD_TERMINATED
deriving DecidableEq

/-- Modelled from the spec: the `interrupt_context_t` that `scheduler_switch`
pops, the saved data segment, the registers of `popa`, the interrupt number and
error code, and the frame of `iret`. -/
structure InterruptContext where
  ds : Nat
  edi : Nat
  esi : Nat
  ebp : Nat
  esp : Nat
  ebx : Nat
  edx : Nat
  ecx : Nat
  eax : Nat
  int_no : Nat
  err_code : Nat
  eip : Nat
  cs : Nat
  eflags : Nat
  useresp : Nat
  ss : Nat
deriving DecidableEq

/-- Modelled from the spec: the `thread_t`,
`{tid, owner_proc, state, priority, timeslice, kstack, kstack_top,
kstack_size, trap_frame, next}`; the one `next` link serves the thread list of
the process and the ready queue. The timeslice is the integer count of ticks
that remain. -/
structure Thread where
  tid : Nat
  proc : Nat
  state : ThreadState
  priority : Int
  timeslice : Int
  kstack : Nat
  kstack_top : Nat
  kstack_size : Nat
  trap_frame : Nat
  next : Nat
deriving DecidableEq

/-- Modelled from the spec: the `process_t`,
`{pid, name, priority, exit_code, page_dir, main_thread, thread_list, next}`. -/
structure Process where
  pid : Nat
  name : List Nat
  priority : Int
  exit_code : Int
  page_dir : Nat
  main_thread : Nat
  thread_list : Nat
  next : Nat
deriving DecidableEq

/-- `DEFAULT_TIMESLICE`. -/
def DEFAULT_TIMESLICE : Int := 10

/-- `KSTACK_SIZE`. -/
def KSTACK_SIZE : Nat := 2 * VMM_PAGE_SIZE

/-- Modelled from the spec: `sizeof(process_t)`, seven words and a name of 32
bytes. -/
def PROCESS_SIZE : Nat := 60

/-- Modelled from the spec: `sizeof(thread_t)`, ten words. -/
def THREAD_SIZE : Nat := 40

/-- Modelled from the spec: `sizeof(interrupt_context_t)`, sixteen words. -/
def CONTEXT_SIZE : Nat := 64

/-- The static variables of `process.c` and `tss.c`, the objects they point
to, the kernel heap and the memory manager. -/
structure SchedState where
  threads : Nat → Thread
  procs : Nat → Process
  frames : Nat → InterruptContext
  heap : BuddyState
  vmm : VmmState
  esp0 : Nat
  current_proc : Nat
  current_thread : Nat
  next_pid : Nat
  next_tid : Nat
  ready_queue_head : Nat
  ready_queue_tail : Nat
  process_list : Nat
  debug_tick_count : Nat

/-- The state after the thread object at `t` is overwritten. -/
def SchedState.setThread (s : SchedState) (t : Nat) (v : Thread) : SchedState :=
  { s with threads := fun a => if a = t then v else s.threads a }

/-- The state after the process object at `p` is overwritten. -/
def SchedState.setProc (s : SchedState) (p : Nat) (v : Process) : SchedState :=
  { s with procs := fun a => if a = p then v else s.procs a }

/-- The state after the trap frame at `f` is overwritten. -/
def SchedState.setFrame (s : SchedState) (f : Nat) (v : InterruptContext) : SchedState :=
  { s with frames := fun a => if a = f then v else s.frames a }

/-- A `process_t` after `memset(process, 0, sizeof(process_t))`. -/
def zero_process : Process :=
  { pid := 0, name := [], priority := 0, exit_code := 0, page_dir := 0, main_thread := 0,
    thread_list := 0, next := 0 }

/-- `alloc_pid`. -/
def alloc_pid (s : SchedState) : SchedState × Nat :=
  ({ s with next_pid := (s.next_pid + 1) % U32 }, s.next_pid)

/-- `alloc_tid`. -/
def alloc_tid (s : SchedState) : SchedState × Nat :=
  ({ s with next_tid := (s.next_tid + 1) % U32 }, s.next_tid)

/-- `add_to_process_list`. -/
def add_to_process_list (s : SchedState) (proc : Nat) : SchedState :=
  { s.setProc proc { s.procs proc with next := s.process_list } with process_list := proc }

/-- The loop of `remove_from_process_list`; `prev` is the link that the loop
looks at, `none` for `process_list` and `some q` for the `next` of the process
`q`. `none` when the fuel runs out. -/
def remove_from_process_list_loop (proc : Nat) :
    Nat → Option Nat → SchedState → Option SchedState
  | 0, _, _ => none
  | fuel + 1, prev, s =>
    let cur := match prev with
      | none => s.process_list
      | some q => (s.procs q).next
    if cur = 0 then some s
    else if cur = proc then
      some (match prev with
        | none => { s with process_list := (s.procs proc).next }
        | some q => s.setProc q { s.procs q with next := (s.procs proc).next })
    else remove_from_process_list_loop proc fuel (some cur) s

/-- `remove_from_process_list`. -/
def remove_from_process_list (fuel : Nat) (s : SchedState) (proc : Nat) : Option SchedState :=
  remove_from_process_list_loop proc fuel none s

/-- The loop of `remove_thread_from_process` for a thread of the process `p`;
`prev` is the link that the loop looks at, `none` for the `thread_list` of the
process and `some t` for the `next` of the thread `t`. -/
def remove_thread_from_process_loop (thread p : Nat) :
    Nat → Option Nat → SchedState → Option SchedState
  | 0, _, _ => none
  | fuel + 1, prev, s =>
    let cur := match prev with
      | none => (s.procs p).thread_list
      | some t => (s.threads t).next
    if cur = 0 then some s
    else if cur = thread then
      some (match prev with
        | none => s.setProc p { s.procs p with thread_list := (s.threads thread).next }
        | some t => s.setThread t { s.threads t with next := (s.threads thread).next })
    else remove_thread_from_process_loop thread p fuel (some cur) s

/-- `remove_thread_from_process`. -/
def remove_thread_from_process (fuel : Nat) (s : SchedState) (thread : Nat) :
    Option SchedState :=
  if thread = 0 ∨ (s.threads thread).proc = 0 then some s
  else remove_thread_from_process_loop thread (s.threads thread).proc fuel none s

/-- The loop of `remove_from_ready_queue`,
`while(curr && curr->next != thread)`: the value of `curr` after it. -/
def ready_queue_find_prev (s : SchedState) (thread : Nat) : Nat → Nat → Option Nat
  | 0, _ => none
  | fuel + 1, curr =>
    if curr ≠ 0 ∧ (s.threads curr).next ≠ thread then
      ready_queue_find_prev s thread fuel (s.threads curr).next
    else some curr

/-- `remove_from_ready_queue`. -/
def remove_from_ready_queue (fuel : Nat) (s : SchedState) (thread : Nat) : Option SchedState :=
  if thread = 0 then some s
  else
    let r : Option SchedState :=
      if s.ready_queue_head = thread then
        let s1 := { s with ready_queue_head := (s.threads thread).next }
        some (if s1.ready_queue_tail = thread then { s1 with ready_queue_tail := 0 } else s1)
      else
        match ready_queue_find_prev s thread fuel s.ready_queue_head with
        | none => none
        | some curr =>
          if curr ≠ 0 then
            let s1 := s.setThread curr { s.threads curr with next := (s.threads thread).next }
            some (if s1.ready_queue_tail = thread then { s1 with ready_queue_tail := curr }
              else s1)
          else some s
    r.map (fun s2 => s2.setThread thread { s2.threads thread with next := 0 })

/-- `process_create`: `name` is the string that is passed. -/
def process_create (s : SchedState) (process : Nat) (name : List Nat) (priority : Int) :
    SchedState :=
  if process = 0 then s
  else
    let a := alloc_pid (s.setProc process zero_process)
    add_to_process_list
      (a.1.setProc process
        { zero_process with pid := a.2, name := name.take 31, priority := priority })
      process

/-- `vmm_switch_pagedir` on the memory manager of the scheduler state. -/
def vmm_switch_pagedir (v : VmmState) (new_pagedir : Nat) : VmmState :=
  if new_pagedir = 0 then v else { v with current_directory := new_pagedir }

/-- `thread_destroy`: the new state and the return value. -/
def thread_destroy (fuel : Nat) (s : SchedState) (thread : Nat) : Option (SchedState × Int) :=
  if thread = 0 then some (s, -1)
  else if thread = s.current_thread then some (s, -1)
  else
    match remove_from_ready_queue fuel s thread with
    | none => none
    | some s1 =>
      match remove_thread_from_process fuel s1 thread with
      | none => none
      | some s2 =>
        let p := (s2.threads thread).proc
        let s3 :=
          if p ≠ 0 ∧ (s2.procs p).main_thread = thread then
            s2.setProc p { s2.procs p with main_thread := 0 }
          else s2
        let s4 :=
          if (s3.threads thread).kstack ≠ 0 then
            { s3 with heap := kfree s3.heap (s3.threads thread).kstack }
          else s3
        some ({ s4 with heap := kfree s4.heap thread }, 0)

/-- The loop of `process_destroy` over the threads of the process. -/
def process_destroy_threads : Nat → Nat → SchedState → Option SchedState
  | 0, _, _ => none
  | fuel + 1, thread, s =>
    if thread = 0 then some s
    else
      match thread_destroy (fuel + 1) s thread with
      | none => none
      | some r => process_destroy_threads fuel (s.threads thread).next r.1

/-- `process_destroy`. -/
def process_destroy (fuel : Nat) (s : SchedState) (process : Nat) : Option SchedState :=
  if process = 0 then some s
  else if process = s.current_proc then some s
  else
    match remove_from_process_list fuel s process with
    | none => none
    | some s1 =>
      match process_destroy_threads fuel (s1.procs process).thread_list s1 with
      | none => none
      | some s2 =>
        let pd := (s2.procs process).page_dir
        let s3 :=
          if pd ≠ 0 ∧ pd ≠ s2.vmm.kernel_directory then
            let s2a :=
              if s2.vmm.current_directory = pd then
                { s2 with vmm := vmm_switch_pagedir s2.vmm s2.vmm.kernel_directory }
              else s2
            s2a.setProc process { s2a.procs process with page_dir := 0 }
          else s2
        some (s3.setProc process zero_process)

/-- `process_find_by_pid`; `none` when the fuel runs out. -/
def process_find_by_pid (s : SchedState) (pid : Nat) : Nat → Nat → Option Nat
  | 0, _ => none
  | fuel + 1, proc =>
    if proc = 0 then some 0
    else if (s.procs proc).pid = pid then some proc
    else process_find_by_pid s pid fuel (s.procs proc).next

/-- `scheduler_post`. -/
def scheduler_post (s : SchedState) (thread : Nat) : SchedState :=
  if thread = 0 then s
  else
    let s1 := s.setThread thread
      { s.threads thread with state := ThreadState.THREAD_READY, next := 0 }
    if s1.ready_queue_head = 0 then
      { s1 with ready_queue_head := thread, ready_queue_tail := thread }
    else
      { s1.setThread s1.ready_queue_tail
          { s1.threads s1.ready_queue_tail with next := thread } with
        ready_queue_tail := thread }

/-- `scheduler_switch`: the state when the next thread resumes. -/
def scheduler_switch (s : SchedState) (next_thread : Nat) : SchedState :=
  if next_thread = 0 ∨ next_thread = s.current_thread then s
  else
    let old_thread := s.current_thread
    let s1 := { s with current_thread := next_thread,
                       current_proc := (s.threads next_thread).proc }
    let s2 :=
      if (s1.threads old_thread).proc ≠ (s1.threads next_thread).proc then
        let pd := (s1.procs (s1.threads next_thread).proc).page_dir
        if pd ≠ 0 then { s1 with vmm := vmm_switch_pagedir s1.vmm pd } else s1
      else s1
    { s2 with esp0 := (s2.threads next_thread).kstack_top }

/-- The head of the ready queue is taken off the queue and made RUNNING with a
fresh timeslice, as `scheduler_tick` does in both of its branches: the new
state and the thread. -/
def dequeue_next (s : SchedState) : SchedState × Nat :=
  let next_thread := s.ready_queue_head
  let s1 := { s with ready_queue_head := (s.threads next_thread).next }
  let s2 := if s1.ready_queue_head = 0 then { s1 with ready_queue_tail := 0 } else s1
  (s2.setThread next_thread
    { s2.threads next_thread with
      next := 0, state := ThreadState.THREAD_RUNNING, timeslice := DEFAULT_TIMESLICE },
   next_thread)

/-- `scheduler_tick` with the saved context at `context`: the state when the
call returns or the next thread resumes; `none` when the call never returns
(the `hlt` loop of a terminated thread with an empty ready queue) or the fuel
of a list walk runs out. -/
def scheduler_tick (fuel : Nat) (s0 : SchedState) (context : Nat) : Option SchedState :=
  let s := { s0 with debug_tick_count := (s0.debug_tick_count + 1) % U32 }
  if s.current_thread = 0 then some s
  else
    let ct := s.current_thread
    let s1 :=
      if (s.threads ct).state = ThreadState.THREAD_RUNNING then
        s.setThread ct { s.threads ct with trap_frame := context }
      else s
    if (s1.threads ct).state = ThreadState.THREAD_TERMINATED then
      let dead := ct
      let dead_proc := (s1.threads dead).proc
      if s1.ready_queue_head = 0 then none
      else
        let d := dequeue_next s1
        match remove_thread_from_process fuel d.1 dead with
        | none => none
        | some s2 =>
          let r : Option SchedState :=
            if dead_proc ≠ 0 ∧ (s2.procs dead_proc).thread_list = 0 then
              (process_destroy fuel s2 dead_proc).map
                (fun s3 => { s3 with heap := kfree s3.heap dead_proc })
            else some s2
          r.map (fun s4 => scheduler_switch s4 d.2)
    else
      let s2 := s1.setThread ct { s1.threads ct with timeslice := (s1.threads ct).timeslice - 1 }
      if (s2.threads ct).timeslice > 0 ∧ (s2.threads ct).state = ThreadState.THREAD_RUNNING then
        some s2
      else if s2.ready_queue_head = 0 then
        some (s2.setThread ct { s2.threads ct with timeslice := DEFAULT_TIMESLICE })
      else
        let s3 :=
          if (s2.threads ct).state = ThreadState.THREAD_RUNNING then
            scheduler_post
              (s2.setThread ct { s2.threads ct with state := ThreadState.THREAD_READY }) ct
          else s2
        let d := dequeue_next s3
        some (scheduler_switch d.1 d.2)

/-- The loop of `process_exit` that marks the threads of the process. -/
def process_exit_mark : Nat → Nat → SchedState → Option SchedState
  | 0, _, _ => none
  | fuel + 1, thread, s =>
    if thread = 0 then some s
    else
      process_exit_mark fuel (s.threads thread).next
        (s.setThread thread { s.threads thread with state := ThreadState.THREAD_TERMINATED })

/-- `process_exit`; the interrupt `int $0x20` runs `scheduler_tick` with the
saved context at `context`. -/
def process_exit (fuel : Nat) (s : SchedState) (process : Nat) (status : Int) (context : Nat) :
    Option SchedState :=
  if process = 0 then some s
  else
    let s1 := s.setProc process { s.procs process with exit_code := status }
    match process_exit_mark fuel (s1.procs process).thread_list s1 with
    | none => none
    | some s2 =>
      if process = s2.current_proc then
        scheduler_tick fuel
          (s2.setThread s2.current_thread
            { s2.threads s2.current_thread with state := ThreadState.THREAD_TERMINATED })
          context
      else
        (process_destroy fuel s2 process).map
          (fun s3 => { s3 with heap := kfree s3.heap process })

/-- The string `_child`. -/
def CHILD_SUFFIX : List Nat := [95, 99, 104, 105, 108, 100]

/-- `process_fork`: the new state and the return value; `none` when the fuel
of a list walk of `process_destroy` runs out. -/
def process_fork (fuel : Nat) (s : SchedState) : Option (SchedState × Int) :=
  if s.current_proc = 0 ∨ s.current_thread = 0 then some (s, -1)
  else
    let m1 := kmalloc s.heap PROCESS_SIZE
    let child := m1.2
    let s1 := { s with heap := m1.1 }
    if child = 0 then some (s1, -1)
    else
      let child_name := (s1.procs s1.current_proc).name.take 25 ++ CHILD_SUFFIX
      let s2 := process_create s1 child child_name (s1.procs s1.current_proc).priority
      let c := vmm_clone_pagedir s2.vmm
      let s3 := SchedState.setProc { s2 with vmm := c.1 } child
        { s2.procs child with page_dir := c.2 }
      if c.2 = 0 then some ({ s3 with heap := kfree s3.heap child }, -1)
      else
        let m2 := kmalloc s3.heap THREAD_SIZE
        let child_thread := m2.2
        let s4 := { s3 with heap := m2.1 }
        if child_thread = 0 then
          (process_destroy fuel s4 child).map
            (fun s5 => ({ s5 with heap := kfree s5.heap child }, -1))
        else
          let s5 := s4.setThread child_thread (s4.threads s4.current_thread)
          let m3 := kmalloc s5.heap KSTACK_SIZE
          let s6 := SchedState.setThread { s5 with heap := m3.1 } child_thread
            { s5.threads child_thread with kstack := m3.2 }
          if m3.2 = 0 then
            (process_destroy fuel { s6 with heap := kfree s6.heap child_thread } child).map
              (fun s7 => ({ s7 with heap := kfree s7.heap child }, -1))
          else
            let s7 := s6.setThread child_thread
              { s6.threads child_thread with
                kstack_size := KSTACK_SIZE, kstack_top := (m3.2 + KSTACK_SIZE) % U32 }
            let child_frame := ((s7.threads child_thread).kstack_top + (U32 - CONTEXT_SIZE)) % U32
            let s8 := s7.setFrame child_frame
              (s7.frames (s7.threads s7.current_thread).trap_frame)
            let s9 := s8.setThread child_thread
              { s8.threads child_thread with trap_frame := child_frame }
            let s10 := s9.setFrame child_frame { s9.frames child_frame with eax := 0 }
            let s11 := s10.setFrame (s10.threads s10.current_thread).trap_frame
              { s10.frames (s10.threads s10.current_thread).trap_frame with
                eax := (s10.procs child).pid }
            let a := alloc_tid s11
            let s12 := a.1.setThread child_thread
              { a.1.threads child_thread with
                tid := a.2, proc := child, state := ThreadState.THREAD_READY,
                timeslice := DEFAULT_TIMESLICE, next := (a.1.procs child).thread_list }
            let s13 := s12.setProc child
              { s12.procs child with thread_list := child_thread, main_thread := child_thread }
            some (scheduler_post s13 child_thread, toInt32 (s13.procs child).pid)
/-! ## The scheduler: the ready queue as a list -/

/-- The threads that the `next` links reach from `a` are those of the list, in
its order, and the last link is NULL. -/
def Chain (s : SchedState) : Nat → List Nat → Prop
  | a, [] => a = 0
  | a, t :: ts => a = t ∧ t ≠ 0 ∧ Chain s (s.threads t).next ts

/-- The ready queue holds the threads of the list, in its order: the links
from `ready_queue_head` reach them, `ready_queue_tail` is the last of them, and
no thread is in the queue twice. -/
structure IsQueue (s : SchedState) (l : List Nat) : Prop where
  chain : Chain s s.ready_queue_head l
  tail : ∀ x, l.getLast? = some x → s.ready_queue_tail = x
  nodup : l.Nodup

/-- The state after `n` timer ticks, of which tick `i` runs `scheduler_tick`
with the saved context at `ctx i`. -/
def run_ticks (fuel : Nat) (ctx : Nat → Nat) : Nat → SchedState → Option SchedState
  | 0, s => some s
  | n + 1, s =>
    match run_ticks fuel ctx n s with
    | none => none
    | some s1 => scheduler_tick fuel s1 (ctx n)

/-- The thread that is current after `n` timer ticks, which runs until tick
`n`. -/
def current_after (fuel : Nat) (ctx : Nat → Nat) (s : SchedState) (n : Nat) : Option Nat :=
  (run_ticks fuel ctx n s).map (fun s1 => s1.current_thread)

/-- The current thread `c` runs with `t` ticks of its timeslice left and the
ready queue holds the threads `q`. -/
structure Running (s : SchedState) (c : Nat) (q : List Nat) (t : Int) : Prop where
  cur : s.current_thread = c
  ne : c ≠ 0
  state : (s.threads c).state = ThreadState.THREAD_RUNNING
  slice : (s.threads c).timeslice = t
  queue : IsQueue s q
  not_queued : c ∉ q

/-- A thread of the examples: thread `tid` of the process at `proc`. -/
def exampleThread (tid proc : Nat) (state : ThreadState) (timeslice : Int) (next : Nat) :
    Thread :=
  { tid := tid, proc := proc, state := state, priority := 0, timeslice := timeslice,
    kstack := 0, kstack_top := 0, kstack_size := 0, trap_frame := 0, next := next }

/-- A trap frame of zeros. -/
def zero_context : InterruptContext :=
  { ds := 0, edi := 0, esi := 0, ebp := 0, esp := 0, ebx := 0, edx := 0, ecx := 0, eax := 0,
    int_no := 0, err_code := 0, eip := 0, cs := 0, eflags := 0, useresp := 0, ss := 0 }

/-- Three threads of three processes: the thread at 100 runs with a full
timeslice, the threads at 200 and 300 wait in the ready queue. -/
def schedThree : SchedState :=
  { threads := fun a =>
      if a = 100 then exampleThread 1 1000 ThreadState.THREAD_RUNNING 10 0
      else if a = 200 then exampleThread 2 2000 ThreadState.THREAD_READY 10 300
      else exampleThread 3 3000 ThreadState.THREAD_READY 10 0
    procs := fun a =>
      if a = 1000 then { zero_process with pid := 1, main_thread := 100, thread_list := 100,
                                           next := 0 }
      else if a = 2000 then { zero_process with pid := 2, main_thread := 200,
                                                thread_list := 200, next := 1000 }
      else { zero_process with pid := 3, main_thread := 300, thread_list := 300, next := 2000 }
    frames := fun _ => zero_context
    heap := heapFresh512
    vmm := vmmFresh
    esp0 := 0
    current_proc := 1000
    current_thread := 100
    next_pid := 4
    next_tid := 4
    ready_queue_head := 200
    ready_queue_tail := 300
    process_list := 3000
    debug_tick_count := 0 }

/-- The three threads when the running thread has one tick of its timeslice
left. -/
def schedThreeLast : SchedState :=
  schedThree.setThread 100 (exampleThread 1 1000 ThreadState.THREAD_RUNNING 1 0)
/-! ## The scheduler: states of the examples -/

/-- The kernel heap of 512 bytes after two objects of the size of a
`process_t` are allocated from it, the first at 4616 and the second at
4488. -/
def heapTwoProcs : BuddyState :=
  (kmalloc (kmalloc heapFresh512 PROCESS_SIZE).1 PROCESS_SIZE).1

/-- Two processes on the kernel heap, the process 1 at 4616 and the process 2
at 4488, each with one thread: the current thread, at 100, is the thread of
process 1 and is TERMINATED; the thread at 200 waits in the ready queue. -/
def schedDead : SchedState :=
  { threads := fun a =>
      if a = 100 then exampleThread 1 4616 ThreadState.THREAD_TERMINATED 10 0
      else exampleThread 2 4488 ThreadState.THREAD_READY 10 0
    procs := fun a =>
      if a = 4616 then { zero_process with pid := 1, main_thread := 100, thread_list := 100,
                                           next := 0 }
      else { zero_process with pid := 2, main_thread := 200, thread_list := 200, next := 4616 }
    frames := fun _ => zero_context
    heap := heapTwoProcs
    vmm := vmmFresh
    esp0 := 0
    current_proc := 4616
    current_thread := 100
    next_pid := 3
    next_tid := 3
    ready_queue_head := 200
    ready_queue_tail := 200
    process_list := 4488
    debug_tick_count := 0 }

/-- Two processes on the kernel heap: the process 1 at 4616 has the threads at
100 and at 200, made by two calls of `thread_create` and posted in that order,
and the process 2 at 4488 has the thread at 300. The thread at 100 runs; the
ready queue holds the thread at 200 and then the thread at 300, so that the
one `next` link of the thread at 200, the head of the thread list of process
1, leads to the thread at 300. -/
def schedTwoThreads : SchedState :=
  { threads := fun a =>
      if a = 100 then exampleThread 1 4616 ThreadState.THREAD_RUNNING 10 0
      else if a = 200 then exampleThread 2 4616 ThreadState.THREAD_READY 10 300
      else exampleThread 3 4488 ThreadState.THREAD_READY 10 0
    procs := fun a =>
      if a = 4616 then { zero_process with pid := 1, main_thread := 100, thread_list := 200,
                                           next := 0 }
      else { zero_process with pid := 2, main_thread := 300, thread_list := 300, next := 4616 }
    frames := fun _ => zero_context
    heap := heapTwoProcs
    vmm := vmmFresh
    esp0 := 0
    current_proc := 4616
    current_thread := 100
    next_pid := 3
    next_tid := 4
    ready_queue_head := 200
    ready_queue_tail := 300
    process_list := 4488
    debug_tick_count := 0 }

/-- The processes that the `next` links reach from `a` are those of the list,
in its order, and the last link is NULL. -/
def ProcChain (s : SchedState) : Nat → List Nat → Prop
  | a, [] => a = 0
  | a, p :: ps => a = p ∧ p ≠ 0 ∧ ProcChain s (s.procs p).next ps

/-- The address that the first `kmalloc` of `process_fork` returns, of the
child process. -/
def fork_child (s : SchedState) : Nat := (kmalloc s.heap PROCESS_SIZE).2

/-- The address that the second `kmalloc` of `process_fork` returns, of the
child thread. -/
def fork_thread (s : SchedState) : Nat :=
  (kmalloc (kmalloc s.heap PROCESS_SIZE).1 THREAD_SIZE).2

/-- The address that the third `kmalloc` of `process_fork` returns, of the
kernel stack of the child thread. -/
def fork_kstack (s : SchedState) : Nat :=
  (kmalloc (kmalloc (kmalloc s.heap PROCESS_SIZE).1 THREAD_SIZE).1 KSTACK_SIZE).2

/-- The address `kstack_top - sizeof(interrupt_context_t)` of the trap frame
of the child thread. -/
def fork_frame (s : SchedState) : Nat :=
  ((fork_kstack s + KSTACK_SIZE) % U32 + (U32 - CONTEXT_SIZE)) % U32

/-- The state `a` agrees with the state `b` in the static variables of
`process.c`, in the thread objects when `t` holds, in the process objects when
`p` holds and in the trap frames when `f` holds. -/
structure Agree (t p f : Bool) (a b : SchedState) : Prop where
  threads : t = true → a.threads = b.threads
  procs : p = true → a.procs = b.procs
  frames : f = true → a.frames = b.frames
  head : a.ready_queue_head = b.ready_queue_head
  tail : a.ready_queue_tail = b.ready_queue_tail
  cur : a.current_thread = b.current_thread
  proc : a.current_proc = b.current_proc
  plist : a.process_list = b.process_list
  pid : a.next_pid = b.next_pid
  tid : a.next_tid = b.next_tid
/-! ## File system: the bytes of a file -/

/-- The byte at position `p` of the file of an inode: the byte of the block
that holds the block index `p / BLOCK_SIZE`, 0 where the file has a hole. -/
def file_byte (L : HfsLayout) (h : HfsData) (ino : Inode) (p : Nat) : Nat :=
  if bmap L h ino (p / L.BLOCK_SIZE) = 0 then 0
  else h.device.blocks (bmap L h ino (p / L.BLOCK_SIZE)) (p % L.BLOCK_SIZE)

/-- Inode `n` of a mounted file system holds `ino`: the superblock describes
the device, the bitmaps in memory are those on the device, and the blocks of
the inode are consistent. -/
structure FileOk (L : HfsLayout) (h : HfsData) (n : Nat) (ino : Inode) : Prop where
  sb : SbOk L h
  synced : h.Synced
  lt : n < h.sb.s_inodes_count
  disk : read_inode L h n = some ino
  valid : ino.Valid L
  ok : InodeOk L h ino

/-- The state `h2` after an allocation for the inode failed in the state `h`:
the bitmaps mark the blocks that they marked, and the used data blocks and the
inodes are as they were. -/
structure AllocFail (L : HfsLayout) (h h2 : HfsData) : Prop where
  sb : SbOk L h2
  synced : h2.Synced
  bits : ∀ b, get_bit h2.disk_block_bitmap b = get_bit h.disk_block_bitmap b
  sb_eq : h2.sb = h.sb
  nb_eq : h2.device.num_blocks = h.device.num_blocks
  ibits : h2.disk_inode_bitmap = h.disk_inode_bitmap
  blocks_keep : ∀ b, h.dataUsed b → h2.device.blocks b = h.device.blocks b
  inodes_keep : ∀ i, read_inode L h2 i = read_inode L h i

/-- The reason for which `alloc_block_for_offset` fails for block index `k` of
an inode without device errors: no data block is free; or one data block is
free and the index needs an indirect block as well, which the inode does not
have; or the index lies beyond the indirect block. -/
def NoRoom (L : HfsLayout) (h : HfsData) (ino : Inode) (k : Nat) : Prop :=
  h.free_blocks = 0 ∨
    (h.free_blocks = 1 ∧ L.INODE_DIRECT_POINTERS ≤ k ∧ ino.i_single_indirect_pointer = 0) ∨
    L.INODE_DIRECT_POINTERS + L.INODE_INDIRECT_POINTERS_PER_BLOCK ≤ k

/-- A mounted device of 10 blocks for the small layout: bitmaps in blocks 1
and 2, the table of 8 inodes in blocks 3 to 6, data from block 7, which is the
first block of the empty root directory; inode 1 is an empty file; the data
blocks 8 and 9 are free. -/
def hfsTight : HfsData :=
  { device :=
      { num_blocks := 10
        blocks := fun b i =>
          if b = 1 ∧ i = 0 then 255
          else if b = 2 ∧ i = 0 then 3
          else if b = 3 ∧ i = 0 then 1
          else if b = 3 ∧ i = 8 then 7
          else 0 }
    sb := { s_magic := 0, s_blocks_count := 10, s_inodes_count := 8, s_block_bitmap := 1,
            s_inode_bitmap := 2, s_inode_table_block_start := 3, s_data_blocks_start := 7 }
    block_bitmap := fun i => if i = 0 then 255 else 0
    inode_bitmap := fun i => if i = 0 then 3 else 0 }

/-- The vnode of an open file with inode 1. -/
def vnodeOne : Vnode :=
  { name := [102], type := VnodeType.V_FILE, flags := 0, inode_num := 1 }

/-- A buffer that holds the byte `i % 251 + 1` at index `i`. -/
def bufCount : Nat → Nat := fun i => i % 251 + 1

/-- A mounted device of 10 blocks for the small layout: bitmaps in blocks 1
and 2, the table of 8 inodes in blocks 3 to 6, data from block 7, which is the
block of the root directory and holds the entry `f` for inode 1; inode 1 is an
empty file; the data blocks 8 and 9 are free. -/
def hfsWithFile : HfsData :=
  { device :=
      { num_blocks := 10
        blocks := fun b i =>
          if b = 1 ∧ i = 0 then 255
          else if b = 2 ∧ i = 0 then 3
          else if b = 3 ∧ i = 0 then 1
          else if b = 3 ∧ i = 4 then 8
          else if b = 3 ∧ i = 8 then 7
          else if b = 7 ∧ i = 0 then 102
          else if b = 7 ∧ i = 4 then 1
          else 0 }
    sb := { s_magic := 0, s_blocks_count := 10, s_inodes_count := 8, s_block_bitmap := 1,
            s_inode_bitmap := 2, s_inode_table_block_start := 3, s_data_blocks_start := 7 }
    block_bitmap := fun i => if i = 0 then 255 else 0
    inode_bitmap := fun i => if i = 0 then 3 else 0 }

/-- The path `/f`. -/
def PATH_F : List Nat := [47, 102]

/-- The state `s` comes from `h` by handing back blocks: bits of the block
bitmap are cleared, in memory and on the device alike, and no other block of
the device is written. -/
structure Freed (L : HfsLayout) (h s : HfsData) : Prop where
  sb_eq : s.sb = h.sb
  nb_eq : s.device.num_blocks = h.device.num_blocks
  synced : s.Synced
  blocks_keep : ∀ b, b ≠ h.sb.s_block_bitmap → s.device.blocks b = h.device.blocks b
  bits_le : ∀ b, get_bit s.block_bitmap b = 1 → get_bit h.block_bitmap b = 1

/-- The state `s` comes from `h` by writes that set no bit of the block
bitmap on the device and leave the block bitmap in memory as it is. -/
structure Shrunk (h s : HfsData) : Prop where
  sb_eq : s.sb = h.sb
  nb_eq : s.device.num_blocks = h.device.num_blocks
  mem_eq : s.block_bitmap = h.block_bitmap
  disk_le : ∀ b, get_bit s.disk_block_bitmap b = 1 → get_bit h.disk_block_bitmap b = 1
/-! ## ELF loader (`process/elf.c`) -/

/-- Modelled from the spec: the fields of `elf_header_t` that `elf_check_hdr`
reads; the header `proc/elf.h` is not among the sources. `e_ident` is the
array of identification bytes. -/
structure ElfHeader where
  e_ident : Nat → Nat
  e_type : Nat
  e_machine : Nat

/-- Modelled from the spec: `ELF_MAGIC`, the bytes `0x7F 'E' 'L' 'F'` read as
a little-endian 32-bit word. -/
def ELF_MAGIC : Nat := 1179403647

/-- Modelled from the spec: `ELF_CLASS_32` ("32-bit"), the value of the ELF
format. -/
def ELF_CLASS_32 : Nat := 1

/-- Modelled from the spec: `ELF_DATA_LSB` ("little-endian"). -/
def ELF_DATA_LSB : Nat := 1

/-- Modelled from the spec: `ELF_VERSION_CURRENT`. -/
def ELF_VERSION_CURRENT : Nat := 1

/-- Modelled from the spec: `ELF_TYPE_EXEC` ("type `EXEC`"). -/
def ELF_TYPE_EXEC : Nat := 2

/-- Modelled from the spec: `ELF_TYPE_DYN` ("type `DYN`"). -/
def ELF_TYPE_DYN : Nat := 3

/-- Modelled from the spec: `ELF_MACHINE_X86` ("for `i386`"). -/
def ELF_MACHINE_X86 : Nat := 3

/-- `elf_check_hdr`. -/
def elf_check_hdr (hdr : ElfHeader) : Bool :=
  if load32 hdr.e_ident 0 ≠ ELF_MAGIC ∨ hdr.e_ident 4 ≠ ELF_CLASS_32 ∨
      hdr.e_ident 5 ≠ ELF_DATA_LSB ∨ hdr.e_ident 6 ≠ ELF_VERSION_CURRENT ∨
      (hdr.e_type ≠ ELF_TYPE_EXEC ∧ hdr.e_type ≠ ELF_TYPE_DYN) ∨
      hdr.e_machine ≠ ELF_MACHINE_X86 then false
  else true

/-- The example file system after a write of 0 bytes at offset 32 of `/f`:
the file has size 32 and no block. -/
def hfsNoBlocks : HfsData :=
  (hfs_write hfsSmallLayout hfsWithFile (some vnodeOne) 32 0 bufCount).1
/-! ## The scheduler: `scheduler_init` and sequences of calls -/

/-- A `thread_t` after `memset(init_thread, 0, sizeof(thread_t))`. -/
def zero_thread : Thread :=
  { tid := 0, proc := 0, state := ThreadState.THREAD_READY, priority := 0, timeslice := 0,
    kstack := 0, kstack_top := 0, kstack_size := 0, trap_frame := 0, next := 0 }

/-- The string `init`. -/
def INIT_NAME : List Nat := [105, 110, 105, 116]

/-- `scheduler_init`; `heap_ready` is false when `get_kernel_heap()` returns
NULL, the case of the test `if(!heap)`. The `get_kernel_heap` of `kheap.c`
returns the address of the static heap, so `heap_ready` is true in the
kernel. -/
def scheduler_init (s : SchedState) (heap_ready : Bool) : SchedState :=
  let s0 := { s with ready_queue_head := 0, ready_queue_tail := 0, process_list := 0 }
  if heap_ready = false then s0
  else
    let m1 := kmalloc s0.heap PROCESS_SIZE
    let init_proc := m1.2
    let s1 := { s0 with heap := m1.1 }
    if init_proc = 0 then s1
    else
      let s2 := process_create s1 init_proc INIT_NAME 0
      let s3 := s2.setProc init_proc
        { s2.procs init_proc with page_dir := s2.vmm.kernel_directory }
      let m2 := kmalloc s3.heap THREAD_SIZE
      let init_thread := m2.2
      let s4 := { s3 with heap := m2.1 }
      if init_thread = 0 then { s4 with heap := kfree s4.heap init_proc }
      else
        let a := alloc_tid (s4.setThread init_thread zero_thread)
        let s5 := a.1.setThread init_thread
          { a.1.threads init_thread with
            tid := a.2, proc := init_proc, state := ThreadState.THREAD_RUNNING, priority := 0,
            timeslice := DEFAULT_TIMESLICE }
        let m3 := kmalloc s5.heap KSTACK_SIZE
        let s6 := SchedState.setThread { s5 with heap := m3.1 } init_thread
          { s5.threads init_thread with kstack := m3.2 }
        if m3.2 = 0 then { s6 with heap := kfree (kfree s6.heap init_thread) init_proc }
        else
          let s7 := s6.setThread init_thread
            { s6.threads init_thread with
              kstack_size := KSTACK_SIZE, kstack_top := (m3.2 + KSTACK_SIZE) % U32,
              trap_frame := 0 }
          let s8 := s7.setProc init_proc
            { s7.procs init_proc with main_thread := init_thread, thread_list := init_thread }
          { s8 with current_proc := init_proc, current_thread := init_thread,
                    esp0 := (s8.threads init_thread).kstack_top }

/-- A call of the scheduler: a timer tick with the saved context at `context`,
or `scheduler_post` of a thread. -/
inductive SchedOp where
  | tick (context : Nat)
  | post (thread : Nat)
deriving DecidableEq

/-- One call of the scheduler. -/
def sched_step (fuel : Nat) (s : SchedState) : SchedOp → Option SchedState
  | SchedOp.tick context => scheduler_tick fuel s context
  | SchedOp.post thread => some (scheduler_post s thread)

/-- A sequence of calls of the scheduler, the first of the list first. -/
def sched_run (fuel : Nat) : List SchedOp → SchedState → Option SchedState
  | [], s => some s
  | op :: rest, s =>
    match sched_step fuel s op with
    | none => none
    | some s1 => sched_run fuel rest s1

/-- The thread `t` is in the ready queue: the `next` links from
`ready_queue_head` reach it. -/
def InQueue (s : SchedState) (t : Nat) : Prop :=
  ∃ l, Chain s s.ready_queue_head l ∧ t ∈ l

/-- Every `scheduler_post` of the sequence is of a thread that is neither
current nor in the ready queue when it is posted. -/
def PostsFresh (fuel : Nat) : List SchedOp → SchedState → Prop
  | [], _ => True
  | op :: rest, s =>
    (∀ t, op = SchedOp.post t → t ≠ s.current_thread ∧ ¬ InQueue s t) ∧
      ∀ s1, sched_step fuel s op = some s1 → PostsFresh fuel rest s1

/-- The state of the scheduler at boot: the static variables of `process.c`
have their initial values, with the kernel heap of 32 KiB at 65536. -/
def schedBoot : SchedState :=
  { threads := fun _ => zero_thread
    procs := fun _ => zero_process
    frames := fun _ => zero_context
    heap := buddy_init (fun _ => 0) 65536 32768 5 15
    vmm := vmmFresh
    esp0 := 0
    current_proc := 0
    current_thread := 0
    next_pid := 1
    next_tid := 1
    ready_queue_head := 0
    ready_queue_tail := 0
    process_list := 0
    debug_tick_count := 0 }

/-- The ready queue is well formed and holds the threads of the list `q`: the
links from `ready_queue_head` reach them without repetition and end at
`ready_queue_tail`, both pointers are NULL when the queue is empty, every
queued thread is READY, and the current thread, when there is one, is RUNNING
with a tick of its timeslice left and is not in the queue. -/
structure QueueInv (s : SchedState) (q : List Nat) : Prop where
  queue : IsQueue s q
  empty : q = [] → s.ready_queue_head = 0 ∧ s.ready_queue_tail = 0
  ready : ∀ x, x ∈ q → (s.threads x).state = ThreadState.THREAD_READY
  cur : s.current_thread ≠ 0 →
    (s.threads s.current_thread).state = ThreadState.THREAD_RUNNING ∧
      s.current_thread ∉ q ∧ 1 ≤ (s.threads s.current_thread).timeslice
/-! ## File system: the states that a removal passes through -/

/-- The state `h` comes from the consistent state `h0` by handing back blocks
and inodes and by clearing directory entries: the superblock and the inodes
are those of `h0`, the bitmaps in memory are those on the device, the
indirect blocks of the inodes in use in `h0` are as they were, and every
entry of a data block holds the inode number that it held in `h0`, or 0. -/
structure Pruned (L : HfsLayout) (h0 h : HfsData) : Prop where
  sb_eq : h.sb = h0.sb
  nb_eq : h.device.num_blocks = h0.device.num_blocks
  synced : h.Synced
  inodes_eq : ∀ i, read_inode L h i = read_inode L h0 i
  ind_eq : ∀ i ino, h0.inUse i → read_inode L h0 i = some ino →
    ino.i_single_indirect_pointer ≠ 0 →
    h.device.blocks ino.i_single_indirect_pointer
      = h0.device.blocks ino.i_single_indirect_pointer
  slots : ∀ b j, h0.sb.s_data_blocks_start ≤ b → b < h0.sb.s_blocks_count →
    dirent_inode_number L (h.device.blocks b) j ≠ 0 →
    dirent_inode_number L (h.device.blocks b) j = dirent_inode_number L (h0.device.blocks b) j

/-! ## `thread_create` and `process_spawn` -/

/-- `USER_STACK_TOP`. -/
def USER_STACK_TOP : Nat := 3221225472

/-- Modelled from the spec: `GDT_KERNEL_CODE_ENTRY`, the index of the kernel
code selector; the header that defines it is not among the sources, and
`init/idt.c` uses the selector `0x08`. -/
def GDT_KERNEL_CODE_ENTRY : Nat := 1

/-- Modelled from the spec: `GDT_KERNEL_DATA_ENTRY`, the index of the kernel
data selector. -/
def GDT_KERNEL_DATA_ENTRY : Nat := 2

/-- Modelled from the spec: `GDT_USER_CODE_ENTRY`, the index of the user code
selector. -/
def GDT_USER_CODE_ENTRY : Nat := 3

/-- Modelled from the spec: `GDT_USER_DATA_ENTRY`, the index of the user data
selector. -/
def GDT_USER_DATA_ENTRY : Nat := 4

/-- `thread_create`: the new state and the thread (NULL on failure).
`get_kernel_heap` returns the address of the static heap, so the test
`if(!heap)` never fires. The field `ebx` is the sixth word of the trap frame,
so `&frame->ebx` is `frame + 20`. -/
def thread_create (s : SchedState) (parent_process entry arg : Nat) : SchedState × Nat :=
  if parent_process = 0 then (s, 0)
  else
    let m1 := kmalloc s.heap THREAD_SIZE
    let thread := m1.2
    let s1 := { s with heap := m1.1 }
    if thread = 0 then (s1, 0)
    else
      let s2 := s1.setThread thread zero_thread
      let m2 := kmalloc s2.heap KSTACK_SIZE
      let s3 := SchedState.setThread { s2 with heap := m2.1 } thread
        { s2.threads thread with kstack := m2.2 }
      if m2.2 = 0 then ({ s3 with heap := kfree s3.heap thread }, 0)
      else
        let a := alloc_tid s3
        let s4 := a.1.setThread thread
          { a.1.threads thread with
            tid := a.2, proc := parent_process, state := ThreadState.THREAD_READY,
            priority := (a.1.procs parent_process).priority, timeslice := DEFAULT_TIMESLICE,
            kstack_size := KSTACK_SIZE, kstack_top := (m2.2 + KSTACK_SIZE) % U32 }
        let frame := ((s4.threads thread).kstack_top + (U32 - CONTEXT_SIZE)) % U32
        let s5 := s4.setFrame frame zero_context
        let pd := (s5.procs parent_process).page_dir
        let s6 :=
          if pd ≠ 0 ∧ pd ≠ s5.vmm.kernel_directory then
            s5.setFrame frame
              { s5.frames frame with
                cs := (GDT_USER_CODE_ENTRY * 8) ||| 3, ds := (GDT_USER_DATA_ENTRY * 8) ||| 3,
                ss := (GDT_USER_DATA_ENTRY * 8) ||| 3, useresp := USER_STACK_TOP }
          else
            s5.setFrame frame
              { s5.frames frame with
                cs := GDT_KERNEL_CODE_ENTRY * 8, ds := GDT_KERNEL_DATA_ENTRY * 8,
                ss := GDT_KERNEL_DATA_ENTRY * 8, useresp := (s5.threads thread).kstack_top }
        let s7 := s6.setFrame frame
          { s6.frames frame with
            eip := entry, eflags := 514, eax := arg, ebp := 0, esp := (frame + 20) % U32 }
        let s8 := s7.setThread thread
          { s7.threads thread with
            trap_frame := frame, next := (s7.procs parent_process).thread_list }
        let s9 := s8.setProc parent_process
          { s8.procs parent_process with thread_list := thread }
        let s10 :=
          if (s9.procs parent_process).main_thread = 0 then
            s9.setProc parent_process { s9.procs parent_process with main_thread := thread }
          else s9
        (s10, thread)

/-- What a call `elf_load(filename, dir, &entry_point)` does: the memory
manager after the call, the value returned, and the entry point stored.
`elf_load` reads the file with `vfs_open` and `vfs_read`, which are not among
the sources, so its outcome is given with the file. -/
structure ElfLoad where
  vmm : VmmState
  result : Int
  entry_point : Nat

/-- The outcome of `elf_load` on a file with a valid header, the entry point
`entry` and no program header: `elf_load` reads the header, runs its loop zero
times and stores `e_entry`; it never touches the directory. -/
def elf_load_no_segments (entry : Nat) (v : VmmState) (_dir : Nat) : ElfLoad :=
  { vmm := v, result := 0, entry_point := entry }

/-- `process_spawn`: the new state and the return value; `filename` is `none`
for a NULL pointer, `elf_load` gives the outcome of the call of `elf_load` on
the file; `none` when the fuel of a list walk of `process_destroy` runs out.
`get_kernel_heap` returns the address of the static heap, so the test
`if(!heap)` never fires. -/
def process_spawn (fuel : Nat) (s : SchedState) (filename : Option (List Nat))
    (elf_load : VmmState → Nat → ElfLoad) : Option (SchedState × Int) :=
  match filename with
  | none => some (s, -1)
  | some name =>
    let m1 := kmalloc s.heap PROCESS_SIZE
    let proc := m1.2
    let s1 := { s with heap := m1.1 }
    if proc = 0 then some (s1, -1)
    else
      let s2 := process_create s1 proc name 0
      let c := vmm_create_address_space s2.vmm
      let s3 := SchedState.setProc { s2 with vmm := c.1 } proc
        { s2.procs proc with page_dir := c.2 }
      if (s3.procs proc).page_dir = 0 then some ({ s3 with heap := kfree s3.heap proc }, -1)
      else
        let l := elf_load s3.vmm (s3.procs proc).page_dir
        let s4 := { s3 with vmm := l.vmm }
        if l.result < 0 ∨ l.entry_point = 0 then
          (process_destroy fuel s4 proc).map
            (fun s5 => ({ s5 with heap := kfree s5.heap proc }, l.result))
        else
          let t := thread_create s4 proc l.entry_point 0
          let main_thread := t.2
          if main_thread = 0 then
            (process_destroy fuel t.1 proc).map
              (fun s5 => ({ s5 with heap := kfree s5.heap proc }, -1))
          else
            let s6 := t.1.setProc proc { t.1.procs proc with main_thread := main_thread }
            some (scheduler_post s6 main_thread, toInt32 (s6.procs proc).pid)

/-- The memory manager at boot, before `vmm_init`: the frame allocator has 320
frames of which 288..319 are free, and the two directory pointers are NULL. -/
def vmmBoot : VmmState :=
  { kmm := kmmSmall
    mem := fun _ => 0
    kernel_directory := 0
    current_directory := 0 }

/-- The memory manager after these calls of `vmm_init` at boot:
`kernel_directory = vmm_create_address_space()`, the first call of the loop
over physical memory,
`vmm_map_page(kernel_directory, PHYS_TO_VIRT(0), 0, PTE_PRESENT | PTE_WRITABLE)`,
and `vmm_switch_pagedir(kernel_directory)`; the other calls of `vmm_map_page`
in `vmm_init`, which add mappings to the kernel directory, are left out. The
kernel directory is frame 288 and its entry 768 holds the page table of the
window, frame 289. -/
def vmmWindow : VmmState :=
  let c := vmm_create_address_space vmmBoot
  let s1 := { c.1 with kernel_directory := c.2 }
  let s2 := vmm_map_page s1 s1.kernel_directory (PHYS_TO_VIRT 0) 0 (PTE_PRESENT ||| PTE_WRITABLE)
  vmm_switch_pagedir s2 s2.kernel_directory

/-- The state of the kernel at boot, before `scheduler_init`: the static
variables of `process.c` have their initial values, the memory manager is
`vmmWindow` and the kernel heap has 64 KiB at 65536. -/
def schedBoot64 : SchedState :=
  { schedBoot with vmm := vmmWindow, heap := buddy_init (fun _ => 0) 65536 65536 5 16 }

/-- The state of the kernel after `scheduler_init` at boot. -/
def schedInit : SchedState := scheduler_init schedBoot64 true

/-- The string `/bin/sh`. -/
def SH_NAME : List Nat := [47, 98, 105, 110, 47, 115, 104]

/-- The state after `process_spawn("/bin/sh")` in the state `schedInit`, for a
file with no program header and the entry point `0x400000`; the state
`schedInit` when the call does not return. -/
def schedSpawned : SchedState :=
  ((process_spawn 10 schedInit (some SH_NAME) (elf_load_no_segments 4194304)).getD
    (schedInit, -1)).1
/-! ## The invariant of the process table -/

/-- The address `a` is NULL, lies outside the block of the heap, or lies in
the block of a live pointer, so that no `kmalloc` hands it out. -/
def Owned (h : BuddyState) (live : List Nat) (ord : Nat → Nat) (a : Nat) : Prop :=
  a = 0 ∨ a < h.base ∨ h.base + 2 ^ h.max_order ≤ a ∨
    ∃ p, p ∈ live ∧ p - 8 ≤ a ∧ a < p - 8 + 2 ^ ord p

/-- The invariant of the process table, for the live pointers `live` of the
kernel heap (with the orders `ord` of their blocks), the processes `pl` of the
process list and the threads `q` of the ready queue: the heap and the ready
queue are well formed, the `next` links from `process_list` reach the
processes of `pl`, every listed process has a PID below `next_pid`, the listed
processes, the queued threads and the current thread are live objects of the
heap, and the trap frames of the queued threads and of the current thread are
not in free memory of the heap. -/
structure ProcInv (s : SchedState) (live : List Nat) (ord : Nat → Nat) (pl q : List Nat) :
    Prop where
  heap : HeapInv s.heap live ord
  queue : QueueInv s q
  procs : ProcChain s s.process_list pl
  pids : ∀ p, p ∈ pl → (s.procs p).pid < s.next_pid
  procs_live : ∀ p, p ∈ pl → p ∈ live
  queue_live : ∀ t, t ∈ q → t ∈ live
  cur_live : s.current_thread ≠ 0 → s.current_thread ∈ live
  frames : ∀ t, t ∈ q ∨ (t = s.current_thread ∧ t ≠ 0) →
    Owned s.heap live ord (s.threads t).trap_frame

theorem isframe_used_eq_testBit (s : KmmState) (f : Nat) :
    isframe_used s f = (s.memory_bitmap (f / 32)).testBit (f % 32) := by
  unfold isframe_used
  rw [Nat.one_shiftLeft, Nat.and_two_pow]
  cases h : (s.memory_bitmap (f / 32)).testBit (f % 32) <;> simp

theorem testBit_not32 (x i : Nat) :
    (not32 x).testBit i = (decide (i < 32) && !x.testBit i) := by
  unfold not32 U32
  rw [Nat.testBit_xor, show (4294967295 : Nat) = 2 ^ 32 - 1 by norm_num,
    Nat.testBit_two_pow_sub_one, show (4294967296 : Nat) = 2 ^ 32 by norm_num,
    Nat.testBit_mod_two_pow]
  by_cases h : i < 32 <;> simp [h]

theorem isframe_used_mark_frame (s : KmmState) (f g : Nat) :
    isframe_used (mark_frame s f) g = (decide (g = f) || isframe_used s g) := by
  simp only [isframe_used_eq_testBit, mark_frame, KmmState.setWord]
  by_cases h : g / 32 = f / 32
  · simp only [h, if_true, Nat.testBit_lor, Nat.one_shiftLeft, Nat.testBit_two_pow]
    by_cases h2 : f % 32 = g % 32
    · have : g = f := by omega
      simp [this]
    · have : g ≠ f := by intro e; subst e; exact h2 rfl
      simp [h2, this]
  · have : g ≠ f := by intro e; subst e; exact h rfl
    simp [h, this]

theorem isframe_used_unmark_frame (s : KmmState) (f g : Nat) :
    isframe_used (unmark_frame s f) g = (!decide (g = f) && isframe_used s g) := by
  simp only [isframe_used_eq_testBit, unmark_frame, KmmState.setWord]
  by_cases h : g / 32 = f / 32
  · simp only [h, if_true, Nat.testBit_land, testBit_not32, Nat.one_shiftLeft,
      Nat.testBit_two_pow]
    have hlt : g % 32 < 32 := Nat.mod_lt _ (by norm_num)
    by_cases h2 : f % 32 = g % 32
    · have : g = f := by omega
      simp [this]
    · have : g ≠ f := by intro e; subst e; exact h2 rfl
      simp [h2, this, hlt]
  · have : g ≠ f := by intro e; subst e; exact h rfl
    simp [h, this]

@[simp] theorem isframe_used_incUsed (s : KmmState) (g : Nat) :
    isframe_used s.incUsed g = isframe_used s g := by
  simp [isframe_used, KmmState.incUsed]

@[simp] theorem isframe_used_decUsed (s : KmmState) (g : Nat) :
    isframe_used s.decUsed g = isframe_used s g := by
  simp [isframe_used, KmmState.decUsed]

theorem countP_range_congr (p q : Nat → Bool) (n : Nat)
    (h : ∀ g, g < n → q g = p g) :
    (List.range n).countP q = (List.range n).countP p := by
  induction n with
  | zero => simp
  | succ n ih =>
    rw [List.range_succ, List.countP_append, List.countP_append,
      ih (fun g hg => h g (Nat.lt_succ_of_lt hg))]
    simp [List.countP_cons, h n (Nat.lt_succ_self n)]

theorem countP_range_set (p q : Nat → Bool) (f n : Nat) (hf : f < n)
    (hp : p f = false) (hq : q f = true) (h : ∀ g, g ≠ f → q g = p g) :
    (List.range n).countP q = (List.range n).countP p + 1 := by
  induction n with
  | zero => omega
  | succ n ih =>
    rw [List.range_succ, List.countP_append, List.countP_append]
    by_cases hfn : f = n
    · subst hfn
      rw [countP_range_congr p q f (fun g hg => h g (by omega))]
      simp [List.countP_cons, hp, hq]
    · rw [ih (by omega)]
      simp [List.countP_cons, h n (fun e => hfn e.symm)]
      omega

theorem countP_range_le (p : Nat → Bool) (n : Nat) :
    (List.range n).countP p ≤ n := by
  have := List.countP_le_length p (l := List.range n)
  simpa using this

theorem usedCount_mark (s : KmmState) (f : Nat) (hf : f < s.total_frames)
    (hfree : isframe_used s f = false) :
    usedCount (mark_frame s f).incUsed = usedCount s + 1 := by
  unfold usedCount
  exact countP_range_set (isframe_used s) (isframe_used (mark_frame s f).incUsed) f _ hf hfree
    (by simp [isframe_used_mark_frame]) (fun g hg => by simp [isframe_used_mark_frame, hg])

theorem usedCount_unmark (s : KmmState) (f : Nat) (hf : f < s.total_frames)
    (hused : isframe_used s f = true) :
    usedCount s = usedCount (unmark_frame s f).decUsed + 1 := by
  unfold usedCount
  exact countP_range_set (isframe_used (unmark_frame s f).decUsed) (isframe_used s) f _ hf
    (by simp [isframe_used_unmark_frame]) hused
    (fun g hg => by simp [isframe_used_unmark_frame, hg])

theorem usedCount_le (s : KmmState) : usedCount s ≤ s.total_frames :=
  countP_range_le _ _

theorem find_first_free_word_sound (s : KmmState) (i : Nat) :
    ∀ n j r, find_first_free_word s i n j = some r →
      r = NO_FRAME ∨ (r < s.total_frames ∧ isframe_used s r = false) := by
  intro n
  induction n with
  | zero => intro j r h; simp [find_first_free_word] at h
  | succ n ih =>
    intro j r h
    simp only [find_first_free_word] at h
    split_ifs at h with h1 h2
    · left; exact (Option.some.inj h).symm
    · right
      have := Option.some.inj h
      subst this
      exact ⟨by omega, by simpa using h2⟩
    · exact ih _ _ h

theorem find_first_free_from_sound (s : KmmState) :
    ∀ n i, find_first_free_from s n i = NO_FRAME ∨
      (find_first_free_from s n i < s.total_frames ∧
        isframe_used s (find_first_free_from s n i) = false) := by
  intro n
  induction n with
  | zero => intro i; left; rfl
  | succ n ih =>
    intro i
    simp only [find_first_free_from]
    split_ifs with h1
    · cases hw : find_first_free_word s i 32 0 with
      | none => simpa using ih (i + 1)
      | some r => simpa using find_first_free_word_sound s i 32 0 r hw
    · exact ih (i + 1)

theorem find_first_free_sound (s : KmmState) :
    find_first_free s = NO_FRAME ∨
      (find_first_free s < s.total_frames ∧ isframe_used s (find_first_free s) = false) :=
  find_first_free_from_sound s _ _

theorem find_first_free_word_spec (s : KmmState) (i : Nat) (hi : i * 32 + 32 ≤ U32) :
    ∀ n j, j + n = 32 → AllUsed s 0 (i * 32 + j) →
      (∀ r, find_first_free_word s i n j = some r → FirstFree s r) ∧
      (find_first_free_word s i n j = none → AllUsed s 0 (i * 32 + 32)) := by
  intro n
  induction n with
  | zero =>
    intro j hj hall
    have : j = 32 := by omega
    subst this
    simp [find_first_free_word, hall]
  | succ n ih =>
    intro j hj hall
    have hmod : (i * 32 + j) % U32 = i * 32 + j := Nat.mod_eq_of_lt (by omega)
    simp only [find_first_free_word, hmod]
    split_ifs with h1 h2
    · refine ⟨fun r hr => ?_, fun h => by simp at h⟩
      have := Option.some.inj hr
      subst this
      exact Or.inl ⟨rfl, fun g h0 hg => hall g h0 (by omega)⟩
    · refine ⟨fun r hr => ?_, fun h => by simp at h⟩
      have := Option.some.inj hr
      subst this
      exact Or.inr ⟨by omega, by simpa using h2, hall⟩
    · have hused : isframe_used s (i * 32 + j) = true := by simpa using h2
      have hall2 : AllUsed s 0 (i * 32 + (j + 1)) := by
        intro g h0 hg
        by_cases hgj : g = i * 32 + j
        · rw [hgj]; exact hused
        · exact hall g h0 (by omega)
      exact ih (j + 1) (by omega) hall2

theorem isframe_used_of_full_word (s : KmmState) (i j : Nat) (hj : j < 32)
    (hw : s.memory_bitmap i = 4294967295) : isframe_used s (i * 32 + j) = true := by
  rw [isframe_used_eq_testBit]
  have h1 : (i * 32 + j) / 32 = i := by omega
  have h2 : (i * 32 + j) % 32 = j := by omega
  rw [h1, h2, hw, show (4294967295 : Nat) = 2 ^ 32 - 1 by norm_num,
    Nat.testBit_two_pow_sub_one]
  simp [hj]

theorem find_first_free_from_spec (s : KmmState) (hs : s.SizesOk) :
    ∀ n i, i + n = s.bitmap_size → AllUsed s 0 (i * 32) →
      FirstFree s (find_first_free_from s n i) := by
  obtain ⟨hsz, htot⟩ := hs
  intro n
  induction n with
  | zero =>
    intro i hi hall
    refine Or.inl ⟨rfl, fun g h0 hg => hall g h0 ?_⟩
    simp only [add_zero] at hi
    rw [hi, hsz]
    omega
  | succ n ih =>
    intro i hi hall
    have hib : i * 32 + 32 ≤ U32 := by
      have : i < (s.total_frames + 31) / 32 := by omega
      unfold U32
      omega
    simp only [find_first_free_from]
    have hw := find_first_free_word_spec s i hib 32 0 (by omega) (by simpa using hall)
    split_ifs with h1
    · cases hres : find_first_free_word s i 32 0 with
      | none =>
        simp only
        refine ih (i + 1) (by omega) ?_
        have := hw.2 hres
        intro g h0 hg
        exact this g h0 (by omega)
      | some r => exact hw.1 r hres
    · refine ih (i + 1) (by omega) ?_
      have hfull : s.memory_bitmap i = 4294967295 := by simpa using h1
      intro g h0 hg
      by_cases hgi : g < i * 32
      · exact hall g h0 hgi
      · have := isframe_used_of_full_word s i (g - i * 32) (by omega) hfull
        rwa [show i * 32 + (g - i * 32) = g by omega] at this

theorem find_first_free_spec (s : KmmState) (hs : s.SizesOk) :
    FirstFree s (find_first_free s) :=
  find_first_free_from_spec s hs _ 0 (by simp) (fun g _ hg => by omega)

theorem lowClear_mark (s : KmmState) (f : Nat) (hf : f < s.total_frames) (hlow : f < 256)
    (hfree : isframe_used s f = false) :
    lowClear s = lowClear (mark_frame s f).incUsed + 1 := by
  unfold lowClear
  refine countP_range_set _ _ f 256 hlow ?_ ?_ ?_
  · simp [isframe_used_mark_frame]
  · have : (mark_frame s f).incUsed.total_frames = s.total_frames := rfl
    simp [hf, hfree]
  · intro g hg
    have : (mark_frame s f).incUsed.total_frames = s.total_frames := rfl
    simp [isframe_used_mark_frame, hg, this]

theorem lowClear_zero (s : KmmState) (h : lowClear s = 0) (g : Nat) (hg : g < 256)
    (hgt : g < s.total_frames) : isframe_used s g = true := by
  unfold lowClear at h
  rw [List.countP_eq_zero] at h
  have := h g (by simpa using hg)
  simpa [hgt] using this

theorem incUsed_used_frames (s : KmmState) (f : Nat) (hf : f < s.total_frames)
    (hfree : isframe_used s f = false) (hinv : s.used_frames = usedCount s)
    (htot : s.total_frames < U32) :
    (mark_frame s f).incUsed.used_frames = usedCount (mark_frame s f).incUsed := by
  have h1 := usedCount_mark s f hf hfree
  have h2 : usedCount (mark_frame s f).incUsed ≤ s.total_frames :=
    usedCount_le (mark_frame s f).incUsed
  show (s.used_frames + 1) % U32 = _
  rw [hinv, h1]
  exact Nat.mod_eq_of_lt (by omega)

theorem kmm_frame_alloc_loop_spec :
    ∀ fuel s,
      (kmm_frame_alloc_loop fuel s (find_first_free s)).2 =
        find_first_free (kmm_frame_alloc_loop fuel s (find_first_free s)).1 ∧
      (kmm_frame_alloc_loop fuel s (find_first_free s)).1.total_frames = s.total_frames ∧
      (kmm_frame_alloc_loop fuel s (find_first_free s)).1.bitmap_size = s.bitmap_size ∧
      (∀ g, 256 ≤ g → isframe_used (kmm_frame_alloc_loop fuel s (find_first_free s)).1 g =
        isframe_used s g) ∧
      (∀ g, isframe_used s g = true →
        isframe_used (kmm_frame_alloc_loop fuel s (find_first_free s)).1 g = true) ∧
      (s.used_frames = usedCount s → s.total_frames < U32 →
        (kmm_frame_alloc_loop fuel s (find_first_free s)).1.used_frames =
          usedCount (kmm_frame_alloc_loop fuel s (find_first_free s)).1) ∧
      (lowClear s ≤ fuel →
        ¬ ((kmm_frame_alloc_loop fuel s (find_first_free s)).2 ≠ NO_FRAME ∧
            (kmm_frame_alloc_loop fuel s (find_first_free s)).2 < 256)) := by
  intro fuel
  induction fuel with
  | zero =>
    intro s
    have e : kmm_frame_alloc_loop 0 s (find_first_free s) = (s, find_first_free s) := rfl
    rw [e]
    refine ⟨rfl, rfl, rfl, fun _ _ => rfl, fun _ h => h, fun h _ => h, ?_⟩
    intro hlc hcond
    have hz : lowClear s = 0 := by omega
    rcases find_first_free_sound s with h | ⟨h1, h2⟩
    · exact hcond.1 h
    · have := lowClear_zero s hz _ hcond.2 h1
      rw [h2] at this
      exact Bool.false_ne_true this
  | succ fuel ih =>
    intro s
    by_cases hcond : find_first_free s ≠ NO_FRAME ∧ find_first_free s < 256
    · have e : kmm_frame_alloc_loop (fuel + 1) s (find_first_free s) =
          kmm_frame_alloc_loop fuel (mark_frame s (find_first_free s)).incUsed
            (find_first_free (mark_frame s (find_first_free s)).incUsed) := by
        simp only [kmm_frame_alloc_loop]
        rw [if_pos hcond]
      rw [e]
      rcases find_first_free_sound s with h | ⟨h1, h2⟩
      · exact absurd h hcond.1
      · obtain ⟨i1, i2, i3, i4, i5, i6, i7⟩ := ih (mark_frame s (find_first_free s)).incUsed
        refine ⟨i1, i2, i3, ?_, ?_, ?_, ?_⟩
        · intro g hg
          rw [i4 g hg]
          have : g ≠ find_first_free s := by omega
          simp [isframe_used_mark_frame, this]
        · intro g hg
          apply i5
          simp [isframe_used_mark_frame, hg]
        · intro hinv htot
          exact i6 (incUsed_used_frames s _ h1 h2 hinv htot) htot
        · intro hlc
          apply i7
          have := lowClear_mark s _ h1 hcond.2 h2
          omega
    · have e : kmm_frame_alloc_loop (fuel + 1) s (find_first_free s) =
          (s, find_first_free s) := by
        simp only [kmm_frame_alloc_loop]
        rw [if_neg hcond]
      rw [e]
      exact ⟨rfl, rfl, rfl, fun _ _ => rfl, fun _ h => h, fun h _ => h, fun _ => hcond⟩

theorem lowClear_le (s : KmmState) : lowClear s ≤ 256 :=
  countP_range_le _ _

/-- The low-region loop of `kmm_frame_alloc` has terminated within its 256
iterations: on exit the frame is `(uint32_t)-1` or at least 256. -/
theorem kmm_frame_alloc_loop_done (s : KmmState) :
    (kmm_frame_alloc_loop 256 s (find_first_free s)).2 = NO_FRAME ∨
      256 ≤ (kmm_frame_alloc_loop 256 s (find_first_free s)).2 := by
  have := (kmm_frame_alloc_loop_spec 256 s).2.2.2.2.2.2 (lowClear_le s)
  by_cases h : (kmm_frame_alloc_loop 256 s (find_first_free s)).2 = NO_FRAME
  · exact Or.inl h
  · right
    by_contra hlt
    exact this ⟨h, by omega⟩

theorem kmm_frame_alloc_inv (s : KmmState) (hinv : s.used_frames = usedCount s)
    (htot : s.total_frames < U32) :
    (kmm_frame_alloc s).1.used_frames = usedCount (kmm_frame_alloc s).1 ∧
      (kmm_frame_alloc s).1.total_frames = s.total_frames := by
  obtain ⟨i1, i2, _, _, _, i6, _⟩ := kmm_frame_alloc_loop_spec 256 s
  simp only [kmm_frame_alloc]
  split_ifs with h
  · exact ⟨i6 hinv htot, i2⟩
  · refine ⟨?_, i2⟩
    rcases find_first_free_sound (kmm_frame_alloc_loop 256 s (find_first_free s)).1 with h1 | ⟨h1, h2⟩
    · exact absurd (i1.trans h1) h
    · rw [← i1] at h1 h2
      exact incUsed_used_frames _ _ h1 h2 (i6 hinv htot) (by rw [i2]; exact htot)

theorem kmm_frame_free_inv (s : KmmState) (a : Nat) (hinv : s.used_frames = usedCount s)
    (htot : s.total_frames < U32) :
    (kmm_frame_free s a).used_frames = usedCount (kmm_frame_free s a) ∧
      (kmm_frame_free s a).total_frames = s.total_frames := by
  simp only [kmm_frame_free]
  split_ifs with h1 h2 h3
  · exact ⟨hinv, rfl⟩
  · exact ⟨hinv, rfl⟩
  · exact ⟨hinv, rfl⟩
  · refine ⟨?_, rfl⟩
    have hused : isframe_used s (a / _KMM_BLOCK_SIZE) = true := by simpa using h3
    have hlt : a / _KMM_BLOCK_SIZE < s.total_frames := by omega
    have h4 := usedCount_unmark s _ hlt hused
    have h5 := usedCount_le s
    show (s.used_frames + 4294967295) % U32 = _
    rw [hinv, h4]
    unfold U32 at *
    omega

theorem kmm_step_inv (s : KmmState) (op : KmmOp) (hinv : s.used_frames = usedCount s)
    (htot : s.total_frames < U32) :
    (kmm_step s op).used_frames = usedCount (kmm_step s op) ∧
      (kmm_step s op).total_frames = s.total_frames := by
  cases op with
  | alloc => exact kmm_frame_alloc_inv s hinv htot
  | free a => exact kmm_frame_free_inv s a hinv htot

theorem kmm_run_inv (ops : List KmmOp) :
    ∀ s : KmmState, s.used_frames = usedCount s → s.total_frames < U32 →
      (kmm_run s ops).used_frames = usedCount (kmm_run s ops) := by
  induction ops with
  | nil => intro s h _; exact h
  | cons op ops ih =>
    intro s hinv htot
    have := kmm_step_inv s op hinv htot
    exact ih (kmm_step s op) this.1 (by rw [this.2]; exact htot)

/-- C4: from every state in which `used_frames` equals the number of set bits
among the frames below `total_frames`, after each call of every sequence of
`kmm_frame_alloc` and `kmm_frame_free` calls (that is, after every prefix of the
sequence) `used_frames` again equals that number of set bits.  `total_frames`
is a `uint32_t`, hence below `2^32`. -/
theorem kmm_used_frames_eq_popcount (s : KmmState) (ops : List KmmOp)
    (hinv : s.used_frames = usedCount s) (htot : s.total_frames < U32) (k : Nat) :
    (kmm_run s (ops.take k)).used_frames = usedCount (kmm_run s (ops.take k)) :=
  kmm_run_inv (ops.take k) s hinv htot

set_option maxRecDepth 100000 in
theorem kmm_used_frames_eq_popcount_witness :
    kmmSmall.used_frames = usedCount kmmSmall ∧
      (kmm_run kmmSmall ([KmmOp.alloc, KmmOp.free 1179648, KmmOp.alloc].take 2)).used_frames =
        usedCount (kmm_run kmmSmall ([KmmOp.alloc, KmmOp.free 1179648, KmmOp.alloc].take 2)) :=
  ⟨by decide, kmm_used_frames_eq_popcount kmmSmall _ (by decide) (by decide) 2⟩

theorem kmm_frame_alloc_cases (s : KmmState) (hs : s.SizesOk) :
    ((kmm_frame_alloc s).2 = 0 ∧ AllUsed s 256 s.total_frames) ∨
    (∃ f, 256 ≤ f ∧ f < s.total_frames ∧ isframe_used s f = false ∧ AllUsed s 256 f ∧
      (kmm_frame_alloc s).2 = 4096 * f ∧ isframe_used (kmm_frame_alloc s).1 f = true) := by
  obtain ⟨i1, i2, i3, i4, _, _, _⟩ := kmm_frame_alloc_loop_spec 256 s
  have hdone := kmm_frame_alloc_loop_done s
  have hs1 : (kmm_frame_alloc_loop 256 s (find_first_free s)).1.SizesOk := by
    unfold KmmState.SizesOk at *
    rw [i2, i3]
    exact hs
  have hff := find_first_free_spec _ hs1
  unfold FirstFree at hff
  rw [← i1, i2] at hff
  have htot : s.total_frames ≤ 1048576 := hs.2
  simp only [kmm_frame_alloc]
  split_ifs with h
  · left
    refine ⟨rfl, ?_⟩
    rcases hff with ⟨_, hall⟩ | ⟨hlt, _, _⟩
    · intro g hg hgt
      rw [← i4 g hg]
      exact hall g (by omega) hgt
    · rw [h] at hlt
      unfold NO_FRAME at hlt
      omega
  · right
    rcases hff with ⟨hno, _⟩ | ⟨hlt, hfree, hall⟩
    · exact absurd hno h
    · have hge : 256 ≤ (kmm_frame_alloc_loop 256 s (find_first_free s)).2 := by
        rcases hdone with h' | h'
        · exact absurd h' h
        · exact h'
      refine ⟨_, hge, hlt, ?_, ?_, ?_, ?_⟩
      · rw [← i4 _ hge]; exact hfree
      · intro g hg hgt
        rw [← i4 g hg]
        exact hall g (by omega) hgt
      · show (_ * _KMM_BLOCK_SIZE) % U32 = _
        unfold _KMM_BLOCK_SIZE U32
        omega
      · simp [isframe_used_mark_frame]

/-- C5: for every bitmap state (with the sizes as `kmm_init` sets them),
`kmm_frame_alloc` returns NULL exactly when no frame `f` with
`256 ≤ f < total_frames` has its bit clear; otherwise it returns `4096 * f` for
the lowest such frame `f` and sets the bit of `f`.  Hence a non-NULL result is
never a frame below 256 and never a frame that was marked used before the call. -/
theorem kmm_frame_alloc_lowest_free (s : KmmState) (hs : s.SizesOk) :
    ((kmm_frame_alloc s).2 = 0 ↔ AllUsed s 256 s.total_frames) ∧
    (∀ f, 256 ≤ f → f < s.total_frames → isframe_used s f = false → AllUsed s 256 f →
      (kmm_frame_alloc s).2 = 4096 * f ∧ isframe_used (kmm_frame_alloc s).1 f = true) ∧
    ((kmm_frame_alloc s).2 ≠ 0 →
      256 ≤ (kmm_frame_alloc s).2 / 4096 ∧ (kmm_frame_alloc s).2 / 4096 < s.total_frames ∧
      (kmm_frame_alloc s).2 = 4096 * ((kmm_frame_alloc s).2 / 4096) ∧
      isframe_used s ((kmm_frame_alloc s).2 / 4096) = false) := by
  rcases kmm_frame_alloc_cases s hs with ⟨h0, hall⟩ | ⟨f, hge, hlt, hfree, hall, hres, hset⟩
  · refine ⟨⟨fun _ => hall, fun _ => h0⟩, ?_, fun h => absurd h0 h⟩
    intro f hge hlt hfree _
    rw [hall f hge hlt] at hfree
    exact absurd hfree (by simp)
  · have hne : (kmm_frame_alloc s).2 ≠ 0 := by omega
    refine ⟨⟨fun h => absurd h hne, fun h => ?_⟩, ?_, fun _ => ?_⟩
    · rw [h f hge hlt] at hfree
      exact absurd hfree (by simp)
    · intro f' hge' hlt' hfree' hall'
      have : f' = f := by
        rcases Nat.lt_trichotomy f' f with hlt2 | heq | hgt2
        · rw [hall f' hge' hlt2] at hfree'
          exact absurd hfree' (by simp)
        · exact heq
        · rw [hall' f hge hgt2] at hfree
          exact absurd hfree (by simp)
      subst this
      exact ⟨hres, hset⟩
    · have hdiv : (kmm_frame_alloc s).2 / 4096 = f := by omega
      rw [hdiv]
      exact ⟨hge, hlt, hres, hfree⟩

theorem kmm_frame_alloc_lowest_free_witness :
    kmmSmall.SizesOk ∧ (kmm_frame_alloc kmmSmall).2 = 4096 * 288 :=
  ⟨by decide, ((kmm_frame_alloc_lowest_free kmmSmall (by decide)).2.1 288 (by decide)
    (by decide) (by decide) (by
      intro g hg hlt
      have hw : kmmSmall.memory_bitmap (g / 32) = 4294967295 := by
        have : g / 32 < 9 := by omega
        simp [kmmSmall, this]
      have := isframe_used_of_full_word kmmSmall (g / 32) (g % 32) (Nat.mod_lt _ (by norm_num)) hw
      rwa [show g / 32 * 32 + g % 32 = g by omega] at this)).1⟩

theorem kmm_frame_alloc_total (k : KmmState) :
    (kmm_frame_alloc k).1.total_frames = k.total_frames := by
  obtain ⟨_, i2, _⟩ := kmm_frame_alloc_loop_spec 256 k
  simp only [kmm_frame_alloc]
  split_ifs
  · exact i2
  · exact i2

theorem kmm_frame_alloc_mono (k : KmmState) (g : Nat) (h : isframe_used k g = true) :
    isframe_used (kmm_frame_alloc k).1 g = true := by
  obtain ⟨_, _, _, _, i5, _⟩ := kmm_frame_alloc_loop_spec 256 k
  simp only [kmm_frame_alloc]
  split_ifs
  · exact i5 g h
  · simp [isframe_used_mark_frame, i5 g h]

theorem kmm_frame_alloc_fresh (k : KmmState) (htot : k.total_frames ≤ 1048576)
    (h : (kmm_frame_alloc k).2 ≠ 0) :
    ∃ f, (kmm_frame_alloc k).2 = 4096 * f ∧ 256 ≤ f ∧ f < k.total_frames ∧
      isframe_used k f = false ∧ isframe_used (kmm_frame_alloc k).1 f = true := by
  obtain ⟨i1, i2, _, i4, _, _, _⟩ := kmm_frame_alloc_loop_spec 256 k
  have hdone := kmm_frame_alloc_loop_done k
  have hsound := find_first_free_sound (kmm_frame_alloc_loop 256 k (find_first_free k)).1
  rw [← i1, i2] at hsound
  simp only [kmm_frame_alloc] at h ⊢
  split_ifs at h ⊢ with hno
  · exact absurd rfl h
  · rcases hsound with h1 | ⟨h1, h2⟩
    · exact absurd h1 hno
    · have hge : 256 ≤ (kmm_frame_alloc_loop 256 k (find_first_free k)).2 := by
        rcases hdone with h' | h'
        · exact absurd h' hno
        · exact h'
      refine ⟨_, ?_, hge, h1, ?_, ?_⟩
      · show (_ * _KMM_BLOCK_SIZE) % U32 = _
        unfold _KMM_BLOCK_SIZE U32
        omega
      · rw [← i4 _ hge]; exact h2
      · simp [isframe_used_mark_frame]

theorem kmm_frame_free_total (k : KmmState) (a : Nat) :
    (kmm_frame_free k a).total_frames = k.total_frames := by
  simp only [kmm_frame_free]
  split_ifs <;> rfl

theorem kmm_frame_free_le (k : KmmState) (a g : Nat)
    (h : isframe_used (kmm_frame_free k a) g = true) : isframe_used k g = true := by
  simp only [kmm_frame_free] at h
  split_ifs at h
  · exact h
  · exact h
  · exact h
  · simp [isframe_used_unmark_frame] at h
    exact h.2

theorem kmm_frame_free_clears (k : KmmState) (a : Nat) (h1 : 256 ≤ a / 4096)
    (h2 : a / 4096 < k.total_frames) :
    isframe_used (kmm_frame_free k a) (a / 4096) = false := by
  have ha : a ≠ 0 := by
    intro h
    subst h
    omega
  simp only [kmm_frame_free, _KMM_BLOCK_SIZE]
  rw [if_neg ha, if_neg (by omega)]
  split_ifs with h3
  · simpa using h3
  · simp [isframe_used_unmark_frame]

theorem kmm_frame_free_other (k : KmmState) (a g : Nat) (hg : g ≠ a / 4096) :
    isframe_used (kmm_frame_free k a) g = isframe_used k g := by
  simp only [kmm_frame_free, _KMM_BLOCK_SIZE]
  split_ifs
  · rfl
  · rfl
  · rfl
  · simp [isframe_used_unmark_frame, hg]

/-! ## Physical frame allocator: `kmm_frame_free`, regions and `kmm_init` -/

/-- C31 (amended): `kmm_frame_free(a)` with frame `f = a / 4096`: for every
`f` with `256 ≤ f < total_frames` whose bit is set, it clears bit `f`,
decrements `used_frames` by one (as a `uint32_t`) and leaves every other bit
and every other word of the bitmap unchanged; for every `f` below 256, at or
beyond `total_frames`, or whose bit is already clear, it leaves the whole
state, the bitmap and `used_frames` with it, unchanged. -/
theorem kmm_frame_free_contract (s : KmmState) (a : Nat) :
    (256 ≤ a / _KMM_BLOCK_SIZE → a / _KMM_BLOCK_SIZE < s.total_frames →
      isframe_used s (a / _KMM_BLOCK_SIZE) = true →
      isframe_used (kmm_frame_free s a) (a / _KMM_BLOCK_SIZE) = false ∧
      (kmm_frame_free s a).used_frames = (s.used_frames + 4294967295) % U32 ∧
      (0 < s.used_frames → s.used_frames < U32 →
        (kmm_frame_free s a).used_frames + 1 = s.used_frames) ∧
      (∀ g, g ≠ a / _KMM_BLOCK_SIZE →
        isframe_used (kmm_frame_free s a) g = isframe_used s g) ∧
      (∀ i, i ≠ a / _KMM_BLOCK_SIZE / 32 →
        (kmm_frame_free s a).memory_bitmap i = s.memory_bitmap i) ∧
      (kmm_frame_free s a).total_frames = s.total_frames ∧
      (kmm_frame_free s a).bitmap_size = s.bitmap_size) ∧
    (a / _KMM_BLOCK_SIZE < 256 ∨ s.total_frames ≤ a / _KMM_BLOCK_SIZE ∨
        isframe_used s (a / _KMM_BLOCK_SIZE) = false →
      kmm_frame_free s a = s) := by
  constructor
  · intro h1 h2 h3
    have ha : a ≠ 0 := by
      intro e
      rw [e] at h1
      exact absurd h1 (by decide)
    have e : kmm_frame_free s a = (unmark_frame s (a / _KMM_BLOCK_SIZE)).decUsed := by
      unfold kmm_frame_free
      rw [if_neg ha]
      simp only []
      rw [if_neg (by omega), h3]
      rfl
    rw [e]
    refine ⟨?_, rfl, ?_, ?_, ?_, rfl, rfl⟩
    · simp [isframe_used_unmark_frame]
    · intro p1 p2
      show (s.used_frames + 4294967295) % U32 + 1 = s.used_frames
      unfold U32 at p2 ⊢
      omega
    · intro g hg
      simp [isframe_used_unmark_frame, hg]
    · intro i hi
      show (if i = a / _KMM_BLOCK_SIZE / 32 then _ else s.memory_bitmap i) = s.memory_bitmap i
      rw [if_neg hi]
  · intro h
    unfold kmm_frame_free
    by_cases ha : a = 0
    · rw [if_pos ha]
    · rw [if_neg ha]
      simp only []
      rcases h with h | h | h
      · rw [if_pos (Or.inr h)]
      · rw [if_pos (Or.inl h)]
      · by_cases c : a / _KMM_BLOCK_SIZE ≥ s.total_frames ∨ a / _KMM_BLOCK_SIZE < 256
        · rw [if_pos c]
        · rw [if_neg c, h]
          rfl

set_option maxRecDepth 100000 in
theorem kmm_frame_free_contract_witness :
    isframe_used kmmSmall 287 = true ∧
      isframe_used (kmm_frame_free kmmSmall 1175552) 287 = false ∧
      (kmm_frame_free kmmSmall 1175552).used_frames = 287 :=
  ⟨by decide,
    ((kmm_frame_free_contract kmmSmall 1175552).1 (by decide) (by decide) (by decide)).1,
    by decide⟩

set_option maxRecDepth 100000 in
/-- Frame 5 lies below `total_frames` and its bit is set, and
`kmm_frame_free(5 * 4096)` leaves the bit set and `used_frames` as it is: the
frames below 256 are never freed. -/
theorem kmm_frame_free_contract_counterexample :
    5 < kmmSmall.total_frames ∧ isframe_used kmmSmall 5 = true ∧
      isframe_used (kmm_frame_free kmmSmall 20480) 5 = true ∧
      (kmm_frame_free kmmSmall 20480).used_frames = kmmSmall.used_frames := by
  decide

set_option maxRecDepth 1000000 in
/-- C32 (code evaluated at the failing input): in a state where `used_frames`
is the number of set bits, 288, `kmm_setup_memory_region(0, 4096, true)` on
frame 0, which is marked, leaves 288 bits set and makes `used_frames` 289;
and `kmm_init` on a machine of 260 frames whose map has one usable region
ends with 257 bits set and `used_frames` 513. -/
theorem kmm_setup_memory_region_miscounts :
    kmmSmall.used_frames = usedCount kmmSmall ∧
      usedCount (kmm_setup_memory_region kmmSmall 0 4096 true) = 288 ∧
      (kmm_setup_memory_region kmmSmall 0 4096 true).used_frames = 289 ∧
      kmmAfterInit.total_frames = 260 ∧ usedCount kmmAfterInit = 257 ∧
      kmmAfterInit.used_frames = 513 := by
  decide

set_option maxRecDepth 1000000 in
/-- C33 (code evaluated at the failing input): after `kmm_init` on a machine
of 260 frames with the kernel image at the physical addresses
`[0x100000, 0x100800)`, frame 256, which holds the kernel image, is not marked
used, and the next `kmm_frame_alloc` returns its address `0x100000`; the
frames below 256 and frame 257, which holds the bitmap, are marked. -/
theorem kmm_init_leaves_kernel_frame_free :
    VIRT_TO_PHYS 3222274048 = 1048576 ∧ VIRT_TO_PHYS 3222276096 = 1050624 ∧
      kmmAfterInit.total_frames = 260 ∧
      isframe_used kmmAfterInit 256 = false ∧ isframe_used kmmAfterInit 255 = true ∧
      isframe_used kmmAfterInit 257 = true ∧
      (kmm_frame_alloc kmmAfterInit).2 = 1048576 := by
  decide
/-! ## Properties of the virtual memory manager -/

theorem and_hi_mask (x k : Nat) (hk : k ≤ 32) :
    x &&& (2 ^ 32 - 2 ^ k) = x % 2 ^ 32 / 2 ^ k * 2 ^ k := by
  apply Nat.eq_of_testBit_eq
  intro i
  have hm : 2 ^ 32 - 2 ^ k = (2 ^ (32 - k) - 1) <<< k := by
    rw [Nat.shiftLeft_eq, Nat.sub_mul, ← Nat.pow_add, Nat.sub_add_cancel hk, one_mul]
  rw [Nat.testBit_land, hm, Nat.testBit_shiftLeft, Nat.testBit_two_pow_sub_one,
    ← Nat.shiftLeft_eq, Nat.testBit_shiftLeft, ← Nat.shiftRight_eq_div_pow,
    Nat.testBit_shiftRight, Nat.testBit_mod_two_pow]
  by_cases h1 : i ≥ k
  · have : k + (i - k) = i := by omega
    by_cases h2 : i < 32
    · have : i - k < 32 - k := by omega
      simp [*]
    · have : ¬ (i - k < 32 - k) := by omega
      simp [*]
  · simp [h1]

theorem and_frame_mask (x : Nat) : x &&& 4294963200 = x % 4294967296 / 4096 * 4096 := by
  have := and_hi_mask x 12 (by norm_num)
  norm_num at this
  exact this

theorem and_4095 (x : Nat) : x &&& 4095 = x % 4096 := by
  have := Nat.and_pow_two_sub_one_eq_mod x 12
  norm_num at this
  exact this

theorem and_1023 (x : Nat) : x &&& 1023 = x % 1024 := by
  have := Nat.and_pow_two_sub_one_eq_mod x 10
  norm_num at this
  exact this

theorem and_not_one (x : Nat) : x &&& 4294967294 = x % 4294967296 / 2 * 2 := by
  have := and_hi_mask x 1 (by norm_num)
  norm_num at this
  exact this

theorem VMM_DIR_INDEX_eq (v : Nat) : VMM_DIR_INDEX v = v / 4194304 % 1024 := by
  unfold VMM_DIR_INDEX
  rw [and_1023, Nat.shiftRight_eq_div_pow]

theorem VMM_TABLE_INDEX_eq (v : Nat) : VMM_TABLE_INDEX v = v / 4096 % 1024 := by
  unfold VMM_TABLE_INDEX
  rw [and_1023, Nat.shiftRight_eq_div_pow]

theorem PDE_PTABLE_ADDR_eq (e : Nat) : PDE_PTABLE_ADDR e = e % 4294967296 / 4096 * 4096 :=
  and_frame_mask e

theorem PTE_FRAME_ADDR_eq (e : Nat) : PTE_FRAME_ADDR e = e % 4294967296 / 4096 * 4096 :=
  and_frame_mask e

theorem PDE_IS_PRESENT_eq (e : Nat) : PDE_IS_PRESENT e = decide (e % 2 = 1) := by
  unfold PDE_IS_PRESENT PDE_PRESENT
  rw [Nat.and_one_is_mod]
  rcases Nat.mod_two_eq_zero_or_one e with h | h <;> simp [h]

theorem PTE_IS_PRESENT_eq (e : Nat) : PTE_IS_PRESENT e = decide (e % 2 = 1) :=
  PDE_IS_PRESENT_eq e

theorem lor_frame_flags (a b : Nat) (hb : b < 4096) : a * 4096 ||| b = a * 4096 + b := by
  have := Nat.mul_add_lt_is_or (i := 12) (b := b) (by simpa using hb) a
  rw [Nat.mul_comm a 4096]
  norm_num at this
  exact this.symm

theorem pde_create_eq (p f : Nat) :
    pde_create p f = p % 4294967296 / 4096 * 4096 + f % 4096 := by
  unfold pde_create PDE_FRAME_MASK
  rw [and_frame_mask, and_4095, lor_frame_flags _ _ (Nat.mod_lt _ (by norm_num))]

theorem pte_create_eq (p f : Nat) :
    pte_create p f = p % 4294967296 / 4096 * 4096 + f % 4096 :=
  pde_create_eq p f

theorem lor_one_mod_two (f : Nat) : (f ||| 1) % 2 = 1 := by
  simp

theorem lor_one_mod_4096 (f : Nat) : (f ||| 1) % 4096 % 2 = 1 := by
  have := lor_one_mod_two f
  omega

/-! ### Addresses of directory and table entries -/

theorem VIRT_TO_PHYS_PHYS_TO_VIRT (p : Nat) (hp : p < U32) :
    VIRT_TO_PHYS (PHYS_TO_VIRT p) = p := by
  unfold VIRT_TO_PHYS PHYS_TO_VIRT PHYS_BASE U32 at *
  omega

theorem phys_entry_dir (pdir i : Nat) (_h1 : pdir < U32) (h2 : pdir % 4096 = 0)
    (hi : i < 1024) :
    VIRT_TO_PHYS (entryPtr pdir i) = VIRT_TO_PHYS pdir + 4 * i := by
  unfold VIRT_TO_PHYS entryPtr U32 at *
  omega

theorem phys_dir_aligned (pdir : Nat) (h2 : pdir % 4096 = 0) :
    VIRT_TO_PHYS pdir % 4096 = 0 ∧ VIRT_TO_PHYS pdir < U32 := by
  unfold VIRT_TO_PHYS U32
  omega

theorem ptable_addr_aligned (e : Nat) :
    PDE_PTABLE_ADDR e % 4096 = 0 ∧ PDE_PTABLE_ADDR e < U32 := by
  rw [PDE_PTABLE_ADDR_eq]
  unfold U32
  omega

theorem phys_entry_tab (t j : Nat) (h1 : t < U32) (h2 : t % 4096 = 0) (hj : j < 1024) :
    VIRT_TO_PHYS (entryPtr (PHYS_TO_VIRT t) j) = t + 4 * j := by
  unfold VIRT_TO_PHYS entryPtr PHYS_TO_VIRT PHYS_BASE U32 at *
  omega

theorem pde_eq_mem (s : VmmState) (pdir i : Nat) (h1 : pdir < U32) (h2 : pdir % 4096 = 0)
    (hi : i < 1024) : pde s pdir i = s.mem (VIRT_TO_PHYS pdir + 4 * i) := by
  unfold pde VmmState.load
  rw [phys_entry_dir pdir i h1 h2 hi]

theorem pteAt_eq_mem (s : VmmState) (pdir i j : Nat) (hj : j < 1024) :
    pteAt s pdir i j = s.mem (PDE_PTABLE_ADDR (pde s pdir i) + 4 * j) := by
  unfold pteAt VmmState.load
  rw [phys_entry_tab _ j (ptable_addr_aligned _).2 (ptable_addr_aligned _).1 hj]

/-! ### The allocator as seen by the memory manager -/

theorem Reserved_alloc (k : KmmState) (a : Nat) (h : Reserved k a) :
    Reserved (kmm_frame_alloc k).1 a := by
  unfold Reserved at *
  rw [kmm_frame_alloc_total]
  rcases h with h | h | h
  · exact Or.inl h
  · exact Or.inr (Or.inl h)
  · exact Or.inr (Or.inr (kmm_frame_alloc_mono k _ h))

theorem alloc_fresh_addr (k : KmmState) (htot : k.total_frames ≤ 262144)
    (h : (kmm_frame_alloc k).2 ≠ 0) :
    (kmm_frame_alloc k).2 % 4096 = 0 ∧ (kmm_frame_alloc k).2 < 1073741824 ∧
      ¬ Reserved k (kmm_frame_alloc k).2 ∧
      Reserved (kmm_frame_alloc k).1 (kmm_frame_alloc k).2 := by
  obtain ⟨f, h1, h2, h3, h4, h5⟩ := kmm_frame_alloc_fresh k (by omega) h
  have hdiv : (kmm_frame_alloc k).2 / 4096 = f := by omega
  refine ⟨by omega, by omega, ?_, ?_⟩
  · unfold Reserved
    rw [hdiv, h4]
    simp
    omega
  · unfold Reserved
    rw [hdiv]
    exact Or.inr (Or.inr h5)

theorem ne_of_reserved (k : KmmState) (a b : Nat) (ha : Reserved k a) (hb : ¬ Reserved k b) :
    a / 4096 ≠ b / 4096 := by
  intro h
  apply hb
  unfold Reserved at *
  rw [← h]
  exact ha

/-! ### Extension of a directory by allocation -/

theorem Ext.refl (s : VmmState) (pdir : Nat) (h : DirOk s pdir) : Ext s s pdir where
  ok := h
  total := rfl
  mono := fun _ h => h
  keep := fun _ _ _ _ h => ⟨h, rfl⟩
  fresh := fun _ _ _ _ h hn => absurd h hn
  inj := fun _ _ _ _ _ _ _ _ h hn => absurd h hn

theorem Ext.trans {s s2 s' : VmmState} {pdir : Nat} (h1 : Ext s s2 pdir)
    (h2 : Ext s2 s' pdir) : Ext s s' pdir where
  ok := h2.ok
  total := h2.total.trans h1.total
  mono := fun a h => h2.mono a (h1.mono a h)
  keep := by
    intro i j hi hj hp
    obtain ⟨p1, e1⟩ := h1.keep i j hi hj hp
    obtain ⟨p2, e2⟩ := h2.keep i j hi hj p1
    exact ⟨p2, e2.trans e1⟩
  fresh := by
    intro i j hi hj hp hn
    by_cases hmid : presentAt s2 pdir i j
    · obtain ⟨_, e2⟩ := h2.keep i j hi hj hmid
      obtain ⟨f1, f2⟩ := h1.fresh i j hi hj hmid hn
      rw [e2]
      exact ⟨f1, h2.mono _ f2⟩
    · obtain ⟨f1, f2⟩ := h2.fresh i j hi hj hp hmid
      exact ⟨fun hr => f1 (h1.mono _ hr), f2⟩
  inj := by
    intro i j i' j' hi hj hi' hj' hp hn hp' hn' heq
    by_cases hmid : presentAt s2 pdir i j
    · obtain ⟨_, e2⟩ := h2.keep i j hi hj hmid
      obtain ⟨_, f2⟩ := h1.fresh i j hi hj hmid hn
      by_cases hmid' : presentAt s2 pdir i' j'
      · obtain ⟨_, e2'⟩ := h2.keep i' j' hi' hj' hmid'
        rw [e2, e2'] at heq
        exact h1.inj i j i' j' hi hj hi' hj' hmid hn hmid' hn' heq
      · obtain ⟨g1, _⟩ := h2.fresh i' j' hi' hj' hp' hmid'
        rw [← heq, e2] at g1
        exact absurd f2 g1
    · obtain ⟨f1, _⟩ := h2.fresh i j hi hj hp hmid
      by_cases hmid' : presentAt s2 pdir i' j'
      · obtain ⟨_, e2'⟩ := h2.keep i' j' hi' hj' hmid'
        obtain ⟨_, g2⟩ := h1.fresh i' j' hi' hj' hmid' hn'
        rw [heq, e2'] at f1
        exact absurd g2 f1
      · exact h2.inj i j i' j' hi hj hi' hj' hp hmid hp' hmid' heq

theorem pde_flags_odd (flags : Nat) :
    ((PDE_PRESENT ||| (if flags &&& PTE_WRITABLE ≠ 0 then PDE_WRITABLE else 0))
      ||| (if flags &&& PTE_USER ≠ 0 then PDE_USER else 0)) % 2 = 1 := by
  unfold PDE_PRESENT PDE_WRITABLE PDE_USER
  split_ifs <;> decide

theorem pde_create_fresh (t f : Nat) (h1 : t % 4096 = 0) (h2 : t < U32) (hf : f % 2 = 1) :
    PDE_IS_PRESENT (pde_create t f) = true ∧ PDE_PTABLE_ADDR (pde_create t f) = t := by
  rw [PDE_IS_PRESENT_eq, PDE_PTABLE_ADDR_eq, pde_create_eq]
  unfold U32 at h2
  constructor
  · rw [decide_eq_true_eq]
    omega
  · omega

/-- The three outcomes of `vmm_create_pt`. -/
theorem vmm_create_pt_cases (s : VmmState) (pdir va flags : Nat) :
    (PDE_IS_PRESENT (pde s pdir (VMM_DIR_INDEX va)) = true ∧ vmm_create_pt s pdir va flags = s) ∨
    (PDE_IS_PRESENT (pde s pdir (VMM_DIR_INDEX va)) = false ∧ (kmm_frame_alloc s.kmm).2 = 0 ∧
      vmm_create_pt s pdir va flags = s.withKmm (kmm_frame_alloc s.kmm).1) ∨
    (PDE_IS_PRESENT (pde s pdir (VMM_DIR_INDEX va)) = false ∧ (kmm_frame_alloc s.kmm).2 ≠ 0 ∧
      ∃ e, PDE_IS_PRESENT e = true ∧ PDE_PTABLE_ADDR e % U32 = (kmm_frame_alloc s.kmm).2 % U32 / 4096 * 4096 ∧
      vmm_create_pt s pdir va flags =
        ((s.withKmm (kmm_frame_alloc s.kmm).1).memsetPage
          (PHYS_TO_VIRT (kmm_frame_alloc s.kmm).2)).store (entryPtr pdir (VMM_DIR_INDEX va)) e) := by
  unfold vmm_create_pt pde
  by_cases hp : PDE_IS_PRESENT (s.load (entryPtr pdir (VMM_DIR_INDEX va))) = true
  · left
    simp [hp]
  · right
    have hp' : PDE_IS_PRESENT (s.load (entryPtr pdir (VMM_DIR_INDEX va))) = false := by
      simpa using hp
    by_cases h0 : (kmm_frame_alloc s.kmm).2 = 0
    · left
      simp [hp', h0]
    · right
      refine ⟨hp', h0, pde_create (kmm_frame_alloc s.kmm).2
        ((PDE_PRESENT ||| (if flags &&& PTE_WRITABLE ≠ 0 then PDE_WRITABLE else 0))
          ||| (if flags &&& PTE_USER ≠ 0 then PDE_USER else 0)), ?_, ?_,
        by simp only [hp', h0, Bool.false_eq_true, ↓reduceIte]⟩
      · have hodd := pde_flags_odd flags
        generalize ((PDE_PRESENT ||| (if flags &&& PTE_WRITABLE ≠ 0 then PDE_WRITABLE else 0))
          ||| (if flags &&& PTE_USER ≠ 0 then PDE_USER else 0)) = pf at hodd ⊢
        rw [PDE_IS_PRESENT_eq, pde_create_eq, decide_eq_true_eq]
        omega
      · rw [PDE_PTABLE_ADDR_eq, pde_create_eq]
        unfold U32
        omega

theorem Ext.of_one_page {s s1 : VmmState} {pdir : Nat} (i0 j0 : Nat) (hok1 : DirOk s1 pdir)
    (htot : s1.kmm.total_frames = s.kmm.total_frames)
    (hmono : ∀ a, Reserved s.kmm a → Reserved s1.kmm a)
    (hkeep : ∀ i j, i < 1024 → j < 1024 → presentAt s pdir i j →
      presentAt s1 pdir i j ∧ pteAt s1 pdir i j = pteAt s pdir i j)
    (hnew : ∀ i j, i < 1024 → j < 1024 → presentAt s1 pdir i j → ¬ presentAt s pdir i j →
      (i = i0 ∧ j = j0) ∧ ¬ Reserved s.kmm (PTE_FRAME_ADDR (pteAt s1 pdir i j)) ∧
        Reserved s1.kmm (PTE_FRAME_ADDR (pteAt s1 pdir i j))) :
    Ext s s1 pdir where
  ok := hok1
  total := htot
  mono := hmono
  keep := hkeep
  fresh := fun i j hi hj hp hn => (hnew i j hi hj hp hn).2
  inj := by
    intro i j i' j' hi hj hi' hj' hp hn hp' hn' _
    obtain ⟨⟨e1, e2⟩, _⟩ := hnew i j hi hj hp hn
    obtain ⟨⟨e1', e2'⟩, _⟩ := hnew i' j' hi' hj' hp' hn'
    exact ⟨e1.trans e1'.symm, e2.trans e2'.symm⟩

theorem DirOk.withKmm_alloc {s : VmmState} {pdir : Nat} (h : DirOk s pdir) :
    DirOk (s.withKmm (kmm_frame_alloc s.kmm).1) pdir where
  nonnull := h.nonnull
  lt := h.lt
  aligned := h.aligned
  tab_ne_dir := h.tab_ne_dir
  tab_inj := h.tab_inj
  tab_window := h.tab_window
  total := by
    show (kmm_frame_alloc s.kmm).1.total_frames ≤ _
    rw [kmm_frame_alloc_total]
    exact h.total
  dir_reserved := Reserved_alloc _ _ h.dir_reserved
  tab_reserved := fun i hi hp => Reserved_alloc _ _ (h.tab_reserved i hi hp)

theorem vmm_create_pt_ext (s : VmmState) (pdir va flags : Nat) (h : DirOk s pdir) :
    Ext s (vmm_create_pt s pdir va flags) pdir ∧
      (∀ i j, i < 1024 → j < 1024 → presentAt (vmm_create_pt s pdir va flags) pdir i j →
        presentAt s pdir i j) := by
  have hi0 : VMM_DIR_INDEX va < 1024 := by rw [VMM_DIR_INDEX_eq]; omega
  rcases vmm_create_pt_cases s pdir va flags with ⟨_, e⟩ | ⟨_, _, e⟩ | ⟨hp, h0, e, hpe, hte, heq⟩
  · rw [e]
    exact ⟨Ext.refl s pdir h, fun _ _ _ _ hp => hp⟩
  · rw [e]
    refine ⟨Ext.of_one_page 0 0 h.withKmm_alloc (kmm_frame_alloc_total _)
      (fun a ha => Reserved_alloc _ _ ha)
      (fun i j _ _ hp => ⟨hp, rfl⟩) (fun i j _ _ hp hn => absurd hp hn), fun _ _ _ _ hp => hp⟩
  · rw [heq]
    obtain ⟨ta, tw, tnr, tr⟩ := alloc_fresh_addr s.kmm h.total h0
    generalize (kmm_frame_alloc s.kmm).2 = T at *
    generalize hk : (kmm_frame_alloc s.kmm).1 = k' at *
    have tl : T < U32 := by unfold U32; omega
    have hmono : ∀ a, Reserved s.kmm a → Reserved k' a := by
      intro a ha; rw [← hk]; exact Reserved_alloc _ _ ha
    have hktot : k'.total_frames = s.kmm.total_frames := by
      rw [← hk]; exact kmm_frame_alloc_total _
    obtain ⟨da, dl⟩ := phys_dir_aligned pdir h.aligned
    have hTe : PDE_PTABLE_ADDR e = T := by
      have := (ptable_addr_aligned e).2
      rw [Nat.mod_eq_of_lt this] at hte
      rw [hte]
      unfold U32
      omega
    have hDT : VIRT_TO_PHYS pdir / 4096 ≠ T / 4096 := ne_of_reserved _ _ _ h.dir_reserved tnr
    -- the memory of the new state
    have hmem : ∀ a, (((s.withKmm k').memsetPage (PHYS_TO_VIRT T)).store
        (entryPtr pdir (VMM_DIR_INDEX va)) e).mem a =
        if a = VIRT_TO_PHYS pdir + 4 * VMM_DIR_INDEX va then e
        else if T ≤ a ∧ a < T + 4096 then 0 else s.mem a := by
      intro a
      simp only [VmmState.store, VmmState.memsetPage, VmmState.withKmm,
        phys_entry_dir pdir _ h.lt h.aligned hi0, VIRT_TO_PHYS_PHYS_TO_VIRT T tl]
    have hpde : ∀ i, i < 1024 → pde (((s.withKmm k').memsetPage (PHYS_TO_VIRT T)).store
        (entryPtr pdir (VMM_DIR_INDEX va)) e) pdir i =
        if i = VMM_DIR_INDEX va then e else pde s pdir i := by
      intro i hi
      rw [pde_eq_mem _ pdir i h.lt h.aligned hi, hmem, pde_eq_mem _ pdir i h.lt h.aligned hi]
      by_cases hii : i = VMM_DIR_INDEX va
      · simp [hii]
      · rw [if_neg (by omega), if_neg (by omega), if_neg hii]
    have hpte_old : ∀ i j, i < 1024 → j < 1024 → PDE_IS_PRESENT (pde s pdir i) = true →
        pteAt (((s.withKmm k').memsetPage (PHYS_TO_VIRT T)).store
          (entryPtr pdir (VMM_DIR_INDEX va)) e) pdir i j = pteAt s pdir i j := by
      intro i j hi hj hpi
      have hii : i ≠ VMM_DIR_INDEX va := by
        intro e'; rw [e', hp] at hpi; exact Bool.false_ne_true hpi
      rw [pteAt_eq_mem _ _ _ _ hj, pteAt_eq_mem _ _ _ _ hj, hpde i hi, if_neg hii, hmem]
      have h1 := h.tab_ne_dir i hi hpi
      have h2 := ne_of_reserved _ _ _ (h.tab_reserved i hi hpi) tnr
      obtain ⟨h3, h4⟩ := ptable_addr_aligned (pde s pdir i)
      rw [if_neg (by omega), if_neg (by omega)]
    have hpte_new : ∀ j, j < 1024 → pteAt (((s.withKmm k').memsetPage (PHYS_TO_VIRT T)).store
          (entryPtr pdir (VMM_DIR_INDEX va)) e) pdir (VMM_DIR_INDEX va) j = 0 := by
      intro j hj
      rw [pteAt_eq_mem _ _ _ _ hj, hpde _ hi0, if_pos rfl, hTe, hmem]
      rw [if_neg (by omega), if_pos (by omega)]
    have hback : ∀ i j, i < 1024 → j < 1024 →
        presentAt (((s.withKmm k').memsetPage (PHYS_TO_VIRT T)).store
          (entryPtr pdir (VMM_DIR_INDEX va)) e) pdir i j → presentAt s pdir i j := by
      intro i j hi hj ⟨p1, p2⟩
      by_cases hii : i = VMM_DIR_INDEX va
      · subst hii
        rw [hpte_new j hj] at p2
        exact absurd p2 (by decide)
      · rw [hpde i hi, if_neg hii] at p1
        rw [hpte_old i j hi hj p1] at p2
        exact ⟨p1, p2⟩
    refine ⟨Ext.of_one_page 0 0 ?_ hktot hmono ?_
      (fun i j hi hj hp' hn => absurd (hback i j hi hj hp') hn), hback⟩
    · exact
        { nonnull := h.nonnull
          lt := h.lt
          aligned := h.aligned
          tab_ne_dir := by
            intro i hi hpi
            rw [hpde i hi] at hpi ⊢
            by_cases hii : i = VMM_DIR_INDEX va
            · rw [if_pos hii, hTe]
              intro e'
              rw [e'] at hDT
              exact hDT rfl
            · rw [if_neg hii] at hpi ⊢
              exact h.tab_ne_dir i hi hpi
          tab_inj := by
            intro i j hi hj hpi hpj heq'
            rw [hpde i hi] at hpi heq'
            rw [hpde j hj] at hpj heq'
            by_cases hii : i = VMM_DIR_INDEX va
            · by_cases hjj : j = VMM_DIR_INDEX va
              · exact hii.trans hjj.symm
              · rw [if_pos hii, if_neg hjj, hTe] at heq'
                rw [if_neg hjj] at hpj
                have := ne_of_reserved _ _ _ (h.tab_reserved j hj hpj) tnr
                rw [heq'] at this
                exact absurd rfl this
            · by_cases hjj : j = VMM_DIR_INDEX va
              · rw [if_neg hii, if_pos hjj, hTe] at heq'
                rw [if_neg hii] at hpi
                have := ne_of_reserved _ _ _ (h.tab_reserved i hi hpi) tnr
                rw [heq'] at this
                exact absurd rfl this
              · rw [if_neg hii] at hpi heq'
                rw [if_neg hjj] at hpj heq'
                exact h.tab_inj i j hi hj hpi hpj heq'
          tab_window := by
            intro i hi hpi
            rw [hpde i hi] at hpi ⊢
            by_cases hii : i = VMM_DIR_INDEX va
            · rw [if_pos hii, hTe]
              omega
            · rw [if_neg hii] at hpi ⊢
              exact h.tab_window i hi hpi
          total := by
            show k'.total_frames ≤ _
            rw [hktot]
            exact h.total
          dir_reserved := hmono _ h.dir_reserved
          tab_reserved := by
            intro i hi hpi
            rw [hpde i hi] at hpi ⊢
            by_cases hii : i = VMM_DIR_INDEX va
            · rw [if_pos hii, hTe]
              exact tr
            · rw [if_neg hii] at hpi ⊢
              exact hmono _ (h.tab_reserved i hi hpi) }
    · intro i j hi hj ⟨p1, p2⟩
      have hii : i ≠ VMM_DIR_INDEX va := by
        intro e'; rw [e', hp] at p1; exact Bool.false_ne_true p1
      refine ⟨⟨?_, ?_⟩, hpte_old i j hi hj p1⟩
      · rw [hpde i hi, if_neg hii]; exact p1
      · rw [hpte_old i j hi hj p1]; exact p2

theorem pte_create_fresh (t f : Nat) (h1 : t % 4096 = 0) (h2 : t < U32) :
    PTE_IS_PRESENT (pte_create t (f ||| PTE_PRESENT)) = true ∧
      PTE_FRAME_ADDR (pte_create t (f ||| PTE_PRESENT)) = t ∧
      pte_create t (f ||| PTE_PRESENT) % 4096 = (f ||| PTE_PRESENT) % 4096 := by
  have hodd := lor_one_mod_4096 f
  unfold PTE_PRESENT
  generalize f ||| 1 = g at hodd ⊢
  rw [PTE_IS_PRESENT_eq, PTE_FRAME_ADDR_eq, pte_create_eq, decide_eq_true_eq]
  unfold U32 at h2
  omega

theorem vmm_page_alloc_ext (s : VmmState) (pdir i0 j0 flags : Nat) (h : DirOk s pdir)
    (hi0 : i0 < 1024) (hj0 : j0 < 1024) (hp0 : PDE_IS_PRESENT (pde s pdir i0) = true)
    (hres : (vmm_page_alloc s
      (entryPtr (PHYS_TO_VIRT (PDE_PTABLE_ADDR (pde s pdir i0))) j0) flags).2 = 0) :
    Ext s (vmm_page_alloc s
      (entryPtr (PHYS_TO_VIRT (PDE_PTABLE_ADDR (pde s pdir i0))) j0) flags).1 pdir ∧
    presentAt (vmm_page_alloc s
      (entryPtr (PHYS_TO_VIRT (PDE_PTABLE_ADDR (pde s pdir i0))) j0) flags).1 pdir i0 j0 := by
  have hload : s.load (entryPtr (PHYS_TO_VIRT (PDE_PTABLE_ADDR (pde s pdir i0))) j0) =
      pteAt s pdir i0 j0 := rfl
  obtain ⟨t0a, t0l⟩ := ptable_addr_aligned (pde s pdir i0)
  have hphys := phys_entry_tab _ j0 t0l t0a hj0
  generalize hptr : entryPtr (PHYS_TO_VIRT (PDE_PTABLE_ADDR (pde s pdir i0))) j0 = ptr at *
  unfold vmm_page_alloc at hres ⊢
  by_cases hnull : ptr = 0
  · simp [hnull] at hres
  · rw [if_neg hnull] at hres ⊢
    rw [hload] at hres ⊢
    by_cases hpres : PTE_IS_PRESENT (pteAt s pdir i0 j0) = true
    · rw [if_pos hpres]
      exact ⟨Ext.refl s pdir h, hp0, hpres⟩
    · rw [if_neg hpres] at hres ⊢
      by_cases h0 : (kmm_frame_alloc s.kmm).2 = 0
      · simp [h0] at hres
      · simp only [h0, if_false]
        obtain ⟨ta, tw, tnr, tr⟩ := alloc_fresh_addr s.kmm h.total h0
        have tl : (kmm_frame_alloc s.kmm).2 < U32 := by unfold U32; omega
        obtain ⟨ep, ef, _⟩ := pte_create_fresh (kmm_frame_alloc s.kmm).2 flags ta tl
        generalize pte_create (kmm_frame_alloc s.kmm).2 (flags ||| PTE_PRESENT) = e at *
        generalize (kmm_frame_alloc s.kmm).2 = T at *
        generalize hk : (kmm_frame_alloc s.kmm).1 = k' at *
        have hmono : ∀ a, Reserved s.kmm a → Reserved k' a := by
          intro a ha; rw [← hk]; exact Reserved_alloc _ _ ha
        have hktot : k'.total_frames = s.kmm.total_frames := by
          rw [← hk]; exact kmm_frame_alloc_total _
        obtain ⟨da, dl⟩ := phys_dir_aligned pdir h.aligned
        have hmem : ∀ a, ((s.withKmm k').store ptr e).mem a =
            if a = PDE_PTABLE_ADDR (pde s pdir i0) + 4 * j0 then e else s.mem a := by
          intro a
          simp only [VmmState.store, VmmState.withKmm, hphys]
        have hpde : ∀ i, i < 1024 → pde ((s.withKmm k').store ptr e) pdir i = pde s pdir i := by
          intro i hi
          rw [pde_eq_mem _ pdir i h.lt h.aligned hi, hmem, pde_eq_mem _ pdir i h.lt h.aligned hi]
          have := h.tab_ne_dir i0 hi0 hp0
          rw [if_neg (by omega)]
        have hpte : ∀ i j, i < 1024 → j < 1024 → PDE_IS_PRESENT (pde s pdir i) = true →
            pteAt ((s.withKmm k').store ptr e) pdir i j =
              if i = i0 ∧ j = j0 then e else pteAt s pdir i j := by
          intro i j hi hj hpi
          rw [pteAt_eq_mem _ _ _ _ hj, pteAt_eq_mem _ _ _ _ hj, hpde i hi, hmem]
          obtain ⟨h3, h4⟩ := ptable_addr_aligned (pde s pdir i)
          by_cases hc : i = i0 ∧ j = j0
          · rw [if_pos hc, hc.1, hc.2, if_pos rfl]
          · rw [if_neg hc]
            have : PDE_PTABLE_ADDR (pde s pdir i) + 4 * j ≠
                PDE_PTABLE_ADDR (pde s pdir i0) + 4 * j0 := by
              intro e'
              have e1 : PDE_PTABLE_ADDR (pde s pdir i) = PDE_PTABLE_ADDR (pde s pdir i0) := by omega
              have e2 := h.tab_inj i i0 hi hi0 hpi hp0 e1
              exact hc ⟨e2, by omega⟩
            rw [if_neg this]
        have hok1 : DirOk ((s.withKmm k').store ptr e) pdir :=
          { nonnull := h.nonnull
            lt := h.lt
            aligned := h.aligned
            tab_ne_dir := by
              intro i hi hpi
              rw [hpde i hi] at hpi ⊢
              exact h.tab_ne_dir i hi hpi
            tab_inj := by
              intro i j hi hj hpi hpj heq'
              rw [hpde i hi] at hpi heq'
              rw [hpde j hj] at hpj heq'
              exact h.tab_inj i j hi hj hpi hpj heq'
            tab_window := by
              intro i hi hpi
              rw [hpde i hi] at hpi ⊢
              exact h.tab_window i hi hpi
            total := by
              show k'.total_frames ≤ _
              rw [hktot]
              exact h.total
            dir_reserved := hmono _ h.dir_reserved
            tab_reserved := by
              intro i hi hpi
              rw [hpde i hi] at hpi ⊢
              exact hmono _ (h.tab_reserved i hi hpi) }
        refine ⟨Ext.of_one_page i0 j0 hok1 hktot hmono ?_ ?_, ?_, ?_⟩
        · intro i j hi hj ⟨p1, p2⟩
          have hc : ¬ (i = i0 ∧ j = j0) := by
            intro ⟨e1, e2⟩
            subst e1 e2
            exact hpres p2
          have e3 := hpte i j hi hj p1
          rw [if_neg hc] at e3
          refine ⟨⟨?_, ?_⟩, e3⟩
          · rw [hpde i hi]; exact p1
          · rw [e3]; exact p2
        · intro i j hi hj ⟨p1, p2⟩ hn
          rw [hpde i hi] at p1
          have e3 := hpte i j hi hj p1
          by_cases hc : i = i0 ∧ j = j0
          · rw [if_pos hc] at e3
            rw [e3, ef]
            exact ⟨hc, tnr, tr⟩
          · rw [if_neg hc] at e3
            rw [e3] at p2
            exact absurd ⟨p1, p2⟩ hn
        · rw [hpde i0 hi0]; exact hp0
        · rw [hpte i0 j0 hi0 hj0 hp0, if_pos ⟨rfl, rfl⟩]; exact ep

theorem vmm_alloc_region_loop_ext (pdir virt region_start region_end flags : Nat) :
    ∀ fuel s va0 s', DirOk s pdir →
      vmm_alloc_region_loop pdir virt region_start region_end flags fuel s va0 = some (s', true) →
      Ext s s' pdir ∧
        (va0 % 4096 = 0 → va0 < U32 → ∀ va, va0 ≤ va → va < region_end →
          presentAt s' pdir (VMM_DIR_INDEX va) (VMM_TABLE_INDEX va)) := by
  intro fuel
  induction fuel with
  | zero =>
    intro s va0 s' _ h
    simp [vmm_alloc_region_loop] at h
  | succ fuel ih =>
    intro s va0 s' hok h
    have hi0 : VMM_DIR_INDEX va0 < 1024 := by rw [VMM_DIR_INDEX_eq]; omega
    have hj0 : VMM_TABLE_INDEX va0 < 1024 := by rw [VMM_TABLE_INDEX_eq]; omega
    unfold vmm_alloc_region_loop at h
    by_cases hc : va0 < region_end
    · rw [if_pos hc] at h
      obtain ⟨hext1, _⟩ := vmm_create_pt_ext s pdir va0 flags hok
      simp only [] at h
      generalize vmm_create_pt s pdir va0 flags = s1 at *
      by_cases hp : PDE_IS_PRESENT (s1.load (entryPtr pdir (VMM_DIR_INDEX va0))) = true
      · have hp' : PDE_IS_PRESENT (pde s1 pdir (VMM_DIR_INDEX va0)) = true := hp
        rw [hp] at h
        simp only [Bool.not_true, Bool.false_eq_true, if_false] at h
        have hpa := vmm_page_alloc_ext s1 pdir (VMM_DIR_INDEX va0) (VMM_TABLE_INDEX va0) flags
          hext1.ok hi0 hj0 hp'
        unfold pde at hpa
        generalize vmm_page_alloc s1 (entryPtr (PHYS_TO_VIRT (PDE_PTABLE_ADDR
          (s1.load (entryPtr pdir (VMM_DIR_INDEX va0))))) (VMM_TABLE_INDEX va0)) flags = r at *
        by_cases hr : r.2 = 0
        · rw [if_neg (by simpa using hr)] at h
          obtain ⟨hext2, hpres⟩ := hpa hr
          obtain ⟨hext3, hall⟩ := ih r.1 _ s' hext2.ok h
          refine ⟨(hext1.trans hext2).trans hext3, ?_⟩
          intro hal hlt va h1 h2
          have hal' : (va0 + VMM_PAGE_SIZE) % U32 % 4096 = 0 := by
            unfold VMM_PAGE_SIZE U32; omega
          have hlt' : (va0 + VMM_PAGE_SIZE) % U32 < U32 := Nat.mod_lt _ (by unfold U32; omega)
          by_cases hnext : (va0 + VMM_PAGE_SIZE) % U32 ≤ va
          · exact hall hal' hlt' va hnext h2
          · have e1 : VMM_DIR_INDEX va = VMM_DIR_INDEX va0 := by
              rw [VMM_DIR_INDEX_eq, VMM_DIR_INDEX_eq]
              unfold VMM_PAGE_SIZE U32 at *
              omega
            have e2 : VMM_TABLE_INDEX va = VMM_TABLE_INDEX va0 := by
              rw [VMM_TABLE_INDEX_eq, VMM_TABLE_INDEX_eq]
              unfold VMM_PAGE_SIZE U32 at *
              omega
            rw [e1, e2]
            exact (hext3.keep _ _ hi0 hj0 hpres).1
        · rw [if_pos (by simpa using hr)] at h
          simp at h
      · have hp' : PDE_IS_PRESENT (s1.load (entryPtr pdir (VMM_DIR_INDEX va0))) = false := by
          simpa using hp
        rw [hp'] at h
        simp at h
    · rw [if_neg hc] at h
      have e : s = s' := by
        have := Option.some.inj h
        exact congrArg Prod.fst this
      subst e
      exact ⟨Ext.refl s pdir hok, fun _ _ va h1 h2 => absurd (Nat.lt_of_le_of_lt h1 h2) hc⟩

theorem vmm_get_phys_frame_present (s : VmmState) (pdir va : Nat) (hd : pdir ≠ 0) (hv : va ≠ 0)
    (hp : presentAt s pdir (VMM_DIR_INDEX va) (VMM_TABLE_INDEX va)) :
    vmm_get_phys_frame s pdir va =
      PTE_FRAME_ADDR (pteAt s pdir (VMM_DIR_INDEX va) (VMM_TABLE_INDEX va)) := by
  obtain ⟨p1, p2⟩ := hp
  unfold pteAt pde at p2
  unfold pde at p1
  unfold vmm_get_phys_frame
  rw [if_neg (by simp [hd, hv])]
  simp only [p1, p2, Bool.not_true, Bool.false_eq_true, if_false]
  rfl

theorem vmm_get_phys_frame_absent (s : VmmState) (pdir va : Nat)
    (hp : ¬ presentAt s pdir (VMM_DIR_INDEX va) (VMM_TABLE_INDEX va)) :
    vmm_get_phys_frame s pdir va = 0 := by
  unfold presentAt pteAt pde at hp
  unfold vmm_get_phys_frame
  by_cases h1 : pdir = 0 ∨ va = 0
  · rw [if_pos h1]
  · rw [if_neg h1]
    simp only []
    by_cases h2 : PDE_IS_PRESENT (s.load (entryPtr pdir (VMM_DIR_INDEX va))) = true
    · rw [if_neg (by simp [h2])]
      by_cases h3 : PTE_IS_PRESENT (s.load (entryPtr (PHYS_TO_VIRT (PDE_PTABLE_ADDR
          (s.load (entryPtr pdir (VMM_DIR_INDEX va))))) (VMM_TABLE_INDEX va))) = true
      · exact absurd ⟨h2, h3⟩ hp
      · rw [if_pos (by simpa using h3)]
    · rw [if_pos (by simpa using h2)]

theorem page_index_inj (a b : Nat) (ha : a < U32) (hb : b < U32)
    (h1 : VMM_DIR_INDEX a = VMM_DIR_INDEX b) (h2 : VMM_TABLE_INDEX a = VMM_TABLE_INDEX b) :
    a / 4096 = b / 4096 := by
  rw [VMM_DIR_INDEX_eq, VMM_DIR_INDEX_eq] at h1
  rw [VMM_TABLE_INDEX_eq, VMM_TABLE_INDEX_eq] at h2
  unfold U32 at *
  omega

/-- C6 (amended): in a state where the directory is consistent with the frame
allocator (`DirOk`), for a page-aligned `v` with `v + n < 2^32`, when
`vmm_alloc_region(dir, v, n, f)` returns true: every page of `[v, v + n)` is
mapped afterwards; for every `k` in `[0, n)` whose page was not mapped before
the call, `vmm_get_phys_frame(dir, v + k)` is non-NULL and is a frame that the
allocator could hand out before the call; and two different pages of the
region that were both not mapped before the call translate to different
frames. -/
theorem vmm_alloc_region_maps_fresh (s s' : VmmState) (pdir v n f : Nat) (hok : DirOk s pdir)
    (hv : v % 4096 = 0) (hvn : v + n < U32)
    (h : vmm_alloc_region s pdir v n f = some (s', true)) :
    (∀ k, k < n → presentAt s' pdir (VMM_DIR_INDEX (v + k)) (VMM_TABLE_INDEX (v + k))) ∧
    (∀ k, k < n → ¬ presentAt s pdir (VMM_DIR_INDEX (v + k)) (VMM_TABLE_INDEX (v + k)) →
      vmm_get_phys_frame s' pdir (v + k) ≠ 0 ∧
      ¬ Reserved s.kmm (vmm_get_phys_frame s' pdir (v + k))) ∧
    (∀ k1 k2, k1 < n → k2 < n → (v + k1) / 4096 ≠ (v + k2) / 4096 →
      ¬ presentAt s pdir (VMM_DIR_INDEX (v + k1)) (VMM_TABLE_INDEX (v + k1)) →
      ¬ presentAt s pdir (VMM_DIR_INDEX (v + k2)) (VMM_TABLE_INDEX (v + k2)) →
      vmm_get_phys_frame s' pdir (v + k1) ≠ vmm_get_phys_frame s' pdir (v + k2)) := by
  unfold vmm_alloc_region at h
  by_cases h0 : pdir = 0 ∨ v = 0 ∨ n = 0
  · rw [if_pos h0] at h
    have := congrArg Prod.snd (Option.some.inj h)
    simp at this
  · rw [if_neg h0] at h
    have hv0 : v ≠ 0 := fun e => h0 (Or.inr (Or.inl e))
    have hend : (v + n) % U32 = v + n := Nat.mod_eq_of_lt hvn
    rw [hend] at h
    obtain ⟨hext, hall'⟩ := vmm_alloc_region_loop_ext pdir v v (v + n) f _ s v s' hok h
    have hall := hall' hv (by omega)
    have hidx : ∀ k, VMM_DIR_INDEX (v + k) < 1024 ∧ VMM_TABLE_INDEX (v + k) < 1024 := by
      intro k
      rw [VMM_DIR_INDEX_eq, VMM_TABLE_INDEX_eq]
      omega
    have hpres : ∀ k, k < n →
        presentAt s' pdir (VMM_DIR_INDEX (v + k)) (VMM_TABLE_INDEX (v + k)) :=
      fun k hk => hall (v + k) (by omega) (by omega)
    refine ⟨hpres, ?_, ?_⟩
    · intro k hk hn
      rw [vmm_get_phys_frame_present s' pdir (v + k) hok.nonnull (by omega) (hpres k hk)]
      obtain ⟨f1, _⟩ := hext.fresh _ _ (hidx k).1 (hidx k).2 (hpres k hk) hn
      refine ⟨?_, f1⟩
      intro e
      apply f1
      rw [e]
      exact Or.inl (by norm_num)
    · intro k1 k2 hk1 hk2 hne hn1 hn2
      rw [vmm_get_phys_frame_present s' pdir (v + k1) hok.nonnull (by omega) (hpres k1 hk1),
        vmm_get_phys_frame_present s' pdir (v + k2) hok.nonnull (by omega) (hpres k2 hk2)]
      intro e
      obtain ⟨e1, e2⟩ := hext.inj _ _ _ _ (hidx k1).1 (hidx k1).2 (hidx k2).1 (hidx k2).2
        (hpres k1 hk1) hn1 (hpres k2 hk2) hn2 e
      exact hne (page_index_inj _ _ (by omega) (by omega) e1 e2)

theorem option_eq_some_of_map_snd {α : Type} (o : Option (α × Bool)) (d : α)
    (h : o.map Prod.snd = some true) : o = some ((o.map Prod.fst).getD d, true) := by
  cases o with
  | none => simp at h
  | some r =>
    obtain ⟨a, b⟩ := r
    simp at h
    simp [h]

theorem vmmFresh_pde (i : Nat) : pde vmmFresh 3222401024 i = 0 := rfl

theorem vmmFresh_DirOk : DirOk vmmFresh 3222401024 where
  nonnull := by decide
  lt := by decide
  aligned := by decide
  tab_ne_dir := by
    intro i _ hp
    rw [vmmFresh_pde] at hp
    exact absurd hp (by decide)
  tab_inj := by
    intro i _ _ _ hp
    rw [vmmFresh_pde] at hp
    exact absurd hp (by decide)
  tab_window := by
    intro i _ hp
    rw [vmmFresh_pde] at hp
    exact absurd hp (by decide)
  total := by decide
  dir_reserved := Or.inr (Or.inr (by decide))
  tab_reserved := by
    intro i _ hp
    rw [vmmFresh_pde] at hp
    exact absurd hp (by decide)

set_option maxRecDepth 100000 in
theorem vmm_alloc_region_maps_fresh_witness :
    DirOk vmmFresh 3222401024 ∧
    vmm_get_phys_frame
      (((vmm_alloc_region vmmFresh 3222401024 4194304 8192 6).map Prod.fst).getD vmmFresh)
      3222401024 4194304 ≠
    vmm_get_phys_frame
      (((vmm_alloc_region vmmFresh 3222401024 4194304 8192 6).map Prod.fst).getD vmmFresh)
      3222401024 4198400 :=
  ⟨vmmFresh_DirOk,
  (vmm_alloc_region_maps_fresh vmmFresh _ 3222401024 4194304 8192 6 vmmFresh_DirOk
    (by decide) (by decide)
    (option_eq_some_of_map_snd _ vmmFresh (by decide))).2.2 0 4096 (by decide) (by decide)
    (by decide)
    (fun hp => absurd hp.1 (by rw [vmmFresh_pde]; decide))
    (fun hp => absurd hp.1 (by rw [vmmFresh_pde]; decide))⟩

set_option maxRecDepth 100000 in
theorem vmm_alloc_region_shared_frame_counterexample :
    (vmm_alloc_region vmmAlias 3222401024 4194304 8192 6).map
      (fun r => (r.2, vmm_get_phys_frame r.1 3222401024 4194304,
        vmm_get_phys_frame r.1 3222401024 4198400)) = some (true, 1167360, 1167360) := by
  decide

/-! ### Freeing a region -/

theorem entryPtr_tab_ne_zero (t j : Nat) (h1 : t < U32) (h2 : t % 4096 = 0) (hj : j < 1024)
    (hw : t ≠ 1073741824) : entryPtr (PHYS_TO_VIRT t) j ≠ 0 := by
  unfold entryPtr PHYS_TO_VIRT PHYS_BASE U32 at *
  omega

theorem not32_frame_mask : not32 PTE_FRAME_MASK = 4095 := by decide

theorem not32_present : not32 PTE_PRESENT = 4294967294 := by decide

theorem DirSep.of_pde_eq {s s1 : VmmState} {pdir : Nat} (h : DirSep s pdir)
    (hpde : ∀ i, i < 1024 → pde s1 pdir i = pde s pdir i ∨
      PDE_IS_PRESENT (pde s1 pdir i) = false) : DirSep s1 pdir where
  nonnull := h.nonnull
  lt := h.lt
  aligned := h.aligned
  tab_ne_dir := by
    intro i hi hp
    rcases hpde i hi with e | e
    · rw [e] at hp ⊢; exact h.tab_ne_dir i hi hp
    · rw [e] at hp; exact absurd hp (by decide)
  tab_inj := by
    intro i j hi hj hpi hpj heq
    rcases hpde i hi with e | e
    · rcases hpde j hj with e' | e'
      · rw [e] at hpi heq
        rw [e'] at hpj heq
        exact h.tab_inj i j hi hj hpi hpj heq
      · rw [e'] at hpj; exact absurd hpj (by decide)
    · rw [e] at hpi; exact absurd hpi (by decide)
  tab_window := by
    intro i hi hp
    rcases hpde i hi with e | e
    · rw [e] at hp ⊢; exact h.tab_window i hi hp
    · rw [e] at hp; exact absurd hp (by decide)

/-- The effect of the page step of `vmm_free_region` on the page with directory
index `i0` and table index `j0`, whose directory entry is present. -/
theorem vmm_page_free_step (s : VmmState) (pdir i0 j0 : Nat) (h : DirSep s pdir)
    (hi0 : i0 < 1024) (hj0 : j0 < 1024) (hp0 : PDE_IS_PRESENT (pde s pdir i0) = true) :
    ∀ s1, s1 = (if PTE_IS_PRESENT (pteAt s pdir i0 j0) = true then
        vmm_page_free s (entryPtr (PHYS_TO_VIRT (PDE_PTABLE_ADDR (pde s pdir i0))) j0) else s) →
      (∀ i, i < 1024 → pde s1 pdir i = pde s pdir i) ∧
      s1.kmm.total_frames = s.kmm.total_frames ∧
      (∀ g, isframe_used s1.kmm g = true → isframe_used s.kmm g = true) ∧
      PTE_IS_PRESENT (pteAt s1 pdir i0 j0) = false ∧
      (PTE_IS_PRESENT (pteAt s pdir i0 j0) = true →
        256 ≤ PTE_FRAME_ADDR (pteAt s pdir i0 j0) / 4096 →
        PTE_FRAME_ADDR (pteAt s pdir i0 j0) / 4096 < s.kmm.total_frames →
        isframe_used s1.kmm (PTE_FRAME_ADDR (pteAt s pdir i0 j0) / 4096) = false) ∧
      (∀ i j, i < 1024 → j < 1024 → PDE_IS_PRESENT (pde s pdir i) = true →
        ¬ (i = i0 ∧ j = j0) → pteAt s1 pdir i j = pteAt s pdir i j) := by
  intro s1 hs1
  by_cases hpres : PTE_IS_PRESENT (pteAt s pdir i0 j0) = true
  · rw [if_pos hpres] at hs1
    obtain ⟨t0a, t0l⟩ := ptable_addr_aligned (pde s pdir i0)
    have hphys := phys_entry_tab _ j0 t0l t0a hj0
    have hnn := entryPtr_tab_ne_zero _ j0 t0l t0a hj0 (h.tab_window i0 hi0 hp0)
    have hload : s.load (entryPtr (PHYS_TO_VIRT (PDE_PTABLE_ADDR (pde s pdir i0))) j0) =
        pteAt s pdir i0 j0 := rfl
    obtain ⟨da, dl⟩ := phys_dir_aligned pdir h.aligned
    generalize hptr : entryPtr (PHYS_TO_VIRT (PDE_PTABLE_ADDR (pde s pdir i0))) j0 = ptr at *
    have hkmm : s1.kmm = kmm_frame_free s.kmm (PTE_FRAME_ADDR (pteAt s pdir i0 j0)) := by
      rw [hs1]
      unfold vmm_page_free
      rw [if_neg (by simp [hnn, hload, hpres]), hload]
      rfl
    have hmem : ∀ a, s1.mem a =
        if a = PDE_PTABLE_ADDR (pde s pdir i0) + 4 * j0 then
          (pteAt s pdir i0 j0 &&& 4095) &&& 4294967294
        else s.mem a := by
      intro a
      rw [hs1]
      unfold vmm_page_free
      rw [if_neg (by simp [hnn, hload, hpres])]
      simp only [VmmState.store, VmmState.withKmm, VmmState.load, hphys, not32_frame_mask,
        not32_present, if_pos]
      by_cases ha : a = PDE_PTABLE_ADDR (pde s pdir i0) + 4 * j0
      · rw [if_pos ha, if_pos ha]
        show _ = (pteAt s pdir i0 j0 &&& 4095) &&& 4294967294
        unfold pteAt VmmState.load
        rw [hptr, hphys]
      · rw [if_neg ha, if_neg ha, if_neg ha]
    have hx : PTE_IS_PRESENT ((pteAt s pdir i0 j0 &&& 4095) &&& 4294967294) = false := by
      rw [PTE_IS_PRESENT_eq, and_not_one]
      simp
    have hpde : ∀ i, i < 1024 → pde s1 pdir i = pde s pdir i := by
      intro i hi
      rw [pde_eq_mem _ pdir i h.lt h.aligned hi, hmem, pde_eq_mem _ pdir i h.lt h.aligned hi]
      have := h.tab_ne_dir i0 hi0 hp0
      rw [if_neg (by omega)]
    have hpte : ∀ i j, i < 1024 → j < 1024 → PDE_IS_PRESENT (pde s pdir i) = true →
        pteAt s1 pdir i j = if i = i0 ∧ j = j0 then (pteAt s pdir i0 j0 &&& 4095) &&& 4294967294
          else pteAt s pdir i j := by
      intro i j hi hj hpi
      rw [pteAt_eq_mem _ _ _ _ hj, pteAt_eq_mem _ _ _ _ hj, hpde i hi, hmem]
      obtain ⟨h3, h4⟩ := ptable_addr_aligned (pde s pdir i)
      by_cases hc : i = i0 ∧ j = j0
      · rw [if_pos hc, hc.1, hc.2, if_pos rfl]
      · rw [if_neg hc]
        have : PDE_PTABLE_ADDR (pde s pdir i) + 4 * j ≠
            PDE_PTABLE_ADDR (pde s pdir i0) + 4 * j0 := by
          intro e'
          have e1 : PDE_PTABLE_ADDR (pde s pdir i) = PDE_PTABLE_ADDR (pde s pdir i0) := by omega
          have e2 := h.tab_inj i i0 hi hi0 hpi hp0 e1
          exact hc ⟨e2, by omega⟩
        rw [if_neg this]
    refine ⟨hpde, ?_, ?_, ?_, ?_, ?_⟩
    · rw [hkmm]; exact kmm_frame_free_total _ _
    · intro g hg
      rw [hkmm] at hg
      exact kmm_frame_free_le _ _ _ hg
    · rw [hpte i0 j0 hi0 hj0 hp0, if_pos ⟨rfl, rfl⟩]; exact hx
    · intro _ h1 h2
      rw [hkmm]
      exact kmm_frame_free_clears _ _ h1 h2
    · intro i j hi hj hpi hc
      rw [hpte i j hi hj hpi, if_neg hc]
  · rw [if_neg hpres] at hs1
    subst hs1
    exact ⟨fun _ _ => rfl, rfl, fun _ hg => hg, by simpa using hpres,
      fun hp => absurd hp hpres, fun _ _ _ _ _ _ => rfl⟩

theorem vmm_free_region_pages_succ (pdir region_end fuel : Nat) (s : VmmState) (va0 : Nat) :
    vmm_free_region_pages pdir region_end (fuel + 1) s va0 =
      if va0 < region_end then
        if PDE_IS_PRESENT (pde s pdir (VMM_DIR_INDEX va0)) = true then
          vmm_free_region_pages pdir region_end fuel
            (if PTE_IS_PRESENT (pteAt s pdir (VMM_DIR_INDEX va0) (VMM_TABLE_INDEX va0)) = true then
              vmm_page_free s (entryPtr (PHYS_TO_VIRT (PDE_PTABLE_ADDR
                (pde s pdir (VMM_DIR_INDEX va0)))) (VMM_TABLE_INDEX va0))
            else s) ((va0 + 4096) % U32)
        else vmm_free_region_pages pdir region_end fuel s ((va0 + 4096) % U32)
      else s := by
  unfold pteAt pde
  rw [vmm_free_region_pages]
  by_cases h1 : va0 < region_end
  · rw [if_pos h1, if_pos h1]
    by_cases h2 : PDE_IS_PRESENT (s.load (entryPtr pdir (VMM_DIR_INDEX va0))) = true
    · rw [if_pos h2, if_neg (by simp [h2])]
      rfl
    · rw [if_neg h2, if_pos (by simpa using h2)]
      rfl
  · rw [if_neg h1, if_neg h1]

theorem page_addr_index (va : Nat) (h1 : va % 4096 = 0) (h2 : va < U32) :
    VMM_DIR_INDEX va * 4194304 + VMM_TABLE_INDEX va * 4096 = va ∧
      VMM_DIR_INDEX va < 1024 ∧ VMM_TABLE_INDEX va < 1024 := by
  rw [VMM_DIR_INDEX_eq, VMM_TABLE_INDEX_eq]
  unfold U32 at h2
  omega

theorem vmm_free_region_pages_spec (pdir region_end : Nat) (hre : region_end % 4096 = 0)
    (hre2 : region_end < U32) :
    ∀ fuel s va0, DirSep s pdir → va0 % 4096 = 0 → (region_end - va0) / 4096 ≤ fuel →
      (∀ i, i < 1024 → pde (vmm_free_region_pages pdir region_end fuel s va0) pdir i =
        pde s pdir i) ∧
      (vmm_free_region_pages pdir region_end fuel s va0).kmm.total_frames =
        s.kmm.total_frames ∧
      (∀ g, isframe_used (vmm_free_region_pages pdir region_end fuel s va0).kmm g = true →
        isframe_used s.kmm g = true) ∧
      (∀ i j, i < 1024 → j < 1024 → PDE_IS_PRESENT (pde s pdir i) = true →
        va0 ≤ i * 4194304 + j * 4096 → i * 4194304 + j * 4096 < region_end →
        PTE_IS_PRESENT (pteAt (vmm_free_region_pages pdir region_end fuel s va0) pdir i j)
          = false ∧
        (PTE_IS_PRESENT (pteAt s pdir i j) = true →
          256 ≤ PTE_FRAME_ADDR (pteAt s pdir i j) / 4096 →
          PTE_FRAME_ADDR (pteAt s pdir i j) / 4096 < s.kmm.total_frames →
          isframe_used (vmm_free_region_pages pdir region_end fuel s va0).kmm
            (PTE_FRAME_ADDR (pteAt s pdir i j) / 4096) = false)) ∧
      (∀ i j, i < 1024 → j < 1024 → PDE_IS_PRESENT (pde s pdir i) = true →
        (i * 4194304 + j * 4096 < va0 ∨ region_end ≤ i * 4194304 + j * 4096) →
        pteAt (vmm_free_region_pages pdir region_end fuel s va0) pdir i j =
          pteAt s pdir i j) := by
  intro fuel
  induction fuel with
  | zero =>
    intro s va0 _ hal hf
    have e : vmm_free_region_pages pdir region_end 0 s va0 = s := rfl
    rw [e]
    refine ⟨fun _ _ => rfl, rfl, fun _ h => h, ?_, fun _ _ _ _ _ _ => rfl⟩
    intro i j _ _ _ h1 h2
    omega
  | succ fuel ih =>
    intro s va0 hsep hal hf
    rw [vmm_free_region_pages_succ]
    by_cases hc : va0 < region_end
    · rw [if_pos hc]
      have hva : va0 < U32 := by omega
      obtain ⟨hA, hi0, hj0⟩ := page_addr_index va0 hal hva
      have hnext : (va0 + 4096) % U32 = va0 + 4096 := by
        apply Nat.mod_eq_of_lt
        unfold U32 at *
        omega
      rw [hnext]
      by_cases hp : PDE_IS_PRESENT (pde s pdir (VMM_DIR_INDEX va0)) = true
      · rw [if_pos hp]
        obtain ⟨q1, q2, q3, q4, q5, q6⟩ := vmm_page_free_step s pdir _ _ hsep hi0 hj0 hp _ rfl
        generalize (if PTE_IS_PRESENT (pteAt s pdir (VMM_DIR_INDEX va0) (VMM_TABLE_INDEX va0))
          = true then vmm_page_free s (entryPtr (PHYS_TO_VIRT (PDE_PTABLE_ADDR
            (pde s pdir (VMM_DIR_INDEX va0)))) (VMM_TABLE_INDEX va0)) else s) = s1 at *
        have hsep1 : DirSep s1 pdir := hsep.of_pde_eq (fun i hi => Or.inl (q1 i hi))
        obtain ⟨p1, p2, p3, p4, p5⟩ := ih s1 (va0 + 4096) hsep1 (by omega) (by omega)
        refine ⟨fun i hi => (p1 i hi).trans (q1 i hi), p2.trans q2,
          fun g hg => q3 g (p3 g hg), ?_, ?_⟩
        · intro i j hi hj hpi h1 h2
          by_cases hcur : i = VMM_DIR_INDEX va0 ∧ j = VMM_TABLE_INDEX va0
          · obtain ⟨e1, e2⟩ := hcur
            subst e1 e2
            have hk := p5 _ _ hi hj (by rw [q1 _ hi]; exact hpi) (Or.inl (by omega))
            rw [hk]
            refine ⟨q4, fun a b c => ?_⟩
            have := q5 a b c
            by_contra hne
            have hu := p3 _ (by simpa using hne)
            rw [this] at hu
            exact Bool.false_ne_true hu
          · have hge : va0 + 4096 ≤ i * 4194304 + j * 4096 := by
              by_contra hlt
              apply hcur
              have : i * 4194304 + j * 4096 = va0 := by omega
              rw [← this, VMM_DIR_INDEX_eq, VMM_TABLE_INDEX_eq]
              omega
            have hk := p4 i j hi hj (by rw [q1 i hi]; exact hpi) hge h2
            rw [q6 i j hi hj hpi hcur, q2] at hk
            exact hk
        · intro i j hi hj hpi hout
          have hcur : ¬ (i = VMM_DIR_INDEX va0 ∧ j = VMM_TABLE_INDEX va0) := by
            intro ⟨e1, e2⟩
            subst e1 e2
            omega
          rw [p5 i j hi hj (by rw [q1 i hi]; exact hpi) (by omega)]
          exact q6 i j hi hj hpi hcur
      · rw [if_neg hp]
        obtain ⟨p1, p2, p3, p4, p5⟩ := ih s (va0 + 4096) hsep (by omega) (by omega)
        refine ⟨p1, p2, p3, ?_, ?_⟩
        · intro i j hi hj hpi h1 h2
          have hge : va0 + 4096 ≤ i * 4194304 + j * 4096 := by
            by_contra hlt
            have e0 : i * 4194304 + j * 4096 = va0 := by omega
            have : i = VMM_DIR_INDEX va0 := by
              rw [← e0, VMM_DIR_INDEX_eq]
              omega
            rw [this] at hpi
            exact hp hpi
          exact p4 i j hi hj hpi hge h2
        · intro i j hi hj hpi hout
          exact p5 i j hi hj hpi (by omega)
    · rw [if_neg hc]
      refine ⟨fun _ _ => rfl, rfl, fun _ h => h, ?_, fun _ _ _ _ _ _ => rfl⟩
      intro i j _ _ _ h1 h2
      omega

theorem table_has_entries_congr (s s1 : VmmState) (t : Nat) (h1 : t < U32) (h2 : t % 4096 = 0)
    (h : ∀ a, t ≤ a → a < t + 4096 → s1.mem a = s.mem a) :
    table_has_entries s1 (PHYS_TO_VIRT t) = table_has_entries s (PHYS_TO_VIRT t) := by
  unfold table_has_entries VMM_PAGES_PER_TABLE
  rw [Bool.eq_iff_iff, List.any_eq_true, List.any_eq_true]
  constructor
  · rintro ⟨j, hj, hp⟩
    refine ⟨j, hj, ?_⟩
    have hj' : j < 1024 := by simpa using hj
    unfold VmmState.load at hp ⊢
    rw [phys_entry_tab t j h1 h2 hj'] at hp ⊢
    rw [← h _ (by omega) (by omega)]
    exact hp
  · rintro ⟨j, hj, hp⟩
    refine ⟨j, hj, ?_⟩
    have hj' : j < 1024 := by simpa using hj
    unfold VmmState.load at hp ⊢
    rw [phys_entry_tab t j h1 h2 hj'] at hp ⊢
    rw [h _ (by omega) (by omega)]
    exact hp

theorem table_has_entries_iff (s : VmmState) (pdir i : Nat) :
    table_has_entries s (PHYS_TO_VIRT (PDE_PTABLE_ADDR (pde s pdir i))) = true ↔
      ∃ j, j < 1024 ∧ PTE_IS_PRESENT (pteAt s pdir i j) = true := by
  unfold table_has_entries VMM_PAGES_PER_TABLE pteAt
  rw [List.any_eq_true]
  constructor
  · rintro ⟨j, hj, hp⟩
    exact ⟨j, by simpa using hj, hp⟩
  · rintro ⟨j, hj, hp⟩
    exact ⟨j, by simpa using hj, hp⟩

theorem vmm_free_region_tables_succ (pdir end_pd fuel : Nat) (s : VmmState) (i0 : Nat) :
    vmm_free_region_tables pdir end_pd (fuel + 1) s i0 =
      if i0 ≤ end_pd then
        if PDE_IS_PRESENT (pde s pdir i0) = true then
          vmm_free_region_tables pdir end_pd fuel
            (if table_has_entries s (PHYS_TO_VIRT (PDE_PTABLE_ADDR (pde s pdir i0))) = true then s
             else (s.withKmm (kmm_frame_free s.kmm (PDE_PTABLE_ADDR (pde s pdir i0)))).store
                (entryPtr pdir i0) 0) (i0 + 1)
        else vmm_free_region_tables pdir end_pd fuel s (i0 + 1)
      else s := by
  unfold pde
  rw [vmm_free_region_tables]
  by_cases h1 : i0 ≤ end_pd
  · rw [if_pos h1, if_pos h1]
    by_cases h2 : PDE_IS_PRESENT (s.load (entryPtr pdir i0)) = true
    · rw [if_pos h2, if_neg (by simp [h2])]
      by_cases h3 : table_has_entries s (PHYS_TO_VIRT (PDE_PTABLE_ADDR
          (s.load (entryPtr pdir i0)))) = true
      · simp only [h3, Bool.not_true, Bool.false_eq_true, if_false, if_true]
      · have h3' : table_has_entries s (PHYS_TO_VIRT (PDE_PTABLE_ADDR
          (s.load (entryPtr pdir i0)))) = false := by simpa using h3
        simp only [h3', Bool.not_false, Bool.false_eq_true, if_false, if_true]
    · rw [if_neg h2, if_pos (by simpa using h2)]
  · rw [if_neg h1, if_neg h1]

theorem vmm_free_region_tables_spec (pdir end_pd : Nat) (hend : end_pd < 1024) :
    ∀ fuel s i0, DirSep s pdir → end_pd + 1 - i0 ≤ fuel →
      (∀ i, i < 1024 → pde (vmm_free_region_tables pdir end_pd fuel s i0) pdir i = pde s pdir i ∨
        (i0 ≤ i ∧ i ≤ end_pd ∧ PDE_IS_PRESENT (pde s pdir i) = true ∧
          table_has_entries s (PHYS_TO_VIRT (PDE_PTABLE_ADDR (pde s pdir i))) = false ∧
          pde (vmm_free_region_tables pdir end_pd fuel s i0) pdir i = 0 ∧
          (256 ≤ PDE_PTABLE_ADDR (pde s pdir i) / 4096 →
            PDE_PTABLE_ADDR (pde s pdir i) / 4096 < s.kmm.total_frames →
            isframe_used (vmm_free_region_tables pdir end_pd fuel s i0).kmm
              (PDE_PTABLE_ADDR (pde s pdir i) / 4096) = false))) ∧
      (∀ i, i0 ≤ i → i ≤ end_pd →
        PDE_IS_PRESENT (pde (vmm_free_region_tables pdir end_pd fuel s i0) pdir i) = true →
        table_has_entries s (PHYS_TO_VIRT (PDE_PTABLE_ADDR (pde s pdir i))) = true) ∧
      (∀ a, (a < VIRT_TO_PHYS pdir ∨ VIRT_TO_PHYS pdir + 4096 ≤ a) →
        (vmm_free_region_tables pdir end_pd fuel s i0).mem a = s.mem a) ∧
      (vmm_free_region_tables pdir end_pd fuel s i0).kmm.total_frames = s.kmm.total_frames ∧
      (∀ g, isframe_used (vmm_free_region_tables pdir end_pd fuel s i0).kmm g = true →
        isframe_used s.kmm g = true) := by
  intro fuel
  induction fuel with
  | zero =>
    intro s i0 _ hf
    have e : vmm_free_region_tables pdir end_pd 0 s i0 = s := rfl
    rw [e]
    exact ⟨fun _ _ => Or.inl rfl, fun i h1 h2 => by omega, fun _ _ => rfl, rfl, fun _ h => h⟩
  | succ fuel ih =>
    intro s i0 hsep hf
    rw [vmm_free_region_tables_succ]
    by_cases hc : i0 ≤ end_pd
    · rw [if_pos hc]
      have hi0 : i0 < 1024 := by omega
      by_cases hp : PDE_IS_PRESENT (pde s pdir i0) = true
      · rw [if_pos hp]
        by_cases he : table_has_entries s (PHYS_TO_VIRT (PDE_PTABLE_ADDR (pde s pdir i0))) = true
        · rw [if_pos he]
          obtain ⟨p1, p2, p3, p4, p5⟩ := ih s (i0 + 1) hsep (by omega)
          refine ⟨?_, ?_, p3, p4, p5⟩
          · intro i hi
            rcases p1 i hi with e | ⟨a, b⟩
            · exact Or.inl e
            · exact Or.inr ⟨by omega, b⟩
          · intro i h1 h2 hpi
            by_cases hii : i = i0
            · subst hii; exact he
            · exact p2 i (by omega) h2 hpi
        · rw [if_neg he]
          have he' : table_has_entries s (PHYS_TO_VIRT (PDE_PTABLE_ADDR (pde s pdir i0))) = false := by
            simpa using he
          obtain ⟨da, dl⟩ := phys_dir_aligned pdir hsep.aligned
          generalize hs1 : (s.withKmm (kmm_frame_free s.kmm (PDE_PTABLE_ADDR (pde s pdir i0)))).store
            (entryPtr pdir i0) 0 = s1
          have hmem : ∀ a, s1.mem a = if a = VIRT_TO_PHYS pdir + 4 * i0 then 0 else s.mem a := by
            intro a
            rw [← hs1]
            simp only [VmmState.store, VmmState.withKmm,
              phys_entry_dir pdir _ hsep.lt hsep.aligned hi0]
          have hkmm : s1.kmm = kmm_frame_free s.kmm (PDE_PTABLE_ADDR (pde s pdir i0)) := by
            rw [← hs1]; rfl
          have hpde : ∀ i, i < 1024 → pde s1 pdir i = if i = i0 then 0 else pde s pdir i := by
            intro i hi
            rw [pde_eq_mem _ pdir i hsep.lt hsep.aligned hi, hmem,
              pde_eq_mem _ pdir i hsep.lt hsep.aligned hi]
            by_cases hii : i = i0
            · rw [if_pos hii, if_pos (by omega)]
            · rw [if_neg hii, if_neg (by omega)]
          have hsep1 : DirSep s1 pdir := hsep.of_pde_eq (fun i hi => by
            rw [hpde i hi]
            by_cases hii : i = i0
            · right; rw [if_pos hii]; decide
            · left; rw [if_neg hii])
          have hcong : ∀ i, i < 1024 → i ≠ i0 → PDE_IS_PRESENT (pde s pdir i) = true →
              table_has_entries s1 (PHYS_TO_VIRT (PDE_PTABLE_ADDR (pde s pdir i))) =
                table_has_entries s (PHYS_TO_VIRT (PDE_PTABLE_ADDR (pde s pdir i))) := by
            intro i hi hii hpi
            obtain ⟨ta, tl⟩ := ptable_addr_aligned (pde s pdir i)
            apply table_has_entries_congr s s1 _ tl ta
            intro a h1 h2
            rw [hmem]
            have := hsep.tab_ne_dir i hi hpi
            rw [if_neg (by omega)]
          obtain ⟨p1, p2, p3, p4, p5⟩ := ih s1 (i0 + 1) hsep1 (by omega)
          have htot : s1.kmm.total_frames = s.kmm.total_frames := by
            rw [hkmm]; exact kmm_frame_free_total _ _
          refine ⟨?_, ?_, ?_, p4.trans htot, ?_⟩
          · intro i hi
            by_cases hii : i = i0
            · subst hii
              right
              have e0 : pde (vmm_free_region_tables pdir end_pd fuel s1 (i + 1)) pdir i = 0 := by
                rcases p1 i hi with e | ⟨a, _⟩
                · rw [e, hpde i hi, if_pos rfl]
                · omega
              refine ⟨le_refl _, hc, hp, he', e0, fun a b => ?_⟩
              have hcl := kmm_frame_free_clears s.kmm _ a b
              rw [← hkmm] at hcl
              by_contra hne
              have hu := p5 _ (by simpa using hne)
              rw [hcl] at hu
              exact Bool.false_ne_true hu
            · have e1 : pde s1 pdir i = pde s pdir i := by rw [hpde i hi, if_neg hii]
              rcases p1 i hi with e | ⟨a, b, c, d, e, f⟩
              · left; rw [e, e1]
              · right
                rw [e1] at c d f
                rw [hcong i hi hii c] at d
                rw [htot] at f
                exact ⟨by omega, b, c, d, e, f⟩
          · intro i h1 h2 hpi
            by_cases hii : i = i0
            · subst hii
              exfalso
              rcases p1 i hi0 with e | ⟨a, _⟩
              · rw [e, hpde i hi0, if_pos rfl] at hpi
                exact absurd hpi (by decide)
              · omega
            · have hi : i < 1024 := by omega
              have e1 : pde s1 pdir i = pde s pdir i := by rw [hpde i hi, if_neg hii]
              have hps : PDE_IS_PRESENT (pde s pdir i) = true := by
                rcases p1 i hi with e | ⟨_, _, _, _, e, _⟩
                · rw [e, e1] at hpi; exact hpi
                · rw [e] at hpi; exact absurd hpi (by decide)
              have := p2 i (by omega) h2 hpi
              rw [e1, hcong i hi hii hps] at this
              exact this
          · intro a ha
            rw [p3 a ha, hmem, if_neg (by omega)]
          · intro g hg
            have := p5 g hg
            rw [hkmm] at this
            exact kmm_frame_free_le _ _ _ this
      · rw [if_neg hp]
        obtain ⟨p1, p2, p3, p4, p5⟩ := ih s (i0 + 1) hsep (by omega)
        refine ⟨?_, ?_, p3, p4, p5⟩
        · intro i hi
          rcases p1 i hi with e | ⟨a, b⟩
          · exact Or.inl e
          · exact Or.inr ⟨by omega, b⟩
        · intro i h1 h2 hpi
          by_cases hii : i = i0
          · subst hii
            exfalso
            rcases p1 i hi0 with e | ⟨a, _⟩
            · rw [e] at hpi; exact hp hpi
            · omega
          · exact p2 i (by omega) h2 hpi
    · rw [if_neg hc]
      exact ⟨fun _ _ => Or.inl rfl, fun i h1 h2 => by omega, fun _ _ => rfl, rfl, fun _ h => h⟩

theorem vmm_free_region_eq (s : VmmState) (pdir v n : Nat) (hd : pdir ≠ 0) (hv : v ≠ 0)
    (hn : n ≠ 0) (hvn : v + n + 4095 < U32) :
    (vmm_free_region s pdir v n).1 =
      vmm_free_region_tables pdir (VMM_DIR_INDEX ((v + n + 4095) / 4096 * 4096 - 1)) 1024
        (vmm_free_region_pages pdir ((v + n + 4095) / 4096 * 4096) 1048576 s (v / 4096 * 4096))
        (VMM_DIR_INDEX (v / 4096 * 4096)) := by
  unfold vmm_free_region
  rw [if_neg (by simp [hd, hv, hn])]
  have hm : not32 (VMM_PAGE_SIZE - 1) = 4294963200 := by decide
  have e1 : v &&& 4294963200 = v / 4096 * 4096 := by
    rw [and_frame_mask]
    unfold U32 at hvn
    omega
  have e2 : ((v + n + VMM_PAGE_SIZE - 1) % U32) &&& 4294963200 = (v + n + 4095) / 4096 * 4096 := by
    rw [and_frame_mask]
    unfold VMM_PAGE_SIZE U32 at *
    omega
  have e3 : ((v + n + 4095) / 4096 * 4096 + 4294967295) % U32 =
      (v + n + 4095) / 4096 * 4096 - 1 := by
    unfold U32 at *
    omega
  simp only [hm, e1, e2, e3]

/-- C7 (amended): in a state where the directory is consistent with the frame
allocator and for a region that does not reach the last page of the address
space (`v + n + 4095 < 2^32`), after `vmm_alloc_region(dir, v, n, f)` has
returned true and `vmm_free_region(dir, v, n)` is called:
`vmm_get_phys_frame(dir, v + k)` is NULL for every `k` in `[0, n)`; every frame
that backed a page of the region and has a frame number in
`[256, total_frames)` is marked free (in particular every frame that the
allocation handed out); in the directory range of the region no present entry
is left whose table has no present entry; and every entry of that range that
was present and is no longer present is zero, the frame of its table being
marked free when its number is in `[256, total_frames)`. -/
theorem vmm_free_region_after_alloc (s s1 : VmmState) (pdir v n f : Nat) (hok : DirOk s pdir)
    (hvn : v + n + 4095 < U32) (h : vmm_alloc_region s pdir v n f = some (s1, true)) :
    (∀ k, k < n → vmm_get_phys_frame (vmm_free_region s1 pdir v n).1 pdir (v + k) = 0) ∧
    (∀ k, k < n → presentAt s1 pdir (VMM_DIR_INDEX (v + k)) (VMM_TABLE_INDEX (v + k)) →
      256 ≤ vmm_get_phys_frame s1 pdir (v + k) / 4096 →
      vmm_get_phys_frame s1 pdir (v + k) / 4096 < s1.kmm.total_frames →
      isframe_used (vmm_free_region s1 pdir v n).1.kmm
        (vmm_get_phys_frame s1 pdir (v + k) / 4096) = false) ∧
    (∀ k, k < n → presentAt s1 pdir (VMM_DIR_INDEX (v + k)) (VMM_TABLE_INDEX (v + k)) →
      ¬ presentAt s pdir (VMM_DIR_INDEX (v + k)) (VMM_TABLE_INDEX (v + k)) →
      isframe_used (vmm_free_region s1 pdir v n).1.kmm
        (vmm_get_phys_frame s1 pdir (v + k) / 4096) = false) ∧
    (∀ i, VMM_DIR_INDEX v ≤ i → i ≤ VMM_DIR_INDEX (v + n - 1) →
      PDE_IS_PRESENT (pde (vmm_free_region s1 pdir v n).1 pdir i) = true →
      table_has_entries (vmm_free_region s1 pdir v n).1
        (PHYS_TO_VIRT (PDE_PTABLE_ADDR (pde (vmm_free_region s1 pdir v n).1 pdir i))) = true) ∧
    (∀ i, VMM_DIR_INDEX v ≤ i → i ≤ VMM_DIR_INDEX (v + n - 1) →
      PDE_IS_PRESENT (pde s1 pdir i) = true →
      PDE_IS_PRESENT (pde (vmm_free_region s1 pdir v n).1 pdir i) = false →
      pde (vmm_free_region s1 pdir v n).1 pdir i = 0 ∧
      (256 ≤ PDE_PTABLE_ADDR (pde s1 pdir i) / 4096 →
        PDE_PTABLE_ADDR (pde s1 pdir i) / 4096 < s1.kmm.total_frames →
        isframe_used (vmm_free_region s1 pdir v n).1.kmm
          (PDE_PTABLE_ADDR (pde s1 pdir i) / 4096) = false)) := by
  have h' := h
  unfold vmm_alloc_region at h'
  by_cases h0 : pdir = 0 ∨ v = 0 ∨ n = 0
  · rw [if_pos h0] at h'
    have := congrArg Prod.snd (Option.some.inj h')
    simp at this
  · rw [if_neg h0] at h'
    have hd : pdir ≠ 0 := fun e => h0 (Or.inl e)
    have hv0 : v ≠ 0 := fun e => h0 (Or.inr (Or.inl e))
    have hn0 : n ≠ 0 := fun e => h0 (Or.inr (Or.inr e))
    obtain ⟨hext, _⟩ := vmm_alloc_region_loop_ext pdir v v _ f _ s v s1 hok h'
    have hsep : DirSep s1 pdir := hext.ok.toDirSep
    rw [vmm_free_region_eq s1 pdir v n hd hv0 hn0 hvn]
    have hre : (v + n + 4095) / 4096 * 4096 % 4096 = 0 := by omega
    have hre2 : (v + n + 4095) / 4096 * 4096 < U32 := by unfold U32 at *; omega
    obtain ⟨p1, p2, p3, p4, _⟩ := vmm_free_region_pages_spec pdir _ hre hre2 1048576 s1
      (v / 4096 * 4096) hsep (by omega) (by unfold U32 at *; omega)
    generalize vmm_free_region_pages pdir ((v + n + 4095) / 4096 * 4096) 1048576 s1
      (v / 4096 * 4096) = sp at *
    have hsepp : DirSep sp pdir := hsep.of_pde_eq (fun i hi => Or.inl (p1 i hi))
    have hend : VMM_DIR_INDEX ((v + n + 4095) / 4096 * 4096 - 1) < 1024 := by
      rw [VMM_DIR_INDEX_eq]; omega
    obtain ⟨t1, t2, t3, t4, t5⟩ := vmm_free_region_tables_spec pdir _ hend 1024 sp
      (VMM_DIR_INDEX (v / 4096 * 4096)) hsepp (by omega)
    generalize vmm_free_region_tables pdir (VMM_DIR_INDEX ((v + n + 4095) / 4096 * 4096 - 1))
      1024 sp (VMM_DIR_INDEX (v / 4096 * 4096)) = s2 at *
    obtain ⟨da, dl⟩ := phys_dir_aligned pdir hsep.aligned
    have hidx : ∀ k, VMM_DIR_INDEX (v + k) < 1024 ∧ VMM_TABLE_INDEX (v + k) < 1024 := by
      intro k
      rw [VMM_DIR_INDEX_eq, VMM_TABLE_INDEX_eq]
      omega
    have hrange : ∀ k, k < n →
        v / 4096 * 4096 ≤ VMM_DIR_INDEX (v + k) * 4194304 + VMM_TABLE_INDEX (v + k) * 4096 ∧
        VMM_DIR_INDEX (v + k) * 4194304 + VMM_TABLE_INDEX (v + k) * 4096 <
          (v + n + 4095) / 4096 * 4096 := by
      intro k hk
      rw [VMM_DIR_INDEX_eq, VMM_TABLE_INDEX_eq]
      unfold U32 at hvn
      omega
    -- table entries of tables that are still linked are those after the page loop
    have hpte2 : ∀ i j, i < 1024 → j < 1024 → PDE_IS_PRESENT (pde sp pdir i) = true →
        pde s2 pdir i = pde sp pdir i → pteAt s2 pdir i j = pteAt sp pdir i j := by
      intro i j hi hj hpi e
      rw [pteAt_eq_mem _ _ _ _ hj, pteAt_eq_mem _ _ _ _ hj, e]
      obtain ⟨ta, tl⟩ := ptable_addr_aligned (pde sp pdir i)
      have := hsepp.tab_ne_dir i hi hpi
      exact t3 _ (by omega)
    have hfreed : ∀ k, k < n →
        presentAt s1 pdir (VMM_DIR_INDEX (v + k)) (VMM_TABLE_INDEX (v + k)) →
        256 ≤ vmm_get_phys_frame s1 pdir (v + k) / 4096 →
        vmm_get_phys_frame s1 pdir (v + k) / 4096 < s1.kmm.total_frames →
        isframe_used s2.kmm (vmm_get_phys_frame s1 pdir (v + k) / 4096) = false := by
      intro k hk hp
      rw [vmm_get_phys_frame_present s1 pdir (v + k) hd (by omega) hp]
      intro hlo hhi
      have := (p4 _ _ (hidx k).1 (hidx k).2 hp.1 (hrange k hk).1 (hrange k hk).2).2 hp.2 hlo hhi
      by_contra hne
      have hu := t5 _ (by simpa using hne)
      rw [this] at hu
      exact Bool.false_ne_true hu
    refine ⟨?_, hfreed, ?_, ?_, ?_⟩
    · intro k hk
      apply vmm_get_phys_frame_absent
      rintro ⟨q1, q2⟩
      have hi := (hidx k).1
      have hj := (hidx k).2
      rcases t1 _ hi with e | ⟨_, _, _, _, e, _⟩
      · rw [e] at q1
        rw [hpte2 _ _ hi hj q1 e] at q2
        rw [p1 _ hi] at q1
        have := (p4 _ _ hi hj q1 (hrange k hk).1 (hrange k hk).2).1
        rw [this] at q2
        exact Bool.false_ne_true q2
      · rw [e] at q1
        exact absurd q1 (by decide)
    · intro k hk hp hn
      obtain ⟨f1, _⟩ := hext.fresh _ _ (hidx k).1 (hidx k).2 hp hn
      have hF := vmm_get_phys_frame_present s1 pdir (v + k) hd (by omega) hp
      apply hfreed k hk hp
      · rw [hF]
        by_contra hlt
        exact f1 (Or.inl (Nat.lt_of_not_le hlt))
      · rw [hF, hext.total]
        by_contra hge
        exact f1 (Or.inr (Or.inl (Nat.le_of_not_lt hge)))
    · intro i h1 h2 hpi
      have hi : i < 1024 := by
        rw [VMM_DIR_INDEX_eq] at h2; omega
      have hr1 : VMM_DIR_INDEX (v / 4096 * 4096) ≤ i := by
        rw [VMM_DIR_INDEX_eq] at h1 ⊢; omega
      have hr2 : i ≤ VMM_DIR_INDEX ((v + n + 4095) / 4096 * 4096 - 1) := by
        rw [VMM_DIR_INDEX_eq] at h2 ⊢; omega
      have e : pde s2 pdir i = pde sp pdir i := by
        rcases t1 i hi with e | ⟨_, _, _, _, e, _⟩
        · exact e
        · rw [e] at hpi; exact absurd hpi (by decide)
      have hps : PDE_IS_PRESENT (pde sp pdir i) = true := by rw [← e]; exact hpi
      have := t2 i hr1 hr2 hpi
      rw [table_has_entries_iff] at this ⊢
      obtain ⟨j, hj, hpj⟩ := this
      exact ⟨j, hj, by rw [hpte2 i j hi hj hps e]; exact hpj⟩
    · intro i h1 h2 hpi hnp
      have hi : i < 1024 := by
        rw [VMM_DIR_INDEX_eq] at h2; omega
      rcases t1 i hi with e | ⟨_, _, _, _, e, fr⟩
      · rw [e, p1 i hi, hpi] at hnp
        exact absurd hnp (by decide)
      · rw [p1 i hi, p2] at fr
        exact ⟨e, fr⟩

set_option maxRecDepth 100000 in
theorem vmm_free_region_after_alloc_witness :
    DirOk vmmFresh 3222401024 ∧
    vmm_get_phys_frame (vmm_free_region
      (((vmm_alloc_region vmmFresh 3222401024 4194304 8192 6).map Prod.fst).getD vmmFresh)
      3222401024 4194304 8192).1 3222401024 (4194304 + 4096) = 0 :=
  ⟨vmmFresh_DirOk,
  (vmm_free_region_after_alloc vmmFresh _ 3222401024 4194304 8192 6 vmmFresh_DirOk
    (by decide) (option_eq_some_of_map_snd _ vmmFresh (by decide))).1 4096 (by decide)⟩

set_option maxRecDepth 100000 in
theorem vmm_free_region_low_frame_counterexample :
    (vmm_alloc_region vmmLow 3222401024 4194304 4096 6).map
      (fun r => (r.2, vmm_get_phys_frame r.1 3222401024 4194304,
        isframe_used (vmm_free_region r.1 3222401024 4194304 4096).1.kmm 5,
        vmm_get_phys_frame (vmm_free_region r.1 3222401024 4194304 4096).1 3222401024 4194304))
      = some (true, 20480, true, 0) := by
  decide

/-! ### Cloning an address space -/

theorem Reserved_same_frame (k : KmmState) (a b : Nat) (h : a / 4096 = b / 4096)
    (ha : Reserved k a) : Reserved k b := by
  unfold Reserved at *
  rw [← h]
  exact ha

theorem load_tab (s : VmmState) (t j : Nat) (h1 : t < U32) (h2 : t % 4096 = 0) (hj : j < 1024) :
    s.load (entryPtr (PHYS_TO_VIRT t) j) = s.mem (t + 4 * j) := by
  unfold VmmState.load
  rw [phys_entry_tab t j h1 h2 hj]

theorem vmm_clone_pagetable_loop_succ (src T' n : Nat) (s : VmmState) (i : Nat) :
    vmm_clone_pagetable_loop src T' (n + 1) s i =
      if PTE_IS_PRESENT (s.load (entryPtr src i)) = true then
        if (kmm_frame_alloc s.kmm).2 = 0 then
          ((vmm_clone_pagetable_undo (PHYS_TO_VIRT T') i
              (s.withKmm (kmm_frame_alloc s.kmm).1) 0).withKmm
            (kmm_frame_free (vmm_clone_pagetable_undo (PHYS_TO_VIRT T') i
              (s.withKmm (kmm_frame_alloc s.kmm).1) 0).kmm T'), 0)
        else
          vmm_clone_pagetable_loop src T' n
            ((((s.withKmm (kmm_frame_alloc s.kmm).1).memcpyPage
                (PHYS_TO_VIRT (kmm_frame_alloc s.kmm).2)
                (PHYS_TO_VIRT (PTE_FRAME_ADDR (s.load (entryPtr src i))))).store
              (entryPtr (PHYS_TO_VIRT T') i)
              (pte_create (kmm_frame_alloc s.kmm).2 (s.load (entryPtr src i) &&& 4095))))
            (i + 1)
      else vmm_clone_pagetable_loop src T' n s (i + 1) := by
  rw [vmm_clone_pagetable_loop]
  by_cases h1 : PTE_IS_PRESENT (s.load (entryPtr src i)) = true
  · rw [if_pos h1, if_neg (by simp [h1])]
  · rw [if_neg h1, if_pos (by simpa using h1)]

theorem Reserved_not_same_frame (k : KmmState) (a b : Nat) (ha : Reserved k a)
    (hb : ¬ Reserved k b) (hbal : b % 4096 = 0) : ¬ (b ≤ a ∧ a < b + 4096) := by
  intro h
  apply hb
  apply Reserved_same_frame k a b _ ha
  omega

theorem vmm_clone_pagetable_loop_spec (s0 : VmmState) (src T' : Nat) (hsrc : SrcOk s0 src)
    (hTa : T' % 4096 = 0) (hTl : T' < 1073741824) (hTf : ¬ Reserved s0.kmm T')
    (htot0 : s0.kmm.total_frames ≤ 262144) :
    ∀ n (st : VmmState) i s' p, i + n ≤ 1024 →
      st.kmm.total_frames = s0.kmm.total_frames →
      (∀ a, Reserved s0.kmm a → Reserved st.kmm a) →
      (∀ a, Reserved s0.kmm a → st.mem a = s0.mem a) →
      Reserved st.kmm T' →
      vmm_clone_pagetable_loop (PHYS_TO_VIRT src) T' n st i = (s', p) → p ≠ 0 →
      s'.kmm.total_frames = st.kmm.total_frames ∧
      (∀ a, Reserved st.kmm a → Reserved s'.kmm a) ∧
      (∀ a, Reserved st.kmm a → ¬ (T' + 4 * i ≤ a ∧ a < T' + 4 * (i + n)) →
        s'.mem a = st.mem a) ∧
      s'.current_directory = st.current_directory ∧
      s'.kernel_directory = st.kernel_directory ∧
      p = PHYS_TO_VIRT T' ∧
      (∀ j, i ≤ j → j < i + n →
        (PTE_IS_PRESENT (s0.mem (src + 4 * j)) = false →
          s'.mem (T' + 4 * j) = st.mem (T' + 4 * j)) ∧
        (PTE_IS_PRESENT (s0.mem (src + 4 * j)) = true →
          ∃ F', F' % 4096 = 0 ∧ F' < 1073741824 ∧ ¬ Reserved st.kmm F' ∧ Reserved s'.kmm F' ∧
            s'.mem (T' + 4 * j) = pte_create F' (s0.mem (src + 4 * j) &&& 4095) ∧
            ∀ w, w < 4096 →
              s'.mem (F' + w) = s0.mem (PTE_FRAME_ADDR (s0.mem (src + 4 * j)) + w))) := by
  intro n
  induction n with
  | zero =>
    intro st i s' p _ _ _ _ _ h _
    have e : vmm_clone_pagetable_loop (PHYS_TO_VIRT src) T' 0 st i = (st, PHYS_TO_VIRT T') := rfl
    rw [e] at h
    have e1 := congrArg Prod.fst h
    have e2 := congrArg Prod.snd h
    simp only at e1 e2
    subst e1
    exact ⟨rfl, fun _ h => h, fun _ _ _ => rfl, rfl, rfl, e2.symm, fun j h1 h2 => by omega⟩
  | succ n ih =>
    intro st i s' p hin htot hmono hmem hTr h hp
    have hi : i < 1024 := by omega
    have hload : st.load (entryPtr (PHYS_TO_VIRT src) i) = s0.mem (src + 4 * i) := by
      rw [load_tab st src i hsrc.lt hsrc.aligned hi]
      apply hmem
      apply Reserved_same_frame _ src _ _ hsrc.reserved
      have := hsrc.aligned
      omega
    rw [vmm_clone_pagetable_loop_succ, hload] at h
    by_cases hpres : PTE_IS_PRESENT (s0.mem (src + 4 * i)) = true
    · rw [if_pos hpres] at h
      by_cases h0 : (kmm_frame_alloc st.kmm).2 = 0
      · rw [if_pos h0] at h
        exact absurd (congrArg Prod.snd h).symm hp
      · rw [if_neg h0] at h
        obtain ⟨fa, fw, fnr, fr⟩ := alloc_fresh_addr st.kmm (by omega) h0
        have hFl : (kmm_frame_alloc st.kmm).2 < U32 := by unfold U32; omega
        have hsF := hsrc.pages i hi hpres
        obtain ⟨sa, sl⟩ : PTE_FRAME_ADDR (s0.mem (src + 4 * i)) % 4096 = 0 ∧
            PTE_FRAME_ADDR (s0.mem (src + 4 * i)) < U32 := by
          rw [PTE_FRAME_ADDR_eq]; unfold U32; omega
        generalize hs3 : (((st.withKmm (kmm_frame_alloc st.kmm).1).memcpyPage
          (PHYS_TO_VIRT (kmm_frame_alloc st.kmm).2)
          (PHYS_TO_VIRT (PTE_FRAME_ADDR (s0.mem (src + 4 * i))))).store
          (entryPtr (PHYS_TO_VIRT T') i)
          (pte_create (kmm_frame_alloc st.kmm).2 (s0.mem (src + 4 * i) &&& 4095))) = s3 at h
        have hm3 : ∀ a, s3.mem a =
            if a = T' + 4 * i then
              pte_create (kmm_frame_alloc st.kmm).2 (s0.mem (src + 4 * i) &&& 4095)
            else if (kmm_frame_alloc st.kmm).2 ≤ a ∧ a < (kmm_frame_alloc st.kmm).2 + 4096 then
              st.mem (PTE_FRAME_ADDR (s0.mem (src + 4 * i)) + (a - (kmm_frame_alloc st.kmm).2))
            else st.mem a := by
          intro a
          rw [← hs3]
          simp only [VmmState.store, VmmState.memcpyPage, VmmState.withKmm,
            phys_entry_tab T' i (by unfold U32; omega) hTa hi,
            VIRT_TO_PHYS_PHYS_TO_VIRT _ hFl, VIRT_TO_PHYS_PHYS_TO_VIRT _ sl]
        have hk3 : s3.kmm = (kmm_frame_alloc st.kmm).1 := by rw [← hs3]; rfl
        have hc3 : s3.current_directory = st.current_directory ∧
            s3.kernel_directory = st.kernel_directory := by rw [← hs3]; exact ⟨rfl, rfl⟩
        have hmono_k : ∀ a, Reserved st.kmm a → Reserved (kmm_frame_alloc st.kmm).1 a :=
          fun a ha => Reserved_alloc _ _ ha
        have htot_k : (kmm_frame_alloc st.kmm).1.total_frames = st.kmm.total_frames :=
          kmm_frame_alloc_total _
        generalize (kmm_frame_alloc st.kmm).2 = F' at *
        generalize (kmm_frame_alloc st.kmm).1 = k' at *
        have hmono3 : ∀ a, Reserved st.kmm a → Reserved s3.kmm a := by
          intro a ha; rw [hk3]; exact hmono_k a ha
        have hTF : T' / 4096 ≠ F' / 4096 := ne_of_reserved _ _ _ hTr fnr
        have hres3 : Reserved s3.kmm T' := hmono3 _ hTr
        have hFr3 : Reserved s3.kmm F' := by rw [hk3]; exact fr
        have hmem3 : ∀ a, Reserved s0.kmm a → s3.mem a = s0.mem a := by
          intro a ha
          have n1 := Reserved_not_same_frame _ a T' ha hTf hTa
          have n2 := Reserved_not_same_frame _ a F' (hmono a ha) fnr fa
          rw [hm3, if_neg (by omega), if_neg n2]
          exact hmem a ha
        obtain ⟨q1, q2, q3, q4, q5, q6, q7⟩ := ih s3 (i + 1) s' p (by omega)
          (by rw [hk3, htot_k, htot]) (fun a ha => hmono3 a (hmono a ha)) hmem3 hres3 h hp
        refine ⟨by rw [q1, hk3, htot_k], fun a ha => q2 a (hmono3 a ha), ?_,
          q4.trans hc3.1, q5.trans hc3.2, q6, ?_⟩
        · intro a ha hout
          have n2 := Reserved_not_same_frame _ a F' ha fnr fa
          rw [q3 a (hmono3 a ha) (by omega), hm3, if_neg (by omega), if_neg n2]
        · intro j hj1 hj2
          by_cases hji : j = i
          · subst hji
            refine ⟨fun hnp => ?_, fun _ => ⟨F', fa, fw, fnr, q2 F' hFr3, ?_, ?_⟩⟩
            · rw [hpres] at hnp
              exact absurd hnp (by decide)
            · rw [q3 _ (Reserved_same_frame _ T' _ (by omega) hres3) (by omega), hm3, if_pos rfl]
            · intro w hw
              rw [q3 _ (Reserved_same_frame _ F' _ (by omega) hFr3) (by omega), hm3,
                if_neg (by omega), if_pos (by omega)]
              rw [show PTE_FRAME_ADDR (s0.mem (src + 4 * j)) + (F' + w - F') =
                PTE_FRAME_ADDR (s0.mem (src + 4 * j)) + w by omega]
              exact hmem _ (Reserved_same_frame _ _ _ (by omega) hsF)
          · obtain ⟨r1, r2⟩ := q7 j (by omega) (by omega)
            refine ⟨fun hnp => ?_, fun hpp => ?_⟩
            · rw [r1 hnp, hm3, if_neg (by omega), if_neg (by omega)]
            · obtain ⟨F2, g1, g2, g3, g4, g5, g6⟩ := r2 hpp
              exact ⟨F2, g1, g2, fun hr => g3 (hmono3 _ hr), g4, g5, g6⟩
    · rw [if_neg hpres] at h
      have hpres' : PTE_IS_PRESENT (s0.mem (src + 4 * i)) = false := by simpa using hpres
      obtain ⟨q1, q2, q3, q4, q5, q6, q7⟩ := ih st (i + 1) s' p (by omega) htot hmono hmem hTr h hp
      refine ⟨q1, q2, fun a ha hout => q3 a ha (by omega), q4, q5, q6, ?_⟩
      intro j hj1 hj2
      by_cases hji : j = i
      · subst hji
        refine ⟨fun _ => ?_, fun hpp => ?_⟩
        · exact q3 _ (Reserved_same_frame _ T' _ (by omega) hTr) (by omega)
        · rw [hpres'] at hpp
          exact absurd hpp (by decide)
      · exact q7 j (by omega) (by omega)

theorem vmm_clone_pagetable_spec (s0 st : VmmState) (src : Nat) (s' : VmmState) (p : Nat)
    (hsrc : SrcOk s0 src) (htot0 : s0.kmm.total_frames ≤ 262144)
    (htot : st.kmm.total_frames = s0.kmm.total_frames)
    (hmono : ∀ a, Reserved s0.kmm a → Reserved st.kmm a)
    (hmem : ∀ a, Reserved s0.kmm a → st.mem a = s0.mem a)
    (h : vmm_clone_pagetable st (PHYS_TO_VIRT src) = (s', p)) (hp : p ≠ 0) :
    ∃ T', p = PHYS_TO_VIRT T' ∧ T' % 4096 = 0 ∧ T' < 1073741824 ∧ ¬ Reserved st.kmm T' ∧
      Reserved s'.kmm T' ∧ s'.kmm.total_frames = st.kmm.total_frames ∧
      (∀ a, Reserved st.kmm a → Reserved s'.kmm a) ∧
      (∀ a, Reserved st.kmm a → s'.mem a = st.mem a) ∧
      s'.current_directory = st.current_directory ∧
      s'.kernel_directory = st.kernel_directory ∧
      (∀ j, j < 1024 →
        (PTE_IS_PRESENT (s0.mem (src + 4 * j)) = false → s'.mem (T' + 4 * j) = 0) ∧
        (PTE_IS_PRESENT (s0.mem (src + 4 * j)) = true →
          ∃ F', F' % 4096 = 0 ∧ F' < 1073741824 ∧ ¬ Reserved st.kmm F' ∧ Reserved s'.kmm F' ∧
            s'.mem (T' + 4 * j) = pte_create F' (s0.mem (src + 4 * j) &&& 4095) ∧
            ∀ w, w < 4096 →
              s'.mem (F' + w) = s0.mem (PTE_FRAME_ADDR (s0.mem (src + 4 * j)) + w))) := by
  unfold vmm_clone_pagetable at h
  by_cases hs : PHYS_TO_VIRT src = 0
  · rw [if_pos hs] at h
    exact absurd (congrArg Prod.snd h).symm hp
  · rw [if_neg hs] at h
    simp only [] at h
    by_cases h0 : (kmm_frame_alloc st.kmm).2 = 0
    · rw [if_pos h0] at h
      exact absurd (congrArg Prod.snd h).symm hp
    · rw [if_neg h0] at h
      obtain ⟨ta, tw, tnr, tr⟩ := alloc_fresh_addr st.kmm (by omega) h0
      have hTl : (kmm_frame_alloc st.kmm).2 < U32 := by unfold U32; omega
      have hmono_k : ∀ a, Reserved st.kmm a → Reserved (kmm_frame_alloc st.kmm).1 a :=
        fun a ha => Reserved_alloc _ _ ha
      have htot_k : (kmm_frame_alloc st.kmm).1.total_frames = st.kmm.total_frames :=
        kmm_frame_alloc_total _
      generalize hst1 : (st.withKmm (kmm_frame_alloc st.kmm).1).memsetPage
        (PHYS_TO_VIRT (kmm_frame_alloc st.kmm).2) = st1 at h
      have hm1 : ∀ a, st1.mem a =
          if (kmm_frame_alloc st.kmm).2 ≤ a ∧ a < (kmm_frame_alloc st.kmm).2 + 4096 then 0
          else st.mem a := by
        intro a
        rw [← hst1]
        simp only [VmmState.memsetPage, VmmState.withKmm, VIRT_TO_PHYS_PHYS_TO_VIRT _ hTl]
      have hk1 : st1.kmm = (kmm_frame_alloc st.kmm).1 := by rw [← hst1]; rfl
      have hc1 : st1.current_directory = st.current_directory ∧
          st1.kernel_directory = st.kernel_directory := by rw [← hst1]; exact ⟨rfl, rfl⟩
      generalize (kmm_frame_alloc st.kmm).2 = T' at *
      generalize (kmm_frame_alloc st.kmm).1 = k' at *
      have hmono1 : ∀ a, Reserved st.kmm a → Reserved st1.kmm a := by
        intro a ha; rw [hk1]; exact hmono_k a ha
      have hTf : ¬ Reserved s0.kmm T' := fun hr => tnr (hmono _ hr)
      have hmem1 : ∀ a, Reserved s0.kmm a → st1.mem a = s0.mem a := by
        intro a ha
        rw [hm1, if_neg (Reserved_not_same_frame _ a T' ha hTf ta)]
        exact hmem a ha
      obtain ⟨q1, q2, q3, q4, q5, q6, q7⟩ := vmm_clone_pagetable_loop_spec s0 src T' hsrc ta tw
        hTf htot0 VMM_PAGES_PER_TABLE st1 0 s' p (by unfold VMM_PAGES_PER_TABLE; omega)
        (by rw [hk1, htot_k, htot]) (fun a ha => hmono1 a (hmono a ha)) hmem1
        (by rw [hk1]; exact tr) h hp
      refine ⟨T', q6, ta, tw, tnr, q2 _ (by rw [hk1]; exact tr), by rw [q1, hk1, htot_k],
        fun a ha => q2 a (hmono1 a ha), ?_, q4.trans hc1.1, q5.trans hc1.2, ?_⟩
      · intro a ha
        have n1 := Reserved_not_same_frame _ a T' ha tnr ta
        rw [q3 a (hmono1 a ha) (by unfold VMM_PAGES_PER_TABLE; omega), hm1, if_neg n1]
      · intro j hj
        obtain ⟨r1, r2⟩ := q7 j (by omega) (by unfold VMM_PAGES_PER_TABLE; omega)
        refine ⟨fun hnp => ?_, fun hpp => ?_⟩
        · rw [r1 hnp, hm1, if_pos (by omega)]
        · obtain ⟨F2, g1, g2, g3, g4, g5, g6⟩ := r2 hpp
          exact ⟨F2, g1, g2, fun hr => g3 (hmono1 _ hr), g4, g5, g6⟩

theorem vmm_clone_pagedir_loop_succ (nd n : Nat) (s : VmmState) (i : Nat) :
    vmm_clone_pagedir_loop nd (n + 1) s i =
      if PDE_IS_PRESENT (pde s s.current_directory i) = true then
        if i ≥ 768 ∨ (PDE_IS_PRESENT (pde s s.kernel_directory i) = true ∧
            PDE_PTABLE_ADDR (pde s s.kernel_directory i) =
              PDE_PTABLE_ADDR (pde s s.current_directory i)) then
          vmm_clone_pagedir_loop nd n
            (s.store (entryPtr nd i) (pde s s.current_directory i)) (i + 1)
        else
          if (vmm_clone_pagetable s
              (PHYS_TO_VIRT (PDE_PTABLE_ADDR (pde s s.current_directory i)))).2 = 0 then
            ((vmm_clone_pagedir_undo nd i (vmm_clone_pagetable s
                (PHYS_TO_VIRT (PDE_PTABLE_ADDR (pde s s.current_directory i)))).1 0).withKmm
              (kmm_frame_free (vmm_clone_pagedir_undo nd i (vmm_clone_pagetable s
                (PHYS_TO_VIRT (PDE_PTABLE_ADDR (pde s s.current_directory i)))).1 0).kmm
                (VIRT_TO_PHYS nd)), 0)
          else
            vmm_clone_pagedir_loop nd n
              ((vmm_clone_pagetable s
                  (PHYS_TO_VIRT (PDE_PTABLE_ADDR (pde s s.current_directory i)))).1.store
                (entryPtr nd i)
                (pde_create (VIRT_TO_PHYS (vmm_clone_pagetable s
                    (PHYS_TO_VIRT (PDE_PTABLE_ADDR (pde s s.current_directory i)))).2)
                  (pde s s.current_directory i &&& 4095)))
              (i + 1)
      else vmm_clone_pagedir_loop nd n s (i + 1) := by
  unfold pde
  rw [vmm_clone_pagedir_loop]
  by_cases h1 : PDE_IS_PRESENT (s.load (entryPtr s.current_directory i)) = true
  · rw [if_pos h1, if_neg (by simp [h1])]
    by_cases h2 : i ≥ 768
    · rw [if_pos h2, if_pos (Or.inl h2)]
    · rw [if_neg h2]
      by_cases h3 : PDE_IS_PRESENT (s.load (entryPtr s.kernel_directory i)) = true ∧
          PDE_PTABLE_ADDR (s.load (entryPtr s.kernel_directory i)) =
            PDE_PTABLE_ADDR (s.load (entryPtr s.current_directory i))
      · rw [if_pos (Or.inr h3)]
        simp only [h3.1, h3.2, beq_self_eq_true, Bool.and_self, if_true]
      · have hor : ¬ (i ≥ 768 ∨ (PDE_IS_PRESENT (s.load (entryPtr s.kernel_directory i)) = true ∧
            PDE_PTABLE_ADDR (s.load (entryPtr s.kernel_directory i)) =
              PDE_PTABLE_ADDR (s.load (entryPtr s.current_directory i)))) :=
          fun h => h.elim h2 h3
        have : (PDE_IS_PRESENT (s.load (entryPtr s.kernel_directory i)) &&
            (PDE_PTABLE_ADDR (s.load (entryPtr s.kernel_directory i)) ==
              PDE_PTABLE_ADDR (s.load (entryPtr s.current_directory i)))) = false := by
          rw [Bool.and_eq_false_iff]
          by_cases h4 : PDE_IS_PRESENT (s.load (entryPtr s.kernel_directory i)) = true
          · right
            simp only [beq_eq_false_iff_ne, ne_eq]
            exact fun e => h3 ⟨h4, e⟩
          · left
            simpa using h4
        simp only [this, Bool.false_eq_true, if_false]
        rw [if_neg hor]
  · rw [if_neg h1, if_pos (by simpa using h1)]

theorem CloneOk.srcOk {s0 : VmmState} (hok : CloneOk s0) (i : Nat) (hi : i < 768)
    (hp : PDE_IS_PRESENT (pde s0 s0.current_directory i) = true) :
    SrcOk s0 (PDE_PTABLE_ADDR (pde s0 s0.current_directory i)) where
  aligned := (ptable_addr_aligned _).1
  lt := (ptable_addr_aligned _).2
  reserved := hok.tab_reserved i hi hp
  pages := by
    intro j hj hpj
    have e := pteAt_eq_mem s0 s0.current_directory i j hj
    rw [← e] at hpj ⊢
    exact hok.page_reserved i j hi hj ⟨hp, hpj⟩

theorem vmm_clone_pagedir_loop_spec (s0 : VmmState) (hok : CloneOk s0) (ND : Nat)
    (hNa : ND % 4096 = 0) (hNl : ND < 1073741824) (hNf : ¬ Reserved s0.kmm ND) :
    ∀ n (st : VmmState) i s' p, i + n ≤ 1024 →
      st.kmm.total_frames = s0.kmm.total_frames →
      (∀ a, Reserved s0.kmm a → Reserved st.kmm a) →
      (∀ a, Reserved s0.kmm a → st.mem a = s0.mem a) →
      Reserved st.kmm ND →
      st.current_directory = s0.current_directory →
      st.kernel_directory = s0.kernel_directory →
      vmm_clone_pagedir_loop (PHYS_TO_VIRT ND) n st i = (s', p) → p ≠ 0 →
      s'.kmm.total_frames = st.kmm.total_frames ∧
      (∀ a, Reserved st.kmm a → Reserved s'.kmm a) ∧
      (∀ a, Reserved st.kmm a → ¬ (ND + 4 * i ≤ a ∧ a < ND + 4 * (i + n)) →
        s'.mem a = st.mem a) ∧
      p = PHYS_TO_VIRT ND ∧
      (∀ k, i ≤ k → k < i + n → DeepIndex s0 k →
        ∃ T', T' % 4096 = 0 ∧ T' < 1073741824 ∧ ¬ Reserved st.kmm T' ∧
          s'.mem (ND + 4 * k) = pde_create T' (pde s0 s0.current_directory k &&& 4095) ∧
          ∀ j, j < 1024 → PTE_IS_PRESENT (pteAt s0 s0.current_directory k j) = true →
            ∃ F', F' % 4096 = 0 ∧ F' < 1073741824 ∧ ¬ Reserved st.kmm F' ∧
              s'.mem (T' + 4 * j) =
                pte_create F' (pteAt s0 s0.current_directory k j &&& 4095) ∧
              ∀ w, w < 4096 → s'.mem (F' + w) =
                s0.mem (PTE_FRAME_ADDR (pteAt s0 s0.current_directory k j) + w)) := by
  have hNU : ND < U32 := by unfold U32; omega
  intro n
  induction n with
  | zero =>
    intro st i s' p _ _ _ _ _ _ _ h _
    have e : vmm_clone_pagedir_loop (PHYS_TO_VIRT ND) 0 st i = (st, PHYS_TO_VIRT ND) := rfl
    rw [e] at h
    have e1 := congrArg Prod.fst h
    have e2 := congrArg Prod.snd h
    simp only at e1 e2
    subst e1
    exact ⟨rfl, fun _ h => h, fun _ _ _ => rfl, e2.symm, fun k h1 h2 => by omega⟩
  | succ n ih =>
    intro st i s' p hin htot hmono hmem hNr hcur hker h hp
    have hi : i < 1024 := by omega
    obtain ⟨ca, cl⟩ := phys_dir_aligned _ hok.cur_aligned
    obtain ⟨ka, kl⟩ := phys_dir_aligned _ hok.ker_aligned
    have hpc : pde st st.current_directory i = pde s0 s0.current_directory i := by
      rw [hcur, pde_eq_mem _ _ i hok.cur_lt hok.cur_aligned hi,
        pde_eq_mem _ _ i hok.cur_lt hok.cur_aligned hi]
      exact hmem _ (Reserved_same_frame _ _ _ (by omega) hok.cur_reserved)
    have hpk : pde st st.kernel_directory i = pde s0 s0.kernel_directory i := by
      rw [hker, pde_eq_mem _ _ i hok.ker_lt hok.ker_aligned hi,
        pde_eq_mem _ _ i hok.ker_lt hok.ker_aligned hi]
      exact hmem _ (Reserved_same_frame _ _ _ (by omega) hok.ker_reserved)
    have hptr : VIRT_TO_PHYS (entryPtr (PHYS_TO_VIRT ND) i) = ND + 4 * i :=
      phys_entry_tab ND i hNU hNa hi
    rw [vmm_clone_pagedir_loop_succ, hpc, hpk] at h
    by_cases hpres : PDE_IS_PRESENT (pde s0 s0.current_directory i) = true
    · rw [if_pos hpres] at h
      by_cases hsh : i ≥ 768 ∨ (PDE_IS_PRESENT (pde s0 s0.kernel_directory i) = true ∧
            PDE_PTABLE_ADDR (pde s0 s0.kernel_directory i) =
              PDE_PTABLE_ADDR (pde s0 s0.current_directory i))
      · rw [if_pos hsh] at h
        generalize hs1 : st.store (entryPtr (PHYS_TO_VIRT ND) i)
          (pde s0 s0.current_directory i) = s1 at h
        have hm1 : ∀ a, s1.mem a =
            if a = ND + 4 * i then pde s0 s0.current_directory i else st.mem a := by
          intro a
          rw [← hs1]
          simp only [VmmState.store, hptr]
        have hk1 : s1.kmm = st.kmm := by rw [← hs1]; rfl
        have hc1 : s1.current_directory = st.current_directory ∧
            s1.kernel_directory = st.kernel_directory := by rw [← hs1]; exact ⟨rfl, rfl⟩
        have hmem1 : ∀ a, Reserved s0.kmm a → s1.mem a = s0.mem a := by
          intro a ha
          have n1 := Reserved_not_same_frame _ a ND ha hNf hNa
          rw [hm1, if_neg (by omega)]
          exact hmem a ha
        obtain ⟨q1, q2, q3, q4, q5⟩ := ih s1 (i + 1) s' p (by omega) (by rw [hk1, htot])
          (by rw [hk1]; exact hmono) hmem1 (by rw [hk1]; exact hNr) (hc1.1.trans hcur)
          (hc1.2.trans hker) h hp
        rw [hk1] at q1 q2 q3 q5
        refine ⟨q1, q2, ?_, q4, ?_⟩
        · intro a ha hout
          rw [q3 a ha (by omega), hm1, if_neg (by omega)]
        · intro k hk1' hk2 hdeep
          by_cases hki : k = i
          · subst hki
            exfalso
            rcases hsh with h768 | hkm
            · exact absurd hdeep.1 (by omega)
            · exact hdeep.2.2 hkm
          · exact q5 k (by omega) (by omega) hdeep
      · rw [if_neg hsh] at h
        have hi768 : i < 768 := by
          by_contra hge
          exact hsh (Or.inl (by omega))
        have hsrc := hok.srcOk i hi768 hpres
        generalize hcl : vmm_clone_pagetable st
          (PHYS_TO_VIRT (PDE_PTABLE_ADDR (pde s0 s0.current_directory i))) = r at h
        obtain ⟨su, pt⟩ := r
        simp only [] at h
        by_cases hc0 : pt = 0
        · rw [if_pos hc0] at h
          exact absurd (congrArg Prod.snd h).symm hp
        · rw [if_neg hc0] at h
          obtain ⟨T', c1, c2, c3, c4, c5, c6, c7, c8, c9, c10, c11⟩ :=
            vmm_clone_pagetable_spec s0 st (PDE_PTABLE_ADDR (pde s0 s0.current_directory i))
              su pt hsrc hok.total htot hmono hmem hcl hc0
          have hTU : T' < U32 := by unfold U32; omega
          rw [c1, VIRT_TO_PHYS_PHYS_TO_VIRT T' hTU] at h
          generalize hs1 : su.store (entryPtr (PHYS_TO_VIRT ND) i)
            (pde_create T' (pde s0 s0.current_directory i &&& 4095)) = s1 at h
          have hm1 : ∀ a, s1.mem a =
              if a = ND + 4 * i then pde_create T' (pde s0 s0.current_directory i &&& 4095)
              else su.mem a := by
            intro a
            rw [← hs1]
            simp only [VmmState.store, hptr]
          have hk1 : s1.kmm = su.kmm := by rw [← hs1]; rfl
          have hc1 : s1.current_directory = su.current_directory ∧
              s1.kernel_directory = su.kernel_directory := by rw [← hs1]; exact ⟨rfl, rfl⟩
          have hmem1 : ∀ a, Reserved s0.kmm a → s1.mem a = s0.mem a := by
            intro a ha
            have n1 := Reserved_not_same_frame _ a ND ha hNf hNa
            rw [hm1, if_neg (by omega), c8 a (hmono a ha)]
            exact hmem a ha
          obtain ⟨q1, q2, q3, q4, q5⟩ := ih s1 (i + 1) s' p (by omega)
            (by rw [hk1, c6, htot]) (by rw [hk1]; exact fun a ha => c7 a (hmono a ha)) hmem1
            (by rw [hk1]; exact c7 _ hNr) ((hc1.1.trans c9).trans hcur)
            ((hc1.2.trans c10).trans hker) h hp
          rw [hk1] at q1 q2 q3 q5
          have hNT : ND / 4096 ≠ T' / 4096 := ne_of_reserved _ _ _ hNr c4
          refine ⟨q1.trans c6, fun a ha => q2 a (c7 a ha), ?_, q4, ?_⟩
          · intro a ha hout
            rw [q3 a (c7 a ha) (by omega), hm1, if_neg (by omega), c8 a ha]
          · intro k hk1' hk2 hdeep
            by_cases hki : k = i
            · subst hki
              refine ⟨T', c2, c3, c4, ?_, ?_⟩
              · rw [q3 _ (Reserved_same_frame _ ND _ (by omega) (c7 _ hNr)) (by omega), hm1,
                  if_pos rfl]
              · intro j hj hpj
                have e := pteAt_eq_mem s0 s0.current_directory k j hj
                rw [e] at hpj ⊢
                obtain ⟨F', g1, g2, g3, g4, g5, g6⟩ := (c11 j hj).2 hpj
                have hNF : ND / 4096 ≠ F' / 4096 := ne_of_reserved _ _ _ hNr g3
                refine ⟨F', g1, g2, g3, ?_, ?_⟩
                · rw [q3 _ (Reserved_same_frame _ T' _ (by omega) c5) (by omega), hm1,
                    if_neg (by omega), g5]
                · intro w hw
                  rw [q3 _ (Reserved_same_frame _ F' _ (by omega) g4) (by omega), hm1,
                    if_neg (by omega), g6 w hw]
            · obtain ⟨T2, d1, d2, d3, d4, d5⟩ := q5 k (by omega) (by omega) hdeep
              refine ⟨T2, d1, d2, fun hr => d3 (c7 _ hr), d4, ?_⟩
              intro j hj hpj
              obtain ⟨F2, g1, g2, g3, g4, g5⟩ := d5 j hj hpj
              exact ⟨F2, g1, g2, fun hr => g3 (c7 _ hr), g4, g5⟩
    · rw [if_neg hpres] at h
      obtain ⟨q1, q2, q3, q4, q5⟩ := ih st (i + 1) s' p (by omega) htot hmono hmem hNr hcur
        hker h hp
      refine ⟨q1, q2, fun a ha hout => q3 a ha (by omega), q4, ?_⟩
      intro k hk1' hk2 hdeep
      by_cases hki : k = i
      · subst hki
        exact absurd hdeep.2.1 hpres
      · exact q5 k (by omega) (by omega) hdeep

/-- C9: in a state where the current address space is consistent with the frame
allocator (`CloneOk`), after a successful `vmm_clone_pagedir` (result `nd`, not
NULL), for every deeply cloned directory index `i` (user half, present, not the
kernel directory's table) and every present page `j` of that table: the new
directory maps the page (both entries present) to a frame different from the
parent's frame, with the same flag bits; every word of the new frame equals the
corresponding word of the parent's page; the parent's page, page-table entry
and directory entry are unchanged; and a store into the child's frame leaves
every word of the parent's page unchanged. -/
theorem vmm_clone_pagedir_deep_copy (s s' : VmmState) (nd : Nat) (hok : CloneOk s)
    (h : vmm_clone_pagedir s = (s', nd)) (hnd : nd ≠ 0) (i j : Nat) (hdeep : DeepIndex s i)
    (hj : j < 1024) (hp : PTE_IS_PRESENT (pteAt s s.current_directory i j) = true) :
    presentAt s' nd i j ∧
    PTE_FRAME_ADDR (pteAt s' nd i j) ≠ PTE_FRAME_ADDR (pteAt s s.current_directory i j) ∧
    pteAt s' nd i j % 4096 = pteAt s s.current_directory i j % 4096 ∧
    (∀ w, w < 4096 → s'.mem (PTE_FRAME_ADDR (pteAt s' nd i j) + w) =
      s.mem (PTE_FRAME_ADDR (pteAt s s.current_directory i j) + w)) ∧
    (∀ w, w < 4096 → s'.mem (PTE_FRAME_ADDR (pteAt s s.current_directory i j) + w) =
      s.mem (PTE_FRAME_ADDR (pteAt s s.current_directory i j) + w)) ∧
    pde s' s.current_directory i = pde s s.current_directory i ∧
    pteAt s' s.current_directory i j = pteAt s s.current_directory i j ∧
    (∀ w1 w2 v, w1 < 4096 → w2 < 4096 →
      (s'.store (PHYS_TO_VIRT (PTE_FRAME_ADDR (pteAt s' nd i j) + w1)) v).mem
        (PTE_FRAME_ADDR (pteAt s s.current_directory i j) + w2) =
      s'.mem (PTE_FRAME_ADDR (pteAt s s.current_directory i j) + w2)) := by
  have hi : i < 1024 := by have := hdeep.1; omega
  unfold vmm_clone_pagedir at h
  by_cases hz : s.current_directory = 0 ∨ s.kernel_directory = 0
  · rw [if_pos hz] at h
    exact absurd (congrArg Prod.snd h).symm hnd
  · rw [if_neg hz] at h
    simp only [] at h
    unfold vmm_create_address_space at h
    simp only [] at h
    by_cases h0 : (kmm_frame_alloc s.kmm).2 = 0
    · simp only [h0, if_true] at h
      exact absurd (congrArg Prod.snd h).symm hnd
    · simp only [h0, if_false] at h
      obtain ⟨na, nw, nnr, nr⟩ := alloc_fresh_addr s.kmm hok.total h0
      have hNU : (kmm_frame_alloc s.kmm).2 < U32 := by unfold U32; omega
      have hnz : PHYS_TO_VIRT (kmm_frame_alloc s.kmm).2 ≠ 0 := by
        unfold PHYS_TO_VIRT PHYS_BASE U32; omega
      rw [if_neg hnz] at h
      have hmono_k : ∀ a, Reserved s.kmm a → Reserved (kmm_frame_alloc s.kmm).1 a :=
        fun a ha => Reserved_alloc _ _ ha
      have htot_k : (kmm_frame_alloc s.kmm).1.total_frames = s.kmm.total_frames :=
        kmm_frame_alloc_total _
      generalize hst : (s.withKmm (kmm_frame_alloc s.kmm).1).memsetPage
        (PHYS_TO_VIRT (kmm_frame_alloc s.kmm).2) = st at h
      have hm1 : ∀ a, st.mem a =
          if (kmm_frame_alloc s.kmm).2 ≤ a ∧ a < (kmm_frame_alloc s.kmm).2 + 4096 then 0
          else s.mem a := by
        intro a
        rw [← hst]
        simp only [VmmState.memsetPage, VmmState.withKmm, VIRT_TO_PHYS_PHYS_TO_VIRT _ hNU]
      have hk1 : st.kmm = (kmm_frame_alloc s.kmm).1 := by rw [← hst]; rfl
      have hc1 : st.current_directory = s.current_directory ∧
          st.kernel_directory = s.kernel_directory := by rw [← hst]; exact ⟨rfl, rfl⟩
      generalize (kmm_frame_alloc s.kmm).2 = ND at *
      generalize (kmm_frame_alloc s.kmm).1 = k' at *
      have hmono1 : ∀ a, Reserved s.kmm a → Reserved st.kmm a := by
        intro a ha; rw [hk1]; exact hmono_k a ha
      have hmem1 : ∀ a, Reserved s.kmm a → st.mem a = s.mem a := by
        intro a ha
        rw [hm1, if_neg (Reserved_not_same_frame _ a ND ha nnr na)]
      obtain ⟨_, _, q3, q4, q5⟩ := vmm_clone_pagedir_loop_spec s hok ND na nw nnr
        VMM_PAGES_PER_DIR st 0 s' nd (by unfold VMM_PAGES_PER_DIR; omega)
        (by rw [hk1, htot_k]) hmono1 hmem1 (by rw [hk1]; exact nr) hc1.1 hc1.2 h hnd
      -- memory that was reserved before the call is unchanged
      have hkeep : ∀ a, Reserved s.kmm a → s'.mem a = s.mem a := by
        intro a ha
        have n1 := Reserved_not_same_frame _ a ND ha nnr na
        rw [q3 a (hmono1 a ha) (by unfold VMM_PAGES_PER_DIR; omega)]
        exact hmem1 a ha
      obtain ⟨T', t1, t2, _, t4, t5⟩ := q5 i (by omega) (by unfold VMM_PAGES_PER_DIR; omega)
        hdeep
      obtain ⟨F', f1, f2, f3, f4, f5⟩ := t5 j hj hp
      have hTU : T' < U32 := by unfold U32; omega
      have hFU : F' < U32 := by unfold U32; omega
      have hnd_al : nd % 4096 = 0 ∧ nd < U32 ∧ VIRT_TO_PHYS nd = ND := by
        rw [q4]
        unfold PHYS_TO_VIRT VIRT_TO_PHYS PHYS_BASE U32
        omega
      have hpde' : pde s' nd i = pde_create T' (pde s s.current_directory i &&& 4095) := by
        rw [pde_eq_mem _ nd i hnd_al.2.1 hnd_al.1 hi, hnd_al.2.2, t4]
      have hpe := hdeep.2.1
      rw [PDE_IS_PRESENT_eq, decide_eq_true_eq] at hpe
      have hT' : PDE_PTABLE_ADDR (pde s' nd i) = T' := by
        rw [hpde', PDE_PTABLE_ADDR_eq, pde_create_eq]
        unfold U32 at hTU
        omega
      have hpte' : pteAt s' nd i j =
          pte_create F' (pteAt s s.current_directory i j &&& 4095) := by
        rw [pteAt_eq_mem _ _ _ _ hj, hT', f4]
      have hpp := hp
      rw [PTE_IS_PRESENT_eq, decide_eq_true_eq] at hpp
      have hF' : PTE_FRAME_ADDR (pteAt s' nd i j) = F' := by
        rw [hpte', PTE_FRAME_ADDR_eq, pte_create_eq]
        unfold U32 at hFU
        omega
      have hFres : Reserved s.kmm (PTE_FRAME_ADDR (pteAt s s.current_directory i j)) :=
        hok.page_reserved i j hdeep.1 hj ⟨hdeep.2.1, hp⟩
      have hFF : PTE_FRAME_ADDR (pteAt s s.current_directory i j) / 4096 ≠ F' / 4096 :=
        ne_of_reserved _ _ _ (hmono1 _ hFres) f3
      obtain ⟨pa, pl⟩ : PTE_FRAME_ADDR (pteAt s s.current_directory i j) % 4096 = 0 ∧
          PTE_FRAME_ADDR (pteAt s s.current_directory i j) < U32 := by
        rw [PTE_FRAME_ADDR_eq]; unfold U32; omega
      obtain ⟨ca, cl⟩ := phys_dir_aligned _ hok.cur_aligned
      have hpdec : pde s' s.current_directory i = pde s s.current_directory i := by
        rw [pde_eq_mem _ _ i hok.cur_lt hok.cur_aligned hi,
          pde_eq_mem _ _ i hok.cur_lt hok.cur_aligned hi]
        exact hkeep _ (Reserved_same_frame _ _ _ (by omega) hok.cur_reserved)
      refine ⟨⟨?_, ?_⟩, ?_, ?_, ?_, ?_, hpdec, ?_, ?_⟩
      · rw [hpde', PDE_IS_PRESENT_eq, pde_create_eq, and_4095, decide_eq_true_eq]
        omega
      · rw [hpte', PTE_IS_PRESENT_eq, pte_create_eq, and_4095, decide_eq_true_eq]
        omega
      · rw [hF']
        intro e
        rw [e] at hFF
        exact hFF rfl
      · rw [hpte', pte_create_eq, and_4095]
        omega
      · intro w hw
        rw [hF']
        exact f5 w hw
      · intro w hw
        exact hkeep _ (Reserved_same_frame _ _ _ (by omega) hFres)
      · rw [pteAt_eq_mem _ _ _ _ hj, pteAt_eq_mem _ _ _ _ hj, hpdec]
        obtain ⟨ta, tl⟩ := ptable_addr_aligned (pde s s.current_directory i)
        exact hkeep _ (Reserved_same_frame _ _ _ (by omega)
          (hok.tab_reserved i hdeep.1 hdeep.2.1))
      · intro w1 w2 v hw1 hw2
        rw [hF']
        simp only [VmmState.store]
        rw [VIRT_TO_PHYS_PHYS_TO_VIRT _ (by unfold U32 at *; omega), if_neg (by omega)]

/-! ### The rollback paths at concrete failing inputs -/

/-- C8 (code evaluated at the failing input): with a single free frame (319)
and an empty directory, `vmm_alloc_region(dir, 0x400000, 4096, W|U)` uses the
frame for the page table, fails to allocate the page and returns false; the
rollback `vmm_free_region(dir, v, 0)` returns at once, so afterwards frame 319
is still marked used and directory entry 1 is present, where both were clear
before the call. -/
theorem vmm_alloc_region_failure_leaks_table :
    isframe_used vmmOneFree.kmm 319 = false ∧ pde vmmOneFree 3222405120 1 = 0 ∧
    (vmm_alloc_region vmmOneFree 3222405120 4194304 4096 6).map
      (fun r => (r.2, isframe_used r.1.kmm 319, pde r.1 3222405120 1)) =
      some (false, true, 1306631) := by
  decide

set_option maxRecDepth 1000000 in
/-- C10 (code evaluated at the failing inputs): when the frame allocation for
the second page table's page fails, `vmm_clone_pagedir` returns NULL but frame
318, which it allocated for the copy of the first table's page, stays marked
used; and when the current directory shares a page table (frame 281) with the
kernel directory at an index below the failing one, the rollback marks that
table's frame free although it was in use before the call. -/
theorem vmm_clone_pagedir_rollback_incomplete :
    (isframe_used vmmClone.kmm 318 = false ∧ (vmm_clone_pagedir vmmClone).2 = 0 ∧
      isframe_used (vmm_clone_pagedir vmmClone).1.kmm 318 = true) ∧
    (isframe_used vmmCloneShared.kmm 281 = true ∧ (vmm_clone_pagedir vmmCloneShared).2 = 0 ∧
      isframe_used (vmm_clone_pagedir vmmCloneShared).1.kmm 281 = false) := by
  decide

theorem Reserved_kmmSmall (a : Nat) (h : a / 4096 < 288) : Reserved kmmSmall a := by
  right; right
  have hw : kmmSmall.memory_bitmap (a / 4096 / 32) = 4294967295 := by
    have : a / 4096 / 32 < 9 := by omega
    simp [kmmSmall, this]
  have := isframe_used_of_full_word kmmSmall (a / 4096 / 32) (a / 4096 % 32)
    (Nat.mod_lt _ (by norm_num)) hw
  rwa [show a / 4096 / 32 * 32 + a / 4096 % 32 = a / 4096 by omega] at this

theorem vmmCloneable_mem_reserved (a : Nat) :
    Reserved kmmSmall (PDE_PTABLE_ADDR (vmmCloneable.mem a)) := by
  apply Reserved_kmmSmall
  simp only [vmmCloneable]
  split_ifs <;> decide

theorem vmmCloneable_CloneOk : CloneOk vmmCloneable where
  cur_aligned := by decide
  cur_lt := by decide
  ker_aligned := by decide
  ker_lt := by decide
  total := by decide
  cur_reserved := Reserved_kmmSmall _ (by decide)
  ker_reserved := Reserved_kmmSmall _ (by decide)
  tab_reserved := fun _ _ _ => vmmCloneable_mem_reserved _
  page_reserved := fun _ _ _ _ _ => vmmCloneable_mem_reserved _

set_option maxRecDepth 1000000 in
theorem vmm_clone_pagedir_deep_copy_witness :
    CloneOk vmmCloneable ∧ DeepIndex vmmCloneable 1 ∧ (vmm_clone_pagedir vmmCloneable).2 ≠ 0 ∧
    PTE_FRAME_ADDR (pteAt (vmm_clone_pagedir vmmCloneable).1 (vmm_clone_pagedir vmmCloneable).2
      1 0) ≠ PTE_FRAME_ADDR (pteAt vmmCloneable vmmCloneable.current_directory 1 0) :=
  ⟨vmmCloneable_CloneOk, ⟨by decide, by decide, by decide⟩, by decide,
    (vmm_clone_pagedir_deep_copy vmmCloneable _ _ vmmCloneable_CloneOk Prod.mk.eta.symm
      (by decide) 1 0 ⟨by decide, by decide, by decide⟩ (by decide) (by decide)).2.1⟩

/-! ### The kernel half of a new directory -/

theorem vmm_clone_pagetable_undo_ptrs (nt : Nat) :
    ∀ (n : Nat) (s : VmmState) (j : Nat),
      (vmm_clone_pagetable_undo nt n s j).current_directory = s.current_directory ∧
        (vmm_clone_pagetable_undo nt n s j).kernel_directory = s.kernel_directory := by
  intro n
  induction n with
  | zero => intro s j; exact ⟨rfl, rfl⟩
  | succ n ih =>
    intro s j
    simp only [vmm_clone_pagetable_undo]
    split_ifs
    · exact ih _ _
    · exact ih _ _

theorem vmm_clone_pagetable_loop_ptrs (src T : Nat) :
    ∀ (n : Nat) (s : VmmState) (i : Nat),
      (vmm_clone_pagetable_loop src T n s i).1.current_directory = s.current_directory ∧
        (vmm_clone_pagetable_loop src T n s i).1.kernel_directory = s.kernel_directory := by
  intro n
  induction n with
  | zero => intro s i; exact ⟨rfl, rfl⟩
  | succ n ih =>
    intro s i
    rw [vmm_clone_pagetable_loop_succ]
    split_ifs
    · exact vmm_clone_pagetable_undo_ptrs _ _ _ _
    · exact ih _ _
    · exact ih _ _

theorem vmm_clone_pagetable_ptrs (s : VmmState) (src : Nat) :
    (vmm_clone_pagetable s src).1.current_directory = s.current_directory ∧
      (vmm_clone_pagetable s src).1.kernel_directory = s.kernel_directory := by
  unfold vmm_clone_pagetable
  by_cases h1 : src = 0
  · rw [if_pos h1]
    exact ⟨rfl, rfl⟩
  · rw [if_neg h1]
    by_cases h2 : (kmm_frame_alloc s.kmm).2 = 0
    · simp only [h2, if_true]
      exact ⟨rfl, rfl⟩
    · simp only [h2, if_false]
      have h3 := vmm_clone_pagetable_loop_ptrs src (kmm_frame_alloc s.kmm).2 VMM_PAGES_PER_TABLE
        ((s.withKmm (kmm_frame_alloc s.kmm).1).memsetPage
          (PHYS_TO_VIRT (kmm_frame_alloc s.kmm).2)) 0
      generalize vmm_clone_pagetable_loop src (kmm_frame_alloc s.kmm).2 VMM_PAGES_PER_TABLE
        ((s.withKmm (kmm_frame_alloc s.kmm).1).memsetPage
          (PHYS_TO_VIRT (kmm_frame_alloc s.kmm).2)) 0 = r at h3 ⊢
      exact h3

theorem vmm_clone_pagedir_undo_ptrs (nd : Nat) :
    ∀ (n : Nat) (s : VmmState) (j : Nat),
      (vmm_clone_pagedir_undo nd n s j).current_directory = s.current_directory ∧
        (vmm_clone_pagedir_undo nd n s j).kernel_directory = s.kernel_directory := by
  intro n
  induction n with
  | zero => intro s j; exact ⟨rfl, rfl⟩
  | succ n ih =>
    intro s j
    simp only [vmm_clone_pagedir_undo]
    split_ifs
    · exact ih _ _
    · exact ih _ _

theorem withKmm_current_directory (s : VmmState) (k : KmmState) :
    (s.withKmm k).current_directory = s.current_directory := rfl

theorem withKmm_kernel_directory (s : VmmState) (k : KmmState) :
    (s.withKmm k).kernel_directory = s.kernel_directory := rfl

theorem store_current_directory (s : VmmState) (p v : Nat) :
    (s.store p v).current_directory = s.current_directory := rfl

theorem store_kernel_directory (s : VmmState) (p v : Nat) :
    (s.store p v).kernel_directory = s.kernel_directory := rfl

theorem pair_fst (a : VmmState) (b : Nat) : (a, b).1 = a := rfl

/-- `vmm_clone_pagedir` does not assign the two directory pointers. -/
theorem vmm_clone_pagedir_loop_ptrs (nd : Nat) :
    ∀ (n : Nat) (s : VmmState) (i : Nat),
      (vmm_clone_pagedir_loop nd n s i).1.current_directory = s.current_directory ∧
        (vmm_clone_pagedir_loop nd n s i).1.kernel_directory = s.kernel_directory := by
  intro n
  induction n with
  | zero => intro s i; exact ⟨rfl, rfl⟩
  | succ n ih =>
    intro s i
    rw [vmm_clone_pagedir_loop_succ]
    by_cases h1 : PDE_IS_PRESENT (pde s s.current_directory i) = true
    · rw [if_pos h1]
      by_cases h2 : i ≥ 768 ∨ (PDE_IS_PRESENT (pde s s.kernel_directory i) = true ∧
          PDE_PTABLE_ADDR (pde s s.kernel_directory i) =
            PDE_PTABLE_ADDR (pde s s.current_directory i))
      · rw [if_pos h2]
        have h5 := ih (s.store (entryPtr nd i) (pde s s.current_directory i)) (i + 1)
        rw [store_current_directory, store_kernel_directory] at h5
        exact h5
      · rw [if_neg h2]
        have h3 := vmm_clone_pagetable_ptrs s
          (PHYS_TO_VIRT (PDE_PTABLE_ADDR (pde s s.current_directory i)))
        generalize vmm_clone_pagetable s
          (PHYS_TO_VIRT (PDE_PTABLE_ADDR (pde s s.current_directory i))) = r at h3 ⊢
        by_cases h4 : r.2 = 0
        · rw [if_pos h4]
          have h5 := vmm_clone_pagedir_undo_ptrs nd i r.1 0
          generalize vmm_clone_pagedir_undo nd i r.1 0 = u at h5 ⊢
          rw [pair_fst, withKmm_current_directory, withKmm_kernel_directory, h5.1, h5.2]
          exact h3
        · rw [if_neg h4]
          have h5 := ih (r.1.store (entryPtr nd i)
            (pde_create (VIRT_TO_PHYS r.2) (pde s s.current_directory i &&& 4095))) (i + 1)
          rw [store_current_directory, store_kernel_directory, h3.1, h3.2] at h5
          exact h5
    · rw [if_neg h1]
      exact ih s (i + 1)

/-- The loop of `vmm_clone_pagedir` over `n + m` entries is the loop over the
first `n` followed, unless that fails, by the loop over the other `m`. -/
theorem vmm_clone_pagedir_loop_split (nd : Nat) (hnd : nd ≠ 0) (m : Nat) :
    ∀ (n : Nat) (s : VmmState) (i : Nat),
      vmm_clone_pagedir_loop nd (n + m) s i =
        if (vmm_clone_pagedir_loop nd n s i).2 = 0 then vmm_clone_pagedir_loop nd n s i
        else vmm_clone_pagedir_loop nd m (vmm_clone_pagedir_loop nd n s i).1 (i + n) := by
  intro n
  induction n with
  | zero =>
    intro s i
    simp only [vmm_clone_pagedir_loop, Nat.zero_add, Nat.add_zero]
    rw [if_neg hnd]
  | succ n ih =>
    intro s i
    rw [show n + 1 + m = (n + m) + 1 by omega, vmm_clone_pagedir_loop_succ nd (n + m),
      vmm_clone_pagedir_loop_succ nd n, show i + (n + 1) = i + 1 + n by omega]
    by_cases h1 : PDE_IS_PRESENT (pde s s.current_directory i) = true
    · simp only [h1, if_true]
      by_cases h2 : i ≥ 768 ∨ (PDE_IS_PRESENT (pde s s.kernel_directory i) = true ∧
          PDE_PTABLE_ADDR (pde s s.kernel_directory i) =
            PDE_PTABLE_ADDR (pde s s.current_directory i))
      · simp only [h2, if_true]
        exact ih _ _
      · simp only [h2, if_false]
        by_cases h3 : (vmm_clone_pagetable s
            (PHYS_TO_VIRT (PDE_PTABLE_ADDR (pde s s.current_directory i)))).2 = 0
        · simp only [h3, if_true]
        · simp only [h3, if_false]
          exact ih _ _
    · simp only [h1, if_false, Bool.false_eq_true]
      exact ih _ _

/-- The loop of `vmm_clone_pagedir` over entries of the kernel half: every
present entry of the current directory is stored in the new directory and
nothing else is written. -/
theorem vmm_clone_pagedir_loop_high (nd cur ND C : Nat) (hnd1 : nd < U32)
    (hnd2 : nd % 4096 = 0) (hND : VIRT_TO_PHYS nd = ND) (hc1 : cur < U32)
    (hc2 : cur % 4096 = 0) (hC : VIRT_TO_PHYS cur = C)
    (hNa : ND % 4096 = 0) (hCa : C % 4096 = 0) :
    ∀ (n : Nat) (s : VmmState) (i : Nat), 768 ≤ i → i + n ≤ 1024 → s.current_directory = cur →
      (vmm_clone_pagedir_loop nd n s i).2 = nd ∧
      (∀ a, (a < ND + 4 * i ∨ ND + 4 * (i + n) ≤ a) →
        (vmm_clone_pagedir_loop nd n s i).1.mem a = s.mem a) ∧
      (∀ k, i ≤ k → k < i + n →
        (vmm_clone_pagedir_loop nd n s i).1.mem (ND + 4 * k) =
          if PDE_IS_PRESENT (s.mem (C + 4 * k)) = true then s.mem (C + 4 * k)
          else s.mem (ND + 4 * k)) := by
  intro n
  induction n with
  | zero =>
    intro s i _ _ _
    refine ⟨rfl, fun _ _ => rfl, fun k h1 h2 => by omega⟩
  | succ n ih =>
    intro s i hi hin hcur
    rw [vmm_clone_pagedir_loop_succ]
    have hp : pde s s.current_directory i = s.mem (C + 4 * i) := by
      rw [hcur, pde_eq_mem s cur i hc1 hc2 (by omega), hC]
    rw [hp]
    by_cases h1 : PDE_IS_PRESENT (s.mem (C + 4 * i)) = true
    · rw [if_pos h1, if_pos (Or.inl hi)]
      have hst : ∀ a, (s.store (entryPtr nd i) (s.mem (C + 4 * i))).mem a
          = if a = ND + 4 * i then s.mem (C + 4 * i) else s.mem a := by
        intro a
        simp only [VmmState.store]
        rw [phys_entry_dir nd i hnd1 hnd2 (by omega), hND]
      obtain ⟨r1, r2, r3⟩ := ih (s.store (entryPtr nd i) (s.mem (C + 4 * i))) (i + 1) (by omega)
        (by omega) hcur
      refine ⟨r1, ?_, ?_⟩
      · intro a ha
        have e1 : ¬ a = ND + 4 * i := by omega
        rw [r2 a (by omega), hst, if_neg e1]
      · intro k hk1 hk2
        by_cases hk : k = i
        · rw [hk, r2 _ (by omega), hst, if_pos rfl, if_pos h1]
        · have e1 : ¬ C + 4 * k = ND + 4 * i := by omega
          have e2 : ¬ ND + 4 * k = ND + 4 * i := by omega
          rw [r3 k (by omega) (by omega), hst (C + 4 * k), hst (ND + 4 * k), if_neg e1, if_neg e2]
    · rw [if_neg h1]
      obtain ⟨r1, r2, r3⟩ := ih s (i + 1) (by omega) (by omega) hcur
      refine ⟨r1, fun a ha => r2 a (by omega), ?_⟩
      intro k hk1 hk2
      by_cases hk : k = i
      · rw [hk, r2 _ (by omega), if_neg h1]
      · exact r3 k (by omega) (by omega)


theorem vmm_create_address_space_zero (s : VmmState) (htot : s.kmm.total_frames ≤ 262144)
    (h : (vmm_create_address_space s).2 ≠ 0) (i : Nat) (hi : i < 1024) :
    pde (vmm_create_address_space s).1 (vmm_create_address_space s).2 i = 0 := by
  unfold vmm_create_address_space at h ⊢
  simp only [] at h ⊢
  by_cases h0 : (kmm_frame_alloc s.kmm).2 = 0
  · rw [if_pos h0] at h
    exact absurd rfl h
  · rw [if_neg h0]
    obtain ⟨na, nw, _, _⟩ := alloc_fresh_addr s.kmm htot h0
    have hNU : (kmm_frame_alloc s.kmm).2 < U32 := by unfold U32; omega
    have hal : PHYS_TO_VIRT (kmm_frame_alloc s.kmm).2 % 4096 = 0 ∧
        PHYS_TO_VIRT (kmm_frame_alloc s.kmm).2 < U32 := by
      unfold PHYS_TO_VIRT PHYS_BASE U32
      omega
    rw [pair_fst, pde_eq_mem _ _ i hal.2 hal.1 hi, VIRT_TO_PHYS_PHYS_TO_VIRT _ hNU]
    simp only [VmmState.memsetPage, VmmState.withKmm, VIRT_TO_PHYS_PHYS_TO_VIRT _ hNU]
    rw [if_pos (by omega)]

/-- The kernel half of the directory that a successful `vmm_clone_pagedir`
returns: the entry of the current directory where that is present, zero
elsewhere; the kernel directory is as before. -/
theorem vmm_clone_pagedir_high_entries (s s2 : VmmState) (nd : Nat) (hok : CloneOk s)
    (h : vmm_clone_pagedir s = (s2, nd)) (hnd : nd ≠ 0) :
    s2.kernel_directory = s.kernel_directory ∧
      ∀ i, 768 ≤ i → i < 1024 →
        pde s2 nd i = (if PDE_IS_PRESENT (pde s s.current_directory i) = true then
          pde s s.current_directory i else 0) ∧
        pde s2 s.kernel_directory i = pde s s.kernel_directory i := by
  unfold vmm_clone_pagedir at h
  by_cases hz : s.current_directory = 0 ∨ s.kernel_directory = 0
  · rw [if_pos hz] at h
    exact absurd (congrArg Prod.snd h).symm hnd
  · rw [if_neg hz] at h
    simp only [] at h
    unfold vmm_create_address_space at h
    simp only [] at h
    by_cases h0 : (kmm_frame_alloc s.kmm).2 = 0
    · simp only [h0, if_true] at h
      exact absurd (congrArg Prod.snd h).symm hnd
    · simp only [h0, if_false] at h
      obtain ⟨na, nw, nnr, nr⟩ := alloc_fresh_addr s.kmm hok.total h0
      have hNU : (kmm_frame_alloc s.kmm).2 < U32 := by unfold U32; omega
      have hnz : PHYS_TO_VIRT (kmm_frame_alloc s.kmm).2 ≠ 0 := by
        unfold PHYS_TO_VIRT PHYS_BASE U32; omega
      rw [if_neg hnz] at h
      have hmono_k : ∀ a, Reserved s.kmm a → Reserved (kmm_frame_alloc s.kmm).1 a :=
        fun a ha => Reserved_alloc _ _ ha
      have htot_k : (kmm_frame_alloc s.kmm).1.total_frames = s.kmm.total_frames :=
        kmm_frame_alloc_total _
      generalize hst : (s.withKmm (kmm_frame_alloc s.kmm).1).memsetPage
        (PHYS_TO_VIRT (kmm_frame_alloc s.kmm).2) = st at h
      have hm1 : ∀ a, st.mem a =
          if (kmm_frame_alloc s.kmm).2 ≤ a ∧ a < (kmm_frame_alloc s.kmm).2 + 4096 then 0
          else s.mem a := by
        intro a
        rw [← hst]
        simp only [VmmState.memsetPage, VmmState.withKmm, VIRT_TO_PHYS_PHYS_TO_VIRT _ hNU]
      have hk1 : st.kmm = (kmm_frame_alloc s.kmm).1 := by rw [← hst]; rfl
      have hc1 : st.current_directory = s.current_directory ∧
          st.kernel_directory = s.kernel_directory := by rw [← hst]; exact ⟨rfl, rfl⟩
      generalize (kmm_frame_alloc s.kmm).2 = ND at *
      generalize (kmm_frame_alloc s.kmm).1 = k2 at *
      have hmono1 : ∀ a, Reserved s.kmm a → Reserved st.kmm a := by
        intro a ha; rw [hk1]; exact hmono_k a ha
      have hmem1 : ∀ a, Reserved s.kmm a → st.mem a = s.mem a := by
        intro a ha
        rw [hm1, if_neg (Reserved_not_same_frame _ a ND ha nnr na)]
      have hnd_al : PHYS_TO_VIRT ND % 4096 = 0 ∧ PHYS_TO_VIRT ND < U32 ∧
          VIRT_TO_PHYS (PHYS_TO_VIRT ND) = ND := by
        unfold PHYS_TO_VIRT VIRT_TO_PHYS PHYS_BASE U32
        omega
      -- the first 768 entries, then the kernel half
      rw [show VMM_PAGES_PER_DIR = 768 + 256 by rfl,
        vmm_clone_pagedir_loop_split (PHYS_TO_VIRT ND) hnz 256 768 st 0] at h
      have hp1 := vmm_clone_pagedir_loop_ptrs (PHYS_TO_VIRT ND) 768 st 0
      generalize hr : vmm_clone_pagedir_loop (PHYS_TO_VIRT ND) 768 st 0 = r at h hp1
      by_cases hr0 : r.2 = 0
      · rw [if_pos hr0] at h
        rw [h] at hr0
        exact absurd hr0 hnd
      · rw [if_neg hr0, Nat.zero_add] at h
        obtain ⟨_, _, q3, _, _⟩ := vmm_clone_pagedir_loop_spec s hok ND na nw nnr 768 st 0 r.1 r.2
          (by omega) (by rw [hk1, htot_k]) hmono1 hmem1 (by rw [hk1]; exact nr) hc1.1 hc1.2
          (hr.trans Prod.mk.eta.symm) hr0
        obtain ⟨ca, cl⟩ := phys_dir_aligned _ hok.cur_aligned
        obtain ⟨ka, kl⟩ := phys_dir_aligned _ hok.ker_aligned
        obtain ⟨g1, g2, g3⟩ := vmm_clone_pagedir_loop_high (PHYS_TO_VIRT ND) s.current_directory
          ND (VIRT_TO_PHYS s.current_directory) hnd_al.2.1 hnd_al.1 hnd_al.2.2 hok.cur_lt
          hok.cur_aligned rfl na ca 256 r.1 768 (by omega) (by omega) (by rw [hp1.1, hc1.1])
        have hp2 := vmm_clone_pagedir_loop_ptrs (PHYS_TO_VIRT ND) 256 r.1 768
        rw [h] at g1 g2 g3 hp2
        simp only [] at g1 g2 g3 hp2
        -- memory that was reserved before the call is unchanged
        have hkeep1 : ∀ a, Reserved s.kmm a → r.1.mem a = s.mem a := by
          intro a ha
          have n1 := Reserved_not_same_frame _ a ND ha nnr na
          rw [q3 a (hmono1 a ha) (by omega)]
          exact hmem1 a ha
        have hkeep : ∀ a, Reserved s.kmm a → s2.mem a = s.mem a := by
          intro a ha
          have n1 := Reserved_not_same_frame _ a ND ha nnr na
          rw [g2 a (by omega)]
          exact hkeep1 a ha
        refine ⟨by rw [hp2.2, hp1.2, hc1.2], fun i h768 hi => ⟨?_, ?_⟩⟩
        · rw [g1, pde_eq_mem _ _ i hnd_al.2.1 hnd_al.1 hi, hnd_al.2.2, g3 i h768 (by omega),
            pde_eq_mem _ _ i hok.cur_lt hok.cur_aligned hi,
            hkeep1 _ (Reserved_same_frame _ _ _ (by omega) hok.cur_reserved)]
          have e0 : r.1.mem (ND + 4 * i) = 0 := by
            rw [q3 _ (by rw [hk1]; exact Reserved_same_frame _ _ _ (by omega) nr) (by omega), hm1,
              if_pos (by omega)]
          rw [e0]
        · rw [pde_eq_mem _ _ i hok.ker_lt hok.ker_aligned hi,
            pde_eq_mem _ _ i hok.ker_lt hok.ker_aligned hi]
          exact hkeep _ (Reserved_same_frame _ _ _ (by omega) hok.ker_reserved)

set_option maxHeartbeats 1000000 in
set_option maxRecDepth 100000 in
/-- C11 (the code diverges from the claim): at boot, after `vmm_init` has
made the kernel directory and mapped the first page of physical memory at
`PHYS_BASE`, and after `scheduler_init`, the kernel directory has a present
entry at index 768 and the init process runs in the kernel directory.
`process_spawn` of a file with no program header then returns the PID 2 and
posts the main thread of the new process, and the page directory it gives the
new process is the directory that `vmm_create_address_space` returns: its
entry at index 768 is 0, not the entry of the kernel directory.
`vmm_clone_pagedir` in the same state returns a directory that has the entry
of the kernel directory at index 768. -/
theorem process_spawn_directory_lacks_kernel_half :
    vmmWindow.kernel_directory = (vmm_create_address_space vmmBoot).2 ∧
    schedInit.vmm.current_directory = schedInit.vmm.kernel_directory ∧
    (schedInit.procs schedInit.current_proc).page_dir = schedInit.vmm.kernel_directory ∧
    pde schedInit.vmm schedInit.vmm.kernel_directory 768 = 1183747 ∧
    PDE_IS_PRESENT (pde schedInit.vmm schedInit.vmm.kernel_directory 768) = true ∧
    (process_spawn 10 schedInit (some SH_NAME) (elf_load_no_segments 4194304)).map Prod.snd
      = some 2 ∧
    (schedSpawned.procs schedSpawned.process_list).pid = 2 ∧
    schedSpawned.ready_queue_head = (schedSpawned.procs schedSpawned.process_list).main_thread ∧
    schedSpawned.ready_queue_head ≠ 0 ∧
    (schedSpawned.procs schedSpawned.process_list).page_dir
      = (vmm_create_address_space schedInit.vmm).2 ∧
    (schedSpawned.procs schedSpawned.process_list).page_dir ≠ 0 ∧
    (schedSpawned.procs schedSpawned.process_list).page_dir ≠ schedSpawned.vmm.kernel_directory ∧
    pde schedSpawned.vmm (schedSpawned.procs schedSpawned.process_list).page_dir 768 = 0 ∧
    pde schedSpawned.vmm schedSpawned.vmm.kernel_directory 768 = 1183747 ∧
    (vmm_clone_pagedir schedInit.vmm).2 ≠ 0 ∧
    pde (vmm_clone_pagedir schedInit.vmm).1 (vmm_clone_pagedir schedInit.vmm).2 768
      = pde (vmm_clone_pagedir schedInit.vmm).1
          (vmm_clone_pagedir schedInit.vmm).1.kernel_directory 768 ∧
    pde (vmm_clone_pagedir schedInit.vmm).1 (vmm_clone_pagedir schedInit.vmm).2 768
      = 1183747 := by
  decide
/-! ## Virtual memory manager: `vmm_map_page` and `vmm_get_phys_frame` -/

theorem load_store_same (s : VmmState) (ptr v : Nat) : (s.store ptr v).load ptr = v := by
  unfold VmmState.load VmmState.store
  simp only [if_true]

theorem store_mem (s : VmmState) (ptr v a : Nat) :
    (s.store ptr v).mem a = if a = VIRT_TO_PHYS ptr then v else s.mem a := by
  unfold VmmState.store
  simp only []

theorem store_same_state (s : VmmState) (ptr v : Nat) (h : s.load ptr = v) :
    s.store ptr v = s := by
  cases s with
  | mk k m kd cd =>
    unfold VmmState.store
    congr 1
    funext a
    by_cases e : a = VIRT_TO_PHYS ptr
    · rw [if_pos e, e, ← h]
      rfl
    · rw [if_neg e]

/-- The directory entry that `vmm_create_pt` writes for a new page table. -/
theorem vmm_create_pt_new (s : VmmState) (pdir va flags : Nat)
    (hp : PDE_IS_PRESENT (pde s pdir (VMM_DIR_INDEX va)) = false)
    (h0 : (kmm_frame_alloc s.kmm).2 ≠ 0) :
    vmm_create_pt s pdir va flags
      = ((s.withKmm (kmm_frame_alloc s.kmm).1).memsetPage
          (PHYS_TO_VIRT (kmm_frame_alloc s.kmm).2)).store (entryPtr pdir (VMM_DIR_INDEX va))
          (pde_create (kmm_frame_alloc s.kmm).2
            ((PDE_PRESENT ||| (if flags &&& PTE_WRITABLE ≠ 0 then PDE_WRITABLE else 0))
              ||| (if flags &&& PTE_USER ≠ 0 then PDE_USER else 0))) := by
  unfold pde at hp
  unfold vmm_create_pt
  simp only [hp, h0, Bool.false_eq_true, ↓reduceIte]

/-- The store of a table entry through a present directory entry of a
separated directory changes that table entry and no directory entry. -/
theorem map_store_spec (s1 : VmmState) (pdir i j val : Nat) (hsep : DirSep s1 pdir)
    (hi : i < 1024) (hj : j < 1024) (hp : PDE_IS_PRESENT (pde s1 pdir i) = true) :
    (∀ i2, i2 < 1024 →
      pde (s1.store (entryPtr (PHYS_TO_VIRT (PDE_PTABLE_ADDR (pde s1 pdir i))) j) val) pdir i2
        = pde s1 pdir i2) ∧
    pteAt (s1.store (entryPtr (PHYS_TO_VIRT (PDE_PTABLE_ADDR (pde s1 pdir i))) j) val) pdir i j
      = val := by
  obtain ⟨t1, t2⟩ := ptable_addr_aligned (pde s1 pdir i)
  obtain ⟨d1, d2⟩ := phys_dir_aligned pdir hsep.aligned
  have hne := hsep.tab_ne_dir i hi hp
  have hkeep : ∀ i2, i2 < 1024 →
      pde (s1.store (entryPtr (PHYS_TO_VIRT (PDE_PTABLE_ADDR (pde s1 pdir i))) j) val) pdir i2
        = pde s1 pdir i2 := by
    intro i2 hi2
    rw [pde_eq_mem _ pdir i2 hsep.lt hsep.aligned hi2, pde_eq_mem _ pdir i2 hsep.lt hsep.aligned hi2,
      store_mem, phys_entry_tab _ j t2 t1 hj, if_neg (by omega)]
  refine ⟨hkeep, ?_⟩
  rw [pteAt_eq_mem _ pdir i j hj, hkeep i hi, store_mem, phys_entry_tab _ j t2 t1 hj]
  exact if_pos rfl

theorem pte_create_present (p flags : Nat) (hp : p % 4096 = 0) (hlt : p < U32) :
    pte_create p (flags ||| PTE_PRESENT) = p ||| (flags &&& 4095) ||| PTE_PRESENT ∧
      PTE_IS_PRESENT (pte_create p (flags ||| PTE_PRESENT)) = true ∧
      PTE_FRAME_ADDR (pte_create p (flags ||| PTE_PRESENT)) = p := by
  have e1 : p &&& PTE_FRAME_MASK = p := by
    unfold PTE_FRAME_MASK
    rw [and_frame_mask]
    unfold U32 at hlt
    omega
  have e2 : (flags ||| PTE_PRESENT) &&& 4095 = (flags &&& 4095) ||| PTE_PRESENT := by
    apply Nat.eq_of_testBit_eq
    intro k
    simp only [Nat.testBit_land, Nat.testBit_lor]
    have h1 : PTE_PRESENT.testBit k = decide (k = 0) := by
      unfold PTE_PRESENT
      cases k with
      | zero => rfl
      | succ k =>
        rw [Nat.testBit_succ]
        simp
    have h2 : k = 0 → (4095 : Nat).testBit k = true := by
      intro e
      rw [e]
      rfl
    rw [h1]
    by_cases e : k = 0
    · simp [e]
    · simp [e]
  have hodd := lor_one_mod_4096 flags
  refine ⟨?_, ?_, ?_⟩
  · unfold pte_create
    rw [e1, e2, Nat.lor_assoc]
  · rw [PTE_IS_PRESENT_eq, pte_create_eq, decide_eq_true_eq]
    unfold PTE_PRESENT
    omega
  · rw [PTE_FRAME_ADDR_eq, pte_create_eq]
    unfold U32 at hlt
    have := Nat.mod_lt (flags ||| PTE_PRESENT) (show 0 < 4096 by decide)
    omega

theorem vmm_map_page_eq (s : VmmState) (pdir v p flags : Nat) (hd : pdir ≠ 0) (hv : v ≠ 0) :
    vmm_map_page s pdir v p flags
      = (vmm_create_pt s pdir v flags).store
          (entryPtr (PHYS_TO_VIRT (PDE_PTABLE_ADDR
            (pde (vmm_create_pt s pdir v flags) pdir (VMM_DIR_INDEX v)))) (VMM_TABLE_INDEX v))
          (pte_create p (flags ||| PTE_PRESENT)) := by
  unfold vmm_map_page pde
  rw [if_neg (by simp [hd, hv])]

theorem pde_new_flags (flags : Nat) :
    ((PDE_PRESENT ||| (if flags &&& PTE_WRITABLE ≠ 0 then PDE_WRITABLE else 0))
      ||| (if flags &&& PTE_USER ≠ 0 then PDE_USER else 0))
      = 1 + (if flags &&& PTE_WRITABLE ≠ 0 then 2 else 0)
          + (if flags &&& PTE_USER ≠ 0 then 4 else 0) := by
  unfold PDE_PRESENT PDE_WRITABLE PDE_USER
  split_ifs <;> rfl

/-- After `vmm_create_pt`, when a page table exists or a frame is available,
the directory entry is present: it is the entry of before, or the new table
with the present flag and those of the writable and user flags that `flags`
holds. -/
theorem vmm_create_pt_present (s : VmmState) (pdir v flags : Nat) (h : DirOk s pdir)
    (hpt : PDE_IS_PRESENT (pde s pdir (VMM_DIR_INDEX v)) = true ∨
      (kmm_frame_alloc s.kmm).2 ≠ 0) :
    DirOk (vmm_create_pt s pdir v flags) pdir ∧
      PDE_IS_PRESENT (pde (vmm_create_pt s pdir v flags) pdir (VMM_DIR_INDEX v)) = true ∧
      (PDE_IS_PRESENT (pde s pdir (VMM_DIR_INDEX v)) = true →
        vmm_create_pt s pdir v flags = s) ∧
      (PDE_IS_PRESENT (pde s pdir (VMM_DIR_INDEX v)) = false →
        pde (vmm_create_pt s pdir v flags) pdir (VMM_DIR_INDEX v)
          = (kmm_frame_alloc s.kmm).2
            + (1 + (if flags &&& PTE_WRITABLE ≠ 0 then 2 else 0)
                + (if flags &&& PTE_USER ≠ 0 then 4 else 0))) := by
  have hok := (vmm_create_pt_ext s pdir v flags h).1.ok
  by_cases hp : PDE_IS_PRESENT (pde s pdir (VMM_DIR_INDEX v)) = true
  · have e : vmm_create_pt s pdir v flags = s := by
      unfold pde at hp
      unfold vmm_create_pt
      simp only [hp, if_true]
    refine ⟨hok, by rw [e]; exact hp, fun _ => e, fun g => ?_⟩
    rw [hp] at g
    exact absurd g (by decide)
  · have hp2 : PDE_IS_PRESENT (pde s pdir (VMM_DIR_INDEX v)) = false := by simpa using hp
    have h0 : (kmm_frame_alloc s.kmm).2 ≠ 0 := by
      rcases hpt with g | g
      · exact absurd g hp
      · exact g
    obtain ⟨a1, a2, _, _⟩ := alloc_fresh_addr s.kmm h.total h0
    have e := vmm_create_pt_new s pdir v flags hp2 h0
    have hval : pde (vmm_create_pt s pdir v flags) pdir (VMM_DIR_INDEX v)
        = (kmm_frame_alloc s.kmm).2
          + (1 + (if flags &&& PTE_WRITABLE ≠ 0 then 2 else 0)
              + (if flags &&& PTE_USER ≠ 0 then 4 else 0)) := by
      rw [e]
      unfold pde
      rw [load_store_same, pde_create_eq, pde_new_flags]
      split_ifs <;> omega
    refine ⟨hok, ?_, fun g => absurd g hp, fun _ => hval⟩
    rw [hval, PDE_IS_PRESENT_eq, decide_eq_true_eq]
    split_ifs <;> omega

/-- C34 (amended): map then translate. For a directory that is consistent
with the frame allocator, a virtual address `v` other than NULL, a
page-aligned physical address `p` and flags, when the page table for `v`
exists or a frame for it can be allocated: after `vmm_map_page(dir, v, p,
flags)`, `vmm_get_phys_frame(dir, v)` returns `p` (which differs from NULL
when `p` is not 0); the page-table entry is `p | (flags & 0xFFF) | PRESENT`;
the directory entry is the one of before when the table existed, and for a
table created by the call it is the frame of the table with PRESENT plus
exactly those of WRITABLE and USER that are set in `flags`; and a second call
with the same arguments leaves the state as it is. -/
theorem vmm_map_then_translate (s : VmmState) (pdir v p flags : Nat) (h : DirOk s pdir)
    (hv : v ≠ 0) (hp : p % 4096 = 0) (hplt : p < U32)
    (hpt : PDE_IS_PRESENT (pde s pdir (VMM_DIR_INDEX v)) = true ∨
      (kmm_frame_alloc s.kmm).2 ≠ 0) :
    vmm_get_phys_frame (vmm_map_page s pdir v p flags) pdir v = p ∧
      (p ≠ 0 → vmm_get_phys_frame (vmm_map_page s pdir v p flags) pdir v ≠ 0) ∧
      presentAt (vmm_map_page s pdir v p flags) pdir (VMM_DIR_INDEX v) (VMM_TABLE_INDEX v) ∧
      pteAt (vmm_map_page s pdir v p flags) pdir (VMM_DIR_INDEX v) (VMM_TABLE_INDEX v)
        = p ||| (flags &&& 4095) ||| PTE_PRESENT ∧
      (PDE_IS_PRESENT (pde s pdir (VMM_DIR_INDEX v)) = true →
        pde (vmm_map_page s pdir v p flags) pdir (VMM_DIR_INDEX v)
          = pde s pdir (VMM_DIR_INDEX v)) ∧
      (PDE_IS_PRESENT (pde s pdir (VMM_DIR_INDEX v)) = false →
        pde (vmm_map_page s pdir v p flags) pdir (VMM_DIR_INDEX v)
          = (kmm_frame_alloc s.kmm).2
            + (1 + (if flags &&& PTE_WRITABLE ≠ 0 then 2 else 0)
                + (if flags &&& PTE_USER ≠ 0 then 4 else 0))) ∧
      vmm_map_page (vmm_map_page s pdir v p flags) pdir v p flags
        = vmm_map_page s pdir v p flags := by
  have hi : VMM_DIR_INDEX v < 1024 := by rw [VMM_DIR_INDEX_eq]; omega
  have hj : VMM_TABLE_INDEX v < 1024 := by rw [VMM_TABLE_INDEX_eq]; omega
  obtain ⟨c1, c2, c3, c4⟩ := vmm_create_pt_present s pdir v flags h hpt
  obtain ⟨m1, m2⟩ := map_store_spec (vmm_create_pt s pdir v flags) pdir (VMM_DIR_INDEX v)
    (VMM_TABLE_INDEX v) (pte_create p (flags ||| PTE_PRESENT)) c1.toDirSep hi hj c2
  obtain ⟨v1, v2, v3⟩ := pte_create_present p flags hp hplt
  have e := vmm_map_page_eq s pdir v p flags h.nonnull hv
  rw [← e] at m1 m2
  have hpde : pde (vmm_map_page s pdir v p flags) pdir (VMM_DIR_INDEX v)
      = pde (vmm_create_pt s pdir v flags) pdir (VMM_DIR_INDEX v) := m1 _ hi
  have hpres : presentAt (vmm_map_page s pdir v p flags) pdir (VMM_DIR_INDEX v)
      (VMM_TABLE_INDEX v) := ⟨by rw [hpde]; exact c2, by rw [m2]; exact v2⟩
  have hget : vmm_get_phys_frame (vmm_map_page s pdir v p flags) pdir v = p := by
    rw [vmm_get_phys_frame_present _ pdir v h.nonnull hv hpres, m2]
    exact v3
  refine ⟨hget, fun g => by rw [hget]; exact g, hpres, by rw [m2]; exact v1, ?_, ?_, ?_⟩
  · intro g
    rw [hpde, c3 g]
  · intro g
    rw [hpde]
    exact c4 g
  · have e2 : vmm_create_pt (vmm_map_page s pdir v p flags) pdir v flags
        = vmm_map_page s pdir v p flags := by
      have g : PDE_IS_PRESENT ((vmm_map_page s pdir v p flags).load
          (entryPtr pdir (VMM_DIR_INDEX v))) = true := hpres.1
      unfold vmm_create_pt
      simp only [g, if_true]
    rw [vmm_map_page_eq _ pdir v p flags h.nonnull hv, e2]
    apply store_same_state
    exact m2

set_option maxRecDepth 100000 in
theorem vmm_map_then_translate_witness :
    DirOk vmmFresh 3222401024 ∧
      vmm_get_phys_frame (vmm_map_page vmmFresh 3222401024 4194304 2097152 6) 3222401024
        4194304 = 2097152 ∧
      pde (vmm_map_page vmmFresh 3222401024 4194304 2097152 6) 3222401024 1 = 1179655 ∧
      pteAt (vmm_map_page vmmFresh 3222401024 4194304 2097152 6) 3222401024 1 0 = 2097159 :=
  ⟨vmmFresh_DirOk,
    (vmm_map_then_translate vmmFresh 3222401024 4194304 2097152 6 vmmFresh_DirOk (by decide)
      (by decide) (by decide) (Or.inr (by decide))).1,
    by decide, by decide⟩

set_option maxRecDepth 100000 in
/-- With the page-aligned physical address 0, `vmm_map_page(dir, 0x400000, 0,
6)` installs a present entry and `vmm_get_phys_frame(dir, 0x400000)` returns
0, which is NULL; and with the virtual address 0, `vmm_map_page(dir, 0,
0x200000, 6)` returns at once, so that no entry is present for it and
`vmm_get_phys_frame(dir, 0)` returns NULL and not `0x200000`. -/
theorem vmm_map_then_translate_counterexample :
    PTE_IS_PRESENT (pteAt (vmm_map_page vmmFresh 3222401024 4194304 0 6) 3222401024 1 0)
        = true ∧
      vmm_get_phys_frame (vmm_map_page vmmFresh 3222401024 4194304 0 6) 3222401024 4194304
        = 0 ∧
      PDE_IS_PRESENT (pde (vmm_map_page vmmFresh 3222401024 0 2097152 6) 3222401024 0)
        = false ∧
      vmm_get_phys_frame (vmm_map_page vmmFresh 3222401024 0 2097152 6) 3222401024 0 = 0 := by
  decide
/-! ## Kernel heap: the size rounding of `kmalloc` wraps -/

set_option maxRecDepth 1000000 in
/-- C2: on a fresh 512-byte heap, `b = kmalloc(56)`, `a = kmalloc(56)` and
`krealloc(a, 0xFFFFFFF5)` leave a free block that overlaps the live block of
`b`. The three calls are steps on live pointers; before the `krealloc` no two
blocks overlap; `kmalloc(0xFFFFFFF5)` inside `krealloc` returns the 32-byte
block at heap offset 352, the copy of 56 bytes runs over the header of `a` at
offset 384, and `kfree(a)` then reads size 128 and pushes offset 384 on the
list of order 7, while the block of `b` is the 64 bytes at offset 448. -/
theorem krealloc_wrapped_size_overlap :
    ((heap_run heapForged128 [HeapOp.malloc 56, HeapOp.malloc 56]).map
        (fun t => (t.returned, t.live, noOverlap (freeBlocks t.heap ++ liveBlocks t)))
      = some ([4680, 4616], [4680, 4616], true))
    ∧ ((heap_run heapForged128
          [HeapOp.malloc 56, HeapOp.malloc 56, HeapOp.realloc 1 4294967285]).map
        (fun t => (t.returned, t.live, liveBlocks t))
      = some ([4680, 4616, 4584], [4680, 4584], [(4672, 64), (4576, 32)]))
    ∧ ((heap_run heapForged128
          [HeapOp.malloc 56, HeapOp.malloc 56, HeapOp.realloc 1 4294967285]).map
        (fun t => (t.heap.free_lists 7, chainOk t.heap.mem (t.heap.free_lists 7),
          noOverlap (freeBlocks t.heap ++ liveBlocks t)))
      = some ([4608], true, false))
    ∧ blocksOverlap (4608, 2 ^ 7) (4672, 64) = true := by
  decide

set_option maxRecDepth 1000000 in
/-- C3: on a fresh 512-byte heap, `b = kmalloc(56)`, `a = kmalloc(56)`,
`c = kmalloc(24)`, `d = kmalloc(24)`, `kfree(c)`, `kfree(b)` and
`krealloc(a, 0xFFFFFFF5)` leave the blocks at heap offsets 384 and 448, which
are buddies of order 6, both on the free list of order 6. All calls are steps
on live pointers and the lists are coalesced-maximal before the `krealloc`;
the copy inside `krealloc` runs over the header of `a`, `kfree(a)` reads size
96 and looks for the buddy at offset 384 XOR 96 = 480 instead of 448. -/
theorem krealloc_wrapped_size_not_coalesced :
    ((heap_run heapForged96
          [HeapOp.malloc 56, HeapOp.malloc 56, HeapOp.malloc 24, HeapOp.malloc 24,
           HeapOp.free 2, HeapOp.free 0]).map
        (fun t => (t.returned, t.live, t.heap.free_lists 6, coalesced t.heap))
      = some ([4680, 4616, 4584, 4552, 0, 0], [4616, 4552], [4672, 4480], true))
    ∧ ((heap_run heapForged96
          [HeapOp.malloc 56, HeapOp.malloc 56, HeapOp.malloc 24, HeapOp.malloc 24,
           HeapOp.free 2, HeapOp.free 0, HeapOp.realloc 1 4294967285]).map
        (fun t => (t.returned.getD 6 0, t.live, t.heap.free_lists 6,
          chainOk t.heap.mem (t.heap.free_lists 6)))
      = some (4584, [4552, 4584], [4608, 4672, 4480], true))
    ∧ ((heap_run heapForged96
          [HeapOp.malloc 56, HeapOp.malloc 56, HeapOp.malloc 24, HeapOp.malloc 24,
           HeapOp.free 2, HeapOp.free 0, HeapOp.realloc 1 4294967285]).map
        (fun t => (t.heap.max_order, get_buddy_addr t.heap.base 4608 (order_to_size 6),
          coalesced t.heap))
      = some (9, 4672, false)) := by
  decide

/-! ## Kernel heap: calls with a size near `2^32` -/

set_option maxRecDepth 1000000 in
/-- C12 (code evaluated at the failing input): on a fresh 512-byte heap
`kmalloc(0xFFFFFFF5)` succeeds. The request rounded up to a multiple of 8 with
the header is `2^32`, which no order of the heap (5 to 9) holds, but the call
takes its block from order 5 after splitting the block of order 9: the orders
5 to 8 gain one block each, order 9 loses its block, and the header holds the
size `2^5`. -/
theorem kmalloc_wrapped_size_order :
    (4294967285 + 8 + 7) / 8 * 8 = 2 ^ 32
    ∧ (List.range 10).map heapFresh512.free_lists = [[], [], [], [], [], [], [], [], [], [4224]]
    ∧ (kmalloc heapFresh512 4294967285).2 = 4704 + 8
    ∧ (List.range 10).map (kmalloc heapFresh512 4294967285).1.free_lists
        = [[], [], [], [], [], [4672], [4608], [4480], [4224], []]
    ∧ load32 (kmalloc heapFresh512 4294967285).1.mem 4704 = 2 ^ 5 := by
  decide

set_option maxRecDepth 1000000 in
/-- C13 (code evaluated at the failing input): on a fresh 512-byte heap
`kmalloc(0xFFFFFFF5)` returns a pointer that is not NULL whose header has the
magic `0xDEADBEEF` and the size 32, which is less than the requested size. -/
theorem kmalloc_wrapped_size_header :
    (kmalloc heapFresh512 4294967285).2 = 4712
    ∧ load32 (kmalloc heapFresh512 4294967285).1.mem (4712 - 4) = BUDDY_MAGIC
    ∧ load32 (kmalloc heapFresh512 4294967285).1.mem (4712 - 8) = 32
    ∧ 32 < 4294967285 := by
  decide

set_option maxRecDepth 1000000 in
/-- C16 (code evaluated at the failing inputs): on a fresh 512-byte heap with
`b = kmalloc(56)` and `a = kmalloc(56)`, the header of `a` holds the size 64
and the word at offset 24 of the payload of `a` is 128.
`krealloc(a, 0xFFFFFFF9)` returns `a` although `0xFFFFFFF9 + 8` exceeds 64 and
`kmalloc(0xFFFFFFF9)` would return the block at 4584. `krealloc(a, 0xFFFFFFF5)`
returns the new pointer 4584, whose block has the size 32, and the word at
offset 24 of the new payload is 0, not 128. -/
theorem krealloc_wrapped_size_diverges :
    ((heap_run heapForged128 [HeapOp.malloc 56, HeapOp.malloc 56]).map
        (fun t => (t.returned, load32 t.heap.mem (4616 - 8), load32 t.heap.mem (4616 + 24)))
      = some ([4680, 4616], 64, 128))
    ∧ ((heap_run heapForged128 [HeapOp.malloc 56, HeapOp.malloc 56]).map
        (fun t => ((kmalloc t.heap 4294967289).2, (krealloc t.heap 4616 4294967289).2))
      = some (4584, 4616))
    ∧ ((heap_run heapForged128 [HeapOp.malloc 56, HeapOp.malloc 56]).map
        (fun t => ((krealloc t.heap 4616 4294967285).2,
          load32 (krealloc t.heap 4616 4294967285).1.mem (4584 - 8),
          load32 (krealloc t.heap 4616 4294967285).1.mem (4584 + 24)))
      = some (4584, 32, 0)) := by
  decide

/-! ## File system: bytes, words and records in a block -/

theorem load32_lt (m : Nat → Nat) (a : Nat) : load32 m a < 4294967296 := by
  unfold load32
  omega

theorem load32_congr (m m' : Nat → Nat) (a : Nat)
    (h : ∀ i, i < 4 → m (a + i) = m' (a + i)) : load32 m a = load32 m' a := by
  unfold load32
  have h0 := h 0 (by omega)
  have h1 := h 1 (by omega)
  have h2 := h 2 (by omega)
  have h3 := h 3 (by omega)
  simp only [Nat.add_zero] at h0
  rw [h0, h1, h2, h3]

theorem store32_outside (m : Nat → Nat) (a v x : Nat) (h : x < a ∨ a + 4 ≤ x) :
    store32 m a v x = m x := by
  unfold store32
  have e0 : ¬ x = a := by omega
  have e1 : ¬ x = a + 1 := by omega
  have e2 : ¬ x = a + 2 := by omega
  have e3 : ¬ x = a + 3 := by omega
  simp only [e0, e1, e2, e3, if_false]

theorem load32_store32_same (m : Nat → Nat) (a v : Nat) :
    load32 (store32 m a v) a = v % 4294967296 := by
  unfold load32 store32
  have e1 : ¬ a + 1 = a := by omega
  have e2 : ¬ a + 2 = a := by omega
  have e3 : ¬ a + 3 = a := by omega
  have e4 : ¬ a + 2 = a + 1 := by omega
  have e5 : ¬ a + 3 = a + 1 := by omega
  have e6 : ¬ a + 3 = a + 2 := by omega
  simp only [e1, e2, e3, e4, e5, e6, if_true, if_false]
  omega

theorem load32_store32_disj (m : Nat → Nat) (a v b : Nat) (h : a + 4 ≤ b ∨ b + 4 ≤ a) :
    load32 (store32 m a v) b = load32 m b := by
  apply load32_congr
  intro i hi
  exact store32_outside m a v (b + i) (by omega)

theorem load16_lt (m : Nat → Nat) (a : Nat) : load16 m a < 65536 := by
  unfold load16
  omega

theorem load16_congr (m m' : Nat → Nat) (a : Nat)
    (h : ∀ i, i < 2 → m (a + i) = m' (a + i)) : load16 m a = load16 m' a := by
  unfold load16
  have h0 := h 0 (by omega)
  have h1 := h 1 (by omega)
  simp only [Nat.add_zero] at h0
  rw [h0, h1]

theorem store16_outside (m : Nat → Nat) (a v x : Nat) (h : x < a ∨ a + 2 ≤ x) :
    store16 m a v x = m x := by
  unfold store16
  have e0 : ¬ x = a := by omega
  have e1 : ¬ x = a + 1 := by omega
  simp only [e0, e1, if_false]

theorem load16_store16_same (m : Nat → Nat) (a v : Nat) :
    load16 (store16 m a v) a = v % 65536 := by
  unfold load16 store16
  have e1 : ¬ a + 1 = a := by omega
  simp only [e1, if_true, if_false]
  omega

theorem load16_store16_disj (m : Nat → Nat) (a v b : Nat) (h : a + 2 ≤ b ∨ b + 2 ≤ a) :
    load16 (store16 m a v) b = load16 m b := by
  apply load16_congr
  intro i hi
  exact store16_outside m a v (b + i) (by omega)

theorem load16_zero_block (a : Nat) : load16 zero_block a = 0 := by
  simp [load16, zero_block]

theorem load32_zero_block (a : Nat) : load32 zero_block a = 0 := by
  simp [load32, zero_block]

theorem store_pointers_outside (off : Nat) (ps : List Nat) :
    ∀ (blk : Nat → Nat) (k x : Nat), (x < off + 4 * k ∨ off + 4 * (k + ps.length) ≤ x) →
      store_pointers blk off ps k x = blk x := by
  induction ps with
  | nil => intro blk k x _; rfl
  | cons p ps ih =>
    intro blk k x h
    simp only [store_pointers]
    rw [ih _ _ _ (by simp only [List.length_cons] at h; omega)]
    exact store32_outside _ _ _ _ (by simp only [List.length_cons] at h; omega)

theorem load32_store_pointers (off : Nat) (ps : List Nat) :
    ∀ (blk : Nat → Nat) (k i : Nat), i < ps.length →
      load32 (store_pointers blk off ps k) (off + 4 * (k + i)) = ps.getD i 0 % 4294967296 := by
  induction ps with
  | nil => intro blk k i h; simp at h
  | cons p ps ih =>
    intro blk k i h
    simp only [store_pointers]
    cases i with
    | zero =>
      rw [load32_congr _ (store32 blk (off + 4 * k) p) _
        (fun j hj => store_pointers_outside off ps _ (k + 1) _ (by omega))]
      simp only [Nat.add_zero, List.getD_cons_zero]
      exact load32_store32_same _ _ _
    | succ i =>
      have := ih (store32 blk (off + 4 * k) p) (k + 1) i
        (by simp only [List.length_cons] at h; omega)
      simp only [List.getD_cons_succ]
      rw [← this]
      congr 1
      omega

theorem inode_store_outside (L : HfsLayout) (blk : Nat → Nat) (off : Nat) (ino : Inode) (x : Nat)
    (h : x < off ∨ off + L.INODE_SIZE ≤ x) : inode_store L blk off ino x = blk x := by
  unfold inode_store
  unfold HfsLayout.INODE_SIZE at h
  have hl : (ino.i_direct_pointers.take L.INODE_DIRECT_POINTERS).length ≤ L.INODE_DIRECT_POINTERS := by
    simp
  rw [store32_outside _ _ _ _ (by omega), store_pointers_outside _ _ _ _ _ (by omega),
    store32_outside _ _ _ _ (by omega), store32_outside _ _ _ _ (by omega)]

theorem inode_load_congr (L : HfsLayout) (m m' : Nat → Nat) (off : Nat)
    (h : ∀ i, i < L.INODE_SIZE → m (off + i) = m' (off + i)) :
    inode_load L m off = inode_load L m' off := by
  unfold HfsLayout.INODE_SIZE at h
  unfold inode_load
  have e1 : load32 m off = load32 m' off :=
    load32_congr _ _ _ (fun i hi => h i (by omega))
  have e2 : load32 m (off + 4) = load32 m' (off + 4) :=
    load32_congr _ _ _ (fun i hi => by have := h (4 + i) (by omega); rwa [← Nat.add_assoc] at this)
  have e3 : load32 m (off + 8 + 4 * L.INODE_DIRECT_POINTERS)
      = load32 m' (off + 8 + 4 * L.INODE_DIRECT_POINTERS) :=
    load32_congr _ _ _ (fun i hi => by
      have := h (8 + 4 * L.INODE_DIRECT_POINTERS + i) (by omega)
      rw [show off + 8 + 4 * L.INODE_DIRECT_POINTERS + i
        = off + (8 + 4 * L.INODE_DIRECT_POINTERS + i) by omega]
      exact this)
  have e4 : (List.range L.INODE_DIRECT_POINTERS).map (fun k => load32 m (off + 8 + 4 * k))
      = (List.range L.INODE_DIRECT_POINTERS).map (fun k => load32 m' (off + 8 + 4 * k)) := by
    apply List.map_congr_left
    intro k hk
    rw [List.mem_range] at hk
    apply load32_congr
    intro i hi
    have := h (8 + 4 * k + i) (by omega)
    rw [show off + 8 + 4 * k + i = off + (8 + 4 * k + i) by omega]
    exact this
  rw [e1, e2, e3, e4]

theorem inode_load_valid (L : HfsLayout) (m : Nat → Nat) (off : Nat) :
    (inode_load L m off).Valid L := by
  refine ⟨load32_lt _ _, load32_lt _ _, by simp [inode_load], ?_, load32_lt _ _⟩
  intro k
  simp only [inode_load]
  by_cases hk : k < L.INODE_DIRECT_POINTERS
  · rw [List.getD_eq_getElem _ _ (by simpa using hk)]
    simp only [List.getElem_map, List.getElem_range]
    exact load32_lt _ _
  · rw [List.getD_eq_default _ _ (by simpa using hk)]
    omega

theorem inode_load_store_same (L : HfsLayout) (blk : Nat → Nat) (off : Nat) (ino : Inode)
    (hv : ino.Valid L) : inode_load L (inode_store L blk off ino) off = ino := by
  obtain ⟨h1, h2, h3, h4, h5⟩ := hv
  have htake : ino.i_direct_pointers.take L.INODE_DIRECT_POINTERS = ino.i_direct_pointers := by
    rw [← h3]; exact List.take_length _
  have e1 : load32 (inode_store L blk off ino) off = ino.i_is_directory := by
    unfold inode_store
    rw [load32_store32_disj _ _ _ _ (by omega),
      load32_congr _ (store32 (store32 blk off ino.i_is_directory) (off + 4) ino.i_size) _
        (fun j hj => store_pointers_outside _ _ _ _ _ (by omega)),
      load32_store32_disj _ _ _ _ (by omega), load32_store32_same]
    omega
  have e2 : load32 (inode_store L blk off ino) (off + 4) = ino.i_size := by
    unfold inode_store
    rw [load32_store32_disj _ _ _ _ (by omega),
      load32_congr _ (store32 (store32 blk off ino.i_is_directory) (off + 4) ino.i_size) _
        (fun j hj => store_pointers_outside _ _ _ _ _ (by omega)),
      load32_store32_same]
    omega
  have e3 : load32 (inode_store L blk off ino) (off + 8 + 4 * L.INODE_DIRECT_POINTERS)
      = ino.i_single_indirect_pointer := by
    unfold inode_store
    rw [load32_store32_same]
    omega
  have e4 : (List.range L.INODE_DIRECT_POINTERS).map
      (fun k => load32 (inode_store L blk off ino) (off + 8 + 4 * k)) = ino.i_direct_pointers := by
    apply List.ext_getElem
    · simp [h3]
    · intro k hk1 hk2
      simp only [List.getElem_map, List.getElem_range]
      have hk : k < L.INODE_DIRECT_POINTERS := by simpa using hk1
      unfold inode_store
      rw [load32_store32_disj _ _ _ _ (by omega), htake]
      have := load32_store_pointers (off + 8) ino.i_direct_pointers
        (store32 (store32 blk off ino.i_is_directory) (off + 4) ino.i_size) 0 k hk2
      rw [Nat.zero_add] at this
      rw [this, List.getD_eq_getElem _ _ hk2]
      have := h4 k
      rw [List.getD_eq_getElem _ _ hk2] at this
      omega
  show Inode.mk _ _ _ _ = ino
  rw [e1, e2, e3, e4]

theorem zero_inode_valid (L : HfsLayout) : (zero_inode L).Valid L := by
  refine ⟨by simp [zero_inode], by simp [zero_inode], by simp [zero_inode], ?_,
    by simp [zero_inode]⟩
  intro k
  simp only [zero_inode]
  by_cases hk : k < L.INODE_DIRECT_POINTERS
  · rw [List.getD_eq_getElem _ _ (by simpa using hk)]
    simp
  · rw [List.getD_eq_default _ _ (by simpa using hk)]
    omega

/-! ## File system: bitmaps and the allocation of blocks and inodes -/

theorem get_bit_eq (bm : Nat → Nat) (i : Nat) :
    get_bit bm i = if (load32 bm (4 * (i / 32))).testBit (i % 32) then 1 else 0 := by
  unfold get_bit
  rw [Nat.and_one_is_mod, Nat.testBit_to_div_mod, Nat.shiftRight_eq_div_pow]
  by_cases h : load32 bm (4 * (i / 32)) / 2 ^ (i % 32) % 2 = 1
  · simp [h]
  · simp only [h, decide_False, Bool.false_eq_true, if_false]
    omega

theorem get_bit_cases (bm : Nat → Nat) (i : Nat) : get_bit bm i = 0 ∨ get_bit bm i = 1 := by
  rw [get_bit_eq]
  by_cases h : (load32 bm (4 * (i / 32))).testBit (i % 32) <;> simp [h]

theorem get_bit_set_bit (bm : Nat → Nat) (i j : Nat) :
    get_bit (set_bit bm i) j = if j = i then 1 else get_bit bm j := by
  rw [get_bit_eq, get_bit_eq]
  unfold set_bit
  by_cases h : j / 32 = i / 32
  · rw [h, load32_store32_same]
    have hlt : load32 bm (4 * (i / 32)) ||| 1 <<< (i % 32) < 4294967296 := by
      have : load32 bm (4 * (i / 32)) ||| 1 <<< (i % 32) < 2 ^ 32 := by
        apply Nat.or_lt_two_pow
        · exact load32_lt _ _
        · rw [Nat.one_shiftLeft]
          exact Nat.pow_lt_pow_right (by omega) (Nat.mod_lt _ (by omega))
      omega
    rw [Nat.mod_eq_of_lt hlt, Nat.testBit_lor, Nat.one_shiftLeft, Nat.testBit_two_pow]
    by_cases h2 : i % 32 = j % 32
    · have : j = i := by omega
      simp [this]
    · have : ¬ j = i := by intro e; subst e; exact h2 rfl
      simp [h2, this]
  · have : ¬ j = i := by intro e; subst e; exact h rfl
    rw [load32_store32_disj _ _ _ _ (by omega)]
    simp [this]

theorem toInt32_of_lt (x : Nat) (h : x < 2147483648) : toInt32 x = (x : Int) := by
  unfold toInt32 U32
  rw [Nat.mod_eq_of_lt (by omega)]
  simp [h]

theorem toU32_natCast (x : Nat) (h : x < 4294967296) : toU32 (x : Int) = x := by
  unfold toU32
  omega

theorem find_free_bit_loop_spec (bm : Nat → Nat) (max_bits : Nat) (hmax : max_bits ≤ 2147483648) :
    ∀ (fuel i : Nat), max_bits ≤ i + fuel →
      (∃ b, i ≤ b ∧ b < max_bits ∧ get_bit bm b = 0 ∧
          find_free_bit_loop bm max_bits fuel i = (b : Int)) ∨
        ((∀ c, i ≤ c → c < max_bits → get_bit bm c = 1) ∧
          find_free_bit_loop bm max_bits fuel i = -1) := by
  intro fuel
  induction fuel with
  | zero =>
    intro i h
    right
    exact ⟨fun c h1 h2 => by omega, rfl⟩
  | succ fuel ih =>
    intro i h
    simp only [find_free_bit_loop]
    by_cases hi : i < max_bits
    · rw [if_pos hi]
      by_cases hb : get_bit bm i = 0
      · rw [if_pos hb]
        left
        exact ⟨i, Nat.le_refl _, hi, hb, toInt32_of_lt _ (by omega)⟩
      · rw [if_neg hb]
        rcases ih (i + 1) (by omega) with ⟨b, h1, h2, h3, h4⟩ | ⟨h1, h2⟩
        · left
          exact ⟨b, by omega, h2, h3, h4⟩
        · right
          refine ⟨fun c hc1 hc2 => ?_, h2⟩
          by_cases hci : c = i
          · subst hci
            rcases get_bit_cases bm c with h0 | h0
            · exact absurd h0 hb
            · exact h0
          · exact h1 c (by omega) hc2
    · rw [if_neg hi]
      right
      exact ⟨fun c h1 h2 => by omega, rfl⟩

theorem find_free_bit_from_spec (bm : Nat → Nat) (start max_bits : Nat)
    (hmax : max_bits ≤ 2147483648) :
    (∃ b, start ≤ b ∧ b < max_bits ∧ get_bit bm b = 0 ∧
        find_free_bit_from bm start max_bits = (b : Int)) ∨
      ((∀ c, start ≤ c → c < max_bits → get_bit bm c = 1) ∧
        find_free_bit_from bm start max_bits = -1) :=
  find_free_bit_loop_spec bm max_bits hmax _ _ (by omega)

theorem blkread_of_lt (dev : BlockDevice) (n : Nat) (h : n < dev.num_blocks) :
    blkread dev n = some (dev.blocks n) := by
  simp [blkread, h]

theorem blkwrite_of_lt (dev : BlockDevice) (n : Nat) (buf : Nat → Nat) (h : n < dev.num_blocks) :
    blkwrite dev n buf = some (dev.write n buf) := by
  simp [blkwrite, h, BlockDevice.write]

@[simp] theorem write_num_blocks (dev : BlockDevice) (n : Nat) (buf : Nat → Nat) :
    (dev.write n buf).num_blocks = dev.num_blocks := rfl

theorem write_blocks_same (dev : BlockDevice) (n : Nat) (buf : Nat → Nat) :
    (dev.write n buf).blocks n = buf := by
  simp [BlockDevice.write]

theorem write_blocks_other (dev : BlockDevice) (n b : Nat) (buf : Nat → Nat) (h : b ≠ n) :
    (dev.write n buf).blocks b = dev.blocks b := by
  simp [BlockDevice.write, h]

theorem free_blocks_pos_iff (hfs : HfsData) (h : 0 < hfs.free_blocks) :
    ∃ b, hfs.sb.s_data_blocks_start ≤ b ∧ b < hfs.sb.s_blocks_count ∧
      get_bit hfs.disk_block_bitmap b = 0 := by
  unfold HfsData.free_blocks at h
  rw [List.countP_pos_iff] at h
  obtain ⟨b, hb, hp⟩ := h
  rw [List.mem_range] at hb
  simp only [Bool.and_eq_true, decide_eq_true_eq] at hp
  exact ⟨b, hp.1, hb, hp.2⟩

/-- The state after `alloc_block` hands out block `b`. -/
theorem alloc_block_spec (L : HfsLayout) (hfs : HfsData) (hs : SbOk L hfs)
    (hsync : hfs.block_bitmap = hfs.disk_block_bitmap) (hfree : 0 < hfs.free_blocks) :
    ∃ b, hfs.sb.s_data_blocks_start ≤ b ∧ b < hfs.sb.s_blocks_count ∧
      get_bit hfs.disk_block_bitmap b = 0 ∧
      alloc_block hfs =
        ({ hfs with device := hfs.device.write hfs.sb.s_block_bitmap (set_bit hfs.block_bitmap b),
                    block_bitmap := set_bit hfs.block_bitmap b }, (b : Int)) := by
  obtain ⟨b0, hb1, hb2, hb3⟩ := free_blocks_pos_iff hfs hfree
  have hcnt : hfs.sb.s_blocks_count ≤ 2147483648 := by have := hs.blocks_le_u16; omega
  rcases find_free_bit_from_spec hfs.block_bitmap hfs.sb.s_data_blocks_start
      hfs.sb.s_blocks_count hcnt with ⟨b, h1, h2, h3, h4⟩ | ⟨h1, _⟩
  · refine ⟨b, h1, h2, by rw [← hsync]; exact h3, ?_⟩
    unfold alloc_block
    simp only [h4]
    have hnn : ¬ ((b : Int) < 0) := by omega
    rw [if_neg hnn]
    simp only [hnn, if_false]
    rw [toU32_natCast b (by omega),
      blkwrite_of_lt _ _ _ (by have := hs.bbm_lt; have := hs.data_le; have := hs.blocks_le_dev; omega)]
  · exfalso
    have := h1 b0 hb1 hb2
    rw [hsync] at this
    omega

theorem Frame.same (L : HfsLayout) (h : HfsData) (X Y : Nat → Prop) : Frame L h h X Y :=
  ⟨rfl, rfl, fun _ hb => hb, fun _ hb => hb, fun _ _ _ => rfl, fun _ _ => rfl⟩

theorem Frame.dataUsed {L : HfsLayout} {h h2 : HfsData} {X Y : Nat → Prop}
    (f : Frame L h h2 X Y) {b : Nat} (hb : h.dataUsed b) : h2.dataUsed b := by
  obtain ⟨h1, h2', h3⟩ := hb
  exact ⟨by rw [f.sb_eq]; exact h1, by rw [f.sb_eq]; exact h2', f.bits_mono b h3⟩

theorem Frame.comp {L : HfsLayout} {h h2 h3 : HfsData} {X Y X2 Y2 X3 Y3 : Nat → Prop}
    (f : Frame L h h2 X Y) (g : Frame L h2 h3 X2 Y2)
    (hX : ∀ b, h.dataUsed b → ¬ X3 b → ¬ X b ∧ ¬ X2 b) (hY : ∀ i, ¬ Y3 i → ¬ Y i ∧ ¬ Y2 i) :
    Frame L h h3 X3 Y3 := by
  refine ⟨by rw [g.sb_eq, f.sb_eq], by rw [g.nb_eq, f.nb_eq],
    fun b hb => g.bits_mono b (f.bits_mono b hb), fun i hi => g.ibits_mono i (f.ibits_mono i hi),
    ?_, ?_⟩
  · intro b hb hx
    rw [g.blocks_keep b (f.dataUsed hb) (hX b hb hx).2, f.blocks_keep b hb (hX b hb hx).1]
  · intro i hi
    rw [g.inodes_keep i (hY i hi).2, f.inodes_keep i (hY i hi).1]

theorem SbOk.of_eq {L : HfsLayout} {h h2 : HfsData} (hs : SbOk L h) (e1 : h2.sb = h.sb)
    (e2 : h2.device.num_blocks = h.device.num_blocks) : SbOk L h2 := by
  obtain ⟨a1, a2, a3, a4, a5, a6, a7, a8, a9, a10, a11, a12, a13⟩ := hs
  constructor <;> (try rw [e1]) <;> (try rw [e2]) <;> assumption

theorem sbOk_of_frame {L : HfsLayout} {h h2 : HfsData} {X Y : Nat → Prop} (hs : SbOk L h)
    (f : Frame L h h2 X Y) : SbOk L h2 :=
  hs.of_eq f.sb_eq f.nb_eq

theorem read_inode_eq (L : HfsLayout) (h : HfsData) (hs : SbOk L h) (i : Nat)
    (hi : i < h.sb.s_inodes_count) :
    read_inode L h i
      = some (inode_load L (h.device.blocks (h.tableBlock L i))
          (i % L.INODES_PER_BLOCK * L.INODE_SIZE)) := by
  unfold read_inode
  have h1 := hs.table_lt i hi
  have h2 := hs.data_le
  have h3 := hs.blocks_le_u16
  have h4 := hs.blocks_le_dev
  rw [if_neg (by omega), Nat.mod_eq_of_lt (by unfold U32; omega),
    blkread_of_lt _ _ (by omega)]
  rfl

theorem read_inode_none (L : HfsLayout) (h : HfsData) (i : Nat)
    (hi : h.sb.s_inodes_count ≤ i) : read_inode L h i = none := by
  unfold read_inode
  rw [if_pos hi]

theorem write_inode_spec (L : HfsLayout) (h : HfsData) (hs : SbOk L h) (i : Nat)
    (hi : i < h.sb.s_inodes_count) (ino : Inode) :
    write_inode L h i ino = (h.setInode L i ino, 0) := by
  unfold write_inode
  have h1 := hs.table_lt i hi
  have h2 := hs.data_le
  have h3 := hs.blocks_le_u16
  have h4 := hs.blocks_le_dev
  rw [if_neg (by omega)]
  simp only [Nat.mod_eq_of_lt (show h.sb.s_inode_table_block_start + i / L.INODES_PER_BLOCK < U32
    by unfold U32; omega)]
  rw [blkread_of_lt _ _ (by omega)]
  simp only []
  rw [blkwrite_of_lt _ _ _ (by omega)]
  rfl

theorem slot_disjoint (a b s x y : Nat) (hab : a ≠ b) (hx : x < s) (hy : y < s) :
    a * s + x ≠ b * s + y := by
  intro e
  rcases Nat.lt_or_gt_of_ne hab with h | h
  · have := Nat.mul_le_mul_right s (show a + 1 ≤ b from h)
    rw [Nat.add_mul] at this
    omega
  · have := Nat.mul_le_mul_right s (show b + 1 ≤ a from h)
    rw [Nat.add_mul] at this
    omega

theorem slot_outside (a b s x : Nat) (hab : a ≠ b) (hx : x < s) :
    a * s + x < b * s ∨ b * s + s ≤ a * s + x := by
  rcases Nat.lt_or_gt_of_ne hab with h | h
  · have := Nat.mul_le_mul_right s (show a + 1 ≤ b from h)
    rw [Nat.add_mul] at this
    omega
  · have := Nat.mul_le_mul_right s (show b + 1 ≤ a from h)
    rw [Nat.add_mul] at this
    omega

theorem read_inode_setInode (L : HfsLayout) (hL : L.Ok) (h : HfsData) (hs : SbOk L h) (i j : Nat)
    (hi : i < h.sb.s_inodes_count) (ino : Inode) (hv : ino.Valid L) :
    read_inode L (h.setInode L i ino) j = if j = i then some ino else read_inode L h j := by
  by_cases hj : j < h.sb.s_inodes_count
  · have hs2 : SbOk L (h.setInode L i ino) := hs.of_eq rfl rfl
    rw [read_inode_eq L _ hs2 j hj, read_inode_eq L h hs j hj]
    have etb : HfsData.tableBlock L (h.setInode L i ino) j = h.tableBlock L j := rfl
    have edev : (h.setInode L i ino).device = h.device.write (h.tableBlock L i)
        (inode_store L (h.device.blocks (h.tableBlock L i))
          (i % L.INODES_PER_BLOCK * L.INODE_SIZE) ino) := rfl
    rw [etb, edev]
    by_cases hji : j = i
    · subst hji
      rw [if_pos rfl, write_blocks_same, inode_load_store_same L _ _ _ hv]
    · rw [if_neg hji]
      by_cases hb : h.tableBlock L j = h.tableBlock L i
      · rw [hb, write_blocks_same]
        congr 1
        apply inode_load_congr
        intro x hx
        apply inode_store_outside
        have hipb : 0 < L.INODES_PER_BLOCK :=
          Nat.div_pos hL.inode_fits (by unfold HfsLayout.INODE_SIZE; omega)
        have hne : j % L.INODES_PER_BLOCK ≠ i % L.INODES_PER_BLOCK := by
          intro e
          unfold HfsData.tableBlock at hb
          have e1 := Nat.div_add_mod j L.INODES_PER_BLOCK
          have e2 := Nat.div_add_mod i L.INODES_PER_BLOCK
          have e3 : j / L.INODES_PER_BLOCK = i / L.INODES_PER_BLOCK := by omega
          rw [e3, e] at e1
          omega
        exact slot_outside _ _ _ _ hne hx
      · rw [write_blocks_other _ _ _ _ hb]
  · have hj2 : h.sb.s_inodes_count ≤ j := by omega
    rw [read_inode_none L _ j (by exact hj2), read_inode_none L h j hj2,
      if_neg (by omega)]

theorem SbOk.tb_lt {L : HfsLayout} {h : HfsData} (hs : SbOk L h) (i : Nat)
    (hi : i < h.sb.s_inodes_count) : h.tableBlock L i < h.sb.s_data_blocks_start :=
  hs.table_lt i hi

theorem SbOk.tb_ne_bbm {L : HfsLayout} {h : HfsData} (hs : SbOk L h) (i : Nat)
    (hi : i < h.sb.s_inodes_count) : h.tableBlock L i ≠ h.sb.s_block_bitmap :=
  hs.table_ne_bbm i hi

theorem SbOk.tb_ne_ibm {L : HfsLayout} {h : HfsData} (hs : SbOk L h) (i : Nat)
    (hi : i < h.sb.s_inodes_count) : h.tableBlock L i ≠ h.sb.s_inode_bitmap :=
  hs.table_ne_ibm i hi

theorem setBlock_blocks_same (h : HfsData) (n : Nat) (buf : Nat → Nat) :
    (h.setBlock n buf).device.blocks n = buf := by
  simp [HfsData.setBlock, BlockDevice.write]

theorem setBlock_blocks_other (h : HfsData) (n b : Nat) (buf : Nat → Nat) (hb : b ≠ n) :
    (h.setBlock n buf).device.blocks b = h.device.blocks b := by
  simp [HfsData.setBlock, BlockDevice.write, hb]

theorem read_inode_setBlock (L : HfsLayout) (h : HfsData) (hs : SbOk L h) (n : Nat)
    (buf : Nat → Nat) (hn : ∀ i, i < h.sb.s_inodes_count → h.tableBlock L i ≠ n) (i : Nat) :
    read_inode L (h.setBlock n buf) i = read_inode L h i := by
  by_cases hi : i < h.sb.s_inodes_count
  · have hs2 : SbOk L (h.setBlock n buf) := hs.of_eq rfl rfl
    rw [read_inode_eq L _ hs2 i hi, read_inode_eq L h hs i hi]
    have etb : HfsData.tableBlock L (h.setBlock n buf) i = h.tableBlock L i := rfl
    rw [etb, setBlock_blocks_other _ _ _ _ (hn i hi)]
  · rw [read_inode_none L _ i (show (h.setBlock n buf).sb.s_inodes_count ≤ i from by
      show h.sb.s_inodes_count ≤ i; omega), read_inode_none L h i (by omega)]

/-- Overwriting a data block leaves the bitmaps, the inodes and the other
blocks as they are. -/
theorem setBlock_frame (L : HfsLayout) (h : HfsData) (hs : SbOk L h) (n : Nat) (buf : Nat → Nat)
    (hn : h.sb.s_data_blocks_start ≤ n) :
    Frame L h (h.setBlock n buf) (fun b => b = n) (fun _ => False) := by
  have h1 := hs.bbm_lt
  have h2 := hs.ibm_lt
  refine ⟨rfl, rfl, ?_, ?_, ?_, ?_⟩
  · intro b hb
    show get_bit ((h.setBlock n buf).device.blocks h.sb.s_block_bitmap) b = 1
    rw [setBlock_blocks_other _ _ _ _ (by omega)]
    exact hb
  · intro b hb
    show get_bit ((h.setBlock n buf).device.blocks h.sb.s_inode_bitmap) b = 1
    rw [setBlock_blocks_other _ _ _ _ (by omega)]
    exact hb
  · intro b _ hx
    exact setBlock_blocks_other _ _ _ _ hx
  · intro i _
    apply read_inode_setBlock L h hs
    intro j hj
    have := hs.tb_lt j hj
    omega

theorem setBlock_disk_block_bitmap (h : HfsData) (n : Nat)
    (buf : Nat → Nat) (hn : n ≠ h.sb.s_block_bitmap) :
    (h.setBlock n buf).disk_block_bitmap = h.disk_block_bitmap := by
  show (h.setBlock n buf).device.blocks h.sb.s_block_bitmap = _
  rw [setBlock_blocks_other _ _ _ _ (fun e => hn e.symm)]
  rfl

theorem setBlock_disk_inode_bitmap (h : HfsData) (n : Nat)
    (buf : Nat → Nat) (hn : n ≠ h.sb.s_inode_bitmap) :
    (h.setBlock n buf).disk_inode_bitmap = h.disk_inode_bitmap := by
  show (h.setBlock n buf).device.blocks h.sb.s_inode_bitmap = _
  rw [setBlock_blocks_other _ _ _ _ (fun e => hn e.symm)]
  rfl

theorem free_blocks_congr (h h2 : HfsData) (e1 : h2.sb = h.sb)
    (e2 : h2.disk_block_bitmap = h.disk_block_bitmap) : h2.free_blocks = h.free_blocks := by
  unfold HfsData.free_blocks
  rw [e1, e2]

theorem setInode_frame (L : HfsLayout) (hL : L.Ok) (h : HfsData) (hs : SbOk L h) (i : Nat)
    (hi : i < h.sb.s_inodes_count) (ino : Inode) (hv : ino.Valid L) :
    Frame L h (h.setInode L i ino) (fun _ => False) (fun j => j = i) := by
  have h1 := hs.tb_ne_bbm i hi
  have h2 := hs.tb_ne_ibm i hi
  have h3 := hs.tb_lt i hi
  refine ⟨rfl, rfl, ?_, ?_, ?_, ?_⟩
  · intro b hb
    show get_bit ((h.setBlock _ _).device.blocks h.sb.s_block_bitmap) b = 1
    rw [setBlock_blocks_other _ _ _ _ (fun e => h1 e.symm)]
    exact hb
  · intro b hb
    show get_bit ((h.setBlock _ _).device.blocks h.sb.s_inode_bitmap) b = 1
    rw [setBlock_blocks_other _ _ _ _ (fun e => h2 e.symm)]
    exact hb
  · intro b hb _
    apply setBlock_blocks_other
    have := hb.1
    omega
  · intro j hj
    rw [read_inode_setInode L hL h hs i j hi ino hv, if_neg hj]

theorem setInode_disk_block_bitmap (L : HfsLayout) (h : HfsData) (hs : SbOk L h) (i : Nat)
    (hi : i < h.sb.s_inodes_count) (ino : Inode) :
    (h.setInode L i ino).disk_block_bitmap = h.disk_block_bitmap :=
  setBlock_disk_block_bitmap h _ _ (hs.tb_ne_bbm i hi)

theorem setInode_disk_inode_bitmap (L : HfsLayout) (h : HfsData) (hs : SbOk L h) (i : Nat)
    (hi : i < h.sb.s_inodes_count) (ino : Inode) :
    (h.setInode L i ino).disk_inode_bitmap = h.disk_inode_bitmap :=
  setBlock_disk_inode_bitmap h _ _ (hs.tb_ne_ibm i hi)

theorem setInode_blocks_data (L : HfsLayout) (h : HfsData) (hs : SbOk L h) (i : Nat)
    (hi : i < h.sb.s_inodes_count) (ino : Inode) (b : Nat) (hb : h.sb.s_data_blocks_start ≤ b) :
    (h.setInode L i ino).device.blocks b = h.device.blocks b := by
  apply setBlock_blocks_other
  have := hs.tb_lt i hi
  omega

theorem markBlock_disk_block_bitmap (h : HfsData) (b : Nat) :
    (h.markBlock b).disk_block_bitmap = set_bit h.block_bitmap b := by
  show (h.device.write h.sb.s_block_bitmap _).blocks h.sb.s_block_bitmap = _
  rw [write_blocks_same]

theorem markBlock_blocks_other (h : HfsData) (b x : Nat) (hx : x ≠ h.sb.s_block_bitmap) :
    (h.markBlock b).device.blocks x = h.device.blocks x := by
  show (h.device.write h.sb.s_block_bitmap _).blocks x = _
  rw [write_blocks_other _ _ _ _ hx]

theorem markBlock_frame (L : HfsLayout) (h : HfsData) (hs : SbOk L h)
    (hsync : h.block_bitmap = h.disk_block_bitmap) (b : Nat) :
    Frame L h (h.markBlock b) (fun _ => False) (fun _ => False) := by
  have h1 := hs.bbm_lt
  refine ⟨rfl, rfl, ?_, ?_, ?_, ?_⟩
  · intro x hx
    rw [markBlock_disk_block_bitmap, get_bit_set_bit, hsync]
    by_cases e : x = b
    · rw [if_pos e]
    · rw [if_neg e]; exact hx
  · intro x hx
    show get_bit ((h.markBlock b).device.blocks h.sb.s_inode_bitmap) x = 1
    rw [markBlock_blocks_other _ _ _ (fun e => hs.bbm_ne_ibm e.symm)]
    exact hx
  · intro x hx _
    apply markBlock_blocks_other
    have := hx.1
    omega
  · intro i _
    have e : h.markBlock b = { (h.setBlock h.sb.s_block_bitmap (set_bit h.block_bitmap b)) with
        block_bitmap := set_bit h.block_bitmap b } := rfl
    have e2 : ∀ (g : HfsData) (bm : Nat → Nat),
        read_inode L { g with block_bitmap := bm } i = read_inode L g i := fun _ _ => rfl
    rw [e, e2]
    apply read_inode_setBlock L h hs
    intro j hj
    exact hs.tb_ne_bbm j hj

theorem markBlock_free_blocks (h : HfsData)
    (hsync : h.block_bitmap = h.disk_block_bitmap) (b : Nat)
    (h1 : h.sb.s_data_blocks_start ≤ b) (h2 : b < h.sb.s_blocks_count)
    (h3 : get_bit h.disk_block_bitmap b = 0) :
    (h.markBlock b).free_blocks + 1 = h.free_blocks := by
  unfold HfsData.free_blocks
  rw [markBlock_disk_block_bitmap, hsync]
  show _ + 1 = (List.range h.sb.s_blocks_count).countP
    (fun b => decide (h.sb.s_data_blocks_start ≤ b) && decide (get_bit h.disk_block_bitmap b = 0))
  show (List.range h.sb.s_blocks_count).countP
    (fun x => decide (h.sb.s_data_blocks_start ≤ x)
      && decide (get_bit (set_bit h.disk_block_bitmap b) x = 0)) + 1 = _
  symm
  apply countP_range_set _ _ b _ h2
  · simp [get_bit_set_bit]
  · simp [h1, h3]
  · intro g hg
    simp [get_bit_set_bit, hg]

theorem markBlock_synced (h : HfsData) (hs : h.Synced) (L : HfsLayout) (hsb : SbOk L h) (b : Nat) :
    (h.markBlock b).Synced := by
  refine ⟨(markBlock_disk_block_bitmap h b).symm, ?_⟩
  show h.inode_bitmap = (h.markBlock b).device.blocks h.sb.s_inode_bitmap
  rw [markBlock_blocks_other _ _ _ (fun e => hsb.bbm_ne_ibm e.symm)]
  exact hs.2

/-! ## File system: the blocks of an inode -/

theorem dataUsed_lt {L : HfsLayout} {h : HfsData} (hs : SbOk L h) {b : Nat} (hb : h.dataUsed b) :
    0 < b ∧ b < 65536 ∧ b < h.device.num_blocks := by
  have := hs.data_pos
  have := hs.blocks_le_u16
  have := hs.blocks_le_dev
  have := hb.1
  have := hb.2.1
  omega

theorem get_block_eq_bmap (L : HfsLayout) (h : HfsData) (hs : SbOk L h) (ino : Inode)
    (hp : PtrsOk L h ino) (off : Nat) :
    get_block_for_offset L h ino off = (bmap L h ino (off / L.BLOCK_SIZE) : Int) := by
  unfold get_block_for_offset bmap
  simp only []
  by_cases hk : off / L.BLOCK_SIZE < L.INODE_DIRECT_POINTERS
  · rw [if_pos hk, if_pos hk]
    by_cases h0 : ino.i_direct_pointers.getD (off / L.BLOCK_SIZE) 0 = 0
    · rw [h0]; rfl
    · have := dataUsed_lt hs (hp _ ⟨h0, Or.inr ⟨h0, Or.inl ⟨_, hk, rfl⟩⟩⟩)
      exact toInt32_of_lt _ (by omega)
  · rw [if_neg hk, if_neg hk]
    by_cases hi : ino.i_single_indirect_pointer = 0
    · rw [if_pos hi, if_pos hi]; rfl
    · rw [if_neg hi, if_neg hi]
      by_cases hr : off / L.BLOCK_SIZE - L.INODE_DIRECT_POINTERS
          ≥ L.INODE_INDIRECT_POINTERS_PER_BLOCK
      · rw [if_pos hr, if_pos hr]; rfl
      · rw [if_neg hr, if_neg hr]
        have := dataUsed_lt hs (hp _ ⟨hi, Or.inl rfl⟩)
        rw [blkread_of_lt _ _ this.2.2]

theorem bmap_dataBlockOf (L : HfsLayout) (h : HfsData) (ino : Inode) (k : Nat)
    (hk : bmap L h ino k ≠ 0) : dataBlockOf L h ino (bmap L h ino k) := by
  refine ⟨hk, ?_⟩
  unfold bmap at hk ⊢
  by_cases h1 : k < L.INODE_DIRECT_POINTERS
  · rw [if_pos h1]
    exact Or.inl ⟨k, h1, rfl⟩
  · rw [if_neg h1] at hk ⊢
    by_cases h2 : ino.i_single_indirect_pointer = 0
    · rw [if_pos h2] at hk; exact absurd rfl hk
    · rw [if_neg h2] at hk ⊢
      by_cases h3 : k - L.INODE_DIRECT_POINTERS ≥ L.INODE_INDIRECT_POINTERS_PER_BLOCK
      · rw [if_pos h3] at hk; exact absurd rfl hk
      · rw [if_neg h3]
        exact Or.inr ⟨h2, _, by omega, rfl⟩

theorem dataBlockOf_bmap (L : HfsLayout) (h : HfsData) (ino : Inode) (b : Nat)
    (hb : dataBlockOf L h ino b) : ∃ k, bmap L h ino k = b := by
  obtain ⟨_, ⟨k, hk, e⟩ | ⟨hi, k, hk, e⟩⟩ := hb
  · exact ⟨k, by unfold bmap; rw [if_pos hk]; exact e⟩
  · refine ⟨L.INODE_DIRECT_POINTERS + k, ?_⟩
    unfold bmap
    rw [if_neg (by omega), if_neg hi, if_neg (by omega)]
    rw [show L.INODE_DIRECT_POINTERS + k - L.INODE_DIRECT_POINTERS = k by omega]
    exact e

theorem bmap_congr (L : HfsLayout) (h h2 : HfsData) (ino : Inode)
    (e : ino.i_single_indirect_pointer ≠ 0 →
      h2.device.blocks ino.i_single_indirect_pointer
        = h.device.blocks ino.i_single_indirect_pointer) (k : Nat) :
    bmap L h2 ino k = bmap L h ino k := by
  unfold bmap
  by_cases hi : ino.i_single_indirect_pointer = 0
  · simp [hi]
  · rw [e hi]

theorem dataBlockOf_congr (L : HfsLayout) (h h2 : HfsData) (ino : Inode)
    (e : ino.i_single_indirect_pointer ≠ 0 →
      h2.device.blocks ino.i_single_indirect_pointer
        = h.device.blocks ino.i_single_indirect_pointer) (b : Nat) :
    dataBlockOf L h2 ino b ↔ dataBlockOf L h ino b := by
  unfold dataBlockOf
  by_cases hi : ino.i_single_indirect_pointer = 0
  · simp [hi]
  · rw [e hi]

theorem refsBlock_congr (L : HfsLayout) (h h2 : HfsData) (ino : Inode)
    (e : ino.i_single_indirect_pointer ≠ 0 →
      h2.device.blocks ino.i_single_indirect_pointer
        = h.device.blocks ino.i_single_indirect_pointer) (b : Nat) :
    refsBlock L h2 ino b ↔ refsBlock L h ino b := by
  unfold refsBlock
  rw [dataBlockOf_congr L h h2 ino e]

/-- The blocks of an inode whose blocks are used stay its blocks, and stay
used, in a state that leaves them alone. -/
theorem ptrsOk_of_frame {L : HfsLayout} {h h2 : HfsData} {X Y : Nat → Prop} {ino : Inode}
    (hp : PtrsOk L h ino) (f : Frame L h h2 X Y)
    (hx : ino.i_single_indirect_pointer ≠ 0 → ¬ X ino.i_single_indirect_pointer) :
    PtrsOk L h2 ino ∧ (∀ k, bmap L h2 ino k = bmap L h ino k) ∧
      (∀ b, refsBlock L h2 ino b ↔ refsBlock L h ino b) := by
  have e : ino.i_single_indirect_pointer ≠ 0 →
      h2.device.blocks ino.i_single_indirect_pointer
        = h.device.blocks ino.i_single_indirect_pointer := fun hi =>
    f.blocks_keep _ (hp _ ⟨hi, Or.inl rfl⟩) (hx hi)
  refine ⟨fun b hb => f.dataUsed (hp b ((refsBlock_congr L h h2 ino e b).1 hb)),
    bmap_congr L h h2 ino e, refsBlock_congr L h h2 ino e⟩

theorem FreshBlock.props {L : HfsLayout} {h h1 : HfsData} {nb : Nat} (f : FreshBlock L h h1 nb)
    (hs : SbOk L h) (hsync : h.Synced) :
    SbOk L h1 ∧ h1.Synced ∧ h1.free_blocks + 1 = h.free_blocks ∧
      Frame L h h1 (fun _ => False) (fun _ => False) ∧ h1.device.blocks nb = zero_block ∧
      h1.dataUsed nb ∧ ¬ h.dataUsed nb ∧
      (∀ b, b ≠ nb → h.sb.s_data_blocks_start ≤ b → h1.device.blocks b = h.device.blocks b) := by
  obtain ⟨h1', h2', h3', rfl⟩ := f
  have hs1 : SbOk L (h.markBlock nb) := hs.of_eq rfl rfl
  have hbb := hs.bbm_lt
  have hib := hs.ibm_lt
  have e1 : ((h.markBlock nb).setBlock nb zero_block).disk_block_bitmap
      = set_bit h.block_bitmap nb := by
    rw [setBlock_disk_block_bitmap (h.markBlock nb) nb zero_block
      (by show nb ≠ h.sb.s_block_bitmap; omega), markBlock_disk_block_bitmap]
  have f1 := markBlock_frame L h hs hsync.1 nb
  have f2 := setBlock_frame L (h.markBlock nb) hs1 nb zero_block h1'
  have hnu : ¬ h.dataUsed nb := fun hu => by have := hu.2.2; omega
  refine ⟨hs1.of_eq rfl rfl, ⟨e1.symm, ?_⟩, ?_, ?_, setBlock_blocks_same _ _ _, ?_, hnu, ?_⟩
  · show h.inode_bitmap = ((h.markBlock nb).setBlock nb zero_block).disk_inode_bitmap
    rw [setBlock_disk_inode_bitmap (h.markBlock nb) nb zero_block
      (by show nb ≠ h.sb.s_inode_bitmap; omega)]
    show h.inode_bitmap = (h.markBlock nb).device.blocks h.sb.s_inode_bitmap
    rw [markBlock_blocks_other _ _ _ (fun e => hs.bbm_ne_ibm e.symm)]
    exact hsync.2
  · have e2 : ((h.markBlock nb).setBlock nb zero_block).disk_block_bitmap
        = (h.markBlock nb).disk_block_bitmap :=
      setBlock_disk_block_bitmap (h.markBlock nb) nb zero_block
        (by show nb ≠ h.sb.s_block_bitmap; omega)
    rw [free_blocks_congr (h.markBlock nb) ((h.markBlock nb).setBlock nb zero_block) rfl e2]
    exact markBlock_free_blocks h hsync.1 nb h1' h2' h3'
  · refine Frame.comp f1 f2 (fun b hb _ => ⟨fun x => x, fun e => hnu (e ▸ hb)⟩)
      (fun _ _ => ⟨fun x => x, fun x => x⟩)
  · refine ⟨h1', h2', ?_⟩
    rw [e1, get_bit_set_bit, if_pos rfl]
  · intro b hb hd
    rw [setBlock_blocks_other _ _ _ _ hb, markBlock_blocks_other _ _ _ (by omega)]

theorem alloc_zero_spec (L : HfsLayout) (h : HfsData) (hs : SbOk L h) (hsync : h.Synced)
    (hfree : 0 < h.free_blocks) :
    ∃ nb, alloc_block h = (h.markBlock nb, (nb : Int)) ∧
      blkwrite (h.markBlock nb).device nb zero_block
        = some ((h.markBlock nb).setBlock nb zero_block).device ∧
      FreshBlock L h ((h.markBlock nb).setBlock nb zero_block) nb := by
  obtain ⟨nb, h1, h2, h3, h4⟩ := alloc_block_spec L h hs hsync.1 hfree
  refine ⟨nb, h4, ?_, ⟨h1, h2, h3, rfl⟩⟩
  rw [blkwrite_of_lt _ _ _ (by
    show nb < h.device.num_blocks
    have := hs.blocks_le_dev
    omega)]
  rfl

theorem Frame.mono {L : HfsLayout} {h h2 : HfsData} {X Y X2 Y2 : Nat → Prop}
    (f : Frame L h h2 X Y) (hX : ∀ b, X b → X2 b) (hY : ∀ i, Y i → Y2 i) :
    Frame L h h2 X2 Y2 :=
  ⟨f.sb_eq, f.nb_eq, f.bits_mono, f.ibits_mono,
    fun b hb hx => f.blocks_keep b hb (fun x => hx (hX b x)),
    fun i hi => f.inodes_keep i (fun y => hi (hY i y))⟩

theorem getD_set (l : List Nat) (i j a : Nat) :
    (l.set i a).getD j 0 = if j = i ∧ i < l.length then a else l.getD j 0 := by
  rw [List.getD_eq_getElem?_getD, List.getD_eq_getElem?_getD, List.getElem?_set]
  by_cases h : i = j
  · subst h
    by_cases h2 : i < l.length
    · simp [h2]
    · simp [h2]
      rw [List.getElem?_eq_none (by omega)]
      rfl
  · have : ¬ j = i := fun e => h e.symm
    simp [h, this]

theorem refsBlock_cases (L : HfsLayout) (h : HfsData) (ino : Inode) (b : Nat)
    (hb : refsBlock L h ino b) :
    (b ≠ 0 ∧ ino.i_single_indirect_pointer = b) ∨ (b ≠ 0 ∧ ∃ k, bmap L h ino k = b) := by
  obtain ⟨h0, h1 | h1⟩ := hb
  · exact Or.inl ⟨h0, h1⟩
  · exact Or.inr ⟨h0, dataBlockOf_bmap L h ino b h1⟩

/-- `alloc_block_for_offset` for a direct index. -/
theorem allocAt_direct (L : HfsLayout) (h h1 : HfsData) (ino : Inode) (k nb : Nat)
    (hs : SbOk L h) (hsync : h.Synced) (hv : ino.Valid L) (hp : PtrsOk L h ino)
    (hsep : ¬ dataBlockOf L h ino ino.i_single_indirect_pointer)
    (hk : k < L.INODE_DIRECT_POINTERS) (f : FreshBlock L h h1 nb) :
    AllocAt L h ino k h1 { ino with i_direct_pointers := ino.i_direct_pointers.set k nb } nb := by
  obtain ⟨p1, p2, p3, p4, p5, p6, p7, p8⟩ := f.props hs hsync
  have hnb := dataUsed_lt p1 p6
  have hklen : k < ino.i_direct_pointers.length := by rw [hv.len]; exact hk
  have hind : ino.i_single_indirect_pointer ≠ 0 →
      h1.device.blocks ino.i_single_indirect_pointer
        = h.device.blocks ino.i_single_indirect_pointer := fun hi =>
    p4.blocks_keep _ (hp _ ⟨hi, Or.inl rfl⟩) (fun x => x)
  have hbm_new : bmap L h1 { ino with i_direct_pointers := ino.i_direct_pointers.set k nb } k
      = nb := by
    unfold bmap
    rw [if_pos hk]
    show (ino.i_direct_pointers.set k nb).getD k 0 = nb
    rw [getD_set, if_pos ⟨rfl, hklen⟩]
  have hbm_old : ∀ k2, k2 ≠ k →
      bmap L h1 { ino with i_direct_pointers := ino.i_direct_pointers.set k nb } k2
        = bmap L h ino k2 := by
    intro k2 hk2
    rw [← bmap_congr L h h1 ino hind k2]
    unfold bmap
    by_cases h2 : k2 < L.INODE_DIRECT_POINTERS
    · rw [if_pos h2, if_pos h2]
      show (ino.i_direct_pointers.set k nb).getD k2 0 = _
      rw [getD_set, if_neg (fun e => hk2 e.1)]
    · rw [if_neg h2, if_neg h2]
  have hdb : ∀ b, dataBlockOf L h1 { ino with i_direct_pointers := ino.i_direct_pointers.set k nb } b
      → b = nb ∨ dataBlockOf L h ino b := by
    intro b hb
    obtain ⟨k2, e⟩ := dataBlockOf_bmap L _ _ b hb
    by_cases hk2 : k2 = k
    · left; rw [← e, hk2, hbm_new]
    · right
      rw [hbm_old k2 hk2] at e
      rw [← e]
      exact bmap_dataBlockOf L h ino k2 (by rw [e]; exact hb.1)
  refine ⟨f.ge, f.lt, p7, p4.mono (fun _ x => x.elim) (fun _ x => x), p1, p2, by omega, ?_, rfl,
    rfl, hbm_new, hbm_old, p5, ?_, ?_, ?_, fun _ => by omega, fun _ => rfl,
    fun hk2 => absurd hk (by omega)⟩
  · refine ⟨hv.dir_lt, hv.size_lt, by simp [hv.len], ?_, hv.ind_lt⟩
    intro j
    show (ino.i_direct_pointers.set k nb).getD j 0 < _
    rw [getD_set]
    by_cases hj : j = k ∧ k < ino.i_direct_pointers.length
    · rw [if_pos hj]; omega
    · rw [if_neg hj]; exact hv.ptr_lt j
  · intro b hb
    obtain ⟨h0, e | hd⟩ := hb
    · exact p4.dataUsed (hp b ⟨h0, Or.inl e⟩)
    · rcases hdb b hd with e | hd2
      · rw [e]; exact p6
      · exact p4.dataUsed (hp b ⟨h0, Or.inr hd2⟩)
  · intro hd
    rcases hdb _ hd with e | hd2
    · exact p7 (e ▸ hp _ ⟨hd.1, Or.inl rfl⟩)
    · exact hsep hd2
  · intro b hb
    obtain ⟨h0, e | hd⟩ := hb
    · exact Or.inl ⟨h0, Or.inl e⟩
    · rcases hdb b hd with e | hd2
      · right; rw [e]; exact p7
      · exact Or.inl ⟨h0, Or.inr hd2⟩

theorem setBlock_free_blocks (h : HfsData) (n : Nat) (buf : Nat → Nat)
    (hn : n ≠ h.sb.s_block_bitmap) : (h.setBlock n buf).free_blocks = h.free_blocks :=
  free_blocks_congr h (h.setBlock n buf) rfl (setBlock_disk_block_bitmap h n buf hn)

theorem synced_setBlock {h : HfsData} (hsync : h.Synced) (L : HfsLayout) (hs : SbOk L h)
    (n : Nat) (buf : Nat → Nat) (hn : h.sb.s_data_blocks_start ≤ n) :
    (h.setBlock n buf).Synced := by
  have h1 := hs.bbm_lt
  have h2 := hs.ibm_lt
  refine ⟨?_, ?_⟩
  · rw [setBlock_disk_block_bitmap h n buf (by omega)]; exact hsync.1
  · rw [setBlock_disk_inode_bitmap h n buf (by omega)]; exact hsync.2

/-- `alloc_block_for_offset` for an index in an indirect block that exists. -/
theorem allocAt_indirect (L : HfsLayout) (h h1 : HfsData) (ino : Inode) (k nb : Nat)
    (hs : SbOk L h) (hsync : h.Synced) (hv : ino.Valid L) (hp : PtrsOk L h ino)
    (hsep : ¬ dataBlockOf L h ino ino.i_single_indirect_pointer)
    (hk : L.INODE_DIRECT_POINTERS ≤ k)
    (hk2 : k - L.INODE_DIRECT_POINTERS < L.INODE_INDIRECT_POINTERS_PER_BLOCK)
    (hi : ino.i_single_indirect_pointer ≠ 0) (f : FreshBlock L h h1 nb) :
    AllocAt L h ino k
      (h1.setBlock ino.i_single_indirect_pointer
        (store16 (h1.device.blocks ino.i_single_indirect_pointer)
          (2 * (k - L.INODE_DIRECT_POINTERS)) nb)) ino nb := by
  obtain ⟨p1, p2, p3, p4, p5, p6, p7, p8⟩ := f.props hs hsync
  have hnb := dataUsed_lt p1 p6
  have hiu : h.dataUsed ino.i_single_indirect_pointer := hp _ ⟨hi, Or.inl rfl⟩
  have hine : ino.i_single_indirect_pointer ≠ nb := fun e => p7 (e ▸ hiu)
  have hige : h1.sb.s_data_blocks_start ≤ ino.i_single_indirect_pointer := by
    rw [p4.sb_eq]; exact hiu.1
  have f2 := setBlock_frame L h1 p1 ino.i_single_indirect_pointer
    (store16 (h1.device.blocks ino.i_single_indirect_pointer)
      (2 * (k - L.INODE_DIRECT_POINTERS)) nb) hige
  have e1 : h1.device.blocks ino.i_single_indirect_pointer
      = h.device.blocks ino.i_single_indirect_pointer := p4.blocks_keep _ hiu (fun x => x)
  have hbm_new : bmap L (h1.setBlock ino.i_single_indirect_pointer
        (store16 (h1.device.blocks ino.i_single_indirect_pointer)
          (2 * (k - L.INODE_DIRECT_POINTERS)) nb)) ino k = nb := by
    unfold bmap
    rw [if_neg (by omega), if_neg hi, if_neg (by omega), setBlock_blocks_same,
      load16_store16_same]
    omega
  have hbm_old : ∀ k2, k2 ≠ k → bmap L (h1.setBlock ino.i_single_indirect_pointer
        (store16 (h1.device.blocks ino.i_single_indirect_pointer)
          (2 * (k - L.INODE_DIRECT_POINTERS)) nb)) ino k2 = bmap L h ino k2 := by
    intro k2 hk2'
    unfold bmap
    by_cases h2 : k2 < L.INODE_DIRECT_POINTERS
    · rw [if_pos h2, if_pos h2]
    · rw [if_neg h2, if_neg h2, if_neg hi, if_neg hi]
      by_cases h3 : k2 - L.INODE_DIRECT_POINTERS ≥ L.INODE_INDIRECT_POINTERS_PER_BLOCK
      · rw [if_pos h3, if_pos h3]
      · rw [if_neg h3, if_neg h3, setBlock_blocks_same,
          load16_store16_disj _ _ _ _ (by omega), e1]
  have hdb : ∀ b, dataBlockOf L (h1.setBlock ino.i_single_indirect_pointer
        (store16 (h1.device.blocks ino.i_single_indirect_pointer)
          (2 * (k - L.INODE_DIRECT_POINTERS)) nb)) ino b → b = nb ∨ dataBlockOf L h ino b := by
    intro b hb
    obtain ⟨k2, e⟩ := dataBlockOf_bmap L _ _ b hb
    by_cases hk2' : k2 = k
    · left; rw [← e, hk2', hbm_new]
    · right
      rw [hbm_old k2 hk2'] at e
      rw [← e]
      exact bmap_dataBlockOf L h ino k2 (by rw [e]; exact hb.1)
  have fr : Frame L h (h1.setBlock ino.i_single_indirect_pointer
        (store16 (h1.device.blocks ino.i_single_indirect_pointer)
          (2 * (k - L.INODE_DIRECT_POINTERS)) nb))
      (fun b => b = ino.i_single_indirect_pointer) (fun _ => False) :=
    Frame.comp p4 f2 (fun b _ hx => ⟨fun x => x, hx⟩) (fun _ _ => ⟨fun x => x, fun x => x⟩)
  have hfr : h.free_blocks ≤ (h1.setBlock ino.i_single_indirect_pointer
      (store16 (h1.device.blocks ino.i_single_indirect_pointer)
        (2 * (k - L.INODE_DIRECT_POINTERS)) nb)).free_blocks + 1 := by
    rw [setBlock_free_blocks h1 _ _ (by have := p1.bbm_lt; omega)]
    omega
  refine ⟨f.ge, f.lt, p7, fr, p1.of_eq rfl rfl, synced_setBlock p2 L p1 _ _ hige, ?_, hv, rfl, rfl,
    hbm_new, hbm_old, ?_, ?_, ?_, ?_, fun _ => hfr, fun _ => rfl, fun _ => hi⟩
  · omega
  · rw [setBlock_blocks_other _ _ _ _ (fun e => hine e.symm)]; exact p5
  · intro b hb
    obtain ⟨h0, e | hd⟩ := hb
    · exact fr.dataUsed (hp b ⟨h0, Or.inl e⟩)
    · rcases hdb b hd with e | hd2
      · rw [e]; exact f2.dataUsed p6
      · exact fr.dataUsed (hp b ⟨h0, Or.inr hd2⟩)
  · intro hd
    rcases hdb _ hd with e | hd2
    · exact hine e
    · exact hsep hd2
  · intro b hb
    obtain ⟨h0, e | hd⟩ := hb
    · exact Or.inl ⟨h0, Or.inl e⟩
    · rcases hdb b hd with e | hd2
      · right; rw [e]; exact p7
      · exact Or.inl ⟨h0, Or.inr hd2⟩

/-- `alloc_block_for_offset` for an index in an indirect block that is
allocated by the call. -/
theorem allocAt_new_indirect (L : HfsLayout) (h h1 h3 : HfsData) (ino : Inode) (k nb ib : Nat)
    (hs : SbOk L h) (hsync : h.Synced) (hv : ino.Valid L) (hp : PtrsOk L h ino)
    (hk : L.INODE_DIRECT_POINTERS ≤ k)
    (hk2 : k - L.INODE_DIRECT_POINTERS < L.INODE_INDIRECT_POINTERS_PER_BLOCK)
    (hi : ino.i_single_indirect_pointer = 0) (f : FreshBlock L h h1 nb)
    (g : FreshBlock L h1 h3 ib) :
    AllocAt L h ino k
      (h3.setBlock ib (store16 zero_block (2 * (k - L.INODE_DIRECT_POINTERS)) nb))
      { ino with i_single_indirect_pointer := ib } nb := by
  obtain ⟨p1, p2, p3, p4, p5, p6, p7, p8⟩ := f.props hs hsync
  obtain ⟨q1, q2, q3, q4, q5, q6, q7, q8⟩ := g.props p1 p2
  have hnb := dataUsed_lt p1 p6
  have hib := dataUsed_lt q1 q6
  have hne : ib ≠ nb := fun e => q7 (e ▸ p6)
  have hige : h3.sb.s_data_blocks_start ≤ ib := q6.1
  have f3 := setBlock_frame L h3 q1 ib
    (store16 zero_block (2 * (k - L.INODE_DIRECT_POINTERS)) nb) hige
  have fr13 : Frame L h1 (h3.setBlock ib
      (store16 zero_block (2 * (k - L.INODE_DIRECT_POINTERS)) nb))
      (fun _ => False) (fun _ => False) :=
    Frame.comp q4 f3 (fun b hb _ => ⟨fun x => x, fun e => q7 (e ▸ hb)⟩)
      (fun _ _ => ⟨fun x => x, fun x => x⟩)
  have fr : Frame L h (h3.setBlock ib
      (store16 zero_block (2 * (k - L.INODE_DIRECT_POINTERS)) nb))
      (fun b => b = ino.i_single_indirect_pointer) (fun _ => False) :=
    Frame.comp p4 fr13 (fun b _ _ => ⟨fun x => x, fun x => x⟩)
      (fun _ _ => ⟨fun x => x, fun x => x⟩)
  have hbm_new : bmap L (h3.setBlock ib
      (store16 zero_block (2 * (k - L.INODE_DIRECT_POINTERS)) nb))
      { ino with i_single_indirect_pointer := ib } k = nb := by
    unfold bmap
    rw [if_neg (by omega)]
    show (if ib = 0 then 0 else _) = nb
    rw [if_neg (by omega), if_neg (by omega), setBlock_blocks_same, load16_store16_same]
    omega
  have hbm_old : ∀ k2, k2 ≠ k → bmap L (h3.setBlock ib
      (store16 zero_block (2 * (k - L.INODE_DIRECT_POINTERS)) nb))
      { ino with i_single_indirect_pointer := ib } k2 = bmap L h ino k2 := by
    intro k2 hk2'
    unfold bmap
    by_cases h2 : k2 < L.INODE_DIRECT_POINTERS
    · rw [if_pos h2, if_pos h2]
    · rw [if_neg h2, if_neg h2, if_pos hi]
      show (if ib = 0 then 0 else _) = 0
      rw [if_neg (by omega)]
      by_cases h3' : k2 - L.INODE_DIRECT_POINTERS ≥ L.INODE_INDIRECT_POINTERS_PER_BLOCK
      · rw [if_pos h3']
      · rw [if_neg h3', setBlock_blocks_same, load16_store16_disj _ _ _ _ (by omega),
          load16_zero_block]
  have hdb : ∀ b, dataBlockOf L (h3.setBlock ib
      (store16 zero_block (2 * (k - L.INODE_DIRECT_POINTERS)) nb))
      { ino with i_single_indirect_pointer := ib } b → b = nb ∨ dataBlockOf L h ino b := by
    intro b hb
    obtain ⟨k2, e⟩ := dataBlockOf_bmap L _ _ b hb
    by_cases hk2' : k2 = k
    · left; rw [← e, hk2', hbm_new]
    · right
      rw [hbm_old k2 hk2'] at e
      rw [← e]
      exact bmap_dataBlockOf L h ino k2 (by rw [e]; exact hb.1)
  refine ⟨f.ge, f.lt, p7, fr, q1.of_eq rfl rfl, synced_setBlock q2 L q1 _ _ hige, ?_,
    ⟨hv.dir_lt, hv.size_lt, hv.len, hv.ptr_lt, by show ib < _; omega⟩, rfl, rfl,
    hbm_new, hbm_old, ?_, ?_, ?_, ?_, fun hc => hc.elim (fun c => by omega) (fun c => absurd hi c),
    fun hc => hc.elim (fun c => by omega) (fun c => absurd hi c),
    fun _ => by show ib ≠ 0; have := q1.data_pos; omega⟩
  · rw [setBlock_free_blocks h3 _ _ (by have := q1.bbm_lt; omega)]
    omega
  · rw [setBlock_blocks_other _ _ _ _ (fun e => hne e.symm), q8 nb (fun e => hne e.symm) p6.1]
    exact p5
  · intro b hb
    obtain ⟨h0, e | hd⟩ := hb
    · have e' : ib = b := e
      rw [← e']; exact f3.dataUsed q6
    · rcases hdb b hd with e | hd2
      · rw [e]; exact fr13.dataUsed p6
      · exact fr.dataUsed (hp b ⟨h0, Or.inr hd2⟩)
  · intro hd
    rcases hdb _ hd with e | hd2
    · exact hne e
    · exact q7 (p4.dataUsed (hp _ ⟨hd.1, Or.inr hd2⟩))
  · intro b hb
    obtain ⟨h0, e | hd⟩ := hb
    · right
      have e' : ib = b := e
      rw [← e']
      exact fun hu => q7 (p4.dataUsed hu)
    · rcases hdb b hd with e | hd2
      · right; rw [e]; exact p7
      · exact Or.inl ⟨h0, Or.inr hd2⟩

theorem natCast_not_neg (n : Nat) : ¬ ((n : Int) < 0) := by omega

/-- With two free blocks, `alloc_block_for_offset` succeeds for every block
index that an inode can hold. -/
theorem alloc_block_for_offset_spec (L : HfsLayout) (h : HfsData) (ino : Inode) (off : Nat)
    (hs : SbOk L h) (hsync : h.Synced) (hv : ino.Valid L) (hp : PtrsOk L h ino)
    (hsep : ¬ dataBlockOf L h ino ino.i_single_indirect_pointer)
    (hk : off / L.BLOCK_SIZE < L.INODE_DIRECT_POINTERS + L.INODE_INDIRECT_POINTERS_PER_BLOCK)
    (hfree : 2 ≤ h.free_blocks) :
    ∃ (h2 : HfsData) (ino2 : Inode) (nb : Nat),
      alloc_block_for_offset L h ino off = (h2, ino2, (nb : Int)) ∧
      AllocAt L h ino (off / L.BLOCK_SIZE) h2 ino2 nb := by
  obtain ⟨nb, ha, hw, f⟩ := alloc_zero_spec L h hs hsync (by omega)
  obtain ⟨p1, p2, p3, p4, p5, p6, p7, p8⟩ := f.props hs hsync
  have hnb := dataUsed_lt p1 p6
  have hu : toU32 (nb : Int) = nb := toU32_natCast nb (by omega)
  unfold alloc_block_for_offset
  simp only [ha, natCast_not_neg, if_false, hu, hw]
  by_cases hd : off / L.BLOCK_SIZE < L.INODE_DIRECT_POINTERS
  · rw [if_pos hd]
    exact ⟨_, _, nb, rfl, allocAt_direct L h _ ino _ nb hs hsync hv hp hsep hd f⟩
  · rw [if_neg hd, if_neg (by omega)]
    by_cases hi : ino.i_single_indirect_pointer = 0
    · obtain ⟨ib, hb, hbw, g⟩ := alloc_zero_spec L _ p1 p2 (by omega)
      obtain ⟨q1, q2, q3, q4, q5, q6, q7, q8⟩ := g.props p1 p2
      have hib := dataUsed_lt q1 q6
      have hub : toU32 (ib : Int) = ib := toU32_natCast ib (by omega)
      have hb' : alloc_block { h.markBlock nb with
          device := ((h.markBlock nb).setBlock nb zero_block).device }
            = (((h.markBlock nb).setBlock nb zero_block).markBlock ib, (ib : Int)) := hb
      simp only [hi, if_true, hb', natCast_not_neg, if_false, hub]
      have hbw' : blkwrite (((h.markBlock nb).setBlock nb zero_block).markBlock ib).device ib
          zero_block = some ((((h.markBlock nb).setBlock nb zero_block).markBlock ib).setBlock ib
            zero_block).device := hbw
      simp only [hbw']
      rw [blkread_of_lt _ _ hib.2.2]
      simp only []
      rw [blkwrite_of_lt _ _ _ hib.2.2]
      simp only [q5]
      exact ⟨_, _, nb, rfl, allocAt_new_indirect L h _ _ ino _ nb ib hs hsync hv hp
        (by omega) (by omega) hi f g⟩
    · have hiu := dataUsed_lt hs (hp _ ⟨hi, Or.inl rfl⟩)
      have hnbk : ino.i_single_indirect_pointer
          < ((h.markBlock nb).setBlock nb zero_block).device.num_blocks := hiu.2.2
      simp only [hi, if_false]
      rw [blkread_of_lt _ _ hnbk]
      simp only []
      rw [blkwrite_of_lt _ _ _ hnbk]
      exact ⟨_, _, nb, rfl, allocAt_indirect L h _ ino _ nb hs hsync hv hp hsep
        (by omega) (by omega) hi f⟩

/-! ## File system: directory blocks -/

theorem strcmp_eq_congr (m m2 : Nat → Nat) :
    ∀ (t : List Nat) (off w l : Nat), l < w → m (off + l) = 0 →
      (∀ i, i < w → m (off + i) = m2 (off + i)) → CStr t →
      strcmp_eq m off t = strcmp_eq m2 off t := by
  intro t
  induction t with
  | nil =>
    intro off w l hl _ hag _
    have := hag 0 (by omega)
    simp only [Nat.add_zero] at this
    simp only [strcmp_eq, this]
  | cons c cs ih =>
    intro off w l hl hz hag hc
    have h0 := hag 0 (by omega)
    simp only [Nat.add_zero] at h0
    simp only [strcmp_eq, h0]
    cases l with
    | zero =>
      simp only [Nat.add_zero] at hz
      have hc0 : c ≠ 0 := (hc c (List.mem_cons_self _ _)).1
      have : (m2 off == c) = false := by
        rw [← h0, hz]
        simp
        exact fun e => hc0 e.symm
      rw [this]
      rfl
    | succ l =>
      rw [ih (off + 1) (w - 1) l (by omega) (by rw [← hz]; congr 1; omega)
        (fun i hi => by
          have := hag (i + 1) (by omega)
          rw [show off + 1 + i = off + (i + 1) by omega]
          exact this)
        (fun x hx => hc x (List.mem_cons_of_mem _ hx))]

theorem strcmp_eq_iff (m : Nat → Nat) :
    ∀ (t : List Nat) (off : Nat),
      strcmp_eq m off t = true ↔ (∀ i, i < t.length → m (off + i) = t.getD i 0) ∧
        m (off + t.length) = 0 := by
  intro t
  induction t with
  | nil =>
    intro off
    simp [strcmp_eq]
  | cons c cs ih =>
    intro off
    simp only [strcmp_eq, Bool.and_eq_true, beq_iff_eq, ih, List.length_cons]
    constructor
    · rintro ⟨h1, h2, h3⟩
      refine ⟨fun i hi => ?_, by rw [← h3]; congr 1; omega⟩
      cases i with
      | zero => simpa using h1
      | succ i =>
        have := h2 i (by omega)
        rw [List.getD_cons_succ, ← this]
        congr 1
        omega
    · rintro ⟨h1, h2⟩
      refine ⟨by simpa using h1 0 (by omega), fun i hi => ?_, by rw [← h2]; congr 1; omega⟩
      have := h1 (i + 1) (by omega)
      rw [List.getD_cons_succ] at this
      rw [← this]
      congr 1
      omega

theorem cstr_getD_ne_zero (t : List Nat) (ht : CStr t) (i : Nat) (hi : i < t.length) :
    t.getD i 0 ≠ 0 := by
  rw [List.getD_eq_getElem _ _ hi]
  exact (ht _ (List.getElem_mem _)).1

theorem dirent_set_name_byte (L : HfsLayout) (blk : Nat → Nat) (j : Nat) (name : List Nat)
    (n i : Nat) (hi : i < L.DIRECTORY_NAME_SIZE) (hlen : name.length < L.DIRECTORY_NAME_SIZE) :
    dirent_set L blk j name n (j * L.DIRENT_SIZE + i) = name.getD i 0 := by
  unfold dirent_set
  rw [store32_outside _ _ _ _ (by omega)]
  by_cases h1 : i < L.DIRECTORY_NAME_SIZE - 1
  · rw [if_pos ⟨by omega, by omega⟩]
    congr 1
    omega
  · rw [if_neg (by omega), if_pos (by omega)]
    rw [List.getD_eq_default _ _ (by omega)]

theorem dirent_set_outside (L : HfsLayout) (blk : Nat → Nat) (j : Nat) (name : List Nat)
    (n x : Nat) (hx : x < j * L.DIRENT_SIZE ∨ j * L.DIRENT_SIZE + L.DIRENT_SIZE ≤ x) :
    dirent_set L blk j name n x = blk x := by
  unfold dirent_set
  unfold HfsLayout.DIRENT_SIZE at hx ⊢
  rw [store32_outside _ _ _ _ (by omega)]
  rw [if_neg (by omega), if_neg (by omega)]

theorem dirent_inum_set_same (L : HfsLayout) (blk : Nat → Nat) (j : Nat) (name : List Nat)
    (n : Nat) (hn : n < 4294967296) :
    dirent_inode_number L (dirent_set L blk j name n) j = n := by
  unfold dirent_inode_number dirent_set
  rw [load32_store32_same]
  omega

theorem dirent_inum_set_other (L : HfsLayout) (blk : Nat → Nat) (j j2 : Nat) (name : List Nat)
    (n : Nat) (hj : j2 ≠ j) :
    dirent_inode_number L (dirent_set L blk j name n) j2 = dirent_inode_number L blk j2 := by
  unfold dirent_inode_number
  apply load32_congr
  intro i hi
  apply dirent_set_outside
  have := slot_outside j2 j L.DIRENT_SIZE (L.DIRECTORY_NAME_SIZE + i) hj
    (by unfold HfsLayout.DIRENT_SIZE; omega)
  omega

theorem strcmp_dirent_set_same (L : HfsLayout) (blk : Nat → Nat) (j : Nat) (name t : List Nat)
    (n : Nat) (hlen : name.length < L.DIRECTORY_NAME_SIZE) (hname : CStr name) (ht : CStr t) :
    strcmp_eq (dirent_set L blk j name n) (j * L.DIRENT_SIZE) t = decide (t = name) := by
  by_cases e : t = name
  · subst e
    rw [decide_eq_true rfl, strcmp_eq_iff]
    exact ⟨fun i hi => dirent_set_name_byte L blk j t n i (by omega) hlen,
      by rw [dirent_set_name_byte L blk j t n _ hlen hlen]
         exact List.getD_eq_default _ _ (Nat.le_refl _)⟩
  · rw [decide_eq_false e]
    cases hc : strcmp_eq (dirent_set L blk j name n) (j * L.DIRENT_SIZE) t with
    | false => rfl
    | true =>
      exfalso
      rw [strcmp_eq_iff] at hc
      obtain ⟨h1, h2⟩ := hc
      have hle : t.length ≤ name.length := by
        by_contra hgt
        have := h1 name.length (by omega)
        rw [dirent_set_name_byte L blk j name n _ hlen hlen,
          List.getD_eq_default _ _ (Nat.le_refl _)] at this
        exact cstr_getD_ne_zero t ht _ (by omega) this.symm
      have hge : name.length ≤ t.length := by
        by_contra hlt
        rw [dirent_set_name_byte L blk j name n _ (by omega) hlen] at h2
        exact cstr_getD_ne_zero name hname _ (by omega) h2
      apply e
      apply List.ext_getElem (by omega)
      intro i hi1 hi2
      have := h1 i hi1
      rw [dirent_set_name_byte L blk j name n _ (by omega) hlen,
        List.getD_eq_getElem _ _ hi1, List.getD_eq_getElem _ _ hi2] at this
      exact this.symm

theorem strcmp_dirent_set_other (L : HfsLayout) (blk : Nat → Nat) (j j2 : Nat)
    (name t : List Nat) (n : Nat) (hj : j2 ≠ j) (ht : CStr t)
    (hterm : ∃ l, l < L.DIRECTORY_NAME_SIZE ∧ blk (j2 * L.DIRENT_SIZE + l) = 0) :
    strcmp_eq (dirent_set L blk j name n) (j2 * L.DIRENT_SIZE) t
      = strcmp_eq blk (j2 * L.DIRENT_SIZE) t := by
  obtain ⟨l, hl, hz⟩ := hterm
  symm
  apply strcmp_eq_congr blk _ t _ L.DIRECTORY_NAME_SIZE l hl hz _ ht
  intro i hi
  symm
  apply dirent_set_outside
  have := slot_outside j2 j L.DIRENT_SIZE i hj (by unfold HfsLayout.DIRENT_SIZE; omega)
  omega

theorem find_dir_entry_block_congr (L : HfsLayout) (blk blk2 : Nat → Nat) (t : List Nat) :
    ∀ (fuel j : Nat),
      (∀ j2, j ≤ j2 → j2 < j + fuel →
        dirent_inode_number L blk2 j2 = dirent_inode_number L blk j2 ∧
        (dirent_inode_number L blk j2 ≠ 0 →
          strcmp_eq blk2 (j2 * L.DIRENT_SIZE) t = strcmp_eq blk (j2 * L.DIRENT_SIZE) t)) →
      find_dir_entry_block L blk2 t fuel j = find_dir_entry_block L blk t fuel j := by
  intro fuel
  induction fuel with
  | zero => intro j _; rfl
  | succ fuel ih =>
    intro j h
    simp only [find_dir_entry_block]
    obtain ⟨e1, e2⟩ := h j (Nat.le_refl _) (by omega)
    rw [e1, ih (j + 1) (fun j2 h1 h2 => h j2 (by omega) (by omega))]
    by_cases h0 : dirent_inode_number L blk j = 0
    · simp [h0]
    · rw [e2 h0]

theorem find_dir_entry_block_none (L : HfsLayout) (blk : Nat → Nat) (t : List Nat) :
    ∀ (fuel j : Nat), find_dir_entry_block L blk t fuel j = none →
      ∀ j2, j ≤ j2 → j2 < j + fuel →
        ¬ (dirent_inode_number L blk j2 ≠ 0 ∧ strcmp_eq blk (j2 * L.DIRENT_SIZE) t = true) := by
  intro fuel
  induction fuel with
  | zero => intro j _ j2 h1 h2; omega
  | succ fuel ih =>
    intro j h j2 h1 h2
    simp only [find_dir_entry_block] at h
    by_cases hc : dirent_inode_number L blk j ≠ 0 ∧ strcmp_eq blk (j * L.DIRENT_SIZE) t = true
    · rw [if_pos hc] at h; exact absurd h (by simp)
    · rw [if_neg hc] at h
      by_cases e : j2 = j
      · rw [e]; exact hc
      · exact ih (j + 1) h j2 (by omega) (by omega)

theorem find_dir_entry_block_some (L : HfsLayout) (blk : Nat → Nat) (t : List Nat) :
    ∀ (fuel j r : Nat), find_dir_entry_block L blk t fuel j = some r →
      ∃ j2, j ≤ j2 ∧ j2 < j + fuel ∧ dirent_inode_number L blk j2 = r ∧ r ≠ 0 ∧
        strcmp_eq blk (j2 * L.DIRENT_SIZE) t = true := by
  intro fuel
  induction fuel with
  | zero => intro j r h; simp [find_dir_entry_block] at h
  | succ fuel ih =>
    intro j r h
    simp only [find_dir_entry_block] at h
    by_cases hc : dirent_inode_number L blk j ≠ 0 ∧ strcmp_eq blk (j * L.DIRENT_SIZE) t = true
    · rw [if_pos hc] at h
      have e : dirent_inode_number L blk j = r := by simpa using h
      exact ⟨j, Nat.le_refl _, by omega, e, e ▸ hc.1, hc.2⟩
    · rw [if_neg hc] at h
      obtain ⟨j2, h1, h2, h3⟩ := ih (j + 1) r h
      exact ⟨j2, by omega, by omega, h3⟩

theorem find_dir_entry_block_first (L : HfsLayout) (blk : Nat → Nat) (t : List Nat) :
    ∀ (fuel j j0 : Nat), j ≤ j0 → j0 < j + fuel →
      (∀ j2, j ≤ j2 → j2 < j0 →
        ¬ (dirent_inode_number L blk j2 ≠ 0 ∧ strcmp_eq blk (j2 * L.DIRENT_SIZE) t = true)) →
      dirent_inode_number L blk j0 ≠ 0 → strcmp_eq blk (j0 * L.DIRENT_SIZE) t = true →
      find_dir_entry_block L blk t fuel j = some (dirent_inode_number L blk j0) := by
  intro fuel
  induction fuel with
  | zero => intro j j0 h1 h2; omega
  | succ fuel ih =>
    intro j j0 h1 h2 hbefore hn hc
    simp only [find_dir_entry_block]
    by_cases e : j0 = j
    · subst e
      rw [if_pos ⟨hn, hc⟩]
    · rw [if_neg (hbefore j (Nat.le_refl _) (by omega))]
      exact ih (j + 1) j0 (by omega) (by omega)
        (fun j2 h3 h4 => hbefore j2 (by omega) h4) hn hc

theorem find_dir_entry_block_congr2 (L : HfsLayout) (blk blk2 : Nat → Nat) (t : List Nat) :
    ∀ (fuel j : Nat),
      (∀ j2, j ≤ j2 → j2 < j + fuel →
        ((dirent_inode_number L blk2 j2 ≠ 0 ∧ strcmp_eq blk2 (j2 * L.DIRENT_SIZE) t = true) ↔
          (dirent_inode_number L blk j2 ≠ 0 ∧ strcmp_eq blk (j2 * L.DIRENT_SIZE) t = true)) ∧
        ((dirent_inode_number L blk j2 ≠ 0 ∧ strcmp_eq blk (j2 * L.DIRENT_SIZE) t = true) →
          dirent_inode_number L blk2 j2 = dirent_inode_number L blk j2)) →
      find_dir_entry_block L blk2 t fuel j = find_dir_entry_block L blk t fuel j := by
  intro fuel
  induction fuel with
  | zero => intro j _; rfl
  | succ fuel ih =>
    intro j h
    simp only [find_dir_entry_block]
    obtain ⟨e1, e2⟩ := h j (Nat.le_refl _) (by omega)
    rw [ih (j + 1) (fun j2 h1 h2 => h j2 (by omega) (by omega))]
    by_cases hc : dirent_inode_number L blk j ≠ 0 ∧ strcmp_eq blk (j * L.DIRENT_SIZE) t = true
    · rw [if_pos hc, if_pos (e1.2 hc), e2 hc]
    · rw [if_neg hc, if_neg (fun x => hc (e1.1 x))]

/-- A new entry in an unused slot does not change what the scan of the block
finds under another name. -/
theorem find_block_set_other (L : HfsLayout) (blk : Nat → Nat) (j0 : Nat) (name t : List Nat)
    (n : Nat) (hfree : dirent_inode_number L blk j0 = 0) (hterm : Terminated L blk)
    (hne : t ≠ name) (ht : CStr t) (hname : CStr name)
    (hlen : name.length < L.DIRECTORY_NAME_SIZE) :
    find_dir_entry_block L (dirent_set L blk j0 name n) t L.DIRECTORY_ENTRIES_PER_BLOCK 0
      = find_dir_entry_block L blk t L.DIRECTORY_ENTRIES_PER_BLOCK 0 := by
  apply find_dir_entry_block_congr2
  intro j2 _ hj2
  rw [Nat.zero_add] at hj2
  by_cases e : j2 = j0
  · subst e
    rw [strcmp_dirent_set_same L blk j2 name t n hlen hname ht, decide_eq_false hne, hfree]
    simp
  · rw [dirent_inum_set_other L blk j0 j2 name n e]
    by_cases h0 : dirent_inode_number L blk j2 = 0
    · simp [h0]
    · rw [strcmp_dirent_set_other L blk j0 j2 name t n e ht (hterm j2 hj2 h0)]
      simp

/-- A new entry in an unused slot of a block without the name is what the scan
of the block finds under the name. -/
theorem find_block_set_same (L : HfsLayout) (blk : Nat → Nat) (j0 : Nat) (name : List Nat)
    (n : Nat) (hj0 : j0 < L.DIRECTORY_ENTRIES_PER_BLOCK)
    (hterm : Terminated L blk) (hn0 : n ≠ 0) (hn : n < 4294967296)
    (hnone : find_dir_entry_block L blk name L.DIRECTORY_ENTRIES_PER_BLOCK 0 = none)
    (hname : CStr name) (hlen : name.length < L.DIRECTORY_NAME_SIZE) :
    find_dir_entry_block L (dirent_set L blk j0 name n) name L.DIRECTORY_ENTRIES_PER_BLOCK 0
      = some n := by
  have hi := dirent_inum_set_same L blk j0 name n hn
  have := find_dir_entry_block_first L (dirent_set L blk j0 name n) name
    L.DIRECTORY_ENTRIES_PER_BLOCK 0 j0 (Nat.zero_le _) (by omega) ?_ (by rw [hi]; exact hn0)
    (by rw [strcmp_dirent_set_same L blk j0 name name n hlen hname hname]; simp)
  · rw [this, hi]
  · intro j2 _ hj2 hc
    have hne : j2 ≠ j0 := by omega
    rw [dirent_inum_set_other L blk j0 j2 name n hne] at hc
    rw [strcmp_dirent_set_other L blk j0 j2 name name n hne hname
      (hterm j2 (by omega) hc.1)] at hc
    exact find_dir_entry_block_none L blk name _ 0 hnone j2 (Nat.zero_le _) (by omega) hc

theorem find_free_entry_some (L : HfsLayout) (blk : Nat → Nat) :
    ∀ (fuel j j0 : Nat), find_free_entry L blk fuel j = some j0 →
      j ≤ j0 ∧ j0 < j + fuel ∧ dirent_inode_number L blk j0 = 0 := by
  intro fuel
  induction fuel with
  | zero => intro j j0 h; simp [find_free_entry] at h
  | succ fuel ih =>
    intro j j0 h
    simp only [find_free_entry] at h
    by_cases hc : dirent_inode_number L blk j = 0
    · rw [if_pos hc] at h
      have e : j = j0 := by simpa using h
      subst e
      exact ⟨Nat.le_refl _, by omega, hc⟩
    · rw [if_neg hc] at h
      obtain ⟨h1, h2, h3⟩ := ih (j + 1) j0 h
      exact ⟨by omega, by omega, h3⟩

theorem find_free_entry_none (L : HfsLayout) (blk : Nat → Nat) :
    ∀ (fuel j : Nat), find_free_entry L blk fuel j = none →
      ∀ j2, j ≤ j2 → j2 < j + fuel → dirent_inode_number L blk j2 ≠ 0 := by
  intro fuel
  induction fuel with
  | zero => intro j _ j2 h1 h2; omega
  | succ fuel ih =>
    intro j h j2 h1 h2
    simp only [find_free_entry] at h
    by_cases hc : dirent_inode_number L blk j = 0
    · rw [if_pos hc] at h; exact absurd h (by simp)
    · rw [if_neg hc] at h
      by_cases e : j2 = j
      · rw [e]; exact hc
      · exact ih (j + 1) h j2 (by omega) (by omega)

theorem dirent_inum_zero_block (L : HfsLayout) (j : Nat) :
    dirent_inode_number L zero_block j = 0 := by
  unfold dirent_inode_number
  exact load32_zero_block _

theorem find_free_entry_zero_block (L : HfsLayout) (hL : L.Ok) :
    find_free_entry L zero_block L.DIRECTORY_ENTRIES_PER_BLOCK 0 = some 0 := by
  have hpos : 0 < L.DIRECTORY_ENTRIES_PER_BLOCK :=
    Nat.div_pos hL.dirent_fits (by unfold HfsLayout.DIRENT_SIZE; omega)
  obtain ⟨m, hm⟩ : ∃ m, L.DIRECTORY_ENTRIES_PER_BLOCK = m + 1 := ⟨_, (Nat.succ_pred_eq_of_pos hpos).symm⟩
  rw [hm]
  simp only [find_free_entry]
  rw [if_pos (dirent_inum_zero_block L 0)]

theorem find_block_zero_block (L : HfsLayout) (t : List Nat) :
    ∀ (fuel j : Nat), find_dir_entry_block L zero_block t fuel j = none := by
  intro fuel
  induction fuel with
  | zero => intro j; rfl
  | succ fuel ih =>
    intro j
    simp only [find_dir_entry_block]
    rw [if_neg (fun hc => hc.1 (dirent_inum_zero_block L j))]
    exact ih (j + 1)

theorem terminated_zero_block (L : HfsLayout) : Terminated L zero_block :=
  fun j _ h => absurd (dirent_inum_zero_block L j) h

theorem scanFrom_congr (f g : Nat → Option Nat) :
    ∀ (fuel i : Nat), (∀ i2, i ≤ i2 → i2 < i + fuel → f i2 = g i2) →
      scanFrom f fuel i = scanFrom g fuel i := by
  intro fuel
  induction fuel with
  | zero => intro i _; rfl
  | succ fuel ih =>
    intro i h
    simp only [scanFrom]
    rw [h i (Nat.le_refl _) (by omega), ih (i + 1) (fun i2 h1 h2 => h i2 (by omega) (by omega))]

theorem scanFrom_none (f : Nat → Option Nat) :
    ∀ (fuel i : Nat), (∀ i2, i ≤ i2 → i2 < i + fuel → f i2 = none) → scanFrom f fuel i = -1 := by
  intro fuel
  induction fuel with
  | zero => intro i _; rfl
  | succ fuel ih =>
    intro i h
    simp only [scanFrom]
    rw [h i (Nat.le_refl _) (by omega)]
    exact ih (i + 1) (fun i2 h1 h2 => h i2 (by omega) (by omega))

theorem scanFrom_first (f : Nat → Option Nat) :
    ∀ (fuel i i0 r : Nat), i ≤ i0 → i0 < i + fuel → f i0 = some r →
      (∀ i2, i ≤ i2 → i2 < i0 → f i2 = none) → scanFrom f fuel i = toInt32 r := by
  intro fuel
  induction fuel with
  | zero => intro i i0 r h1 h2; omega
  | succ fuel ih =>
    intro i i0 r h1 h2 h3 h4
    simp only [scanFrom]
    by_cases e : i0 = i
    · subst e
      rw [h3]
    · rw [h4 i (Nat.le_refl _) (by omega)]
      exact ih (i + 1) i0 r (by omega) (by omega) h3 (fun i2 h5 h6 => h4 i2 (by omega) h6)

theorem scanFrom_cases (f : Nat → Option Nat) :
    ∀ (fuel i : Nat),
      (scanFrom f fuel i = -1 ∧ ∀ i2, i ≤ i2 → i2 < i + fuel → f i2 = none) ∨
      (∃ i0 r, i ≤ i0 ∧ i0 < i + fuel ∧ f i0 = some r ∧
        (∀ i2, i ≤ i2 → i2 < i0 → f i2 = none) ∧ scanFrom f fuel i = toInt32 r) := by
  intro fuel
  induction fuel with
  | zero => intro i; left; exact ⟨rfl, fun i2 h1 h2 => by omega⟩
  | succ fuel ih =>
    intro i
    simp only [scanFrom]
    cases hf : f i with
    | some r =>
      right
      exact ⟨i, r, Nat.le_refl _, by omega, hf, fun i2 h1 h2 => by omega, rfl⟩
    | none =>
      rcases ih (i + 1) with ⟨h1, h2⟩ | ⟨i0, r, h1, h2, h3, h4, h5⟩
      · left
        refine ⟨h1, fun i2 h3 h4 => ?_⟩
        by_cases e : i2 = i
        · rw [e]; exact hf
        · exact h2 i2 (by omega) (by omega)
      · right
        refine ⟨i0, r, by omega, by omega, h3, fun i2 h6 h7 => ?_, h5⟩
        by_cases e : i2 = i
        · rw [e]; exact hf
        · exact h4 i2 (by omega) h7

theorem scanFrom_extend (f : Nat → Option Nat) :
    ∀ (fuel i k : Nat), (∀ i2, i + fuel ≤ i2 → f i2 = none) →
      scanFrom f (fuel + k) i = scanFrom f fuel i := by
  intro fuel
  induction fuel with
  | zero =>
    intro i k h
    rw [Nat.zero_add]
    exact scanFrom_none f k i (fun i2 h1 _ => h i2 (by omega))
  | succ fuel ih =>
    intro i k h
    rw [show fuel + 1 + k = (fuel + k) + 1 by omega]
    simp only [scanFrom]
    rw [ih (i + 1) k (fun i2 h1 => h i2 (by omega))]

theorem find_dir_entry_loop_eq (L : HfsLayout) (h : HfsData) (hs : SbOk L h) (ino : Inode)
    (hp : PtrsOk L h ino) (t : List Nat) (hbs : 0 < L.BLOCK_SIZE) :
    ∀ (fuel i : Nat), (i + fuel) * L.BLOCK_SIZE ≤ 4294967296 →
      (i + fuel) ≤ (ino.i_size + L.BLOCK_SIZE - 1) / L.BLOCK_SIZE →
      find_dir_entry_loop L h ino t fuel i = scanFrom (scanRes L h ino t) fuel i := by
  intro fuel
  induction fuel with
  | zero => intro i _ _; rfl
  | succ fuel ih =>
    intro i hb hc
    simp only [find_dir_entry_loop, scanFrom]
    have hlt : i * L.BLOCK_SIZE < 4294967296 := by
      have := Nat.mul_le_mul_right L.BLOCK_SIZE (show i + 1 ≤ i + (fuel + 1) by omega)
      rw [Nat.add_mul] at this
      omega
    rw [Nat.mod_eq_of_lt (show i * L.BLOCK_SIZE < U32 from hlt), get_block_eq_bmap L h hs ino hp,
      Nat.mul_div_cancel _ hbs, ih (i + 1) (by rw [show i + 1 + fuel = i + (fuel + 1) by omega]; exact hb)
        (by omega)]
    unfold scanRes
    by_cases h0 : bmap L h ino i = 0
    · rw [if_pos (by rw [h0]; exact Int.le_refl _), if_neg (fun x => x.2 h0)]
    · have hpos : ¬ ((bmap L h ino i : Nat) : Int) ≤ 0 := by omega
      have hu := dataUsed_lt hs (hp _ ⟨h0, Or.inr (bmap_dataBlockOf L h ino i h0)⟩)
      rw [if_neg hpos, if_pos ⟨by omega, h0⟩, toU32_natCast _ (by omega),
        blkread_of_lt _ _ hu.2.2]

theorem scanRes_none_of_ge (L : HfsLayout) (h : HfsData) (ino : Inode) (t : List Nat) (i : Nat)
    (hi : (ino.i_size + L.BLOCK_SIZE - 1) / L.BLOCK_SIZE ≤ i) : scanRes L h ino t i = none := by
  unfold scanRes
  rw [if_neg (by omega)]

/-- `find_dir_entry` returns the first value of the scan. -/
theorem find_dir_entry_eq_scan (L : HfsLayout) (h : HfsData) (hs : SbOk L h) (ino : Inode)
    (hp : PtrsOk L h ino) (t : List Nat) (hbs : 0 < L.BLOCK_SIZE)
    (hdir : ino.i_is_directory ≠ 0) (hsize : ino.i_size + L.BLOCK_SIZE ≤ 4294967296) (M : Nat)
    (hM : (ino.i_size + L.BLOCK_SIZE - 1) / L.BLOCK_SIZE ≤ M) :
    find_dir_entry L h ino t = scanFrom (scanRes L h ino t) M 0 := by
  unfold find_dir_entry
  rw [if_neg hdir, Nat.mod_eq_of_lt (show ino.i_size + L.BLOCK_SIZE - 1 < U32 by unfold U32; omega)]
  have hc : (ino.i_size + L.BLOCK_SIZE - 1) / L.BLOCK_SIZE * L.BLOCK_SIZE ≤ 4294967296 := by
    have := Nat.div_mul_le_self (ino.i_size + L.BLOCK_SIZE - 1) L.BLOCK_SIZE
    omega
  rw [find_dir_entry_loop_eq L h hs ino hp t hbs _ 0 (by rw [Nat.zero_add]; exact hc)
    (by rw [Nat.zero_add])]
  obtain ⟨k, rfl⟩ : ∃ k, M = (ino.i_size + L.BLOCK_SIZE - 1) / L.BLOCK_SIZE + k :=
    ⟨M - (ino.i_size + L.BLOCK_SIZE - 1) / L.BLOCK_SIZE, by omega⟩
  rw [scanFrom_extend _ _ 0 k (fun i2 hi2 => scanRes_none_of_ge L h ino t i2 (by omega))]

/-! ## File system: adding a directory entry -/

theorem refsBlock_of_bmap (L : HfsLayout) (h : HfsData) (ino : Inode) (k : Nat)
    (hk : bmap L h ino k ≠ 0) : refsBlock L h ino (bmap L h ino k) :=
  ⟨hk, Or.inr (bmap_dataBlockOf L h ino k hk)⟩

theorem ceil_lt_iff (s bs i : Nat) (hbs : 0 < bs) : i < (s + bs - 1) / bs ↔ i * bs < s := by
  rw [show (i < (s + bs - 1) / bs) = (i + 1 ≤ (s + bs - 1) / bs) from rfl,
    Nat.le_div_iff_mul_le hbs, Nat.add_mul]
  omega

/-- Writing a new entry into an unused slot of the block of index `i0` of a
directory gives the scan of the directory the new entry and nothing else. -/
theorem dirAdded_of (L : HfsLayout) (hL : L.Ok) (h h1 : HfsData) (pino pino1 : Inode)
    (name : List Nat) (n i0 j0 s2 : Nat)
    (hname : CStr name) (hlen : name.length < L.DIRECTORY_NAME_SIZE)
    (hn0 : n ≠ 0) (hn : n < 4294967296)
    (hunused : ∀ i2, scanRes L h pino name i2 = none)
    (F1 : Frame L h h1 (refsBlock L h pino) (fun _ => False))
    (sb1 : SbOk L h1) (synced1 : h1.Synced) (free1 : h.free_blocks ≤ h1.free_blocks + 2)
    (valid1 : pino1.Valid L) (dir_eq1 : pino1.i_is_directory = pino.i_is_directory)
    (ptrs1 : PtrsOk L h1 pino1)
    (hb0 : bmap L h1 pino1 i0 ≠ 0)
    (old_keep : ∀ i2, i2 ≠ i0 → bmap L h1 pino1 i2 = bmap L h pino i2)
    (content_keep : ∀ i2, i2 ≠ i0 → bmap L h pino i2 ≠ 0 →
      h1.device.blocks (bmap L h pino i2) = h.device.blocks (bmap L h pino i2))
    (b0_ne : ∀ i2, i2 ≠ i0 → bmap L h pino i2 ≠ bmap L h1 pino1 i0)
    (b0_ne_ind : bmap L h1 pino1 i0 ≠ pino1.i_single_indirect_pointer)
    (b0_frame : refsBlock L h pino (bmap L h1 pino1 i0) ∨ ¬ h.dataUsed (bmap L h1 pino1 i0))
    (hj0 : j0 < L.DIRECTORY_ENTRIES_PER_BLOCK)
    (hfree : dirent_inode_number L (h1.device.blocks (bmap L h1 pino1 i0)) j0 = 0)
    (hterm : Terminated L (h1.device.blocks (bmap L h1 pino1 i0)))
    (old_scan : ∀ t, scanRes L h pino t i0
      = find_dir_entry_block L (h1.device.blocks (bmap L h1 pino1 i0)) t
          L.DIRECTORY_ENTRIES_PER_BLOCK 0)
    (hs2 : s2 + L.BLOCK_SIZE
      ≤ (L.INODE_DIRECT_POINTERS + L.INODE_INDIRECT_POINTERS_PER_BLOCK + 1) * L.BLOCK_SIZE)
    (hc0 : i0 * L.BLOCK_SIZE < s2)
    (hc : ∀ i2, i2 ≠ i0 → (i2 * L.BLOCK_SIZE < s2 ↔ i2 * L.BLOCK_SIZE < pino.i_size)) :
    DirAdded L h pino name n
      (h1.setBlock (bmap L h1 pino1 i0)
        (dirent_set L (h1.device.blocks (bmap L h1 pino1 i0)) j0 name n))
      { pino1 with i_size := s2 } i0 := by
  have hbs : 0 < L.BLOCK_SIZE := by
    have := hL.dirent_fits; unfold HfsLayout.DIRENT_SIZE at this; omega
  have hu0 : h1.dataUsed (bmap L h1 pino1 i0) := ptrs1 _ (refsBlock_of_bmap L h1 pino1 i0 hb0)
  have f2 := setBlock_frame L h1 sb1 (bmap L h1 pino1 i0)
    (dirent_set L (h1.device.blocks (bmap L h1 pino1 i0)) j0 name n) hu0.1
  have hind : ({ pino1 with i_size := s2 } : Inode).i_single_indirect_pointer ≠ 0 →
      (h1.setBlock (bmap L h1 pino1 i0)
        (dirent_set L (h1.device.blocks (bmap L h1 pino1 i0)) j0 name n)).device.blocks
          ({ pino1 with i_size := s2 } : Inode).i_single_indirect_pointer
        = h1.device.blocks ({ pino1 with i_size := s2 } : Inode).i_single_indirect_pointer :=
    fun _ => setBlock_blocks_other _ _ _ _ (fun e => b0_ne_ind e.symm)
  have hbm : ∀ i, bmap L (h1.setBlock (bmap L h1 pino1 i0)
        (dirent_set L (h1.device.blocks (bmap L h1 pino1 i0)) j0 name n))
        { pino1 with i_size := s2 } i = bmap L h1 pino1 i := by
    intro i
    rw [bmap_congr L h1 _ { pino1 with i_size := s2 } hind i]
    rfl
  have hscan : ∀ t, CStr t → ∀ i2, i2 ≠ i0 →
      scanRes L (h1.setBlock (bmap L h1 pino1 i0)
        (dirent_set L (h1.device.blocks (bmap L h1 pino1 i0)) j0 name n))
        { pino1 with i_size := s2 } t i2 = scanRes L h pino t i2 := by
    intro t _ i2 hi2
    unfold scanRes
    rw [hbm i2, old_keep i2 hi2]
    show (if i2 < (s2 + L.BLOCK_SIZE - 1) / L.BLOCK_SIZE ∧ bmap L h pino i2 ≠ 0 then _ else _) = _
    by_cases hcond : i2 < (pino.i_size + L.BLOCK_SIZE - 1) / L.BLOCK_SIZE ∧ bmap L h pino i2 ≠ 0
    · have hcond2 : i2 < (s2 + L.BLOCK_SIZE - 1) / L.BLOCK_SIZE ∧ bmap L h pino i2 ≠ 0 :=
        ⟨(ceil_lt_iff _ _ _ hbs).2 ((hc i2 hi2).2 ((ceil_lt_iff _ _ _ hbs).1 hcond.1)), hcond.2⟩
      rw [if_pos hcond, if_pos hcond2, setBlock_blocks_other _ _ _ _ (b0_ne i2 hi2),
        content_keep i2 hi2 hcond.2]
    · have hcond2 : ¬ (i2 < (s2 + L.BLOCK_SIZE - 1) / L.BLOCK_SIZE ∧ bmap L h pino i2 ≠ 0) :=
        fun x => hcond
          ⟨(ceil_lt_iff _ _ _ hbs).2 ((hc i2 hi2).1 ((ceil_lt_iff _ _ _ hbs).1 x.1)), x.2⟩
      rw [if_neg hcond, if_neg hcond2]
  have hscan0 : ∀ t, scanRes L (h1.setBlock (bmap L h1 pino1 i0)
        (dirent_set L (h1.device.blocks (bmap L h1 pino1 i0)) j0 name n))
        { pino1 with i_size := s2 } t i0
      = find_dir_entry_block L (dirent_set L (h1.device.blocks (bmap L h1 pino1 i0)) j0 name n) t
          L.DIRECTORY_ENTRIES_PER_BLOCK 0 := by
    intro t
    unfold scanRes
    rw [hbm i0]
    show (if i0 < (s2 + L.BLOCK_SIZE - 1) / L.BLOCK_SIZE ∧ bmap L h1 pino1 i0 ≠ 0 then _ else _) = _
    rw [if_pos ⟨(ceil_lt_iff _ _ _ hbs).2 hc0, hb0⟩, setBlock_blocks_same]
  have fr : Frame L h _ (refsBlock L h pino) (fun _ => False) :=
    Frame.comp F1 f2
      (fun b hb hx => ⟨hx, fun e => by
        rcases b0_frame with r | r
        · exact hx (e ▸ r)
        · exact r (e ▸ hb)⟩)
      (fun _ _ => ⟨fun x => x, fun x => x⟩)
  refine ⟨fr, sb1.of_eq rfl rfl, synced_setBlock synced1 L sb1 _ _ hu0.1, ?_,
    ⟨valid1.dir_lt, by show s2 < _; have := hL.file_max; omega, valid1.len, valid1.ptr_lt,
      valid1.ind_lt⟩, dir_eq1,
    hs2, ?_, ?_, ?_, ?_⟩
  · rw [setBlock_free_blocks h1 _ _ (by have := sb1.bbm_lt; have := hu0.1; omega)]
    exact free1
  · intro b hb
    have hb1 : refsBlock L h1 pino1 b :=
      (refsBlock_congr L h1 _ { pino1 with i_size := s2 } hind b).1 hb
    exact f2.dataUsed (ptrs1 b hb1)
  · rw [hscan0 name]
    exact find_block_set_same L _ j0 name n hj0 hterm hn0 hn
      (by rw [← old_scan name]; exact hunused i0) hname hlen
  · intro i2 hi2
    rw [hscan name hname i2 (by omega)]
    exact hunused i2
  · intro t ht hne i2
    by_cases e : i2 = i0
    · rw [e, hscan0 t, find_block_set_other L _ j0 name t n hfree hterm hne ht hname hlen,
        old_scan t]
    · exact hscan t ht i2 e

theorem epb_mul_le (L : HfsLayout) (j : Nat) (hj : j < L.DIRECTORY_ENTRIES_PER_BLOCK) :
    (j + 1) * L.DIRENT_SIZE ≤ L.BLOCK_SIZE := by
  have h1 := Nat.div_mul_le_self L.BLOCK_SIZE L.DIRENT_SIZE
  have h2 := Nat.mul_le_mul_right L.DIRENT_SIZE (show j + 1 ≤ L.BLOCK_SIZE / L.DIRENT_SIZE from hj)
  exact Nat.le_trans h2 h1

theorem mul_lt_of_lt (a b s : Nat) (h : a < b) : a * s + s ≤ b * s := by
  have := Nat.mul_le_mul_right s (show a + 1 ≤ b from h)
  rw [Nat.add_mul] at this
  omega

/-- An entry written into an unused slot of a block that the directory has. -/
theorem dirAdded_existing (L : HfsLayout) (hL : L.Ok) (h : HfsData) (pino : Inode)
    (name : List Nat) (n i0 j0 : Nat) (hs : SbOk L h) (hsync : h.Synced)
    (hd : DirInodeOk L h pino) (hv : pino.Valid L)
    (hname : CStr name) (hlen : name.length < L.DIRECTORY_NAME_SIZE)
    (hn0 : n ≠ 0) (hn : n < 4294967296)
    (hunused : ∀ i2, scanRes L h pino name i2 = none)
    (hroom : pino.i_size + L.BLOCK_SIZE
      ≤ (L.INODE_DIRECT_POINTERS + L.INODE_INDIRECT_POINTERS_PER_BLOCK) * L.BLOCK_SIZE)
    (hi0 : i0 * L.BLOCK_SIZE < pino.i_size ∨ i0 = 0)
    (hb0 : bmap L h pino i0 ≠ 0)
    (hj0 : j0 < L.DIRECTORY_ENTRIES_PER_BLOCK)
    (hfree : dirent_inode_number L (h.device.blocks (bmap L h pino i0)) j0 = 0) :
    DirAdded L h pino name n
      (h.setBlock (bmap L h pino i0)
        (dirent_set L (h.device.blocks (bmap L h pino i0)) j0 name n))
      (if pino.i_size < i0 * L.BLOCK_SIZE + (j0 + 1) * L.DIRENT_SIZE then
        { pino with i_size := i0 * L.BLOCK_SIZE + (j0 + 1) * L.DIRENT_SIZE } else pino) i0 := by
  have hbs : 0 < L.BLOCK_SIZE := by
    have := hL.dirent_fits; unfold HfsLayout.DIRENT_SIZE at this; omega
  have hds : 0 < L.DIRENT_SIZE := by unfold HfsLayout.DIRENT_SIZE; omega
  have hje := epb_mul_le L j0 hj0
  have hjpos : 0 < (j0 + 1) * L.DIRENT_SIZE := Nat.mul_pos (by omega) hds
  have hdb := bmap_dataBlockOf L h pino i0 hb0
  have e : (if pino.i_size < i0 * L.BLOCK_SIZE + (j0 + 1) * L.DIRENT_SIZE then
        { pino with i_size := i0 * L.BLOCK_SIZE + (j0 + 1) * L.DIRENT_SIZE } else pino)
      = { pino with i_size :=
          if pino.i_size < i0 * L.BLOCK_SIZE + (j0 + 1) * L.DIRENT_SIZE then
            i0 * L.BLOCK_SIZE + (j0 + 1) * L.DIRENT_SIZE else pino.i_size } := by
    by_cases hc : pino.i_size < i0 * L.BLOCK_SIZE + (j0 + 1) * L.DIRENT_SIZE
    · rw [if_pos hc, if_pos hc]
    · rw [if_neg hc, if_neg hc]
  rw [e]
  have hexp : (L.INODE_DIRECT_POINTERS + L.INODE_INDIRECT_POINTERS_PER_BLOCK + 1) * L.BLOCK_SIZE
      = (L.INODE_DIRECT_POINTERS + L.INODE_INDIRECT_POINTERS_PER_BLOCK) * L.BLOCK_SIZE
        + L.BLOCK_SIZE := by
    rw [Nat.add_mul, Nat.one_mul]
  have hroom2 : i0 * L.BLOCK_SIZE + L.BLOCK_SIZE + L.BLOCK_SIZE
      ≤ (L.INODE_DIRECT_POINTERS + L.INODE_INDIRECT_POINTERS_PER_BLOCK + 1) * L.BLOCK_SIZE := by
    rcases hi0 with h1 | h1
    · omega
    · rw [h1, Nat.zero_mul]; omega
  apply dirAdded_of L hL h h pino pino name n i0 j0 _ hname hlen hn0 hn hunused
    (Frame.same L h _ _) hs hsync (by omega) hv rfl hd.ptrs hb0 (fun _ _ => rfl)
    (fun _ _ _ => rfl)
    (fun i2 hi2 e2 => hi2 (hd.inj i0 i2 hb0 e2.symm).symm)
    (fun e2 => hd.ind_sep (e2 ▸ hdb))
    (Or.inl (refsBlock_of_bmap L h pino i0 hb0)) hj0 hfree (hd.term _ hdb)
  · intro t
    unfold scanRes
    by_cases hc : i0 < (pino.i_size + L.BLOCK_SIZE - 1) / L.BLOCK_SIZE
    · rw [if_pos ⟨hc, hb0⟩]
    · rw [if_neg (fun x => hc x.1)]
      cases hf : find_dir_entry_block L (h.device.blocks (bmap L h pino i0)) t
        L.DIRECTORY_ENTRIES_PER_BLOCK 0 with
      | none => rfl
      | some r =>
        exfalso
        obtain ⟨j2, _, hj2, hr, hr0, _⟩ := find_dir_entry_block_some L _ t _ 0 r hf
        have := hd.in_size i0 j2 (by omega) hb0 (by rw [hr]; exact hr0)
        have hp : 0 < (j2 + 1) * L.DIRENT_SIZE := Nat.mul_pos (by omega) hds
        exact hc ((ceil_lt_iff _ _ _ hbs).2 (by omega))
  · by_cases hc : pino.i_size < i0 * L.BLOCK_SIZE + (j0 + 1) * L.DIRENT_SIZE
    · rw [if_pos hc]; omega
    · rw [if_neg hc]; omega
  · by_cases hc : pino.i_size < i0 * L.BLOCK_SIZE + (j0 + 1) * L.DIRENT_SIZE
    · rw [if_pos hc]; omega
    · rw [if_neg hc]; omega
  · intro i2 hi2
    by_cases hc : pino.i_size < i0 * L.BLOCK_SIZE + (j0 + 1) * L.DIRENT_SIZE
    · rw [if_pos hc]
      constructor
      · intro hlt
        have hi : i2 < i0 := by
          by_contra hge
          have := mul_lt_of_lt i0 i2 L.BLOCK_SIZE (by omega)
          omega
        have := mul_lt_of_lt i2 i0 L.BLOCK_SIZE hi
        rcases hi0 with h1 | h1
        · omega
        · omega
      · intro hlt; omega
    · rw [if_neg hc]

/-- An entry written into slot 0 of a block that `alloc_block_for_offset` has
added to the directory. -/
theorem dirAdded_alloc (L : HfsLayout) (hL : L.Ok) (h h1 : HfsData) (pino pino1 : Inode)
    (name : List Nat) (n i0 nb s2 : Nat) (hs : SbOk L h)
    (hd : DirInodeOk L h pino)
    (hname : CStr name) (hlen : name.length < L.DIRECTORY_NAME_SIZE)
    (hn0 : n ≠ 0) (hn : n < 4294967296)
    (hunused : ∀ i2, scanRes L h pino name i2 = none)
    (A : AllocAt L h pino i0 h1 pino1 nb)
    (hnone : ∀ t, scanRes L h pino t i0 = none)
    (hs2 : s2 + L.BLOCK_SIZE
      ≤ (L.INODE_DIRECT_POINTERS + L.INODE_INDIRECT_POINTERS_PER_BLOCK + 1) * L.BLOCK_SIZE)
    (hc0 : i0 * L.BLOCK_SIZE < s2)
    (hc : ∀ i2, i2 ≠ i0 → (i2 * L.BLOCK_SIZE < s2 ↔ i2 * L.BLOCK_SIZE < pino.i_size)) :
    DirAdded L h pino name n (h1.setBlock nb (dirent_set L zero_block 0 name n))
      { pino1 with i_size := s2 } i0 := by
  have hpos : 0 < L.DIRECTORY_ENTRIES_PER_BLOCK :=
    Nat.div_pos hL.dirent_fits (by unfold HfsLayout.DIRENT_SIZE; omega)
  have hnb0 : nb ≠ 0 := by have := hs.data_pos; have := A.fresh_ge; omega
  have hb0 : bmap L h1 pino1 i0 ≠ 0 := by rw [A.bmap_new]; exact hnb0
  have key := dirAdded_of L hL h h1 pino pino1 name n i0 0 s2 hname hlen hn0 hn hunused
    (Frame.comp (Frame.same L h (fun _ => False) (fun _ => False)) A.frame
      (fun b hb hx => ⟨fun x => x, fun e => hx ⟨by have := dataUsed_lt hs hb; omega,
        Or.inl e.symm⟩⟩)
      (fun _ _ => ⟨fun x => x, fun x => x⟩))
    A.sb A.synced A.free A.valid A.dir_eq A.ptrs hb0 A.bmap_old
    (fun i2 _ h2 => A.frame.blocks_keep _ (hd.ptrs _ (refsBlock_of_bmap L h pino i2 h2))
      (fun e => hd.ind_sep (e ▸ bmap_dataBlockOf L h pino i2 h2)))
    (fun i2 _ e => by
      rw [A.bmap_new] at e
      exact A.not_used (e ▸ hd.ptrs _ (refsBlock_of_bmap L h pino i2 (by rw [e]; exact hnb0))))
    (fun e => A.ind_sep (e ▸ bmap_dataBlockOf L h1 pino1 i0 hb0))
    (Or.inr (by rw [A.bmap_new]; exact A.not_used)) hpos
    (by rw [A.bmap_new, A.zero]; exact dirent_inum_zero_block L 0)
    (by rw [A.bmap_new, A.zero]; exact terminated_zero_block L)
    (fun t => by rw [A.bmap_new, A.zero, find_block_zero_block]; exact hnone t)
    hs2 hc0 hc
  rw [A.bmap_new, A.zero] at key
  exact key

theorem lt_u32_of_lt_file_max (L : HfsLayout) (hL : L.Ok) (i x : Nat)
    (hi : i < L.INODE_DIRECT_POINTERS + L.INODE_INDIRECT_POINTERS_PER_BLOCK + 1)
    (hx : x ≤ L.BLOCK_SIZE) : i * L.BLOCK_SIZE + x < 2147483648 := by
  have h1 := hL.file_max
  have h2 := mul_lt_of_lt i _ L.BLOCK_SIZE hi
  omega

theorem add_loop_step_full (L : HfsLayout) (hL : L.Ok) (h : HfsData) (pino : Inode)
    (name : List Nat) (n fuel i : Nat) (hs : SbOk L h) (hp : PtrsOk L h pino)
    (hi : i < L.INODE_DIRECT_POINTERS + L.INODE_INDIRECT_POINTERS_PER_BLOCK + 1)
    (hb0 : bmap L h pino i ≠ 0)
    (hfull : find_free_entry L (h.device.blocks (bmap L h pino i))
      L.DIRECTORY_ENTRIES_PER_BLOCK 0 = none) :
    add_dir_entry_loop L name n (fuel + 1) h pino i
      = add_dir_entry_loop L name n fuel h pino (i + 1) := by
  have hbs : 0 < L.BLOCK_SIZE := by
    have := hL.dirent_fits; unfold HfsLayout.DIRENT_SIZE at this; omega
  have hlt := lt_u32_of_lt_file_max L hL i 0 hi (Nat.zero_le _)
  have hu := dataUsed_lt hs (hp _ (refsBlock_of_bmap L h pino i hb0))
  have hne : ¬ ((bmap L h pino i : Nat) : Int) = 0 := by omega
  simp only [add_dir_entry_loop]
  rw [Nat.mod_eq_of_lt (show i * L.BLOCK_SIZE < U32 by unfold U32; omega),
    get_block_eq_bmap L h hs pino hp, Nat.mul_div_cancel _ hbs]
  simp only [hne, if_false, false_and]
  rw [toU32_natCast _ (by omega), blkread_of_lt _ _ hu.2.2]
  simp only [hfull]

theorem add_loop_step_existing (L : HfsLayout) (hL : L.Ok) (h : HfsData) (pino : Inode)
    (name : List Nat) (n fuel i j0 : Nat) (hs : SbOk L h) (hp : PtrsOk L h pino)
    (hi : i < L.INODE_DIRECT_POINTERS + L.INODE_INDIRECT_POINTERS_PER_BLOCK + 1)
    (hb0 : bmap L h pino i ≠ 0)
    (hslot : find_free_entry L (h.device.blocks (bmap L h pino i))
      L.DIRECTORY_ENTRIES_PER_BLOCK 0 = some j0) :
    add_dir_entry_loop L name n (fuel + 1) h pino i
      = (h.setBlock (bmap L h pino i)
          (dirent_set L (h.device.blocks (bmap L h pino i)) j0 name n),
        (if pino.i_size < i * L.BLOCK_SIZE + (j0 + 1) * L.DIRENT_SIZE then
          { pino with i_size := i * L.BLOCK_SIZE + (j0 + 1) * L.DIRENT_SIZE } else pino),
        some 0) := by
  have hbs : 0 < L.BLOCK_SIZE := by
    have := hL.dirent_fits; unfold HfsLayout.DIRENT_SIZE at this; omega
  have hj0 := (find_free_entry_some L _ _ 0 j0 hslot).2.1
  have hje := epb_mul_le L j0 (by omega)
  have hlt := lt_u32_of_lt_file_max L hL i ((j0 + 1) * L.DIRENT_SIZE) hi hje
  have hu := dataUsed_lt hs (hp _ (refsBlock_of_bmap L h pino i hb0))
  have hne : ¬ ((bmap L h pino i : Nat) : Int) = 0 := by omega
  simp only [add_dir_entry_loop]
  rw [Nat.mod_eq_of_lt (show i * L.BLOCK_SIZE < U32 by unfold U32; omega),
    get_block_eq_bmap L h hs pino hp, Nat.mul_div_cancel _ hbs]
  simp only [hne, if_false, false_and]
  rw [toU32_natCast _ (by omega), blkread_of_lt _ _ hu.2.2]
  simp only [hslot]
  rw [blkwrite_of_lt _ _ _ hu.2.2,
    Nat.mod_eq_of_lt (show i * L.BLOCK_SIZE + (j0 + 1) * L.DIRENT_SIZE < U32 by unfold U32; omega)]
  rfl

theorem add_loop_step_hole (L : HfsLayout) (hL : L.Ok) (h h1 : HfsData) (pino pino1 : Inode)
    (name : List Nat) (n fuel i nb : Nat) (hs : SbOk L h) (hp : PtrsOk L h pino)
    (hi : i < L.INODE_DIRECT_POINTERS + L.INODE_INDIRECT_POINTERS_PER_BLOCK + 1)
    (hb0 : bmap L h pino i = 0)
    (ha : alloc_block_for_offset L h pino (i * L.BLOCK_SIZE) = (h1, pino1, (nb : Int)))
    (A : AllocAt L h pino i h1 pino1 nb) :
    add_dir_entry_loop L name n (fuel + 1) h pino i
      = (h1.setBlock nb (dirent_set L zero_block 0 name n),
        (if pino1.i_size < i * L.BLOCK_SIZE + (0 + 1) * L.DIRENT_SIZE then
          { pino1 with i_size := i * L.BLOCK_SIZE + (0 + 1) * L.DIRENT_SIZE } else pino1),
        some 0) := by
  have hbs : 0 < L.BLOCK_SIZE := by
    have := hL.dirent_fits; unfold HfsLayout.DIRENT_SIZE at this; omega
  have hpos : 0 < L.DIRECTORY_ENTRIES_PER_BLOCK :=
    Nat.div_pos hL.dirent_fits (by unfold HfsLayout.DIRENT_SIZE; omega)
  have hje := epb_mul_le L 0 hpos
  have hlt := lt_u32_of_lt_file_max L hL i ((0 + 1) * L.DIRENT_SIZE) hi hje
  have hu := dataUsed_lt A.sb (A.ptrs _ (by
    have := refsBlock_of_bmap L h1 pino1 i (by
      rw [A.bmap_new]; have := hs.data_pos; have := A.fresh_ge; omega)
    rwa [A.bmap_new] at this))
  simp only [add_dir_entry_loop]
  rw [Nat.mod_eq_of_lt (show i * L.BLOCK_SIZE < U32 by unfold U32; omega),
    get_block_eq_bmap L h hs pino hp, Nat.mul_div_cancel _ hbs, hb0]
  simp only [Nat.cast_zero, if_true, ha, true_and, natCast_not_neg, if_false]
  rw [toU32_natCast _ (by omega), blkread_of_lt _ _ hu.2.2, A.zero]
  simp only [find_free_entry_zero_block L hL]
  rw [blkwrite_of_lt _ _ _ hu.2.2,
    Nat.mod_eq_of_lt (show i * L.BLOCK_SIZE + (0 + 1) * L.DIRENT_SIZE < U32 by unfold U32; omega)]
  rfl

theorem inode_size_ite (ino : Inode) (c : Prop) [Decidable c] (x : Nat) :
    (if c then { ino with i_size := x } else ino)
      = { ino with i_size := if c then x else ino.i_size } := by
  by_cases hc : c
  · rw [if_pos hc, if_pos hc]
  · rw [if_neg hc, if_neg hc]

theorem size_update_props (L : HfsLayout) (size i0 k : Nat) (hk0 : 0 < k)
    (hk : k ≤ L.BLOCK_SIZE)
    (hroom : size + L.BLOCK_SIZE
      ≤ (L.INODE_DIRECT_POINTERS + L.INODE_INDIRECT_POINTERS_PER_BLOCK) * L.BLOCK_SIZE)
    (hi0 : i0 * L.BLOCK_SIZE < size ∨ i0 = 0) :
    (if size < i0 * L.BLOCK_SIZE + k then i0 * L.BLOCK_SIZE + k else size) + L.BLOCK_SIZE
        ≤ (L.INODE_DIRECT_POINTERS + L.INODE_INDIRECT_POINTERS_PER_BLOCK + 1) * L.BLOCK_SIZE ∧
      i0 * L.BLOCK_SIZE < (if size < i0 * L.BLOCK_SIZE + k then i0 * L.BLOCK_SIZE + k else size) ∧
      ∀ i2, i2 ≠ i0 →
        (i2 * L.BLOCK_SIZE < (if size < i0 * L.BLOCK_SIZE + k then i0 * L.BLOCK_SIZE + k else size)
          ↔ i2 * L.BLOCK_SIZE < size) := by
  have hexp : (L.INODE_DIRECT_POINTERS + L.INODE_INDIRECT_POINTERS_PER_BLOCK + 1) * L.BLOCK_SIZE
      = (L.INODE_DIRECT_POINTERS + L.INODE_INDIRECT_POINTERS_PER_BLOCK) * L.BLOCK_SIZE
        + L.BLOCK_SIZE := by
    rw [Nat.add_mul, Nat.one_mul]
  have h0 : i0 = 0 → i0 * L.BLOCK_SIZE = 0 := fun e => by rw [e, Nat.zero_mul]
  by_cases hc : size < i0 * L.BLOCK_SIZE + k
  · rw [if_pos hc]
    refine ⟨?_, by omega, ?_⟩
    · rcases hi0 with h1 | h1
      · omega
      · have h01 := h0 h1
        omega
    intro i2 hi2
    constructor
    · intro hlt
      have hi : i2 < i0 := by
        by_contra hge
        have := mul_lt_of_lt i0 i2 L.BLOCK_SIZE (by omega)
        omega
      have := mul_lt_of_lt i2 i0 L.BLOCK_SIZE hi
      rcases hi0 with h1 | h1
      · omega
      · omega
    · intro hlt; omega
  · rw [if_neg hc]
    exact ⟨by omega, by omega, fun _ _ => Iff.rfl⟩

/-- The first loop of `add_dir_entry` either adds the entry or finds every
block of the directory full and leaves the state as it is. -/
theorem add_dir_entry_loop_spec (L : HfsLayout) (hL : L.Ok) (h : HfsData) (pino : Inode)
    (name : List Nat) (n NB : Nat) (hs : SbOk L h) (hsync : h.Synced)
    (hfree : 2 ≤ h.free_blocks) (hd : DirInodeOk L h pino) (hv : pino.Valid L)
    (hname : CStr name) (hlen : name.length < L.DIRECTORY_NAME_SIZE)
    (hn0 : n ≠ 0) (hn : n < 4294967296)
    (hunused : ∀ i2, scanRes L h pino name i2 = none)
    (hroom : pino.i_size + L.BLOCK_SIZE
      ≤ (L.INODE_DIRECT_POINTERS + L.INODE_INDIRECT_POINTERS_PER_BLOCK) * L.BLOCK_SIZE)
    (hNB1 : ∀ i, i < NB → i * L.BLOCK_SIZE < pino.i_size ∨ i = 0)
    (hNB2 : NB < L.INODE_DIRECT_POINTERS + L.INODE_INDIRECT_POINTERS_PER_BLOCK) :
    ∀ (fuel i : Nat), i + fuel = NB →
      (∀ i2, i2 < i → bmap L h pino i2 ≠ 0 ∧
        find_free_entry L (h.device.blocks (bmap L h pino i2))
          L.DIRECTORY_ENTRIES_PER_BLOCK 0 = none) →
      (∃ (h2 : HfsData) (pino2 : Inode) (i0 : Nat),
          add_dir_entry_loop L name n fuel h pino i = (h2, pino2, some 0) ∧
          DirAdded L h pino name n h2 pino2 i0) ∨
        (add_dir_entry_loop L name n fuel h pino i = (h, pino, none) ∧
          ∀ i2, i2 < NB → bmap L h pino i2 ≠ 0 ∧
            find_free_entry L (h.device.blocks (bmap L h pino i2))
              L.DIRECTORY_ENTRIES_PER_BLOCK 0 = none) := by
  have hbs : 0 < L.BLOCK_SIZE := by
    have := hL.dirent_fits; unfold HfsLayout.DIRENT_SIZE at this; omega
  have hds : 0 < L.DIRENT_SIZE := by unfold HfsLayout.DIRENT_SIZE; omega
  have hpos : 0 < L.DIRECTORY_ENTRIES_PER_BLOCK :=
    Nat.div_pos hL.dirent_fits (by unfold HfsLayout.DIRENT_SIZE; omega)
  intro fuel
  induction fuel with
  | zero =>
    intro i hi hfull
    right
    exact ⟨rfl, fun i2 hi2 => hfull i2 (by omega)⟩
  | succ fuel ih =>
    intro i hi hfull
    have hiN : i < L.INODE_DIRECT_POINTERS + L.INODE_INDIRECT_POINTERS_PER_BLOCK + 1 := by omega
    by_cases hb0 : bmap L h pino i = 0
    · left
      obtain ⟨h1, pino1, nb, ha, A⟩ := alloc_block_for_offset_spec L h pino (i * L.BLOCK_SIZE)
        hs hsync hv hd.ptrs hd.ind_sep (by rw [Nat.mul_div_cancel _ hbs]; omega) hfree
      rw [Nat.mul_div_cancel _ hbs] at A
      refine ⟨_, _, i, add_loop_step_hole L hL h h1 pino pino1 name n fuel i nb hs hd.ptrs hiN
        hb0 ha A, ?_⟩
      rw [inode_size_ite, A.size_eq]
      obtain ⟨p1, p2, p3⟩ := size_update_props L pino.i_size i ((0 + 1) * L.DIRENT_SIZE)
        (by omega) (epb_mul_le L 0 hpos) hroom (hNB1 i (by omega))
      exact dirAdded_alloc L hL h h1 pino pino1 name n i nb _ hs hd hname hlen hn0 hn hunused A
        (fun t => by unfold scanRes; rw [if_neg (fun x => x.2 hb0)]) p1 p2 p3
    · cases hslot : find_free_entry L (h.device.blocks (bmap L h pino i))
        L.DIRECTORY_ENTRIES_PER_BLOCK 0 with
      | some j0 =>
        left
        obtain ⟨_, hj0, hfr⟩ := find_free_entry_some L _ _ 0 j0 hslot
        exact ⟨_, _, i, add_loop_step_existing L hL h pino name n fuel i j0 hs hd.ptrs hiN hb0
          hslot, dirAdded_existing L hL h pino name n i j0 hs hsync hd hv hname hlen hn0 hn
            hunused hroom (hNB1 i (by omega)) hb0 (by omega) hfr⟩
      | none =>
        rw [add_loop_step_full L hL h pino name n fuel i hs hd.ptrs hiN hb0 hslot]
        apply ih (i + 1) (by omega)
        intro i2 hi2
        by_cases e : i2 = i
        · rw [e]; exact ⟨hb0, hslot⟩
        · exact hfull i2 (by omega)

/-- `add_dir_entry` succeeds on a consistent directory that does not hold the
name and has room for one more block, when two blocks are free. -/
theorem add_dir_entry_spec (L : HfsLayout) (hL : L.Ok) (h : HfsData) (pino : Inode)
    (name : List Nat) (n : Nat) (hs : SbOk L h) (hsync : h.Synced)
    (hfree : 2 ≤ h.free_blocks) (hd : DirInodeOk L h pino) (hv : pino.Valid L)
    (hdir : pino.i_is_directory ≠ 0)
    (hname : CStr name) (hlen : name.length < L.DIRECTORY_NAME_SIZE)
    (hn0 : n ≠ 0) (hn : n < 4294967296)
    (hunused : ∀ i2, scanRes L h pino name i2 = none)
    (hroom : pino.i_size + L.BLOCK_SIZE
      ≤ (L.INODE_DIRECT_POINTERS + L.INODE_INDIRECT_POINTERS_PER_BLOCK) * L.BLOCK_SIZE) :
    ∃ (h2 : HfsData) (pino2 : Inode) (i0 : Nat),
      add_dir_entry L h pino name n = (h2, pino2, 0) ∧ DirAdded L h pino name n h2 pino2 i0 := by
  have hbs : 0 < L.BLOCK_SIZE := by
    have := hL.dirent_fits; unfold HfsLayout.DIRENT_SIZE at this; omega
  have hds : 0 < L.DIRENT_SIZE := by unfold HfsLayout.DIRENT_SIZE; omega
  have hpos : 0 < L.DIRECTORY_ENTRIES_PER_BLOCK :=
    Nat.div_pos hL.dirent_fits (by unfold HfsLayout.DIRENT_SIZE; omega)
  have hfm := hL.file_max
  have hexp : (L.INODE_DIRECT_POINTERS + L.INODE_INDIRECT_POINTERS_PER_BLOCK + 1) * L.BLOCK_SIZE
      = (L.INODE_DIRECT_POINTERS + L.INODE_INDIRECT_POINTERS_PER_BLOCK) * L.BLOCK_SIZE
        + L.BLOCK_SIZE := by
    rw [Nat.add_mul, Nat.one_mul]
  have hipb : 2 ≤ L.INODE_INDIRECT_POINTERS_PER_BLOCK := by
    unfold HfsLayout.INODE_INDIRECT_POINTERS_PER_BLOCK
    have := hL.dirent_fits
    unfold HfsLayout.DIRENT_SIZE at this
    omega
  have hcdef : ∀ i, i < (pino.i_size + L.BLOCK_SIZE - 1) / L.BLOCK_SIZE ↔
      i * L.BLOCK_SIZE < pino.i_size := fun i => ceil_lt_iff _ _ _ hbs
  have hclt : (pino.i_size + L.BLOCK_SIZE - 1) / L.BLOCK_SIZE
      < L.INODE_DIRECT_POINTERS + L.INODE_INDIRECT_POINTERS_PER_BLOCK := by
    by_contra hge
    have := (hcdef (L.INODE_DIRECT_POINTERS + L.INODE_INDIRECT_POINTERS_PER_BLOCK - 1)).1
      (by omega)
    have e : (L.INODE_DIRECT_POINTERS + L.INODE_INDIRECT_POINTERS_PER_BLOCK - 1) * L.BLOCK_SIZE
        + L.BLOCK_SIZE
        = (L.INODE_DIRECT_POINTERS + L.INODE_INDIRECT_POINTERS_PER_BLOCK) * L.BLOCK_SIZE := by
      rw [← Nat.succ_mul]
      congr 1
      omega
    omega
  unfold add_dir_entry
  rw [if_neg hdir, Nat.mod_eq_of_lt (show pino.i_size + L.BLOCK_SIZE - 1 < U32 by
    unfold U32; omega)]
  simp only []
  generalize hNB : (if (pino.i_size + L.BLOCK_SIZE - 1) / L.BLOCK_SIZE = 0 then 1
    else (pino.i_size + L.BLOCK_SIZE - 1) / L.BLOCK_SIZE) = NB
  have hNBge : (pino.i_size + L.BLOCK_SIZE - 1) / L.BLOCK_SIZE ≤ NB := by
    rw [← hNB]; split_ifs <;> omega
  have hNB1 : ∀ i, i < NB → i * L.BLOCK_SIZE < pino.i_size ∨ i = 0 := by
    intro i hi
    rw [← hNB] at hi
    by_cases hc : (pino.i_size + L.BLOCK_SIZE - 1) / L.BLOCK_SIZE = 0
    · rw [if_pos hc] at hi; right; omega
    · rw [if_neg hc] at hi; left; exact (hcdef i).1 hi
  have hNB2 : NB < L.INODE_DIRECT_POINTERS + L.INODE_INDIRECT_POINTERS_PER_BLOCK := by
    rw [← hNB]; split_ifs <;> omega
  rcases add_dir_entry_loop_spec L hL h pino name n NB hs hsync hfree hd hv hname hlen hn0 hn
      hunused hroom hNB1 hNB2 NB 0 (by omega) (fun i2 hi2 => by omega) with
    ⟨h2, pino2, i0, hloop, hadd⟩ | ⟨hloop, hfull⟩
  · rw [hloop]
    exact ⟨h2, pino2, i0, rfl, hadd⟩
  · rw [hloop]
    simp only []
    have hNBlt := lt_u32_of_lt_file_max L hL NB L.DIRENT_SIZE (by omega) hL.dirent_fits
    rw [Nat.mod_eq_of_lt (show NB * L.BLOCK_SIZE < U32 by unfold U32; omega)]
    obtain ⟨h1, pino1, nb, ha, A⟩ := alloc_block_for_offset_spec L h pino (NB * L.BLOCK_SIZE)
      hs hsync hv hd.ptrs hd.ind_sep (by rw [Nat.mul_div_cancel _ hbs]; omega) hfree
    rw [Nat.mul_div_cancel _ hbs] at A
    have hu := dataUsed_lt A.sb (A.ptrs _ (by
      have := refsBlock_of_bmap L h1 pino1 NB (by
        rw [A.bmap_new]; have := hs.data_pos; have := A.fresh_ge; omega)
      rwa [A.bmap_new] at this))
    rw [ha]
    simp only [natCast_not_neg, if_false]
    rw [toU32_natCast _ (by omega), blkwrite_of_lt _ _ _ hu.2.2,
      Nat.mod_eq_of_lt (show NB * L.BLOCK_SIZE + L.DIRENT_SIZE < U32 by unfold U32; omega)]
    refine ⟨_, _, NB, rfl, ?_⟩
    have hNBm := mul_lt_of_lt NB _ L.BLOCK_SIZE hNB2
    apply dirAdded_alloc L hL h h1 pino pino1 name n NB nb _ hs hd hname hlen hn0 hn hunused A
      (fun t => scanRes_none_of_ge L h pino t NB hNBge)
    · have := hL.dirent_fits; omega
    · omega
    · intro i2 hi2
      constructor
      · intro hlt
        have hi : i2 < NB := by
          by_contra hge
          have := mul_lt_of_lt NB i2 L.BLOCK_SIZE (by omega)
          have := hL.dirent_fits
          omega
        obtain ⟨hb, hf⟩ := hfull i2 hi
        have h0 := find_free_entry_none L _ _ 0 hf 0 (Nat.le_refl _) (by omega)
        have := hd.in_size i2 0 hpos hb h0
        omega
      · intro hlt
        have := (hcdef i2).2 hlt
        have := mul_lt_of_lt i2 NB L.BLOCK_SIZE (by omega)
        omega

/-! ## File system: paths -/

theorem resolve_path_eq_tokens (L : HfsLayout) (h : HfsData) (path : List Nat)
    (hne : path ≠ []) :
    resolve_path L h path = resolve_path_loop L h (path_tokens path) 0 := by
  unfold resolve_path
  rw [if_neg hne]
  by_cases e : path = [SLASH]
  · rw [if_pos e, e]
    rfl
  · rw [if_neg e]
    rfl

theorem find_last_slash_loop_spec :
    ∀ (str : List Nat) (k : Nat) (last : Option Nat),
      (find_last_slash_loop str k last = last ∧ ∀ c, c ∈ str → c ≠ SLASH) ∨
      (∃ pre post, str = pre ++ SLASH :: post ∧ (∀ c, c ∈ post → c ≠ SLASH) ∧
        find_last_slash_loop str k last = some (k + pre.length)) := by
  intro str
  induction str with
  | nil => intro k last; left; exact ⟨rfl, fun c hc => by simp at hc⟩
  | cons c cs ih =>
    intro k last
    simp only [find_last_slash_loop]
    rcases ih (k + 1) (if c = SLASH then some k else last) with ⟨h1, h2⟩ | ⟨pre, post, h1, h2, h3⟩
    · by_cases hc : c = SLASH
      · right
        refine ⟨[], cs, by rw [hc]; rfl, h2, ?_⟩
        rw [h1, if_pos hc]
        rfl
      · left
        rw [h1, if_neg hc]
        refine ⟨rfl, fun x hx => ?_⟩
        rcases List.mem_cons.1 hx with e | e
        · rw [e]; exact hc
        · exact h2 x e
    · right
      refine ⟨c :: pre, post, by rw [h1]; rfl, h2, ?_⟩
      rw [h3]
      simp only [List.length_cons]
      congr 1
      omega

theorem find_last_slash_spec (str : List Nat) :
    (find_last_slash str = none ∧ ∀ c, c ∈ str → c ≠ SLASH) ∨
      (∃ pre post, str = pre ++ SLASH :: post ∧ (∀ c, c ∈ post → c ≠ SLASH) ∧
        find_last_slash str = some pre.length) := by
  unfold find_last_slash
  rcases find_last_slash_loop_spec str 0 none with h | ⟨pre, post, h1, h2, h3⟩
  · exact Or.inl h
  · exact Or.inr ⟨pre, post, h1, h2, by rw [h3, Nat.zero_add]⟩

theorem strtok_noslash :
    ∀ (s acc : List Nat), (∀ c, c ∈ s → c ≠ SLASH) →
      strtok_tokens s acc = if acc.reverse ++ s = [] then [] else [acc.reverse ++ s] := by
  intro s
  induction s with
  | nil =>
    intro acc _
    simp only [strtok_tokens, List.append_nil, List.reverse_eq_nil_iff]
  | cons c cs ih =>
    intro acc h
    simp only [strtok_tokens]
    rw [if_neg (h c (List.mem_cons_self _ _)), ih (c :: acc) (fun x hx => h x (List.mem_cons_of_mem _ hx))]
    simp

theorem strtok_append :
    ∀ (x acc name : List Nat), (∀ c, c ∈ name → c ≠ SLASH) → name ≠ [] →
      strtok_tokens (x ++ SLASH :: name) acc = strtok_tokens x acc ++ [name] := by
  intro x
  induction x with
  | nil =>
    intro acc name h hne
    have e : strtok_tokens name [] = [name] := by
      rw [strtok_noslash name [] h]
      simp [hne]
    simp only [List.nil_append, strtok_tokens, if_true, e]
    by_cases ha : acc = []
    · simp [ha]
    · simp [ha]
  | cons c cs ih =>
    intro acc name h hne
    simp only [List.cons_append, strtok_tokens]
    by_cases hc : c = SLASH
    · simp only [hc, if_true]
      by_cases ha : acc = []
      · simp only [ha, if_true]
        exact ih [] name h hne
      · simp only [ha, if_false, List.cons_append]
        congr 1
        exact ih [] name h hne
    · simp only [hc, if_false]
      exact ih (c :: acc) name h hne

theorem strtok_mem :
    ∀ (s acc t : List Nat), t ∈ strtok_tokens s acc → ∀ c, c ∈ t → c ∈ s ∨ c ∈ acc := by
  intro s
  induction s with
  | nil =>
    intro acc t ht c hc
    simp only [strtok_tokens] at ht
    by_cases ha : acc = []
    · simp [ha] at ht
    · simp only [ha, if_false, List.mem_singleton] at ht
      right
      rw [ht] at hc
      exact List.mem_reverse.1 hc
  | cons x xs ih =>
    intro acc t ht c hc
    simp only [strtok_tokens] at ht
    by_cases hx : x = SLASH
    · simp only [hx, if_true] at ht
      by_cases ha : acc = []
      · simp only [ha, if_true] at ht
        rcases ih [] t ht c hc with e | e
        · exact Or.inl (List.mem_cons_of_mem _ e)
        · simp at e
      · simp only [ha, if_false, List.mem_cons] at ht
        rcases ht with e | e
        · right; rw [e] at hc; exact List.mem_reverse.1 hc
        · rcases ih [] t e c hc with e2 | e2
          · exact Or.inl (List.mem_cons_of_mem _ e2)
          · simp at e2
    · simp only [hx, if_false] at ht
      rcases ih (x :: acc) t ht c hc with e | e
      · exact Or.inl (List.mem_cons_of_mem _ e)
      · rcases List.mem_cons.1 e with e2 | e2
        · left; rw [e2]; exact List.mem_cons_self _ _
        · exact Or.inr e2

theorem path_tokens_cstr (path : List Nat) (hp : CStr path) :
    ∀ t, t ∈ path_tokens path → CStr t := by
  intro t ht c hc
  unfold path_tokens at ht
  have hsub : ∀ x, x ∈ (if (path.take 255).head? = some SLASH then (path.take 255).drop 1
      else path.take 255) → x ∈ path := by
    intro x hx
    split_ifs at hx
    · exact List.mem_of_mem_take (List.mem_of_mem_drop hx)
    · exact List.mem_of_mem_take hx
  rcases strtok_mem _ [] t ht c hc with e | e
  · exact hp c (hsub c e)
  · simp at e

/-- The tokens of a path are the tokens of its parent path followed by its
final name. -/
theorem path_tokens_split (L : HfsLayout) (path parent name : List Nat)
    (hlen : path.length < 256) (hsplit : split_path L path = some (parent, name))
    (hname : name ≠ []) :
    parent ≠ [] ∧ name.length < L.DIRECTORY_NAME_SIZE ∧ (∀ c, c ∈ name → c ∈ path) ∧
      path_tokens path = path_tokens parent ++ [name] := by
  have htake : ∀ (l : List Nat), l.length < 256 → l.take 255 = l :=
    fun l hl => List.take_of_length_le (by omega)
  have hslash : path_tokens [SLASH] = [] := rfl
  unfold split_path at hsplit
  rcases find_last_slash_spec path with ⟨h1, h2⟩ | ⟨pre, post, h1, h2, h3⟩
  · rw [h1] at hsplit
    simp only [Option.ite_none_right_eq_some, Option.some.injEq, Prod.mk.injEq] at hsplit
    obtain ⟨⟨_, hl⟩, hp, hn⟩ := hsplit
    rw [← hp, ← hn, hslash]
    rw [← hn] at hname
    refine ⟨by simp, hl, fun c hc => hc, ?_⟩
    unfold path_tokens
    rw [htake _ hlen]
    have hh : ¬ path.head? = some SLASH := by
      intro e
      cases path with
      | nil => exact hname rfl
      | cons a as =>
        simp only [List.head?_cons, Option.some.injEq] at e
        exact h2 a (List.mem_cons_self _ _) e
    rw [if_neg hh, strtok_noslash path [] h2]
    simp [hname]
  · rw [h3] at hsplit
    simp only [Option.ite_none_right_eq_some, Option.some.injEq] at hsplit
    obtain ⟨⟨_, hl⟩, hpn⟩ := hsplit
    have e2 : path.drop (pre.length + 1) = post := by
      rw [h1, List.drop_append_eq_append_drop]
      simp
    by_cases hpre : pre.length = 0
    · rw [if_pos hpre] at hpn hl
      have hpre2 : pre = [] := List.length_eq_zero.1 hpre
      rw [hpre2] at h1
      simp only [List.nil_append] at h1
      simp only [Prod.mk.injEq] at hpn
      obtain ⟨hp, hn⟩ := hpn
      have e3 : path.drop 1 = post := by rw [h1]; rfl
      rw [e3] at hn hl
      rw [← hp, ← hn, hslash]
      rw [← hn] at hname
      refine ⟨by simp, hl, fun c hc => by rw [h1]; exact List.mem_cons_of_mem _ hc, ?_⟩
      unfold path_tokens
      rw [htake _ hlen, h1]
      simp only [List.head?_cons, if_true, List.drop_succ_cons, List.drop_zero]
      rw [strtok_noslash post [] h2]
      simp [hname]
    · rw [if_neg hpre] at hpn hl
      simp only [Prod.mk.injEq] at hpn
      obtain ⟨hp, hn⟩ := hpn
      have e1 : path.take pre.length = pre := by rw [h1]; simp
      rw [e1] at hp
      rw [e2] at hn hl
      rw [← hp, ← hn]
      rw [← hn] at hname
      have hprene : pre ≠ [] := fun e => hpre (by rw [e]; rfl)
      refine ⟨hprene, hl, fun c hc => by rw [h1]; simp [hc], ?_⟩
      have hplen : pre.length < 256 := by
        rw [h1] at hlen
        simp at hlen
        omega
      unfold path_tokens
      rw [htake _ hlen, htake _ hplen]
      obtain ⟨a, as, ha⟩ : ∃ a as, pre = a :: as := by
        cases pre with
        | nil => exact absurd rfl hprene
        | cons a as => exact ⟨a, as, rfl⟩
      rw [h1, ha]
      simp only [List.cons_append, List.head?_cons, List.drop_succ_cons, List.drop_zero]
      by_cases hs : a = SLASH
      · simp only [hs, if_true]
        exact strtok_append as [] post h2 hname
      · have hs2 : ¬ some a = some SLASH := by simpa using hs
        simp only [hs2, if_false]
        have := strtok_append (a :: as) [] post h2 hname
        simpa using this

/-! ## File system: lookups in a changed state -/

theorem block_size_pos (L : HfsLayout) (hL : L.Ok) : 0 < L.BLOCK_SIZE := by
  have := hL.dirent_fits
  unfold HfsLayout.DIRENT_SIZE at this
  omega

theorem maxb_mul_lt (L : HfsLayout) (hL : L.Ok) : L.MAXB * L.BLOCK_SIZE < 2147483648 :=
  hL.file_max

theorem eight_bs_lt (L : HfsLayout) (hL : L.Ok) : 8 * L.BLOCK_SIZE < 2147483648 := by
  have h1 := hL.file_max
  by_cases hb : L.BLOCK_SIZE < 16
  · omega
  · have h2 : 8 ≤ L.INODE_DIRECT_POINTERS + L.INODE_INDIRECT_POINTERS_PER_BLOCK + 1 := by
      unfold HfsLayout.INODE_INDIRECT_POINTERS_PER_BLOCK
      omega
    have h3 := Nat.mul_le_mul_right L.BLOCK_SIZE h2
    omega

theorem ceil_le_maxb (L : HfsLayout) (hL : L.Ok) (s : Nat)
    (hs : s + L.BLOCK_SIZE ≤ L.MAXB * L.BLOCK_SIZE) :
    (s + L.BLOCK_SIZE - 1) / L.BLOCK_SIZE ≤ L.MAXB := by
  have hbs := block_size_pos L hL
  have h1 : (s + L.BLOCK_SIZE - 1) / L.BLOCK_SIZE < L.MAXB + 1 := by
    rw [Nat.div_lt_iff_lt_mul hbs, Nat.add_mul, Nat.one_mul]
    omega
  omega

theorem inUse_lt (L : HfsLayout) (hL : L.Ok) (h : HfsData) (hs : SbOk L h) (i : Nat)
    (hi : h.inUse i) : i < 2147483648 := by
  have h1 := hi.1
  have h2 := hs.inodes_le_bits
  have h3 := eight_bs_lt L hL
  omega

theorem DirInodeOk.look {L : HfsLayout} {h : HfsData} {ino : Inode} (hd : DirInodeOk L h ino)
    (hdir : ino.i_is_directory ≠ 0) : DirLook L h ino := by
  refine ⟨hd.ptrs, hdir, ?_⟩
  have := hd.size_le
  unfold HfsLayout.MAXB
  rw [Nat.add_mul _ 1, Nat.one_mul]
  omega

/-- `find_dir_entry` returns the first value of the scan over all the block
indices of an inode. -/
theorem find_scan (L : HfsLayout) (hL : L.Ok) (h : HfsData) (hs : SbOk L h) (ino : Inode)
    (hd : DirLook L h ino) (t : List Nat) :
    find_dir_entry L h ino t = scanFrom (scanRes L h ino t) L.MAXB 0 :=
  find_dir_entry_eq_scan L h hs ino hd.ptrs t (block_size_pos L hL) hd.dir
    (by have := hd.size_le; have := maxb_mul_lt L hL; omega) L.MAXB
    (ceil_le_maxb L hL _ hd.size_le)

theorem scanRes_congr (L : HfsLayout) (A B : HfsData) (ino ino2 : Inode) (t : List Nat) (i : Nat)
    (hsz : ino2.i_size = ino.i_size) (hb : bmap L B ino2 i = bmap L A ino i)
    (hc : bmap L A ino i ≠ 0 →
      B.device.blocks (bmap L A ino i) = A.device.blocks (bmap L A ino i)) :
    scanRes L B ino2 t i = scanRes L A ino t i := by
  unfold scanRes
  rw [hsz, hb]
  by_cases h0 : bmap L A ino i = 0
  · simp [h0]
  · rw [hc h0]

/-- A directory whose blocks a change of state leaves alone gives the same
scan afterwards. -/
theorem dirLook_frame (L : HfsLayout) (A B : HfsData) (X Y : Nat → Prop) (ino : Inode)
    (f : Frame L A B X Y) (hd : DirLook L A ino) (hx : ∀ b, refsBlock L A ino b → ¬ X b) :
    DirLook L B ino ∧ ∀ t i, scanRes L B ino t i = scanRes L A ino t i := by
  obtain ⟨p1, p2, _⟩ := ptrsOk_of_frame hd.ptrs f (fun hi => hx _ ⟨hi, Or.inl rfl⟩)
  refine ⟨⟨p1, hd.dir, hd.size_le⟩, fun t i => ?_⟩
  exact scanRes_congr L A B ino ino t i rfl (p2 i) (fun h0 =>
    f.blocks_keep _ (hd.ptrs _ (refsBlock_of_bmap L A ino i h0))
      (hx _ (refsBlock_of_bmap L A ino i h0)))

theorem find_dir_entry_frame (L : HfsLayout) (hL : L.Ok) (A B : HfsData) (X Y : Nat → Prop)
    (ino : Inode) (hs : SbOk L A) (f : Frame L A B X Y) (hd : DirLook L A ino)
    (hx : ∀ b, refsBlock L A ino b → ¬ X b) (t : List Nat) :
    find_dir_entry L B ino t = find_dir_entry L A ino t := by
  obtain ⟨d2, e⟩ := dirLook_frame L A B X Y ino f hd hx
  rw [find_scan L hL B (sbOk_of_frame hs f) ino d2, find_scan L hL A hs ino hd]
  exact scanFrom_congr _ _ _ _ (fun i _ _ => e t i)

/-- A lookup in a consistent directory fails, the name being in none of its
blocks, or returns the number of an inode in use. -/
theorem find_dir_entry_cases (L : HfsLayout) (hL : L.Ok) (h : HfsData) (hs : SbOk L h)
    (ino : Inode) (hd : DirInodeOk L h ino) (hdir : ino.i_is_directory ≠ 0) (t : List Nat) :
    (find_dir_entry L h ino t = -1 ∧ ∀ i, scanRes L h ino t i = none) ∨
      (∃ (r i0 : Nat), find_dir_entry L h ino t = (r : Int) ∧ h.inUse r ∧ r ≠ 0 ∧
        scanRes L h ino t i0 = some r ∧ ∀ i2, i2 < i0 → scanRes L h ino t i2 = none) := by
  have hl := hd.look hdir
  rw [find_scan L hL h hs ino hl]
  rcases scanFrom_cases (scanRes L h ino t) L.MAXB 0 with ⟨e, hn⟩ | ⟨i0, r, _, _, hr, hb, e⟩
  · left
    refine ⟨e, fun i => ?_⟩
    by_cases hi : i < L.MAXB
    · exact hn i (Nat.zero_le _) (by omega)
    · exact scanRes_none_of_ge L h ino t i
        (Nat.le_trans (ceil_le_maxb L hL _ hl.size_le) (by omega))
  · right
    have hr2 := hr
    unfold scanRes at hr2
    by_cases hc : i0 < (ino.i_size + L.BLOCK_SIZE - 1) / L.BLOCK_SIZE ∧ bmap L h ino i0 ≠ 0
    · rw [if_pos hc] at hr2
      obtain ⟨j2, _, hj2, e1, e2, _⟩ := find_dir_entry_block_some L _ t _ _ r hr2
      have hu := hd.targets _ j2 (bmap_dataBlockOf L h ino i0 hc.2) (by omega)
        (by rw [e1]; exact e2)
      rw [e1] at hu
      refine ⟨r, i0, ?_, hu, e2, hr, fun i2 hi2 => hb i2 (Nat.zero_le _) hi2⟩
      rw [e, toInt32_of_lt r (inUse_lt L hL h hs r hu)]
    · rw [if_neg hc] at hr2
      exact absurd hr2 (by simp)

theorem toInt32_lt (x : Nat) : toInt32 x < 2147483648 := by
  unfold toInt32
  split_ifs with h
  · omega
  · have : x % U32 < 4294967296 := Nat.mod_lt _ (by unfold U32; norm_num)
    omega

theorem find_dir_entry_loop_lt (L : HfsLayout) (h : HfsData) (ino : Inode) (t : List Nat) :
    ∀ (fuel i : Nat), find_dir_entry_loop L h ino t fuel i < 2147483648 := by
  intro fuel
  induction fuel with
  | zero => intro i; simp [find_dir_entry_loop]
  | succ k ih =>
    intro i
    simp only [find_dir_entry_loop]
    split_ifs
    · exact ih _
    · cases blkread h.device (toU32 (get_block_for_offset L h ino (i * L.BLOCK_SIZE % U32))) with
      | none => exact ih _
      | some blk =>
        simp only []
        cases find_dir_entry_block L blk t L.DIRECTORY_ENTRIES_PER_BLOCK 0 with
        | none => exact ih _
        | some r => exact toInt32_lt r

theorem find_dir_entry_lt (L : HfsLayout) (h : HfsData) (ino : Inode) (t : List Nat) :
    find_dir_entry L h ino t < 2147483648 := by
  unfold find_dir_entry
  split_ifs
  · omega
  · exact find_dir_entry_loop_lt L h ino t _ _

theorem toU32_toInt32 (c : Nat) (hc : c < 2147483648) : toU32 (toInt32 c) = c := by
  rw [toInt32_of_lt c hc, toU32_natCast c (by omega)]

theorem toU32_lt_of_nonneg (z : Int) (h0 : 0 ≤ z) (h1 : z < 2147483648) :
    toU32 z < 2147483648 := by
  unfold toU32
  omega

theorem resolve_loop_cons (L : HfsLayout) (h : HfsData) (x : List Nat) (xs : List (List Nat))
    (c : Nat) (ino : Inode) (hr : read_inode L h c = some ino) (hd : ino.i_is_directory ≠ 0)
    (hf : ¬ find_dir_entry L h ino x < 0) :
    resolve_path_loop L h (x :: xs) c
      = resolve_path_loop L h xs (toU32 (find_dir_entry L h ino x)) := by
  simp only [resolve_path_loop, hr]
  rw [if_neg hd, if_neg hf]

theorem resolve_loop_cons_nonneg (L : HfsLayout) (h : HfsData) (x : List Nat)
    (xs : List (List Nat)) (c : Nat) (h0 : 0 ≤ resolve_path_loop L h (x :: xs) c) :
    ∃ ino, read_inode L h c = some ino ∧ ino.i_is_directory ≠ 0 ∧
      ¬ find_dir_entry L h ino x < 0 := by
  simp only [resolve_path_loop] at h0
  cases hr : read_inode L h c with
  | none =>
    rw [hr] at h0
    simp only [] at h0
    exact absurd h0 (by decide)
  | some ino =>
    rw [hr] at h0
    simp only [] at h0
    by_cases hd : ino.i_is_directory = 0
    · rw [if_pos hd] at h0; exact absurd h0 (by decide)
    · rw [if_neg hd] at h0
      by_cases hf : find_dir_entry L h ino x < 0
      · rw [if_pos hf] at h0; exact absurd h0 (by decide)
      · exact ⟨ino, rfl, hd, hf⟩

/-- The walk over a list of tokens followed by the walk over a second list is
the walk over both. -/
theorem resolve_loop_append (L : HfsLayout) (h : HfsData) (ys : List (List Nat)) :
    ∀ (xs : List (List Nat)) (c : Nat), c < 2147483648 → 0 ≤ resolve_path_loop L h xs c →
      resolve_path_loop L h (xs ++ ys) c
        = resolve_path_loop L h ys (toU32 (resolve_path_loop L h xs c)) := by
  intro xs
  induction xs with
  | nil =>
    intro c hc _
    simp only [List.nil_append, resolve_path_loop]
    rw [toU32_toInt32 c hc]
  | cons x xs ih =>
    intro c hc h0
    obtain ⟨ino, hr, hd, hf⟩ := resolve_loop_cons_nonneg L h x xs c h0
    rw [resolve_loop_cons L h x xs c ino hr hd hf] at h0 ⊢
    rw [List.cons_append, resolve_loop_cons L h x (xs ++ ys) c ino hr hd hf]
    exact ih _ (toU32_lt_of_nonneg _ (by omega) (find_dir_entry_lt L h ino x)) h0

/-- A walk that succeeds in a state `A` gives the same inode in a state `B`
that answers the lookups of the walk as `A` does. -/
theorem resolve_loop_transfer (L : HfsLayout) (A B : HfsData) (S : Nat → Prop)
    (hS : ∀ c, S c → c < 2147483648)
    (hstep : ∀ c ino t, S c → read_inode L A c = some ino → ino.i_is_directory ≠ 0 → CStr t →
      0 ≤ find_dir_entry L A ino t →
      S (toU32 (find_dir_entry L A ino t)) ∧
        ∃ ino2, read_inode L B c = some ino2 ∧ ino2.i_is_directory ≠ 0 ∧
          find_dir_entry L B ino2 t = find_dir_entry L A ino t) :
    ∀ (toks : List (List Nat)) (c : Nat), S c → (∀ t, t ∈ toks → CStr t) →
      0 ≤ resolve_path_loop L A toks c →
      resolve_path_loop L B toks c = resolve_path_loop L A toks c ∧
        S (toU32 (resolve_path_loop L A toks c)) := by
  intro toks
  induction toks with
  | nil =>
    intro c hc _ _
    simp only [resolve_path_loop]
    rw [toU32_toInt32 c (hS c hc)]
    exact ⟨trivial, hc⟩
  | cons x xs ih =>
    intro c hc ht h0
    obtain ⟨ino, hr, hd, hf⟩ := resolve_loop_cons_nonneg L A x xs c h0
    obtain ⟨s1, ino2, r2, d2, f2⟩ :=
      hstep c ino x hc hr hd (ht x (List.mem_cons_self _ _)) (by omega)
    rw [resolve_loop_cons L A x xs c ino hr hd hf] at h0 ⊢
    rw [resolve_loop_cons L B x xs c ino2 r2 d2 (by rw [f2]; exact hf), f2]
    exact ih _ s1 (fun t ht2 => ht t (List.mem_cons_of_mem _ ht2)) h0

/-! ## File system: removal of the root -/

theorem resolve_path_root (L : HfsLayout) (hfs : HfsData) : resolve_path L hfs [SLASH] = 0 := by
  unfold resolve_path
  rw [if_neg (by simp), if_pos rfl]

theorem hfs_remove_depth_zero_inode (L : HfsLayout) (hfs : HfsData) (path : List Nat) (depth : Nat)
    (h : resolve_path L hfs path = 0) :
    hfs_remove_depth L (depth + 1) hfs path = some (hfs, -1) := by
  simp only [hfs_remove_depth, h]
  rfl

/-- C20: for every state of a mounted file system and every path that
resolves to inode 0, `hfs_remove` returns -1 and the state it leaves, the
device with all its blocks and the two in-memory bitmaps, is the state before
the call; the path `/` is such a path in every state. -/
theorem hfs_remove_root_refused (L : HfsLayout) (hfs : HfsData) (path : List Nat)
    (h : resolve_path L hfs path = 0) :
    hfs_remove L hfs path = some (hfs, -1) ∧ hfs_remove L hfs [SLASH] = some (hfs, -1) :=
  ⟨hfs_remove_depth_zero_inode L hfs path 511 h,
    hfs_remove_depth_zero_inode L hfs [SLASH] 511 (resolve_path_root L hfs)⟩

theorem hfs_remove_root_refused_witness :
    resolve_path hfsSmallLayout hfsSmall [SLASH, SLASH] = 0 ∧
      hfs_remove hfsSmallLayout hfsSmall [SLASH, SLASH] = some (hfsSmall, -1) ∧
      hfs_remove hfsSmallLayout hfsSmall [SLASH] = some (hfsSmall, -1) :=
  ⟨by decide, hfs_remove_root_refused hfsSmallLayout hfsSmall [SLASH, SLASH] (by decide)⟩
/-! ## File system: operations on the contents -/

theorem read_inode_congr (L : HfsLayout) (h h2 : HfsData) (hs : SbOk L h) (e : SameSb h h2)
    (hb : ∀ i, i < h.sb.s_inodes_count →
      h2.device.blocks (h.tableBlock L i) = h.device.blocks (h.tableBlock L i)) (i : Nat) :
    read_inode L h2 i = read_inode L h i := by
  by_cases hi : i < h.sb.s_inodes_count
  · rw [read_inode_eq L h2 (hs.of_eq e.1 e.2) i (by rw [e.1]; exact hi), read_inode_eq L h hs i hi]
    have etb : h2.tableBlock L i = h.tableBlock L i := by
      unfold HfsData.tableBlock
      rw [e.1]
    rw [etb, hb i hi]
  · rw [read_inode_none L h i (by omega), read_inode_none L h2 i (by rw [e.1]; omega)]

theorem testBit_ones (k : Nat) (hk : k < 32) : (4294967295 : Nat).testBit k = true := by
  have e : (4294967295 : Nat) = 2 ^ 32 - 1 := by norm_num
  rw [e, Nat.testBit_two_pow_sub_one]
  exact decide_eq_true hk

theorem get_bit_clear_bit (bm : Nat → Nat) (i j : Nat) :
    get_bit (clear_bit bm i) j = if j = i then 0 else get_bit bm j := by
  rw [get_bit_eq, get_bit_eq]
  unfold clear_bit
  by_cases hw : j / 32 = i / 32
  · rw [hw, load32_store32_same]
    have hlt := load32_lt bm (4 * (i / 32))
    have hmod : (load32 bm (4 * (i / 32)) &&& not32 (1 <<< (i % 32))) % 4294967296
        = load32 bm (4 * (i / 32)) &&& not32 (1 <<< (i % 32)) :=
      Nat.mod_eq_of_lt (lt_of_le_of_lt Nat.and_le_left hlt)
    rw [hmod, Nat.testBit_and]
    have hi32 : i % 32 < 32 := Nat.mod_lt _ (by decide)
    have hj32 : j % 32 < 32 := Nat.mod_lt _ (by decide)
    have hone : (1 <<< (i % 32)) % U32 = 2 ^ (i % 32) := by
      rw [Nat.one_shiftLeft]
      exact Nat.mod_eq_of_lt
        (lt_of_lt_of_le (Nat.pow_lt_pow_right (by decide) hi32) (by decide))
    have hnot : (not32 (1 <<< (i % 32))).testBit (j % 32)
        = !decide (i % 32 = j % 32) := by
      unfold not32
      rw [hone, Nat.testBit_xor, Nat.testBit_two_pow]
      rw [testBit_ones _ hj32]
      simp
    rw [hnot]
    by_cases hji : j = i
    · rw [if_pos hji, hji]
      simp
    · rw [if_neg hji]
      have hne : ¬ i % 32 = j % 32 := by omega
      simp [hne]
  · have hji : ¬ j = i := fun e => hw (by rw [e])
    rw [load32_store32_disj _ _ _ _ (by omega), if_neg hji]

theorem bytes_store32 (m : Nat → Nat) (a v : Nat) (h : Bytes m) : Bytes (store32 m a v) := by
  intro x
  unfold store32
  split_ifs
  · exact Nat.mod_lt _ (by decide)
  · exact Nat.mod_lt _ (by decide)
  · exact Nat.mod_lt _ (by decide)
  · exact Nat.mod_lt _ (by decide)
  · exact h x

theorem bytes_zero_block : Bytes zero_block := fun _ => by
  show (0 : Nat) < 256
  decide

theorem bytes_set_bit (bm : Nat → Nat) (i : Nat) (h : Bytes bm) : Bytes (set_bit bm i) :=
  bytes_store32 _ _ _ h

theorem bytes_clear_bit (bm : Nat → Nat) (i : Nat) (h : Bytes bm) : Bytes (clear_bit bm i) :=
  bytes_store32 _ _ _ h

theorem store32_load32_self (m : Nat → Nat) (a : Nat) (h : Bytes m) :
    store32 m a (load32 m a) = m := by
  funext x
  have h0 := h a
  have h1 := h (a + 1)
  have h2 := h (a + 2)
  have h3 := h (a + 3)
  unfold store32 load32
  rw [Nat.mod_eq_of_lt h0, Nat.mod_eq_of_lt h1, Nat.mod_eq_of_lt h2, Nat.mod_eq_of_lt h3]
  split_ifs with e1 e2 e3 e4
  · rw [e1]; omega
  · rw [e2]; omega
  · rw [e3]; omega
  · rw [e4]; omega
  · rfl

theorem store32_store32_same (m : Nat → Nat) (a v w : Nat) :
    store32 (store32 m a v) a w = store32 m a w := by
  funext x
  unfold store32
  split_ifs <;> rfl

/-- Clearing a bit that was set on a bitmap of bytes in which it was clear
gives the bitmap back. -/
theorem clear_set_cancel (bm : Nat → Nat) (i : Nat) (hb : Bytes bm) (h0 : get_bit bm i = 0) :
    clear_bit (set_bit bm i) i = bm := by
  have hi32 : i % 32 < 32 := Nat.mod_lt _ (by decide)
  have hlt := load32_lt bm (4 * (i / 32))
  have hone : (1 <<< (i % 32)) % U32 = 2 ^ (i % 32) := by
    rw [Nat.one_shiftLeft]
    exact Nat.mod_eq_of_lt
      (lt_of_lt_of_le (Nat.pow_lt_pow_right (by decide) hi32) (by decide))
  have hbit : (load32 bm (4 * (i / 32))).testBit (i % 32) = false := by
    rw [get_bit_eq] at h0
    by_cases e : (load32 bm (4 * (i / 32))).testBit (i % 32) = true
    · rw [if_pos e] at h0
      exact absurd h0 (by decide)
    · simpa using e
  have hword : ((load32 bm (4 * (i / 32)) ||| 1 <<< (i % 32)) % 4294967296)
      &&& not32 (1 <<< (i % 32)) = load32 bm (4 * (i / 32)) := by
    have hor : (load32 bm (4 * (i / 32)) ||| 1 <<< (i % 32)) < 4294967296 := by
      rw [Nat.one_shiftLeft]
      exact Nat.or_lt_two_pow (n := 32) hlt (Nat.pow_lt_pow_right (by decide) hi32)
    rw [Nat.mod_eq_of_lt hor]
    apply Nat.eq_of_testBit_eq
    intro k
    unfold not32
    rw [hone, Nat.testBit_and, Nat.testBit_or, Nat.testBit_xor, Nat.one_shiftLeft,
      Nat.testBit_two_pow]
    by_cases hk : i % 32 = k
    · rw [← hk, hbit, testBit_ones _ hi32]
      simp
    · have hk2 : decide (i % 32 = k) = false := decide_eq_false hk
      rw [hk2]
      by_cases hk32 : k < 32
      · rw [testBit_ones _ hk32]
        simp
      · have : (load32 bm (4 * (i / 32))).testBit k = false :=
          Nat.testBit_lt_two_pow (lt_of_lt_of_le hlt
            (Nat.pow_le_pow_right (show 0 < 2 by decide) (show 32 ≤ k by omega)))
        rw [this]
        simp
  unfold clear_bit set_bit
  rw [load32_store32_same, hword, store32_store32_same]
  exact store32_load32_self bm _ hb

theorem find_free_bit_loop_first (bm : Nat → Nat) (max_bits : Nat)
    (hmax : max_bits ≤ 2147483648) :
    ∀ (fuel i n : Nat), i ≤ n → n < max_bits → n - i < fuel →
      (∀ c, i ≤ c → c < n → get_bit bm c = 1) → get_bit bm n = 0 →
      find_free_bit_loop bm max_bits fuel i = (n : Int) := by
  intro fuel
  induction fuel with
  | zero => intro i n _ _ h; omega
  | succ f ih =>
    intro i n hin hn hf hset hclr
    unfold find_free_bit_loop
    rw [if_pos (by omega)]
    by_cases e : i = n
    · rw [e, if_pos hclr]
      exact toInt32_of_lt n (by omega)
    · have h1 : ¬ get_bit bm i = 0 := by
        rw [hset i (le_refl _) (by omega)]
        decide
      rw [if_neg h1]
      exact ih (i + 1) n (by omega) hn (by omega) (fun c h2 h3 => hset c (by omega) h3) hclr

theorem find_free_bit_from_first (bm : Nat → Nat) (start max_bits n : Nat)
    (hmax : max_bits ≤ 2147483648) (hsn : start ≤ n) (hn : n < max_bits)
    (hset : ∀ c, start ≤ c → c < n → get_bit bm c = 1) (hclr : get_bit bm n = 0) :
    find_free_bit_from bm start max_bits = (n : Int) :=
  find_free_bit_loop_first bm max_bits hmax _ start n hsn hn (by omega) hset hclr

theorem rep_bits_lt {L : HfsLayout} {sb0 : Superblock} {nblk : Nat} {h : HfsData} {v : View}
    (hL : L.Ok) (R : Rep L sb0 nblk h v) :
    sb0.s_blocks_count ≤ 65536 ∧ sb0.s_inodes_count < 2147483648 ∧
      sb0.s_blocks_count ≤ nblk ∧ sb0.s_data_blocks_start ≤ sb0.s_blocks_count ∧
      sb0.s_block_bitmap < sb0.s_data_blocks_start ∧
      sb0.s_inode_bitmap < sb0.s_data_blocks_start ∧ sb0.s_block_bitmap ≠ sb0.s_inode_bitmap := by
  have h1 := R.ok.blocks_le_u16
  have h2 := R.ok.inodes_le_bits
  have h3 := R.ok.blocks_le_dev
  have h4 := R.ok.data_le
  have h5 := R.ok.bbm_lt
  have h6 := R.ok.ibm_lt
  have h7 := R.ok.bbm_ne_ibm
  have h8 := eight_bs_lt L hL
  rw [R.sb_eq] at h1 h2 h3 h4 h5 h6 h7
  rw [R.nb_eq] at h3
  exact ⟨h1, by omega, h3, h4, h5, h6, h7⟩

theorem rep_sync {L : HfsLayout} {sb0 : Superblock} {nblk : Nat} {h : HfsData} {v : View}
    (hL : L.Ok) (R : Rep L sb0 nblk h v) : sync_bitmaps_from_disk h = h := by
  obtain ⟨b1, b2, b3, b4, b5, b6, b7⟩ := rep_bits_lt hL R
  have e1 : blkread h.device h.sb.s_block_bitmap = some h.block_bitmap := by
    rw [blkread_of_lt _ _ (by rw [R.sb_eq, R.nb_eq]; omega), R.bbm_mem, ← R.bbm_disk]
    rfl
  have e2 : blkread h.device h.sb.s_inode_bitmap = some h.inode_bitmap := by
    rw [blkread_of_lt _ _ (by rw [R.sb_eq, R.nb_eq]; omega), R.ibm_mem, ← R.ibm_disk]
    rfl
  unfold sync_bitmaps_from_disk
  rw [e1]
  dsimp only
  rw [e2]

theorem rep_read_inode {L : HfsLayout} {sb0 : Superblock} {nblk : Nat} {h : HfsData} {v : View}
    (R : Rep L sb0 nblk h v) (i : Nat) (hi : i < sb0.s_inodes_count) :
    read_inode L h i = some (v.inode i) := R.inode i hi

theorem rep_blkread {L : HfsLayout} {sb0 : Superblock} {nblk : Nat} {h : HfsData} {v : View}
    (hL : L.Ok) (R : Rep L sb0 nblk h v) (b : Nat) (hb : sb0.s_data_blocks_start ≤ b)
    (hb2 : b < sb0.s_blocks_count) : blkread h.device b = some (v.data b) := by
  obtain ⟨b1, b2, b3, b4, b5, b6, b7⟩ := rep_bits_lt hL R
  rw [blkread_of_lt _ _ (by rw [R.nb_eq]; omega), R.data b hb]

/-- A state that differs from one that holds the contents `v` in one block
outside the inode table and in the in-memory bitmaps holds the contents with
the bitmaps and that block replaced. -/
theorem rep_of_write {L : HfsLayout} {sb0 : Superblock} {nblk : Nat} {h : HfsData} {v : View}
    (R : Rep L sb0 nblk h v) (n : Nat) (buf bm im : Nat → Nat)
    (hn : ∀ i, i < sb0.s_inodes_count → h.tableBlock L i ≠ n) (v2 : View)
    (hbbm : bm = v2.bbm) (hibm : im = v2.ibm)
    (hbd : (if sb0.s_block_bitmap = n then buf else v.bbm) = v2.bbm)
    (hid : (if sb0.s_inode_bitmap = n then buf else v.ibm) = v2.ibm)
    (hino : v2.inode = v.inode)
    (hdata : ∀ b, sb0.s_data_blocks_start ≤ b → (if b = n then buf else v.data b) = v2.data b) :
    Rep L sb0 nblk
      { h with device := h.device.write n buf, block_bitmap := bm, inode_bitmap := im } v2 := by
  refine ⟨R.sb_eq, R.nb_eq, R.ok.of_eq rfl rfl, hbbm, ?_, hibm, ?_, ?_, ?_⟩
  · show (h.device.write n buf).blocks h.sb.s_block_bitmap = _
    rw [← hbd, R.sb_eq]
    by_cases e : sb0.s_block_bitmap = n
    · rw [if_pos e, e, write_blocks_same]
    · rw [if_neg e, write_blocks_other _ _ _ _ e, ← R.bbm_disk]
      show _ = h.device.blocks h.sb.s_block_bitmap
      rw [R.sb_eq]
  · show (h.device.write n buf).blocks h.sb.s_inode_bitmap = _
    rw [← hid, R.sb_eq]
    by_cases e : sb0.s_inode_bitmap = n
    · rw [if_pos e, e, write_blocks_same]
    · rw [if_neg e, write_blocks_other _ _ _ _ e, ← R.ibm_disk]
      show _ = h.device.blocks h.sb.s_inode_bitmap
      rw [R.sb_eq]
  · intro i hi
    rw [hino, ← R.inode i hi]
    refine read_inode_congr L h _ R.ok ?_ ?_ i
    · exact ⟨rfl, rfl⟩
    · intro j hj
      rw [R.sb_eq] at hj
      exact write_blocks_other _ _ _ _ (hn j hj)
  · intro b hb
    rw [← hdata b hb]
    show (h.device.write n buf).blocks b = _
    by_cases e : b = n
    · rw [if_pos e, e, write_blocks_same]
    · rw [if_neg e, write_blocks_other _ _ _ _ e, R.data b hb]

theorem rep_table_ne {L : HfsLayout} {sb0 : Superblock} {nblk : Nat} {h : HfsData} {v : View}
    (R : Rep L sb0 nblk h v) (i : Nat) (hi : i < sb0.s_inodes_count) :
    h.tableBlock L i < sb0.s_data_blocks_start ∧ h.tableBlock L i ≠ sb0.s_block_bitmap ∧
      h.tableBlock L i ≠ sb0.s_inode_bitmap := by
  have hi2 : i < h.sb.s_inodes_count := by rw [R.sb_eq]; exact hi
  have h1 := R.ok.tb_lt i hi2
  have h2 := R.ok.tb_ne_bbm i hi2
  have h3 := R.ok.tb_ne_ibm i hi2
  rw [R.sb_eq] at h1 h2 h3
  exact ⟨h1, h2, h3⟩

theorem rep_alloc_inode {L : HfsLayout} {sb0 : Superblock} {nblk : Nat} {h : HfsData} {v : View}
    (hL : L.Ok) (R : Rep L sb0 nblk h v) (n : Nat) (hn1 : 1 ≤ n) (hn : n < sb0.s_inodes_count)
    (hset : ∀ c, 1 ≤ c → c < n → get_bit v.ibm c = 1) (hclr : get_bit v.ibm n = 0) :
    alloc_inode h = (h.markInode n, (n : Int)) ∧
      Rep L sb0 nblk (h.markInode n) { v with ibm := set_bit v.ibm n } := by
  obtain ⟨b1, b2, b3, b4, b5, b6, b7⟩ := rep_bits_lt hL R
  obtain ⟨bbm, ibm, ino, dat⟩ := v
  have e1 : h.sb = sb0 := R.sb_eq
  subst e1
  have e2 : h.block_bitmap = bbm := R.bbm_mem
  subst e2
  have e3 : h.inode_bitmap = ibm := R.ibm_mem
  subst e3
  constructor
  · unfold alloc_inode
    rw [find_free_bit_from_first h.inode_bitmap 1 h.sb.s_inodes_count n (by omega) hn1 hn hset hclr]
    have e1 : ¬ ((n : Nat) : Int) < 0 := natCast_not_neg n
    simp only [if_neg e1]
    rw [toU32_natCast n (by omega), blkwrite_of_lt _ _ _ (by rw [R.nb_eq]; omega)]
    rfl
  · exact rep_of_write R h.sb.s_inode_bitmap (set_bit h.inode_bitmap n) h.block_bitmap
      (set_bit h.inode_bitmap n)
      (fun i hi => (rep_table_ne R i hi).2.2) _ rfl rfl
      (by rw [if_neg b7]) (by rw [if_pos rfl]) rfl
      (fun b hb => by
        have e : ¬ b = h.sb.s_inode_bitmap := by omega
        rw [if_neg e])

theorem rep_alloc_block {L : HfsLayout} {sb0 : Superblock} {nblk : Nat} {h : HfsData} {v : View}
    (hL : L.Ok) (R : Rep L sb0 nblk h v) (n : Nat) (hn1 : sb0.s_data_blocks_start ≤ n)
    (hn : n < sb0.s_blocks_count)
    (hset : ∀ c, sb0.s_data_blocks_start ≤ c → c < n → get_bit v.bbm c = 1)
    (hclr : get_bit v.bbm n = 0) :
    alloc_block h = (h.markBlock n, (n : Int)) ∧
      Rep L sb0 nblk (h.markBlock n) { v with bbm := set_bit v.bbm n } := by
  obtain ⟨b1, b2, b3, b4, b5, b6, b7⟩ := rep_bits_lt hL R
  obtain ⟨bbm, ibm, ino, dat⟩ := v
  have e1 : h.sb = sb0 := R.sb_eq
  subst e1
  have e2 : h.block_bitmap = bbm := R.bbm_mem
  subst e2
  have e3 : h.inode_bitmap = ibm := R.ibm_mem
  subst e3
  constructor
  · unfold alloc_block
    rw [find_free_bit_from_first h.block_bitmap _ h.sb.s_blocks_count n (by omega) hn1 hn hset
      hclr]
    have e1 : ¬ ((n : Nat) : Int) < 0 := natCast_not_neg n
    simp only [if_neg e1]
    rw [toU32_natCast n (by omega), blkwrite_of_lt _ _ _ (by rw [R.nb_eq]; omega)]
    rfl
  · exact rep_of_write R h.sb.s_block_bitmap (set_bit h.block_bitmap n) (set_bit h.block_bitmap n)
      h.inode_bitmap
      (fun i hi => (rep_table_ne R i hi).2.1) _ rfl rfl
      (by rw [if_pos rfl]) (by rw [if_neg (fun e => b7 e.symm)]) rfl
      (fun b hb => by
        have e : ¬ b = h.sb.s_block_bitmap := by omega
        rw [if_neg e])

theorem rep_free_inode {L : HfsLayout} {sb0 : Superblock} {nblk : Nat} {h : HfsData} {v : View}
    (hL : L.Ok) (R : Rep L sb0 nblk h v) (n : Nat) (hn1 : 1 ≤ n) (hn : n < sb0.s_inodes_count) :
    Rep L sb0 nblk (free_inode h n) { v with ibm := clear_bit v.ibm n } := by
  obtain ⟨b1, b2, b3, b4, b5, b6, b7⟩ := rep_bits_lt hL R
  obtain ⟨bbm, ibm, ino, dat⟩ := v
  have e1 : h.sb = sb0 := R.sb_eq
  subst e1
  have e2 : h.block_bitmap = bbm := R.bbm_mem
  subst e2
  have e3 : h.inode_bitmap = ibm := R.ibm_mem
  subst e3
  have e0 : ¬ (n = 0 ∨ n ≥ h.sb.s_inodes_count) := by omega
  unfold free_inode
  rw [if_neg e0]
  dsimp only
  rw [blkwrite_of_lt _ _ _ (by rw [R.nb_eq]; omega)]
  exact rep_of_write R h.sb.s_inode_bitmap (clear_bit h.inode_bitmap n) h.block_bitmap
    (clear_bit h.inode_bitmap n)
    (fun i hi => (rep_table_ne R i hi).2.2) _ rfl rfl
    (by rw [if_neg b7]) (by rw [if_pos rfl]) rfl
    (fun b hb => by
      have e : ¬ b = h.sb.s_inode_bitmap := by omega
      rw [if_neg e])

theorem rep_free_block {L : HfsLayout} {sb0 : Superblock} {nblk : Nat} {h : HfsData} {v : View}
    (hL : L.Ok) (R : Rep L sb0 nblk h v) (n : Nat) (hn1 : sb0.s_data_blocks_start ≤ n)
    (hn : n < sb0.s_blocks_count) :
    Rep L sb0 nblk (free_block h n) { v with bbm := clear_bit v.bbm n } := by
  obtain ⟨b1, b2, b3, b4, b5, b6, b7⟩ := rep_bits_lt hL R
  obtain ⟨bbm, ibm, ino, dat⟩ := v
  have e1 : h.sb = sb0 := R.sb_eq
  subst e1
  have e2 : h.block_bitmap = bbm := R.bbm_mem
  subst e2
  have e3 : h.inode_bitmap = ibm := R.ibm_mem
  subst e3
  have e0 : ¬ (n < h.sb.s_data_blocks_start ∨ n ≥ h.sb.s_blocks_count) := by omega
  unfold free_block
  rw [if_neg e0]
  dsimp only
  rw [blkwrite_of_lt _ _ _ (by rw [R.nb_eq]; omega)]
  exact rep_of_write R h.sb.s_block_bitmap (clear_bit h.block_bitmap n) (clear_bit h.block_bitmap n)
    h.inode_bitmap
    (fun i hi => (rep_table_ne R i hi).2.1) _ rfl rfl
    (by rw [if_pos rfl]) (by rw [if_neg (fun e => b7 e.symm)]) rfl
    (fun b hb => by
      have e : ¬ b = h.sb.s_block_bitmap := by omega
      rw [if_neg e])

theorem rep_set_block {L : HfsLayout} {sb0 : Superblock} {nblk : Nat} {h : HfsData} {v : View}
    (hL : L.Ok) (R : Rep L sb0 nblk h v) (b : Nat) (buf : Nat → Nat)
    (hb : sb0.s_data_blocks_start ≤ b) (hb2 : b < sb0.s_blocks_count) :
    blkwrite h.device b buf = some (h.setBlock b buf).device ∧
      Rep L sb0 nblk (h.setBlock b buf) { v with data := Function.update v.data b buf } := by
  obtain ⟨b1, b2, b3, b4, b5, b6, b7⟩ := rep_bits_lt hL R
  refine ⟨blkwrite_of_lt _ _ _ (by rw [R.nb_eq]; omega), ?_⟩
  obtain ⟨bbm, ibm, ino, dat⟩ := v
  have e1 : h.sb = sb0 := R.sb_eq
  subst e1
  have e2 : h.block_bitmap = bbm := R.bbm_mem
  subst e2
  have e3 : h.inode_bitmap = ibm := R.ibm_mem
  subst e3
  have n1 : ¬ h.sb.s_block_bitmap = b := by omega
  have n2 : ¬ h.sb.s_inode_bitmap = b := by omega
  exact rep_of_write R b buf h.block_bitmap h.inode_bitmap
    (fun i hi => by have := (rep_table_ne R i hi).1; omega) _ rfl rfl
    (by rw [if_neg n1]) (by rw [if_neg n2]) rfl
    (fun c hc => by
      by_cases e : c = b
      · rw [if_pos e, e]
        exact (Function.update_same b buf dat).symm
      · rw [if_neg e]
        exact (Function.update_noteq e buf dat).symm)

theorem rep_write_inode {L : HfsLayout} {sb0 : Superblock} {nblk : Nat} {h : HfsData} {v : View}
    (hL : L.Ok) (R : Rep L sb0 nblk h v) (i : Nat) (ino : Inode)
    (hi : i < sb0.s_inodes_count) (hv : ino.Valid L) :
    write_inode L h i ino = (h.setInode L i ino, 0) ∧
      Rep L sb0 nblk (h.setInode L i ino) { v with inode := Function.update v.inode i ino } := by
  have hi2 : i < h.sb.s_inodes_count := by rw [R.sb_eq]; exact hi
  refine ⟨write_inode_spec L h R.ok i hi2 ino, R.sb_eq, R.nb_eq, R.ok.of_eq rfl rfl, R.bbm_mem,
    ?_, R.ibm_mem, ?_, ?_, ?_⟩
  · rw [setInode_disk_block_bitmap L h R.ok i hi2 ino]
    exact R.bbm_disk
  · rw [setInode_disk_inode_bitmap L h R.ok i hi2 ino]
    exact R.ibm_disk
  · intro j hj
    rw [read_inode_setInode L hL h R.ok i j hi2 ino hv]
    by_cases e : j = i
    · rw [if_pos e, e]
      exact congrArg some (Function.update_same i ino v.inode).symm
    · rw [if_neg e, R.inode j hj]
      exact congrArg some (Function.update_noteq e ino v.inode).symm
  · intro b hb
    rw [setInode_blocks_data L h R.ok i hi2 ino b (by rw [R.sb_eq]; exact hb)]
    exact R.data b hb
/-! ## File system: lookups and new entries on the contents -/

theorem replicate_getD_zero (n k : Nat) : (List.replicate n 0).getD k 0 = 0 := by
  rw [List.getD_eq_getElem?_getD, List.getElem?_replicate]
  by_cases h : k < n
  · rw [if_pos h]; rfl
  · rw [if_neg h]; rfl

theorem new_inode_valid (L : HfsLayout) (d : Nat) (hd : d < 4294967296) :
    (new_inode L d).Valid L :=
  ⟨hd, by show (0 : Nat) < 4294967296; decide, List.length_replicate _ _,
    fun k => by
      show (List.replicate _ 0).getD k 0 < 4294967296
      rw [replicate_getD_zero]
      decide,
    by show (0 : Nat) < 4294967296; decide⟩

theorem new_inode_getD (L : HfsLayout) (d k : Nat) :
    (new_inode L d).i_direct_pointers.getD k 0 = 0 :=
  replicate_getD_zero _ _

theorem one_block_getD (L : HfsLayout) (d b s k : Nat) (hN : 1 ≤ L.INODE_DIRECT_POINTERS) :
    (one_block_inode L d b s).i_direct_pointers.getD k 0 = if k = 0 then b else 0 := by
  show ((List.replicate _ 0).set 0 b).getD k 0 = _
  rw [getD_set, List.length_replicate, replicate_getD_zero]
  by_cases e : k = 0
  · rw [if_pos e, if_pos ⟨e, by omega⟩]
  · rw [if_neg e, if_neg (fun h => e h.1)]

theorem one_block_valid (L : HfsLayout) (d b s : Nat) (hN : 1 ≤ L.INODE_DIRECT_POINTERS)
    (hd : d < 4294967296) (hb : b < 4294967296) (hs : s < 4294967296) :
    (one_block_inode L d b s).Valid L :=
  ⟨hd, hs, by
      show ((List.replicate _ 0).set 0 b).length = _
      rw [List.length_set, List.length_replicate],
    fun k => by
      rw [one_block_getD L d b s k hN]
      by_cases e : k = 0
      · rw [if_pos e]; exact hb
      · rw [if_neg e]; decide,
    by show (0 : Nat) < 4294967296; decide⟩

theorem get_block_direct (L : HfsLayout) (h : HfsData) (ino : Inode) (off : Nat)
    (hk : off / L.BLOCK_SIZE < L.INODE_DIRECT_POINTERS) :
    get_block_for_offset L h ino off
      = toInt32 (ino.i_direct_pointers.getD (off / L.BLOCK_SIZE) 0) := by
  unfold get_block_for_offset
  simp only [if_pos hk]

theorem dirent_size_pos (L : HfsLayout) : 0 < L.DIRENT_SIZE := by
  unfold HfsLayout.DIRENT_SIZE
  omega

theorem blocks_for_zero (L : HfsLayout) (hL : L.Ok) :
    (0 + L.BLOCK_SIZE - 1) % U32 / L.BLOCK_SIZE = 0 := by
  have h1 := block_size_pos L hL
  have h2 := eight_bs_lt L hL
  rw [Nat.mod_eq_of_lt (by unfold U32; omega)]
  exact Nat.div_eq_of_lt (by omega)

theorem blocks_for_dirent (L : HfsLayout) (hL : L.Ok) :
    (L.DIRENT_SIZE + L.BLOCK_SIZE - 1) % U32 / L.BLOCK_SIZE = 1 := by
  have h1 := block_size_pos L hL
  have h2 := eight_bs_lt L hL
  have h3 := hL.dirent_fits
  have h4 := dirent_size_pos L
  rw [Nat.mod_eq_of_lt (by unfold U32; omega)]
  apply Nat.div_eq_of_lt_le
  · omega
  · omega

theorem epb_pos (L : HfsLayout) (hL : L.Ok) : 0 < L.DIRECTORY_ENTRIES_PER_BLOCK :=
  Nat.div_pos hL.dirent_fits (dirent_size_pos L)

/-- A lookup in a directory of size 0 finds nothing. -/
theorem find_dir_entry_empty (L : HfsLayout) (hL : L.Ok) (h : HfsData) (ino : Inode)
    (t : List Nat) (hsize : ino.i_size = 0) : find_dir_entry L h ino t = -1 := by
  unfold find_dir_entry
  by_cases hd : ino.i_is_directory = 0
  · rw [if_pos hd]
  · rw [if_neg hd, hsize, blocks_for_zero L hL]
    rfl

/-- A lookup in a directory of one block scans that block. -/
theorem find_dir_entry_one_block {L : HfsLayout} {sb0 : Superblock} {nblk : Nat} {h : HfsData}
    {v : View} (hL : L.Ok) (hN : 1 ≤ L.INODE_DIRECT_POINTERS) (R : Rep L sb0 nblk h v)
    (b : Nat) (t : List Nat) (hb : sb0.s_data_blocks_start ≤ b) (hb2 : b < sb0.s_blocks_count) :
    find_dir_entry L h (one_block_inode L 1 b L.DIRENT_SIZE) t
      = (find_dir_entry_block L (v.data b) t L.DIRECTORY_ENTRIES_PER_BLOCK 0).elim (-1)
          toInt32 := by
  obtain ⟨b1, b2, b3, b4, b5, b6, b7⟩ := rep_bits_lt hL R
  have hbs := block_size_pos L hL
  have hdir : ¬ (one_block_inode L 1 b L.DIRENT_SIZE).i_is_directory = 0 := by
    show ¬ (1 : Nat) = 0
    decide
  have hsz : (one_block_inode L 1 b L.DIRENT_SIZE).i_size = L.DIRENT_SIZE := rfl
  have h0 : 0 * L.BLOCK_SIZE % U32 = 0 := by rw [Nat.zero_mul]; rfl
  have hk : 0 / L.BLOCK_SIZE < L.INODE_DIRECT_POINTERS := by rw [Nat.zero_div]; omega
  have hblk : get_block_for_offset L h (one_block_inode L 1 b L.DIRENT_SIZE) 0 = (b : Int) := by
    rw [get_block_direct L h _ 0 hk, Nat.zero_div, one_block_getD L 1 b _ 0 hN, if_pos rfl]
    exact toInt32_of_lt b (by omega)
  have hpos : ¬ ((b : Nat) : Int) ≤ 0 := by
    have := R.ok.data_pos
    rw [R.sb_eq] at this
    omega
  unfold find_dir_entry
  rw [if_neg hdir, hsz, blocks_for_dirent L hL]
  cases hfd : find_dir_entry_block L (v.data b) t L.DIRECTORY_ENTRIES_PER_BLOCK 0 with
  | none =>
    simp only [find_dir_entry_loop, h0, hblk, if_neg hpos,
      toU32_natCast b (show b < 4294967296 by omega), rep_blkread hL R b hb hb2, hfd,
      Option.elim]
  | some x =>
    simp only [find_dir_entry_loop, h0, hblk, if_neg hpos,
      toU32_natCast b (show b < 4294967296 by omega), rep_blkread hL R b hb hb2, hfd,
      Option.elim]

theorem find_block_single (L : HfsLayout) (hL : L.Ok) (name : List Nat) (n : Nat)
    (hname : CStr name) (hlen : name.length < L.DIRECTORY_NAME_SIZE) (hn0 : n ≠ 0)
    (hn : n < 4294967296) :
    find_dir_entry_block L (dirent_set L zero_block 0 name n) name
      L.DIRECTORY_ENTRIES_PER_BLOCK 0 = some n :=
  find_block_set_same L zero_block 0 name n (epb_pos L hL) (terminated_zero_block L) hn0 hn
    (find_block_zero_block L name _ 0) hname hlen

/-- The walk of `resolve_path` over the tokens follows the walk in the
contents. -/
theorem vwalk_resolve {L : HfsLayout} {sb0 : Superblock} {nblk : Nat} {h : HfsData} {v : View}
    (hL : L.Ok) (hN : 1 ≤ L.INODE_DIRECT_POINTERS) (R : Rep L sb0 nblk h v) :
    ∀ (toks : List (List Nat)) (c r : Nat), VWalk L sb0 v toks c r →
      resolve_path_loop L h toks c = (r : Int) := by
  intro toks
  induction toks with
  | nil =>
    intro c r hw
    obtain ⟨e, hc⟩ := hw
    rw [e]
    show toInt32 c = _
    exact toInt32_of_lt c hc
  | cons t ts ih =>
    intro c r hw
    obtain ⟨hc, b, n, hino, hb, hb2, hdata, hn0, hn, hcs, hlen, hrest⟩ := hw
    have hfind : find_dir_entry L h (one_block_inode L 1 b L.DIRENT_SIZE) t = (n : Int) := by
      rw [find_dir_entry_one_block hL hN R b t hb hb2, hdata,
        find_block_single L hL t n hcs hlen hn0 (by omega)]
      exact toInt32_of_lt n hn
    rw [resolve_loop_cons L h t ts c _ (by rw [R.inode c hc, hino])
      (by show ¬ (1 : Nat) = 0; decide) (by rw [hfind]; exact natCast_not_neg n), hfind,
      toU32_natCast n (by omega)]
    exact ih n r hrest

theorem vwalk_congr (L : HfsLayout) (sb0 : Superblock) (v v2 : View)
    (hi : v2.inode = v.inode) (hd : v2.data = v.data) :
    ∀ (toks : List (List Nat)) (c r : Nat), VWalk L sb0 v toks c r → VWalk L sb0 v2 toks c r := by
  intro toks
  induction toks with
  | nil => intro c r hw; exact hw
  | cons t ts ih =>
    intro c r hw
    obtain ⟨hc, b, n, hino, hb, hb2, hdata, hn0, hn, hcs, hlen, hrest⟩ := hw
    exact ⟨hc, b, n, by rw [hi]; exact hino, hb, hb2, by rw [hd]; exact hdata, hn0, hn, hcs,
      hlen, ih n r hrest⟩

/-- `resolve_path` on a path of fewer than 256 bytes follows the walk in the
contents over its tokens. -/
theorem vwalk_resolve_path {L : HfsLayout} {sb0 : Superblock} {nblk : Nat} {h : HfsData}
    {v : View} (hL : L.Ok) (hN : 1 ≤ L.INODE_DIRECT_POINTERS) (R : Rep L sb0 nblk h v)
    (path : List Nat) (r : Nat) (hne : path ≠ [])
    (hw : VWalk L sb0 v (path_tokens path) 0 r) : resolve_path L h path = (r : Int) := by
  rw [resolve_path_eq_tokens L h path hne]
  exact vwalk_resolve hL hN R _ 0 r hw

/-- The allocation of the first block of an inode takes the first free block
and fills it with zero bytes. -/
theorem rep_alloc_first_block {L : HfsLayout} {sb0 : Superblock} {nblk : Nat} {h : HfsData}
    {v : View} (hL : L.Ok) (hN : 1 ≤ L.INODE_DIRECT_POINTERS) (R : Rep L sb0 nblk h v)
    (ino : Inode) (nb : Nat) (hn1 : sb0.s_data_blocks_start ≤ nb) (hn : nb < sb0.s_blocks_count)
    (hset : ∀ c, sb0.s_data_blocks_start ≤ c → c < nb → get_bit v.bbm c = 1)
    (hclr : get_bit v.bbm nb = 0) :
    alloc_block_for_offset L h ino 0
        = ((h.markBlock nb).setBlock nb zero_block,
            { ino with i_direct_pointers := ino.i_direct_pointers.set 0 nb }, (nb : Int)) ∧
      Rep L sb0 nblk ((h.markBlock nb).setBlock nb zero_block)
        { v with bbm := set_bit v.bbm nb, data := Function.update v.data nb zero_block } := by
  obtain ⟨b1, b2, b3, b4, b5, b6, b7⟩ := rep_bits_lt hL R
  obtain ⟨a1, a2⟩ := rep_alloc_block hL R nb hn1 hn hset hclr
  obtain ⟨w1, w2⟩ := rep_set_block hL a2 nb zero_block hn1 hn
  refine ⟨?_, w2⟩
  have e1 : ¬ ((nb : Nat) : Int) < 0 := natCast_not_neg nb
  have hk : 0 < L.INODE_DIRECT_POINTERS := by omega
  unfold alloc_block_for_offset
  simp only [a1, if_neg e1, toU32_natCast nb (show nb < 4294967296 by omega), w1, Nat.zero_div,
    if_pos hk]
  rfl

/-- `add_dir_entry` for a directory of size 0 whose first block is there and
holds zero bytes: the name goes to the first entry of the block. -/
theorem rep_add_dir_entry_slot {L : HfsLayout} {sb0 : Superblock} {nblk : Nat} {h : HfsData}
    {v : View} (hL : L.Ok) (hN : 1 ≤ L.INODE_DIRECT_POINTERS) (R : Rep L sb0 nblk h v)
    (pino : Inode) (name : List Nat) (n b : Nat) (hdir : pino.i_is_directory ≠ 0)
    (hsize : pino.i_size = 0) (hptr : pino.i_direct_pointers.getD 0 0 = b)
    (hb : sb0.s_data_blocks_start ≤ b) (hb2 : b < sb0.s_blocks_count)
    (hzero : v.data b = zero_block) :
    add_dir_entry L h pino name n
        = (h.setBlock b (dirent_set L zero_block 0 name n),
            { pino with i_size := L.DIRENT_SIZE }, 0) ∧
      Rep L sb0 nblk (h.setBlock b (dirent_set L zero_block 0 name n))
        { v with data := Function.update v.data b (dirent_set L zero_block 0 name n) } := by
  obtain ⟨b1, b2, b3, b4, b5, b6, b7⟩ := rep_bits_lt hL R
  obtain ⟨w1, w2⟩ := rep_set_block hL R b (dirent_set L zero_block 0 name n) hb hb2
  refine ⟨?_, w2⟩
  have h0 : 0 * L.BLOCK_SIZE % U32 = 0 := by rw [Nat.zero_mul]; rfl
  have hk : 0 / L.BLOCK_SIZE < L.INODE_DIRECT_POINTERS := by rw [Nat.zero_div]; omega
  have hblk : get_block_for_offset L h pino 0 = (b : Int) := by
    rw [get_block_direct L h _ 0 hk, Nat.zero_div, hptr]
    exact toInt32_of_lt b (by omega)
  have hne : ¬ ((b : Nat) : Int) = 0 := by
    have := R.ok.data_pos
    rw [R.sb_eq] at this
    omega
  have hds := hL.dirent_fits
  have hbs := eight_bs_lt L hL
  have hdp := dirent_size_pos L
  have hnew : (0 * L.BLOCK_SIZE + (0 + 1) * L.DIRENT_SIZE) % U32 = L.DIRENT_SIZE := by
    rw [Nat.zero_mul, Nat.zero_add, Nat.zero_add, Nat.one_mul]
    exact Nat.mod_eq_of_lt (by unfold U32; omega)
  have hlt : pino.i_size < L.DIRENT_SIZE := by rw [hsize]; exact hdp
  have hcond : ¬ (((b : Nat) : Int) = 0 ∧ ((b : Nat) : Int) < 0) := fun h => hne h.1
  unfold add_dir_entry
  rw [if_neg hdir, hsize, blocks_for_zero L hL]
  simp only [if_true, add_dir_entry_loop, h0, hblk, if_neg hne, if_neg hcond,
    toU32_natCast b (show b < 4294967296 by omega), rep_blkread hL R b hb hb2, hzero,
    find_free_entry_zero_block L hL, w1, hnew, if_pos hlt]
  rfl

/-- `add_dir_entry` for a directory of size 0 without a first block: the
first free block becomes the first block and the name goes to its first
entry. -/
theorem rep_add_dir_entry_hole {L : HfsLayout} {sb0 : Superblock} {nblk : Nat} {h : HfsData}
    {v : View} (hL : L.Ok) (hN : 1 ≤ L.INODE_DIRECT_POINTERS) (R : Rep L sb0 nblk h v)
    (pino : Inode) (name : List Nat) (n nb : Nat) (hdir : pino.i_is_directory ≠ 0)
    (hsize : pino.i_size = 0) (hptr : pino.i_direct_pointers.getD 0 0 = 0)
    (hn1 : sb0.s_data_blocks_start ≤ nb) (hn : nb < sb0.s_blocks_count)
    (hset : ∀ c, sb0.s_data_blocks_start ≤ c → c < nb → get_bit v.bbm c = 1)
    (hclr : get_bit v.bbm nb = 0) :
    add_dir_entry L h pino name n
        = (((h.markBlock nb).setBlock nb zero_block).setBlock nb
              (dirent_set L zero_block 0 name n),
            { pino with i_direct_pointers := pino.i_direct_pointers.set 0 nb,
                        i_size := L.DIRENT_SIZE }, 0) ∧
      Rep L sb0 nblk
        (((h.markBlock nb).setBlock nb zero_block).setBlock nb (dirent_set L zero_block 0 name n))
        { v with bbm := set_bit v.bbm nb,
                 data := Function.update v.data nb (dirent_set L zero_block 0 name n) } := by
  obtain ⟨b1, b2, b3, b4, b5, b6, b7⟩ := rep_bits_lt hL R
  obtain ⟨a1, a2⟩ := rep_alloc_first_block hL hN R pino nb hn1 hn hset hclr
  obtain ⟨w1, w2⟩ := rep_set_block hL a2 nb (dirent_set L zero_block 0 name n) hn1 hn
  constructor
  · have h0 : 0 * L.BLOCK_SIZE % U32 = 0 := by rw [Nat.zero_mul]; rfl
    have hk : 0 / L.BLOCK_SIZE < L.INODE_DIRECT_POINTERS := by rw [Nat.zero_div]; omega
    have hblk : get_block_for_offset L h pino 0 = 0 := by
      rw [get_block_direct L h _ 0 hk, Nat.zero_div, hptr]
      rfl
    have e1 : ¬ ((nb : Nat) : Int) < 0 := natCast_not_neg nb
    have hds := hL.dirent_fits
    have hbs := eight_bs_lt L hL
    have hdp := dirent_size_pos L
    have hnew : (0 * L.BLOCK_SIZE + (0 + 1) * L.DIRENT_SIZE) % U32 = L.DIRENT_SIZE := by
      rw [Nat.zero_mul, Nat.zero_add, Nat.zero_add, Nat.one_mul]
      exact Nat.mod_eq_of_lt (by unfold U32; omega)
    have hlt : pino.i_size < L.DIRENT_SIZE := by rw [hsize]; exact hdp
    have hrd : blkread ((h.markBlock nb).setBlock nb zero_block).device nb = some zero_block := by
      rw [rep_blkread hL a2 nb hn1 hn]
      exact congrArg some (Function.update_same nb zero_block v.data)
    unfold add_dir_entry
    rw [if_neg hdir, hsize, blocks_for_zero L hL]
    simp only [if_true, add_dir_entry_loop, h0, hblk, a1, true_and, if_neg e1,
      toU32_natCast nb (show nb < 4294967296 by omega), hrd,
      find_free_entry_zero_block L hL, w1, hnew]
    rw [if_pos (show ({ pino with i_direct_pointers := pino.i_direct_pointers.set 0 nb } :
      Inode).i_size < L.DIRENT_SIZE from hlt)]
    rfl
  · have w3 : Rep L sb0 nblk
        (((h.markBlock nb).setBlock nb zero_block).setBlock nb (dirent_set L zero_block 0 name n))
        (View.mk (set_bit v.bbm nb) v.ibm v.inode
          (Function.update (Function.update v.data nb zero_block) nb
            (dirent_set L zero_block 0 name n))) := w2
    rw [Function.update_idem] at w3
    exact w3

theorem rep_make_prefix {L : HfsLayout} {sb0 : Superblock} {nblk : Nat} {h : HfsData} {v : View}
    (hL : L.Ok) (R : Rep L sb0 nblk h v) (ino0 : Inode) (hv0 : ino0.Valid L) (n : Nat)
    (hn1 : 1 ≤ n) (hn : n < sb0.s_inodes_count)
    (hset : ∀ c, 1 ≤ c → c < n → get_bit v.ibm c = 1) (hclr : get_bit v.ibm n = 0) :
    alloc_inode h = (h.markInode n, (n : Int)) ∧
      write_inode L (h.markInode n) n ino0 = ((h.markInode n).setInode L n ino0, 0) ∧
      Rep L sb0 nblk ((h.markInode n).setInode L n ino0)
        { v with ibm := set_bit v.ibm n, inode := Function.update v.inode n ino0 } := by
  obtain ⟨a1, a2⟩ := rep_alloc_inode hL R n hn1 hn hset hclr
  obtain ⟨w1, w2⟩ := rep_write_inode hL a2 n ino0 hn hv0
  exact ⟨a1, w1, w2⟩

/-- The common body of `hfs_create` and `hfs_mkdir` for a new name in a
directory of size 0, given what `add_dir_entry` does. -/
theorem rep_make_node {L : HfsLayout} {sb0 : Superblock} {nblk : Nat} {h : HfsData} {v : View}
    (hL : L.Ok) (R : Rep L sb0 nblk h v) (ino0 : Inode) (hv0 : ino0.Valid L)
    (path parent name : List Nat) (hsplit : split_path L path = some (parent, name))
    (hname : name ≠ []) (p n : Nat) (hres : resolve_path L h parent = (p : Int))
    (hp : p < sb0.s_inodes_count) (hpdir : (v.inode p).i_is_directory ≠ 0)
    (hpsize : (v.inode p).i_size = 0) (hn1 : 1 ≤ n) (hn : n < sb0.s_inodes_count)
    (hset : ∀ c, 1 ≤ c → c < n → get_bit v.ibm c = 1) (hclr : get_bit v.ibm n = 0)
    (h3 : HfsData) (pino3 : Inode) (v3 : View)
    (hadd : add_dir_entry L ((h.markInode n).setInode L n ino0) (v.inode p) name n
      = (h3, pino3, 0))
    (R3 : Rep L sb0 nblk h3 v3) (hv3 : pino3.Valid L) :
    make_node L ino0 h path = some (h3.setInode L p pino3, 0) ∧
      Rep L sb0 nblk (h3.setInode L p pino3)
        { v3 with inode := Function.update v3.inode p pino3 } := by
  obtain ⟨b1, b2, b3, b4, b5, b6, b7⟩ := rep_bits_lt hL R
  obtain ⟨a1, w1, _⟩ := rep_make_prefix hL R ino0 hv0 n hn1 hn hset hclr
  obtain ⟨w2, R4⟩ := rep_write_inode hL R3 p pino3 hp hv3
  refine ⟨?_, R4⟩
  have hlen : ¬ name.length = 0 := fun e => hname (List.length_eq_zero.1 e)
  have e1 : ¬ ((p : Nat) : Int) < 0 := natCast_not_neg p
  have e2 : ¬ ((n : Nat) : Int) < 0 := natCast_not_neg n
  have e3 : ¬ find_dir_entry L h (v.inode p) name ≥ 0 := by
    rw [find_dir_entry_empty L hL h _ name hpsize]
    decide
  have e4 : ¬ (0 : Int) < 0 := by decide
  unfold make_node
  rw [rep_sync hL R, hsplit]
  simp only [if_neg hlen, hres, if_neg e1, toU32_natCast p (show p < 4294967296 by omega),
    R.inode p hp, if_neg hpdir, if_neg e3, a1, if_neg e2,
    toU32_natCast n (show n < 4294967296 by omega), w1, if_neg e4, hadd, w2]

theorem hfs_create_eq (L : HfsLayout) (h : HfsData) (path : List Nat) :
    hfs_create L h path = make_node L (new_inode L 0) h path := rfl

theorem hfs_mkdir_eq (L : HfsLayout) (h : HfsData) (path : List Nat) :
    hfs_mkdir L h path = make_node L (new_inode L 1) h path := rfl
/-! ## File system: format and mount -/

theorem get_bit_zero_block (j : Nat) : get_bit zero_block j = 0 := by
  unfold get_bit
  rw [load32_zero_block]
  simp

theorem format_set_bits_spec (n : Nat) :
    ∀ (fuel i : Nat) (bm : Nat → Nat), n ≤ i + fuel →
      (∀ j, get_bit (format_set_bits n fuel i bm) j
        = if i ≤ j ∧ j < n then 1 else get_bit bm j) ∧
      (Bytes bm → Bytes (format_set_bits n fuel i bm)) := by
  intro fuel
  induction fuel with
  | zero =>
    intro i bm h
    refine ⟨fun j => ?_, fun hb => hb⟩
    have e : ¬ (i ≤ j ∧ j < n) := by omega
    rw [if_neg e]
    rfl
  | succ f ih =>
    intro i bm h
    unfold format_set_bits
    by_cases hi : i < n
    · rw [if_pos hi]
      obtain ⟨g1, g2⟩ := ih (i + 1) (set_bit bm i) (by omega)
      refine ⟨fun j => ?_, fun hb => g2 (bytes_set_bit bm i hb)⟩
      rw [g1 j, get_bit_set_bit]
      by_cases e : i + 1 ≤ j ∧ j < n
      · have e2 : i ≤ j ∧ j < n := by omega
        rw [if_pos e, if_pos e2]
      · rw [if_neg e]
        by_cases e3 : j = i
        · have e2 : i ≤ j ∧ j < n := by omega
          rw [if_pos e3, if_pos e2]
        · have e2 : ¬ (i ≤ j ∧ j < n) := by omega
          rw [if_neg e3, if_neg e2]
    · rw [if_neg hi]
      refine ⟨fun j => ?_, fun hb => hb⟩
      have e : ¬ (i ≤ j ∧ j < n) := by omega
      rw [if_neg e]

theorem format_clear_table_spec (start ib : Nat) (hs : start + ib < 4294967296) :
    ∀ (fuel i : Nat) (dev : BlockDevice), ib ≤ i + fuel → start + ib ≤ dev.num_blocks →
      ∃ dev2, format_clear_table start ib fuel i dev = (dev2, true) ∧
        dev2.num_blocks = dev.num_blocks ∧
        ∀ b, dev2.blocks b = if start + i ≤ b ∧ b < start + ib then zero_block
          else dev.blocks b := by
  intro fuel
  induction fuel with
  | zero =>
    intro i dev h _
    refine ⟨dev, rfl, rfl, fun b => ?_⟩
    have e : ¬ (start + i ≤ b ∧ b < start + ib) := by omega
    rw [if_neg e]
  | succ f ih =>
    intro i dev h hnb
    unfold format_clear_table
    by_cases hi : i < ib
    · rw [if_pos hi, Nat.mod_eq_of_lt (show start + i < U32 by unfold U32; omega),
        blkwrite_of_lt _ _ _ (by omega)]
      obtain ⟨dev2, g1, g2, g3⟩ := ih (i + 1) (dev.write (start + i) zero_block) (by omega) hnb
      refine ⟨dev2, g1, g2, fun b => ?_⟩
      rw [g3 b]
      by_cases e : start + (i + 1) ≤ b ∧ b < start + ib
      · have e2 : start + i ≤ b ∧ b < start + ib := by omega
        rw [if_pos e, if_pos e2]
      · rw [if_neg e]
        by_cases e3 : b = start + i
        · have e2 : start + i ≤ b ∧ b < start + ib := by omega
          rw [if_pos e2, e3, write_blocks_same]
        · have e2 : ¬ (start + i ≤ b ∧ b < start + ib) := by omega
          rw [if_neg e2, write_blocks_other _ _ _ _ e3]
    · rw [if_neg hi]
      refine ⟨dev, rfl, rfl, fun b => ?_⟩
      have e : ¬ (start + i ≤ b ∧ b < start + ib) := by omega
      rw [if_neg e]

theorem sb_load_store (sb : Superblock) (h1 : sb.s_magic < 4294967296)
    (h2 : sb.s_blocks_count < 4294967296) (h3 : sb.s_inodes_count < 4294967296)
    (h4 : sb.s_block_bitmap < 4294967296) (h5 : sb.s_inode_bitmap < 4294967296)
    (h6 : sb.s_inode_table_block_start < 4294967296)
    (h7 : sb.s_data_blocks_start < 4294967296) : sb_load (sb_store zero_block sb) = sb := by
  unfold sb_load sb_store
  rw [load32_store32_disj _ 24 _ 0 (by omega), load32_store32_disj _ 20 _ 0 (by omega),
    load32_store32_disj _ 16 _ 0 (by omega), load32_store32_disj _ 12 _ 0 (by omega),
    load32_store32_disj _ 8 _ 0 (by omega), load32_store32_disj _ 4 _ 0 (by omega),
    load32_store32_same,
    load32_store32_disj _ 24 _ 4 (by omega), load32_store32_disj _ 20 _ 4 (by omega),
    load32_store32_disj _ 16 _ 4 (by omega), load32_store32_disj _ 12 _ 4 (by omega),
    load32_store32_disj _ 8 _ 4 (by omega), load32_store32_same,
    load32_store32_disj _ 24 _ 8 (by omega), load32_store32_disj _ 20 _ 8 (by omega),
    load32_store32_disj _ 16 _ 8 (by omega), load32_store32_disj _ 12 _ 8 (by omega),
    load32_store32_same,
    load32_store32_disj _ 24 _ 12 (by omega), load32_store32_disj _ 20 _ 12 (by omega),
    load32_store32_disj _ 16 _ 12 (by omega), load32_store32_same,
    load32_store32_disj _ 24 _ 16 (by omega), load32_store32_disj _ 20 _ 16 (by omega),
    load32_store32_same,
    load32_store32_disj _ 24 _ 20 (by omega), load32_store32_same, load32_store32_same,
    Nat.mod_eq_of_lt h1, Nat.mod_eq_of_lt h2, Nat.mod_eq_of_lt h3, Nat.mod_eq_of_lt h4,
    Nat.mod_eq_of_lt h5, Nat.mod_eq_of_lt h6, Nat.mod_eq_of_lt h7]

theorem block_size_lt (L : HfsLayout) (hL : L.Ok) : L.BLOCK_SIZE < 65536 := by
  by_contra hge
  have h1 : 65536 ≤ L.BLOCK_SIZE := by omega
  have h2 : 32768 ≤ L.INODE_INDIRECT_POINTERS_PER_BLOCK := by
    unfold HfsLayout.INODE_INDIRECT_POINTERS_PER_BLOCK
    omega
  have h3 := hL.file_max
  have h4 : 32768 * 65536
      ≤ (L.INODE_DIRECT_POINTERS + L.INODE_INDIRECT_POINTERS_PER_BLOCK + 1) * L.BLOCK_SIZE :=
    Nat.mul_le_mul (by omega) h1
  omega

theorem inode_size_ge (L : HfsLayout) (hN : 1 ≤ L.INODE_DIRECT_POINTERS) : 16 ≤ L.INODE_SIZE := by
  unfold HfsLayout.INODE_SIZE
  omega

theorem ceil_mul_ge (x bs : Nat) (hbs : 0 < bs) : x ≤ (x + bs - 1) / bs * bs := by
  have h1 := Nat.div_add_mod (x + bs - 1) bs
  have h2 := Nat.mod_lt (x + bs - 1) hbs
  rw [Nat.mul_comm] at h1
  omega

/-- The fields of the superblock that `hfs_format` writes. -/
theorem format_sb_fields (L : HfsLayout) (magic : Nat) (dev : BlockDevice) (room : Nat)
    (hf : FormatOk L magic dev room) :
    (format_sb L magic dev.num_blocks).s_magic = magic ∧
      (format_sb L magic dev.num_blocks).s_blocks_count = dev.num_blocks ∧
      64 ≤ (format_sb L magic dev.num_blocks).s_inodes_count ∧
      (format_sb L magic dev.num_blocks).s_inodes_count ≤ 4096 ∧
      (format_sb L magic dev.num_blocks).s_inodes_count ≤ 8 * L.BLOCK_SIZE ∧
      (format_sb L magic dev.num_blocks).s_block_bitmap = 1 ∧
      (format_sb L magic dev.num_blocks).s_inode_bitmap = 2 ∧
      (format_sb L magic dev.num_blocks).s_inode_table_block_start = 3 ∧
      (format_sb L magic dev.num_blocks).s_data_blocks_start
        = 3 + ((format_sb L magic dev.num_blocks).s_inodes_count * L.INODE_SIZE
            + L.BLOCK_SIZE - 1) % U32 / L.BLOCK_SIZE ∧
      (format_sb L magic dev.num_blocks).s_data_blocks_start < 4294967296 ∧
      ∀ i, i < (format_sb L magic dev.num_blocks).s_inodes_count →
        3 + i / L.INODES_PER_BLOCK < (format_sb L magic dev.num_blocks).s_data_blocks_start := by
  have hbs := block_size_pos L hf.layout
  have hbl := block_size_lt L hf.layout
  have his := inode_size_ge L hf.direct
  have hfit := hf.layout.inode_fits
  have h1 := hf.blocks_le_bits
  have h2 := hf.blocks_le_u16
  have hn0 : dev.num_blocks / 4 % U32 = dev.num_blocks / 4 :=
    Nat.mod_eq_of_lt (by unfold U32; omega)
  have hnb : dev.num_blocks % U32 = dev.num_blocks := Nat.mod_eq_of_lt (by unfold U32; omega)
  obtain ⟨ic, hic, hic1, hic2, hic3⟩ : ∃ ic,
      (if dev.num_blocks / 4 < 64 then 64
        else if dev.num_blocks / 4 > 4096 then 4096 else dev.num_blocks / 4) = ic ∧
      64 ≤ ic ∧ ic ≤ 4096 ∧ ic ≤ 8 * L.BLOCK_SIZE := by
    refine ⟨_, rfl, ?_, ?_, ?_⟩
    · split_ifs <;> omega
    · split_ifs <;> omega
    · split_ifs <;> omega
  have hmul : ic * L.INODE_SIZE ≤ 4096 * 65536 := Nat.mul_le_mul hic2 (by omega)
  have hmod : (ic * L.INODE_SIZE + L.BLOCK_SIZE - 1) % U32
      = ic * L.INODE_SIZE + L.BLOCK_SIZE - 1 := Nat.mod_eq_of_lt (by unfold U32; omega)
  have hib : (ic * L.INODE_SIZE + L.BLOCK_SIZE - 1) / L.BLOCK_SIZE
      ≤ ic * L.INODE_SIZE + L.BLOCK_SIZE - 1 := Nat.div_le_self _ _
  have hd : (3 + (ic * L.INODE_SIZE + L.BLOCK_SIZE - 1) % U32 / L.BLOCK_SIZE) % U32
      = 3 + (ic * L.INODE_SIZE + L.BLOCK_SIZE - 1) % U32 / L.BLOCK_SIZE := by
    rw [hmod]
    exact Nat.mod_eq_of_lt (by unfold U32; omega)
  have hfields : format_sb L magic dev.num_blocks
      = { s_magic := magic, s_blocks_count := dev.num_blocks, s_inodes_count := ic,
          s_block_bitmap := 1, s_inode_bitmap := 2, s_inode_table_block_start := 3,
          s_data_blocks_start
            := 3 + (ic * L.INODE_SIZE + L.BLOCK_SIZE - 1) % U32 / L.BLOCK_SIZE } := by
    unfold format_sb
    simp only [hn0, hnb, hic, hd]
  rw [hfields]
  refine ⟨rfl, rfl, hic1, hic2, hic3, rfl, rfl, rfl, rfl, ?_, ?_⟩
  · show 3 + (ic * L.INODE_SIZE + L.BLOCK_SIZE - 1) % U32 / L.BLOCK_SIZE < 4294967296
    rw [hmod]
    omega
  · intro i hi
    show 3 + i / L.INODES_PER_BLOCK
      < 3 + (ic * L.INODE_SIZE + L.BLOCK_SIZE - 1) % U32 / L.BLOCK_SIZE
    rw [hmod]
    have hipb : 0 < L.INODES_PER_BLOCK := Nat.div_pos hfit (by omega)
    have hbs2 : L.INODES_PER_BLOCK * L.INODE_SIZE = L.BLOCK_SIZE :=
      Nat.div_mul_cancel (Nat.dvd_of_mod_eq_zero hf.inodes_fill)
    have hge := ceil_mul_ge (ic * L.INODE_SIZE) L.BLOCK_SIZE hbs
    have hle : ic ≤ (ic * L.INODE_SIZE + L.BLOCK_SIZE - 1) / L.BLOCK_SIZE * L.INODES_PER_BLOCK := by
      apply Nat.le_of_mul_le_mul_right _ (show 0 < L.INODE_SIZE by omega)
      rw [Nat.mul_assoc, hbs2]
      exact hge
    have : i / L.INODES_PER_BLOCK
        < (ic * L.INODE_SIZE + L.BLOCK_SIZE - 1) / L.BLOCK_SIZE :=
      (Nat.div_lt_iff_lt_mul hipb).2 (by
        change i < ic at hi
        omega)
    omega

/-- `hfs_format` succeeds, `hfs_mount` then mounts the device, and the mounted
state holds the contents of a fresh file system. -/
theorem format_mount_rep (L : HfsLayout) (magic : Nat) (dev : BlockDevice) (room : Nat)
    (hf : FormatOk L magic dev room) :
    ∃ devF F v0, hfs_format L magic dev = (devF, 0) ∧ hfs_mount magic devF = some F ∧
      Rep L (format_sb L magic dev.num_blocks) dev.num_blocks F v0 ∧
      FreshView L (format_sb L magic dev.num_blocks) v0 := by
  obtain ⟨f1, f2, f3, f4, f5, f6, f7, f8, f9, f10, f11⟩ := format_sb_fields L magic dev room hf
  have hroom := hf.room
  have hbits := hf.blocks_le_bits
  have hu16 := hf.blocks_le_u16
  obtain ⟨sb, hsb⟩ : ∃ sb, format_sb L magic dev.num_blocks = sb := ⟨_, rfl⟩
  rw [hsb] at f1 f2 f3 f4 f5 f6 f7 f8 f9 f10 f11 hroom ⊢
  obtain ⟨ib, hib⟩ : ∃ ib,
      (sb.s_inodes_count * L.INODE_SIZE + L.BLOCK_SIZE - 1) % U32 / L.BLOCK_SIZE = ib := ⟨_, rfl⟩
  rw [hib] at f9
  obtain ⟨bm0, hbm0⟩ : ∃ bm0,
      format_set_bits sb.s_data_blocks_start sb.s_data_blocks_start 0 zero_block = bm0 := ⟨_, rfl⟩
  obtain ⟨root, hroot⟩ : ∃ root, one_block_inode L 1 sb.s_data_blocks_start 0 = root := ⟨_, rfl⟩
  have hnb3 : (((dev.write 0 (sb_store zero_block sb)).write 1 bm0).write 2
      (set_bit zero_block 0)).num_blocks = dev.num_blocks := rfl
  obtain ⟨dev4, g1, g2, g3⟩ := format_clear_table_spec 3 ib (by omega) ib 0
    (((dev.write 0 (sb_store zero_block sb)).write 1 bm0).write 2 (set_bit zero_block 0))
    (by omega) (by rw [hnb3]; omega)
  have hfmt : hfs_format L magic dev
      = (((dev4.write 1 (set_bit bm0 sb.s_data_blocks_start)).write sb.s_data_blocks_start
            zero_block).write 3 (inode_store L zero_block 0 root), 0) := by
    unfold hfs_format
    rw [hsb]
    simp only [hib, hbm0, f6, f7, f8]
    rw [blkwrite_of_lt dev 0 _ (by omega)]
    dsimp only
    rw [blkwrite_of_lt _ 1 _ (by show 1 < dev.num_blocks; omega)]
    dsimp only
    rw [blkwrite_of_lt _ 2 _ (by show 2 < dev.num_blocks; omega)]
    dsimp only
    rw [g1]
    dsimp only
    rw [blkwrite_of_lt _ 1 _ (by rw [g2]; show 1 < dev.num_blocks; omega)]
    dsimp only
    rw [blkwrite_of_lt _ sb.s_data_blocks_start _
      (by show sb.s_data_blocks_start < dev4.num_blocks; rw [g2]; show _ < dev.num_blocks; omega)]
    dsimp only
    rw [blkwrite_of_lt _ 3 _ (by show 3 < dev4.num_blocks; rw [g2]; show 3 < dev.num_blocks; omega)]
    rw [← hroot]
    rfl
  obtain ⟨devF, hdevF⟩ : ∃ devF,
      ((dev4.write 1 (set_bit bm0 sb.s_data_blocks_start)).write sb.s_data_blocks_start
        zero_block).write 3 (inode_store L zero_block 0 root) = devF := ⟨_, rfl⟩
  rw [hdevF] at hfmt
  have hnbF : devF.num_blocks = dev.num_blocks := by
    rw [← hdevF]
    show dev4.num_blocks = _
    rw [g2]
    rfl
  have h3d : 3 < sb.s_data_blocks_start := by
    have := f11 0 (by omega)
    rw [Nat.zero_div] at this
    exact this
  have hd3 : ¬ sb.s_data_blocks_start = 3 := by omega
  have hb3 : devF.blocks 3 = inode_store L zero_block 0 root := by
    rw [← hdevF, write_blocks_same]
  have hbd : devF.blocks sb.s_data_blocks_start = zero_block := by
    rw [← hdevF, write_blocks_other _ _ _ _ hd3, write_blocks_same]
  have hb1 : devF.blocks 1 = set_bit bm0 sb.s_data_blocks_start := by
    rw [← hdevF, write_blocks_other _ _ _ _ (by omega), write_blocks_other _ _ _ _ (by omega),
      write_blocks_same]
  have hb2 : devF.blocks 2 = set_bit zero_block 0 := by
    rw [← hdevF, write_blocks_other _ _ _ _ (by omega), write_blocks_other _ _ _ _ (by omega),
      write_blocks_other _ _ _ _ (by omega), g3 2, if_neg (by omega), write_blocks_same]
  have hb0 : devF.blocks 0 = sb_store zero_block sb := by
    rw [← hdevF, write_blocks_other _ _ _ _ (by omega), write_blocks_other _ _ _ _ (by omega),
      write_blocks_other _ _ _ _ (by omega), g3 0, if_neg (by omega),
      write_blocks_other _ _ _ _ (by omega), write_blocks_other _ _ _ _ (by omega),
      write_blocks_same]
  have hload : sb_load (sb_store zero_block sb) = sb :=
    sb_load_store sb (by rw [f1]; exact hf.magic_lt) (by omega) (by omega) (by omega) (by omega)
      (by omega) (by omega)
  have hmount : hfs_mount magic devF
      = some (HfsData.mk devF sb (devF.blocks 1) (devF.blocks 2)) := by
    have e : ¬ sb.s_magic ≠ magic := fun h => h f1
    unfold hfs_mount
    rw [blkread_of_lt devF 0 (by omega)]
    dsimp only
    rw [hb0, hload, if_neg e, f6, f7, blkread_of_lt devF 1 (by omega)]
    dsimp only
    rw [blkread_of_lt devF 2 (by omega)]
  have hok : SbOk L (HfsData.mk devF sb (devF.blocks 1) (devF.blocks 2)) := by
    refine ⟨?_, ?_, ?_, ?_, ?_, ?_, ?_, ?_, ?_, ?_, ?_, ?_, ?_⟩
    · show sb.s_blocks_count ≤ devF.num_blocks
      omega
    · show sb.s_blocks_count ≤ _
      omega
    · show sb.s_blocks_count ≤ _
      omega
    · show 0 < sb.s_inodes_count
      omega
    · show sb.s_inodes_count ≤ _
      omega
    · show 0 < sb.s_data_blocks_start
      omega
    · show sb.s_data_blocks_start ≤ sb.s_blocks_count
      omega
    · show sb.s_block_bitmap < sb.s_data_blocks_start
      omega
    · show sb.s_inode_bitmap < sb.s_data_blocks_start
      omega
    · show sb.s_block_bitmap ≠ sb.s_inode_bitmap
      omega
    · intro i hi
      show sb.s_inode_table_block_start + i / L.INODES_PER_BLOCK < sb.s_data_blocks_start
      rw [f8]
      exact f11 i hi
    · intro i hi
      show sb.s_inode_table_block_start + i / L.INODES_PER_BLOCK ≠ sb.s_block_bitmap
      rw [f8, f6]
      exact Nat.ne_of_gt (Nat.lt_of_lt_of_le (by decide : 1 < 3) (Nat.le_add_right 3 _))
    · intro i hi
      show sb.s_inode_table_block_start + i / L.INODES_PER_BLOCK ≠ sb.s_inode_bitmap
      rw [f8, f7]
      exact Nat.ne_of_gt (Nat.lt_of_lt_of_le (by decide : 2 < 3) (Nat.le_add_right 3 _))
  have hrv : root.Valid L := by
    rw [← hroot]
    exact one_block_valid L 1 _ 0 hf.direct (by decide) (by omega) (by decide)
  have hipb : 0 < L.INODES_PER_BLOCK :=
    Nat.div_pos hf.layout.inode_fits (by have := inode_size_ge L hf.direct; omega)
  obtain ⟨s1, s2⟩ := format_set_bits_spec sb.s_data_blocks_start sb.s_data_blocks_start 0
    zero_block (by omega)
  rw [hbm0] at s1 s2
  refine ⟨devF, _, ⟨devF.blocks 1, devF.blocks 2,
      fun i => inode_load L (devF.blocks (3 + i / L.INODES_PER_BLOCK))
        (i % L.INODES_PER_BLOCK * L.INODE_SIZE), devF.blocks⟩, hfmt, hmount,
    ⟨rfl, hnbF, hok, rfl, ?_, rfl, ?_, ?_, fun b _ => rfl⟩, ⟨?_, hbd, ?_, ?_, ?_, ?_⟩⟩
  · show devF.blocks sb.s_block_bitmap = devF.blocks 1
    rw [f6]
  · show devF.blocks sb.s_inode_bitmap = devF.blocks 2
    rw [f7]
  · intro i hi
    rw [read_inode_eq L _ hok i hi]
    show some (inode_load L (devF.blocks (sb.s_inode_table_block_start + i / L.INODES_PER_BLOCK))
      _) = _
    rw [f8]
  · show inode_load L (devF.blocks (3 + 0 / L.INODES_PER_BLOCK))
      (0 % L.INODES_PER_BLOCK * L.INODE_SIZE) = _
    rw [Nat.zero_div, Nat.zero_mod, Nat.zero_mul, hb3, inode_load_store_same L _ _ _ hrv, hroot]
  · intro j
    show get_bit (devF.blocks 1) j = _
    rw [hb1, get_bit_set_bit, s1 j, get_bit_zero_block]
    by_cases e : j = sb.s_data_blocks_start
    · rw [if_pos e, if_pos (by omega)]
    · rw [if_neg e]
      by_cases e2 : 0 ≤ j ∧ j < sb.s_data_blocks_start
      · rw [if_pos e2, if_pos (by omega)]
      · rw [if_neg e2, if_neg (by omega)]
  · intro j
    show get_bit (devF.blocks 2) j = _
    rw [hb2, get_bit_set_bit, get_bit_zero_block]
  · show Bytes (devF.blocks 1)
    rw [hb1]
    exact bytes_set_bit _ _ (s2 bytes_zero_block)
  · show Bytes (devF.blocks 2)
    rw [hb2]
    exact bytes_set_bit _ _ bytes_zero_block
/-! ## File system: removal on the contents -/

theorem zero_bytes_dirent (L : HfsLayout) (name : List Nat) (n : Nat) :
    zero_bytes (dirent_set L zero_block 0 name n) (0 * L.DIRENT_SIZE) L.DIRENT_SIZE
      = zero_block := by
  funext x
  unfold zero_bytes
  by_cases e : 0 * L.DIRENT_SIZE ≤ x ∧ x < 0 * L.DIRENT_SIZE + L.DIRENT_SIZE
  · rw [if_pos e]
    rfl
  · rw [if_neg e, dirent_set_outside L zero_block 0 name n x (by omega)]

theorem remove_block_single (L : HfsLayout) (hL : L.Ok) (name : List Nat) (n : Nat)
    (hname : CStr name) (hlen : name.length < L.DIRECTORY_NAME_SIZE) (hn0 : n ≠ 0)
    (hn : n < 4294967296) :
    remove_dir_entry_block L (dirent_set L zero_block 0 name n) name
      L.DIRECTORY_ENTRIES_PER_BLOCK 0 = some 0 := by
  obtain ⟨f, hf⟩ : ∃ f, L.DIRECTORY_ENTRIES_PER_BLOCK = f + 1 :=
    ⟨L.DIRECTORY_ENTRIES_PER_BLOCK - 1, by have := epb_pos L hL; omega⟩
  have e1 : dirent_inode_number L (dirent_set L zero_block 0 name n) 0 ≠ 0 := by
    rw [dirent_inum_set_same L zero_block 0 name n hn]
    exact hn0
  have e2 : strcmp_eq (dirent_set L zero_block 0 name n) (0 * L.DIRENT_SIZE) name = true := by
    rw [strcmp_dirent_set_same L zero_block 0 name name n hlen hname hname]
    exact decide_eq_true rfl
  rw [hf, remove_dir_entry_block, if_pos ⟨e1, e2⟩]

/-- `remove_dir_entry` for the name in the first entry of the block of a
directory of one block: the block is filled with zero bytes. -/
theorem rep_remove_dir_entry {L : HfsLayout} {sb0 : Superblock} {nblk : Nat} {h : HfsData}
    {v : View} (hL : L.Ok) (hN : 1 ≤ L.INODE_DIRECT_POINTERS) (R : Rep L sb0 nblk h v)
    (b : Nat) (name : List Nat) (n : Nat) (hb : sb0.s_data_blocks_start ≤ b)
    (hb2 : b < sb0.s_blocks_count) (hdata : v.data b = dirent_set L zero_block 0 name n)
    (hname : CStr name) (hlen : name.length < L.DIRECTORY_NAME_SIZE) (hn0 : n ≠ 0)
    (hn : n < 4294967296) :
    remove_dir_entry L h (one_block_inode L 1 b L.DIRENT_SIZE) name
        = (h.setBlock b zero_block, 0) ∧
      Rep L sb0 nblk (h.setBlock b zero_block)
        { v with data := Function.update v.data b zero_block } := by
  obtain ⟨b1, b2, b3, b4, b5, b6, b7⟩ := rep_bits_lt hL R
  obtain ⟨w1, w2⟩ := rep_set_block hL R b zero_block hb hb2
  refine ⟨?_, w2⟩
  have hdir : ¬ (one_block_inode L 1 b L.DIRENT_SIZE).i_is_directory = 0 := by
    show ¬ (1 : Nat) = 0
    decide
  have hsz : (one_block_inode L 1 b L.DIRENT_SIZE).i_size = L.DIRENT_SIZE := rfl
  have h0 : 0 * L.BLOCK_SIZE % U32 = 0 := by rw [Nat.zero_mul]; rfl
  have hk : 0 / L.BLOCK_SIZE < L.INODE_DIRECT_POINTERS := by rw [Nat.zero_div]; omega
  have hblk : get_block_for_offset L h (one_block_inode L 1 b L.DIRENT_SIZE) 0 = (b : Int) := by
    rw [get_block_direct L h _ 0 hk, Nat.zero_div, one_block_getD L 1 b _ 0 hN, if_pos rfl]
    exact toInt32_of_lt b (by omega)
  have hpos : ¬ ((b : Nat) : Int) ≤ 0 := by
    have := R.ok.data_pos
    rw [R.sb_eq] at this
    omega
  unfold remove_dir_entry
  rw [if_neg hdir, hsz, blocks_for_dirent L hL]
  simp only [remove_dir_entry_loop, h0, hblk, if_neg hpos,
    toU32_natCast b (show b < 4294967296 by omega), rep_blkread hL R b hb hb2, hdata,
    remove_block_single L hL name n hname hlen hn0 hn, zero_bytes_dirent, w1]
  rfl

theorem free_direct_loop_zero (h : HfsData) (ino : Inode)
    (hz : ∀ k, ino.i_direct_pointers.getD k 0 = 0) :
    ∀ (fuel i : Nat), free_direct_loop fuel i h ino = (h, ino) := by
  intro fuel
  induction fuel with
  | zero => intro i; rfl
  | succ f ih =>
    intro i
    have e : ¬ ino.i_direct_pointers.getD i 0 ≠ 0 := fun g => g (hz i)
    rw [free_direct_loop, if_neg e]
    exact ih (i + 1)

theorem free_direct_loop_keep_ind (fuel : Nat) :
    ∀ (i : Nat) (h : HfsData) (ino : Inode),
      (free_direct_loop fuel i h ino).2.i_single_indirect_pointer
        = ino.i_single_indirect_pointer := by
  induction fuel with
  | zero => intro i h ino; rfl
  | succ f ih =>
    intro i h ino
    rw [free_direct_loop]
    by_cases e : ino.i_direct_pointers.getD i 0 ≠ 0
    · rw [if_pos e, ih]
    · rw [if_neg e, ih]

/-- `free_inode_blocks` for an inode without blocks leaves the state as it
is. -/
theorem free_inode_blocks_none (L : HfsLayout) (h : HfsData) (d : Nat) :
    (free_inode_blocks L h (new_inode L d)).1 = h := by
  have e : ¬ (free_direct_loop L.INODE_DIRECT_POINTERS 0 h
      (new_inode L d)).2.i_single_indirect_pointer ≠ 0 := by
    rw [free_direct_loop_keep_ind]
    exact fun g => g rfl
  unfold free_inode_blocks
  simp only [if_neg e]
  rw [free_direct_loop_zero h (new_inode L d) (new_inode_getD L d)]

/-- `free_inode_blocks` for an inode with one block frees that block. -/
theorem free_inode_blocks_one (L : HfsLayout) (hN : 1 ≤ L.INODE_DIRECT_POINTERS) (h : HfsData)
    (d b s : Nat) (hb : b ≠ 0) :
    (free_inode_blocks L h (one_block_inode L d b s)).1 = free_block h b := by
  have e : ¬ (free_direct_loop L.INODE_DIRECT_POINTERS 0 h
      (one_block_inode L d b s)).2.i_single_indirect_pointer ≠ 0 := by
    rw [free_direct_loop_keep_ind]
    exact fun g => g rfl
  obtain ⟨f, hf⟩ : ∃ f, L.INODE_DIRECT_POINTERS = f + 1 :=
    ⟨L.INODE_DIRECT_POINTERS - 1, by omega⟩
  have e0 : (one_block_inode L d b s).i_direct_pointers.getD 0 0 ≠ 0 := by
    rw [one_block_getD L d b s 0 hN, if_pos rfl]
    exact hb
  have hz : ∀ k, ({ one_block_inode L d b s with
      i_direct_pointers := (one_block_inode L d b s).i_direct_pointers.set 0 0 } :
      Inode).i_direct_pointers.getD k 0 = 0 := by
    intro k
    show ((one_block_inode L d b s).i_direct_pointers.set 0 0).getD k 0 = 0
    rw [getD_set, one_block_getD L d b s k hN]
    by_cases ek : k = 0
    · rw [if_pos ⟨ek, by
        show 0 < ((List.replicate _ 0).set 0 b).length
        rw [List.length_set, List.length_replicate]
        omega⟩]
    · rw [if_neg (fun g => ek g.1), if_neg ek]
  unfold free_inode_blocks
  simp only [if_neg e]
  rw [hf, free_direct_loop, if_pos e0, free_direct_loop_zero _ _ hz,
    one_block_getD L d b s 0 hN, if_pos rfl]

theorem cstr_at_spec (m : Nat → Nat) :
    ∀ (s : List Nat) (fuel off : Nat), CStr s → (∀ i, i < s.length → m (off + i) = s.getD i 0) →
      m (off + s.length) = 0 → s.length < fuel → cstr_at m fuel off = some s := by
  intro s
  induction s with
  | nil =>
    intro fuel off _ _ h0 hf
    obtain ⟨f, rfl⟩ : ∃ f, fuel = f + 1 := ⟨fuel - 1, by simp at hf; omega⟩
    rw [cstr_at, if_pos (by simpa using h0)]
  | cons c cs ih =>
    intro fuel off hs hb h0 hf
    obtain ⟨f, rfl⟩ : ∃ f, fuel = f + 1 := ⟨fuel - 1, by simp at hf; omega⟩
    have hc : m off = c := by
      have := hb 0 (by simp)
      simpa using this
    have hc0 : ¬ m off = 0 := by
      rw [hc]
      exact (hs c (List.mem_cons_self _ _)).1
    rw [cstr_at, if_neg hc0, ih f (off + 1) (fun x hx => hs x (List.mem_cons_of_mem _ hx))
      (fun i hi => by
        have := hb (i + 1) (by simp; omega)
        rw [show off + 1 + i = off + (i + 1) by omega, this]
        simp)
      (by
        rw [show off + 1 + cs.length = off + (c :: cs).length by simp; omega]
        exact h0)
      (by simp at hf; omega), hc]

theorem cstr_at_dirent (L : HfsLayout) (name : List Nat) (n : Nat) (hname : CStr name)
    (hlen : name.length < L.DIRECTORY_NAME_SIZE) :
    cstr_at (dirent_set L zero_block 0 name n) L.DIRECTORY_NAME_SIZE (0 * L.DIRENT_SIZE)
      = some name :=
  cstr_at_spec _ name _ _ hname
    (fun i hi => dirent_set_name_byte L zero_block 0 name n i (by omega) hlen)
    (by
      rw [dirent_set_name_byte L zero_block 0 name n name.length hlen hlen]
      exact List.getD_eq_default _ _ (le_refl _))
    hlen

theorem hfs_remove_entries_unused (L : HfsLayout) (rm : HfsData → List Nat → Option HfsData)
    (path : List Nat) (blk : Nat → Nat) :
    ∀ (fuel j : Nat) (h : HfsData), (∀ j2, j ≤ j2 → dirent_inode_number L blk j2 = 0) →
      hfs_remove_entries L rm path blk fuel j h = some h := by
  intro fuel
  induction fuel with
  | zero => intro j h _; rfl
  | succ f ih =>
    intro j h hz
    have e : ¬ dirent_inode_number L blk j ≠ 0 := fun g => g (hz j (le_refl _))
    rw [hfs_remove_entries, if_neg e]
    exact ih (j + 1) h (fun j2 hj => hz j2 (by omega))

/-- The loop of `hfs_remove` over the children of a directory of one block
whose first entry is its only entry makes the one recursive call. -/
theorem rep_remove_children {L : HfsLayout} {sb0 : Superblock} {nblk : Nat} {h : HfsData}
    {v : View} (hL : L.Ok) (hN : 1 ≤ L.INODE_DIRECT_POINTERS) (R : Rep L sb0 nblk h v)
    (rm : HfsData → List Nat → Option HfsData) (path cname : List Nat) (b c : Nat) (h1 : HfsData)
    (hb : sb0.s_data_blocks_start ≤ b) (hb2 : b < sb0.s_blocks_count)
    (hdata : v.data b = dirent_set L zero_block 0 cname c) (hname : CStr cname)
    (hlen : cname.length < L.DIRECTORY_NAME_SIZE) (hc0 : c ≠ 0) (hc : c < 4294967296)
    (hfit : path.length + 1 + cname.length + 1 < 512)
    (hrm : rm h (path ++ SLASH :: cname) = some h1) :
    hfs_remove_children L rm path (one_block_inode L 1 b L.DIRENT_SIZE)
      (((one_block_inode L 1 b L.DIRENT_SIZE).i_size + L.BLOCK_SIZE - 1) % U32 / L.BLOCK_SIZE)
      0 h = some h1 := by
  obtain ⟨b1, b2, b3, b4, b5, b6, b7⟩ := rep_bits_lt hL R
  have hsz : (one_block_inode L 1 b L.DIRENT_SIZE).i_size = L.DIRENT_SIZE := rfl
  have h0 : 0 * L.BLOCK_SIZE % U32 = 0 := by rw [Nat.zero_mul]; rfl
  have hk : 0 / L.BLOCK_SIZE < L.INODE_DIRECT_POINTERS := by rw [Nat.zero_div]; omega
  have hblk : get_block_for_offset L h (one_block_inode L 1 b L.DIRENT_SIZE) 0 = (b : Int) := by
    rw [get_block_direct L h _ 0 hk, Nat.zero_div, one_block_getD L 1 b _ 0 hN, if_pos rfl]
    exact toInt32_of_lt b (by omega)
  have hpos : ¬ ((b : Nat) : Int) ≤ 0 := by
    have := R.ok.data_pos
    rw [R.sb_eq] at this
    omega
  obtain ⟨f, hf⟩ : ∃ f, L.DIRECTORY_ENTRIES_PER_BLOCK = f + 1 :=
    ⟨L.DIRECTORY_ENTRIES_PER_BLOCK - 1, by have := epb_pos L hL; omega⟩
  have e1 : dirent_inode_number L (dirent_set L zero_block 0 cname c) 0 ≠ 0 := by
    rw [dirent_inum_set_same L zero_block 0 cname c hc]
    exact hc0
  have hent : hfs_remove_entries L rm path (dirent_set L zero_block 0 cname c)
      L.DIRECTORY_ENTRIES_PER_BLOCK 0 h = some h1 := by
    rw [hf, hfs_remove_entries, if_pos e1, cstr_at_dirent L cname c hname hlen]
    dsimp only
    rw [if_pos hfit, hrm]
    dsimp only
    exact hfs_remove_entries_unused L rm path _ f 1 h1 (fun j2 hj => by
      rw [dirent_inum_set_other L zero_block 0 j2 cname c (by omega)]
      exact dirent_inum_zero_block L j2)
  rw [hsz, blocks_for_dirent L hL]
  simp only [hfs_remove_children, h0, hblk, if_neg hpos,
    toU32_natCast b (show b < 4294967296 by omega), rep_blkread hL R b hb hb2, hdata, hent]

/-- The part of `hfs_remove` after the loop over the children, for an inode
whose blocks are freed into the state `h2` and whose name is the first entry
of the one block of its parent directory. -/
theorem rep_remove_finish {L : HfsLayout} {sb0 : Superblock} {nblk : Nat} (hL : L.Ok)
    (hN : 1 ≤ L.INODE_DIRECT_POINTERS) (h1 h2 : HfsData) (v2 : View) (tino : Inode) (n : Nat)
    (path parent name : List Nat) (p bp : Nat)
    (hfree : (free_inode_blocks L h1 tino).1 = h2) (R2 : Rep L sb0 nblk h2 v2)
    (hn1 : 1 ≤ n) (hn : n < sb0.s_inodes_count)
    (hsplit : split_path L path = some (parent, name)) (hpne : parent ≠ [])
    (hwalk : VWalk L sb0 v2 (path_tokens parent) 0 p) (hp : p < sb0.s_inodes_count)
    (hpino : v2.inode p = one_block_inode L 1 bp L.DIRENT_SIZE)
    (hbp : sb0.s_data_blocks_start ≤ bp) (hbp2 : bp < sb0.s_blocks_count)
    (hdata : v2.data bp = dirent_set L zero_block 0 name n) (hname : CStr name)
    (hlen : name.length < L.DIRECTORY_NAME_SIZE) :
    ∃ h3, hfs_remove_finish L h1 tino n path = some (h3, 0) ∧
      Rep L sb0 nblk h3
        { v2 with ibm := clear_bit v2.ibm n, data := Function.update v2.data bp zero_block } := by
  obtain ⟨b1, b2, b3, b4, b5, b6, b7⟩ := rep_bits_lt hL R2
  have R3 := rep_free_inode hL R2 n hn1 hn
  have hres : resolve_path L (free_inode h2 n) parent = (p : Int) :=
    vwalk_resolve_path hL hN R3 parent p hpne
      (vwalk_congr L sb0 v2 (View.mk v2.bbm (clear_bit v2.ibm n) v2.inode v2.data) rfl rfl _ 0 p
        hwalk)
  obtain ⟨d1, R4⟩ := rep_remove_dir_entry hL hN R3 bp name n hbp hbp2 hdata hname hlen
    (by omega) (by omega)
  obtain ⟨w1, R5⟩ := rep_write_inode hL R4 p (one_block_inode L 1 bp L.DIRENT_SIZE) hp
    (one_block_valid L 1 bp _ hN (by decide) (by omega)
      (by have := hL.dirent_fits; have := eight_bs_lt L hL; omega))
  refine ⟨((free_inode h2 n).setBlock bp zero_block).setInode L p
    (one_block_inode L 1 bp L.DIRENT_SIZE), ?_, ?_⟩
  · have e1 : ((p : Nat) : Int) ≥ 0 := Int.natCast_nonneg p
    unfold hfs_remove_finish
    rw [hfree, hsplit]
    simp only [hres, if_pos e1, toU32_natCast p (show p < 4294967296 by omega), R3.inode p hp,
      hpino, d1, w1]
  · have e : Function.update v2.inode p (one_block_inode L 1 bp L.DIRENT_SIZE) = v2.inode := by
      rw [← hpino]
      exact Function.update_eq_self p v2.inode
    have R6 : Rep L sb0 nblk
        ((((free_inode h2 n).setBlock bp zero_block).setInode L p
          (one_block_inode L 1 bp L.DIRENT_SIZE)))
        (View.mk v2.bbm (clear_bit v2.ibm n)
          (Function.update v2.inode p (one_block_inode L 1 bp L.DIRENT_SIZE))
          (Function.update v2.data bp zero_block)) := R5
    rw [e] at R6
    exact R6

/-- `hfs_remove` of a file without blocks whose name is the first entry of the
one block of its parent directory. -/
theorem rep_remove_file {L : HfsLayout} {sb0 : Superblock} {nblk : Nat} {h : HfsData} {v : View}
    (hL : L.Ok) (hN : 1 ≤ L.INODE_DIRECT_POINTERS) (R : Rep L sb0 nblk h v) (k : Nat)
    (path parent name : List Nat) (n p bp : Nat) (hne : path ≠ [])
    (hw : VWalk L sb0 v (path_tokens path) 0 n) (hn1 : 1 ≤ n) (hn : n < sb0.s_inodes_count)
    (hino : v.inode n = new_inode L 0)
    (hsplit : split_path L path = some (parent, name)) (hpne : parent ≠ [])
    (hwalk : VWalk L sb0 v (path_tokens parent) 0 p) (hp : p < sb0.s_inodes_count)
    (hpino : v.inode p = one_block_inode L 1 bp L.DIRENT_SIZE)
    (hbp : sb0.s_data_blocks_start ≤ bp) (hbp2 : bp < sb0.s_blocks_count)
    (hdata : v.data bp = dirent_set L zero_block 0 name n) (hname : CStr name)
    (hlen : name.length < L.DIRECTORY_NAME_SIZE) :
    ∃ h3, hfs_remove_depth L (k + 1) h path = some (h3, 0) ∧
      Rep L sb0 nblk h3
        { v with ibm := clear_bit v.ibm n, data := Function.update v.data bp zero_block } := by
  obtain ⟨b1, b2, b3, b4, b5, b6, b7⟩ := rep_bits_lt hL R
  obtain ⟨h3, f1, f2⟩ := rep_remove_finish hL hN h h v (new_inode L 0) n path parent name p bp
    (free_inode_blocks_none L h 0) R hn1 hn hsplit hpne hwalk hp hpino hbp hbp2 hdata hname hlen
  refine ⟨h3, ?_, f2⟩
  have hres := vwalk_resolve_path hL hN R path n hne hw
  have e1 : ¬ ((n : Nat) : Int) < 0 := natCast_not_neg n
  have e2 : ¬ ((n : Nat) : Int) = 0 := by omega
  have e3 : ¬ (new_inode L 0).i_is_directory ≠ 0 := fun g => g rfl
  rw [hfs_remove_depth]
  simp only [hres, if_neg e1, if_neg e2, toU32_natCast n (show n < 4294967296 by omega),
    R.inode n hn, hino, if_neg e3, f1]

/-- `hfs_remove` of a directory of one block whose first entry is its only
entry, given the state that the removal of the child leaves: the block and the
inode of the directory are freed and its name, the first entry of the one
block of its parent directory, is removed. -/
theorem rep_remove_dir {L : HfsLayout} {sb0 : Superblock} {nblk : Nat} {h : HfsData} {v : View}
    (hL : L.Ok) (hN : 1 ≤ L.INODE_DIRECT_POINTERS) (R : Rep L sb0 nblk h v) (k : Nat)
    (path cname parent name : List Nat) (n bt c p bp : Nat) (h1 : HfsData) (r1 : Int) (v1 : View)
    (hne : path ≠ []) (hw : VWalk L sb0 v (path_tokens path) 0 n) (hn1 : 1 ≤ n)
    (hn : n < sb0.s_inodes_count) (hino : v.inode n = one_block_inode L 1 bt L.DIRENT_SIZE)
    (hbt : sb0.s_data_blocks_start ≤ bt) (hbt2 : bt < sb0.s_blocks_count)
    (hcdata : v.data bt = dirent_set L zero_block 0 cname c) (hcname : CStr cname)
    (hclen : cname.length < L.DIRECTORY_NAME_SIZE) (hc0 : c ≠ 0) (hc : c < 4294967296)
    (hfit : path.length + 1 + cname.length + 1 < 512)
    (hchild : hfs_remove_depth L k h (path ++ SLASH :: cname) = some (h1, r1))
    (R1 : Rep L sb0 nblk h1 v1)
    (hsplit : split_path L path = some (parent, name)) (hpne : parent ≠ [])
    (hwalk : VWalk L sb0 v1 (path_tokens parent) 0 p) (hp : p < sb0.s_inodes_count)
    (hpino : v1.inode p = one_block_inode L 1 bp L.DIRENT_SIZE)
    (hbp : sb0.s_data_blocks_start ≤ bp) (hbp2 : bp < sb0.s_blocks_count)
    (hdata : v1.data bp = dirent_set L zero_block 0 name n) (hname : CStr name)
    (hlen : name.length < L.DIRECTORY_NAME_SIZE) :
    ∃ h3, hfs_remove_depth L (k + 1) h path = some (h3, 0) ∧
      Rep L sb0 nblk h3
        { v1 with bbm := clear_bit v1.bbm bt, ibm := clear_bit v1.ibm n,
                  data := Function.update v1.data bp zero_block } := by
  obtain ⟨b1, b2, b3, b4, b5, b6, b7⟩ := rep_bits_lt hL R
  have hbt0 : bt ≠ 0 := by
    have := R.ok.data_pos
    rw [R.sb_eq] at this
    omega
  have R2 := rep_free_block hL R1 bt hbt hbt2
  obtain ⟨h3, f1, f2⟩ := rep_remove_finish hL hN h1 (free_block h1 bt) _
    (one_block_inode L 1 bt L.DIRENT_SIZE) n path parent name p bp
    (free_inode_blocks_one L hN h1 1 bt _ hbt0) R2 hn1 hn hsplit hpne
    (vwalk_congr L sb0 v1 (View.mk (clear_bit v1.bbm bt) v1.ibm v1.inode v1.data) rfl rfl _ 0 p
      hwalk) hp hpino hbp hbp2 hdata hname hlen
  refine ⟨h3, ?_, f2⟩
  have hres := vwalk_resolve_path hL hN R path n hne hw
  have e1 : ¬ ((n : Nat) : Int) < 0 := natCast_not_neg n
  have e2 : ¬ ((n : Nat) : Int) = 0 := by omega
  have e3 : (one_block_inode L 1 bt L.DIRENT_SIZE).i_is_directory ≠ 0 := by
    show (1 : Nat) ≠ 0
    decide
  have hch := rep_remove_children hL hN R
    (fun h p => (hfs_remove_depth L k h p).map Prod.fst) path cname bt c h1 hbt hbt2 hcdata
    hcname hclen hc0 hc hfit (by
      show (hfs_remove_depth L k h (path ++ SLASH :: cname)).map Prod.fst = some h1
      rw [hchild]
      rfl)
  rw [hfs_remove_depth]
  simp only [hres, if_neg e1, if_neg e2, toU32_natCast n (show n < 4294967296 by omega),
    R.inode n hn, hino, if_pos e3, hch, f1]
/-! ## Kernel heap: a second `kfree` of the same pointer -/

/-- The free blocks of the heap are at addresses that are multiples of 4 and
the word at `x` is a multiple of 4. -/
def AlignedHeap (s : BuddyState) (x : Nat) : Prop :=
  (∀ k a, a ∈ s.free_lists k → a % 4 = 0) ∧ load32 s.mem x % 4 = 0

theorem load32_store32_aligned (m : Nat → Nat) (a v x : Nat) (ha : a % 4 = 0) (hx : x % 4 = 0)
    (hv : v % 4 = 0) (h : load32 m x % 4 = 0) : load32 (store32 m a v) x % 4 = 0 := by
  by_cases e : a = x
  · rw [e, load32_store32_same]
    omega
  · rw [load32_store32_disj m a v x (by omega)]
    exact h

theorem headD_aligned (l : List Nat) (h : ∀ a, a ∈ l → a % 4 = 0) : l.headD 0 % 4 = 0 := by
  cases l with
  | nil => rfl
  | cons a as => exact h a (List.mem_cons_self _ _)

theorem list_remove_mem_aligned (m : Nat → Nat) (pre post : List Nat) (x : Nat)
    (hx : x % 4 = 0) (hpre : ∀ a, a ∈ pre → a % 4 = 0) (hpost : ∀ a, a ∈ post → a % 4 = 0)
    (h : load32 m x % 4 = 0) : load32 (list_remove_mem m pre post) x % 4 = 0 := by
  cases pre with
  | nil =>
    cases post with
    | nil => exact h
    | cons n ns =>
      have hn := hpost n (List.mem_cons_self _ _)
      exact load32_store32_aligned _ (n + 4) _ x (by omega) hx rfl h
  | cons p ps =>
    have hp := hpre p (List.mem_cons_self _ _)
    cases post with
    | nil => exact load32_store32_aligned m p _ x hp hx rfl h
    | cons n ns =>
      have hn := hpost n (List.mem_cons_self _ _)
      exact load32_store32_aligned _ (n + 4) _ x (by omega) hx hp
        (load32_store32_aligned m p _ x hp hx hn h)

theorem list_remove_walk_aligned (m : Nat → Nat) (node x : Nat) (hx : x % 4 = 0)
    (h : load32 m x % 4 = 0) :
    ∀ (l pre : List Nat), (∀ a, a ∈ pre → a % 4 = 0) → (∀ a, a ∈ l → a % 4 = 0) →
      load32 (list_remove_walk m node pre l) x % 4 = 0 := by
  intro l
  induction l with
  | nil => intro pre _ _; cases pre <;> exact h
  | cons y ys ih =>
    intro pre hpre hl
    have hys : ∀ a, a ∈ ys → a % 4 = 0 := fun a ha => hl a (List.mem_cons_of_mem _ ha)
    simp only [list_remove_walk]
    by_cases e : y = node
    · rw [if_pos e]
      exact list_remove_mem_aligned m pre ys x hx hpre hys h
    · rw [if_neg e]
      refine ih (y :: pre) ?_ hys
      intro a ha
      rcases List.mem_cons.1 ha with e2 | e2
      · rw [e2]; exact hl y (List.mem_cons_self _ _)
      · exact hpre a e2

theorem list_remove_aligned (s : BuddyState) (order node x : Nat) (hx : x % 4 = 0)
    (h : AlignedHeap s x) : AlignedHeap (list_remove s order node) x := by
  refine ⟨?_, ?_⟩
  · intro k a ha
    by_cases hk : k = order
    · have ha2 : a ∈ (s.free_lists order).erase node := by
        simpa [list_remove, BuddyState.setList, BuddyState.setMem, hk] using ha
      exact h.1 order a (List.mem_of_mem_erase ha2)
    · have ha2 : a ∈ s.free_lists k := by
        simpa [list_remove, BuddyState.setList, BuddyState.setMem, hk] using ha
      exact h.1 k a ha2
  · exact list_remove_walk_aligned s.mem node x hx h.2 _ [] (fun _ ha => by simp at ha)
      (h.1 order)

theorem kfree_merge_aligned (x : Nat) (hx : x % 4 = 0) :
    ∀ (fuel : Nat) (s : BuddyState) (block_addr block_size order : Nat),
      AlignedHeap s x → block_addr % 4 = 0 →
      AlignedHeap (kfree_merge fuel s block_addr block_size order).1 x ∧
        (kfree_merge fuel s block_addr block_size order).2.1 % 4 = 0 := by
  intro fuel
  induction fuel with
  | zero => intro s b sz o h hb; exact ⟨h, hb⟩
  | succ n ih =>
    intro s b sz o h hb
    simp only [kfree_merge]
    by_cases h1 : o < s.max_order
    · rw [if_pos h1]
      by_cases h2 : get_buddy_addr s.base b sz ∈ s.free_lists o
      · rw [if_pos h2]
        refine ih _ _ _ _ (list_remove_aligned s o _ x hx h) ?_
        split_ifs
        · exact h.1 o _ h2
        · exact hb
      · rw [if_neg h2]
        exact ⟨h, hb⟩
    · rw [if_neg h1]
      exact ⟨h, hb⟩

theorem list_push_aligned (s : BuddyState) (order node x : Nat) (hx : x % 4 = 0)
    (hn : node % 4 = 0) (h : AlignedHeap s x) :
    load32 (list_push s order node).mem x % 4 = 0 := by
  unfold list_push
  cases hl : s.free_lists order with
  | nil =>
    exact load32_store32_aligned _ (node + 4) 0 x (by omega) hx rfl
      (load32_store32_aligned _ node 0 x hn hx rfl h.2)
  | cons a as =>
    have ha : a % 4 = 0 := h.1 order a (by rw [hl]; exact List.mem_cons_self _ _)
    exact load32_store32_aligned _ (a + 4) node x (by omega) hx hn
      (load32_store32_aligned _ (node + 4) 0 x (by omega) hx rfl
        (load32_store32_aligned _ node a x hn hx ha h.2))

/-- After `kfree(ptr)` the word at the magic position of the header of `ptr`
is a multiple of 4. -/
theorem kfree_magic_aligned (s : BuddyState) (p : Nat) (hp : p % 4 = 0)
    (hal : ∀ k a, a ∈ s.free_lists k → a % 4 = 0)
    (hm : load32 s.mem ((p + (U32 - HDR_SIZE)) % U32 + 4) = BUDDY_MAGIC) (hp0 : p ≠ 0) :
    load32 (kfree s p).mem ((p + (U32 - HDR_SIZE)) % U32 + 4) % 4 = 0 := by
  have hh : (p + (U32 - HDR_SIZE)) % U32 % 4 = 0 := by
    unfold U32 HDR_SIZE
    omega
  have hx : ((p + (U32 - HDR_SIZE)) % U32 + 4) % 4 = 0 := by omega
  unfold kfree
  rw [if_neg hp0]
  simp only []
  rw [if_neg (by simpa using hm)]
  have h1 : AlignedHeap (s.setMem (store32 s.mem ((p + (U32 - HDR_SIZE)) % U32 + 4) 0))
      ((p + (U32 - HDR_SIZE)) % U32 + 4) :=
    ⟨hal, by show load32 (store32 _ _ 0) _ % 4 = 0; rw [load32_store32_same]⟩
  obtain ⟨h2, h3⟩ := kfree_merge_aligned _ hx s.max_order _ ((p + (U32 - HDR_SIZE)) % U32)
    (load32 s.mem ((p + (U32 - HDR_SIZE)) % U32))
    (log2_floor (load32 s.mem ((p + (U32 - HDR_SIZE)) % U32))) h1 hh
  apply list_push_aligned _ _ _ _ hx h3
  refine ⟨h2.1, ?_⟩
  exact load32_store32_aligned _ _ 0 _ (by omega) hx rfl
    (load32_store32_aligned _ _ 0 _ h3 hx rfl h2.2)

/-- C14: in a heap whose free blocks are at addresses that are multiples of 4,
for every pointer `p` that is not NULL and a multiple of 4 (as every pointer
that `kmalloc` returns from such a heap is): after `kfree(p)` the word at the
magic position of the header of `p` is not `0xDEADBEEF`, whether or not the
first 8 bytes of the freed block now hold free-list links, and a second
`kfree(p)` leaves the state, the free lists and the memory, exactly as the
first call left it. -/
theorem kfree_twice_ignored (s : BuddyState) (p : Nat) (hp0 : p ≠ 0) (hp : p % 4 = 0)
    (hal : ∀ k a, a ∈ s.free_lists k → a % 4 = 0) :
    load32 (kfree s p).mem ((p + (U32 - HDR_SIZE)) % U32 + 4) ≠ BUDDY_MAGIC ∧
      kfree (kfree s p) p = kfree s p := by
  have hno : ∀ t : BuddyState,
      load32 t.mem ((p + (U32 - HDR_SIZE)) % U32 + 4) ≠ BUDDY_MAGIC → kfree t p = t := by
    intro t ht
    unfold kfree
    rw [if_neg hp0]
    simp only []
    rw [if_pos ht]
  have h1 : load32 (kfree s p).mem ((p + (U32 - HDR_SIZE)) % U32 + 4) ≠ BUDDY_MAGIC := by
    by_cases hm : load32 s.mem ((p + (U32 - HDR_SIZE)) % U32 + 4) = BUDDY_MAGIC
    · have := kfree_magic_aligned s p hp hal hm hp0
      intro e
      rw [e] at this
      exact absurd this (by decide)
    · rw [hno s hm]
      exact hm
  exact ⟨h1, hno _ h1⟩

set_option maxRecDepth 100000 in
theorem kfree_twice_ignored_witness :
    ((kmalloc (buddy_init (fun _ => 0) 4224 64 5 6) 24).2 = 4264
      ∧ (List.range 8).map (kmalloc (buddy_init (fun _ => 0) 4224 64 5 6) 24).1.free_lists
          = (List.range 8).map heapOneLive.free_lists
      ∧ load32 heapOneLive.mem 4260 = BUDDY_MAGIC)
    ∧ (List.range 8).map (kfree heapOneLive 4264).free_lists = [[], [], [], [], [], [], [4224], []]
    ∧ load32 (kfree heapOneLive 4264).mem ((4264 + (U32 - HDR_SIZE)) % U32 + 4) ≠ BUDDY_MAGIC
    ∧ kfree (kfree heapOneLive 4264) 4264 = kfree heapOneLive 4264 :=
  ⟨by decide, by decide,
    kfree_twice_ignored heapOneLive 4264 (by decide) (by decide) (by
      intro k a ha
      by_cases hk : k = 5
      · rw [hk] at ha
        have : a = 4224 := by simpa [heapOneLive] using ha
        rw [this]
      · simp [heapOneLive, hk] at ha)⟩

/-! ## Kernel heap: two buddies of a fresh heap -/

theorem list_pop_cons (s : BuddyState) (k x : Nat) (r : List Nat) (h : s.free_lists k = x :: r) :
    (list_pop s k).2 = x ∧
      (list_pop s k).1.free_lists = (fun j => if j = k then r else s.free_lists j) ∧
      (list_pop s k).1.base = s.base ∧ (list_pop s k).1.max_order = s.max_order ∧
      (list_pop s k).1.min_order = s.min_order := by
  unfold list_pop
  rw [h]
  cases r with
  | nil => exact ⟨rfl, rfl, rfl, rfl, rfl⟩
  | cons y ys => exact ⟨rfl, rfl, rfl, rfl, rfl⟩

theorem list_pop_single_mem (s : BuddyState) (k x : Nat) (h : s.free_lists k = [x]) :
    (list_pop s k).1.mem = s.mem := by
  unfold list_pop
  rw [h]
  rfl

theorem list_push_lists (s : BuddyState) (k node : Nat) :
    (list_push s k node).free_lists
        = (fun j => if j = k then node :: s.free_lists k else s.free_lists j) ∧
      (list_push s k node).base = s.base ∧ (list_push s k node).max_order = s.max_order ∧
      (list_push s k node).min_order = s.min_order := by
  unfold list_push
  cases h : s.free_lists k with
  | nil => exact ⟨rfl, rfl, rfl, rfl⟩
  | cons y ys => exact ⟨rfl, rfl, rfl, rfl⟩

theorem list_push_empty_mem (s : BuddyState) (k node : Nat) (h : s.free_lists k = []) :
    (list_push s k node).mem = store32 (store32 s.mem node 0) (node + 4) 0 := by
  unfold list_push
  rw [h]
  rfl

theorem order_to_size_eq (k : Nat) (hk : k < 32) : order_to_size k = 2 ^ k := by
  unfold order_to_size U32
  rw [Nat.one_shiftLeft]
  exact Nat.mod_eq_of_lt
    (lt_of_lt_of_le (Nat.pow_lt_pow_right (by decide) hk) (by decide))

theorem kmalloc_find_spec (s : BuddyState) :
    ∀ (fuel c t : Nat), c ≤ t → t ≤ s.max_order →
      (∀ j, c ≤ j → j < t → s.free_lists j = []) → s.free_lists t ≠ [] → t - c < fuel →
      kmalloc_find s fuel c = t := by
  intro fuel
  induction fuel with
  | zero => intro c t _ _ _ _ h; omega
  | succ n ih =>
    intro c t hct ht hem hne hf
    unfold kmalloc_find
    by_cases e : c = t
    · rw [e, if_neg (fun h => hne h.2)]
    · rw [if_pos ⟨by omega, hem c (le_refl _) (by omega)⟩]
      exact ih (c + 1) t (by omega) ht (fun j h1 h2 => hem j (by omega) h2) hne (by omega)

/-- The free lists after the split loop of `kmalloc` has split the head `x`
of the order `k + n` down to the order `k`, the orders between being empty. -/
theorem kmalloc_split_spec (k : Nat) :
    ∀ (n : Nat) (s : BuddyState) (x : Nat) (r : List Nat), k + n < 32 →
      x + 2 ^ (k + n) ≤ 4294967296 → s.free_lists (k + n) = x :: r →
      (∀ j, k ≤ j → j < k + n → s.free_lists j = []) →
      (kmalloc_split k n s (k + n)).free_lists
          = (fun j =>
              if j = k then
                (if n = 0 then x :: r else [x + 2 ^ (k + n) - 2 ^ k, x + 2 ^ (k + n) - 2 ^ (k + 1)])
              else if k < j ∧ j < k + n then [x + 2 ^ (k + n) - 2 ^ (j + 1)]
              else if j = k + n then r else s.free_lists j) ∧
        (kmalloc_split k n s (k + n)).base = s.base ∧
        (kmalloc_split k n s (k + n)).max_order = s.max_order ∧
        (kmalloc_split k n s (k + n)).min_order = s.min_order := by
  intro n
  induction n with
  | zero =>
    intro s x r _ _ hx _
    refine ⟨?_, rfl, rfl, rfl⟩
    rw [Nat.add_zero] at hx
    funext j
    show s.free_lists j = _
    dsimp only
    by_cases e : j = k
    · rw [if_pos e, if_pos rfl, e, hx]
    · rw [if_neg e, if_neg (by omega), if_neg (by omega)]
  | succ n ih =>
    intro s x r hlt hfit hx hem
    have hc : k + (n + 1) - 1 = k + n := by omega
    obtain ⟨p1, p2, p3, p4, p5⟩ := list_pop_cons s (k + (n + 1)) x r hx
    have hsz : order_to_size (k + n) = 2 ^ (k + n) := order_to_size_eq _ (by omega)
    have hpow : 2 ^ (k + (n + 1)) = 2 ^ (k + n) + 2 ^ (k + n) := by
      rw [show k + (n + 1) = (k + n) + 1 by omega, Nat.pow_succ]
      omega
    have hpos : 0 < 2 ^ (k + n) := Nat.two_pow_pos _
    have hsecond : (x + 2 ^ (k + n)) % U32 = x + 2 ^ (k + n) := by
      apply Nat.mod_eq_of_lt
      unfold U32
      omega
    obtain ⟨q1, q2, q3, q4⟩ := list_push_lists (list_pop s (k + (n + 1))).1 (k + n) x
    obtain ⟨u1, u2, u3, u4⟩ :=
      list_push_lists (list_push (list_pop s (k + (n + 1))).1 (k + n) x) (k + n) (x + 2 ^ (k + n))
    have hl : (list_push (list_push (list_pop s (k + (n + 1))).1 (k + n) x) (k + n)
        (x + 2 ^ (k + n))).free_lists
        = fun j => if j = k + n then [x + 2 ^ (k + n), x]
            else if j = k + (n + 1) then r else s.free_lists j := by
      rw [u1, q1, p2]
      funext j
      dsimp only
      by_cases e : j = k + n
      · rw [if_pos e, if_pos e, if_pos rfl, if_neg (by omega), hem (k + n) (by omega) (by omega)]
      · rw [if_neg e, if_neg e, if_neg e]
    have hstep : kmalloc_split k (n + 1) s (k + (n + 1))
        = kmalloc_split k n
            (list_push (list_push (list_pop s (k + (n + 1))).1 (k + n) x) (k + n)
              (x + 2 ^ (k + n))) (k + n) := by
      rw [kmalloc_split]
      rw [if_pos (by omega)]
      simp only [hc, p1, hsz, hsecond]
    rw [hstep]
    obtain ⟨w1, w2, w3, w4⟩ := ih _ (x + 2 ^ (k + n)) [x] (by omega) (by omega)
      (by rw [hl]; dsimp only; rw [if_pos rfl])
      (fun j h1 h2 => by
        rw [hl]
        dsimp only
        rw [if_neg (by omega), if_neg (by omega)]
        exact hem j h1 (by omega))
    refine ⟨?_, by rw [w2, u2, q2, p3], by rw [w3, u3, q3, p4], by rw [w4, u4, q4, p5]⟩
    rw [w1, hl]
    have hk1 : 2 ^ (k + 1) = 2 ^ k + 2 ^ k := by rw [Nat.pow_succ]; omega
    have hkn : 2 ^ k ≤ 2 ^ (k + n) := Nat.pow_le_pow_right (by decide) (by omega)
    funext j
    dsimp only
    by_cases e : j = k
    · have e0 : ¬ (n + 1 = 0) := by omega
      rw [if_pos e, if_pos e, if_neg e0]
      by_cases en : n = 0
      · rw [if_pos en]
        have h0 : 2 ^ (k + n) = 2 ^ k := by rw [en, Nat.add_zero]
        congr 1
        · omega
        · congr 1
          omega
      · rw [if_neg en]
        have h1 : 2 ^ (k + 1) ≤ 2 ^ (k + n) := Nat.pow_le_pow_right (by decide) (by omega)
        congr 1
        · omega
        · congr 1
          omega
    · rw [if_neg e, if_neg e]
      by_cases e2 : k < j ∧ j < k + n
      · rw [if_pos e2, if_pos ⟨e2.1, by omega⟩]
        congr 1
        have : 2 ^ (j + 1) ≤ 2 ^ (k + n) := Nat.pow_le_pow_right (by decide) (by omega)
        omega
      · rw [if_neg e2]
        by_cases e3 : j = k + n
        · have e5 : k < j ∧ j < k + (n + 1) := by omega
          rw [if_pos e3, if_pos e5]
          congr 1
          have h2 : 2 ^ (k + n + 1) = 2 ^ (k + n) + 2 ^ (k + n) := by rw [Nat.pow_succ]; omega
          rw [e3]
          omega
        · rw [if_neg e3, if_neg e3]
          by_cases e4 : k < j ∧ j < k + (n + 1)
          · exact absurd e4 (by omega)
          · rw [if_neg e4]

theorem mod_u32 (x : Nat) (h : x < 4294967296) : x % U32 = x := Nat.mod_eq_of_lt h

theorem list_remove_lists (s : BuddyState) (k node : Nat) :
    (list_remove s k node).free_lists
        = (fun j => if j = k then (s.free_lists k).erase node else s.free_lists j) ∧
      (list_remove s k node).base = s.base ∧ (list_remove s k node).max_order = s.max_order ∧
      (list_remove s k node).min_order = s.min_order :=
  ⟨rfl, rfl, rfl, rfl⟩

set_option maxRecDepth 100000 in
theorem xor_top_block : ∀ M, M < 21 → ∀ c, c < M → (2 ^ M - 2 ^ c) ^^^ 2 ^ c = 2 ^ M - 2 ^ (c + 1) := by
  decide

set_option maxRecDepth 100000 in
theorem xor_top_half : ∀ M, M < 21 → 5 < M → (2 ^ M - 64) ^^^ 32 = 2 ^ M - 32 := by
  decide

theorem get_buddy_addr_off (base d size : Nat) (hb : base < 4294967296) (hd : d < 4294967296)
    (hx : base + (d ^^^ size) < 4294967296) :
    get_buddy_addr base (base + d) size = base + (d ^^^ size) := by
  unfold get_buddy_addr U32
  rw [Nat.mod_eq_of_lt hb]
  have e : (base + d + (4294967296 - base)) % 4294967296 = d := by
    rw [show base + d + (4294967296 - base) = d + 4294967296 by omega, Nat.add_mod_right]
    exact Nat.mod_eq_of_lt hd
  rw [e]
  exact Nat.mod_eq_of_lt hx

/-- The coalescing loop of `kfree` for the block of order `c` at the top of a
heap whose lower part is free in one block per order from `c` on: the blocks
are joined into the block of the largest order at the base. -/
theorem kfree_merge_chain (base M : Nat) (hM : M < 21) (hfit : base + 2 ^ M ≤ 4294967296) :
    ∀ (n : Nat) (s : BuddyState) (c fuel : Nat), c + n = M → n ≤ fuel → s.base = base →
      s.max_order = M →
      (∀ j, c ≤ j → j < M → s.free_lists j = [base + 2 ^ M - 2 ^ (j + 1)]) →
      (kfree_merge fuel s (base + 2 ^ M - 2 ^ c) (2 ^ c) c).2 = (base, M) ∧
        (kfree_merge fuel s (base + 2 ^ M - 2 ^ c) (2 ^ c) c).1.free_lists
            = (fun j => if c ≤ j ∧ j < M then [] else s.free_lists j) ∧
        (kfree_merge fuel s (base + 2 ^ M - 2 ^ c) (2 ^ c) c).1.base = base ∧
        (kfree_merge fuel s (base + 2 ^ M - 2 ^ c) (2 ^ c) c).1.max_order = M ∧
        (kfree_merge fuel s (base + 2 ^ M - 2 ^ c) (2 ^ c) c).1.min_order = s.min_order := by
  intro n
  induction n with
  | zero =>
    intro s c fuel hc _ hb hm _
    have hcm : c = M := by omega
    have hlists : s.free_lists = fun j => if c ≤ j ∧ j < M then [] else s.free_lists j := by
      funext j
      dsimp only
      have e : ¬ (c ≤ j ∧ j < M) := by omega
      rw [if_neg e]
    have hblock : base + 2 ^ M - 2 ^ c = base := by rw [hcm]; omega
    cases fuel with
    | zero => exact ⟨by rw [kfree_merge, hblock, hcm], hlists, hb, hm, rfl⟩
    | succ f =>
      have e : ¬ c < s.max_order := by omega
      rw [kfree_merge, if_neg e]
      exact ⟨by rw [hblock, hcm], hlists, hb, hm, rfl⟩
  | succ n ih =>
    intro s c fuel hc hf hb hm hl
    obtain ⟨f, rfl⟩ : ∃ f, fuel = f + 1 := ⟨fuel - 1, by omega⟩
    have hcM : c < M := by omega
    have hpc : 2 ^ (c + 1) = 2 ^ c + 2 ^ c := by rw [Nat.pow_succ]; omega
    have hle : 2 ^ (c + 1) ≤ 2 ^ M := Nat.pow_le_pow_right (by decide) (by omega)
    have hpos : 0 < 2 ^ c := Nat.two_pow_pos _
    have hbuddy : get_buddy_addr s.base (base + 2 ^ M - 2 ^ c) (2 ^ c)
        = base + 2 ^ M - 2 ^ (c + 1) := by
      rw [hb, show base + 2 ^ M - 2 ^ c = base + (2 ^ M - 2 ^ c) by omega,
        get_buddy_addr_off base _ _ (by omega) (by omega)
          (by rw [xor_top_block M hM c hcM]; omega), xor_top_block M hM c hcM]
      omega
    have e1 : c < s.max_order := by omega
    have e2 : base + 2 ^ M - 2 ^ (c + 1) ∈ s.free_lists c := by
      rw [hl c (le_refl _) hcM]
      exact List.mem_singleton.2 rfl
    have e3 : base + 2 ^ M - 2 ^ (c + 1) < base + 2 ^ M - 2 ^ c := by omega
    have e4 : (2 ^ c * 2) % U32 = 2 ^ (c + 1) := by
      rw [← Nat.pow_succ]
      exact mod_u32 _ (lt_of_le_of_lt hle
        (lt_of_lt_of_le (Nat.pow_lt_pow_right (by decide) (show M < 32 by omega)) (by decide)))
    have hstep : kfree_merge (f + 1) s (base + 2 ^ M - 2 ^ c) (2 ^ c) c
        = kfree_merge f (list_remove s c (base + 2 ^ M - 2 ^ (c + 1)))
            (base + 2 ^ M - 2 ^ (c + 1)) (2 ^ (c + 1)) (c + 1) := by
      rw [kfree_merge, if_pos e1]
      simp only [hbuddy, if_pos e2, if_pos e3, e4]
    obtain ⟨r1, r2, r3, r4⟩ := list_remove_lists s c (base + 2 ^ M - 2 ^ (c + 1))
    obtain ⟨w1, w2, w3, w4, w5⟩ := ih (list_remove s c (base + 2 ^ M - 2 ^ (c + 1))) (c + 1) f
      (by omega) (by omega) (by rw [r2, hb]) (by rw [r3, hm])
      (fun j h1 h2 => by
        rw [r1]
        dsimp only
        have e : ¬ j = c := by omega
        rw [if_neg e]
        exact hl j (by omega) h2)
    rw [hstep]
    refine ⟨w1, ?_, w3, w4, by rw [w5, r4]⟩
    rw [w2, r1]
    funext j
    dsimp only
    by_cases e : c + 1 ≤ j ∧ j < M
    · have e5 : c ≤ j ∧ j < M := by omega
      rw [if_pos e, if_pos e5]
    · rw [if_neg e]
      by_cases e6 : j = c
      · have e7 : c ≤ j ∧ j < M := by omega
        rw [if_pos e6, if_pos e7, hl c (le_refl _) hcM]
        exact List.erase_cons_head _ _
      · have e7 : ¬ (c ≤ j ∧ j < M) := by omega
        rw [if_neg e6, if_neg e7]

/-- The call `kmalloc(size)` for a request of order `k`, when the first free
block is the head `x` of the order `k + n`: the block at the top of `x` is
returned. -/
theorem kmalloc_take (s : BuddyState) (size k n x : Nat) (r : List Nat) (hsize : size ≠ 0)
    (hord : kmalloc_order s.max_order ((((size + HDR_SIZE) % U32 + 7) % U32) &&& not32 7)
      (s.max_order + 2) s.min_order = k)
    (h4 : 4 ≤ k) (hmax : k + n ≤ s.max_order) (h32 : k + n < 32)
    (hx : s.free_lists (k + n) = x :: r)
    (hem : ∀ j, k ≤ j → j < k + n → s.free_lists j = [])
    (hfit : x + 2 ^ (k + n) ≤ 4294967296) :
    (kmalloc s size).2 = x + 2 ^ (k + n) - 2 ^ k + 8 ∧
      (kmalloc s size).1.free_lists
          = (fun j =>
              if j = k then (if n = 0 then r else [x + 2 ^ (k + n) - 2 ^ (k + 1)])
              else if k < j ∧ j < k + n then [x + 2 ^ (k + n) - 2 ^ (j + 1)]
              else if j = k + n then r else s.free_lists j) ∧
      (kmalloc s size).1.base = s.base ∧ (kmalloc s size).1.max_order = s.max_order ∧
      (kmalloc s size).1.min_order = s.min_order ∧
      load32 (kmalloc s size).1.mem (x + 2 ^ (k + n) - 2 ^ k) = 2 ^ k ∧
      load32 (kmalloc s size).1.mem (x + 2 ^ (k + n) - 2 ^ k + 4) = BUDDY_MAGIC ∧
      (n = 0 → r = [] → ∀ a, a + 4 ≤ x ∨ x + 8 ≤ a →
        load32 (kmalloc s size).1.mem a = load32 s.mem a) := by
  have hfind : kmalloc_find s (s.max_order + 2) k = k + n :=
    kmalloc_find_spec s _ k (k + n) (by omega) hmax hem (by rw [hx]; simp) (by omega)
  obtain ⟨w1, w2, w3, w4⟩ := kmalloc_split_spec k n s x r h32 hfit hx hem
  have hkn : 2 ^ k ≤ 2 ^ (k + n) := Nat.pow_le_pow_right (by decide) (by omega)
  have hkpos : 2 ^ 4 ≤ 2 ^ k := Nat.pow_le_pow_right (by decide) h4
  have hk32 : 2 ^ k < 4294967296 :=
    lt_of_lt_of_le (Nat.pow_lt_pow_right (by decide) (show k < 32 by omega)) (by decide)
  have hhead : (kmalloc_split k n s (k + n)).free_lists k
      = (x + 2 ^ (k + n) - 2 ^ k) :: (if n = 0 then r else [x + 2 ^ (k + n) - 2 ^ (k + 1)]) := by
    rw [w1]
    dsimp only
    rw [if_pos rfl]
    by_cases en : n = 0
    · rw [if_pos en, if_pos en]
      have h0 : 2 ^ (k + n) = 2 ^ k := by rw [en, Nat.add_zero]
      congr 1
      omega
    · rw [if_neg en, if_neg en]
  obtain ⟨p1, p2, p3, p4, p5⟩ := list_pop_cons _ k _ _ hhead
  have hk : kmalloc s size
      = ((list_pop (kmalloc_split k n s (k + n)) k).1.setMem
          (store32 (store32 (list_pop (kmalloc_split k n s (k + n)) k).1.mem
            (x + 2 ^ (k + n) - 2 ^ k) (2 ^ k)) (x + 2 ^ (k + n) - 2 ^ k + 4) BUDDY_MAGIC),
         x + 2 ^ (k + n) - 2 ^ k + 8) := by
    have e1 : ¬ k > s.max_order := by omega
    have e2 : ¬ k + n > s.max_order := by omega
    have e3 : k + n - k = n := by omega
    unfold kmalloc
    rw [if_neg hsize]
    simp only [hord, if_neg e1, hfind, if_neg e2, e3, p1, order_to_size_eq k (by omega)]
    congr 1
    unfold HDR_SIZE
    exact mod_u32 _ (by omega)
  rw [hk]
  refine ⟨rfl, ?_, ?_, ?_, ?_, ?_, ?_, ?_⟩
  · show (list_pop (kmalloc_split k n s (k + n)) k).1.free_lists = _
    rw [p2, w1]
    funext j
    dsimp only
    by_cases e : j = k
    · rw [if_pos e, if_pos e]
    · rw [if_neg e, if_neg e, if_neg e]
  · show (list_pop (kmalloc_split k n s (k + n)) k).1.base = _
    rw [p3, w2]
  · show (list_pop (kmalloc_split k n s (k + n)) k).1.max_order = _
    rw [p4, w3]
  · show (list_pop (kmalloc_split k n s (k + n)) k).1.min_order = _
    rw [p5, w4]
  · show load32 (store32 (store32 _ _ _) _ _) _ = _
    rw [load32_store32_disj _ _ _ _ (by omega), load32_store32_same]
    exact Nat.mod_eq_of_lt hk32
  · show load32 (store32 (store32 _ _ _) _ _) _ = _
    rw [load32_store32_same]
    rfl
  · intro en er a ha
    have h0 : 2 ^ (k + n) = 2 ^ k := by rw [en, Nat.add_zero]
    have hs : kmalloc_split k n s (k + n) = s := by rw [en]; rfl
    have hx2 : s.free_lists k = [x] := by
      rw [en, Nat.add_zero, er] at hx
      exact hx
    show load32 (store32 (store32 _ _ _) _ _) _ = _
    rw [load32_store32_disj _ _ _ _ (by omega), load32_store32_disj _ _ _ _ (by omega), hs,
      list_pop_single_mem s k x hx2]

theorem kfree_of (s : BuddyState) (p : Nat) (hp : 8 ≤ p) (hp2 : p < 4294967296)
    (hmagic : load32 s.mem (p - 8 + 4) = BUDDY_MAGIC) :
    kfree s p
      = list_push
          ((kfree_merge s.max_order (s.setMem (store32 s.mem (p - 8 + 4) 0)) (p - 8)
              (load32 s.mem (p - 8)) (log2_floor (load32 s.mem (p - 8)))).1.setMem
            (store32 (store32
              (kfree_merge s.max_order (s.setMem (store32 s.mem (p - 8 + 4) 0)) (p - 8)
                (load32 s.mem (p - 8)) (log2_floor (load32 s.mem (p - 8)))).1.mem
              (kfree_merge s.max_order (s.setMem (store32 s.mem (p - 8 + 4) 0)) (p - 8)
                (load32 s.mem (p - 8)) (log2_floor (load32 s.mem (p - 8)))).2.1 0)
              ((kfree_merge s.max_order (s.setMem (store32 s.mem (p - 8 + 4) 0)) (p - 8)
                (load32 s.mem (p - 8)) (log2_floor (load32 s.mem (p - 8)))).2.1 + 4) 0))
          (kfree_merge s.max_order (s.setMem (store32 s.mem (p - 8 + 4) 0)) (p - 8)
            (load32 s.mem (p - 8)) (log2_floor (load32 s.mem (p - 8)))).2.2
          (kfree_merge s.max_order (s.setMem (store32 s.mem (p - 8 + 4) 0)) (p - 8)
            (load32 s.mem (p - 8)) (log2_floor (load32 s.mem (p - 8)))).2.1 := by
  have e0 : ¬ p = 0 := by omega
  have e1 : (p + (U32 - HDR_SIZE)) % U32 = p - 8 := by
    unfold U32 HDR_SIZE
    rw [show p + (4294967296 - 8) = (p - 8) + 4294967296 by omega, Nat.add_mod_right]
    exact Nat.mod_eq_of_lt (by omega)
  have e2 : ¬ load32 s.mem (p - 8 + 4) ≠ BUDDY_MAGIC := fun h => h hmagic
  unfold kfree
  rw [if_neg e0]
  simp only [e1, if_neg e2]

theorem kmalloc_total_24 : (((24 + HDR_SIZE) % U32 + 7) % U32) &&& not32 7 = 32 := by decide

theorem kmalloc_total_56 : (((56 + HDR_SIZE) % U32 + 7) % U32) &&& not32 7 = 64 := by decide

theorem kmalloc_order_24 (M : Nat) : kmalloc_order M 32 (M + 2) 5 = 5 := by
  rw [kmalloc_order]
  have e : ¬ (order_to_size 5 < 32 ∧ 5 ≤ M) := by
    rw [order_to_size_eq 5 (by decide)]
    intro h
    exact absurd h.1 (by decide)
  rw [if_neg e]

theorem kmalloc_order_56 (M : Nat) (h : 5 ≤ M) : kmalloc_order M 64 (M + 2) 5 = 6 := by
  rw [kmalloc_order]
  have e : order_to_size 5 < 64 ∧ 5 ≤ M := by
    rw [order_to_size_eq 5 (by decide)]
    exact ⟨by decide, h⟩
  rw [if_pos e, kmalloc_order]
  have e2 : ¬ (order_to_size (5 + 1) < 64 ∧ 5 + 1 ≤ M) := by
    rw [order_to_size_eq (5 + 1) (by decide)]
    intro h
    exact absurd h.1 (by decide)
  rw [if_neg e2]

/-- A request of order `k` on a heap that is as when initialised takes the
top `2 ^ k` bytes of the heap. -/
theorem kmalloc_fresh (s : BuddyState) (base M size k : Nat) (hs : FreshShape s base M)
    (hsize : size ≠ 0)
    (hord : kmalloc_order M ((((size + HDR_SIZE) % U32 + 7) % U32) &&& not32 7) (M + 2) 5 = k)
    (h4 : 4 ≤ k) (hk : k ≤ M) (hM : M < 21) (hfit : base + 2 ^ M ≤ 4294967296) :
    (kmalloc s size).2 = base + 2 ^ M - 2 ^ k + 8 ∧ TopShape (kmalloc s size).1 base M k ∧
      load32 (kmalloc s size).1.mem (base + 2 ^ M - 2 ^ k) = 2 ^ k ∧
      load32 (kmalloc s size).1.mem (base + 2 ^ M - 2 ^ k + 4) = BUDDY_MAGIC := by
  obtain ⟨n, rfl⟩ : ∃ n, M = k + n := ⟨M - k, by omega⟩
  have hmin : s.min_order = 5 := hs.min_eq
  obtain ⟨t1, t2, t3, t4, t5, t6, t7, _⟩ := kmalloc_take s size k n base [] hsize
    (by rw [hs.max_eq, hmin]; exact hord) h4 (by rw [hs.max_eq]) (by omega)
    (by rw [hs.lists, if_pos rfl])
    (fun j h1 h2 => by
      have e : ¬ j = k + n := by omega
      rw [hs.lists, if_neg e])
    hfit
  refine ⟨t1, ⟨by rw [t3, hs.base_eq], by rw [t4, hs.max_eq], by rw [t5, hs.min_eq], ?_⟩, t6, t7⟩
  intro j
  rw [t2]
  dsimp only
  by_cases e : j = k
  · rw [if_pos e]
    by_cases en : n = 0
    · have e2 : ¬ (k ≤ j ∧ j < k + n) := by omega
      rw [if_pos en, if_neg e2]
    · have e2 : k ≤ j ∧ j < k + n := by omega
      rw [if_neg en, if_pos e2, e]
  · rw [if_neg e]
    by_cases e2 : k < j ∧ j < k + n
    · have e3 : k ≤ j ∧ j < k + n := by omega
      rw [if_pos e2, if_pos e3]
    · have e3 : ¬ (k ≤ j ∧ j < k + n) := by omega
      rw [if_neg e2, if_neg e3]
      by_cases e4 : j = k + n
      · rw [if_pos e4]
      · rw [if_neg e4, hs.lists, if_neg e4]

/-- A request of order `c` on a heap whose top `2 ^ c` bytes are allocated
takes the `2 ^ c` bytes below them and leaves the other words of the memory
as they are. -/
theorem kmalloc_top (s : BuddyState) (base M size c : Nat) (hs : TopShape s base M c)
    (hsize : size ≠ 0)
    (hord : kmalloc_order M ((((size + HDR_SIZE) % U32 + 7) % U32) &&& not32 7) (M + 2) 5 = c)
    (h4 : 4 ≤ c) (hc : c < M) (hM : M < 21) (hfit : base + 2 ^ M ≤ 4294967296) :
    (kmalloc s size).2 = base + 2 ^ M - 2 ^ (c + 1) + 8 ∧
      TopShape (kmalloc s size).1 base M (c + 1) ∧
      load32 (kmalloc s size).1.mem (base + 2 ^ M - 2 ^ (c + 1)) = 2 ^ c ∧
      load32 (kmalloc s size).1.mem (base + 2 ^ M - 2 ^ (c + 1) + 4) = BUDDY_MAGIC ∧
      ∀ a, a + 4 ≤ base + 2 ^ M - 2 ^ (c + 1) ∨ base + 2 ^ M - 2 ^ (c + 1) + 8 ≤ a →
        load32 (kmalloc s size).1.mem a = load32 s.mem a := by
  have hmin : s.min_order = 5 := hs.min_eq
  have hpc : 2 ^ (c + 1) = 2 ^ c + 2 ^ c := by rw [Nat.pow_succ]; omega
  have hle : 2 ^ (c + 1) ≤ 2 ^ M := Nat.pow_le_pow_right (by decide) (by omega)
  have hc0 : 2 ^ (c + 0) = 2 ^ c := by rw [Nat.add_zero]
  have hcc : c ≤ c ∧ c < M := ⟨le_refl _, hc⟩
  have hpos : 0 < 2 ^ c := Nat.two_pow_pos _
  obtain ⟨t1, t2, t3, t4, t5, t6, t7, t8⟩ := kmalloc_take s size c 0
    (base + 2 ^ M - 2 ^ (c + 1)) [] hsize
    (by rw [hs.max_eq, hmin]; exact hord) h4 (by rw [hs.max_eq]; omega) (by omega)
    (by rw [Nat.add_zero, hs.lists, if_pos hcc])
    (fun j h1 h2 => by omega)
    (by rw [hc0]; omega)
  have hblk : base + 2 ^ M - 2 ^ (c + 1) + 2 ^ (c + 0) - 2 ^ c = base + 2 ^ M - 2 ^ (c + 1) := by
    rw [hc0]
    omega
  rw [hblk] at t1 t6 t7
  refine ⟨t1, ⟨by rw [t3, hs.base_eq], by rw [t4, hs.max_eq], by rw [t5, hs.min_eq], ?_⟩, t6, t7,
    t8 rfl rfl⟩
  intro j
  rw [t2]
  dsimp only
  by_cases e : j = c
  · have e2 : ¬ (c + 1 ≤ j ∧ j < M) := by omega
    rw [if_pos e, if_pos rfl, if_neg e2]
  · have e3 : ¬ (c < j ∧ j < c + 0) := by omega
    have e4 : ¬ j = c + 0 := by omega
    rw [if_neg e, if_neg e3, if_neg e4, hs.lists]
    by_cases e5 : c ≤ j ∧ j < M
    · have e6 : c + 1 ≤ j ∧ j < M := by omega
      rw [if_pos e5, if_pos e6]
    · have e6 : ¬ (c + 1 ≤ j ∧ j < M) := by omega
      rw [if_neg e5, if_neg e6]

theorem kfree_merge_stop (fuel : Nat) (s : BuddyState) (block size order : Nat)
    (h : get_buddy_addr s.base block size ∉ s.free_lists order) :
    kfree_merge fuel s block size order = (s, block, order) := by
  cases fuel with
  | zero => rfl
  | succ f =>
    rw [kfree_merge]
    by_cases e : order < s.max_order
    · rw [if_pos e]
      simp only [if_neg h]
    · rw [if_neg e]

theorem kfree_merge_step (f : Nat) (s : BuddyState) (block size order : Nat)
    (h1 : order < s.max_order) (h2 : get_buddy_addr s.base block size ∈ s.free_lists order) :
    kfree_merge (f + 1) s block size order
      = kfree_merge f (list_remove s order (get_buddy_addr s.base block size))
          (if get_buddy_addr s.base block size < block then get_buddy_addr s.base block size
           else block) ((size * 2) % U32) (order + 1) := by
  rw [kfree_merge, if_pos h1]
  simp only [if_pos h2]

theorem log2_floor_32 : log2_floor 32 = 5 := by decide

/-- The call `kfree(p)` for a live block of 32 bytes whose buddy is not free:
the block is put on the free list of the order 5, which was empty, and the
words outside the block stay as they are. -/
theorem kfree_no_merge (s : BuddyState) (p : Nat) (hp : 8 ≤ p) (hp2 : p < 4294967296)
    (hmagic : load32 s.mem (p - 8 + 4) = BUDDY_MAGIC) (hsize : load32 s.mem (p - 8) = 32)
    (hempty : s.free_lists 5 = []) :
    (kfree s p).free_lists = (fun j => if j = 5 then [p - 8] else s.free_lists j) ∧
      (kfree s p).base = s.base ∧ (kfree s p).max_order = s.max_order ∧
      (kfree s p).min_order = s.min_order ∧
      ∀ a, a + 4 ≤ p - 8 ∨ p ≤ a → load32 (kfree s p).mem a = load32 s.mem a := by
  have hstop : kfree_merge s.max_order (s.setMem (store32 s.mem (p - 8 + 4) 0)) (p - 8) 32 5
      = (s.setMem (store32 s.mem (p - 8 + 4) 0), p - 8, 5) :=
    kfree_merge_stop _ _ _ _ _ (by
      show _ ∉ s.free_lists 5
      rw [hempty]
      exact List.not_mem_nil _)
  rw [kfree_of s p hp hp2 hmagic, hsize, log2_floor_32, hstop]
  dsimp only
  obtain ⟨q1, q2, q3, q4⟩ := list_push_lists
    ((s.setMem (store32 s.mem (p - 8 + 4) 0)).setMem
      (store32 (store32 (store32 s.mem (p - 8 + 4) 0) (p - 8) 0) (p - 8 + 4) 0)) 5 (p - 8)
  refine ⟨q1.trans ?_, q2, q3, q4, ?_⟩
  · funext j
    dsimp only
    by_cases e : j = 5
    · rw [if_pos e, if_pos e]
      show (p - 8) :: s.free_lists 5 = _
      rw [hempty]
    · rw [if_neg e, if_neg e]
      rfl
  · intro a ha
    have hm := list_push_empty_mem
      ((s.setMem (store32 s.mem (p - 8 + 4) 0)).setMem
        (store32 (store32 (store32 s.mem (p - 8 + 4) 0) (p - 8) 0) (p - 8 + 4) 0)) 5 (p - 8) hempty
    show load32 (list_push
      ((s.setMem (store32 s.mem (p - 8 + 4) 0)).setMem
        (store32 (store32 (store32 s.mem (p - 8 + 4) 0) (p - 8) 0) (p - 8 + 4) 0)) 5
      (p - 8)).mem a = _
    rw [hm]
    show load32 (store32 (store32 (store32 (store32 (store32 s.mem _ _) _ _) _ _) _ _) _ _) a = _
    rw [load32_store32_disj _ _ _ _ (by omega), load32_store32_disj _ _ _ _ (by omega),
      load32_store32_disj _ _ _ _ (by omega), load32_store32_disj _ _ _ _ (by omega),
      load32_store32_disj _ _ _ _ (by omega)]

/-- The call `kfree(p)` for the live block of 32 bytes below the free block
of 32 bytes at the top of the heap, the rest of the heap being free in one
block per order from 6 on: the first pass of the coalescing loop joins the two
blocks into the block of order 6 at the lower address, and the loop goes on to
the block of the largest order at the base. -/
theorem kfree_top_merge (s : BuddyState) (base M : Nat) (h6 : 6 ≤ M) (hM : M < 21)
    (hfit : base + 2 ^ M ≤ 4294967296) (hb : s.base = base) (hm : s.max_order = M)
    (hmin : s.min_order = BUDDY_MIN_ORDER)
    (hl : ∀ j, s.free_lists j = if j = 5 then [base + 2 ^ M - 32]
      else if 6 ≤ j ∧ j < M then [base + 2 ^ M - 2 ^ (j + 1)] else [])
    (hmagic : load32 s.mem (base + 2 ^ M - 64 + 4) = BUDDY_MAGIC)
    (hsize : load32 s.mem (base + 2 ^ M - 64) = 32) :
    (kfree_merge 1 (s.setMem (store32 s.mem (base + 2 ^ M - 64 + 4) 0)) (base + 2 ^ M - 64)
        32 5).2 = (base + 2 ^ M - 64, 6) ∧
      FreshShape (kfree s (base + 2 ^ M - 64 + 8)) base M := by
  have h64 : (64 : Nat) ≤ 2 ^ M := by
    have : 2 ^ 6 ≤ 2 ^ M := Nat.pow_le_pow_right (by decide) h6
    exact this
  have hbuddy : get_buddy_addr base (base + 2 ^ M - 64) 32 = base + 2 ^ M - 32 := by
    rw [show base + 2 ^ M - 64 = base + (2 ^ M - 64) by omega,
      get_buddy_addr_off base _ _ (by omega) (by omega)
        (by rw [xor_top_half M hM (by omega)]; omega), xor_top_half M hM (by omega)]
    omega
  have hmem : get_buddy_addr (s.setMem (store32 s.mem (base + 2 ^ M - 64 + 4) 0)).base
      (base + 2 ^ M - 64) 32
      ∈ (s.setMem (store32 s.mem (base + 2 ^ M - 64 + 4) 0)).free_lists 5 := by
    show get_buddy_addr s.base _ _ ∈ s.free_lists 5
    rw [hb, hbuddy, hl 5, if_pos rfl]
    exact List.mem_singleton.2 rfl
  have hlt : ¬ base + 2 ^ M - 32 < base + 2 ^ M - 64 := by omega
  have hstep : ∀ f, kfree_merge (f + 1) (s.setMem (store32 s.mem (base + 2 ^ M - 64 + 4) 0))
      (base + 2 ^ M - 64) 32 5
      = kfree_merge f (list_remove (s.setMem (store32 s.mem (base + 2 ^ M - 64 + 4) 0)) 5
          (base + 2 ^ M - 32)) (base + 2 ^ M - 2 ^ 6) (2 ^ 6) 6 := by
    intro f
    rw [kfree_merge_step f _ _ _ _ (by show 5 < s.max_order; omega) hmem]
    have e : get_buddy_addr (s.setMem (store32 s.mem (base + 2 ^ M - 64 + 4) 0)).base
        (base + 2 ^ M - 64) 32 = base + 2 ^ M - 32 := by
      show get_buddy_addr s.base _ _ = _
      rw [hb, hbuddy]
    rw [e, if_neg hlt]
    rfl
  refine ⟨by rw [hstep 0]; rfl, ?_⟩
  obtain ⟨r1, r2, r3, r4⟩ := list_remove_lists
    (s.setMem (store32 s.mem (base + 2 ^ M - 64 + 4) 0)) 5 (base + 2 ^ M - 32)
  obtain ⟨f, hf⟩ : ∃ f, s.max_order = f + 1 := ⟨s.max_order - 1, by omega⟩
  obtain ⟨w1, w2, w3, w4, w5⟩ := kfree_merge_chain base M hM hfit (M - 6)
    (list_remove (s.setMem (store32 s.mem (base + 2 ^ M - 64 + 4) 0)) 5 (base + 2 ^ M - 32))
    6 f (by omega) (by omega) (by rw [r2]; exact hb) (by rw [r3]; exact hm)
    (fun j h1 h2 => by
      rw [r1]
      dsimp only
      have e1 : ¬ j = 5 := by omega
      have e2 : 6 ≤ j ∧ j < M := ⟨h1, h2⟩
      rw [if_neg e1]
      show s.free_lists j = _
      rw [hl j, if_neg e1, if_pos e2])
  have hk : kfree s (base + 2 ^ M - 64 + 8)
      = list_push
          ((kfree_merge f (list_remove (s.setMem (store32 s.mem (base + 2 ^ M - 64 + 4) 0)) 5
              (base + 2 ^ M - 32)) (base + 2 ^ M - 2 ^ 6) (2 ^ 6) 6).1.setMem
            (store32 (store32
              (kfree_merge f (list_remove (s.setMem (store32 s.mem (base + 2 ^ M - 64 + 4) 0)) 5
                (base + 2 ^ M - 32)) (base + 2 ^ M - 2 ^ 6) (2 ^ 6) 6).1.mem base 0)
              (base + 4) 0)) M base := by
    rw [kfree_of s _ (by omega) (by omega) (by
      rw [show base + 2 ^ M - 64 + 8 - 8 = base + 2 ^ M - 64 by omega]; exact hmagic)]
    rw [show base + 2 ^ M - 64 + 8 - 8 = base + 2 ^ M - 64 by omega, hsize, log2_floor_32, hf,
      hstep f, w1]
  rw [hk]
  obtain ⟨q1, q2, q3, q4⟩ := list_push_lists
    ((kfree_merge f (list_remove (s.setMem (store32 s.mem (base + 2 ^ M - 64 + 4) 0)) 5
        (base + 2 ^ M - 32)) (base + 2 ^ M - 2 ^ 6) (2 ^ 6) 6).1.setMem
      (store32 (store32
        (kfree_merge f (list_remove (s.setMem (store32 s.mem (base + 2 ^ M - 64 + 4) 0)) 5
          (base + 2 ^ M - 32)) (base + 2 ^ M - 2 ^ 6) (2 ^ 6) 6).1.mem base 0)
        (base + 4) 0)) M base
  refine ⟨by rw [q2]; exact w3, by rw [q3]; exact w4, by rw [q4]; exact w5.trans (r4.trans hmin),
    ?_⟩
  intro j
  rw [q1]
  dsimp only
  have hrem : ∀ i, (kfree_merge f
      (list_remove (s.setMem (store32 s.mem (base + 2 ^ M - 64 + 4) 0)) 5 (base + 2 ^ M - 32))
      (base + 2 ^ M - 2 ^ 6) (2 ^ 6) 6).1.free_lists i = [] := by
    intro i
    rw [w2, r1]
    dsimp only
    by_cases e : 6 ≤ i ∧ i < M
    · rw [if_pos e]
    · rw [if_neg e]
      by_cases e5 : i = 5
      · rw [if_pos e5]
        show (s.free_lists 5).erase _ = []
        rw [hl 5, if_pos rfl]
        exact List.erase_cons_head _ _
      · rw [if_neg e5]
        show s.free_lists i = []
        rw [hl i, if_neg e5, if_neg e]
  by_cases e : j = M
  · rw [if_pos e, if_pos e]
    exact congrArg (List.cons base) (hrem M)
  · rw [if_neg e, if_neg e]
    exact hrem j

theorem freshShape_init (mem : Nat → Nat) (base size M : Nat) :
    FreshShape (buddy_init mem base size BUDDY_MIN_ORDER M) base M :=
  ⟨rfl, rfl, rfl, fun _ => rfl⟩

theorem coalesced_fresh (s : BuddyState) (base M : Nat) (hs : FreshShape s base M) :
    coalesced s = true := by
  unfold coalesced
  rw [List.all_eq_true]
  intro k hk
  have hk2 : k < M := by
    rw [hs.max_eq] at hk
    exact List.mem_range.1 hk
  have e : ¬ k = M := by omega
  rw [hs.lists k, if_neg e]
  rfl

/-- The calls `a = kmalloc(24)`, `b = kmalloc(24)`, `kfree(a)`, `kfree(b)`,
`c = kmalloc(56)` on a heap that is as when initialised. -/
theorem pair_run (s : BuddyState) (base M : Nat) (hs : FreshShape s base M) (h6 : 6 ≤ M)
    (hM : M < 21) (hfit : base + 2 ^ M ≤ 4294967296) :
    (pairA s).2 = base + 2 ^ M - 32 + 8 ∧ (pairB s).2 = base + 2 ^ M - 64 + 8 ∧
      load32 (pairB s).1.mem (base + 2 ^ M - 32) = 32 ∧
      load32 (pairB s).1.mem (base + 2 ^ M - 32 + 4) = BUDDY_MAGIC ∧
      load32 (pairB s).1.mem (base + 2 ^ M - 64) = 32 ∧
      load32 (pairB s).1.mem (base + 2 ^ M - 64 + 4) = BUDDY_MAGIC ∧
      (∀ j, (pairFreeA s).free_lists j
        = if j = 5 then [base + 2 ^ M - 32]
          else if 6 ≤ j ∧ j < M then [base + 2 ^ M - 2 ^ (j + 1)] else []) ∧
      (kfree_merge 1 ((pairFreeA s).setMem (store32 (pairFreeA s).mem (base + 2 ^ M - 64 + 4) 0))
        (base + 2 ^ M - 64) 32 5).2 = (base + 2 ^ M - 64, 6) ∧
      FreshShape (pairFreeB s) base M ∧
      (pairC s).2 = base + 2 ^ M - 64 + 8 ∧
      load32 (pairC s).1.mem (base + 2 ^ M - 64) = 64 ∧
      load32 (pairC s).1.mem (base + 2 ^ M - 64 + 4) = BUDDY_MAGIC := by
  have p5 : (2 : Nat) ^ 5 = 32 := by norm_num
  have p6 : (2 : Nat) ^ (5 + 1) = 64 := by norm_num
  have p6b : (2 : Nat) ^ 6 = 64 := by norm_num
  have h64 : (64 : Nat) ≤ 2 ^ M := by
    have : 2 ^ 6 ≤ 2 ^ M := Nat.pow_le_pow_right (by decide) h6
    exact this
  obtain ⟨a1, a2, a3, a4⟩ := kmalloc_fresh s base M 24 5 hs (by decide)
    (by rw [kmalloc_total_24]; exact kmalloc_order_24 M) (by decide) (by omega) hM hfit
  rw [p5] at a1 a3 a4
  obtain ⟨b1, b2, b3, b4, b5⟩ := kmalloc_top (kmalloc s 24).1 base M 24 5 a2 (by decide)
    (by rw [kmalloc_total_24]; exact kmalloc_order_24 M) (by decide) (by omega) hM hfit
  rw [p6] at b1 b3 b4 b5
  rw [p5] at b3
  have b6 : load32 (kmalloc (kmalloc s 24).1 24).1.mem (base + 2 ^ M - 32) = 32 := by
    rw [b5 _ (by omega)]
    exact a3
  have b7 : load32 (kmalloc (kmalloc s 24).1 24).1.mem (base + 2 ^ M - 32 + 4) = BUDDY_MAGIC := by
    rw [b5 _ (by omega)]
    exact a4
  have e8 : base + 2 ^ M - 32 + 8 - 8 = base + 2 ^ M - 32 := by omega
  have hempty : (kmalloc (kmalloc s 24).1 24).1.free_lists 5 = [] := by
    have e : ¬ (5 + 1 ≤ 5 ∧ 5 < M) := by omega
    rw [b2.lists 5, if_neg e]
  obtain ⟨c1, c2, c3, c4, c5⟩ := kfree_no_merge (kmalloc (kmalloc s 24).1 24).1
    (base + 2 ^ M - 32 + 8) (by omega) (by omega) (by rw [e8]; exact b7) (by rw [e8]; exact b6)
    hempty
  rw [e8] at c1 c5
  have hC : pairFreeA s = kfree (kmalloc (kmalloc s 24).1 24).1 (base + 2 ^ M - 32 + 8) := by
    unfold pairFreeA pairB pairA
    rw [a1]
  have hl : ∀ j, (pairFreeA s).free_lists j
      = if j = 5 then [base + 2 ^ M - 32]
        else if 6 ≤ j ∧ j < M then [base + 2 ^ M - 2 ^ (j + 1)] else [] := by
    intro j
    rw [hC, c1]
    dsimp only
    by_cases e : j = 5
    · rw [if_pos e, if_pos e]
    · rw [if_neg e, if_neg e, b2.lists j]
  have hmagicC : load32 (pairFreeA s).mem (base + 2 ^ M - 64 + 4) = BUDDY_MAGIC := by
    rw [hC, c5 _ (by omega)]
    exact b4
  have hsizeC : load32 (pairFreeA s).mem (base + 2 ^ M - 64) = 32 := by
    rw [hC, c5 _ (by omega)]
    exact b3
  obtain ⟨d1, d2⟩ := kfree_top_merge (pairFreeA s) base M h6 hM hfit
    (by rw [hC, c2]; exact b2.base_eq) (by rw [hC, c3]; exact b2.max_eq)
    (by rw [hC, c4]; exact b2.min_eq) hl hmagicC hsizeC
  have hD : pairFreeB s = kfree (pairFreeA s) (base + 2 ^ M - 64 + 8) := by
    unfold pairFreeB pairB pairA
    rw [b1]
  rw [← hD] at d2
  obtain ⟨f1, f2, f3, f4⟩ := kmalloc_fresh (pairFreeB s) base M 56 6 d2 (by decide)
    (by rw [kmalloc_total_56]; exact kmalloc_order_56 M (by omega)) (by decide) h6 hM hfit
  rw [p6b] at f1 f3 f4
  have hA : pairA s = kmalloc s 24 := rfl
  have hB : pairB s = kmalloc (kmalloc s 24).1 24 := rfl
  have hE : pairC s = kmalloc (pairFreeB s) 56 := rfl
  rw [hA, hB, hE]
  exact ⟨a1, b1, b6, b7, b3, b4, hl, d1, d2, f1, f3, f4⟩

/-- C15: on a heap as `buddy_init` leaves it, with the orders 5 to `M` for
`6 ≤ M ≤ 20` and inside the address space, `a = kmalloc(24)` and
`b = kmalloc(24)` take the two blocks of 32 bytes at the top of the heap,
which are buddies of each other; in `kfree(b)` after `kfree(a)` the first pass
of the coalescing loop joins them into the block of 64 bytes at the lower of
the two addresses, after the call no block is on the free list of order 5 (the
heap is as when initialised and its free lists are coalesced), and
`kmalloc(56)` then returns the block of 64 bytes whose header is at the lower
of the two addresses. -/
theorem kheap_fresh_buddies_coalesce (mem : Nat → Nat) (base size M : Nat) (h6 : 6 ≤ M)
    (hM : M ≤ BUDDY_MAX_ORDER) (hfit : base + 2 ^ M ≤ 4294967296) :
    (pairA (buddy_init mem base size BUDDY_MIN_ORDER M)).2 = base + 2 ^ M - 32 + 8 ∧
      (pairB (buddy_init mem base size BUDDY_MIN_ORDER M)).2 = base + 2 ^ M - 64 + 8 ∧
      load32 (pairB (buddy_init mem base size BUDDY_MIN_ORDER M)).1.mem (base + 2 ^ M - 32) = 32 ∧
      load32 (pairB (buddy_init mem base size BUDDY_MIN_ORDER M)).1.mem (base + 2 ^ M - 64) = 32 ∧
      get_buddy_addr base (base + 2 ^ M - 64) 32 = base + 2 ^ M - 32 ∧
      get_buddy_addr base (base + 2 ^ M - 32) 32 = base + 2 ^ M - 64 ∧
      (kfree_merge 1
        ((pairFreeA (buddy_init mem base size BUDDY_MIN_ORDER M)).setMem
          (store32 (pairFreeA (buddy_init mem base size BUDDY_MIN_ORDER M)).mem
            (base + 2 ^ M - 64 + 4) 0))
        (base + 2 ^ M - 64) 32 5).2 = (base + 2 ^ M - 64, 6) ∧
      (pairFreeB (buddy_init mem base size BUDDY_MIN_ORDER M)).free_lists 5 = [] ∧
      (∀ j, (pairFreeB (buddy_init mem base size BUDDY_MIN_ORDER M)).free_lists j
        = if j = M then [base] else []) ∧
      coalesced (pairFreeB (buddy_init mem base size BUDDY_MIN_ORDER M)) = true ∧
      (pairC (buddy_init mem base size BUDDY_MIN_ORDER M)).2 = base + 2 ^ M - 64 + 8 ∧
      load32 (pairC (buddy_init mem base size BUDDY_MIN_ORDER M)).1.mem (base + 2 ^ M - 64) = 64 ∧
      load32 (pairC (buddy_init mem base size BUDDY_MIN_ORDER M)).1.mem (base + 2 ^ M - 64 + 4)
        = BUDDY_MAGIC := by
  have hM2 : M < 21 := Nat.lt_succ_of_le hM
  have h64 : (64 : Nat) ≤ 2 ^ M := by
    have : 2 ^ 6 ≤ 2 ^ M := Nat.pow_le_pow_right (by decide) h6
    exact this
  obtain ⟨a1, b1, b6, _, b3, _, _, d1, d2, f1, f3, f4⟩ :=
    pair_run _ base M (freshShape_init mem base size M) h6 hM2 hfit
  have g1 : get_buddy_addr base (base + 2 ^ M - 64) 32 = base + 2 ^ M - 32 := by
    rw [show base + 2 ^ M - 64 = base + (2 ^ M - 64) by omega,
      get_buddy_addr_off base _ _ (by omega) (by omega)
        (by rw [xor_top_half M hM2 (by omega)]; omega), xor_top_half M hM2 (by omega)]
    omega
  have hx := xor_top_block M hM2 5 (by omega)
  have p5 : (2 : Nat) ^ 5 = 32 := by norm_num
  have p6 : (2 : Nat) ^ (5 + 1) = 64 := by norm_num
  rw [p5, p6] at hx
  have g2 : get_buddy_addr base (base + 2 ^ M - 32) 32 = base + 2 ^ M - 64 := by
    rw [show base + 2 ^ M - 32 = base + (2 ^ M - 32) by omega,
      get_buddy_addr_off base _ _ (by omega) (by omega) (by rw [hx]; omega), hx]
    omega
  have e5 : ¬ 5 = M := by omega
  exact ⟨a1, b1, b6, b3, g1, g2, d1, by rw [d2.lists 5, if_neg e5], d2.lists,
    coalesced_fresh _ base M d2, f1, f3, f4⟩

theorem kheap_fresh_buddies_coalesce_witness :
    (pairA heapFresh512).2 = 4712 ∧ (pairB heapFresh512).2 = 4680 ∧
      (pairFreeB heapFresh512).free_lists 5 = [] ∧ (pairC heapFresh512).2 = 4680 ∧
      load32 (pairC heapFresh512).1.mem 4672 = 64 :=
  have h := kheap_fresh_buddies_coalesce (fun _ => 0) 4224 512 9 (by decide) (by decide)
    (by decide)
  ⟨h.1, h.2.1, h.2.2.2.2.2.2.2.1, h.2.2.2.2.2.2.2.2.2.2.1, h.2.2.2.2.2.2.2.2.2.2.2.1⟩
/-! ## Kernel heap: the arithmetic of buddies -/

theorem xor_block (c q t u : Nat) (ht : t < 2 ^ c) (hu : u < 2 ^ c) :
    (2 ^ c * q + t) ^^^ u = 2 ^ c * q + (t ^^^ u) := by
  apply Nat.eq_of_testBit_eq
  intro i
  rw [Nat.testBit_xor, Nat.testBit_mul_pow_two_add q ht,
    Nat.testBit_mul_pow_two_add q (Nat.xor_lt_two_pow ht hu)]
  by_cases h : i < c
  · rw [if_pos h, if_pos h, Nat.testBit_xor]
  · rw [if_neg h, if_neg h]
    have e : u.testBit i = false :=
      Nat.testBit_lt_two_pow (lt_of_lt_of_le hu (Nat.pow_le_pow_right (by decide) (by omega)))
    rw [e]
    simp

theorem pow_succ_two (k : Nat) : 2 ^ (k + 1) = 2 ^ k + 2 ^ k := by
  rw [Nat.pow_succ]
  omega

/-- The offset of the buddy of a block of the order `k` at the offset `d`: it
is the upper half of the block of the order `k + 1` at `d`, or the lower half
of the block of the order `k + 1` that ends with the block at `d`. -/
theorem buddy_off (k d : Nat) (hd : d % 2 ^ k = 0) :
    (d ^^^ 2 ^ k = d + 2 ^ k ∧ d % 2 ^ (k + 1) = 0) ∨
      ((d ^^^ 2 ^ k) + 2 ^ k = d ∧ (d ^^^ 2 ^ k) % 2 ^ (k + 1) = 0) := by
  have hp : 0 < 2 ^ k := Nat.two_pow_pos _
  have h2 : 2 ^ (k + 1) = 2 ^ k + 2 ^ k := pow_succ_two k
  have hlt : 2 ^ k < 2 ^ (k + 1) := by omega
  have hdec : d = 2 ^ (k + 1) * (d / 2 ^ (k + 1)) + d % 2 ^ (k + 1) :=
    (Nat.div_add_mod d (2 ^ (k + 1))).symm
  have htlt : d % 2 ^ (k + 1) < 2 ^ (k + 1) := Nat.mod_lt _ (by omega)
  have htm : d % 2 ^ (k + 1) % 2 ^ k = 0 := by
    rw [Nat.mod_mod_of_dvd d (show 2 ^ k ∣ 2 ^ (k + 1) from Dvd.intro 2 (by rw [Nat.pow_succ])),
      hd]
  have ht : d % 2 ^ (k + 1) = 0 ∨ d % 2 ^ (k + 1) = 2 ^ k := by
    obtain ⟨r, hr⟩ := Nat.dvd_of_mod_eq_zero htm
    rw [hr] at htlt ⊢
    have : r < 2 := by
      by_contra hc
      have : 2 ^ k * 2 ≤ 2 ^ k * r := Nat.mul_le_mul_left _ (by omega)
      omega
    interval_cases r
    · left; rfl
    · right; omega
  have hx := xor_block (k + 1) (d / 2 ^ (k + 1)) (d % 2 ^ (k + 1)) (2 ^ k) htlt hlt
  rw [← hdec] at hx
  rcases ht with ht | ht
  · left
    rw [ht, Nat.zero_xor] at hx
    rw [ht, Nat.add_zero] at hdec
    exact ⟨by rw [hx, ← hdec], ht⟩
  · right
    rw [ht, Nat.xor_self, Nat.add_zero] at hx
    rw [ht] at hdec
    refine ⟨?_, ?_⟩
    · rw [hx]
      omega
    · rw [hx]
      exact Nat.mul_mod_right _ _

theorem aligned_fits (k M x : Nat) (hk : k ≤ M) (hx : x % 2 ^ k = 0) (hlt : x < 2 ^ M) :
    x + 2 ^ k ≤ 2 ^ M := by
  obtain ⟨q, hq⟩ := Nat.dvd_of_mod_eq_zero hx
  have e : 2 ^ M = 2 ^ k * 2 ^ (M - k) := by
    rw [← Nat.pow_add]
    congr 1
    omega
  rw [hq, e] at hlt
  have hql : q < 2 ^ (M - k) := Nat.lt_of_mul_lt_mul_left hlt
  rw [hq, e]
  calc 2 ^ k * q + 2 ^ k = 2 ^ k * (q + 1) := by rw [Nat.mul_add, Nat.mul_one]
    _ ≤ 2 ^ k * 2 ^ (M - k) := Nat.mul_le_mul_left _ hql

theorem pow_le_max (k : Nat) (hk : k ≤ 20) : 2 ^ k ≤ 1048576 :=
  show 2 ^ k ≤ 2 ^ 20 from Nat.pow_le_pow_right (by decide) hk

theorem pow_ge_eight (k : Nat) (hk : 3 ≤ k) : 8 ≤ 2 ^ k :=
  show 2 ^ 3 ≤ 2 ^ k from Nat.pow_le_pow_right (by decide) hk

/-- The buddy of a block of the heap below the largest order: it is a block of
the heap of the same order, the two make up a block of the next order, which
starts at the lower of them, and the buddy of the buddy is the block. -/
theorem buddy_cases (s : BuddyState) (k a : Nat) (hfit : s.base + 2 ^ s.max_order ≤ U32)
    (hb : Blk s k a) (hk : k < s.max_order) :
    Blk s k (get_buddy_addr s.base a (2 ^ k)) ∧
      get_buddy_addr s.base (get_buddy_addr s.base a (2 ^ k)) (2 ^ k) = a ∧
      ((get_buddy_addr s.base a (2 ^ k) = a + 2 ^ k ∧ Blk s (k + 1) a) ∨
        (get_buddy_addr s.base a (2 ^ k) + 2 ^ k = a ∧
          Blk s (k + 1) (get_buddy_addr s.base a (2 ^ k)))) := by
  obtain ⟨h1, h2, h3, h4⟩ := hb
  unfold U32 at hfit
  have hp : 0 < 2 ^ k := Nat.two_pow_pos _
  have hpM : 0 < 2 ^ s.max_order := Nat.two_pow_pos _
  have hkM : 2 ^ k < 2 ^ s.max_order := Nat.pow_lt_pow_right (by decide) hk
  have hdlt : a - s.base < 2 ^ s.max_order := by omega
  have hxlt : (a - s.base) ^^^ 2 ^ k < 2 ^ s.max_order := Nat.xor_lt_two_pow hdlt hkM
  have e0 : get_buddy_addr s.base a (2 ^ k) = s.base + ((a - s.base) ^^^ 2 ^ k) := by
    have := get_buddy_addr_off s.base (a - s.base) (2 ^ k) (by omega) (by omega) (by omega)
    rw [show s.base + (a - s.base) = a by omega] at this
    exact this
  have hoff := buddy_off k (a - s.base) h3
  have hxm : ((a - s.base) ^^^ 2 ^ k) % 2 ^ k = 0 := by
    rcases hoff with ⟨h, _⟩ | ⟨_, h⟩
    · rw [h, Nat.add_mod_right]
      exact h3
    · have e := Nat.mod_mod_of_dvd ((a - s.base) ^^^ 2 ^ k)
        (show 2 ^ k ∣ 2 ^ (k + 1) from Dvd.intro 2 (by rw [Nat.pow_succ]))
      rw [h] at e
      exact e.symm
  have hxfit := aligned_fits k s.max_order _ h1 hxm hxlt
  have hB : Blk s k (get_buddy_addr s.base a (2 ^ k)) := by
    rw [e0]
    refine ⟨h1, by omega, ?_, by omega⟩
    rw [show s.base + ((a - s.base) ^^^ 2 ^ k) - s.base = (a - s.base) ^^^ 2 ^ k by omega]
    exact hxm
  refine ⟨hB, ?_, ?_⟩
  · have := get_buddy_addr_off s.base ((a - s.base) ^^^ 2 ^ k) (2 ^ k) (by omega) (by omega)
      (by rw [Nat.xor_assoc, Nat.xor_self, Nat.xor_zero]; omega)
    rw [e0, this, Nat.xor_assoc, Nat.xor_self, Nat.xor_zero]
    omega
  · rw [e0]
    rcases hoff with ⟨h, hm⟩ | ⟨h, hm⟩
    · left
      refine ⟨by rw [h]; omega, by omega, h2, hm, ?_⟩
      have := aligned_fits (k + 1) s.max_order _ (by omega) hm hdlt
      omega
    · right
      refine ⟨by omega, by omega, by omega, ?_, ?_⟩
      · rw [show s.base + ((a - s.base) ^^^ 2 ^ k) - s.base = (a - s.base) ^^^ 2 ^ k by omega]
        exact hm
      · have := aligned_fits (k + 1) s.max_order _ (by omega) hm hxlt
        omega
/-! ## Kernel heap: the memory that the list operations leave alone -/

theorem list_pop_frame (s : BuddyState) (k y : Nat)
    (h : ∀ a, a ∈ s.free_lists k → y < a ∨ a + 8 ≤ y) : (list_pop s k).1.mem y = s.mem y := by
  unfold list_pop
  cases hl : s.free_lists k with
  | nil => rfl
  | cons x r =>
    cases r with
    | nil => rfl
    | cons z rest =>
      have hz := h z (by rw [hl]; simp)
      exact store32_outside _ _ _ _ (by omega)

theorem list_push_frame (s : BuddyState) (k node y : Nat) (hn : y < node ∨ node + 8 ≤ y)
    (h : ∀ a, a ∈ s.free_lists k → y < a ∨ a + 8 ≤ y) : (list_push s k node).mem y = s.mem y := by
  unfold list_push
  cases hl : s.free_lists k with
  | nil =>
    show store32 (store32 s.mem node 0) (node + 4) 0 y = _
    rw [store32_outside _ _ _ _ (by omega), store32_outside _ _ _ _ (by omega)]
  | cons z rest =>
    have hz := h z (by rw [hl]; simp)
    show store32 (store32 (store32 s.mem node z) (node + 4) 0) (z + 4) node y = _
    rw [store32_outside _ _ _ _ (by omega), store32_outside _ _ _ _ (by omega),
      store32_outside _ _ _ _ (by omega)]

theorem list_remove_mem_frame (m : Nat → Nat) (pre post : List Nat) (y : Nat)
    (h1 : ∀ a, a ∈ pre → y < a ∨ a + 8 ≤ y) (h2 : ∀ a, a ∈ post → y < a ∨ a + 8 ≤ y) :
    list_remove_mem m pre post y = m y := by
  unfold list_remove_mem
  have e1 : (match pre with
      | [] => m
      | p :: _ => store32 m p (post.headD 0)) y = m y := by
    cases pre with
    | nil => rfl
    | cons p ps =>
      have hp := h1 p (by simp)
      exact store32_outside _ _ _ _ (by omega)
  cases post with
  | nil => exact e1
  | cons n ns =>
    have hn := h2 n (by simp)
    show store32 _ (n + 4) _ y = m y
    rw [store32_outside _ _ _ _ (by omega)]
    exact e1

theorem list_remove_walk_frame (m : Nat → Nat) (node y : Nat) :
    ∀ (post pre : List Nat), (∀ a, a ∈ pre → y < a ∨ a + 8 ≤ y) →
      (∀ a, a ∈ post → y < a ∨ a + 8 ≤ y) → list_remove_walk m node pre post y = m y := by
  intro post
  induction post with
  | nil =>
    intro pre _ _
    cases pre <;> rfl
  | cons x rest ih =>
    intro pre h1 h2
    rw [list_remove_walk]
    by_cases e : x = node
    · rw [if_pos e]
      exact list_remove_mem_frame m pre rest y h1 (fun a ha => h2 a (List.mem_cons_of_mem _ ha))
    · rw [if_neg e]
      refine ih (x :: pre) (fun a ha => ?_) (fun a ha => h2 a (List.mem_cons_of_mem _ ha))
      rcases List.mem_cons.1 ha with ha | ha
      · rw [ha]
        exact h2 x (by simp)
      · exact h1 a ha

theorem list_remove_frame (s : BuddyState) (k node y : Nat)
    (h : ∀ a, a ∈ s.free_lists k → y < a ∨ a + 8 ≤ y) :
    (list_remove s k node).mem y = s.mem y :=
  list_remove_walk_frame s.mem node y (s.free_lists k) [] (fun a ha => by simp at ha) h

/-- The split loop of `kmalloc` writes only into the block that it splits. -/
theorem kmalloc_split_frame (k : Nat) (h3 : 3 ≤ k) :
    ∀ (n : Nat) (s : BuddyState) (x : Nat) (r : List Nat), k + n < 32 →
      x + 2 ^ (k + n) ≤ 4294967296 → s.free_lists (k + n) = x :: r →
      (∀ j, k ≤ j → j < k + n → s.free_lists j = []) →
      ∀ y, (y < x ∨ x + 2 ^ (k + n) ≤ y) → (∀ a, a ∈ r → y < a ∨ a + 8 ≤ y) →
        (kmalloc_split k n s (k + n)).mem y = s.mem y := by
  intro n
  induction n with
  | zero =>
    intro s x r _ _ _ _ y _ _
    rfl
  | succ n ih =>
    intro s x r hlt hfit hx hem y hy hr
    have hc : k + (n + 1) - 1 = k + n := by omega
    obtain ⟨p1, p2, p3, p4, p5⟩ := list_pop_cons s (k + (n + 1)) x r hx
    have hsz : order_to_size (k + n) = 2 ^ (k + n) := order_to_size_eq _ (by omega)
    have hpow : 2 ^ (k + (n + 1)) = 2 ^ (k + n) + 2 ^ (k + n) := by
      rw [show k + (n + 1) = (k + n) + 1 by omega, Nat.pow_succ]
      omega
    have h8 : 8 ≤ 2 ^ (k + n) := pow_ge_eight _ (by omega)
    have hsecond : (x + 2 ^ (k + n)) % U32 = x + 2 ^ (k + n) := by
      apply Nat.mod_eq_of_lt
      unfold U32
      omega
    obtain ⟨q1, q2, q3, q4⟩ := list_push_lists (list_pop s (k + (n + 1))).1 (k + n) x
    obtain ⟨u1, u2, u3, u4⟩ :=
      list_push_lists (list_push (list_pop s (k + (n + 1))).1 (k + n) x) (k + n) (x + 2 ^ (k + n))
    have hl0 : (list_pop s (k + (n + 1))).1.free_lists (k + n) = [] := by
      rw [p2]
      dsimp only
      rw [if_neg (by omega)]
      exact hem (k + n) (by omega) (by omega)
    have hl1 : (list_push (list_pop s (k + (n + 1))).1 (k + n) x).free_lists (k + n) = [x] := by
      rw [q1]
      dsimp only
      rw [if_pos rfl, hl0]
    have hl : (list_push (list_push (list_pop s (k + (n + 1))).1 (k + n) x) (k + n)
        (x + 2 ^ (k + n))).free_lists
        = fun j => if j = k + n then [x + 2 ^ (k + n), x]
            else if j = k + (n + 1) then r else s.free_lists j := by
      rw [u1, q1, p2]
      funext j
      dsimp only
      by_cases e : j = k + n
      · rw [if_pos e, if_pos e, if_pos rfl, if_neg (by omega), hem (k + n) (by omega) (by omega)]
      · rw [if_neg e, if_neg e, if_neg e]
    have hstep : kmalloc_split k (n + 1) s (k + (n + 1))
        = kmalloc_split k n
            (list_push (list_push (list_pop s (k + (n + 1))).1 (k + n) x) (k + n)
              (x + 2 ^ (k + n))) (k + n) := by
      rw [kmalloc_split]
      rw [if_pos (by omega)]
      simp only [hc, p1, hsz, hsecond]
    rw [hstep]
    rw [ih _ (x + 2 ^ (k + n)) [x] (by omega) (by omega)
      (by rw [hl]; dsimp only; rw [if_pos rfl])
      (fun j h1 h2 => by
        rw [hl]
        dsimp only
        rw [if_neg (by omega), if_neg (by omega)]
        exact hem j h1 (by omega))
      y (by omega) (fun a ha => by
        have e : a = x := by simpa using ha
        rw [e]
        omega)]
    rw [list_push_frame _ _ _ _ (by omega) (fun a ha => by
        rw [hl1] at ha
        have e : a = x := by simpa using ha
        rw [e]
        omega),
      list_push_frame _ _ _ _ (by omega) (fun a ha => by
        rw [hl0] at ha
        simp at ha),
      list_pop_frame _ _ _ (fun a ha => by
        rw [hx] at ha
        rcases List.mem_cons.1 ha with ha | ha
        · rw [ha]
          omega
        · exact hr a ha)]
/-! ## Kernel heap: `kmalloc` on a heap of any shape -/

theorem kmalloc_order_cases (M total : Nat) :
    ∀ (fuel order : Nat), M + 1 < order + fuel →
      order ≤ kmalloc_order M total fuel order ∧
        (kmalloc_order M total fuel order ≤ M →
          ¬ order_to_size (kmalloc_order M total fuel order) < total) := by
  intro fuel
  induction fuel with
  | zero =>
    intro order h
    exact ⟨le_refl _, fun h2 => absurd (show order ≤ M from h2) (by omega)⟩
  | succ f ih =>
    intro order h
    rw [kmalloc_order]
    by_cases e : order_to_size order < total ∧ order ≤ M
    · rw [if_pos e]
      obtain ⟨a, b⟩ := ih (order + 1) (by omega)
      exact ⟨by omega, b⟩
    · rw [if_neg e]
      exact ⟨le_refl _, fun h2 h3 => e ⟨h3, h2⟩⟩

theorem kmalloc_find_cases (s : BuddyState) :
    ∀ (fuel c : Nat), s.max_order + 1 < c + fuel →
      c ≤ kmalloc_find s fuel c ∧
        (kmalloc_find s fuel c ≤ s.max_order → s.free_lists (kmalloc_find s fuel c) ≠ []) ∧
        ∀ j, c ≤ j → j < kmalloc_find s fuel c → s.free_lists j = [] := by
  intro fuel
  induction fuel with
  | zero =>
    intro c h
    exact ⟨le_refl _, fun h2 => absurd (show c ≤ s.max_order from h2) (by omega),
      fun j h1 h2 => absurd (show j < c from h2) (by omega)⟩
  | succ f ih =>
    intro c h
    rw [kmalloc_find]
    by_cases e : c ≤ s.max_order ∧ s.free_lists c = []
    · rw [if_pos e]
      obtain ⟨a, b, d⟩ := ih (c + 1) (by omega)
      refine ⟨by omega, b, fun j h1 h2 => ?_⟩
      by_cases ej : j = c
      · rw [ej]
        exact e.2
      · exact d j (by omega) h2
    · rw [if_neg e]
      exact ⟨le_refl _, fun h2 h3 => e ⟨h2, h3⟩, fun j h1 h2 => absurd h2 (by omega)⟩

theorem and_not32_seven (t : Nat) (ht : t < 4294967296) : t &&& not32 7 = t - t % 8 := by
  have e0 : not32 7 = 4294967295 ^^^ 7 := by decide
  have e1 : t &&& 4294967295 = t :=
    Nat.and_pow_two_sub_one_of_lt_two_pow (show t < 2 ^ 32 from ht)
  have e2 : t &&& 7 = t % 8 := Nat.and_pow_two_sub_one_eq_mod t 3
  rw [e0, Nat.and_xor_distrib_left, e1, e2]
  have hdec : t = 2 ^ 3 * (t / 8) + t % 8 := (Nat.div_add_mod t 8).symm
  have hx := xor_block 3 (t / 8) (t % 8) (t % 8) (Nat.mod_lt _ (by decide))
    (Nat.mod_lt _ (by decide))
  rw [← hdec, Nat.xor_self] at hx
  rw [hx]
  omega

theorem kmalloc_total_ge (size : Nat) (h : size + 15 < U32) :
    size + 8 ≤ (((size + HDR_SIZE) % U32 + 7) % U32) &&& not32 7 := by
  unfold U32 at h
  unfold U32 HDR_SIZE
  rw [Nat.mod_eq_of_lt (show size + 8 < 4294967296 by omega),
    Nat.mod_eq_of_lt (show size + 8 + 7 < 4294967296 by omega),
    and_not32_seven _ (by omega)]
  omega

/-- The state and the pointer of a `kmalloc` that takes the head `x` of the
order `k + n`, the first order from `k` on with a free block. -/
theorem kmalloc_eq (s : BuddyState) (size k n x : Nat) (r : List Nat) (hsize : size ≠ 0)
    (hord : kmalloc_order s.max_order ((((size + HDR_SIZE) % U32 + 7) % U32) &&& not32 7)
      (s.max_order + 2) s.min_order = k)
    (h4 : 4 ≤ k) (hmax : k + n ≤ s.max_order) (h32 : k + n < 32)
    (hx : s.free_lists (k + n) = x :: r)
    (hem : ∀ j, k ≤ j → j < k + n → s.free_lists j = [])
    (hfit : x + 2 ^ (k + n) ≤ 4294967296) :
    kmalloc s size
      = ((list_pop (kmalloc_split k n s (k + n)) k).1.setMem
          (store32 (store32 (list_pop (kmalloc_split k n s (k + n)) k).1.mem
            (x + 2 ^ (k + n) - 2 ^ k) (2 ^ k)) (x + 2 ^ (k + n) - 2 ^ k + 4) BUDDY_MAGIC),
         x + 2 ^ (k + n) - 2 ^ k + 8) ∧
      (kmalloc_split k n s (k + n)).free_lists k
        = (x + 2 ^ (k + n) - 2 ^ k) ::
            (if n = 0 then r else [x + 2 ^ (k + n) - 2 ^ (k + 1)]) := by
  have hfind : kmalloc_find s (s.max_order + 2) k = k + n :=
    kmalloc_find_spec s _ k (k + n) (by omega) hmax hem (by rw [hx]; simp) (by omega)
  obtain ⟨w1, w2, w3, w4⟩ := kmalloc_split_spec k n s x r h32 hfit hx hem
  have hkn : 2 ^ k ≤ 2 ^ (k + n) := Nat.pow_le_pow_right (by decide) (by omega)
  have hkpos : 2 ^ 4 ≤ 2 ^ k := Nat.pow_le_pow_right (by decide) h4
  have hhead : (kmalloc_split k n s (k + n)).free_lists k
      = (x + 2 ^ (k + n) - 2 ^ k) :: (if n = 0 then r else [x + 2 ^ (k + n) - 2 ^ (k + 1)]) := by
    rw [w1]
    dsimp only
    rw [if_pos rfl]
    by_cases en : n = 0
    · rw [if_pos en, if_pos en]
      have h0 : 2 ^ (k + n) = 2 ^ k := by rw [en, Nat.add_zero]
      congr 1
      omega
    · rw [if_neg en, if_neg en]
  obtain ⟨p1, p2, p3, p4, p5⟩ := list_pop_cons _ k _ _ hhead
  refine ⟨?_, hhead⟩
  have e1 : ¬ k > s.max_order := by omega
  have e2 : ¬ k + n > s.max_order := by omega
  have e3 : k + n - k = n := by omega
  unfold kmalloc
  rw [if_neg hsize]
  simp only [hord, if_neg e1, hfind, if_neg e2, e3, p1, order_to_size_eq k (by omega)]
  congr 1
  unfold HDR_SIZE
  exact mod_u32 _ (by omega)

/-- A `kmalloc` writes only into the block that it takes from the free lists
and into the list nodes of the blocks that follow it on its list. -/
theorem kmalloc_frame (s : BuddyState) (size k n x : Nat) (r : List Nat) (hsize : size ≠ 0)
    (hord : kmalloc_order s.max_order ((((size + HDR_SIZE) % U32 + 7) % U32) &&& not32 7)
      (s.max_order + 2) s.min_order = k)
    (h4 : 4 ≤ k) (hmax : k + n ≤ s.max_order) (h32 : k + n < 32)
    (hx : s.free_lists (k + n) = x :: r)
    (hem : ∀ j, k ≤ j → j < k + n → s.free_lists j = [])
    (hfit : x + 2 ^ (k + n) ≤ 4294967296) (y : Nat) (hy : y < x ∨ x + 2 ^ (k + n) ≤ y)
    (hr : ∀ a, a ∈ r → y < a ∨ a + 8 ≤ y) :
    (kmalloc s size).1.mem y = s.mem y := by
  obtain ⟨hk, hhead⟩ := kmalloc_eq s size k n x r hsize hord h4 hmax h32 hx hem hfit
  have hkn : 2 ^ k ≤ 2 ^ (k + n) := Nat.pow_le_pow_right (by decide) (by omega)
  have hk8 : 8 ≤ 2 ^ k := pow_ge_eight k (by omega)
  rw [hk]
  show store32 (store32 _ _ _) _ _ y = _
  rw [store32_outside _ _ _ _ (by omega), store32_outside _ _ _ _ (by omega),
    list_pop_frame _ _ _ (fun a ha => by
      rw [hhead] at ha
      rcases List.mem_cons.1 ha with ha | ha
      · rw [ha]
        omega
      · by_cases en : n = 0
        · rw [if_pos en] at ha
          exact hr a ha
        · rw [if_neg en] at ha
          have e : a = x + 2 ^ (k + n) - 2 ^ (k + 1) := by simpa using ha
          have h1 : 2 ^ (k + 1) ≤ 2 ^ (k + n) := Nat.pow_le_pow_right (by decide) (by omega)
          have h2 : 2 ^ (k + 1) = 2 ^ k + 2 ^ k := pow_succ_two k
          rw [e]
          omega)]
  exact kmalloc_split_frame k (by omega) n s x r h32 hfit hx hem y hy hr

/-- The cases of `kmalloc`: it fails and leaves the heap as it is, or it takes
the head `x` of the first order `k + n` from the wanted order `k` on that has
a free block, returns the top part of the order `k` of that block, with its
header, and leaves one free block on each order between. -/
theorem kmalloc_cases (s : BuddyState) (size : Nat) (hM : s.max_order ≤ 20)
    (h4 : 4 ≤ s.min_order)
    (hblk : ∀ k a, a ∈ s.free_lists k → a + 2 ^ k ≤ 4294967296) :
    kmalloc s size = (s, 0) ∨
      ∃ k n x r, s.min_order ≤ k ∧ k + n ≤ s.max_order ∧ s.free_lists (k + n) = x :: r ∧
        (∀ j, k ≤ j → j < k + n → s.free_lists j = []) ∧
        (size + 15 < U32 → size + 8 ≤ 2 ^ k) ∧
        (kmalloc s size).2 = x + 2 ^ (k + n) - 2 ^ k + 8 ∧
        (kmalloc s size).1.free_lists
          = (fun j =>
              if j = k then (if n = 0 then r else [x + 2 ^ (k + n) - 2 ^ (k + 1)])
              else if k < j ∧ j < k + n then [x + 2 ^ (k + n) - 2 ^ (j + 1)]
              else if j = k + n then r else s.free_lists j) ∧
        (kmalloc s size).1.base = s.base ∧ (kmalloc s size).1.max_order = s.max_order ∧
        (kmalloc s size).1.min_order = s.min_order ∧
        load32 (kmalloc s size).1.mem (x + 2 ^ (k + n) - 2 ^ k) = 2 ^ k ∧
        load32 (kmalloc s size).1.mem (x + 2 ^ (k + n) - 2 ^ k + 4) = BUDDY_MAGIC ∧
        ∀ y, (y < x ∨ x + 2 ^ (k + n) ≤ y) → (∀ a, a ∈ r → y < a ∨ a + 8 ≤ y) →
          (kmalloc s size).1.mem y = s.mem y := by
  by_cases hsize : size = 0
  · left
    unfold kmalloc
    rw [if_pos hsize]
  obtain ⟨k, hk⟩ : ∃ k, kmalloc_order s.max_order
      ((((size + HDR_SIZE) % U32 + 7) % U32) &&& not32 7) (s.max_order + 2) s.min_order = k :=
    ⟨_, rfl⟩
  obtain ⟨o1, o2⟩ := kmalloc_order_cases s.max_order
    ((((size + HDR_SIZE) % U32 + 7) % U32) &&& not32 7) (s.max_order + 2) s.min_order (by omega)
  rw [hk] at o1 o2
  by_cases hkM : k > s.max_order
  · left
    unfold kmalloc
    rw [if_neg hsize]
    simp only [hk, if_pos hkM]
  obtain ⟨c, hc⟩ : ∃ c, kmalloc_find s (s.max_order + 2) k = c := ⟨_, rfl⟩
  obtain ⟨f1, f2, f3⟩ := kmalloc_find_cases s (s.max_order + 2) k (by omega)
  rw [hc] at f1 f2 f3
  by_cases hcM : c > s.max_order
  · left
    unfold kmalloc
    rw [if_neg hsize]
    simp only [hk, if_neg hkM, hc, if_pos hcM]
  right
  obtain ⟨n, hn⟩ : ∃ n, c = k + n := ⟨c - k, by omega⟩
  subst hn
  cases hl : s.free_lists (k + n) with
  | nil => exact absurd hl (f2 (by omega))
  | cons x r =>
    have hfit : x + 2 ^ (k + n) ≤ 4294967296 := hblk _ x (by rw [hl]; simp)
    obtain ⟨t1, t2, t3, t4, t5, t6, t7, _⟩ :=
      kmalloc_take s size k n x r hsize hk (by omega) (by omega) (by omega) hl f3 hfit
    refine ⟨k, n, x, r, o1, by omega, hl, f3, fun hs => ?_, t1, t2, t3, t4, t5, t6, t7,
      fun y hy hr =>
        kmalloc_frame s size k n x r hsize hk (by omega) (by omega) (by omega) hl f3 hfit y hy hr⟩
    have h1 := o2 (by omega)
    rw [order_to_size_eq k (by omega)] at h1
    have h2 := kmalloc_total_ge size hs
    omega
/-! ## Kernel heap: `kmalloc` keeps the invariant -/

theorem blk_congr (s s2 : BuddyState) (hb : s2.base = s.base)
    (hm : s2.max_order = s.max_order) (k a : Nat) : Blk s2 k a ↔ Blk s k a := by
  unfold Blk
  rw [hb, hm]

/-- The top part of the order `k` of a block of the heap. -/
theorem blk_top (s : BuddyState) (c x k : Nat) (hb : Blk s c x) (hk : k ≤ c) :
    Blk s k (x + 2 ^ c - 2 ^ k) ∧ x + 2 ^ c - 2 ^ k + 2 ^ k = x + 2 ^ c := by
  obtain ⟨h1, h2, h3, h4⟩ := hb
  have hkc : 2 ^ k ≤ 2 ^ c := Nat.pow_le_pow_right (by decide) hk
  refine ⟨⟨by omega, by omega, ?_, by omega⟩, by omega⟩
  have d1 : 2 ^ k ∣ x - s.base :=
    Nat.dvd_trans (Nat.pow_dvd_pow 2 hk) (Nat.dvd_of_mod_eq_zero h3)
  have d2 : 2 ^ k ∣ 2 ^ c - 2 ^ k := Nat.dvd_sub' (Nat.pow_dvd_pow 2 hk) (Nat.dvd_refl _)
  rw [show x + 2 ^ c - 2 ^ k - s.base = (x - s.base) + (2 ^ c - 2 ^ k) by omega]
  exact Nat.mod_eq_zero_of_dvd (Nat.dvd_add d1 d2)

/-- The free block of the order `j` that a split of a block of the order `c`
leaves: the lower half of the top part of the order `j + 1`. -/
theorem blk_sub (s : BuddyState) (c x j : Nat) (hb : Blk s c x) (hj : j < c) :
    Blk s j (x + 2 ^ c - 2 ^ (j + 1)) ∧
      x + 2 ^ c - 2 ^ (j + 1) + 2 ^ j + 2 ^ j = x + 2 ^ c := by
  obtain ⟨t1, t2⟩ := blk_top s c x (j + 1) hb (by omega)
  have h2 := pow_succ_two j
  obtain ⟨a1, a2, a3, a4⟩ := t1
  refine ⟨⟨by omega, a2, ?_, by omega⟩, by omega⟩
  exact Nat.mod_eq_zero_of_dvd
    (Nat.dvd_trans (Nat.pow_dvd_pow 2 (Nat.le_succ j)) (Nat.dvd_of_mod_eq_zero a3))

/-- The blocks on the free lists after a `kmalloc`: those of before without
the block that is taken, and one part of it on each order between. -/
theorem kmalloc_mem_iff (fl : Nat → List Nat) (k n x : Nat) (r : List Nat)
    (hx : fl (k + n) = x :: r) (hnd : (x :: r).Nodup)
    (hem : ∀ j, k ≤ j → j < k + n → fl j = []) (j a : Nat) :
    a ∈ (if j = k then (if n = 0 then r else [x + 2 ^ (k + n) - 2 ^ (k + 1)])
          else if k < j ∧ j < k + n then [x + 2 ^ (k + n) - 2 ^ (j + 1)]
          else if j = k + n then r else fl j)
      ↔ (a ∈ fl j ∧ ¬ (j = k + n ∧ a = x)) ∨
          (k ≤ j ∧ j < k + n ∧ a = x + 2 ^ (k + n) - 2 ^ (j + 1)) := by
  have hxr : x ∉ r := (List.nodup_cons.1 hnd).1
  have key : ∀ a, a ∈ r ↔ a ∈ x :: r ∧ a ≠ x := by
    intro a
    constructor
    · intro ha
      exact ⟨List.mem_cons_of_mem _ ha, fun e => hxr (e ▸ ha)⟩
    · rintro ⟨ha, hne⟩
      rcases List.mem_cons.1 ha with ha | ha
      · exact absurd ha hne
      · exact ha
  by_cases e1 : j = k
  · rw [if_pos e1]
    by_cases e2 : n = 0
    · rw [if_pos e2, key a]
      have e3 : j = k + n := by omega
      rw [e3, hx]
      constructor
      · rintro ⟨h1, h2⟩
        exact Or.inl ⟨h1, fun h3 => h2 h3.2⟩
      · rintro (⟨h1, h2⟩ | ⟨_, h2, _⟩)
        · exact ⟨h1, fun h3 => h2 ⟨rfl, h3⟩⟩
        · omega
    · rw [if_neg e2, hem j (by omega) (by omega), e1]
      constructor
      · intro h1
        exact Or.inr ⟨le_refl _, by omega, by simpa using h1⟩
      · rintro (⟨h1, _⟩ | ⟨_, _, h2⟩)
        · simp at h1
        · rw [h2]
          simp
  · rw [if_neg e1]
    by_cases e2 : k < j ∧ j < k + n
    · rw [if_pos e2, hem j (by omega) e2.2]
      constructor
      · intro h1
        exact Or.inr ⟨by omega, e2.2, by simpa using h1⟩
      · rintro (⟨h1, _⟩ | ⟨_, _, h2⟩)
        · simp at h1
        · rw [h2]
          simp
    · rw [if_neg e2]
      by_cases e3 : j = k + n
      · rw [if_pos e3, key a, e3, hx]
        constructor
        · rintro ⟨h1, h2⟩
          exact Or.inl ⟨h1, fun h3 => h2 h3.2⟩
        · rintro (⟨h1, h2⟩ | ⟨_, h2, _⟩)
          · exact ⟨h1, fun h3 => h2 ⟨rfl, h3⟩⟩
          · omega
      · rw [if_neg e3]
        constructor
        · intro h1
          exact Or.inl ⟨h1, fun h3 => e3 h3.1⟩
        · rintro (⟨h1, _⟩ | ⟨h1, h2, _⟩)
          · exact h1
          · omega

theorem kmalloc_lists_nodup (fl : Nat → List Nat) (k n x : Nat) (r : List Nat)
    (hnd : ∀ j, (fl j).Nodup) (hr : r.Nodup) (j : Nat) :
    (if j = k then (if n = 0 then r else [x + 2 ^ (k + n) - 2 ^ (k + 1)])
      else if k < j ∧ j < k + n then [x + 2 ^ (k + n) - 2 ^ (j + 1)]
      else if j = k + n then r else fl j).Nodup := by
  split_ifs
  · exact hr
  · simp
  · simp
  · exact hr
  · exact hnd j

/-- The header words of a pointer are as before when the eight bytes below
the pointer are. -/
theorem hdr_frame (m m2 : Nat → Nat) (q : Nat) (hq : 8 ≤ q)
    (h : ∀ y, q - 8 ≤ y → y < q → m2 y = m y) :
    load32 m2 (q - 8) = load32 m (q - 8) ∧ load32 m2 (q - 8 + 4) = load32 m (q - 8 + 4) :=
  ⟨load32_congr _ _ _ (fun i hi => h _ (by omega) (by omega)),
    load32_congr _ _ _ (fun i hi => h _ (by omega) (by omega))⟩

/-- `kmalloc` keeps the invariant of the allocator: a call that returns NULL
leaves the heap as it is, and a call that returns a pointer returns one that
was not live, whose block of the order `o` has room for the request when its
rounding does not wrap. -/
theorem kmalloc_inv (s : BuddyState) (live : List Nat) (ord : Nat → Nat) (size : Nat)
    (h : HeapInv s live ord) :
    ((kmalloc s size).2 = 0 → (kmalloc s size).1 = s) ∧
      ((kmalloc s size).2 ≠ 0 →
        (kmalloc s size).2 ∉ live ∧
        ∃ o, (size + 15 < U32 → size + 8 ≤ 2 ^ o) ∧
          HeapInv (kmalloc s size).1 (live ++ [(kmalloc s size).2])
            (fun q => if q = (kmalloc s size).2 then o else ord q)) := by
  have hM20 : s.max_order ≤ 20 := h.max_le
  have hfit := h.fit
  unfold U32 at hfit
  have hmin := h.min_ge
  have hblk : ∀ k a, a ∈ s.free_lists k → a + 2 ^ k ≤ 4294967296 := by
    intro k a ha
    have := (h.free_blk k a ha).1.2.2.2
    omega
  rcases kmalloc_cases s size hM20 h.min_ge hblk with
    hc | ⟨k, n, x, r, hk, hc, hx, hem, hsz, e_p, e_l, e_b, e_M, e_m, e_h, e_g, e_f⟩
  · rw [hc]
    exact ⟨fun _ => rfl, fun h0 => absurd rfl h0⟩
  obtain ⟨s2, hs2⟩ : ∃ s2, (kmalloc s size).1 = s2 := ⟨_, rfl⟩
  obtain ⟨p, hp⟩ : ∃ p, (kmalloc s size).2 = p := ⟨_, rfl⟩
  rw [hs2] at e_l e_b e_M e_m e_h e_g e_f
  rw [hp] at e_p
  rw [hs2, hp]
  have hxmem : x ∈ s.free_lists (k + n) := by rw [hx]; simp
  have hxb : Blk s (k + n) x := (h.free_blk _ x hxmem).1
  have hnd : (x :: r).Nodup := hx ▸ h.free_nodup (k + n)
  obtain ⟨tb, te⟩ := blk_top s (k + n) x k hxb (by omega)
  have hkc : 2 ^ k ≤ 2 ^ (k + n) := Nat.pow_le_pow_right (by decide) (by omega)
  have h16 : 16 ≤ 2 ^ k :=
    show 2 ^ 4 ≤ 2 ^ k from Nat.pow_le_pow_right (by decide) (by omega)
  have hp8 : p - 8 = x + 2 ^ (k + n) - 2 ^ k := by omega
  have hmem : ∀ j a, a ∈ s2.free_lists j ↔
      (a ∈ s.free_lists j ∧ ¬ (j = k + n ∧ a = x)) ∨
        (k ≤ j ∧ j < k + n ∧ a = x + 2 ^ (k + n) - 2 ^ (j + 1)) := by
    intro j a
    rw [e_l]
    exact kmalloc_mem_iff s.free_lists k n x r hx hnd hem j a
  have hB : ∀ j a, Blk s2 j a ↔ Blk s j a := blk_congr s s2 e_b e_M
  have hlx : ∀ q, q ∈ live → x + 2 ^ (k + n) ≤ q - 8 ∨ q - 8 + 2 ^ ord q ≤ x :=
    fun q hq => h.live_free q _ x hq hxmem
  have hord16 : ∀ q, q ∈ live → 16 ≤ 2 ^ ord q := fun q hq =>
    show 2 ^ 4 ≤ _ from Nat.pow_le_pow_right (by decide)
      (by have := (h.live_hdr q hq).2.2.2.1; omega)
  have hpl : p ∉ live := by
    intro hq
    have := hlx p hq
    have := hord16 p hq
    omega
  refine ⟨fun h0 => absurd h0 (by omega), fun _ => ⟨hpl, k, hsz, ?_⟩⟩
  have hsub : ∀ j, k ≤ j → j < k + n →
      Blk s j (x + 2 ^ (k + n) - 2 ^ (j + 1)) ∧
        x + 2 ^ (k + n) - 2 ^ (j + 1) + 2 ^ j + 2 ^ j = x + 2 ^ (k + n) ∧ 2 ^ k ≤ 2 ^ j ∧
        2 ^ j + 2 ^ j ≤ 2 ^ (k + n) :=
    fun j h1 h2 => ⟨(blk_sub s (k + n) x j hxb h2).1, (blk_sub s (k + n) x j hxb h2).2,
      Nat.pow_le_pow_right (by decide) h1,
      by rw [← pow_succ_two]; exact Nat.pow_le_pow_right (by decide) h2⟩
  have hin : ∀ j a, a ∈ s2.free_lists j →
      (a ∈ s.free_lists j ∧ (a + 2 ^ j ≤ x ∨ x + 2 ^ (k + n) ≤ a)) ∨
        (k ≤ j ∧ j < k + n ∧ x ≤ a ∧ a + 2 ^ j ≤ x + 2 ^ (k + n) - 2 ^ k ∧
          a = x + 2 ^ (k + n) - 2 ^ (j + 1)) := by
    intro j a ha
    rcases (hmem j a).1 ha with ⟨h1, h2⟩ | ⟨h1, h2, h3⟩
    · left
      refine ⟨h1, ?_⟩
      have hne : j ≠ k + n ∨ a ≠ x := by
        by_cases e : j = k + n
        · right
          exact fun e2 => h2 ⟨e, e2⟩
        · left
          exact e
      exact h.free_disj j a (k + n) x h1 hxmem hne
    · right
      obtain ⟨b1, b2, b3, b4⟩ := hsub j h1 h2
      refine ⟨h1, h2, ?_, ?_, h3⟩ <;> rw [h3] <;> omega
  have hmemframe : ∀ q, q ∈ live → ∀ y, q - 8 ≤ y → y < q → s2.mem y = s.mem y := by
    intro q hq y hy1 hy2
    have h1 := hlx q hq
    have h2 := hord16 q hq
    have h3 := (h.live_hdr q hq).2.2.1
    refine e_f y (by omega) (fun a ha => ?_)
    have ha2 : a ∈ s.free_lists (k + n) := by rw [hx]; exact List.mem_cons_of_mem _ ha
    have h4 := h.live_free q _ a hq ha2
    have h5 : 8 ≤ 2 ^ (k + n) := by omega
    omega
  have hordq : ∀ q, q ∈ live → (if q = p then k else ord q) = ord q := by
    intro q hq
    rw [if_neg (fun (e : q = p) => hpl (by rw [← e]; exact hq))]
  refine ⟨by rw [e_b, e_M]; exact h.fit, by rw [e_M]; exact h.max_le,
    by rw [e_m]; exact h.min_ge, ?_, ?_, ?_, ?_, ?_, ?_, ?_, ?_⟩
  · intro j a ha
    rw [hB, e_m]
    rcases (hmem j a).1 ha with ⟨h1, _⟩ | ⟨h1, h2, h3⟩
    · exact h.free_blk j a h1
    · rw [h3]
      exact ⟨(hsub j h1 h2).1, by omega⟩
  · intro j
    rw [e_l]
    exact kmalloc_lists_nodup s.free_lists k n x r h.free_nodup (List.nodup_cons.1 hnd).2 j
  · intro j a j2 a2 ha ha2 hne
    rcases hin j a ha with ⟨h1, h2⟩ | ⟨h1, h2, h3, h4, h5⟩
    · rcases hin j2 a2 ha2 with ⟨g1, g2⟩ | ⟨g1, g2, g3, g4, g5⟩
      · exact h.free_disj j a j2 a2 h1 g1 hne
      · omega
    · rcases hin j2 a2 ha2 with ⟨g1, g2⟩ | ⟨g1, g2, g3, g4, g5⟩
      · omega
      · obtain ⟨b1, b2, b3, b4⟩ := hsub j h1 h2
        obtain ⟨c1, c2, c3, c4⟩ := hsub j2 g1 g2
        have hjj : j ≠ j2 := by
          intro e
          rcases hne with hne | hne
          · exact hne e
          · apply hne
            rw [h5, g5, e]
        rcases Nat.lt_or_gt_of_ne hjj with hlt | hlt
        · have e1 : 2 ^ (j + 1) ≤ 2 ^ j2 := Nat.pow_le_pow_right (by decide) hlt
          have e2 := pow_succ_two j
          rw [h5, g5]
          omega
        · have e1 : 2 ^ (j2 + 1) ≤ 2 ^ j := Nat.pow_le_pow_right (by decide) hlt
          have e2 := pow_succ_two j2
          rw [h5, g5]
          omega
  · intro j a hj ha hbud
    rw [e_M] at hj
    rw [e_b] at hbud
    rcases (hmem j a).1 ha with ⟨h1, _⟩ | ⟨h1, h2, h3⟩
    · rcases (hmem j _).1 hbud with ⟨g1, _⟩ | ⟨g1, g2, _⟩
      · exact h.coal j a hj h1 g1
      · rw [hem j g1 g2] at h1
        simp at h1
    · rcases (hmem j _).1 hbud with ⟨g1, _⟩ | ⟨_, _, g3⟩
      · rw [hem j h1 h2] at g1
        simp at g1
      · have hbj : Blk s j a := by rw [h3]; exact (hsub j h1 h2).1
        obtain ⟨_, _, hcase⟩ := buddy_cases s j a h.fit hbj hj
        have hpos : 0 < 2 ^ j := Nat.two_pow_pos j
        rw [← h3] at g3
        rcases hcase with ⟨c1, _⟩ | ⟨c1, _⟩ <;> omega
  · intro q hq
    rcases List.mem_append.1 hq with hq | hq
    · obtain ⟨a1, a2, a3, a4, a5⟩ := h.live_hdr q hq
      obtain ⟨f1, f2⟩ := hdr_frame s.mem s2.mem q a3 (hmemframe q hq)
      rw [hordq q hq, f1, f2, e_m, hB]
      exact ⟨a1, a2, a3, a4, a5⟩
    · have e : q = p := by simpa using hq
      rw [e, if_pos rfl, hp8, e_m, hB]
      exact ⟨e_h, e_g, by omega, hk, tb⟩
  · refine List.nodup_append.2 ⟨h.live_nodup, by simp, ?_⟩
    intro q hq hq2
    have e : q = p := by simpa using hq2
    exact hpl (by rw [← e]; exact hq)
  · intro q q2 hq hq2 hne
    rcases List.mem_append.1 hq with hq | hq
    · rcases List.mem_append.1 hq2 with hq2 | hq2
      · rw [hordq q hq, hordq q2 hq2]
        exact h.live_disj q q2 hq hq2 hne
      · have e : q2 = p := by simpa using hq2
        have := hlx q hq
        rw [hordq q hq, e, if_pos rfl, hp8]
        omega
    · have e : q = p := by simpa using hq
      rcases List.mem_append.1 hq2 with hq2 | hq2
      · have := hlx q2 hq2
        rw [hordq q2 hq2, e, if_pos rfl, hp8]
        omega
      · have e2 : q2 = p := by simpa using hq2
        exact absurd (e.trans e2.symm) hne
  · intro q j a hq ha
    rcases List.mem_append.1 hq with hq | hq
    · rw [hordq q hq]
      have := hlx q hq
      rcases hin j a ha with ⟨h1, _⟩ | ⟨h1, h2, h3, h4, h5⟩
      · exact h.live_free q j a hq h1
      · omega
    · have e : q = p := by simpa using hq
      rw [e, if_pos rfl, hp8]
      rcases hin j a ha with ⟨h1, h2⟩ | ⟨h1, h2, h3, h4, h5⟩
      · omega
      · omega
/-! ## Kernel heap: `kfree` keeps the invariant -/

set_option maxRecDepth 100000 in
theorem log2_floor_pow : ∀ o, o < 21 → log2_floor (2 ^ o) = o := by
  decide

/-- The coalescing loop of `kfree` for a block of the heap that overlaps no
free block: the block that it returns is a block of the heap made up of the
block and of free blocks, the free blocks that overlap it are off the lists,
the other free blocks stay, and the buddy of the result is not free. -/
theorem kfree_merge_inv (B M : Nat) (hfit : B + 2 ^ M ≤ U32) (hM : M ≤ 20) :
    ∀ (fuel : Nat) (s : BuddyState) (b e : Nat),
      s.base = B → s.max_order = M → M - e ≤ fuel → Blk s e b →
      (∀ j a, a ∈ s.free_lists j → Blk s j a ∧ 3 ≤ j) →
      (∀ j, (s.free_lists j).Nodup) →
      (∀ j a j2 a2, a ∈ s.free_lists j → a2 ∈ s.free_lists j2 → (j ≠ j2 ∨ a ≠ a2) →
        a + 2 ^ j ≤ a2 ∨ a2 + 2 ^ j2 ≤ a) →
      (∀ j a, a ∈ s.free_lists j → a + 2 ^ j ≤ b ∨ b + 2 ^ e ≤ a) →
      ∃ s2 b2 e2, kfree_merge fuel s b (2 ^ e) e = (s2, b2, e2) ∧
        s2.base = B ∧ s2.max_order = M ∧ s2.min_order = s.min_order ∧
        Blk s e2 b2 ∧ e ≤ e2 ∧ b2 ≤ b ∧ b + 2 ^ e ≤ b2 + 2 ^ e2 ∧
        (∀ j a, a ∈ s2.free_lists j ↔
          a ∈ s.free_lists j ∧ (a + 2 ^ j ≤ b2 ∨ b2 + 2 ^ e2 ≤ a)) ∧
        (∀ j, (s2.free_lists j).Nodup) ∧
        (∀ y, b2 ≤ y → y < b2 + 2 ^ e2 → (b ≤ y ∧ y < b + 2 ^ e) ∨ InFree s y) ∧
        (e2 < M → get_buddy_addr B b2 (2 ^ e2) ∉ s2.free_lists e2) ∧
        (∀ y, (∀ j a, a ∈ s.free_lists j → y < a ∨ a + 8 ≤ y) → s2.mem y = s.mem y) := by
  intro fuel
  induction fuel with
  | zero =>
    intro s b e hb hm hf hblk _ hnd _ hout
    have heM : e = M := by
      have := hblk.1
      omega
    exact ⟨s, b, e, rfl, hb, hm, rfl, hblk, le_refl _, le_refl _, le_refl _,
      fun j a => ⟨fun h => ⟨h, hout j a h⟩, fun h => h.1⟩, hnd,
      fun y h1 h2 => Or.inl ⟨h1, h2⟩, fun h => absurd h (by omega), fun _ _ => rfl⟩
  | succ f ih =>
    intro s b e hb hm hf hblk hfree hnd hdisj hout
    have stay : ∀ (_ : e < M → get_buddy_addr B b (2 ^ e) ∉ s.free_lists e),
        kfree_merge (f + 1) s b (2 ^ e) e = (s, b, e) →
        ∃ s2 b2 e2, kfree_merge (f + 1) s b (2 ^ e) e = (s2, b2, e2) ∧
          s2.base = B ∧ s2.max_order = M ∧ s2.min_order = s.min_order ∧
          Blk s e2 b2 ∧ e ≤ e2 ∧ b2 ≤ b ∧ b + 2 ^ e ≤ b2 + 2 ^ e2 ∧
          (∀ j a, a ∈ s2.free_lists j ↔
            a ∈ s.free_lists j ∧ (a + 2 ^ j ≤ b2 ∨ b2 + 2 ^ e2 ≤ a)) ∧
          (∀ j, (s2.free_lists j).Nodup) ∧
          (∀ y, b2 ≤ y → y < b2 + 2 ^ e2 → (b ≤ y ∧ y < b + 2 ^ e) ∨ InFree s y) ∧
          (e2 < M → get_buddy_addr B b2 (2 ^ e2) ∉ s2.free_lists e2) ∧
          (∀ y, (∀ j a, a ∈ s.free_lists j → y < a ∨ a + 8 ≤ y) → s2.mem y = s.mem y) :=
      fun hstop heq => ⟨s, b, e, heq, hb, hm, rfl, hblk, le_refl _, le_refl _, le_refl _,
        fun j a => ⟨fun h => ⟨h, hout j a h⟩, fun h => h.1⟩, hnd,
        fun y h1 h2 => Or.inl ⟨h1, h2⟩, hstop, fun _ _ => rfl⟩
    by_cases heM : e < M
    · by_cases hbud : get_buddy_addr s.base b (2 ^ e) ∈ s.free_lists e
      · obtain ⟨bd, hbd⟩ : ∃ bd, get_buddy_addr s.base b (2 ^ e) = bd := ⟨_, rfl⟩
        rw [hbd] at hbud
        have hstep := kfree_merge_step f s b (2 ^ e) e (by rw [hm]; exact heM)
          (by rw [hbd]; exact hbud)
        rw [hbd] at hstep
        have hsize : (2 ^ e * 2) % U32 = 2 ^ (e + 1) := by
          rw [← Nat.pow_succ]
          exact Nat.mod_eq_of_lt (lt_of_le_of_lt (pow_le_max (e + 1) (by omega))
            (by decide))
        rw [hsize] at hstep
        obtain ⟨c1, c2, c3⟩ := buddy_cases s e b (by rw [hb, hm]; exact hfit) hblk
          (by rw [hm]; exact heM)
        rw [hbd] at c1 c2 c3
        obtain ⟨r1, r2, r3, r4⟩ := list_remove_lists s e bd
        obtain ⟨s1, hs1⟩ : ∃ s1, list_remove s e bd = s1 := ⟨_, rfl⟩
        rw [hs1] at r1 r2 r3 r4 hstep
        obtain ⟨b1, hb1⟩ : ∃ b1, (if bd < b then bd else b) = b1 := ⟨_, rfl⟩
        rw [hb1] at hstep
        have hpos : 0 < 2 ^ e := Nat.two_pow_pos e
        have h2e := pow_succ_two e
        have hb1c : (b1 = b ∧ bd = b + 2 ^ e) ∨ (b1 = bd ∧ bd + 2 ^ e = b) := by
          rcases c3 with ⟨d1, _⟩ | ⟨d1, _⟩
          · left
            rw [← hb1, if_neg (by omega)]
            exact ⟨rfl, d1⟩
          · right
            rw [← hb1, if_pos (by omega)]
            exact ⟨rfl, d1⟩
        have hblk1 : Blk s (e + 1) b1 := by
          rcases c3 with ⟨d1, d2⟩ | ⟨d1, d2⟩
          · rcases hb1c with ⟨g1, _⟩ | ⟨g1, g2⟩
            · rw [g1]
              exact d2
            · omega
          · rcases hb1c with ⟨g1, g2⟩ | ⟨g1, _⟩
            · omega
            · rw [g1]
              exact d2
        have hB1 : ∀ j a, Blk s1 j a ↔ Blk s j a :=
          blk_congr s s1 (by rw [r2]) (by rw [r3])
        have hmem1 : ∀ j a, a ∈ s1.free_lists j ↔
            a ∈ s.free_lists j ∧ ¬ (j = e ∧ a = bd) := by
          intro j a
          rw [r1]
          dsimp only
          by_cases ej : j = e
          · rw [if_pos ej, ej, (hnd e).mem_erase_iff]
            constructor
            · rintro ⟨h1, h2⟩
              exact ⟨h2, fun h3 => h1 h3.2⟩
            · rintro ⟨h1, h2⟩
              exact ⟨fun h3 => h2 ⟨rfl, h3⟩, h1⟩
          · rw [if_neg ej]
            exact ⟨fun h1 => ⟨h1, fun h2 => ej h2.1⟩, fun h1 => h1.1⟩
        have hout1 : ∀ j a, a ∈ s1.free_lists j →
            a + 2 ^ j ≤ b1 ∨ b1 + 2 ^ (e + 1) ≤ a := by
          intro j a ha
          obtain ⟨h1, h2⟩ := (hmem1 j a).1 ha
          have h3 := hout j a h1
          have hne : j ≠ e ∨ a ≠ bd := by
            by_cases ej : j = e
            · right
              exact fun e2 => h2 ⟨ej, e2⟩
            · left
              exact ej
          have h4 := hdisj j a e bd h1 hbud hne
          have hpj : 0 < 2 ^ j := Nat.two_pow_pos j
          rcases hb1c with ⟨g1, g2⟩ | ⟨g1, g2⟩ <;> omega
        obtain ⟨s2, b2, e2, q1, q2, q3, q4, q5, q6, q7, q8, q9, q10, q11, q12, q13⟩ :=
          ih s1 b1 (e + 1) (by rw [r2]; exact hb) (by rw [r3]; exact hm) (by omega)
            ((hB1 _ _).2 hblk1)
            (fun j a ha => by
              rw [hB1]
              exact hfree j a ((hmem1 j a).1 ha).1)
            (fun j => by
              rw [r1]
              dsimp only
              by_cases ej : j = e
              · rw [if_pos ej]
                exact (hnd e).erase bd
              · rw [if_neg ej]
                exact hnd j)
            (fun j a j2 a2 ha ha2 hne =>
              hdisj j a j2 a2 ((hmem1 j a).1 ha).1 ((hmem1 j2 a2).1 ha2).1 hne)
            hout1
        refine ⟨s2, b2, e2, hstep.trans q1, q2, q3, by rw [q4, r4], (hB1 _ _).1 q5,
          by omega, ?_, ?_, ?_, q10, ?_, q12, ?_⟩
        · rcases hb1c with ⟨g1, g2⟩ | ⟨g1, g2⟩ <;> omega
        · rcases hb1c with ⟨g1, g2⟩ | ⟨g1, g2⟩ <;> omega
        · intro j a
          rw [q9, hmem1]
          constructor
          · rintro ⟨⟨h1, _⟩, h2⟩
            exact ⟨h1, h2⟩
          · rintro ⟨h1, h2⟩
            refine ⟨⟨h1, ?_⟩, h2⟩
            rintro ⟨ej, ea⟩
            rw [ej, ea] at h2
            rcases hb1c with ⟨g1, g2⟩ | ⟨g1, g2⟩ <;> omega
        · intro y hy1 hy2
          rcases q11 y hy1 hy2 with ⟨h1, h2⟩ | ⟨j, a, h1, h2, h3⟩
          · by_cases hyb : b ≤ y ∧ y < b + 2 ^ e
            · exact Or.inl hyb
            · right
              refine ⟨e, bd, hbud, ?_, ?_⟩ <;>
                rcases hb1c with ⟨g1, g2⟩ | ⟨g1, g2⟩ <;> omega
          · exact Or.inr ⟨j, a, ((hmem1 j a).1 h1).1, h2, h3⟩
        · intro y hy
          rw [q13 y (fun j a ha => hy j a ((hmem1 j a).1 ha).1), ← hs1]
          exact list_remove_frame s e bd y (fun a ha => hy e a ha)
      · refine stay (fun _ => by rw [← hb]; exact hbud) ?_
        exact kfree_merge_stop (f + 1) s b (2 ^ e) e hbud
    · have hne : ¬ e < s.max_order := by rw [hm]; exact heM
      refine stay (fun h => absurd h heM) ?_
      rw [kfree_merge, if_neg hne]

/-- The state after `kfree` of a live pointer: the block that the coalescing
ends with is pushed on the list of its order, the free blocks that it
swallowed are off the lists, and the memory outside the block of the pointer
and outside the free blocks is as before. -/
theorem kfree_live (s : BuddyState) (live : List Nat) (ord : Nat → Nat) (p : Nat)
    (h : HeapInv s live ord) (hp : p ∈ live) :
    ∃ b2 e2, Blk s e2 b2 ∧ ord p ≤ e2 ∧ b2 ≤ p - 8 ∧ p - 8 + 2 ^ ord p ≤ b2 + 2 ^ e2 ∧
      (kfree s p).base = s.base ∧ (kfree s p).max_order = s.max_order ∧
      (kfree s p).min_order = s.min_order ∧
      (∀ j a, a ∈ (kfree s p).free_lists j ↔
        (j = e2 ∧ a = b2) ∨
          (a ∈ s.free_lists j ∧ (a + 2 ^ j ≤ b2 ∨ b2 + 2 ^ e2 ≤ a))) ∧
      (∀ j, ((kfree s p).free_lists j).Nodup) ∧
      (∀ y, b2 ≤ y → y < b2 + 2 ^ e2 →
        (p - 8 ≤ y ∧ y < p - 8 + 2 ^ ord p) ∨ InFree s y) ∧
      (e2 < s.max_order → ∀ a, a ∈ s.free_lists e2 → (a + 2 ^ e2 ≤ b2 ∨ b2 + 2 ^ e2 ≤ a) →
        get_buddy_addr s.base b2 (2 ^ e2) ≠ a) ∧
      (∀ y, (y < p - 8 ∨ p - 8 + 2 ^ ord p ≤ y) →
        (∀ j a, a ∈ s.free_lists j → y < a ∨ a + 2 ^ j ≤ y) → (kfree s p).mem y = s.mem y) := by
  obtain ⟨a1, a2, a3, a4, a5⟩ := h.live_hdr p hp
  have hmin := h.min_ge
  have hM := h.max_le
  unfold BUDDY_MAX_ORDER at hM
  have hfit := h.fit
  have ho : ord p ≤ s.max_order := a5.1
  have h16 : 16 ≤ 2 ^ ord p :=
    show 2 ^ 4 ≤ _ from Nat.pow_le_pow_right (by decide) (by omega)
  have hp32 : p < 4294967296 := by
    have := a5.2.2.2
    unfold U32 at hfit
    omega
  have hfree3 : ∀ j a, a ∈ s.free_lists j → Blk s j a ∧ 3 ≤ j := fun j a ha =>
    ⟨(h.free_blk j a ha).1, by have := (h.free_blk j a ha).2; omega⟩
  obtain ⟨s2, b2, e2, q1, q2, q3, q4, q5, q6, q7, q8, q9, q10, q11, q12, q13⟩ :=
    kfree_merge_inv s.base s.max_order hfit hM s.max_order
      (s.setMem (store32 s.mem (p - 8 + 4) 0)) (p - 8) (ord p) rfl rfl (by omega) a5
      hfree3 h.free_nodup h.free_disj (fun j a ha => h.live_free p j a hp ha)
  have hk := kfree_of s p a3 hp32 a2
  rw [a1, log2_floor_pow (ord p) (by omega), q1] at hk
  dsimp only at hk
  obtain ⟨l1, l2, l3, l4⟩ :=
    list_push_lists (s2.setMem (store32 (store32 s2.mem b2 0) (b2 + 4) 0)) e2 b2
  rw [← hk] at l1 l2 l3 l4
  have hpos : 0 < 2 ^ e2 := Nat.two_pow_pos e2
  have hmem : ∀ j a, a ∈ (kfree s p).free_lists j ↔
      (j = e2 ∧ a = b2) ∨ (a ∈ s.free_lists j ∧ (a + 2 ^ j ≤ b2 ∨ b2 + 2 ^ e2 ≤ a)) := by
    intro j a
    rw [l1]
    dsimp only
    by_cases ej : j = e2
    · rw [if_pos ej, List.mem_cons]
      show a = b2 ∨ a ∈ s2.free_lists e2 ↔ _
      rw [q9, ej]
      constructor
      · rintro (h1 | h1)
        · exact Or.inl ⟨rfl, h1⟩
        · exact Or.inr h1
      · rintro (⟨_, h1⟩ | h1)
        · exact Or.inl h1
        · exact Or.inr h1
    · rw [if_neg ej]
      show a ∈ s2.free_lists j ↔ _
      rw [q9]
      constructor
      · intro h1
        exact Or.inr h1
      · rintro (⟨h1, _⟩ | h1)
        · exact absurd h1 ej
        · exact h1
  refine ⟨b2, e2, q5, q6, q7, q8, by rw [l2]; exact q2, by rw [l3]; exact q3,
    by rw [l4]; exact q4, hmem, ?_, q11, ?_, ?_⟩
  · intro j
    rw [l1]
    dsimp only
    by_cases ej : j = e2
    · rw [if_pos ej]
      refine List.nodup_cons.2 ⟨?_, q10 e2⟩
      show b2 ∉ s2.free_lists e2
      rw [q9]
      rintro ⟨_, h1⟩
      omega
    · rw [if_neg ej]
      exact q10 j
  · intro he a ha hd hbud
    apply q12 he
    rw [hbud, q9]
    exact ⟨ha, hd⟩
  · intro y hy hfr
    have hnodes : ∀ j a, a ∈ s.free_lists j → y < a ∨ a + 8 ≤ y := by
      intro j a ha
      have h1 := hfr j a ha
      have h2 : 8 ≤ 2 ^ j := pow_ge_eight j (hfree3 j a ha).2
      omega
    have hyb : y < b2 ∨ b2 + 8 ≤ y := by
      by_contra hc
      have h8 : 8 ≤ 2 ^ e2 := pow_ge_eight e2 (by omega)
      rcases q11 y (by omega) (by omega) with h1 | ⟨j, a, h1, h2, h3⟩
      · omega
      · have := hfr j a h1
        omega
    rw [hk, list_push_frame _ _ _ _ hyb (fun a ha => by
      have ha2 : a ∈ s2.free_lists e2 := ha
      rw [q9] at ha2
      exact hnodes e2 a ha2.1)]
    show store32 (store32 s2.mem b2 0) (b2 + 4) 0 y = _
    rw [store32_outside _ _ _ _ (by omega), store32_outside _ _ _ _ (by omega),
      q13 y hnodes]
    show store32 s.mem (p - 8 + 4) 0 y = _
    exact store32_outside _ _ _ _ (by omega)

/-- `kfree` of a live pointer keeps the invariant of the allocator. -/
theorem kfree_inv (s : BuddyState) (live : List Nat) (ord : Nat → Nat) (p : Nat)
    (h : HeapInv s live ord) (hp : p ∈ live) :
    HeapInv (kfree s p) (live.erase p) ord ∧ (kfree s p).base = s.base ∧
      (kfree s p).max_order = s.max_order ∧ (kfree s p).min_order = s.min_order := by
  obtain ⟨b2, e2, k1, k2, k3, k4, k5, k6, k7, k8, k9, k10, k11, k12⟩ :=
    kfree_live s live ord p h hp
  obtain ⟨a1, a2, a3, a4, a5⟩ := h.live_hdr p hp
  have hmin := h.min_ge
  have hB : ∀ j a, Blk (kfree s p) j a ↔ Blk s j a := blk_congr s _ k5 k6
  have hpos : 0 < 2 ^ e2 := Nat.two_pow_pos e2
  have hq : ∀ q, q ∈ live.erase p → q ∈ live ∧ q ≠ p := fun q hq =>
    ⟨List.mem_of_mem_erase hq, ((h.live_nodup).mem_erase_iff.1 hq).1⟩
  have hord16 : ∀ q, q ∈ live → 16 ≤ 2 ^ ord q := fun q hq =>
    show 2 ^ 4 ≤ _ from Nat.pow_le_pow_right (by decide)
      (by have := (h.live_hdr q hq).2.2.2.1; omega)
  have hqb : ∀ q, q ∈ live → q ≠ p → b2 + 2 ^ e2 ≤ q - 8 ∨ q - 8 + 2 ^ ord q ≤ b2 := by
    intro q hql hne
    by_contra hc
    have h16 := hord16 q hql
    have hd := h.live_disj q p hql hp hne
    have key : ∀ y, b2 ≤ y → y < b2 + 2 ^ e2 → q - 8 ≤ y → y < q - 8 + 2 ^ ord q → False := by
      intro y y1 y2 y3 y4
      rcases k10 y y1 y2 with h1 | ⟨j, a, h1, h2, h3⟩
      · omega
      · have := h.live_free q j a hql h1
        omega
    by_cases hc2 : q - 8 ≤ b2
    · exact key b2 (le_refl _) (by omega) hc2 (by omega)
    · exact key (q - 8) (by omega) (by omega) (le_refl _) (by omega)
  refine ⟨⟨by rw [k5, k6]; exact h.fit, by rw [k6]; exact h.max_le, by rw [k7]; exact h.min_ge,
    ?_, k9, ?_, ?_, ?_, (h.live_nodup).erase p, ?_, ?_⟩, k5, k6, k7⟩
  · intro j a ha
    rw [hB, k7]
    rcases (k8 j a).1 ha with ⟨h1, h2⟩ | ⟨h1, _⟩
    · rw [h1, h2]
      exact ⟨k1, by omega⟩
    · exact h.free_blk j a h1
  · intro j a j2 a2 ha ha2 hne
    rcases (k8 j a).1 ha with ⟨h1, h2⟩ | ⟨h1, h3⟩
    · rcases (k8 j2 a2).1 ha2 with ⟨g1, g2⟩ | ⟨g1, g3⟩
      · rcases hne with hne | hne
        · exact absurd (h1.trans g1.symm) hne
        · exact absurd (h2.trans g2.symm) hne
      · rw [h1, h2]
        omega
    · rcases (k8 j2 a2).1 ha2 with ⟨g1, g2⟩ | ⟨g1, g3⟩
      · rw [g1, g2]
        omega
      · exact h.free_disj j a j2 a2 h1 g1 hne
  · intro j a hj ha hbud
    rw [k6] at hj
    rw [k5] at hbud
    rcases (k8 j a).1 ha with ⟨h1, h2⟩ | ⟨h1, h3⟩
    · rw [h1, h2] at hbud
      rw [h1] at hj
      rcases (k8 e2 _).1 hbud with ⟨_, g2⟩ | ⟨g1, g3⟩
      · obtain ⟨_, _, hcase⟩ := buddy_cases s e2 b2 h.fit k1 hj
        rcases hcase with ⟨c1, _⟩ | ⟨c1, _⟩ <;> omega
      · exact k11 hj _ g1 g3 rfl
    · have hba : Blk s j a := (h.free_blk j a h1).1
      obtain ⟨_, hinv, _⟩ := buddy_cases s j a h.fit hba hj
      rcases (k8 j _).1 hbud with ⟨g1, g2⟩ | ⟨g1, _⟩
      · rw [g2] at hinv
        rw [g1] at hj h1 h3 hinv
        exact k11 hj a h1 h3 hinv
      · exact h.coal j a hj h1 g1
  · intro q hql
    obtain ⟨hq1, hq2⟩ := hq q hql
    obtain ⟨c1, c2, c3, c4, c5⟩ := h.live_hdr q hq1
    have h16 := hord16 q hq1
    have hd := h.live_disj q p hq1 hp hq2
    obtain ⟨f1, f2⟩ := hdr_frame s.mem (kfree s p).mem q c3 (fun y y1 y2 =>
      k12 y (by omega) (fun j a ha => by
        have := h.live_free q j a hq1 ha
        omega))
    rw [f1, f2, k7, hB]
    exact ⟨c1, c2, c3, c4, c5⟩
  · intro q q2 hql hql2 hne
    exact h.live_disj q q2 (hq q hql).1 (hq q2 hql2).1 hne
  · intro q j a hql ha
    obtain ⟨hq1, hq2⟩ := hq q hql
    rcases (k8 j a).1 ha with ⟨h1, h2⟩ | ⟨h1, _⟩
    · rw [h1, h2]
      exact hqb q hq1 hq2
    · exact h.live_free q j a hq1 h1
/-! ## Kernel heap: `krealloc` keeps the invariant -/

theorem kmalloc_static (s : BuddyState) (live : List Nat) (ord : Nat → Nat) (size : Nat)
    (h : HeapInv s live ord) :
    (kmalloc s size).1.base = s.base ∧ (kmalloc s size).1.max_order = s.max_order ∧
      (kmalloc s size).1.min_order = s.min_order := by
  have hfit := h.fit
  unfold U32 at hfit
  rcases kmalloc_cases s size h.max_le h.min_ge (fun k a ha => by
      have := (h.free_blk k a ha).1.2.2.2
      omega) with
    hc | ⟨k, n, x, r, _, _, _, _, _, _, _, e_b, e_M, e_m, _⟩
  · rw [hc]
    exact ⟨rfl, rfl, rfl⟩
  · exact ⟨e_b, e_M, e_m⟩

/-- The invariant does not depend on the memory outside the headers of the
live pointers. -/
theorem heapInv_setMem (s : BuddyState) (live : List Nat) (ord : Nat → Nat) (m : Nat → Nat)
    (h : HeapInv s live ord)
    (hm : ∀ x, x ∈ live → ∀ y, x - 8 ≤ y → y < x → m y = s.mem y) :
    HeapInv (s.setMem m) live ord :=
  ⟨h.fit, h.max_le, h.min_ge, h.free_blk, h.free_nodup, h.free_disj, h.coal,
    fun q hq => by
      obtain ⟨c1, c2, c3, c4, c5⟩ := h.live_hdr q hq
      obtain ⟨f1, f2⟩ := hdr_frame s.mem m q c3 (hm q hq)
      exact ⟨f1.trans c1, f2.trans c2, c3, c4, c5⟩,
    h.live_nodup, h.live_disj, h.live_free⟩

theorem krealloc_inv (s : BuddyState) (live : List Nat) (ord : Nat → Nat) (p n : Nat)
    (h : HeapInv s live ord) (hp : p ∈ live) (hn : n + 15 < U32) :
    (∃ ord2, HeapInv (krealloc s p n).1
      (if (krealloc s p n).2 = p then live
        else if (krealloc s p n).2 = 0 then (if n = 0 then live.erase p else live)
        else live.erase p ++ [(krealloc s p n).2]) ord2) ∧
      (krealloc s p n).1.base = s.base ∧ (krealloc s p n).1.max_order = s.max_order ∧
      (krealloc s p n).1.min_order = s.min_order := by
  obtain ⟨a1, a2, a3, a4, a5⟩ := h.live_hdr p hp
  have hmin := h.min_ge
  have hM := h.max_le
  unfold BUDDY_MAX_ORDER at hM
  have hfit := h.fit
  unfold U32 at hfit hn
  have h16 : 16 ≤ 2 ^ ord p :=
    show 2 ^ 4 ≤ _ from Nat.pow_le_pow_right (by decide) (by omega)
  have hp32 : p < 4294967296 := by
    have := a5.2.2.2
    omega
  have p0 : ¬ p = 0 := by omega
  have e1 : (p + (U32 - HDR_SIZE)) % U32 = p - 8 := by
    unfold U32 HDR_SIZE
    rw [show p + (4294967296 - 8) = (p - 8) + 4294967296 by omega, Nat.add_mod_right]
    exact Nat.mod_eq_of_lt (by omega)
  have e2 : ¬ load32 s.mem (p - 8 + 4) ≠ BUDDY_MAGIC := fun hne => hne a2
  have e3 : (n + HDR_SIZE) % U32 = n + 8 := by
    unfold U32 HDR_SIZE
    exact Nat.mod_eq_of_lt (by omega)
  by_cases n0 : n = 0
  · have hk : krealloc s p n = (kfree s p, 0) := by
      unfold krealloc
      rw [if_neg p0, if_pos n0]
    rw [hk]
    dsimp only
    rw [if_neg (fun e => p0 e.symm), if_pos rfl, if_pos n0]
    obtain ⟨i1, i2, i3, i4⟩ := kfree_inv s live ord p h hp
    exact ⟨⟨ord, i1⟩, i2, i3, i4⟩
  by_cases hreq : n + 8 ≤ 2 ^ ord p
  · have hk : krealloc s p n = (s, p) := by
      unfold krealloc
      rw [if_neg p0, if_neg n0]
      simp only [e1, if_neg e2, e3, a1, if_pos hreq]
    rw [hk]
    dsimp only
    rw [if_pos rfl]
    exact ⟨⟨ord, h⟩, rfl, rfl, rfl⟩
  obtain ⟨m1, m2⟩ := kmalloc_inv s live ord n h
  obtain ⟨st1, st2, st3⟩ := kmalloc_static s live ord n h
  by_cases hq0 : (kmalloc s n).2 = 0
  · have hk : krealloc s p n = ((kmalloc s n).1, 0) := by
      unfold krealloc
      rw [if_neg p0, if_neg n0]
      simp only [e1, if_neg e2, e3, a1, if_neg hreq, if_pos hq0]
    rw [hk]
    dsimp only
    rw [if_neg (fun e => p0 e.symm), if_pos rfl, if_neg n0, m1 hq0]
    exact ⟨⟨ord, h⟩, rfl, rfl, rfl⟩
  obtain ⟨hql, o, hsz, hinv⟩ := m2 hq0
  obtain ⟨s1, hs1⟩ : ∃ s1, (kmalloc s n).1 = s1 := ⟨_, rfl⟩
  obtain ⟨q, hq⟩ : ∃ q, (kmalloc s n).2 = q := ⟨_, rfl⟩
  rw [hs1, hq] at hinv
  rw [hs1] at st1 st2 st3
  rw [hq] at hql hq0
  obtain ⟨cp, hcp⟩ : ∃ cp,
      (if (load32 s1.mem (p - 8) + (U32 - HDR_SIZE)) % U32 > n then n
        else (load32 s1.mem (p - 8) + (U32 - HDR_SIZE)) % U32) = cp := ⟨_, rfl⟩
  have hcpn : cp ≤ n := by
    rw [← hcp]
    split_ifs <;> omega
  have hk : krealloc s p n = (kfree (s1.setMem (memcpy s1.mem q p cp)) p, q) := by
    unfold krealloc
    rw [if_neg p0, if_neg n0]
    simp only [e1, if_neg e2, e3, a1, if_neg hreq, hq, if_neg hq0, hs1, hcp]
  have hqp : q ≠ p := fun e => hql (e ▸ hp)
  rw [hk]
  dsimp only
  rw [if_neg hqp, if_neg hq0]
  have hqm : q ∈ live ++ [q] := by simp
  obtain ⟨b1, b2, b3, b4, b5⟩ := hinv.live_hdr q hqm
  rw [if_pos rfl] at b1 b4 b5
  have hso := hsz (by unfold U32; exact hn)
  have hinv2 : HeapInv (s1.setMem (memcpy s1.mem q p cp)) (live ++ [q])
      (fun x => if x = q then o else ord x) := by
    refine heapInv_setMem s1 _ _ _ hinv (fun x hx y y1 y2 => ?_)
    have hout : ¬ (q ≤ y ∧ y < q + cp) := by
      by_cases ex : x = q
      · rw [ex] at y2
        omega
      · have hd := hinv.live_disj x q hx hqm ex
        have hx8 := (hinv.live_hdr x hx).2.2.1
        have hxo := (hinv.live_hdr x hx).2.2.2.1
        rw [if_neg ex] at hxo
        have hmin1 := hinv.min_ge
        have hx16 : 16 ≤ 2 ^ ord x :=
          show 2 ^ 4 ≤ _ from Nat.pow_le_pow_right (by decide) (by omega)
        rw [if_pos rfl, if_neg ex] at hd
        omega
    unfold memcpy
    rw [if_neg hout]
  obtain ⟨i1, i2, i3, i4⟩ := kfree_inv _ _ _ p hinv2 (List.mem_append_left _ hp)
  rw [List.erase_append_left _ hp] at i1
  exact ⟨⟨_, i1⟩, i2.trans st1, i3.trans st2, i4.trans st3⟩
/-! ## Kernel heap: a block that is allocated and freed at once -/

/-- The coalescing loop of `kfree` for the top part of the order `j` of a
block `x` of the order `c` whose lower parts are free, one on each order from
`j` on, and whose buddy is not free: the parts are joined into `x`. -/
theorem kfree_merge_chain_at (B M x c : Nat) (hfit : B + 2 ^ M ≤ U32) (hM : M ≤ 20)
    (hx : c ≤ M ∧ B ≤ x ∧ (x - B) % 2 ^ c = 0 ∧ x + 2 ^ c ≤ B + 2 ^ M) :
    ∀ (n : Nat) (s : BuddyState) (j fuel : Nat), j + n = c → n ≤ fuel → s.base = B →
      s.max_order = M →
      (∀ i, j ≤ i → i < c → s.free_lists i = [x + 2 ^ c - 2 ^ (i + 1)]) →
      (c < M → get_buddy_addr B x (2 ^ c) ∉ s.free_lists c) →
      (kfree_merge fuel s (x + 2 ^ c - 2 ^ j) (2 ^ j) j).2 = (x, c) ∧
        (kfree_merge fuel s (x + 2 ^ c - 2 ^ j) (2 ^ j) j).1.free_lists
            = (fun i => if j ≤ i ∧ i < c then [] else s.free_lists i) ∧
        (kfree_merge fuel s (x + 2 ^ c - 2 ^ j) (2 ^ j) j).1.base = B ∧
        (kfree_merge fuel s (x + 2 ^ c - 2 ^ j) (2 ^ j) j).1.max_order = M ∧
        (kfree_merge fuel s (x + 2 ^ c - 2 ^ j) (2 ^ j) j).1.min_order = s.min_order := by
  intro n
  induction n with
  | zero =>
    intro s j fuel hc _ hb hm _ hstop
    have hcm : c = j := by omega
    subst hcm
    have hblock : x + 2 ^ c - 2 ^ c = x := by omega
    rw [hblock]
    have hres : kfree_merge fuel s x (2 ^ c) c = (s, x, c) := by
      cases fuel with
      | zero => rfl
      | succ f =>
        by_cases e : c < M
        · exact kfree_merge_stop (f + 1) s x (2 ^ c) c (by rw [hb]; exact hstop e)
        · rw [kfree_merge, if_neg (by rw [hm]; exact e)]
    rw [hres]
    refine ⟨rfl, ?_, hb, hm, rfl⟩
    funext i
    dsimp only
    rw [if_neg (by omega)]
  | succ n ih =>
    intro s j fuel hc hf hb hm hl hstop
    obtain ⟨f, rfl⟩ : ∃ f, fuel = f + 1 := ⟨fuel - 1, by omega⟩
    have hjc : j < c := by omega
    have hpj : 2 ^ (j + 1) = 2 ^ j + 2 ^ j := pow_succ_two j
    have hle : 2 ^ (j + 1) ≤ 2 ^ c := Nat.pow_le_pow_right (by decide) (by omega)
    have hpos : 0 < 2 ^ j := Nat.two_pow_pos _
    have hxb : Blk s c x := by
      unfold Blk
      rw [hb, hm]
      exact hx
    obtain ⟨tb, te⟩ := blk_top s c x j hxb (by omega)
    obtain ⟨_, _, hcase⟩ := buddy_cases s j (x + 2 ^ c - 2 ^ j) (by rw [hb, hm]; exact hfit) tb
      (by rw [hm]; omega)
    have hbuddy : get_buddy_addr s.base (x + 2 ^ c - 2 ^ j) (2 ^ j)
        = x + 2 ^ c - 2 ^ (j + 1) := by
      rcases hcase with ⟨_, d2⟩ | ⟨d1, _⟩
      · exfalso
        obtain ⟨_, g2, g3, _⟩ := d2
        have h1 : (x + 2 ^ c - 2 ^ j - s.base + 2 ^ j) % 2 ^ (j + 1) = 0 := by
          rw [show x + 2 ^ c - 2 ^ j - s.base + 2 ^ j = (x - B) + 2 ^ c by rw [hb]; omega]
          exact Nat.mod_eq_zero_of_dvd (Nat.dvd_add
            (Nat.dvd_trans (Nat.pow_dvd_pow 2 (by omega)) (Nat.dvd_of_mod_eq_zero hx.2.2.1))
            (Nat.pow_dvd_pow 2 (by omega)))
        have h2 := Nat.add_mod (x + 2 ^ c - 2 ^ j - s.base) (2 ^ j) (2 ^ (j + 1))
        rw [h1, g3, Nat.zero_add, Nat.mod_mod, Nat.mod_eq_of_lt (by omega)] at h2
        omega
      · omega
    have e1 : j < s.max_order := by omega
    have e2 : x + 2 ^ c - 2 ^ (j + 1) ∈ s.free_lists j := by
      rw [hl j (le_refl _) hjc]
      exact List.mem_singleton.2 rfl
    have e3 : x + 2 ^ c - 2 ^ (j + 1) < x + 2 ^ c - 2 ^ j := by omega
    have e4 : (2 ^ j * 2) % U32 = 2 ^ (j + 1) := by
      rw [← Nat.pow_succ]
      exact Nat.mod_eq_of_lt (lt_of_le_of_lt (pow_le_max (j + 1) (by omega)) (by decide))
    have hstep : kfree_merge (f + 1) s (x + 2 ^ c - 2 ^ j) (2 ^ j) j
        = kfree_merge f (list_remove s j (x + 2 ^ c - 2 ^ (j + 1)))
            (x + 2 ^ c - 2 ^ (j + 1)) (2 ^ (j + 1)) (j + 1) := by
      rw [kfree_merge, if_pos e1]
      simp only [hbuddy, if_pos e2, if_pos e3, e4]
    obtain ⟨r1, r2, r3, r4⟩ := list_remove_lists s j (x + 2 ^ c - 2 ^ (j + 1))
    obtain ⟨w1, w2, w3, w4, w5⟩ := ih (list_remove s j (x + 2 ^ c - 2 ^ (j + 1))) (j + 1) f
      (by omega) (by omega) (by rw [r2, hb]) (by rw [r3, hm])
      (fun i h1 h2 => by
        rw [r1]
        dsimp only
        have e : ¬ i = j := by omega
        rw [if_neg e]
        exact hl i (by omega) h2)
      (fun h1 => by
        rw [r1]
        dsimp only
        have e : ¬ c = j := by omega
        rw [if_neg e]
        exact hstop h1)
    rw [hstep]
    refine ⟨w1, ?_, w3, w4, by rw [w5, r4]⟩
    rw [w2, r1]
    funext i
    dsimp only
    by_cases e : j + 1 ≤ i ∧ i < c
    · have e5 : j ≤ i ∧ i < c := by omega
      rw [if_pos e, if_pos e5]
    · rw [if_neg e]
      by_cases e6 : i = j
      · have e7 : j ≤ i ∧ i < c := by omega
        rw [if_pos e6, if_pos e7, hl j (le_refl _) hjc]
        exact List.erase_cons_head _ _
      · have e7 : ¬ (j ≤ i ∧ i < c) := by omega
        rw [if_neg e6, if_neg e7]

/-- On a heap that satisfies the invariant, a `kmalloc` that returns a pointer
and the `kfree` of that pointer right after it leave the free lists as they
were. -/
theorem kmalloc_kfree_lists (s : BuddyState) (live : List Nat) (ord : Nat → Nat) (size : Nat)
    (h : HeapInv s live ord) (hp : (kmalloc s size).2 ≠ 0) :
    (kfree (kmalloc s size).1 (kmalloc s size).2).free_lists = s.free_lists := by
  have hM20 : s.max_order ≤ 20 := h.max_le
  have hfit := h.fit
  have hfit2 := h.fit
  unfold U32 at hfit2
  have hmin := h.min_ge
  have hblk : ∀ k a, a ∈ s.free_lists k → a + 2 ^ k ≤ 4294967296 := by
    intro k a ha
    have := (h.free_blk k a ha).1.2.2.2
    omega
  rcases kmalloc_cases s size hM20 h.min_ge hblk with
    hc | ⟨k, n, x, r, hk, hc, hx, hem, _, e_p, e_l, e_b, e_M, e_m, e_h, e_g, _⟩
  · rw [hc] at hp
    exact absurd rfl hp
  obtain ⟨s2, hs2⟩ : ∃ s2, (kmalloc s size).1 = s2 := ⟨_, rfl⟩
  obtain ⟨p, hpp⟩ : ∃ p, (kmalloc s size).2 = p := ⟨_, rfl⟩
  rw [hs2] at e_l e_b e_M e_m e_h e_g
  rw [hpp] at e_p
  rw [hs2, hpp]
  have hxmem : x ∈ s.free_lists (k + n) := by rw [hx]; simp
  have hxb : Blk s (k + n) x := (h.free_blk _ x hxmem).1
  obtain ⟨tb, te⟩ := blk_top s (k + n) x k hxb (by omega)
  have hkc : 2 ^ k ≤ 2 ^ (k + n) := Nat.pow_le_pow_right (by decide) (by omega)
  have h16 : 16 ≤ 2 ^ k :=
    show 2 ^ 4 ≤ 2 ^ k from Nat.pow_le_pow_right (by decide) (by omega)
  have hp8 : p - 8 = x + 2 ^ (k + n) - 2 ^ k := by omega
  have hxfit := hxb.2.2.2
  have hk0 := kfree_of s2 p (by omega) (by omega) (by rw [hp8]; exact e_g)
  rw [hp8, e_h, log2_floor_pow k (by omega)] at hk0
  have hl2c : s2.free_lists (k + n) = r := by
    rw [e_l]
    dsimp only
    by_cases en : n = 0
    · rw [if_pos (by omega), if_pos en]
    · rw [if_neg (by omega), if_neg (by omega), if_pos rfl]
  obtain ⟨w1, w2, w3, w4, w5⟩ := kfree_merge_chain_at s.base s.max_order x (k + n) hfit hM20 hxb
    n (s2.setMem (store32 s2.mem (x + 2 ^ (k + n) - 2 ^ k + 4) 0)) k s2.max_order rfl
    (by rw [e_M]; omega) e_b e_M
    (fun i h1 h2 => by
      show s2.free_lists i = _
      rw [e_l]
      dsimp only
      by_cases ei : i = k
      · rw [if_pos ei, if_neg (by omega), ei]
      · rw [if_neg ei, if_pos (by omega)])
    (fun hlt => by
      show _ ∉ s2.free_lists (k + n)
      rw [hl2c]
      intro hmem
      exact h.coal (k + n) x hlt hxmem (by rw [hx]; exact List.mem_cons_of_mem _ hmem))
  obtain ⟨R, hR⟩ : ∃ R, kfree_merge s2.max_order
      (s2.setMem (store32 s2.mem (x + 2 ^ (k + n) - 2 ^ k + 4) 0))
      (x + 2 ^ (k + n) - 2 ^ k) (2 ^ k) k = R := ⟨_, rfl⟩
  rw [hR] at hk0 w1 w2 w3 w4 w5
  have hR1 : R.2.1 = x := by rw [w1]
  have hR2 : R.2.2 = k + n := by rw [w1]
  rw [hR1, hR2] at hk0
  rw [hk0, (list_push_lists _ _ _).1]
  funext j
  dsimp only
  show (if j = k + n then x :: R.1.free_lists (k + n) else R.1.free_lists j) = _
  rw [w2]
  dsimp only
  by_cases ej : j = k + n
  · rw [if_pos ej, if_neg (by omega), ej, hx]
    show x :: s2.free_lists (k + n) = _
    rw [hl2c]
  · rw [if_neg ej]
    by_cases e2 : k ≤ j ∧ j < k + n
    · rw [if_pos e2, hem j e2.1 e2.2]
    · rw [if_neg e2]
      show s2.free_lists j = _
      rw [e_l]
      dsimp only
      rw [if_neg (by omega), if_neg (by omega), if_neg ej]
/-! ## Kernel heap: the invariant along a sequence of calls -/

theorem kheap_init_eq (mem : Nat → Nat) (start size : Nat) :
    ∃ b u M, kheap_init mem start size = buddy_init mem b u BUDDY_MIN_ORDER M ∧
      M ≤ BUDDY_MAX_ORDER := by
  unfold kheap_init
  dsimp only
  split_ifs with h
  · exact ⟨_, _, _, rfl, le_refl _⟩
  · exact ⟨_, _, _, rfl, by omega⟩

theorem heapInv_init (mem : Nat → Nat) (b u M : Nat) (hfit : b + 2 ^ M ≤ U32)
    (h5 : BUDDY_MIN_ORDER ≤ M) (h20 : M ≤ BUDDY_MAX_ORDER) :
    HeapInv (buddy_init mem b u BUDDY_MIN_ORDER M) [] (fun _ => 0) := by
  have hmem : ∀ k a, a ∈ (buddy_init mem b u BUDDY_MIN_ORDER M).free_lists k →
      k = M ∧ a = b := by
    intro k a ha
    have ha2 : a ∈ (if k = M then [b] else []) := ha
    by_cases e : k = M
    · rw [if_pos e] at ha2
      exact ⟨e, by simpa using ha2⟩
    · rw [if_neg e] at ha2
      simp at ha2
  refine ⟨hfit, h20, show 4 ≤ BUDDY_MIN_ORDER by decide, ?_, ?_, ?_, ?_,
    fun p hp => by simp at hp, List.nodup_nil,
    fun p q hp => by simp at hp, fun p k a hp => by simp at hp⟩
  · intro k a ha
    obtain ⟨e1, e2⟩ := hmem k a ha
    rw [e1, e2]
    refine ⟨⟨le_refl _, le_refl _, ?_, le_refl _⟩, h5⟩
    show (b - b) % 2 ^ M = 0
    rw [Nat.sub_self, Nat.zero_mod]
  · intro k
    show (if k = M then [b] else []).Nodup
    split_ifs <;> simp
  · intro k a k2 a2 ha ha2 hne
    obtain ⟨e1, e2⟩ := hmem k a ha
    obtain ⟨g1, g2⟩ := hmem k2 a2 ha2
    rcases hne with hne | hne
    · exact absurd (e1.trans g1.symm) hne
    · exact absurd (e2.trans g2.symm) hne
  · intro k a hk ha
    obtain ⟨e1, _⟩ := hmem k a ha
    exact absurd e1 (Nat.ne_of_lt hk)

theorem kmalloc_degenerate (s : BuddyState) (size : Nat) (h : s.max_order < s.min_order) :
    kmalloc s size = (s, 0) := by
  unfold kmalloc
  by_cases e : size = 0
  · rw [if_pos e]
  · rw [if_neg e]
    have h1 := (kmalloc_order_cases s.max_order
      ((((size + HDR_SIZE) % U32 + 7) % U32) &&& not32 7) (s.max_order + 2) s.min_order
      (by omega)).1
    simp only [if_pos (show kmalloc_order s.max_order
      ((((size + HDR_SIZE) % U32 + 7) % U32) &&& not32 7) (s.max_order + 2) s.min_order
        > s.max_order by omega)]

theorem heap_step_degenerate (t t2 : HeapTrace) (op : HeapOp)
    (h : t.heap.max_order < t.heap.min_order) (hl : t.live = [])
    (hs : heap_step t op = some t2) : t2.heap = t.heap ∧ t2.live = [] := by
  cases op with
  | malloc n =>
    have e := Option.some.inj hs
    rw [← e]
    dsimp only
    rw [kmalloc_degenerate t.heap n h]
    exact ⟨rfl, by rw [if_pos rfl]; exact hl⟩
  | free i =>
    unfold heap_step at hs
    rw [hl] at hs
    simp at hs
  | realloc i n =>
    unfold heap_step at hs
    rw [hl] at hs
    simp at hs

theorem heap_run_degenerate :
    ∀ (ops : List HeapOp) (t t2 : HeapTrace), t.heap.max_order < t.heap.min_order →
      t.live = [] → heap_run t ops = some t2 → t2.heap = t.heap := by
  intro ops
  induction ops with
  | nil =>
    intro t t2 _ _ hr
    exact (Option.some.inj hr) ▸ rfl
  | cons op rest ih =>
    intro t t2 h hl hr
    rw [heap_run] at hr
    cases hs : heap_step t op with
    | none =>
      rw [hs] at hr
      exact absurd hr (by simp)
    | some t1 =>
      rw [hs] at hr
      obtain ⟨e1, e2⟩ := heap_step_degenerate t t1 op h hl hs
      rw [← e1]
      exact ih t1 t2 (by rw [e1]; exact h) e2 hr

/-- One call on a heap that satisfies the invariant leaves a heap that
satisfies it, with the same base and orders. -/
theorem heap_step_inv (t t2 : HeapTrace) (op : HeapOp) (hs : heap_step t op = some t2)
    (hop : reallocFits op = true) (hi : ∃ ord, HeapInv t.heap t.live ord) :
    (∃ ord2, HeapInv t2.heap t2.live ord2) ∧ t2.heap.base = t.heap.base ∧
      t2.heap.max_order = t.heap.max_order := by
  obtain ⟨ord, h⟩ := hi
  cases op with
  | malloc n =>
    have e := Option.some.inj hs
    rw [← e]
    dsimp only
    obtain ⟨m1, m2⟩ := kmalloc_inv t.heap t.live ord n h
    obtain ⟨st1, st2, _⟩ := kmalloc_static t.heap t.live ord n h
    refine ⟨?_, st1, st2⟩
    by_cases e0 : (kmalloc t.heap n).2 = 0
    · rw [if_pos e0, m1 e0]
      exact ⟨ord, h⟩
    · rw [if_neg e0]
      obtain ⟨_, o, _, hinv⟩ := m2 e0
      exact ⟨_, hinv⟩
  | free i =>
    unfold heap_step at hs
    dsimp only at hs
    by_cases hp : t.returned.getD i 0 ∈ t.live
    · rw [if_pos hp] at hs
      have e := Option.some.inj hs
      rw [← e]
      obtain ⟨i1, i2, i3, _⟩ := kfree_inv t.heap t.live ord _ h hp
      exact ⟨⟨ord, i1⟩, i2, i3⟩
    · rw [if_neg hp] at hs
      exact absurd hs (by simp)
  | realloc i n =>
    unfold heap_step at hs
    dsimp only at hs
    by_cases hp : t.returned.getD i 0 ∈ t.live
    · rw [if_pos hp] at hs
      have e := Option.some.inj hs
      rw [← e]
      have hn : n + 15 < U32 := of_decide_eq_true hop
      obtain ⟨i1, i2, i3, _⟩ := krealloc_inv t.heap t.live ord _ n h hp hn
      exact ⟨i1, i2, i3⟩
    · rw [if_neg hp] at hs
      exact absurd hs (by simp)

theorem heap_run_inv :
    ∀ (ops : List HeapOp) (t t2 : HeapTrace), heap_run t ops = some t2 →
      ops.all reallocFits = true → (∃ ord, HeapInv t.heap t.live ord) →
      (∃ ord2, HeapInv t2.heap t2.live ord2) ∧ t2.heap.base = t.heap.base ∧
        t2.heap.max_order = t.heap.max_order := by
  intro ops
  induction ops with
  | nil =>
    intro t t2 hr _ hi
    have e := Option.some.inj hr
    rw [← e]
    exact ⟨hi, rfl, rfl⟩
  | cons op rest ih =>
    intro t t2 hr hall hi
    rw [heap_run] at hr
    rw [List.all_cons, Bool.and_eq_true] at hall
    cases hs : heap_step t op with
    | none =>
      rw [hs] at hr
      exact absurd hr (by simp)
    | some t1 =>
      rw [hs] at hr
      obtain ⟨j1, j2, j3⟩ := heap_step_inv t t1 op hs hall.1 hi
      obtain ⟨k1, k2, k3⟩ := ih t1 t2 hr hall.2 j1
      exact ⟨k1, k2.trans j2, k3.trans j3⟩

theorem notRealloc_fits (ops : List HeapOp) (h : ops.all notRealloc = true) :
    ops.all reallocFits = true := by
  rw [List.all_eq_true] at h ⊢
  intro op hop
  have := h op hop
  cases op with
  | malloc n => rfl
  | free i => rfl
  | realloc i n => exact absurd this (by simp [notRealloc])
/-! ## Kernel heap: alignment of the free blocks, and allocate-then-free -/

theorem getD_of_isSome (o : Option HeapTrace) (d : HeapTrace) (h : o.isSome = true) :
    o = some (o.getD d) := by
  cases o with
  | none => exact absurd h (by simp)
  | some t => rfl

/-- The invariant holds after every sequence of calls on a heap that
`kheap_init` has set up with room for a block of the smallest order. -/
theorem kheap_run_inv (mem : Nat → Nat) (start size : Nat) (ops : List HeapOp) (t : HeapTrace)
    (hfit : (kheap_init mem start size).base + 2 ^ (kheap_init mem start size).max_order ≤ U32)
    (h5 : BUDDY_MIN_ORDER ≤ (kheap_init mem start size).max_order)
    (hops : ops.all reallocFits = true)
    (hrun : heap_run (kheap_trace mem start size) ops = some t) :
    (∃ ord, HeapInv t.heap t.live ord) ∧ t.heap.base = (kheap_init mem start size).base ∧
      t.heap.max_order = (kheap_init mem start size).max_order := by
  obtain ⟨b, u, M, he, h20⟩ := kheap_init_eq mem start size
  rw [he] at hfit h5
  have hi := heapInv_init mem b u M hfit h5 h20
  rw [← he] at hi
  exact heap_run_inv ops (kheap_trace mem start size) t hrun hops ⟨_, hi⟩

/-- A heap that `kheap_init` has set up without room for a block of the
smallest order stays as it is. -/
theorem kheap_run_degenerate (mem : Nat → Nat) (start size : Nat) (ops : List HeapOp)
    (t : HeapTrace) (h5 : ¬ BUDDY_MIN_ORDER ≤ (kheap_init mem start size).max_order)
    (hrun : heap_run (kheap_trace mem start size) ops = some t) :
    t.heap = kheap_init mem start size ∧ t.heap.max_order < t.heap.min_order := by
  obtain ⟨b, u, M, he, h20⟩ := kheap_init_eq mem start size
  have hlt : (kheap_trace mem start size).heap.max_order
      < (kheap_trace mem start size).heap.min_order := by
    show (kheap_init mem start size).max_order < (kheap_init mem start size).min_order
    rw [he] at h5 ⊢
    show M < BUDDY_MIN_ORDER
    have : ¬ BUDDY_MIN_ORDER ≤ M := h5
    omega
  have e := heap_run_degenerate ops (kheap_trace mem start size) t hlt rfl hrun
  refine ⟨e, ?_⟩
  rw [e]
  exact hlt

/-- C35 (amended): after `kheap_init` of a region whose heap block
`[base, base + 2 ^ max_order)` lies in the 32-bit address space, and after
every sequence of `kmalloc`, `kfree` and `krealloc` calls on live pointers in
which every `krealloc` asks for fewer than `2 ^ 32 - 15` bytes, the base and
the largest order are those that `kheap_init` set, and every block on the free
list of an order `k` lies in the heap block at an offset from the heap base
that is a multiple of `2 ^ k`. -/
theorem kheap_free_blocks_aligned (mem : Nat → Nat) (start size : Nat) (ops : List HeapOp)
    (t : HeapTrace)
    (hfit : (kheap_init mem start size).base + 2 ^ (kheap_init mem start size).max_order ≤ U32)
    (hops : ops.all reallocFits = true)
    (hrun : heap_run (kheap_trace mem start size) ops = some t) :
    t.heap.base = (kheap_init mem start size).base ∧
      t.heap.max_order = (kheap_init mem start size).max_order ∧
      ∀ k a, a ∈ t.heap.free_lists k →
        k ≤ t.heap.max_order ∧ t.heap.base ≤ a ∧ (a - t.heap.base) % 2 ^ k = 0 ∧
          a + 2 ^ k ≤ t.heap.base + 2 ^ t.heap.max_order := by
  by_cases h5 : BUDDY_MIN_ORDER ≤ (kheap_init mem start size).max_order
  · obtain ⟨⟨ord, hi⟩, hb, hm⟩ := kheap_run_inv mem start size ops t hfit h5 hops hrun
    exact ⟨hb, hm, fun k a ha => (hi.free_blk k a ha).1⟩
  · obtain ⟨e, _⟩ := kheap_run_degenerate mem start size ops t h5 hrun
    rw [e]
    refine ⟨rfl, rfl, fun k a ha => ?_⟩
    obtain ⟨b, u, M, he, _⟩ := kheap_init_eq mem start size
    rw [he] at ha ⊢
    have ha2 : a ∈ (if k = M then [b] else []) := ha
    by_cases ek : k = M
    · rw [if_pos ek] at ha2
      have ea : a = b := by simpa using ha2
      rw [ek, ea]
      refine ⟨le_refl _, le_refl _, ?_, le_refl _⟩
      show (b - b) % 2 ^ M = 0
      rw [Nat.sub_self, Nat.zero_mod]
    · rw [if_neg ek] at ha2
      simp at ha2

set_option maxRecDepth 1000000 in
theorem kheap_free_blocks_aligned_witness :
    heap_run (kheap_trace (fun _ => 0) 4096 672) opsFive = some heapFiveCalls ∧
      heapFiveCalls.heap.base = (kheap_init (fun _ => 0) 4096 672).base ∧
      heapFiveCalls.heap.max_order = (kheap_init (fun _ => 0) 4096 672).max_order ∧
      ∀ k a, a ∈ heapFiveCalls.heap.free_lists k →
        k ≤ heapFiveCalls.heap.max_order ∧ heapFiveCalls.heap.base ≤ a ∧
          (a - heapFiveCalls.heap.base) % 2 ^ k = 0 ∧
          a + 2 ^ k ≤ heapFiveCalls.heap.base + 2 ^ heapFiveCalls.heap.max_order :=
  ⟨getD_of_isSome _ _ (by decide),
    kheap_free_blocks_aligned (fun _ => 0) 4096 672 opsFive heapFiveCalls (by decide)
      (by decide) (getD_of_isSome _ _ (by decide))⟩

set_option maxRecDepth 1000000 in
theorem kheap_free_blocks_aligned_counterexample :
    ((kheap_init (fun _ => 0) 1048576 1048576).base = 1048704 ∧
      (kheap_init (fun _ => 0) 1048576 1048576).max_order = 19 ∧
      (kheap_init (fun _ => 0) 1048576 1048576).free_lists 19 = [1048704] ∧
      1048704 + 2 ^ 19 ≤ U32 ∧ ¬ 1048704 % 2 ^ 19 = 0) ∧
    ((kheap_init (memWithWords 4640 256 BUDDY_MAGIC) 4096 672).base = 4224 ∧
      (heap_run (kheap_trace (memWithWords 4640 256 BUDDY_MAGIC) 4096 672) opsWrapped).map
          (fun t => (t.returned, t.heap.free_lists 8))
        = some ([4680, 4616, 4584], [4608, 4224]) ∧
      ¬ (4608 - 4224) % 2 ^ 8 = 0) := by
  decide

/-- C37: for every heap state that is reached from `kheap_init` (the heap
block lying in the 32-bit address space) by `kmalloc` calls and `kfree` calls
on live pointers, and every `n` for which `kmalloc(heap, n)` returns a pointer
`p` that is not NULL, the call `kfree(heap, p)` right after it leaves the free
list of every order as it was before the `kmalloc`, block for block. -/
theorem kmalloc_kfree_restores_lists (mem : Nat → Nat) (start size : Nat) (ops : List HeapOp)
    (t : HeapTrace) (n : Nat)
    (hfit : (kheap_init mem start size).base + 2 ^ (kheap_init mem start size).max_order ≤ U32)
    (hops : ops.all notRealloc = true)
    (hrun : heap_run (kheap_trace mem start size) ops = some t)
    (hp : (kmalloc t.heap n).2 ≠ 0) :
    ∀ k, (kfree (kmalloc t.heap n).1 (kmalloc t.heap n).2).free_lists k
      = t.heap.free_lists k := by
  by_cases h5 : BUDDY_MIN_ORDER ≤ (kheap_init mem start size).max_order
  · obtain ⟨⟨ord, hi⟩, _, _⟩ :=
      kheap_run_inv mem start size ops t hfit h5 (notRealloc_fits ops hops) hrun
    intro k
    rw [kmalloc_kfree_lists t.heap t.live ord n hi hp]
  · obtain ⟨_, hlt⟩ := kheap_run_degenerate mem start size ops t h5 hrun
    rw [kmalloc_degenerate t.heap n hlt] at hp
    exact absurd rfl hp

set_option maxRecDepth 1000000 in
theorem kmalloc_kfree_restores_lists_witness :
    heap_run (kheap_trace (fun _ => 0) 4096 672) opsThree = some heapThreeCalls ∧
      (kmalloc heapThreeCalls.heap 100).2 = 4488 ∧
      ∀ k, (kfree (kmalloc heapThreeCalls.heap 100).1 (kmalloc heapThreeCalls.heap 100).2).free_lists
          k = heapThreeCalls.heap.free_lists k :=
  ⟨getD_of_isSome _ _ (by decide), by decide,
    kmalloc_kfree_restores_lists (fun _ => 0) 4096 672 opsThree heapThreeCalls 100 (by decide)
      (by decide) (getD_of_isSome _ _ (by decide)) (by decide)⟩
/-! ## File system: a tree of two directories and a file -/

theorem split_path_of (L : HfsLayout) (path : List Nat) (last : Nat)
    (hls : find_last_slash path = some last) (h0 : last ≠ 0) (h1 : last < 256)
    (h2 : (path.drop (last + 1)).length < L.DIRECTORY_NAME_SIZE) :
    split_path L path = some (path.take last, path.drop (last + 1)) := by
  have hlen : (path.take last).length < 256 :=
    lt_of_le_of_lt (List.length_take_le _ _) h1
  unfold split_path
  rw [hls]
  simp only [if_neg h0, if_pos (And.intro hlen h2)]

theorem split_path_top (L : HfsLayout) (path : List Nat)
    (hls : find_last_slash path = some 0)
    (h2 : (path.drop 1).length < L.DIRECTORY_NAME_SIZE) :
    split_path L path = some ([SLASH], path.drop 1) := by
  have hlen : [SLASH].length < 256 := by decide
  unfold split_path
  rw [hls]
  simp only [if_true, if_pos (And.intro hlen h2)]

theorem split_path_a (L : HfsLayout) (hname : 2 ≤ L.DIRECTORY_NAME_SIZE) :
    split_path L PATH_A = some ([SLASH], [97]) :=
  split_path_top L PATH_A (by decide) (by show 1 < _; omega)

theorem split_path_ab (L : HfsLayout) (hname : 2 ≤ L.DIRECTORY_NAME_SIZE) :
    split_path L PATH_AB = some (PATH_A, [98]) :=
  split_path_of L PATH_AB 2 (by decide) (by decide) (by decide) (by show 1 < _; omega)

theorem split_path_abf (L : HfsLayout) (hname : 2 ≤ L.DIRECTORY_NAME_SIZE) :
    split_path L PATH_ABF = some (PATH_AB, [102]) :=
  split_path_of L PATH_ABF 4 (by decide) (by decide) (by decide) (by show 1 < _; omega)

theorem split_path_af (L : HfsLayout) (hname : 2 ≤ L.DIRECTORY_NAME_SIZE) :
    split_path L PATH_AF = some (PATH_A, [102]) :=
  split_path_of L PATH_AF 2 (by decide) (by decide) (by decide) (by show 1 < _; omega)

theorem cstr_single (c : Nat) (h0 : c ≠ 0) (h1 : c < 256) : CStr [c] := by
  intro x hx
  rw [List.mem_singleton.1 hx]
  exact ⟨h0, h1⟩

/-- `hfs_mkdir("/a")` on a fresh file system: inode 1 becomes the empty
directory and the first entry of the block of the root directory names it. -/
theorem fresh_mkdir_a {L : HfsLayout} {sb0 : Superblock} {nblk : Nat} {h : HfsData} {v : View}
    (hL : L.Ok) (hN : 1 ≤ L.INODE_DIRECT_POINTERS) (hname : 2 ≤ L.DIRECTORY_NAME_SIZE)
    (R : Rep L sb0 nblk h v) (hv : FreshView L sb0 v) (hic : 2 ≤ sb0.s_inodes_count)
    (hd : sb0.s_data_blocks_start < sb0.s_blocks_count) :
    ∃ h1 v1, hfs_mkdir L h PATH_A = some (h1, 0) ∧ Rep L sb0 nblk h1 v1 ∧
      v1.bbm = v.bbm ∧ v1.ibm = set_bit v.ibm 1 ∧
      v1.inode 0 = one_block_inode L 1 sb0.s_data_blocks_start L.DIRENT_SIZE ∧
      v1.inode 1 = new_inode L 1 ∧
      v1.data sb0.s_data_blocks_start = dirent_set L zero_block 0 [97] 1 := by
  obtain ⟨b1, b2, b3, b4, b5, b6, b7⟩ := rep_bits_lt hL R
  have hclr : get_bit v.ibm 1 = 0 := by
    rw [hv.ibits 1]
    rfl
  obtain ⟨_, _, R2⟩ := rep_make_prefix hL R (new_inode L 1) (new_inode_valid L 1 (by decide)) 1
    (le_refl _) (by omega) (fun c h1 h2 => by omega) hclr
  have hroot : v.inode 0 = one_block_inode L 1 sb0.s_data_blocks_start 0 := hv.root
  obtain ⟨a1, R3⟩ := rep_add_dir_entry_slot hL hN R2 (v.inode 0) [97] 1 sb0.s_data_blocks_start
    (by rw [hroot]; show (1 : Nat) ≠ 0; decide) (by rw [hroot]; rfl)
    (by rw [hroot, one_block_getD L 1 _ 0 0 hN, if_pos rfl]) (le_refl _) hd hv.root_block
  have hp3 : ({ v.inode 0 with i_size := L.DIRENT_SIZE } : Inode)
      = one_block_inode L 1 sb0.s_data_blocks_start L.DIRENT_SIZE := by
    rw [hroot]
    rfl
  rw [hp3] at a1
  obtain ⟨m1, R4⟩ := rep_make_node hL R (new_inode L 1) (new_inode_valid L 1 (by decide))
    PATH_A [SLASH] [97] (split_path_a L hname) (by simp) 0 1 (resolve_path_root L h) (by omega)
    (by rw [hroot]; show (1 : Nat) ≠ 0; decide) (by rw [hroot]; rfl) (le_refl _) (by omega)
    (fun c h1 h2 => by omega) hclr _ _ _ a1 R3
    (one_block_valid L 1 _ _ hN (by decide) (by omega)
      (by have := hL.dirent_fits; have := eight_bs_lt L hL; omega))
  refine ⟨_, View.mk v.bbm (set_bit v.ibm 1)
      (Function.update (Function.update v.inode 1 (new_inode L 1)) 0
        (one_block_inode L 1 sb0.s_data_blocks_start L.DIRENT_SIZE))
      (Function.update v.data sb0.s_data_blocks_start (dirent_set L zero_block 0 [97] 1)),
    (hfs_mkdir_eq L h PATH_A).trans m1, R4, rfl, rfl, ?_, ?_, ?_⟩
  · exact Function.update_same 0 (one_block_inode L 1 sb0.s_data_blocks_start L.DIRENT_SIZE)
      (Function.update v.inode 1 (new_inode L 1))
  · exact (Function.update_noteq (show (1 : Nat) ≠ 0 by decide)
      (one_block_inode L 1 sb0.s_data_blocks_start L.DIRENT_SIZE)
      (Function.update v.inode 1 (new_inode L 1))).trans
        (Function.update_same 1 (new_inode L 1) v.inode)
  · exact Function.update_same sb0.s_data_blocks_start (dirent_set L zero_block 0 [97] 1) v.data

/-- The common body of `hfs_create` and `hfs_mkdir` for a new name in an empty
directory without a block: the first free inode becomes the new inode, the
first free block becomes the block of the directory and its first entry names
the new inode. -/
theorem make_in_empty_dir {L : HfsLayout} {sb0 : Superblock} {nblk : Nat} {h : HfsData}
    {v : View} (hL : L.Ok) (hN : 1 ≤ L.INODE_DIRECT_POINTERS) (R : Rep L sb0 nblk h v)
    (ino0 : Inode) (hv0 : ino0.Valid L) (path parent name : List Nat)
    (hsplit : split_path L path = some (parent, name)) (hname : name ≠ []) (p n nb : Nat)
    (hpne : parent ≠ []) (hwalk : VWalk L sb0 v (path_tokens parent) 0 p)
    (hp : p < sb0.s_inodes_count) (hpino : v.inode p = new_inode L 1)
    (hn1 : 1 ≤ n) (hn : n < sb0.s_inodes_count)
    (hset : ∀ c, 1 ≤ c → c < n → get_bit v.ibm c = 1) (hclr : get_bit v.ibm n = 0)
    (hb1 : sb0.s_data_blocks_start ≤ nb) (hb : nb < sb0.s_blocks_count)
    (hbset : ∀ c, sb0.s_data_blocks_start ≤ c → c < nb → get_bit v.bbm c = 1)
    (hbclr : get_bit v.bbm nb = 0) :
    ∃ h1 v1, make_node L ino0 h path = some (h1, 0) ∧ Rep L sb0 nblk h1 v1 ∧
      v1.bbm = set_bit v.bbm nb ∧ v1.ibm = set_bit v.ibm n ∧
      v1.inode = Function.update (Function.update v.inode n ino0) p
        (one_block_inode L 1 nb L.DIRENT_SIZE) ∧
      v1.data = Function.update v.data nb (dirent_set L zero_block 0 name n) := by
  obtain ⟨b1, b2, b3, b4, b5, b6, b7⟩ := rep_bits_lt hL R
  obtain ⟨_, _, R2⟩ := rep_make_prefix hL R ino0 hv0 n hn1 hn hset hclr
  obtain ⟨a1, R3⟩ := rep_add_dir_entry_hole hL hN R2 (v.inode p) name n nb
    (by rw [hpino]; show (1 : Nat) ≠ 0; decide) (by rw [hpino]; rfl)
    (by rw [hpino]; exact new_inode_getD L 1 0) hb1 hb hbset hbclr
  have hp3 : ({ v.inode p with i_direct_pointers := (v.inode p).i_direct_pointers.set 0 nb,
                               i_size := L.DIRENT_SIZE } : Inode)
      = one_block_inode L 1 nb L.DIRENT_SIZE := by
    rw [hpino]
    rfl
  rw [hp3] at a1
  obtain ⟨m1, R4⟩ := rep_make_node hL R ino0 hv0 path parent name hsplit hname p n
    (vwalk_resolve_path hL hN R parent p hpne hwalk) hp
    (by rw [hpino]; show (1 : Nat) ≠ 0; decide) (by rw [hpino]; rfl) hn1 hn hset hclr _ _ _ a1 R3
    (one_block_valid L 1 _ _ hN (by decide) (by omega)
      (by have := hL.dirent_fits; have := eight_bs_lt L hL; omega))
  exact ⟨_, View.mk (set_bit v.bbm nb) (set_bit v.ibm n)
      (Function.update (Function.update v.inode n ino0) p (one_block_inode L 1 nb L.DIRENT_SIZE))
      (Function.update v.data nb (dirent_set L zero_block 0 name n)), m1, R4, rfl, rfl, rfl, rfl⟩

theorem path_tokens_a : path_tokens PATH_A = [[97]] := by decide

theorem path_tokens_ab : path_tokens PATH_AB = [[97], [98]] := by decide

theorem path_tokens_abf : path_tokens PATH_ABF = [[97], [98], [102]] := by decide

theorem path_tokens_af : path_tokens PATH_AF = [[97], [102]] := by decide

theorem path_tokens_slash : path_tokens [SLASH] = [] := by decide

/-- One step of the walk in the contents. -/
theorem vwalk_step (L : HfsLayout) (sb0 : Superblock) (v : View) (t : List Nat)
    (ts : List (List Nat)) (c r b n : Nat) (hc : c < sb0.s_inodes_count)
    (hino : v.inode c = one_block_inode L 1 b L.DIRENT_SIZE)
    (hb : sb0.s_data_blocks_start ≤ b) (hb2 : b < sb0.s_blocks_count)
    (hdata : v.data b = dirent_set L zero_block 0 t n) (hn0 : n ≠ 0) (hn : n < 2147483648)
    (ht : CStr t) (hlen : t.length < L.DIRECTORY_NAME_SIZE) (hrest : VWalk L sb0 v ts n r) :
    VWalk L sb0 v (t :: ts) c r :=
  ⟨hc, b, n, hino, hb, hb2, hdata, hn0, hn, ht, hlen, hrest⟩

theorem vwalk_nil (L : HfsLayout) (sb0 : Superblock) (v : View) (c : Nat)
    (hc : c < 2147483648) : VWalk L sb0 v [] c c := ⟨rfl, hc⟩

/-- On a fresh file system `hfs_mkdir("/a")`, `hfs_mkdir("/a/b")` and
`hfs_create("/a/b/f")` return 0 and take the inodes 1, 2, 3 and the two data
blocks after the first block of the root directory. -/
theorem tree_build {L : HfsLayout} {sb0 : Superblock} {nblk : Nat} {h : HfsData} {v : View}
    (hL : L.Ok) (hN : 1 ≤ L.INODE_DIRECT_POINTERS) (hname : 2 ≤ L.DIRECTORY_NAME_SIZE)
    (R : Rep L sb0 nblk h v) (hv : FreshView L sb0 v) (hic : 4 ≤ sb0.s_inodes_count)
    (hd : sb0.s_data_blocks_start + 2 < sb0.s_blocks_count) :
    ∃ h1 h2 h3 v3, hfs_mkdir L h PATH_A = some (h1, 0) ∧
      hfs_mkdir L h1 PATH_AB = some (h2, 0) ∧ hfs_create L h2 PATH_ABF = some (h3, 0) ∧
      Rep L sb0 nblk h3 v3 ∧
      v3.bbm = set_bit (set_bit v.bbm (sb0.s_data_blocks_start + 1))
        (sb0.s_data_blocks_start + 2) ∧
      v3.ibm = set_bit (set_bit (set_bit v.ibm 1) 2) 3 ∧
      v3.inode 0 = one_block_inode L 1 sb0.s_data_blocks_start L.DIRENT_SIZE ∧
      v3.inode 1 = one_block_inode L 1 (sb0.s_data_blocks_start + 1) L.DIRENT_SIZE ∧
      v3.inode 2 = one_block_inode L 1 (sb0.s_data_blocks_start + 2) L.DIRENT_SIZE ∧
      v3.inode 3 = new_inode L 0 ∧
      v3.data sb0.s_data_blocks_start = dirent_set L zero_block 0 [97] 1 ∧
      v3.data (sb0.s_data_blocks_start + 1) = dirent_set L zero_block 0 [98] 2 ∧
      v3.data (sb0.s_data_blocks_start + 2) = dirent_set L zero_block 0 [102] 3 := by
  have hc97 : CStr [97] := cstr_single 97 (by decide) (by decide)
  have hc98 : CStr [98] := cstr_single 98 (by decide) (by decide)
  have hlen1 : ∀ c : Nat, [c].length < L.DIRECTORY_NAME_SIZE := fun c => hname
  obtain ⟨h1, v1, e1, R1, b1, i1, n10, n11, d1⟩ :=
    fresh_mkdir_a hL hN hname R hv (by omega) (by omega)
  -- mkdir /a/b
  have w1 : VWalk L sb0 v1 (path_tokens PATH_A) 0 1 := by
    rw [path_tokens_a]
    exact vwalk_step L sb0 v1 [97] [] 0 1 sb0.s_data_blocks_start 1 (by omega) n10
      (Nat.le_refl _) (by omega) d1 (by decide) (by decide) hc97 (hlen1 97)
      (vwalk_nil L sb0 v1 1 (by decide))
  have hs1 : ∀ c, 1 ≤ c → c < 2 → get_bit v1.ibm c = 1 := by
    intro c hc1 hc2
    have e : c = 1 := by omega
    rw [i1, get_bit_set_bit, if_pos e]
  have hz1 : get_bit v1.ibm 2 = 0 := by
    rw [i1, get_bit_set_bit, if_neg (by decide), hv.ibits, if_neg (by decide)]
  have hbs1 : ∀ c, sb0.s_data_blocks_start ≤ c → c < sb0.s_data_blocks_start + 1 →
      get_bit v1.bbm c = 1 := by
    intro c hc1 hc2
    rw [b1, hv.bbits, if_pos (by omega)]
  have hbz1 : get_bit v1.bbm (sb0.s_data_blocks_start + 1) = 0 := by
    rw [b1, hv.bbits, if_neg (by omega)]
  obtain ⟨h2, v2, e2, R2, b2, i2, n2, d2⟩ :=
    make_in_empty_dir hL hN R1 (new_inode L 1) (new_inode_valid L 1 (by decide)) PATH_AB PATH_A
      [98] (split_path_ab L hname) (by decide) 1 2 (sb0.s_data_blocks_start + 1) (by decide)
      w1 (by omega) n11 (by decide) (by omega) hs1 hz1 (by omega) (by omega) hbs1 hbz1
  have n20 : v2.inode 0 = one_block_inode L 1 sb0.s_data_blocks_start L.DIRENT_SIZE := by
    rw [n2, Function.update_noteq (by decide : (0 : Nat) ≠ 1),
      Function.update_noteq (by decide : (0 : Nat) ≠ 2), n10]
  have n21 : v2.inode 1 = one_block_inode L 1 (sb0.s_data_blocks_start + 1) L.DIRENT_SIZE := by
    rw [n2, Function.update_same]
  have n22 : v2.inode 2 = new_inode L 1 := by
    rw [n2, Function.update_noteq (by decide : (2 : Nat) ≠ 1), Function.update_same]
  have d20 : v2.data sb0.s_data_blocks_start = dirent_set L zero_block 0 [97] 1 := by
    have e : sb0.s_data_blocks_start ≠ sb0.s_data_blocks_start + 1 := by omega
    rw [d2, Function.update_noteq e, d1]
  have d21 : v2.data (sb0.s_data_blocks_start + 1) = dirent_set L zero_block 0 [98] 2 := by
    rw [d2, Function.update_same]
  -- create /a/b/f
  have w2 : VWalk L sb0 v2 (path_tokens PATH_AB) 0 2 := by
    rw [path_tokens_ab]
    exact vwalk_step L sb0 v2 [97] [[98]] 0 2 sb0.s_data_blocks_start 1 (by omega) n20
      (Nat.le_refl _) (by omega) d20 (by decide) (by decide) hc97 (hlen1 97)
      (vwalk_step L sb0 v2 [98] [] 1 2 (sb0.s_data_blocks_start + 1) 2 (by omega) n21
        (by omega) (by omega) d21 (by decide) (by decide) hc98 (hlen1 98)
        (vwalk_nil L sb0 v2 2 (by decide)))
  have hs2 : ∀ c, 1 ≤ c → c < 3 → get_bit v2.ibm c = 1 := by
    intro c hc1 hc2
    rw [i2, get_bit_set_bit]
    by_cases e : c = 2
    · rw [if_pos e]
    · rw [if_neg e]
      exact hs1 c hc1 (by omega)
  have hz2 : get_bit v2.ibm 3 = 0 := by
    rw [i2, get_bit_set_bit, if_neg (by decide), i1, get_bit_set_bit, if_neg (by decide),
      hv.ibits, if_neg (by decide)]
  have hbs2 : ∀ c, sb0.s_data_blocks_start ≤ c → c < sb0.s_data_blocks_start + 2 →
      get_bit v2.bbm c = 1 := by
    intro c hc1 hc2
    rw [b2, get_bit_set_bit]
    by_cases e : c = sb0.s_data_blocks_start + 1
    · rw [if_pos e]
    · rw [if_neg e]
      exact hbs1 c hc1 (by omega)
  have hbz2 : get_bit v2.bbm (sb0.s_data_blocks_start + 2) = 0 := by
    have e : ¬ sb0.s_data_blocks_start + 2 = sb0.s_data_blocks_start + 1 := by omega
    have e2 : ¬ sb0.s_data_blocks_start + 2 ≤ sb0.s_data_blocks_start := by omega
    rw [b2, get_bit_set_bit, if_neg e, b1, hv.bbits, if_neg e2]
  obtain ⟨h3, v3, e3, R3, b3, i3, n3, d3⟩ :=
    make_in_empty_dir hL hN R2 (new_inode L 0) (new_inode_valid L 0 (by decide)) PATH_ABF PATH_AB
      [102] (split_path_abf L hname) (by decide) 2 3 (sb0.s_data_blocks_start + 2) (by decide)
      w2 (by omega) n22 (by decide) (by omega) hs2 hz2 (by omega) (by omega) hbs2 hbz2
  refine ⟨h1, h2, h3, v3, e1, e2, e3, R3, ?_, ?_, ?_, ?_, ?_, ?_, ?_, ?_, ?_⟩
  · rw [b3, b2, b1]
  · rw [i3, i2, i1]
  · rw [n3, Function.update_noteq (by decide : (0 : Nat) ≠ 2),
      Function.update_noteq (by decide : (0 : Nat) ≠ 3), n20]
  · rw [n3, Function.update_noteq (by decide : (1 : Nat) ≠ 2),
      Function.update_noteq (by decide : (1 : Nat) ≠ 3), n21]
  · rw [n3, Function.update_same]
  · rw [n3, Function.update_noteq (by decide : (3 : Nat) ≠ 2), Function.update_same]
  · have e : sb0.s_data_blocks_start ≠ sb0.s_data_blocks_start + 2 := by omega
    rw [d3, Function.update_noteq e, d20]
  · have e : sb0.s_data_blocks_start + 1 ≠ sb0.s_data_blocks_start + 2 := by omega
    rw [d3, Function.update_noteq e, d21]
  · rw [d3, Function.update_same]

/-- The removal of `/a` from the tree `/a/b/f`: `hfs_remove` returns 0 and
clears the bits of the three inodes and of the two directory blocks. -/
theorem tree_remove {L : HfsLayout} {sb0 : Superblock} {nblk : Nat} {h : HfsData} {v : View}
    (hL : L.Ok) (hN : 1 ≤ L.INODE_DIRECT_POINTERS) (hname : 2 ≤ L.DIRECTORY_NAME_SIZE)
    (R : Rep L sb0 nblk h v) (hic : 4 ≤ sb0.s_inodes_count)
    (hd : sb0.s_data_blocks_start + 2 < sb0.s_blocks_count)
    (n0 : v.inode 0 = one_block_inode L 1 sb0.s_data_blocks_start L.DIRENT_SIZE)
    (n1 : v.inode 1 = one_block_inode L 1 (sb0.s_data_blocks_start + 1) L.DIRENT_SIZE)
    (n2 : v.inode 2 = one_block_inode L 1 (sb0.s_data_blocks_start + 2) L.DIRENT_SIZE)
    (n3 : v.inode 3 = new_inode L 0)
    (d0 : v.data sb0.s_data_blocks_start = dirent_set L zero_block 0 [97] 1)
    (d1 : v.data (sb0.s_data_blocks_start + 1) = dirent_set L zero_block 0 [98] 2)
    (d2 : v.data (sb0.s_data_blocks_start + 2) = dirent_set L zero_block 0 [102] 3) :
    ∃ h4 v4, hfs_remove L h PATH_A = some (h4, 0) ∧ Rep L sb0 nblk h4 v4 ∧
      v4.bbm = clear_bit (clear_bit v.bbm (sb0.s_data_blocks_start + 2))
        (sb0.s_data_blocks_start + 1) ∧
      v4.ibm = clear_bit (clear_bit (clear_bit v.ibm 3) 2) 1 := by
  have hc97 : CStr [97] := cstr_single 97 (by decide) (by decide)
  have hc98 : CStr [98] := cstr_single 98 (by decide) (by decide)
  have hc102 : CStr [102] := cstr_single 102 (by decide) (by decide)
  have hlen1 : ∀ c : Nat, [c].length < L.DIRECTORY_NAME_SIZE := fun c => hname
  have e01 : sb0.s_data_blocks_start ≠ sb0.s_data_blocks_start + 1 := by omega
  have e02 : sb0.s_data_blocks_start ≠ sb0.s_data_blocks_start + 2 := by omega
  have e12 : sb0.s_data_blocks_start + 1 ≠ sb0.s_data_blocks_start + 2 := by omega
  -- the walks in the tree
  have wA : VWalk L sb0 v [[97]] 0 1 :=
    vwalk_step L sb0 v [97] [] 0 1 sb0.s_data_blocks_start 1 (by omega) n0
      (Nat.le_refl _) (by omega) d0 (by decide) (by decide) hc97 (hlen1 97)
      (vwalk_nil L sb0 v 1 (by decide))
  have wAB : VWalk L sb0 v [[97], [98]] 0 2 :=
    vwalk_step L sb0 v [97] [[98]] 0 2 sb0.s_data_blocks_start 1 (by omega) n0
      (Nat.le_refl _) (by omega) d0 (by decide) (by decide) hc97 (hlen1 97)
      (vwalk_step L sb0 v [98] [] 1 2 (sb0.s_data_blocks_start + 1) 2 (by omega) n1
        (by omega) (by omega) d1 (by decide) (by decide) hc98 (hlen1 98)
        (vwalk_nil L sb0 v 2 (by decide)))
  have wABF : VWalk L sb0 v [[97], [98], [102]] 0 3 :=
    vwalk_step L sb0 v [97] [[98], [102]] 0 3 sb0.s_data_blocks_start 1 (by omega) n0
      (Nat.le_refl _) (by omega) d0 (by decide) (by decide) hc97 (hlen1 97)
      (vwalk_step L sb0 v [98] [[102]] 1 3 (sb0.s_data_blocks_start + 1) 2 (by omega) n1
        (by omega) (by omega) d1 (by decide) (by decide) hc98 (hlen1 98)
        (vwalk_step L sb0 v [102] [] 2 3 (sb0.s_data_blocks_start + 2) 3 (by omega) n2
          (by omega) (by omega) d2 (by decide) (by decide) hc102 (hlen1 102)
          (vwalk_nil L sb0 v 3 (by decide))))
  -- the file /a/b/f
  obtain ⟨hA, eA, RA⟩ :=
    rep_remove_file hL hN R 509 PATH_ABF PATH_AB [102] 3 2 (sb0.s_data_blocks_start + 2)
      (by decide) (by rw [path_tokens_abf]; exact wABF) (by decide) (by omega) n3
      (split_path_abf L hname) (by decide) (by rw [path_tokens_ab]; exact wAB) (by omega) n2
      (by omega) (by omega) d2 hc102 (hlen1 102)
  -- the directory /a/b
  have dA0 : Function.update v.data (sb0.s_data_blocks_start + 2) zero_block
      sb0.s_data_blocks_start = dirent_set L zero_block 0 [97] 1 := by
    rw [Function.update_noteq e02, d0]
  have dA1 : Function.update v.data (sb0.s_data_blocks_start + 2) zero_block
      (sb0.s_data_blocks_start + 1) = dirent_set L zero_block 0 [98] 2 := by
    rw [Function.update_noteq e12, d1]
  have wA1 : VWalk L sb0
      (View.mk v.bbm (clear_bit v.ibm 3) v.inode
        (Function.update v.data (sb0.s_data_blocks_start + 2) zero_block)) [[97]] 0 1 :=
    vwalk_step L sb0 _ [97] [] 0 1 sb0.s_data_blocks_start 1 (by omega) n0
      (Nat.le_refl _) (by omega) dA0 (by decide) (by decide) hc97 (hlen1 97)
      (vwalk_nil L sb0 _ 1 (by decide))
  obtain ⟨hB, eB, RB⟩ :=
    rep_remove_dir hL hN R 510 PATH_AB [102] PATH_A [98] 2 (sb0.s_data_blocks_start + 2) 3 1
      (sb0.s_data_blocks_start + 1) hA 0
      (View.mk v.bbm (clear_bit v.ibm 3) v.inode
        (Function.update v.data (sb0.s_data_blocks_start + 2) zero_block))
      (by decide) (by rw [path_tokens_ab]; exact wAB) (by decide) (by omega) n2
      (by omega) (by omega) d2 hc102 (hlen1 102) (by decide) (by decide) (by decide)
      eA RA (split_path_ab L hname) (by decide) (by rw [path_tokens_a]; exact wA1) (by omega)
      n1 (by omega) (by omega) dA1 hc98 (hlen1 98)
  -- the directory /a
  have dB0 : Function.update
      (Function.update v.data (sb0.s_data_blocks_start + 2) zero_block)
      (sb0.s_data_blocks_start + 1) zero_block
      sb0.s_data_blocks_start = dirent_set L zero_block 0 [97] 1 := by
    rw [Function.update_noteq e01, Function.update_noteq e02, d0]
  obtain ⟨hC, eC, RC⟩ :=
    rep_remove_dir hL hN R 511 PATH_A [98] [SLASH] [97] 1 (sb0.s_data_blocks_start + 1) 2 0
      sb0.s_data_blocks_start hB 0
      (View.mk (clear_bit v.bbm (sb0.s_data_blocks_start + 2))
        (clear_bit (clear_bit v.ibm 3) 2) v.inode
        (Function.update (Function.update v.data (sb0.s_data_blocks_start + 2) zero_block)
          (sb0.s_data_blocks_start + 1) zero_block))
      (by decide) (by rw [path_tokens_a]; exact wA) (by decide) (by omega) n1
      (by omega) (by omega) d1 hc98 (hlen1 98) (by decide) (by decide) (by decide)
      eB RB (split_path_a L hname) (by decide)
      (by rw [path_tokens_slash]; exact vwalk_nil L sb0 _ 0 (by decide)) (by omega)
      n0 (Nat.le_refl _) (by omega) dB0 hc97 (hlen1 97)
  exact ⟨hC, _, eC, RC, rfl, rfl⟩
/-! ## File system: removal of a tree -/

/-- C18: on a freshly formatted and mounted file system, after
`hfs_mkdir("/a")`, `hfs_mkdir("/a/b")`, `hfs_create("/a/b/f")` and
`hfs_remove("/a")`, `hfs_remove` has returned 0; the creations set exactly the
bits of the inodes 1, 2, 3 and of the two data blocks after the first block of
the root directory, and after the removal the inode bitmap and the block
bitmap, in memory and on the device, are those of the state right after the
format. -/
theorem hfs_remove_tree_restores_bitmaps (L : HfsLayout) (magic : Nat) (dev : BlockDevice)
    (hf : FormatOk L magic dev 2) :
    ∃ F h3 h4, tree_scenario L magic dev = some (F, h3, h4, 0) ∧
      (∀ i, get_bit h3.inode_bitmap i
        = if i = 1 ∨ i = 2 ∨ i = 3 then 1 else get_bit F.inode_bitmap i) ∧
      (∀ i, i = 1 ∨ i = 2 ∨ i = 3 → get_bit F.inode_bitmap i = 0) ∧
      (∀ b, get_bit h3.block_bitmap b
        = if b = F.sb.s_data_blocks_start + 1 ∨ b = F.sb.s_data_blocks_start + 2 then 1
          else get_bit F.block_bitmap b) ∧
      (∀ b, b = F.sb.s_data_blocks_start + 1 ∨ b = F.sb.s_data_blocks_start + 2 →
        get_bit F.block_bitmap b = 0) ∧
      h4.inode_bitmap = F.inode_bitmap ∧ h4.block_bitmap = F.block_bitmap ∧
      h4.disk_inode_bitmap = F.disk_inode_bitmap ∧
      h4.disk_block_bitmap = F.disk_block_bitmap := by
  obtain ⟨devF, F, v0, hfmt, hmnt, R0, fv⟩ := format_mount_rep L magic dev 2 hf
  obtain ⟨-, f2, f3, -, -, -, -, -, -, -, -⟩ := format_sb_fields L magic dev 2 hf
  have hroom := hf.room
  generalize format_sb L magic dev.num_blocks = sb0 at R0 fv f2 f3 hroom
  have hd : sb0.s_data_blocks_start + 2 < sb0.s_blocks_count := by omega
  obtain ⟨h1, h2, h3, v3, e1, e2, e3, R3, b3, i3, n0, n1, n2, n3, d0, d1, d2⟩ :=
    tree_build hf.layout hf.direct hf.name R0 fv (by omega) hd
  obtain ⟨h4, v4, e4, R4, b4, i4⟩ :=
    tree_remove hf.layout hf.direct hf.name R3 (by omega) hd n0 n1 n2 n3 d0 d1 d2
  have hz1 : get_bit v0.ibm 1 = 0 := by rw [fv.ibits, if_neg (by decide)]
  have hz2 : get_bit (set_bit v0.ibm 1) 2 = 0 := by
    rw [get_bit_set_bit, if_neg (by decide), fv.ibits, if_neg (by decide)]
  have hz3 : get_bit (set_bit (set_bit v0.ibm 1) 2) 3 = 0 := by
    rw [get_bit_set_bit, if_neg (by decide), get_bit_set_bit, if_neg (by decide), fv.ibits,
      if_neg (by decide)]
  have hb1 : get_bit v0.bbm (sb0.s_data_blocks_start + 1) = 0 := by
    rw [fv.bbits, if_neg (by omega)]
  have hb2 : get_bit (set_bit v0.bbm (sb0.s_data_blocks_start + 1))
      (sb0.s_data_blocks_start + 2) = 0 := by
    have e : ¬ sb0.s_data_blocks_start + 2 = sb0.s_data_blocks_start + 1 := by omega
    have e2 : ¬ sb0.s_data_blocks_start + 2 ≤ sb0.s_data_blocks_start := by omega
    rw [get_bit_set_bit, if_neg e, fv.bbits, if_neg e2]
  have hi : v4.ibm = v0.ibm := by
    rw [i4, i3, clear_set_cancel _ 3 (bytes_set_bit _ _ (bytes_set_bit _ _ fv.ibytes)) hz3,
      clear_set_cancel _ 2 (bytes_set_bit _ _ fv.ibytes) hz2,
      clear_set_cancel _ 1 fv.ibytes hz1]
  have hb : v4.bbm = v0.bbm := by
    rw [b4, b3, clear_set_cancel _ _ (bytes_set_bit _ _ fv.bbytes) hb2,
      clear_set_cancel _ _ fv.bbytes hb1]
  refine ⟨F, h3, h4, ?_, ?_, ?_, ?_, ?_, ?_, ?_, ?_, ?_⟩
  · unfold tree_scenario
    rw [hfmt]
    simp only [ne_eq, not_true_eq_false, if_false, hmnt, e1, e2, e3, e4]
  · intro i
    rw [R3.ibm_mem, R0.ibm_mem, i3, get_bit_set_bit, get_bit_set_bit, get_bit_set_bit]
    by_cases c3 : i = 3
    · simp [c3]
    · by_cases c2 : i = 2
      · simp [c2]
      · by_cases c1 : i = 1
        · simp [c1]
        · simp [c1, c2, c3]
  · intro i hi3
    rw [R0.ibm_mem, fv.ibits, if_neg (by omega)]
  · intro b
    rw [R3.bbm_mem, R0.bbm_mem, R0.sb_eq, b3, get_bit_set_bit, get_bit_set_bit]
    by_cases c2 : b = sb0.s_data_blocks_start + 2
    · simp [c2]
    · by_cases c1 : b = sb0.s_data_blocks_start + 1
      · simp [c1]
      · simp [c1, c2]
  · intro b hb3
    rw [R0.bbm_mem, R0.sb_eq] at *
    rw [fv.bbits, if_neg (by omega)]
  · rw [R4.ibm_mem, R0.ibm_mem, hi]
  · rw [R4.bbm_mem, R0.bbm_mem, hb]
  · rw [R4.ibm_disk, R0.ibm_disk, hi]
  · rw [R4.bbm_disk, R0.bbm_disk, hb]

theorem hfs_remove_tree_restores_bitmaps_witness :
    FormatOk hfsSmallLayout 0 devBlank64 2 ∧
      ∃ F h3 h4, tree_scenario hfsSmallLayout 0 devBlank64 = some (F, h3, h4, 0) ∧
        (∀ i, get_bit h3.inode_bitmap i
          = if i = 1 ∨ i = 2 ∨ i = 3 then 1 else get_bit F.inode_bitmap i) ∧
        (∀ i, i = 1 ∨ i = 2 ∨ i = 3 → get_bit F.inode_bitmap i = 0) ∧
        (∀ b, get_bit h3.block_bitmap b
          = if b = F.sb.s_data_blocks_start + 1 ∨ b = F.sb.s_data_blocks_start + 2 then 1
            else get_bit F.block_bitmap b) ∧
        (∀ b, b = F.sb.s_data_blocks_start + 1 ∨ b = F.sb.s_data_blocks_start + 2 →
          get_bit F.block_bitmap b = 0) ∧
        h4.inode_bitmap = F.inode_bitmap ∧ h4.block_bitmap = F.block_bitmap ∧
        h4.disk_inode_bitmap = F.disk_inode_bitmap ∧
        h4.disk_block_bitmap = F.disk_block_bitmap :=
  ⟨⟨⟨by decide, by decide, by decide, by decide⟩, by decide, by decide, by decide, by decide,
      by decide, by decide, by decide⟩,
    hfs_remove_tree_restores_bitmaps hfsSmallLayout 0 devBlank64
      ⟨⟨by decide, by decide, by decide, by decide⟩, by decide, by decide, by decide, by decide,
        by decide, by decide, by decide⟩⟩
/-! ## File system: the numbers of `fs_stat` -/

theorem hfs_write_loop_done (L : HfsLayout) (n offset size : Nat) (buf : Nat → Nat)
    (fuel : Nat) (h : HfsData) (ino : Inode) (bw : Nat) (hbw : ¬ bw < size) :
    hfs_write_loop L n offset size buf fuel h ino bw
      = ((write_inode L h n
            (if (offset + bw) % U32 > ino.i_size then
              { ino with i_size := (offset + bw) % U32 } else ino)).1, toInt32 bw) := by
  cases fuel with
  | zero => rfl
  | succ k =>
    rw [hfs_write_loop, if_neg hbw]

/-- A write of fewer bytes than a block at offset 0 of an empty file: the
first free block becomes the first block of the file and `hfs_write` returns
the number of bytes. -/
theorem rep_write_small {L : HfsLayout} {sb0 : Superblock} {nblk : Nat} {h : HfsData} {v : View}
    (hL : L.Ok) (hN : 1 ≤ L.INODE_DIRECT_POINTERS) (R : Rep L sb0 nblk h v) (node : Vnode)
    (size : Nat) (buf : Nat → Nat) (nb : Nat) (hn : node.inode_num < sb0.s_inodes_count)
    (hino : v.inode node.inode_num = new_inode L 0) (hs0 : 0 < size)
    (hs : size < L.BLOCK_SIZE) (hn1 : sb0.s_data_blocks_start ≤ nb)
    (hnb : nb < sb0.s_blocks_count)
    (hset : ∀ c, sb0.s_data_blocks_start ≤ c → c < nb → get_bit v.bbm c = 1)
    (hclr : get_bit v.bbm nb = 0) :
    ∃ h2, hfs_write L h (some node) 0 size buf = (h2, (size : Int)) ∧
      Rep L sb0 nblk h2 (View.mk (set_bit v.bbm nb) v.ibm
        (Function.update v.inode node.inode_num (one_block_inode L 0 nb size))
        (Function.update v.data nb (copy_bytes zero_block 0 buf 0 size))) := by
  obtain ⟨b1, b2, b3, b4, b5, b6, b7⟩ := rep_bits_lt hL R
  have hbs := eight_bs_lt L hL
  obtain ⟨a1, a2⟩ := rep_alloc_first_block hL hN R (new_inode L 0) nb hn1 hnb hset hclr
  have hvA : (one_block_inode L 0 nb 0).Valid L :=
    one_block_valid L 0 nb 0 hN (by decide) (by omega) (by decide)
  obtain ⟨w1, w2⟩ := rep_write_inode hL a2 node.inode_num (one_block_inode L 0 nb 0) hn hvA
  obtain ⟨s1, s2⟩ := rep_set_block hL w2 nb (copy_bytes zero_block 0 buf 0 size) hn1 hnb
  have hvD : (one_block_inode L 0 nb size).Valid L :=
    one_block_valid L 0 nb size hN (by decide) (by omega) (by omega)
  obtain ⟨f1, f2⟩ := rep_write_inode hL s2 node.inode_num (one_block_inode L 0 nb size) hn hvD
  refine ⟨((((h.markBlock nb).setBlock nb zero_block).setInode L node.inode_num
      (one_block_inode L 0 nb 0)).setBlock nb (copy_bytes zero_block 0 buf 0 size)).setInode L
      node.inode_num (one_block_inode L 0 nb size), ?_, ?_⟩
  rotate_left
  · have f3 : Rep L sb0 nblk _ (View.mk (set_bit v.bbm nb) v.ibm
        (Function.update (Function.update v.inode node.inode_num (one_block_inode L 0 nb 0))
          node.inode_num (one_block_inode L 0 nb size))
        (Function.update (Function.update v.data nb zero_block) nb
          (copy_bytes zero_block 0 buf 0 size))) := f2
    rw [Function.update_idem, Function.update_idem] at f3
    exact f3
  · have hk : 0 / L.BLOCK_SIZE < L.INODE_DIRECT_POINTERS := by rw [Nat.zero_div]; omega
    have hblk : get_block_for_offset L h (new_inode L 0) 0 = 0 := by
      rw [get_block_direct L h _ 0 hk, Nat.zero_div, new_inode_getD]
      rfl
    have e1 : ¬ ((nb : Nat) : Int) < 0 := natCast_not_neg nb
    have hrd : blkread
        ((((h.markBlock nb).setBlock nb zero_block).setInode L node.inode_num
          (one_block_inode L 0 nb 0))).device nb = some zero_block := by
      rw [rep_blkread hL w2 nb hn1 hnb]
      exact congrArg some (Function.update_same nb zero_block v.data)
    obtain ⟨k, hk1⟩ : ∃ k, size = k + 1 := ⟨size - 1, by omega⟩
    have h00 : (0 + 0) % U32 = 0 := rfl
    have h0m : 0 % L.BLOCK_SIZE = 0 := Nat.zero_mod _
    have hgt : L.BLOCK_SIZE > size := hs
    have hne : size ≠ L.BLOCK_SIZE := by omega
    have hdone : ¬ 0 + size < size := by omega
    have hsz : (0 + (0 + size)) % U32 = size := by
      rw [Nat.zero_add, Nat.zero_add]
      exact Nat.mod_eq_of_lt (by unfold U32; omega)
    have hpos : (one_block_inode L 0 nb 0).i_size < size := hs0
    have hA : ({ new_inode L 0 with
        i_direct_pointers := (new_inode L 0).i_direct_pointers.set 0 nb } : Inode)
        = one_block_inode L 0 nb 0 := rfl
    unfold hfs_write
    simp only [rep_sync hL R, rep_read_inode R node.inode_num hn, hino]
    rw [hk1, hfs_write_loop, ← hk1]
    simp only [if_pos hs0, h00, h0m, hblk, if_true, a1, true_and, if_neg e1, hA, w1,
      Nat.sub_zero, if_pos hgt, toU32_natCast nb (show nb < 4294967296 by omega), hrd, ne_eq, hne,
      not_false_eq_true, or_true, s1]
    rw [hfs_write_loop_done L _ 0 size buf k _ _ _ hdone, hsz, if_pos hpos]
    have f4 : write_inode L
        ((((h.markBlock nb).setBlock nb zero_block).setInode L node.inode_num
            (one_block_inode L 0 nb 0)).setBlock nb (copy_bytes zero_block 0 buf 0 size))
        node.inode_num (one_block_inode L 0 nb size) = _ := f1
    have e5 : toInt32 (0 + size) = (size : Int) := by
      rw [Nat.zero_add]
      exact toInt32_of_lt size (by omega)
    rw [e5]
    exact congrArg (fun x => (x, (size : Int))) (congrArg Prod.fst f4)

/-- `hfs_open` of a path that the walk resolves returns a vnode that holds the
inode number. -/
theorem rep_open {L : HfsLayout} {sb0 : Superblock} {nblk : Nat} {h : HfsData} {v : View}
    (hL : L.Ok) (hN : 1 ≤ L.INODE_DIRECT_POINTERS) (R : Rep L sb0 nblk h v) (path : List Nat)
    (flags r : Nat) (hne : path ≠ []) (hw : VWalk L sb0 v (path_tokens path) 0 r)
    (hr : r < sb0.s_inodes_count) :
    ∃ node, hfs_open L h path flags = some node ∧ node.inode_num = r := by
  obtain ⟨b1, b2, b3, b4, b5, b6, b7⟩ := rep_bits_lt hL R
  have e1 : ¬ ((r : Nat) : Int) < 0 := natCast_not_neg r
  unfold hfs_open
  simp only [vwalk_resolve_path hL hN R path r hne hw, if_neg e1,
    toU32_natCast r (show r < 4294967296 by omega), rep_read_inode R r hr]
  exact ⟨_, rfl, rfl⟩

/-- The count of `fs_stat` over a bitmap whose set bits are the bits below
`m`. -/
theorem fs_stat_count_below (bm : Nat → Nat) (n m : Nat)
    (hb : ∀ j, get_bit bm j = if j < m then 1 else 0) :
    ∀ (fuel i acc : Nat), n - i ≤ fuel → acc + (n - i) < 4294967296 →
      fs_stat_count bm n fuel i acc = acc + (n - max i m) := by
  intro fuel
  induction fuel with
  | zero =>
    intro i acc hf _
    have e : n - max i m = 0 := by omega
    rw [e]
    rfl
  | succ k ih =>
    intro i acc hf hacc
    rw [fs_stat_count]
    by_cases hin : i < n
    · rw [if_pos hin, hb i]
      by_cases him : i < m
      · rw [if_pos him, if_neg (by decide), ih (i + 1) acc (by omega) (by omega)]
        have e : max (i + 1) m = max i m := by omega
        rw [e]
      · have e1 : (acc + 1) % U32 = acc + 1 := Nat.mod_eq_of_lt (by unfold U32; omega)
        rw [if_neg him, if_pos rfl, e1, ih (i + 1) (acc + 1) (by omega) (by omega)]
        have e : max (i + 1) m = i + 1 := by omega
        have e2 : max i m = i := by omega
        rw [e, e2]
        omega
    · rw [if_neg hin]
      have e : n - max i m = 0 := by omega
      rw [e]
      rfl

/-- The numbers of `fs_stat` when the set bits of the block bitmap are the
bits below `mb` and the set bits of the inode bitmap are the bits below
`mi`. -/
theorem fs_stat_below (h : HfsData) (mb mi : Nat)
    (hb : ∀ j, get_bit h.block_bitmap j = if j < mb then 1 else 0)
    (hi : ∀ j, get_bit h.inode_bitmap j = if j < mi then 1 else 0)
    (hmb : h.sb.s_data_blocks_start ≤ mb) (hmi : 1 ≤ mi)
    (hbc : h.sb.s_blocks_count < 4294967296) (hic : h.sb.s_inodes_count < 4294967296) :
    fs_stat h = (h.sb.s_blocks_count - mb, h.sb.s_inodes_count - mi) := by
  unfold fs_stat
  rw [fs_stat_count_below h.block_bitmap _ mb hb _ _ 0 (Nat.le_refl _) (by omega),
    fs_stat_count_below h.inode_bitmap _ mi hi _ _ 0 (Nat.le_refl _) (by omega)]
  have e1 : max h.sb.s_data_blocks_start mb = mb := by omega
  have e2 : max 1 mi = mi := by omega
  rw [e1, e2, Nat.zero_add, Nat.zero_add]

/-- The numbers of `fs_stat` right after the format and after
`hfs_mkdir("/a")`, `hfs_create("/a/f")` and the write of `hello`: the write
returns 5, two data blocks and two inodes are taken. -/
theorem stat_scenario_spec (L : HfsLayout) (magic : Nat) (dev : BlockDevice)
    (hf : FormatOk L magic dev 2) (hbs : 5 < L.BLOCK_SIZE) :
    stat_scenario L magic dev
      = some
        ((dev.num_blocks - ((format_sb L magic dev.num_blocks).s_data_blocks_start + 1),
            (format_sb L magic dev.num_blocks).s_inodes_count - 1),
          (dev.num_blocks - ((format_sb L magic dev.num_blocks).s_data_blocks_start + 3),
            (format_sb L magic dev.num_blocks).s_inodes_count - 3), 5) := by
  obtain ⟨devF, F, v0, hfmt, hmnt, R0, fv⟩ := format_mount_rep L magic dev 2 hf
  obtain ⟨-, f2, f3, f4, -, -, -, -, -, -, -⟩ := format_sb_fields L magic dev 2 hf
  have hroom := hf.room
  have hnb := hf.blocks_le_u16
  generalize format_sb L magic dev.num_blocks = sb0 at R0 fv f2 f3 f4 hroom
  have hL := hf.layout
  have hN := hf.direct
  have hname := hf.name
  have hc97 : CStr [97] := cstr_single 97 (by decide) (by decide)
  have hc102 : CStr [102] := cstr_single 102 (by decide) (by decide)
  have hlen1 : ∀ c : Nat, [c].length < L.DIRECTORY_NAME_SIZE := fun c => hname
  obtain ⟨h1, v1, e1, R1, b1, i1, n10, n11, d1⟩ :=
    fresh_mkdir_a hL hN hname R0 fv (by omega) (by omega)
  -- create /a/f
  have w1 : VWalk L sb0 v1 (path_tokens PATH_A) 0 1 := by
    rw [path_tokens_a]
    exact vwalk_step L sb0 v1 [97] [] 0 1 sb0.s_data_blocks_start 1 (by omega) n10
      (Nat.le_refl _) (by omega) d1 (by decide) (by decide) hc97 (hlen1 97)
      (vwalk_nil L sb0 v1 1 (by decide))
  have hs1 : ∀ c, 1 ≤ c → c < 2 → get_bit v1.ibm c = 1 := by
    intro c hc1 hc2
    have e : c = 1 := by omega
    rw [i1, get_bit_set_bit, if_pos e]
  have hz1 : get_bit v1.ibm 2 = 0 := by
    rw [i1, get_bit_set_bit, if_neg (by decide), fv.ibits, if_neg (by decide)]
  have hbs1 : ∀ c, sb0.s_data_blocks_start ≤ c → c < sb0.s_data_blocks_start + 1 →
      get_bit v1.bbm c = 1 := by
    intro c hc1 hc2
    rw [b1, fv.bbits, if_pos (by omega)]
  have hbz1 : get_bit v1.bbm (sb0.s_data_blocks_start + 1) = 0 := by
    rw [b1, fv.bbits, if_neg (by omega)]
  obtain ⟨h2, v2, e2, R2, b2, i2, n2, d2⟩ :=
    make_in_empty_dir hL hN R1 (new_inode L 0) (new_inode_valid L 0 (by decide)) PATH_AF PATH_A
      [102] (split_path_af L hname) (by decide) 1 2 (sb0.s_data_blocks_start + 1) (by decide)
      w1 (by omega) n11 (by decide) (by omega) hs1 hz1 (by omega) (by omega) hbs1 hbz1
  have n20 : v2.inode 0 = one_block_inode L 1 sb0.s_data_blocks_start L.DIRENT_SIZE := by
    rw [n2, Function.update_noteq (by decide : (0 : Nat) ≠ 1),
      Function.update_noteq (by decide : (0 : Nat) ≠ 2), n10]
  have n21 : v2.inode 1 = one_block_inode L 1 (sb0.s_data_blocks_start + 1) L.DIRENT_SIZE := by
    rw [n2, Function.update_same]
  have n22 : v2.inode 2 = new_inode L 0 := by
    rw [n2, Function.update_noteq (by decide : (2 : Nat) ≠ 1), Function.update_same]
  have d20 : v2.data sb0.s_data_blocks_start = dirent_set L zero_block 0 [97] 1 := by
    have e : sb0.s_data_blocks_start ≠ sb0.s_data_blocks_start + 1 := by omega
    rw [d2, Function.update_noteq e, d1]
  have d21 : v2.data (sb0.s_data_blocks_start + 1) = dirent_set L zero_block 0 [102] 2 := by
    rw [d2, Function.update_same]
  -- open /a/f
  have w2 : VWalk L sb0 v2 (path_tokens PATH_AF) 0 2 := by
    rw [path_tokens_af]
    exact vwalk_step L sb0 v2 [97] [[102]] 0 2 sb0.s_data_blocks_start 1 (by omega) n20
      (Nat.le_refl _) (by omega) d20 (by decide) (by decide) hc97 (hlen1 97)
      (vwalk_step L sb0 v2 [102] [] 1 2 (sb0.s_data_blocks_start + 1) 2 (by omega) n21
        (by omega) (by omega) d21 (by decide) (by decide) hc102 (hlen1 102)
        (vwalk_nil L sb0 v2 2 (by decide)))
  obtain ⟨node, hopen, hnode⟩ := rep_open hL hN R2 PATH_AF 0 2 (by decide) w2 (by omega)
  -- write
  have hbs2 : ∀ c, sb0.s_data_blocks_start ≤ c → c < sb0.s_data_blocks_start + 2 →
      get_bit v2.bbm c = 1 := by
    intro c hc1 hc2
    rw [b2, get_bit_set_bit]
    by_cases e : c = sb0.s_data_blocks_start + 1
    · rw [if_pos e]
    · rw [if_neg e]
      exact hbs1 c hc1 (by omega)
  have hbz2 : get_bit v2.bbm (sb0.s_data_blocks_start + 2) = 0 := by
    have e : ¬ sb0.s_data_blocks_start + 2 = sb0.s_data_blocks_start + 1 := by omega
    have e2 : ¬ sb0.s_data_blocks_start + 2 ≤ sb0.s_data_blocks_start := by omega
    rw [b2, get_bit_set_bit, if_neg e, b1, fv.bbits, if_neg e2]
  obtain ⟨h3, hwr, R3⟩ :=
    rep_write_small hL hN R2 node 5 HELLO (sb0.s_data_blocks_start + 2)
      (by rw [hnode]; omega) (by rw [hnode]; exact n22) (by decide) hbs (by omega) (by omega)
      hbs2 hbz2
  -- the numbers
  have sF : fs_stat F = (sb0.s_blocks_count - (sb0.s_data_blocks_start + 1),
      sb0.s_inodes_count - 1) := by
    have q := fs_stat_below F (sb0.s_data_blocks_start + 1) 1
      (by
        intro j
        rw [R0.bbm_mem, fv.bbits]
        by_cases c : j ≤ sb0.s_data_blocks_start
        · rw [if_pos c, if_pos (by omega)]
        · rw [if_neg c, if_neg (by omega)])
      (by
        intro j
        rw [R0.ibm_mem, fv.ibits]
        by_cases c : j = 0
        · rw [if_pos c, if_pos (by omega)]
        · rw [if_neg c, if_neg (by omega)])
      (by rw [R0.sb_eq]; omega) (Nat.le_refl _) (by rw [R0.sb_eq]; omega)
      (by rw [R0.sb_eq]; omega)
    rw [R0.sb_eq] at q
    exact q
  have s3 : fs_stat h3 = (sb0.s_blocks_count - (sb0.s_data_blocks_start + 3),
      sb0.s_inodes_count - 3) := by
    have q := fs_stat_below h3 (sb0.s_data_blocks_start + 3) 3
      (by
        intro j
        rw [R3.bbm_mem]
        show get_bit (set_bit v2.bbm (sb0.s_data_blocks_start + 2)) j = _
        rw [get_bit_set_bit, b2, get_bit_set_bit, b1, fv.bbits]
        by_cases c2 : j = sb0.s_data_blocks_start + 2
        · rw [if_pos c2, if_pos (by omega)]
        · by_cases c1 : j = sb0.s_data_blocks_start + 1
          · rw [if_neg c2, if_pos c1, if_pos (by omega)]
          · rw [if_neg c2, if_neg c1]
            by_cases c : j ≤ sb0.s_data_blocks_start
            · rw [if_pos c, if_pos (by omega)]
            · rw [if_neg c, if_neg (by omega)])
      (by
        intro j
        rw [R3.ibm_mem]
        show get_bit v2.ibm j = _
        rw [i2, get_bit_set_bit, i1, get_bit_set_bit, fv.ibits]
        by_cases c2 : j = 2
        · rw [if_pos c2, if_pos (by omega)]
        · by_cases c1 : j = 1
          · rw [if_neg c2, if_pos c1, if_pos (by omega)]
          · rw [if_neg c2, if_neg c1]
            by_cases c : j = 0
            · rw [if_pos c, if_pos (by omega)]
            · rw [if_neg c, if_neg (by omega)])
      (by rw [R3.sb_eq]; omega) (by decide) (by rw [R3.sb_eq]; omega)
      (by rw [R3.sb_eq]; omega)
    rw [R3.sb_eq] at q
    exact q
  unfold stat_scenario
  rw [hfmt]
  have e2c : hfs_create L h1 PATH_AF = some (h2, 0) := e2
  simp only [ne_eq, not_true_eq_false, if_false, hmnt, e1, e2c, hopen, hwr, sF, s3, f2]
  rfl
/-! ## File system: the numbers of `fs_stat` after a small write -/

/-- C19, amended: after `hfs_format` of a device of 1024 blocks, `hfs_mount`,
`hfs_mkdir("/a")`, `hfs_create("/a/f")` and the `hfs_write` of the 5 bytes
`hello` at offset 0 of `/a/f`, the write has returned 5 and `fs_stat` counts
exactly 2 fewer free data blocks than right after the format (the first block
of `/a` and the first block of `/a/f`; the first block of the root directory
is taken by the format itself) and exactly 2 fewer free inodes. -/
theorem fs_stat_after_small_write (L : HfsLayout) (magic : Nat) (dev : BlockDevice)
    (hf : FormatOk L magic dev 2) (h1024 : dev.num_blocks = 1024) :
    ∃ a b, stat_scenario L magic dev = some (a, b, 5) ∧ b.1 + 2 = a.1 ∧ b.2 + 2 = a.2 := by
  have hbits := hf.blocks_le_bits
  have hroom := hf.room
  obtain ⟨-, -, f3, -, -, -, -, -, -, -, -⟩ := format_sb_fields L magic dev 2 hf
  refine ⟨_, _, stat_scenario_spec L magic dev hf (by omega), ?_, ?_⟩
  · show dev.num_blocks - ((format_sb L magic dev.num_blocks).s_data_blocks_start + 3) + 2
      = dev.num_blocks - ((format_sb L magic dev.num_blocks).s_data_blocks_start + 1)
    omega
  · show (format_sb L magic dev.num_blocks).s_inodes_count - 3 + 2
      = (format_sb L magic dev.num_blocks).s_inodes_count - 1
    omega

theorem fs_stat_after_small_write_witness :
    FormatOk hfsLayout128 0 devBlank1024 2 ∧ devBlank1024.num_blocks = 1024 ∧
      ∃ a b, stat_scenario hfsLayout128 0 devBlank1024 = some (a, b, 5) ∧
        b.1 + 2 = a.1 ∧ b.2 + 2 = a.2 :=
  ⟨⟨⟨by decide, by decide, by decide, by decide⟩, by decide, by decide, by decide, by decide,
      by decide, by decide, by decide⟩, rfl,
    fs_stat_after_small_write hfsLayout128 0 devBlank1024
      ⟨⟨by decide, by decide, by decide, by decide⟩, by decide, by decide, by decide, by decide,
        by decide, by decide, by decide⟩ rfl⟩

/-- On a device of 1024 blocks with blocks of 128 bytes `fs_stat` counts 988
free data blocks and 255 free inodes right after the format, and 986 free
data blocks and 253 free inodes after `hfs_mkdir("/a")`, `hfs_create("/a/f")`
and the write of `hello`: 2 fewer data blocks, not 4. -/
theorem fs_stat_after_small_write_counterexample :
    stat_scenario hfsLayout128 0 devBlank1024 = some ((988, 255), (986, 253), 5) :=
  stat_scenario_spec hfsLayout128 0 devBlank1024
    ⟨⟨by decide, by decide, by decide, by decide⟩, by decide, by decide, by decide, by decide,
      by decide, by decide, by decide⟩ (by decide)

set_option maxRecDepth 100000 in
/-- The same sequence on a device of 64 blocks with blocks of 32 bytes, by
evaluation: 28 and 26 free data blocks, 63 and 61 free inodes. -/
theorem stat_scenario_small_eval :
    stat_scenario hfsSmallLayout 0 devBlank64 = some ((28, 63), (26, 61), 5) := by
  decide
/-! ## File system: `resolve_path` and the components of a path -/

theorem modifyHead_id_append (l : List (List Nat)) :
    l.modifyHead (fun x => ([] : List Nat) ++ x) = l := by
  cases l with
  | nil => rfl
  | cons a as => simp [List.modifyHead]

theorem strtok_tokens_splitOn :
    ∀ (s acc : List Nat),
      strtok_tokens s acc
        = ((s.splitOn SLASH).modifyHead (fun x => acc.reverse ++ x)).filter
            (fun t => !t.isEmpty) := by
  intro s
  induction s with
  | nil =>
    intro acc
    cases acc with
    | nil => rfl
    | cons a as =>
      simp [strtok_tokens, List.splitOn, List.splitOnP, List.splitOnP.go, List.modifyHead]
  | cons c cs ih =>
    intro acc
    rw [strtok_tokens, List.splitOn, List.splitOnP_cons]
    by_cases hc : c = SLASH
    · have e : (c == SLASH) = true := by simp [hc]
      rw [if_pos hc, e, if_pos rfl, ih []]
      have e2 : (List.splitOn SLASH cs).modifyHead (fun x => ([] : List Nat).reverse ++ x)
          = List.splitOn SLASH cs := modifyHead_id_append _
      rw [e2]
      cases acc with
      | nil => simp [List.modifyHead, List.splitOn]
      | cons a as => simp [List.modifyHead, List.splitOn]
    · have e : (c == SLASH) = false := by simp [hc]
      rw [if_neg hc, e, ih (c :: acc)]
      simp only [Bool.false_eq_true, if_false]
      congr 1
      unfold List.splitOn
      cases List.splitOnP (fun x => x == SLASH) cs with
      | nil => rfl
      | cons a as => simp [List.modifyHead]

theorem path_tokens_components (path : List Nat) (hlen : path.length < 256) :
    path_tokens path = path_components path := by
  have htake : path.take 255 = path := List.take_of_length_le (by omega)
  unfold path_tokens path_components
  rw [htake, strtok_tokens_splitOn]
  cases path with
  | nil => rfl
  | cons a as =>
    by_cases ha : a = SLASH
    · have e : (a == SLASH) = true := by simp [ha]
      simp only [List.head?_cons, ha, if_true, List.drop_succ_cons, List.drop_zero,
        List.reverse_nil]
      rw [modifyHead_id_append]
      simp [List.splitOn, List.splitOnP_cons]
    · have e : ¬ some a = some SLASH := by simpa using ha
      simp only [List.head?_cons, e, if_false, List.reverse_nil]
      rw [modifyHead_id_append]

theorem toU32_eq_toNat (z : Int) (h0 : 0 ≤ z) (h1 : z < 2147483648) : toU32 z = z.toNat := by
  unfold toU32
  omega

theorem resolve_loop_lookup (L : HfsLayout) (h : HfsData) :
    ∀ (toks : List (List Nat)) (c : Nat), c < 2147483648 →
      resolve_path_loop L h toks c = lookup_components L h toks c := by
  intro toks
  induction toks with
  | nil =>
    intro c hc
    exact toInt32_of_lt c hc
  | cons t ts ih =>
    intro c hc
    rw [resolve_path_loop, lookup_components]
    cases hr : read_inode L h c with
    | none => rfl
    | some ino =>
      dsimp only
      by_cases hd : ino.i_is_directory = 0
      · rw [if_pos hd, if_pos hd]
      · rw [if_neg hd, if_neg hd]
        by_cases hf : find_dir_entry L h ino t < 0
        · rw [if_pos hf, if_pos hf]
        · have h0 : 0 ≤ find_dir_entry L h ino t := by omega
          have h1 := find_dir_entry_lt L h ino t
          rw [if_neg hf, if_neg hf, toU32_eq_toNat _ h0 h1]
          exact ih _ (by omega)

theorem strtok_double_slash :
    ∀ (a b acc : List Nat),
      strtok_tokens (a ++ SLASH :: SLASH :: b) acc = strtok_tokens (a ++ SLASH :: b) acc := by
  intro a
  induction a with
  | nil =>
    intro b acc
    simp only [List.nil_append, strtok_tokens, if_true]
  | cons c cs ih =>
    intro b acc
    rw [List.cons_append, List.cons_append, strtok_tokens, strtok_tokens]
    by_cases hc : c = SLASH
    · rw [if_pos hc, if_pos hc, ih]
    · rw [if_neg hc, if_neg hc, ih]

theorem strtok_trailing_slash :
    ∀ (a acc : List Nat), strtok_tokens (a ++ [SLASH]) acc = strtok_tokens a acc := by
  intro a
  induction a with
  | nil =>
    intro acc
    simp only [List.nil_append, strtok_tokens, if_true]
  | cons c cs ih =>
    intro acc
    rw [List.cons_append, strtok_tokens, strtok_tokens]
    by_cases hc : c = SLASH
    · rw [if_pos hc, if_pos hc, ih]
    · rw [if_neg hc, if_neg hc, ih]

theorem path_components_eq_strtok (path : List Nat) :
    path_components path = strtok_tokens path [] := by
  rw [strtok_tokens_splitOn, List.reverse_nil, modifyHead_id_append]
  rfl

/-- C24: `resolve_path` returns 0 for `/`; for every non-empty path shorter
than 256 characters it returns what the lookup of the non-empty
`/`-separated components of the path from inode 0 gives, which is -1 as soon
as a component is missing or the inode being searched is not a directory; so
a path with the same components (one more trailing slash, or a slash
repeated) resolves to the same result. -/
theorem resolve_path_by_components (L : HfsLayout) (h : HfsData) (path : List Nat)
    (hne : path ≠ []) (hlen : path.length < 256) :
    resolve_path L h [SLASH] = 0 ∧
      resolve_path L h path = lookup_components L h (path_components path) 0 ∧
      (∀ q, q ≠ [] → q.length < 256 → path_components q = path_components path →
        resolve_path L h q = resolve_path L h path) ∧
      path_components (path ++ [SLASH]) = path_components path ∧
      (∀ a b, path = a ++ SLASH :: b →
        path_components (a ++ SLASH :: SLASH :: b) = path_components path) := by
  have key : ∀ q : List Nat, q ≠ [] → q.length < 256 →
      resolve_path L h q = lookup_components L h (path_components q) 0 := by
    intro q hq hl
    rw [resolve_path_eq_tokens L h q hq, path_tokens_components q hl]
    exact resolve_loop_lookup L h _ 0 (by decide)
  refine ⟨rfl, key path hne hlen, ?_, ?_, ?_⟩
  · intro q hq hl he
    rw [key q hq hl, key path hne hlen, he]
  · rw [path_components_eq_strtok, path_components_eq_strtok, strtok_trailing_slash]
  · intro a b hab
    rw [hab, path_components_eq_strtok, path_components_eq_strtok, strtok_double_slash]

set_option maxRecDepth 100000 in
theorem resolve_path_by_components_witness :
    [SLASH, 97, SLASH, SLASH, 98, SLASH] ≠ [] ∧
      [SLASH, 97, SLASH, SLASH, 98, SLASH].length < 256 ∧
      path_components [SLASH, 97, SLASH, SLASH, 98, SLASH] = [[97], [98]] ∧
      resolve_path hfsSmallLayout hfsSmall [SLASH] = 0 ∧
      resolve_path hfsSmallLayout hfsSmall [SLASH, 97, SLASH, SLASH, 98, SLASH]
        = lookup_components hfsSmallLayout hfsSmall
            (path_components [SLASH, 97, SLASH, SLASH, 98, SLASH]) 0 :=
  ⟨by decide, by decide, by decide,
    (resolve_path_by_components hfsSmallLayout hfsSmall [SLASH, 97, SLASH, SLASH, 98, SLASH]
      (by decide) (by decide)).1,
    (resolve_path_by_components hfsSmallLayout hfsSmall [SLASH, 97, SLASH, SLASH, 98, SLASH]
      (by decide) (by decide)).2.1⟩
/-! ## File system: `hfs_create` and `hfs_mkdir` of a name that exists -/

theorem sync_device (h : HfsData) : (sync_bitmaps_from_disk h).device = h.device := by
  unfold sync_bitmaps_from_disk
  cases blkread h.device h.sb.s_block_bitmap <;> dsimp only <;>
    cases blkread h.device h.sb.s_inode_bitmap <;> rfl

theorem sync_sb (h : HfsData) : (sync_bitmaps_from_disk h).sb = h.sb := by
  unfold sync_bitmaps_from_disk
  cases blkread h.device h.sb.s_block_bitmap <;> dsimp only <;>
    cases blkread h.device h.sb.s_inode_bitmap <;> rfl

theorem sync_of_synced (h : HfsData) (hs : h.Synced) : sync_bitmaps_from_disk h = h := by
  obtain ⟨h1, h2⟩ := hs
  unfold HfsData.disk_block_bitmap at h1
  unfold HfsData.disk_inode_bitmap at h2
  unfold sync_bitmaps_from_disk blkread
  by_cases c1 : h.sb.s_block_bitmap < h.device.num_blocks
  · by_cases c2 : h.sb.s_inode_bitmap < h.device.num_blocks
    · simp only [if_pos c1, if_pos c2, ← h1, ← h2]
    · simp only [if_pos c1, if_neg c2, ← h1]
  · by_cases c2 : h.sb.s_inode_bitmap < h.device.num_blocks
    · simp only [if_neg c1, if_pos c2, ← h2]
    · simp only [if_neg c1, if_neg c2]

theorem read_inode_same_disk (L : HfsLayout) (h h2 : HfsData) (e1 : h2.device = h.device)
    (e2 : h2.sb = h.sb) (i : Nat) : read_inode L h2 i = read_inode L h i := by
  unfold read_inode
  rw [e1, e2]

theorem get_block_same_disk (L : HfsLayout) (h h2 : HfsData) (e1 : h2.device = h.device)
    (ino : Inode) (off : Nat) :
    get_block_for_offset L h2 ino off = get_block_for_offset L h ino off := by
  unfold get_block_for_offset
  rw [e1]

theorem find_dir_entry_loop_same_disk (L : HfsLayout) (h h2 : HfsData)
    (e1 : h2.device = h.device) (ino : Inode) (t : List Nat) :
    ∀ (fuel i : Nat),
      find_dir_entry_loop L h2 ino t fuel i = find_dir_entry_loop L h ino t fuel i := by
  intro fuel
  induction fuel with
  | zero => intro i; rfl
  | succ k ih =>
    intro i
    rw [find_dir_entry_loop, find_dir_entry_loop, get_block_same_disk L h h2 e1, e1, ih]

theorem find_dir_entry_same_disk (L : HfsLayout) (h h2 : HfsData) (e1 : h2.device = h.device)
    (ino : Inode) (t : List Nat) : find_dir_entry L h2 ino t = find_dir_entry L h ino t := by
  unfold find_dir_entry
  rw [find_dir_entry_loop_same_disk L h h2 e1]

theorem resolve_loop_same_disk (L : HfsLayout) (h h2 : HfsData) (e1 : h2.device = h.device)
    (e2 : h2.sb = h.sb) :
    ∀ (toks : List (List Nat)) (c : Nat),
      resolve_path_loop L h2 toks c = resolve_path_loop L h toks c := by
  intro toks
  induction toks with
  | nil => intro c; rfl
  | cons t ts ih =>
    intro c
    rw [resolve_path_loop, resolve_path_loop, read_inode_same_disk L h h2 e1 e2]
    cases read_inode L h c with
    | none => rfl
    | some ino =>
      dsimp only
      rw [find_dir_entry_same_disk L h h2 e1, ih]

theorem resolve_path_same_disk (L : HfsLayout) (h h2 : HfsData) (e1 : h2.device = h.device)
    (e2 : h2.sb = h.sb) (path : List Nat) : resolve_path L h2 path = resolve_path L h path := by
  unfold resolve_path
  rw [resolve_loop_same_disk L h h2 e1 e2]

/-- C22: when the final name of the path exists in its parent directory (the
parent path resolves to a directory inode in which `find_dir_entry` finds the
name), `hfs_create` and `hfs_mkdir` return -1 and have no partial effect: the
device, with its bitmaps, inode table and directory blocks, and the
superblock are as before the call, and the state in memory is the state
before the call when its bitmaps were those of the device. -/
theorem hfs_create_mkdir_existing (L : HfsLayout) (h : HfsData)
    (path parent name : List Nat) (pino : Inode)
    (hsplit : split_path L path = some (parent, name))
    (hp : 0 ≤ resolve_path L h parent)
    (hread : read_inode L h (toU32 (resolve_path L h parent)) = some pino)
    (hfind : 0 ≤ find_dir_entry L h pino name) :
    ∃ r, hfs_create L h path = some (r, -1) ∧ hfs_mkdir L h path = some (r, -1) ∧
      r.device = h.device ∧ r.sb = h.sb ∧
      r.block_bitmap = (sync_bitmaps_from_disk h).block_bitmap ∧
      r.inode_bitmap = (sync_bitmaps_from_disk h).inode_bitmap ∧
      (h.Synced → r = h) := by
  have e1 := sync_device h
  have e2 := sync_sb h
  have hp2 : ¬ resolve_path L h parent < 0 := by omega
  have hf2 : find_dir_entry L h pino name ≥ 0 := hfind
  refine ⟨sync_bitmaps_from_disk h, ?_, ?_, e1, e2, rfl, rfl, sync_of_synced h⟩
  · unfold hfs_create
    simp only [hsplit, resolve_path_same_disk L h _ e1 e2, if_neg hp2,
      read_inode_same_disk L h _ e1 e2, hread, find_dir_entry_same_disk L h _ e1, if_pos hf2]
    split_ifs <;> rfl
  · unfold hfs_mkdir
    simp only [hsplit, resolve_path_same_disk L h _ e1 e2, if_neg hp2,
      read_inode_same_disk L h _ e1 e2, hread, find_dir_entry_same_disk L h _ e1, if_pos hf2]
    split_ifs <;> rfl

set_option maxRecDepth 100000 in
theorem hfs_create_mkdir_existing_witness :
    split_path hfsSmallLayout [SLASH, 97] = some ([SLASH], [97]) ∧
      0 ≤ resolve_path hfsSmallLayout hfsSmallWithA [SLASH] ∧
      read_inode hfsSmallLayout hfsSmallWithA
          (toU32 (resolve_path hfsSmallLayout hfsSmallWithA [SLASH]))
        = some (one_block_inode hfsSmallLayout 1 7 8) ∧
      find_dir_entry hfsSmallLayout hfsSmallWithA (one_block_inode hfsSmallLayout 1 7 8) [97]
        = 1 ∧
      ∃ r, hfs_create hfsSmallLayout hfsSmallWithA [SLASH, 97] = some (r, -1) ∧
        hfs_mkdir hfsSmallLayout hfsSmallWithA [SLASH, 97] = some (r, -1) ∧
        r.device = hfsSmallWithA.device ∧ r.sb = hfsSmallWithA.sb ∧
        r.block_bitmap = (sync_bitmaps_from_disk hfsSmallWithA).block_bitmap ∧
        r.inode_bitmap = (sync_bitmaps_from_disk hfsSmallWithA).inode_bitmap ∧
        (hfsSmallWithA.Synced → r = hfsSmallWithA) :=
  ⟨by decide, by decide, by decide, by decide,
    hfs_create_mkdir_existing hfsSmallLayout hfsSmallWithA [SLASH, 97] [SLASH] [97]
      (one_block_inode hfsSmallLayout 1 7 8) (by decide) (by decide) (by decide) (by decide)⟩
/-! ## File system: the device after `hfs_format` -/

theorem blkwrite_some (dev dev2 : BlockDevice) (n : Nat) (buf : Nat → Nat)
    (h : blkwrite dev n buf = some dev2) : n < dev.num_blocks ∧ dev2 = dev.write n buf := by
  unfold blkwrite at h
  by_cases c : n < dev.num_blocks
  · rw [if_pos c] at h
    exact ⟨c, (Option.some.inj h).symm⟩
  · rw [if_neg c] at h
    exact absurd h (by simp)

theorem format_clear_table_nb (start ib : Nat) :
    ∀ (fuel i : Nat) (dev : BlockDevice),
      (format_clear_table start ib fuel i dev).1.num_blocks = dev.num_blocks := by
  intro fuel
  induction fuel with
  | zero =>
    intro i dev
    rw [format_clear_table]
  | succ k ih =>
    intro i dev
    rw [format_clear_table]
    by_cases c : i < ib
    · rw [if_pos c]
      cases hw : blkwrite dev ((start + i) % U32) zero_block with
      | none => rfl
      | some dev1 =>
        dsimp only
        rw [ih (i + 1) dev1, (blkwrite_some _ _ _ _ hw).2]
        rfl
    · rw [if_neg c]

/-- A successful `hfs_format` has written the first data block, so the block
is on the device. -/
theorem hfs_format_ok_lt (L : HfsLayout) (magic : Nat) (dev : BlockDevice)
    (h : (hfs_format L magic dev).2 = 0) :
    (format_sb L magic dev.num_blocks).s_data_blocks_start < dev.num_blocks := by
  unfold hfs_format at h
  dsimp only at h
  split at h
  · exact absurd (show (-1 : Int) = 0 from h) (by decide)
  · rename_i dev1 h1
    split at h
    · exact absurd (show (-1 : Int) = 0 from h) (by decide)
    · rename_i dev2 h2
      split at h
      · exact absurd (show (-1 : Int) = 0 from h) (by decide)
      · rename_i dev3 h3
        split at h
        · exact absurd (show (-1 : Int) = 0 from h) (by decide)
        · rename_i dev4 h4
          split at h
          · exact absurd (show (-1 : Int) = 0 from h) (by decide)
          · rename_i dev5 h5
            split at h
            · exact absurd (show (-1 : Int) = 0 from h) (by decide)
            · rename_i dev6 h6
              have e1 := (blkwrite_some _ _ _ _ h1).2
              have e2 := (blkwrite_some _ _ _ _ h2).2
              have e3 := (blkwrite_some _ _ _ _ h3).2
              have e4 : dev4.num_blocks = dev3.num_blocks := by
                have := format_clear_table_nb
                  (format_sb L magic dev.num_blocks).s_inode_table_block_start
                  (((format_sb L magic dev.num_blocks).s_inodes_count * L.INODE_SIZE
                    + L.BLOCK_SIZE - 1) % U32 / L.BLOCK_SIZE)
                  (((format_sb L magic dev.num_blocks).s_inodes_count * L.INODE_SIZE
                    + L.BLOCK_SIZE - 1) % U32 / L.BLOCK_SIZE) 0 dev3
                rw [h4] at this
                exact this
              have e5 := (blkwrite_some _ _ _ _ h5).2
              have e6 := (blkwrite_some _ _ _ _ h6).1
              rw [e5] at e6
              change _ < dev4.num_blocks at e6
              rw [e4, e3, e2, e1] at e6
              exact e6

theorem format_sb_eq (L : HfsLayout) (hL : L.Ok) (magic n : Nat) (hn : n < 4294967296) :
    format_sb L magic n
      = { s_magic := magic, s_blocks_count := n,
          s_inodes_count := min (max (n / 4) 64) 4096,
          s_block_bitmap := 1, s_inode_bitmap := 2, s_inode_table_block_start := 3,
          s_data_blocks_start
            := 3 + (min (max (n / 4) 64) 4096 * L.INODE_SIZE + L.BLOCK_SIZE - 1)
                / L.BLOCK_SIZE } := by
  have hbl := block_size_lt L hL
  have hfit := hL.inode_fits
  have hn0 : n / 4 % U32 = n / 4 := Nat.mod_eq_of_lt (by unfold U32; omega)
  have hnb : n % U32 = n := Nat.mod_eq_of_lt (by unfold U32; omega)
  have hic : (if n / 4 < 64 then 64 else if n / 4 > 4096 then 4096 else n / 4)
      = min (max (n / 4) 64) 4096 := by
    split_ifs <;> omega
  have hic2 : min (max (n / 4) 64) 4096 ≤ 4096 := by omega
  have hmul : min (max (n / 4) 64) 4096 * L.INODE_SIZE ≤ 4096 * 65536 :=
    Nat.mul_le_mul hic2 (by omega)
  have hmod : (min (max (n / 4) 64) 4096 * L.INODE_SIZE + L.BLOCK_SIZE - 1) % U32
      = min (max (n / 4) 64) 4096 * L.INODE_SIZE + L.BLOCK_SIZE - 1 :=
    Nat.mod_eq_of_lt (by unfold U32; omega)
  have hib : (min (max (n / 4) 64) 4096 * L.INODE_SIZE + L.BLOCK_SIZE - 1) / L.BLOCK_SIZE
      ≤ min (max (n / 4) 64) 4096 * L.INODE_SIZE + L.BLOCK_SIZE - 1 := Nat.div_le_self _ _
  have hd : (3 + (min (max (n / 4) 64) 4096 * L.INODE_SIZE + L.BLOCK_SIZE - 1)
      / L.BLOCK_SIZE) % U32
      = 3 + (min (max (n / 4) 64) 4096 * L.INODE_SIZE + L.BLOCK_SIZE - 1) / L.BLOCK_SIZE :=
    Nat.mod_eq_of_lt (by unfold U32; omega)
  unfold format_sb
  simp only [hn0, hnb, hic, hmod, hd]

/-- C23: after a successful `hfs_format` of a device with `N` blocks the
superblock in block 0 has the magic, `block_count = N`,
`inode_count = min(max(N / 4, 64), 4096)`, the bitmaps at blocks 1 and 2, the
inode table at block 3 and
`data_blocks_start = 3 + ceil(inode_count * sizeof(inode) / BLOCK_SIZE)`;
the block bitmap in block 1 has exactly the bits `0..data_blocks_start` set,
the inode bitmap in block 2 has exactly bit 0 set, and inode 0, in block 3
and as `read_inode` reads it after `hfs_mount`, is the directory of size 0
whose first direct pointer is `data_blocks_start` and whose other pointers
are 0. -/
theorem hfs_format_layout (L : HfsLayout) (magic : Nat) (dev : BlockDevice) (hL : L.Ok)
    (hN : 1 ≤ L.INODE_DIRECT_POINTERS) (hmagic : magic < 4294967296)
    (hnb : dev.num_blocks < 4294967296) (hok : (hfs_format L magic dev).2 = 0) :
    sb_load ((hfs_format L magic dev).1.blocks 0)
        = { s_magic := magic, s_blocks_count := dev.num_blocks,
            s_inodes_count := min (max (dev.num_blocks / 4) 64) 4096,
            s_block_bitmap := 1, s_inode_bitmap := 2, s_inode_table_block_start := 3,
            s_data_blocks_start
              := 3 + (min (max (dev.num_blocks / 4) 64) 4096 * L.INODE_SIZE
                  + L.BLOCK_SIZE - 1) / L.BLOCK_SIZE } ∧
      (∀ j, get_bit ((hfs_format L magic dev).1.blocks 1) j
        = if j ≤ 3 + (min (max (dev.num_blocks / 4) 64) 4096 * L.INODE_SIZE
            + L.BLOCK_SIZE - 1) / L.BLOCK_SIZE then 1 else 0) ∧
      (∀ j, get_bit ((hfs_format L magic dev).1.blocks 2) j = if j = 0 then 1 else 0) ∧
      inode_load L ((hfs_format L magic dev).1.blocks 3) 0
        = { i_is_directory := 1, i_size := 0,
            i_direct_pointers := (List.replicate L.INODE_DIRECT_POINTERS 0).set 0
              (3 + (min (max (dev.num_blocks / 4) 64) 4096 * L.INODE_SIZE
                + L.BLOCK_SIZE - 1) / L.BLOCK_SIZE),
            i_single_indirect_pointer := 0 } ∧
      ∃ F, hfs_mount magic (hfs_format L magic dev).1 = some F ∧
        F.sb = sb_load ((hfs_format L magic dev).1.blocks 0) ∧
        read_inode L F 0 = some (inode_load L ((hfs_format L magic dev).1.blocks 3) 0) := by
  have hlt := hfs_format_ok_lt L magic dev hok
  have hsbe := format_sb_eq L hL magic dev.num_blocks hnb
  obtain ⟨ic, hic⟩ : ∃ ic, min (max (dev.num_blocks / 4) 64) 4096 = ic := ⟨_, rfl⟩
  have hic1 : 64 ≤ ic := by omega
  have hic2 : ic ≤ 4096 := by omega
  rw [hic] at hsbe ⊢
  have hbl := block_size_lt L hL
  have hbs := block_size_pos L hL
  have hfit := hL.inode_fits
  have his := inode_size_ge L hN
  have hmul : ic * L.INODE_SIZE ≤ 4096 * 65536 := Nat.mul_le_mul hic2 (by omega)
  have hmod : (ic * L.INODE_SIZE + L.BLOCK_SIZE - 1) % U32
      = ic * L.INODE_SIZE + L.BLOCK_SIZE - 1 := Nat.mod_eq_of_lt (by unfold U32; omega)
  obtain ⟨ib, hib⟩ : ∃ ib, (ic * L.INODE_SIZE + L.BLOCK_SIZE - 1) / L.BLOCK_SIZE = ib :=
    ⟨_, rfl⟩
  have hib1 : 1 ≤ ib := by
    rw [← hib]
    exact (Nat.le_div_iff_mul_le hbs).2 (by
      have : 64 * 16 ≤ ic * L.INODE_SIZE := Nat.mul_le_mul hic1 his
      omega)
  rw [hib] at hsbe ⊢
  rw [hsbe] at hlt
  change 3 + ib < dev.num_blocks at hlt
  obtain ⟨bm0, hbm0⟩ : ∃ bm0, format_set_bits (3 + ib) (3 + ib) 0 zero_block = bm0 := ⟨_, rfl⟩
  obtain ⟨root, hroot⟩ : ∃ root, one_block_inode L 1 (3 + ib) 0 = root := ⟨_, rfl⟩
  have hnb3 : (((dev.write 0 (sb_store zero_block (format_sb L magic dev.num_blocks))).write 1
      bm0).write 2 (set_bit zero_block 0)).num_blocks = dev.num_blocks := rfl
  obtain ⟨dev4, g1, g2, g3⟩ := format_clear_table_spec 3 ib (by omega) ib 0
    (((dev.write 0 (sb_store zero_block (format_sb L magic dev.num_blocks))).write 1 bm0).write 2
      (set_bit zero_block 0))
    (by omega) (by rw [hnb3]; omega)
  have hfmt : hfs_format L magic dev
      = (((dev4.write 1 (set_bit bm0 (3 + ib))).write (3 + ib) zero_block).write 3
          (inode_store L zero_block 0 root), 0) := by
    have q1 : (format_sb L magic dev.num_blocks).s_data_blocks_start = 3 + ib := by rw [hsbe]
    have q2 : (format_sb L magic dev.num_blocks).s_inodes_count = ic := by rw [hsbe]
    have q3 : (format_sb L magic dev.num_blocks).s_block_bitmap = 1 := by rw [hsbe]
    have q4 : (format_sb L magic dev.num_blocks).s_inode_bitmap = 2 := by rw [hsbe]
    have q5 : (format_sb L magic dev.num_blocks).s_inode_table_block_start = 3 := by rw [hsbe]
    unfold hfs_format
    simp only [q1, q2, q3, q4, q5, hmod, hib, hbm0]
    rw [blkwrite_of_lt dev 0 _ (by omega)]
    dsimp only
    rw [blkwrite_of_lt _ 1 _ (by show 1 < dev.num_blocks; omega)]
    dsimp only
    rw [blkwrite_of_lt _ 2 _ (by show 2 < dev.num_blocks; omega)]
    dsimp only
    rw [g1]
    dsimp only
    rw [blkwrite_of_lt _ 1 _ (by rw [g2]; show 1 < dev.num_blocks; omega)]
    dsimp only
    rw [blkwrite_of_lt _ (3 + ib) _
      (by show 3 + ib < dev4.num_blocks; rw [g2]; show _ < dev.num_blocks; omega)]
    dsimp only
    rw [blkwrite_of_lt _ 3 _ (by show 3 < dev4.num_blocks; rw [g2]; show 3 < dev.num_blocks; omega)]
    rw [← hroot]
    rfl
  rw [hfmt]
  obtain ⟨devF, hdevF⟩ : ∃ devF,
      ((dev4.write 1 (set_bit bm0 (3 + ib))).write (3 + ib) zero_block).write 3
        (inode_store L zero_block 0 root) = devF := ⟨_, rfl⟩
  rw [hdevF]
  show sb_load (devF.blocks 0) = _ ∧ (∀ j, get_bit (devF.blocks 1) j = _) ∧
    (∀ j, get_bit (devF.blocks 2) j = _) ∧ inode_load L (devF.blocks 3) 0 = _ ∧
    ∃ F, hfs_mount magic devF = some F ∧ F.sb = sb_load (devF.blocks 0) ∧
      read_inode L F 0 = some (inode_load L (devF.blocks 3) 0)
  have hnbF : devF.num_blocks = dev.num_blocks := by
    rw [← hdevF]
    show dev4.num_blocks = _
    rw [g2]
    rfl
  have hb3 : devF.blocks 3 = inode_store L zero_block 0 root := by
    rw [← hdevF, write_blocks_same]
  have hb1 : devF.blocks 1 = set_bit bm0 (3 + ib) := by
    rw [← hdevF, write_blocks_other _ _ _ _ (by omega), write_blocks_other _ _ _ _ (by omega),
      write_blocks_same]
  have hb2 : devF.blocks 2 = set_bit zero_block 0 := by
    rw [← hdevF, write_blocks_other _ _ _ _ (by omega), write_blocks_other _ _ _ _ (by omega),
      write_blocks_other _ _ _ _ (by omega), g3 2, if_neg (by omega), write_blocks_same]
  have hb0 : devF.blocks 0 = sb_store zero_block (format_sb L magic dev.num_blocks) := by
    rw [← hdevF, write_blocks_other _ _ _ _ (by omega), write_blocks_other _ _ _ _ (by omega),
      write_blocks_other _ _ _ _ (by omega), g3 0, if_neg (by omega),
      write_blocks_other _ _ _ _ (by omega), write_blocks_other _ _ _ _ (by omega),
      write_blocks_same]
  have hload : sb_load (devF.blocks 0)
      = { s_magic := magic, s_blocks_count := dev.num_blocks, s_inodes_count := ic,
          s_block_bitmap := 1, s_inode_bitmap := 2, s_inode_table_block_start := 3,
          s_data_blocks_start := 3 + ib } := by
    rw [hb0, hsbe]
    exact sb_load_store _ hmagic hnb (show ic < 4294967296 by omega)
      (show (1 : Nat) < 4294967296 by decide) (show (2 : Nat) < 4294967296 by decide)
      (show (3 : Nat) < 4294967296 by decide) (show 3 + ib < 4294967296 by omega)
  have hrv : root.Valid L := by
    rw [← hroot]
    exact one_block_valid L 1 _ 0 hN (by decide) (by omega) (by decide)
  have hino : inode_load L (devF.blocks 3) 0 = root := by
    rw [hb3, inode_load_store_same L _ _ _ hrv]
  obtain ⟨s1, -⟩ := format_set_bits_spec (3 + ib) (3 + ib) 0 zero_block (by omega)
  rw [hbm0] at s1
  have hipb : 0 < L.INODES_PER_BLOCK := Nat.div_pos hfit (by omega)
  refine ⟨hload, ?_, ?_, ?_, ?_⟩
  · intro j
    rw [hb1, get_bit_set_bit, s1 j, get_bit_zero_block]
    by_cases e : j = 3 + ib
    · rw [if_pos e, if_pos (by omega)]
    · rw [if_neg e]
      by_cases e2 : 0 ≤ j ∧ j < 3 + ib
      · rw [if_pos e2, if_pos (by omega)]
      · rw [if_neg e2, if_neg (by omega)]
  · intro j
    rw [hb2, get_bit_set_bit, get_bit_zero_block]
  · rw [hino, ← hroot]
    rfl
  · refine ⟨HfsData.mk devF (sb_load (devF.blocks 0)) (devF.blocks 1) (devF.blocks 2), ?_, rfl,
      ?_⟩
    · have e : ¬ (sb_load (devF.blocks 0)).s_magic ≠ magic := by
        rw [hload]
        exact fun h => h rfl
      have e1 : (sb_load (devF.blocks 0)).s_block_bitmap = 1 := by rw [hload]
      have e2 : (sb_load (devF.blocks 0)).s_inode_bitmap = 2 := by rw [hload]
      unfold hfs_mount
      rw [blkread_of_lt devF 0 (by omega)]
      dsimp only
      rw [if_neg e, e1, e2, blkread_of_lt devF 1 (by omega)]
      dsimp only
      rw [blkread_of_lt devF 2 (by omega)]
    · unfold read_inode
      dsimp only
      have e3 : ¬ 0 ≥ (sb_load (devF.blocks 0)).s_inodes_count := by
        rw [hload]
        show ¬ 0 ≥ ic
        omega
      have e4 : (sb_load (devF.blocks 0)).s_inode_table_block_start = 3 := by rw [hload]
      rw [if_neg e3, e4, Nat.zero_div, Nat.zero_mod, Nat.zero_mul,
        show (3 + 0) % U32 = 3 from rfl, blkread_of_lt devF 3 (by omega)]

set_option maxRecDepth 100000 in
theorem hfs_format_layout_witness :
    hfsSmallLayout.Ok ∧ 1 ≤ hfsSmallLayout.INODE_DIRECT_POINTERS ∧
      (0 : Nat) < 4294967296 ∧ devBlank64.num_blocks < 4294967296 ∧
      (hfs_format hfsSmallLayout 0 devBlank64).2 = 0 ∧
      sb_load ((hfs_format hfsSmallLayout 0 devBlank64).1.blocks 0)
        = { s_magic := 0, s_blocks_count := 64, s_inodes_count := 64, s_block_bitmap := 1,
            s_inode_bitmap := 2, s_inode_table_block_start := 3, s_data_blocks_start := 35 } ∧
      (∀ j, get_bit ((hfs_format hfsSmallLayout 0 devBlank64).1.blocks 1) j
        = if j ≤ 35 then 1 else 0) ∧
      (∀ j, get_bit ((hfs_format hfsSmallLayout 0 devBlank64).1.blocks 2) j
        = if j = 0 then 1 else 0) ∧
      inode_load hfsSmallLayout ((hfs_format hfsSmallLayout 0 devBlank64).1.blocks 3) 0
        = { i_is_directory := 1, i_size := 0, i_direct_pointers := [35],
            i_single_indirect_pointer := 0 } :=
  ⟨⟨by decide, by decide, by decide, by decide⟩, by decide, by decide, by decide, by decide,
    (hfs_format_layout hfsSmallLayout 0 devBlank64
      ⟨by decide, by decide, by decide, by decide⟩ (by decide) (by decide) (by decide)
      (by decide)).1,
    (hfs_format_layout hfsSmallLayout 0 devBlank64
      ⟨by decide, by decide, by decide, by decide⟩ (by decide) (by decide) (by decide)
      (by decide)).2.1,
    (hfs_format_layout hfsSmallLayout 0 devBlank64
      ⟨by decide, by decide, by decide, by decide⟩ (by decide) (by decide) (by decide)
      (by decide)).2.2.1,
    (hfs_format_layout hfsSmallLayout 0 devBlank64
      ⟨by decide, by decide, by decide, by decide⟩ (by decide) (by decide) (by decide)
      (by decide)).2.2.2.1⟩
/-! ## The scheduler: the ready queue -/

theorem setThread_same (s : SchedState) (t : Nat) (v : Thread) :
    (s.setThread t v).threads t = v := by
  show (if t = t then v else s.threads t) = v
  rw [if_pos rfl]

theorem setThread_other (s : SchedState) (t x : Nat) (v : Thread) (h : x ≠ t) :
    (s.setThread t v).threads x = s.threads x := by
  show (if x = t then v else s.threads x) = _
  rw [if_neg h]

theorem chain_congr (s s2 : SchedState) :
    ∀ (l : List Nat) (a : Nat), Chain s a l →
      (∀ x, x ∈ l → (s2.threads x).next = (s.threads x).next) → Chain s2 a l := by
  intro l
  induction l with
  | nil => intro a h _; exact h
  | cons t ts ih =>
    intro a h hn
    obtain ⟨h1, h2, h3⟩ := h
    refine ⟨h1, h2, ?_⟩
    rw [hn t (List.mem_cons_self _ _)]
    exact ih _ h3 (fun x hx => hn x (List.mem_cons_of_mem _ hx))

/-- The chain after a thread is linked behind its last thread. -/
theorem chain_append (s s2 : SchedState) (c : Nat) (hc : c ≠ 0)
    (hcn : (s2.threads c).next = 0) :
    ∀ (l : List Nat) (a : Nat), Chain s a l → l ≠ [] → l.Nodup → c ∉ l →
      (∀ x, x ∈ l → (s2.threads x).next
        = if l.getLast? = some x then c else (s.threads x).next) →
      Chain s2 a (l ++ [c]) := by
  intro l
  induction l with
  | nil => intro a _ h; exact absurd rfl h
  | cons t ts ih =>
    intro a h _ hnd hcl hn
    obtain ⟨h1, h2, h3⟩ := h
    have hnd2 := List.nodup_cons.1 hnd
    have hct : c ≠ t := fun e => hcl (by rw [e]; exact List.mem_cons_self _ _)
    have hcts : c ∉ ts := fun e => hcl (List.mem_cons_of_mem _ e)
    refine ⟨h1, h2, ?_⟩
    by_cases hts : ts = []
    · subst hts
      have e := hn t (List.mem_cons_self _ _)
      have e0 : [t].getLast? = some t := rfl
      rw [if_pos e0] at e
      rw [e]
      exact ⟨rfl, hc, hcn⟩
    · have hlast : (t :: ts).getLast? = ts.getLast? := by
        cases ts with
        | nil => exact absurd rfl hts
        | cons u us => rfl
      have e := hn t (List.mem_cons_self _ _)
      have hnl : ¬ (t :: ts).getLast? = some t := by
        rw [hlast]
        intro hh
        exact hnd2.1 (List.mem_of_getLast?_eq_some hh)
      rw [if_neg hnl] at e
      rw [e]
      refine ih _ h3 hts hnd2.2 hcts (fun x hx => ?_)
      rw [hn x (List.mem_cons_of_mem _ hx), hlast]

theorem isQueue_congr (s s2 : SchedState) (l : List Nat) (h : IsQueue s l)
    (hh : s2.ready_queue_head = s.ready_queue_head)
    (ht : s2.ready_queue_tail = s.ready_queue_tail)
    (hn : ∀ x, x ∈ l → (s2.threads x).next = (s.threads x).next) : IsQueue s2 l :=
  ⟨by rw [hh]; exact chain_congr s s2 l _ h.chain hn, fun x hx => by rw [ht]; exact h.tail x hx,
    h.nodup⟩

theorem isQueue_nil_head (s : SchedState) (h : IsQueue s []) : s.ready_queue_head = 0 :=
  h.chain

theorem isQueue_cons_head (s : SchedState) (t : Nat) (ts : List Nat) (h : IsQueue s (t :: ts)) :
    s.ready_queue_head = t ∧ t ≠ 0 := ⟨h.chain.1, h.chain.2.1⟩

/-- `scheduler_post` of a thread that is not in the queue appends it. -/
theorem scheduler_post_spec (s : SchedState) (l : List Nat) (c : Nat) (hq : IsQueue s l)
    (hc : c ≠ 0) (hcl : c ∉ l) :
    IsQueue (scheduler_post s c) (l ++ [c]) ∧
      (scheduler_post s c).threads c
        = { s.threads c with state := ThreadState.THREAD_READY, next := 0 } ∧
      (∀ x, x ≠ c → { (scheduler_post s c).threads x with next := 0 }
        = { s.threads x with next := 0 }) ∧
      (scheduler_post s c).current_thread = s.current_thread ∧
      (scheduler_post s c).current_proc = s.current_proc ∧
      (scheduler_post s c).procs = s.procs := by
  obtain ⟨s1, hs1⟩ : ∃ s1, s.setThread c
      { s.threads c with state := ThreadState.THREAD_READY, next := 0 } = s1 := ⟨_, rfl⟩
  have t1 : s1.threads c = { s.threads c with state := ThreadState.THREAD_READY, next := 0 } := by
    rw [← hs1, setThread_same]
  have t2 : ∀ x, x ≠ c → s1.threads x = s.threads x := by
    intro x hx
    rw [← hs1, setThread_other _ _ _ _ hx]
  have q1 : s1.ready_queue_head = s.ready_queue_head := by rw [← hs1]; rfl
  have q2 : s1.ready_queue_tail = s.ready_queue_tail := by rw [← hs1]; rfl
  have q3 : s1.current_thread = s.current_thread := by rw [← hs1]; rfl
  have q4 : s1.current_proc = s.current_proc := by rw [← hs1]; rfl
  have q5 : s1.procs = s.procs := by rw [← hs1]; rfl
  have hpost : scheduler_post s c
      = if s1.ready_queue_head = 0 then
          { s1 with ready_queue_head := c, ready_queue_tail := c }
        else
          { s1.setThread s1.ready_queue_tail
              { s1.threads s1.ready_queue_tail with next := c } with
            ready_queue_tail := c } := by
    unfold scheduler_post
    rw [if_neg hc, hs1]
  rw [hpost]
  cases l with
  | nil =>
    have hh : s1.ready_queue_head = 0 := by rw [q1]; exact hq.chain
    rw [if_pos hh]
    refine ⟨⟨⟨rfl, hc, ?_⟩, ?_, by simp⟩, t1, ?_, q3, q4, q5⟩
    · show (s1.threads c).next = 0
      rw [t1]
    · intro x hx
      simp at hx
      show c = x
      exact hx
    · intro x hx
      show ({ s1.threads x with next := 0 } : Thread) = _
      rw [t2 x hx]
  | cons t ts =>
    obtain ⟨hh, ht0⟩ := isQueue_cons_head s t ts hq
    have e : ¬ s1.ready_queue_head = 0 := by
      rw [q1, hh]
      exact ht0
    obtain ⟨z, hz⟩ : ∃ z, (t :: ts).getLast? = some z := by
      cases hl : (t :: ts).getLast? with
      | none => simp at hl
      | some z => exact ⟨z, rfl⟩
    have htail : s1.ready_queue_tail = z := by rw [q2]; exact hq.tail z hz
    have hzl : z ∈ t :: ts := List.mem_of_getLast?_eq_some hz
    have hzc : z ≠ c := fun e2 => hcl (by rw [← e2]; exact hzl)
    rw [if_neg e, htail]
    have r1 : ∀ x, ({ s1.setThread z { s1.threads z with next := c } with
        ready_queue_tail := c } : SchedState).threads x
        = (s1.setThread z { s1.threads z with next := c }).threads x := fun x => rfl
    refine ⟨⟨?_, ?_, ?_⟩, ?_, ?_, q3, q4, q5⟩
    · show Chain _ s1.ready_queue_head ((t :: ts) ++ [c])
      rw [q1]
      refine chain_append s _ c hc ?_ (t :: ts) _ hq.chain (by simp) hq.nodup hcl ?_
      · rw [r1, setThread_other _ _ _ _ (fun e4 => hzc e4.symm), t1]
      · intro x hx
        have hxc : x ≠ c := fun e2 => hcl (by rw [← e2]; exact hx)
        rw [r1, hz]
        by_cases hxz : x = z
        · rw [if_pos (by rw [hxz]), hxz, setThread_same]
        · have e5 : ¬ some z = some x := fun e6 => hxz (Option.some.inj e6).symm
          rw [if_neg e5, setThread_other _ _ _ _ hxz, t2 x hxc]
    · intro x hx
      rw [List.getLast?_append_of_ne_nil _ (by simp)] at hx
      simp at hx
      show c = x
      exact hx
    · rw [List.nodup_append]
      refine ⟨hq.nodup, by simp, ?_⟩
      intro a ha hb
      simp at hb
      exact hcl (by rw [← hb]; exact ha)
    · rw [r1, setThread_other _ _ _ _ (fun e4 => hzc e4.symm), t1]
    · intro x hx
      rw [r1]
      by_cases hxz : x = z
      · rw [hxz, setThread_same, t2 z hzc]
      · rw [setThread_other _ _ _ _ hxz, t2 x hx]

/-- Taking the head off the ready queue. -/
theorem dequeue_next_spec (s : SchedState) (h : Nat) (rest : List Nat)
    (hq : IsQueue s (h :: rest)) :
    (dequeue_next s).2 = h ∧ IsQueue (dequeue_next s).1 rest ∧
      (dequeue_next s).1.threads h
        = { s.threads h with next := 0, state := ThreadState.THREAD_RUNNING,
                             timeslice := DEFAULT_TIMESLICE } ∧
      (∀ x, x ≠ h → (dequeue_next s).1.threads x = s.threads x) ∧
      (dequeue_next s).1.current_thread = s.current_thread ∧
      (dequeue_next s).1.current_proc = s.current_proc ∧
      (dequeue_next s).1.procs = s.procs := by
  obtain ⟨hh, h0, hch⟩ := hq.chain
  have hnd := List.nodup_cons.1 hq.nodup
  obtain ⟨s2, hs2⟩ : ∃ s2 : SchedState,
      (if ({ s with ready_queue_head := (s.threads s.ready_queue_head).next } :
          SchedState).ready_queue_head = 0 then
        { ({ s with ready_queue_head := (s.threads s.ready_queue_head).next } : SchedState) with
          ready_queue_tail := 0 }
      else { s with ready_queue_head := (s.threads s.ready_queue_head).next }) = s2 := ⟨_, rfl⟩
  have hd : dequeue_next s
      = (s2.setThread s.ready_queue_head
          { s2.threads s.ready_queue_head with
            next := 0, state := ThreadState.THREAD_RUNNING, timeslice := DEFAULT_TIMESLICE },
         s.ready_queue_head) := by
    unfold dequeue_next
    simp only [hs2]
  have a1 : s2.threads = s.threads := by
    rw [← hs2]
    split_ifs <;> rfl
  have a2 : s2.ready_queue_head = (s.threads h).next := by
    rw [← hs2, hh]
    split_ifs <;> rfl
  have a3 : (s.threads h).next ≠ 0 → s2.ready_queue_tail = s.ready_queue_tail := by
    intro hne
    rw [← hs2, hh]
    rw [if_neg (show ¬ ({ s with ready_queue_head := (s.threads h).next } :
      SchedState).ready_queue_head = 0 from hne)]
  have a4 : s2.current_thread = s.current_thread := by
    rw [← hs2]
    split_ifs <;> rfl
  have a5 : s2.current_proc = s.current_proc := by
    rw [← hs2]
    split_ifs <;> rfl
  have a6 : s2.procs = s.procs := by
    rw [← hs2]
    split_ifs <;> rfl
  rw [hd, hh]
  refine ⟨rfl, ⟨?_, ?_, hnd.2⟩, ?_, ?_, a4, a5, a6⟩
  · show Chain _ s2.ready_queue_head rest
    rw [a2]
    refine chain_congr s _ rest _ hch (fun x hx => ?_)
    have hxh : x ≠ h := fun e => hnd.1 (by rw [← e]; exact hx)
    rw [setThread_other _ _ _ _ hxh, a1]
  · intro x hx
    show s2.ready_queue_tail = x
    cases rest with
    | nil => simp at hx
    | cons u us =>
      have hu : (s.threads h).next ≠ 0 := by
        rw [hch.1]
        exact hch.2.1
      rw [a3 hu]
      exact hq.tail x hx
  · rw [setThread_same, a1]
  · intro x hx
    rw [setThread_other _ _ _ _ hx, a1]

/-- `scheduler_switch` to another thread. -/
theorem scheduler_switch_spec (s : SchedState) (n : Nat) (hn : n ≠ 0)
    (hne : n ≠ s.current_thread) :
    (scheduler_switch s n).current_thread = n ∧
      (scheduler_switch s n).current_proc = (s.threads n).proc ∧
      (scheduler_switch s n).threads = s.threads ∧
      (scheduler_switch s n).procs = s.procs ∧
      (scheduler_switch s n).ready_queue_head = s.ready_queue_head ∧
      (scheduler_switch s n).ready_queue_tail = s.ready_queue_tail ∧
      (scheduler_switch s n).esp0 = (s.threads n).kstack_top ∧
      (scheduler_switch s n).process_list = s.process_list ∧
      (scheduler_switch s n).heap = s.heap := by
  have e : ¬ (n = 0 ∨ n = s.current_thread) := fun h => h.elim hn hne
  unfold scheduler_switch
  rw [if_neg e]
  dsimp only
  split_ifs <;> exact ⟨rfl, rfl, rfl, rfl, rfl, rfl, rfl, rfl, rfl⟩

theorem scheduler_tick_running_eq (fuel : Nat) (s : SchedState) (context : Nat)
    (hc0 : s.current_thread ≠ 0)
    (hst : (s.threads s.current_thread).state = ThreadState.THREAD_RUNNING) :
    scheduler_tick fuel s context
      = if (s.threads s.current_thread).timeslice - 1 > 0 ∧
            (s.threads s.current_thread).state = ThreadState.THREAD_RUNNING then
          some (SchedState.setThread
            { s with debug_tick_count := (s.debug_tick_count + 1) % U32 } s.current_thread
            { s.threads s.current_thread with
              trap_frame := context, timeslice := (s.threads s.current_thread).timeslice - 1 })
        else if s.ready_queue_head = 0 then
          some (SchedState.setThread
            { s with debug_tick_count := (s.debug_tick_count + 1) % U32 } s.current_thread
            { s.threads s.current_thread with
              trap_frame := context, timeslice := DEFAULT_TIMESLICE })
        else
          some (scheduler_switch
            (dequeue_next (scheduler_post
              (SchedState.setThread
                { s with debug_tick_count := (s.debug_tick_count + 1) % U32 } s.current_thread
                { s.threads s.current_thread with
                  trap_frame := context,
                  timeslice := (s.threads s.current_thread).timeslice - 1,
                  state := ThreadState.THREAD_READY }) s.current_thread)).1
            (dequeue_next (scheduler_post
              (SchedState.setThread
                { s with debug_tick_count := (s.debug_tick_count + 1) % U32 } s.current_thread
                { s.threads s.current_thread with
                  trap_frame := context,
                  timeslice := (s.threads s.current_thread).timeslice - 1,
                  state := ThreadState.THREAD_READY }) s.current_thread)).2) := by
  have e9 : ¬ (s.threads s.current_thread).state = ThreadState.THREAD_TERMINATED := by
    rw [hst]
    decide
  have idem : ∀ (z : SchedState) (t : Nat) (v w : Thread),
      (z.setThread t v).setThread t w = z.setThread t w := by
    intro z t v w
    unfold SchedState.setThread
    congr 1
    funext a
    dsimp only
    by_cases h : a = t
    · rw [if_pos h, if_pos h]
    · rw [if_neg h, if_neg h, if_neg h]
  unfold scheduler_tick
  simp only [if_neg hc0, if_pos hst, setThread_same, if_neg e9, idem]
  rfl

/-- `scheduler_tick` for a running thread: the three cases of the timeslice
and the ready queue. -/
theorem tick_running_spec (fuel : Nat) (s : SchedState) (context : Nat) (c : Nat)
    (q : List Nat) (t : Int) (R : Running s c q t) :
    ∃ s2, scheduler_tick fuel s context = some s2 ∧
      (1 < t → Running s2 c q (t - 1) ∧ s2.ready_queue_head = s.ready_queue_head ∧
        s2.ready_queue_tail = s.ready_queue_tail ∧
        ∀ x, (s2.threads x).state = (s.threads x).state ∧
          (s2.threads x).next = (s.threads x).next) ∧
      (t = 1 → q = [] → Running s2 c [] DEFAULT_TIMESLICE ∧
        ∀ x, (s2.threads x).state = (s.threads x).state) ∧
      (t = 1 → ∀ h rest, q = h :: rest →
        Running s2 h (rest ++ [c]) DEFAULT_TIMESLICE ∧
          (s2.threads c).state = ThreadState.THREAD_READY ∧
          ∀ x, x ≠ c → x ≠ h → (s2.threads x).state = (s.threads x).state) := by
  obtain ⟨hcur, hc0, hst, hsl, hq, hnq⟩ := R
  subst hcur
  rw [scheduler_tick_running_eq fuel s context hc0 hst, hsl]
  have key : ∀ v : Thread, v.next = (s.threads s.current_thread).next →
      (∀ x, x ≠ s.current_thread →
        (SchedState.setThread { s with debug_tick_count := (s.debug_tick_count + 1) % U32 }
          s.current_thread v).threads x = s.threads x) ∧
      IsQueue (SchedState.setThread
        { s with debug_tick_count := (s.debug_tick_count + 1) % U32 } s.current_thread v) q := by
    intro v hv
    have k1 : ∀ x, x ≠ s.current_thread →
        (SchedState.setThread { s with debug_tick_count := (s.debug_tick_count + 1) % U32 }
          s.current_thread v).threads x = s.threads x := by
      intro x hx
      rw [setThread_other _ _ _ _ hx]
    refine ⟨k1, isQueue_congr s _ q hq rfl rfl (fun x hx => ?_)⟩
    have hxc : x ≠ s.current_thread := fun e2 => hnq (by rw [← e2]; exact hx)
    rw [k1 x hxc]
  by_cases ht : 1 < t
  · have e : t - 1 > 0 ∧ (s.threads s.current_thread).state = ThreadState.THREAD_RUNNING :=
      ⟨by omega, hst⟩
    rw [if_pos e]
    obtain ⟨k1, k2⟩ := key
      { s.threads s.current_thread with trap_frame := context, timeslice := t - 1 } rfl
    refine ⟨_, rfl, fun _ => ⟨⟨rfl, hc0, ?_, ?_, k2, hnq⟩, rfl, rfl, ?_⟩, ?_, ?_⟩
    · rw [setThread_same]
      exact hst
    · rw [setThread_same]
    · intro x
      by_cases hx : x = s.current_thread
      · rw [hx, setThread_same]
        exact ⟨rfl, rfl⟩
      · rw [k1 x hx]
        exact ⟨rfl, rfl⟩
    · intro h1
      omega
    · intro h1
      omega
  · by_cases ht1 : t = 1
    · have e : ¬ (t - 1 > 0 ∧ (s.threads s.current_thread).state
          = ThreadState.THREAD_RUNNING) := by
        intro h
        omega
      rw [if_neg e]
      cases q with
      | nil =>
        have hh : s.ready_queue_head = 0 := hq.chain
        rw [if_pos hh]
        obtain ⟨k1, k2⟩ := key
          { s.threads s.current_thread with
            trap_frame := context, timeslice := DEFAULT_TIMESLICE } rfl
        refine ⟨_, rfl, fun h => absurd h ht, ?_, ?_⟩
        · intro _ _
          refine ⟨⟨rfl, hc0, ?_, ?_, k2, hnq⟩, ?_⟩
          · rw [setThread_same]
            exact hst
          · rw [setThread_same]
          · intro x
            by_cases hx : x = s.current_thread
            · rw [hx, setThread_same]
            · rw [k1 x hx]
        · intro _ h rest hcons
          exact absurd hcons (by simp)
      | cons h rest =>
        obtain ⟨hh, hh0⟩ := isQueue_cons_head s h rest hq
        have hne : ¬ s.ready_queue_head = 0 := by rw [hh]; exact hh0
        rw [if_neg hne]
        obtain ⟨k1, d1⟩ := key
          { s.threads s.current_thread with
            trap_frame := context, timeslice := t - 1,
            state := ThreadState.THREAD_READY } rfl
        obtain ⟨sc, hsc⟩ : ∃ sc : SchedState,
            SchedState.setThread { s with debug_tick_count := (s.debug_tick_count + 1) % U32 }
              s.current_thread
              { s.threads s.current_thread with
                trap_frame := context, timeslice := t - 1,
                state := ThreadState.THREAD_READY } = sc := ⟨_, rfl⟩
        rw [hsc] at k1 d1 ⊢
        have d3 : sc.current_thread = s.current_thread := by rw [← hsc]; rfl
        obtain ⟨p1, p2, p3, p4, p5, p6⟩ :=
          scheduler_post_spec sc (h :: rest) s.current_thread d1 hc0 hnq
        obtain ⟨sd, hsd⟩ : ∃ sd, scheduler_post sc s.current_thread = sd := ⟨_, rfl⟩
        rw [hsd] at p1 p2 p3 p4 p5 p6 ⊢
        have p1b : IsQueue sd (h :: (rest ++ [s.current_thread])) := p1
        obtain ⟨g1, g2, g3, g4, g5, g6, g7⟩ :=
          dequeue_next_spec sd h (rest ++ [s.current_thread]) p1b
        obtain ⟨se, hse⟩ : ∃ se, (dequeue_next sd).1 = se := ⟨_, rfl⟩
        rw [hse] at g2 g3 g4 g5 g6 g7 ⊢
        rw [g1]
        have hhc : h ≠ s.current_thread :=
          fun e2 => hnq (by rw [← e2]; exact List.mem_cons_self _ _)
        have hcur2 : h ≠ se.current_thread := by rw [g5, p4, d3]; exact hhc
        obtain ⟨w1, w2, w3, w4, w5, w6, w7, w8, w9⟩ := scheduler_switch_spec se h hh0 hcur2
        refine ⟨_, rfl, fun hlt => absurd hlt ht, ?_, ?_⟩
        · intro _ hnil
          exact absurd hnil (by simp)
        · intro _ h2 rest2 hcons
          obtain ⟨e1, e2⟩ := List.cons.inj hcons
          subst e1
          subst e2
          have hnd := List.nodup_cons.1 p1b.nodup
          refine ⟨⟨w1, hh0, ?_, ?_, ?_, hnd.1⟩, ?_, ?_⟩
          · rw [w3, g3]
          · rw [w3, g3]
          · exact isQueue_congr se _ _ g2 w5 w6 (fun x _ => by rw [w3])
          · rw [w3, g4 _ (fun e3 => hhc e3.symm), p2]
          · intro x hxc hxh
            rw [w3, g4 x hxh]
            have e4 := congrArg Thread.state (p3 x hxc)
            have e5 : (sd.threads x).state = (sc.threads x).state := e4
            rw [e5, k1 x hxc]
    · split_ifs
      all_goals
        exact ⟨_, rfl, fun h => absurd h ht, fun h => absurd h ht1, fun h => absurd h ht1⟩
/-! ## The scheduler: timer ticks of running threads -/

/-- After `n` ticks the threads have been rotated `n / 10` times and the
current thread has used `n % 10` ticks of its timeslice. -/
theorem run_ticks_running (fuel : Nat) (ctx : Nat → Nat) (s : SchedState) (c : Nat)
    (q : List Nat) (R : Running s c q DEFAULT_TIMESLICE) :
    ∀ n, ∃ s2 c2 q2, run_ticks fuel ctx n s = some s2 ∧
      (c :: q).rotate (n / 10) = c2 :: q2 ∧
      Running s2 c2 q2 (10 - ((n % 10 : Nat) : Int)) := by
  intro n
  induction n with
  | zero =>
    refine ⟨s, c, q, rfl, ?_, R⟩
    rw [Nat.zero_div, List.rotate_zero]
  | succ n ih =>
    obtain ⟨s2, c2, q2, h1, h2, h3⟩ := ih
    obtain ⟨s3, g1, g2, g3, g4⟩ := tick_running_spec fuel s2 (ctx n) c2 q2 _ h3
    have hrun : run_ticks fuel ctx (n + 1) s = some s3 := by
      rw [run_ticks, h1]
      exact g1
    by_cases hlt : n % 10 < 9
    · have e1 : (n + 1) / 10 = n / 10 := by omega
      have e2 : (10 : Int) - (((n + 1) % 10 : Nat) : Int)
          = 10 - ((n % 10 : Nat) : Int) - 1 := by omega
      refine ⟨s3, c2, q2, hrun, by rw [e1]; exact h2, ?_⟩
      rw [e2]
      exact (g2 (by omega)).1
    · have e1 : (n + 1) / 10 = n / 10 + 1 := by omega
      have e2 : (10 : Int) - (((n + 1) % 10 : Nat) : Int) = DEFAULT_TIMESLICE := by
        unfold DEFAULT_TIMESLICE
        omega
      have e3 : (10 : Int) - ((n % 10 : Nat) : Int) = 1 := by omega
      have hrot : (c :: q).rotate ((n + 1) / 10) = q2 ++ [c2] := by
        rw [e1, ← List.rotate_rotate, h2, List.rotate_cons_succ, List.rotate_zero]
      rw [e2]
      cases q2 with
      | nil => exact ⟨s3, c2, [], hrun, hrot, (g3 e3 rfl).1⟩
      | cons h rest => exact ⟨s3, h, rest ++ [c2], hrun, hrot, (g4 e3 h rest rfl).1⟩

theorem running_nodup (s : SchedState) (c : Nat) (q : List Nat) (t : Int)
    (R : Running s c q t) : (c :: q).Nodup :=
  List.nodup_cons.2 ⟨R.not_queued, R.queue.nodup⟩

/-- The thread that is current after `n` ticks. -/
theorem current_after_running (fuel : Nat) (ctx : Nat → Nat) (s : SchedState) (c : Nat)
    (q : List Nat) (R : Running s c q DEFAULT_TIMESLICE) (n : Nat) :
    current_after fuel ctx s n = (c :: q)[(n / 10) % (q.length + 1)]? := by
  obtain ⟨s2, c2, q2, h1, h2, h3⟩ := run_ticks_running fuel ctx s c q R n
  have hlen : (c :: q).length = q.length + 1 := rfl
  have hk : (n / 10) % (q.length + 1) < (c :: q).length := by
    rw [hlen]
    exact Nat.mod_lt _ (by omega)
  have e : ((c :: q).rotate (n / 10)).head? = (c :: q)[(n / 10) % (q.length + 1)]? := by
    rw [← hlen, ← List.rotate_mod, List.head?_rotate (Nat.mod_lt _ (by rw [hlen]; omega))]
  unfold current_after
  rw [h1, ← e, h2]
  exact congrArg some h3.cur

theorem count_slot (k j : Nat) (hj : j < k) :
    Nat.count (fun n => (n / 10) % k = j) (k * 10) = 10 := by
  rw [Nat.count_eq_card_filter_range]
  have e : (Finset.range (k * 10)).filter (fun n => (n / 10) % k = j)
      = Finset.Ico (j * 10) (j * 10 + 10) := by
    ext n
    simp only [Finset.mem_filter, Finset.mem_range, Finset.mem_Ico]
    constructor
    · rintro ⟨h1, h2⟩
      have h3 : n / 10 < k := by omega
      rw [Nat.mod_eq_of_lt h3] at h2
      omega
    · rintro ⟨h1, h2⟩
      have h3 : n / 10 = j := by omega
      have h4 : (j + 1) * 10 ≤ k * 10 := Nat.mul_le_mul_right 10 hj
      refine ⟨by omega, ?_⟩
      rw [h3, Nat.mod_eq_of_lt hj]
  rw [e, Nat.card_Ico]
  omega

theorem periodic_slot (k j : Nat) : Function.Periodic (fun n => (n / 10) % k = j) (k * 10) := by
  intro n
  show (((n + k * 10) / 10) % k = j) = ((n / 10) % k = j)
  have e : (n + k * 10) / 10 = n / 10 + k := by omega
  rw [e, Nat.add_mod_right]

theorem card_slots (k j : Nat) (hj : j < k) :
    ∀ (m a : Nat),
      ((Finset.Ico a (a + m * (k * 10))).filter (fun n => (n / 10) % k = j)).card = m * 10 := by
  intro m
  induction m with
  | zero =>
    intro a
    simp
  | succ m ih =>
    intro a
    have hsplit : Finset.Ico a (a + (m + 1) * (k * 10))
        = Finset.Ico a (a + m * (k * 10))
          ∪ Finset.Ico (a + m * (k * 10)) (a + m * (k * 10) + k * 10) := by
      rw [Finset.Ico_union_Ico_eq_Ico (by omega) (by omega)]
      congr 1
      rw [Nat.add_mul, Nat.one_mul, Nat.add_assoc]
    have hdis : Disjoint
        ((Finset.Ico a (a + m * (k * 10))).filter (fun n => (n / 10) % k = j))
        ((Finset.Ico (a + m * (k * 10)) (a + m * (k * 10) + k * 10)).filter
          (fun n => (n / 10) % k = j)) := by
      apply Finset.disjoint_filter_filter
      rw [Finset.disjoint_left]
      intro x hx hy
      rw [Finset.mem_Ico] at hx hy
      omega
    rw [hsplit, Finset.filter_union, Finset.card_union_of_disjoint hdis, ih a,
      Nat.filter_Ico_card_eq_of_periodic _ _ _ (periodic_slot k j), count_slot k j hj]
    omega

/-- C26: for a current thread in state RUNNING, `scheduler_tick` decrements
its timeslice and then: if the timeslice is still positive, the current
thread, the ready queue and all thread states are unchanged; if it reached 0
and the ready queue is empty, the timeslice is `DEFAULT_TIMESLICE` again and
the thread stays current and RUNNING; if it reached 0 and the queue is not
empty, the old current thread is READY at the tail of the queue and the former
head of the queue is the current thread, RUNNING, with the timeslice
`DEFAULT_TIMESLICE`, the rest of the queue keeping its order. -/
theorem scheduler_tick_running_thread (fuel : Nat) (s : SchedState) (context : Nat)
    (q : List Nat) (hc : s.current_thread ≠ 0)
    (hrun : (s.threads s.current_thread).state = ThreadState.THREAD_RUNNING)
    (hq : IsQueue s q) (hnq : s.current_thread ∉ q) :
    ∃ s2, scheduler_tick fuel s context = some s2 ∧
      (1 < (s.threads s.current_thread).timeslice →
        (s2.threads s.current_thread).timeslice = (s.threads s.current_thread).timeslice - 1 ∧
        s2.current_thread = s.current_thread ∧ IsQueue s2 q ∧
        s2.ready_queue_head = s.ready_queue_head ∧ s2.ready_queue_tail = s.ready_queue_tail ∧
        ∀ x, (s2.threads x).state = (s.threads x).state ∧
          (s2.threads x).next = (s.threads x).next) ∧
      ((s.threads s.current_thread).timeslice = 1 → q = [] →
        s2.current_thread = s.current_thread ∧
        (s2.threads s.current_thread).timeslice = DEFAULT_TIMESLICE ∧ IsQueue s2 [] ∧
        ∀ x, (s2.threads x).state = (s.threads x).state) ∧
      ((s.threads s.current_thread).timeslice = 1 → ∀ h rest, q = h :: rest →
        IsQueue s2 (rest ++ [s.current_thread]) ∧
        (s2.threads s.current_thread).state = ThreadState.THREAD_READY ∧
        s2.current_thread = h ∧ (s2.threads h).state = ThreadState.THREAD_RUNNING ∧
        (s2.threads h).timeslice = DEFAULT_TIMESLICE ∧
        ∀ x, x ≠ s.current_thread → x ≠ h → (s2.threads x).state = (s.threads x).state) := by
  obtain ⟨s2, h1, h2, h3, h4⟩ := tick_running_spec fuel s context s.current_thread q _
    ⟨rfl, hc, hrun, rfl, hq, hnq⟩
  refine ⟨s2, h1, ?_, ?_, ?_⟩
  · intro ht
    obtain ⟨g1, g2, g3, g4⟩ := h2 ht
    exact ⟨g1.slice, g1.cur, g1.queue, g2, g3, g4⟩
  · intro ht hnil
    obtain ⟨g1, g2⟩ := h3 ht hnil
    exact ⟨g1.cur, g1.slice, g1.queue, g2⟩
  · intro ht h rest hcons
    obtain ⟨g1, g2, g3⟩ := h4 ht h rest hcons
    exact ⟨g1.queue, g2, g1.cur, g1.state, g1.slice, g3⟩

theorem scheduler_tick_running_thread_witness :
    schedThreeLast.current_thread ≠ 0 ∧
      (schedThreeLast.threads schedThreeLast.current_thread).state
        = ThreadState.THREAD_RUNNING ∧
      IsQueue schedThreeLast [200, 300] ∧ schedThreeLast.current_thread ∉ [200, 300] ∧
      (scheduler_tick 0 schedThreeLast 7).map
          (fun s => (s.current_thread, s.ready_queue_head, s.ready_queue_tail,
            (s.threads 300).next, (s.threads 100).next))
        = some (200, 300, 100, 100, 0) ∧
      (scheduler_tick 0 schedThreeLast 7).map
          (fun s => ((s.threads 100).state, (s.threads 200).state, (s.threads 200).timeslice))
        = some (ThreadState.THREAD_READY, ThreadState.THREAD_RUNNING, 10) ∧
      ∃ s2, scheduler_tick 0 schedThreeLast 7 = some s2 ∧
        IsQueue s2 [300, 100] ∧ s2.current_thread = 200 :=
  ⟨by decide, by decide,
    ⟨⟨rfl, by decide, rfl, by decide, rfl⟩, fun x hx => by simp at hx; rw [← hx]; rfl,
      by decide⟩,
    by decide, by decide, by decide,
    (scheduler_tick_running_thread 0 schedThreeLast 7 [200, 300] (by decide) (by decide)
      ⟨⟨rfl, by decide, rfl, by decide, rfl⟩, fun x hx => by simp at hx; rw [← hx]; rfl,
        by decide⟩
      (by decide)).elim
      (fun s2 h => ⟨s2, h.1, (h.2.2.2 (by decide) 200 [300] rfl).1,
        (h.2.2.2 (by decide) 200 [300] rfl).2.2.1⟩)⟩

/-- C27: when the current thread runs with a full timeslice, the other
threads wait in the ready queue and only timer ticks occur, the thread that is
current after `n` ticks is thread `(n / 10) % k` of the `k` threads in the
order current thread first, then the ready queue (FIFO order), and in every
run of `m * k * DEFAULT_TIMESLICE` consecutive ticks each of the threads is the
current thread for exactly `m * DEFAULT_TIMESLICE` ticks. -/
theorem scheduler_round_robin (fuel : Nat) (ctx : Nat → Nat) (s : SchedState) (c : Nat)
    (q : List Nat) (R : Running s c q DEFAULT_TIMESLICE) :
    (∀ n, current_after fuel ctx s n = (c :: q)[(n / 10) % (q.length + 1)]?) ∧
      ∀ a m T, T ∈ c :: q →
        ((Finset.Ico a (a + m * ((q.length + 1) * 10))).filter
          (fun n => current_after fuel ctx s n = some T)).card = m * 10 := by
  have hcur := current_after_running fuel ctx s c q R
  refine ⟨hcur, ?_⟩
  intro a m T hT
  have hnd := running_nodup s c q _ R
  obtain ⟨j, hj, hjT⟩ := List.getElem_of_mem hT
  have hlen : (c :: q).length = q.length + 1 := rfl
  have hcongr : (Finset.Ico a (a + m * ((q.length + 1) * 10))).filter
        (fun n => current_after fuel ctx s n = some T)
      = (Finset.Ico a (a + m * ((q.length + 1) * 10))).filter
        (fun n => (n / 10) % (q.length + 1) = j) := by
    apply Finset.filter_congr
    intro n _
    rw [hcur n]
    have hi : (n / 10) % (q.length + 1) < (c :: q).length := by
      rw [hlen]
      exact Nat.mod_lt _ (by omega)
    rw [List.getElem?_eq_getElem hi]
    constructor
    · intro h
      have h2 : (c :: q)[(n / 10) % (q.length + 1)] = (c :: q)[j] := by
        rw [hjT]
        exact Option.some.inj h
      exact (List.Nodup.getElem_inj_iff hnd).1 h2
    · intro h
      have h3 : (c :: q)[(n / 10) % (q.length + 1)] = (c :: q)[j] := by
        congr 1
      rw [h3, hjT]
  rw [hcongr]
  exact card_slots (q.length + 1) j (by rw [← hlen]; exact hj) m a

theorem scheduler_round_robin_witness :
    Running schedThree 100 [200, 300] DEFAULT_TIMESLICE ∧
      current_after 0 (fun _ => 0) schedThree 9 = some 100 ∧
      current_after 0 (fun _ => 0) schedThree 10 = some 200 ∧
      current_after 0 (fun _ => 0) schedThree 29 = some 300 ∧
      current_after 0 (fun _ => 0) schedThree 30 = some 100 ∧
      ((Finset.Ico 0 (0 + 10 * (([200, 300].length + 1) * 10))).filter
        (fun n => current_after 0 (fun _ => 0) schedThree n = some 200)).card = 10 * 10 :=
  ⟨⟨rfl, by decide, rfl, rfl,
      ⟨⟨rfl, by decide, rfl, by decide, rfl⟩, fun x hx => by simp at hx; rw [← hx]; rfl,
        by decide⟩, by decide⟩,
    (scheduler_round_robin 0 (fun _ => 0) schedThree 100 [200, 300]
      ⟨rfl, by decide, rfl, rfl,
        ⟨⟨rfl, by decide, rfl, by decide, rfl⟩, fun x hx => by simp at hx; rw [← hx]; rfl,
          by decide⟩, by decide⟩).1 9,
    (scheduler_round_robin 0 (fun _ => 0) schedThree 100 [200, 300]
      ⟨rfl, by decide, rfl, rfl,
        ⟨⟨rfl, by decide, rfl, by decide, rfl⟩, fun x hx => by simp at hx; rw [← hx]; rfl,
          by decide⟩, by decide⟩).1 10,
    (scheduler_round_robin 0 (fun _ => 0) schedThree 100 [200, 300]
      ⟨rfl, by decide, rfl, rfl,
        ⟨⟨rfl, by decide, rfl, by decide, rfl⟩, fun x hx => by simp at hx; rw [← hx]; rfl,
          by decide⟩, by decide⟩).1 29,
    (scheduler_round_robin 0 (fun _ => 0) schedThree 100 [200, 300]
      ⟨rfl, by decide, rfl, rfl,
        ⟨⟨rfl, by decide, rfl, by decide, rfl⟩, fun x hx => by simp at hx; rw [← hx]; rfl,
          by decide⟩, by decide⟩).1 30,
    (scheduler_round_robin 0 (fun _ => 0) schedThree 100 [200, 300]
      ⟨rfl, by decide, rfl, rfl,
        ⟨⟨rfl, by decide, rfl, by decide, rfl⟩, fun x hx => by simp at hx; rw [← hx]; rfl,
          by decide⟩, by decide⟩).2 0 10 200 (by decide)⟩
/-! ## The scheduler: terminated threads -/

set_option maxRecDepth 100000 in
/-- C29 (code evaluated at the failing input): in `schedTwoThreads` the process
at 4616 is current, with the running thread at 100 and the thread at 200 at the
head of the ready queue. The marking loop of `process_exit` sets the thread at
200 TERMINATED and leaves it at the head of the ready queue; it follows the
`next` link of that thread into the ready queue and marks the thread at 300 of
the other process as well. The tick that `process_exit` raises then takes the
thread at 200 off the queue and makes it the RUNNING current thread, and ten
ticks later the thread at 300 is the RUNNING current thread. `scheduler_post` of
a TERMINATED thread sets it READY. -/
theorem process_exit_revives_terminated_thread :
    (process_exit_mark 4 200 schedTwoThreads).map
        (fun s => ((s.threads 200).state, (s.threads 300).state, s.ready_queue_head,
          (s.threads 200).next))
      = some (ThreadState.THREAD_TERMINATED, ThreadState.THREAD_TERMINATED, 200, 300) ∧
    (process_exit 4 schedTwoThreads 4616 0 7).map
        (fun s => (s.current_thread, (s.threads 200).state, (s.threads 100).state,
          (s.threads 300).state, s.ready_queue_head))
      = some (200, ThreadState.THREAD_RUNNING, ThreadState.THREAD_TERMINATED,
          ThreadState.THREAD_TERMINATED, 300) ∧
    ((process_exit 4 schedTwoThreads 4616 0 7).bind (run_ticks 4 (fun _ => 7) 10)).map
        (fun s => (s.current_thread, (s.threads 300).state))
      = some (300, ThreadState.THREAD_RUNNING) ∧
    (schedDead.threads 100).state = ThreadState.THREAD_TERMINATED ∧
    ((scheduler_post schedDead 100).threads 100).state = ThreadState.THREAD_READY := by
  refine ⟨by decide, by decide, by decide, by decide, by decide⟩

set_option maxRecDepth 100000 in
/-- C30 (code evaluated at the failing input): in `schedDead` the current
thread, at 100, is TERMINATED and is the one thread of the current process, at
4616 with PID 1, and the thread at 200 waits in the ready queue. After the tick
the thread at 200 is the RUNNING current thread with a fresh timeslice and the
thread list of the process at 4616 is empty, but the process is still in the
process list, after the process at 4488, `process_find_by_pid` of its PID
returns it, and its block, of 128 bytes at 4608, is on the free list of the
heap. -/
theorem scheduler_tick_dead_process_stays_listed :
    (scheduler_tick 4 schedDead 0).map
        (fun s => (s.current_thread, (s.threads 200).state, (s.threads 200).timeslice,
          (s.procs 4616).thread_list))
      = some (200, ThreadState.THREAD_RUNNING, 10, 0) ∧
    (scheduler_tick 4 schedDead 0).map
        (fun s => (s.process_list, (s.procs 4488).next, (s.procs 4616).pid,
          process_find_by_pid s 1 4 s.process_list))
      = some (4488, 4616, 1, some 4616) ∧
    freeBlocks schedDead.heap = [(4224, 256)] ∧
    (scheduler_tick 4 schedDead 0).map (fun s => freeBlocks s.heap)
      = some [(4608, 128), (4224, 256)] := by
  refine ⟨by decide, by decide, by decide, by decide⟩
/-! ## The scheduler: `process_fork` -/

theorem agree_setThread (s : SchedState) (t : Nat) (v : Thread) :
    Agree false true true (s.setThread t v) s :=
  ⟨fun h => Bool.noConfusion h, fun _ => rfl, fun _ => rfl, rfl, rfl, rfl, rfl, rfl, rfl, rfl⟩

theorem agree_setProc (s : SchedState) (p : Nat) (v : Process) :
    Agree true false true (s.setProc p v) s :=
  ⟨fun _ => rfl, fun h => Bool.noConfusion h, fun _ => rfl, rfl, rfl, rfl, rfl, rfl, rfl, rfl⟩

theorem agree_setFrame (s : SchedState) (f : Nat) (v : InterruptContext) :
    Agree true true false (s.setFrame f v) s :=
  ⟨fun _ => rfl, fun _ => rfl, fun h => Bool.noConfusion h, rfl, rfl, rfl, rfl, rfl, rfl, rfl⟩

theorem agree_heap (s : SchedState) (x : BuddyState) :
    Agree true true true { s with heap := x } s :=
  ⟨fun _ => rfl, fun _ => rfl, fun _ => rfl, rfl, rfl, rfl, rfl, rfl, rfl, rfl⟩

theorem agree_vmm (s : SchedState) (x : VmmState) :
    Agree true true true { s with vmm := x } s :=
  ⟨fun _ => rfl, fun _ => rfl, fun _ => rfl, rfl, rfl, rfl, rfl, rfl, rfl, rfl⟩

theorem agree_trans {t1 p1 f1 t2 p2 f2 : Bool} {a b c : SchedState}
    (h1 : Agree t1 p1 f1 a b) (h2 : Agree t2 p2 f2 b c) :
    Agree (t1 && t2) (p1 && p2) (f1 && f2) a c := by
  refine ⟨?_, ?_, ?_, h1.head.trans h2.head, h1.tail.trans h2.tail, h1.cur.trans h2.cur,
    h1.proc.trans h2.proc, h1.plist.trans h2.plist, h1.pid.trans h2.pid, h1.tid.trans h2.tid⟩
  · intro h
    rw [Bool.and_eq_true] at h
    exact (h1.threads h.1).trans (h2.threads h.2)
  · intro h
    rw [Bool.and_eq_true] at h
    exact (h1.procs h.1).trans (h2.procs h.2)
  · intro h
    rw [Bool.and_eq_true] at h
    exact (h1.frames h.1).trans (h2.frames h.2)

theorem alloc_tid_spec (s : SchedState) :
    (alloc_tid s).2 = s.next_tid ∧ (alloc_tid s).1.next_tid = (s.next_tid + 1) % U32 ∧
    (alloc_tid s).1.threads = s.threads ∧ (alloc_tid s).1.procs = s.procs ∧
    (alloc_tid s).1.frames = s.frames ∧
    (alloc_tid s).1.ready_queue_head = s.ready_queue_head ∧
    (alloc_tid s).1.ready_queue_tail = s.ready_queue_tail ∧
    (alloc_tid s).1.current_thread = s.current_thread ∧
    (alloc_tid s).1.current_proc = s.current_proc ∧
    (alloc_tid s).1.process_list = s.process_list ∧
    (alloc_tid s).1.next_pid = s.next_pid :=
  ⟨rfl, rfl, rfl, rfl, rfl, rfl, rfl, rfl, rfl, rfl, rfl⟩

theorem process_create_spec (s : SchedState) (process : Nat) (name : List Nat) (priority : Int)
    (h : process ≠ 0) :
    (process_create s process name priority).threads = s.threads ∧
    (process_create s process name priority).frames = s.frames ∧
    (process_create s process name priority).heap = s.heap ∧
    (process_create s process name priority).vmm = s.vmm ∧
    (process_create s process name priority).current_thread = s.current_thread ∧
    (process_create s process name priority).current_proc = s.current_proc ∧
    (process_create s process name priority).next_tid = s.next_tid ∧
    (process_create s process name priority).ready_queue_head = s.ready_queue_head ∧
    (process_create s process name priority).ready_queue_tail = s.ready_queue_tail ∧
    (process_create s process name priority).next_pid = (s.next_pid + 1) % U32 ∧
    (process_create s process name priority).process_list = process ∧
    (process_create s process name priority).procs process
      = { zero_process with pid := s.next_pid, name := name.take 31, priority := priority,
                            next := s.process_list } ∧
    ∀ p, p ≠ process → (process_create s process name priority).procs p = s.procs p := by
  unfold process_create
  rw [if_neg h]
  refine ⟨rfl, rfl, rfl, rfl, rfl, rfl, rfl, rfl, rfl, rfl, rfl, ?_, ?_⟩
  · simp [add_to_process_list, alloc_pid, SchedState.setProc]
  · intro p hp
    simp [add_to_process_list, alloc_pid, SchedState.setProc, hp]

theorem setProc_same (s : SchedState) (p : Nat) (v : Process) :
    (s.setProc p v).procs p = v := by
  show (if p = p then v else s.procs p) = v
  rw [if_pos rfl]

theorem setProc_other (s : SchedState) (p x : Nat) (v : Process) (h : x ≠ p) :
    (s.setProc p v).procs x = s.procs x := by
  show (if x = p then v else s.procs x) = _
  rw [if_neg h]

theorem setFrame_same (s : SchedState) (f : Nat) (v : InterruptContext) :
    (s.setFrame f v).frames f = v := by
  show (if f = f then v else s.frames f) = v
  rw [if_pos rfl]

theorem setFrame_other (s : SchedState) (f x : Nat) (v : InterruptContext) (h : x ≠ f) :
    (s.setFrame f v).frames x = s.frames x := by
  show (if x = f then v else s.frames x) = _
  rw [if_neg h]

theorem process_fork_pre (fuel : Nat) (s : SchedState)
    (hcp : s.current_proc ≠ 0) (hct : s.current_thread ≠ 0)
    (hchild : fork_child s ≠ 0) (hclone : (vmm_clone_pagedir s.vmm).2 ≠ 0)
    (hthread : fork_thread s ≠ 0) (hstack : fork_kstack s ≠ 0)
    (hcur : fork_thread s ≠ s.current_thread)
    (hframe : fork_frame s ≠ (s.threads s.current_thread).trap_frame) :
    ∃ B, process_fork fuel s
        = some (scheduler_post B (fork_thread s), toInt32 (B.procs (fork_child s)).pid) ∧
      B.ready_queue_head = s.ready_queue_head ∧ B.ready_queue_tail = s.ready_queue_tail ∧
      B.current_thread = s.current_thread ∧ B.current_proc = s.current_proc ∧
      B.process_list = fork_child s ∧
      B.next_tid = (s.next_tid + 1) % U32 ∧ B.next_pid = (s.next_pid + 1) % U32 ∧
      (∀ x, x ≠ fork_thread s → B.threads x = s.threads x) ∧
      B.threads (fork_thread s)
        = { s.threads s.current_thread with
            tid := s.next_tid, proc := fork_child s, state := ThreadState.THREAD_READY,
            timeslice := DEFAULT_TIMESLICE, next := 0, kstack := fork_kstack s,
            kstack_size := KSTACK_SIZE, kstack_top := (fork_kstack s + KSTACK_SIZE) % U32,
            trap_frame := fork_frame s } ∧
      (∀ p, p ≠ fork_child s → B.procs p = s.procs p) ∧
      B.procs (fork_child s)
        = { zero_process with
            pid := s.next_pid,
            name := ((s.procs s.current_proc).name.take 25 ++ CHILD_SUFFIX).take 31,
            priority := (s.procs s.current_proc).priority,
            page_dir := (vmm_clone_pagedir s.vmm).2,
            main_thread := fork_thread s, thread_list := fork_thread s,
            next := s.process_list } ∧
      B.frames (fork_frame s)
        = { s.frames (s.threads s.current_thread).trap_frame with eax := 0 } ∧
      B.frames (s.threads s.current_thread).trap_frame
        = { s.frames (s.threads s.current_thread).trap_frame with eax := s.next_pid } ∧
      (∀ f, f ≠ fork_frame s → f ≠ (s.threads s.current_thread).trap_frame →
        B.frames f = s.frames f) ∧
      B.heap = (kmalloc (kmalloc (kmalloc s.heap PROCESS_SIZE).1 THREAD_SIZE).1 KSTACK_SIZE).1 := by
  have hcur' : s.current_thread ≠ fork_thread s := fun h => hcur h.symm
  have hframe' : (s.threads s.current_thread).trap_frame ≠ fork_frame s := fun h => hframe h.symm
  unfold fork_child at hchild
  unfold fork_thread at hthread
  unfold fork_kstack at hstack
  have e0 : ¬ (s.current_proc = 0 ∨ s.current_thread = 0) := by
    intro h
    rcases h with h | h
    · exact hcp h
    · exact hct h
  unfold process_fork
  rw [if_neg e0]
  lift_lets
  intro m1 child s1 child_name s2 c p3 s3 m2 child_thread s4 s5 m3 t6 s6 t7 s7 child_frame s8 t9
    s9 f10 s10 f11 s11 a t12 s12 p13 s13 x1 x2 x3
  have em1 : m1 = kmalloc s.heap PROCESS_SIZE := rfl
  have echild : child = m1.2 := rfl
  have e1 : s1 = { s with heap := m1.1 } := rfl
  have ename : child_name = (s1.procs s1.current_proc).name.take 25 ++ CHILD_SUFFIX := rfl
  have e2 : s2 = process_create s1 child child_name (s1.procs s1.current_proc).priority := rfl
  have ec : c = vmm_clone_pagedir s2.vmm := rfl
  have ep3 : p3 = s2.procs child := rfl
  have e3 : s3 = SchedState.setProc { s2 with vmm := c.1 } child { p3 with page_dir := c.2 } :=
    rfl
  have em2 : m2 = kmalloc s3.heap THREAD_SIZE := rfl
  have ect : child_thread = m2.2 := rfl
  have e4 : s4 = { s3 with heap := m2.1 } := rfl
  have e5 : s5 = s4.setThread child_thread (s4.threads s4.current_thread) := rfl
  have em3 : m3 = kmalloc s5.heap KSTACK_SIZE := rfl
  have et6 : t6 = s5.threads child_thread := rfl
  have e6 : s6 = SchedState.setThread { s5 with heap := m3.1 } child_thread
      { t6 with kstack := m3.2 } := rfl
  have et7 : t7 = s6.threads child_thread := rfl
  have e7 : s7 = s6.setThread child_thread
      { t7 with kstack_size := KSTACK_SIZE, kstack_top := (m3.2 + KSTACK_SIZE) % U32 } := rfl
  have ecf : child_frame
      = ((s7.threads child_thread).kstack_top + (U32 - CONTEXT_SIZE)) % U32 := rfl
  have e8 : s8 = s7.setFrame child_frame
      (s7.frames (s7.threads s7.current_thread).trap_frame) := rfl
  have et9 : t9 = s8.threads child_thread := rfl
  have e9 : s9 = s8.setThread child_thread { t9 with trap_frame := child_frame } := rfl
  have ef10 : f10 = s9.frames child_frame := rfl
  have e10 : s10 = s9.setFrame child_frame { f10 with eax := 0 } := rfl
  have ef11 : f11 = s10.frames (s10.threads s10.current_thread).trap_frame := rfl
  have e11 : s11 = s10.setFrame (s10.threads s10.current_thread).trap_frame
      { f11 with eax := (s10.procs child).pid } := rfl
  have ea : a = alloc_tid s11 := rfl
  have et12 : t12 = a.1.threads child_thread := rfl
  have e12 : s12 = a.1.setThread child_thread
      { t12 with
        tid := a.2, proc := child, state := ThreadState.THREAD_READY,
        timeslice := DEFAULT_TIMESLICE, next := (a.1.procs child).thread_list } := rfl
  have ep13 : p13 = s12.procs child := rfl
  have e13 : s13 = s12.setProc child
      { p13 with thread_list := child_thread, main_thread := child_thread } := rfl
  clear_value s13 p13 s12 t12 a s11 f11 s10 f10 s9 t9 s8 child_frame s7 t7 s6 t6 m3 s5 s4
    child_thread m2 s3 p3 c s2 child_name s1 child m1
  have hchild' : child ≠ 0 := by rw [echild, em1]; exact hchild
  have hchild_eq : child = fork_child s := by rw [echild, em1]; rfl
  obtain ⟨c1, c2, c3, c4, c5, c6, c7, c8, c9, c10, c11, c12, c13⟩ :=
    process_create_spec s1 child child_name (s1.procs s1.current_proc).priority hchild'
  rw [← e2] at c1 c2 c3 c4 c5 c6 c7 c8 c9 c10 c11 c12 c13
  -- the steps
  have A1 : Agree true true true s1 s := by rw [e1]; exact agree_heap _ _
  have A3 : Agree true false true s3 s2 := by
    rw [e3]
    exact agree_trans (agree_setProc _ _ _) (agree_vmm _ _)
  have A4 : Agree true true true s4 s3 := by rw [e4]; exact agree_heap _ _
  have A5 : Agree false true true s5 s4 := by rw [e5]; exact agree_setThread _ _ _
  have A6 : Agree false true true s6 s5 := by
    rw [e6]
    exact agree_trans (agree_setThread _ _ _) (agree_heap _ _)
  have A7 : Agree false true true s7 s6 := by rw [e7]; exact agree_setThread _ _ _
  have A8 : Agree true true false s8 s7 := by rw [e8]; exact agree_setFrame _ _ _
  have A9 : Agree false true true s9 s8 := by rw [e9]; exact agree_setThread _ _ _
  have A10 : Agree true true false s10 s9 := by rw [e10]; exact agree_setFrame _ _ _
  have A11 : Agree true true false s11 s10 := by rw [e11]; exact agree_setFrame _ _ _
  have A12 : Agree false true true s12 a.1 := by rw [e12]; exact agree_setThread _ _ _
  have A13 : Agree true false true s13 s12 := by rw [e13]; exact agree_setProc _ _ _
  have Aa : (a.2 = s11.next_tid ∧ a.1.next_tid = (s11.next_tid + 1) % U32 ∧
      a.1.threads = s11.threads ∧ a.1.procs = s11.procs ∧ a.1.frames = s11.frames ∧
      a.1.ready_queue_head = s11.ready_queue_head ∧
      a.1.ready_queue_tail = s11.ready_queue_tail ∧
      a.1.current_thread = s11.current_thread ∧ a.1.current_proc = s11.current_proc ∧
      a.1.process_list = s11.process_list ∧ a.1.next_pid = s11.next_pid) := by
    rw [ea]
    exact alloc_tid_spec s11
  obtain ⟨a1, a2, a3, a4, a5, a6, a7, a8, a9, a10, a11⟩ := Aa
  have G4 := agree_trans A4 A3
  have G7 := agree_trans A7 (agree_trans A6 (agree_trans A5 G4))
  have G10 := agree_trans A10 (agree_trans A9 (agree_trans A8 G7))
  have G11 := agree_trans A11 G10
  have G13 := agree_trans A13 A12
  -- the allocations
  have hs1heap : s1.heap = m1.1 := by rw [e1]
  have hs3heap : s3.heap = m1.1 := by
    rw [e3]
    show s2.heap = _
    rw [c3, hs1heap]
  have hs5heap : s5.heap = m2.1 := by
    rw [e5]
    show s4.heap = _
    rw [e4]
  have hcl : c = vmm_clone_pagedir s.vmm := by
    rw [ec, c4, e1]
  have hm2 : m2 = kmalloc (kmalloc s.heap PROCESS_SIZE).1 THREAD_SIZE := by
    rw [em2, hs3heap, em1]
  have hct_eq : child_thread = fork_thread s := by
    rw [ect, hm2]
    rfl
  have hm3 : m3 = kmalloc (kmalloc (kmalloc s.heap PROCESS_SIZE).1 THREAD_SIZE).1
      KSTACK_SIZE := by
    rw [em3, hs5heap, hm2]
  have hks : m3.2 = fork_kstack s := by
    rw [hm3]
    rfl
  have i1 : ¬ c.2 = 0 := by rw [hcl]; exact hclone
  have i2 : ¬ child_thread = 0 := by rw [hct_eq]; exact hthread
  have i3 : ¬ m3.2 = 0 := by rw [hks]; exact hstack
  rw [if_neg hchild', if_neg i1, if_neg i2, if_neg i3]
  have hcurct : s.current_thread ≠ child_thread := by rw [hct_eq]; exact hcur'
  -- the static variables
  have cur2 : s2.current_thread = s.current_thread := c5.trans A1.cur
  have cur4 : s4.current_thread = s.current_thread := G4.cur.trans cur2
  have cur7 : s7.current_thread = s.current_thread := G7.cur.trans cur2
  have cur10 : s10.current_thread = s.current_thread := G10.cur.trans cur2
  -- the threads
  have th4 : s4.threads = s.threads :=
    (A4.threads rfl).trans ((A3.threads rfl).trans (c1.trans (A1.threads rfl)))
  have TO5 : ∀ x, x ≠ child_thread → s5.threads x = s.threads x := by
    intro x hx
    rw [e5, setThread_other _ _ _ _ hx, th4]
  have T5 : s5.threads child_thread = s.threads s.current_thread := by
    rw [e5, setThread_same, cur4, th4]
  have TO6 : ∀ x, x ≠ child_thread → s6.threads x = s.threads x := by
    intro x hx
    rw [e6, setThread_other _ _ _ _ hx]
    exact TO5 x hx
  have T6 : s6.threads child_thread = { s.threads s.current_thread with kstack := m3.2 } := by
    rw [e6, setThread_same, et6, T5]
  have TO7 : ∀ x, x ≠ child_thread → s7.threads x = s.threads x := by
    intro x hx
    rw [e7, setThread_other _ _ _ _ hx]
    exact TO6 x hx
  have T7 : s7.threads child_thread
      = { s.threads s.current_thread with
          kstack := m3.2, kstack_size := KSTACK_SIZE,
          kstack_top := (m3.2 + KSTACK_SIZE) % U32 } := by
    rw [e7, setThread_same, et7, T6]
  have hcf : child_frame = fork_frame s := by
    rw [ecf, T7]
    show ((m3.2 + KSTACK_SIZE) % U32 + (U32 - CONTEXT_SIZE)) % U32 = _
    rw [hks]
    rfl
  have th8 : s8.threads = s7.threads := A8.threads rfl
  have TO9 : ∀ x, x ≠ child_thread → s9.threads x = s.threads x := by
    intro x hx
    rw [e9, setThread_other _ _ _ _ hx, th8]
    exact TO7 x hx
  have T9 : s9.threads child_thread
      = { s.threads s.current_thread with
          kstack := m3.2, kstack_size := KSTACK_SIZE,
          kstack_top := (m3.2 + KSTACK_SIZE) % U32, trap_frame := child_frame } := by
    rw [e9, setThread_same, et9, th8, T7]
  have th10 : s10.threads = s9.threads := A10.threads rfl
  have tha : a.1.threads = s9.threads := a3.trans ((A11.threads rfl).trans th10)
  -- the processes
  have P3 : s3.procs child
      = { zero_process with
          pid := s.next_pid, name := child_name.take 31,
          priority := (s.procs s.current_proc).priority, page_dir := c.2,
          next := s.process_list } := by
    rw [e3, setProc_same, ep3, c12, A1.pid, A1.plist, A1.procs rfl, A1.proc]
  have PO3 : ∀ x, x ≠ child → s3.procs x = s.procs x := by
    intro x hx
    rw [e3, setProc_other _ _ _ _ hx]
    show s2.procs x = _
    rw [c13 x hx, A1.procs rfl]
  have pr10 : s10.procs = s3.procs :=
    (A10.procs rfl).trans ((A9.procs rfl).trans ((A8.procs rfl).trans ((A7.procs rfl).trans
      ((A6.procs rfl).trans ((A5.procs rfl).trans (A4.procs rfl))))))
  have pra : a.1.procs = s3.procs := a4.trans ((A11.procs rfl).trans pr10)
  have pr12 : s12.procs = s3.procs := (A12.procs rfl).trans pra
  -- the trap frames
  have fr7 : s7.frames = s.frames :=
    (A7.frames rfl).trans ((A6.frames rfl).trans ((A5.frames rfl).trans ((A4.frames rfl).trans
      ((A3.frames rfl).trans (c2.trans (A1.frames rfl))))))
  have hpf7 : (s7.threads s7.current_thread).trap_frame
      = (s.threads s.current_thread).trap_frame := by
    rw [cur7, TO7 _ hcurct]
  have hne : (s.threads s.current_thread).trap_frame ≠ child_frame := by
    rw [hcf]
    exact hframe'
  have F8 : s8.frames child_frame = s.frames (s.threads s.current_thread).trap_frame := by
    rw [e8, setFrame_same, hpf7, fr7]
  have FO8 : ∀ f, f ≠ child_frame → s8.frames f = s.frames f := by
    intro f hf
    rw [e8, setFrame_other _ _ _ _ hf, fr7]
  have fr9 : s9.frames = s8.frames := A9.frames rfl
  have F10 : s10.frames child_frame
      = { s.frames (s.threads s.current_thread).trap_frame with eax := 0 } := by
    rw [e10, setFrame_same, ef10, fr9, F8]
  have FO10 : ∀ f, f ≠ child_frame → s10.frames f = s.frames f := by
    intro f hf
    rw [e10, setFrame_other _ _ _ _ hf, fr9]
    exact FO8 f hf
  have hpf10 : (s10.threads s10.current_thread).trap_frame
      = (s.threads s.current_thread).trap_frame := by
    rw [cur10, th10, TO9 _ hcurct]
  have hpid : (s10.procs child).pid = s.next_pid := by
    rw [pr10, P3]
  have F11 : s11.frames (s.threads s.current_thread).trap_frame
      = { s.frames (s.threads s.current_thread).trap_frame with eax := s.next_pid } := by
    rw [e11, ef11, hpf10, setFrame_same, hpid, FO10 _ hne]
  have F11c : s11.frames child_frame
      = { s.frames (s.threads s.current_thread).trap_frame with eax := 0 } := by
    rw [e11, hpf10, setFrame_other _ _ _ _ (fun h => hne h.symm), F10]
  have FO11 : ∀ f, f ≠ child_frame → f ≠ (s.threads s.current_thread).trap_frame →
      s11.frames f = s.frames f := by
    intro f hf hf2
    rw [e11, hpf10, setFrame_other _ _ _ _ hf2, FO10 _ hf]
  have fr13 : s13.frames = s11.frames :=
    (A13.frames rfl).trans ((A12.frames rfl).trans a5)
  -- the child thread and process
  have ha2 : a.2 = s.next_tid := a1.trans (G11.tid.trans (c7.trans A1.tid))
  have hnx : (a.1.procs child).thread_list = 0 := by
    rw [pra, P3]
    rfl
  have TO12 : ∀ x, x ≠ child_thread → s12.threads x = s.threads x := by
    intro x hx
    rw [e12, setThread_other _ _ _ _ hx, tha]
    exact TO9 x hx
  have T12 : s12.threads child_thread
      = { s.threads s.current_thread with
          tid := s.next_tid, proc := child, state := ThreadState.THREAD_READY,
          timeslice := DEFAULT_TIMESLICE, next := 0, kstack := m3.2,
          kstack_size := KSTACK_SIZE, kstack_top := (m3.2 + KSTACK_SIZE) % U32,
          trap_frame := child_frame } := by
    rw [e12, setThread_same, et12, tha, T9, ha2, hnx]
  have P13 : s13.procs child
      = { zero_process with
          pid := s.next_pid, name := child_name.take 31,
          priority := (s.procs s.current_proc).priority, page_dir := c.2,
          main_thread := child_thread, thread_list := child_thread,
          next := s.process_list } := by
    rw [e13, setProc_same, ep13, pr12, P3]
  have PO13 : ∀ x, x ≠ child → s13.procs x = s.procs x := by
    intro x hx
    rw [e13, setProc_other _ _ _ _ hx, pr12]
    exact PO3 x hx
  have th13 : s13.threads = s12.threads := A13.threads rfl
  have hname : child_name = (s.procs s.current_proc).name.take 25 ++ CHILD_SUFFIX := by
    rw [ename, A1.procs rfl, A1.proc]
  have hheap : s13.heap = m3.1 := by
    rw [e13, e12, ea, e11, e10, e9, e8, e7, e6]
    rfl
  refine ⟨s13, ?_, ?_, ?_, ?_, ?_, ?_, ?_, ?_, ?_, ?_, ?_, ?_, ?_, ?_, ?_, ?_⟩
  · rw [hct_eq, hchild_eq]
  · exact G13.head.trans (a6.trans (G11.head.trans (c8.trans A1.head)))
  · exact G13.tail.trans (a7.trans (G11.tail.trans (c9.trans A1.tail)))
  · exact G13.cur.trans (a8.trans (G11.cur.trans (c5.trans A1.cur)))
  · exact G13.proc.trans (a9.trans (G11.proc.trans (c6.trans A1.proc)))
  · rw [← hchild_eq]
    exact G13.plist.trans (a10.trans (G11.plist.trans c11))
  · rw [G13.tid, a2, G11.tid, c7, A1.tid]
  · rw [G13.pid, a11, G11.pid, c10, A1.pid]
  · intro x hx
    rw [← hct_eq] at hx
    rw [th13]
    exact TO12 x hx
  · rw [← hct_eq, ← hks, ← hcf, ← hchild_eq, th13]
    exact T12
  · intro x hx
    rw [← hchild_eq] at hx
    exact PO13 x hx
  · rw [← hct_eq, ← hcl, ← hchild_eq, ← hname]
    exact P13
  · rw [← hcf, fr13]
    exact F11c
  · rw [fr13]
    exact F11
  · intro f hf hf2
    rw [← hcf] at hf
    rw [fr13]
    exact FO11 f hf hf2
  · rw [hheap, hm3]

theorem scheduler_post_rest (s : SchedState) (c : Nat) :
    (scheduler_post s c).frames = s.frames ∧
    (scheduler_post s c).process_list = s.process_list ∧
    (scheduler_post s c).next_tid = s.next_tid ∧
    (scheduler_post s c).next_pid = s.next_pid ∧
    (scheduler_post s c).heap = s.heap := by
  unfold scheduler_post
  simp only [SchedState.setThread]
  split_ifs <;> exact ⟨rfl, rfl, rfl, rfl, rfl⟩

theorem procChain_congr (s s2 : SchedState) :
    ∀ (l : List Nat) (a : Nat), ProcChain s a l →
      (∀ x, x ∈ l → (s2.procs x).next = (s.procs x).next) → ProcChain s2 a l := by
  intro l
  induction l with
  | nil => intro a h _; exact h
  | cons t ts ih =>
    intro a h hn
    obtain ⟨h1, h2, h3⟩ := h
    refine ⟨h1, h2, ?_⟩
    rw [hn t (List.mem_cons_self _ _)]
    exact ih _ h3 (fun x hx => hn x (List.mem_cons_of_mem _ hx))

theorem allocAt_inodeOk {L : HfsLayout} {h h2 : HfsData} {ino ino2 : Inode} {k nb : Nat}
    (hs : SbOk L h) (ho : InodeOk L h ino) (a : AllocAt L h ino k h2 ino2 nb) :
    InodeOk L h2 ino2 := by
  have hnb0 : nb ≠ 0 := by
    have := hs.data_pos
    have := a.fresh_ge
    omega
  have hold : ∀ k2, k2 ≠ k → bmap L h ino k2 ≠ nb := by
    intro k2 _ e
    have hu := ho.ptrs _ (refsBlock_of_bmap L h ino k2 (by rw [e]; exact hnb0))
    rw [e] at hu
    exact a.not_used hu
  refine ⟨a.ptrs, a.ind_sep, ?_⟩
  intro k1 k2 h0 e
  by_cases e1 : k1 = k
  · by_cases e2 : k2 = k
    · rw [e1, e2]
    · exfalso
      rw [e1, a.bmap_new, a.bmap_old k2 e2] at e
      exact hold k2 e2 e.symm
  · by_cases e2 : k2 = k
    · exfalso
      rw [e2, a.bmap_new, a.bmap_old k1 e1] at e
      exact hold k1 e1 e
    · rw [a.bmap_old k1 e1] at h0 e
      rw [a.bmap_old k2 e2] at e
      exact ho.inj k1 k2 h0 e

theorem allocAt_file_byte {L : HfsLayout} {h h2 : HfsData} {ino ino2 : Inode} {k nb : Nat}
    (hs : SbOk L h) (ho : InodeOk L h ino) (a : AllocAt L h ino k h2 ino2 nb)
    (hk : bmap L h ino k = 0) (p : Nat) :
    file_byte L h2 ino2 p = file_byte L h ino p := by
  unfold file_byte
  by_cases e : p / L.BLOCK_SIZE = k
  · rw [e, a.bmap_new, hk, if_pos rfl, a.zero]
    have hnb0 : nb ≠ 0 := by
      have := hs.data_pos
      have := a.fresh_ge
      omega
    rw [if_neg hnb0]
    rfl
  · rw [a.bmap_old _ e]
    by_cases e0 : bmap L h ino (p / L.BLOCK_SIZE) = 0
    · rw [if_pos e0, if_pos e0]
    · rw [if_neg e0, if_neg e0]
      have hd := bmap_dataBlockOf L h ino _ e0
      rw [a.frame.blocks_keep _ (ho.ptrs _ ⟨e0, Or.inr hd⟩)
        (fun x => ho.ind_sep (x ▸ hd))]

theorem synced_reload (h : HfsData) (hsync : h.Synced) :
    { h with block_bitmap := h.device.blocks h.sb.s_block_bitmap } = h := by
  have e : h.device.blocks h.sb.s_block_bitmap = h.block_bitmap := hsync.1.symm
  rw [e]

theorem alloc_block_full (L : HfsLayout) (h : HfsData) (hs : SbOk L h) (hsync : h.Synced)
    (hfree : h.free_blocks = 0) : alloc_block h = (h, -1) := by
  have hcnt : h.sb.s_blocks_count ≤ 2147483648 := by have := hs.blocks_le_u16; omega
  have hbb : h.sb.s_block_bitmap < h.device.num_blocks := by
    have := hs.bbm_lt
    have := hs.data_le
    have := hs.blocks_le_dev
    omega
  rcases find_free_bit_from_spec h.block_bitmap h.sb.s_data_blocks_start
      h.sb.s_blocks_count hcnt with ⟨b, h1, h2, h3, _⟩ | ⟨_, h4⟩
  · exfalso
    have hpos : 0 < h.free_blocks := by
      unfold HfsData.free_blocks
      rw [List.countP_pos_iff]
      refine ⟨b, List.mem_range.2 h2, ?_⟩
      simp only [Bool.and_eq_true, decide_eq_true_eq]
      exact ⟨h1, by rw [← hsync.1]; exact h3⟩
    omega
  · unfold alloc_block
    simp only [h4]
    rw [blkread_of_lt _ _ hbb]
    have e : h.device.blocks h.sb.s_block_bitmap = h.block_bitmap := hsync.1.symm
    simp only [e, h4]
    rfl

theorem free_block_eq (L : HfsLayout) (h : HfsData) (hs : SbOk L h) (b : Nat)
    (h1 : h.sb.s_data_blocks_start ≤ b) (h2 : b < h.sb.s_blocks_count) :
    free_block h b = h.unmarkBlock b := by
  have hbb : h.sb.s_block_bitmap < h.device.num_blocks := by
    have := hs.bbm_lt
    have := hs.data_le
    have := hs.blocks_le_dev
    omega
  unfold free_block
  rw [if_neg (by omega)]
  simp only []
  rw [blkwrite_of_lt _ _ _ hbb]
  rfl

theorem allocFail_same (L : HfsLayout) (h : HfsData) (hs : SbOk L h) (hsync : h.Synced) :
    AllocFail L h h :=
  ⟨hs, hsync, fun _ => rfl, rfl, rfl, rfl, fun _ _ => rfl, fun _ => rfl⟩

/-- Handing back the block that was just allocated and zeroed leaves the file
system as it was but for the contents of that free block. -/
theorem unmark_fresh {L : HfsLayout} {h h1 : HfsData} {nb : Nat} (f : FreshBlock L h h1 nb)
    (hs : SbOk L h) (hsync : h.Synced) : AllocFail L h (h1.unmarkBlock nb) := by
  obtain ⟨p1, p2, p3, p4, p5, p6, p7, p8⟩ := f.props hs hsync
  have hbb := hs.bbm_lt
  have hib := hs.ibm_lt
  have hsb : h1.sb = h.sb := p4.sb_eq
  have hbm : h1.block_bitmap = set_bit h.block_bitmap nb := by
    rw [f.eq]
    rfl
  have hdisk : (h1.unmarkBlock nb).disk_block_bitmap = clear_bit h1.block_bitmap nb := by
    show (h1.device.write h1.sb.s_block_bitmap _).blocks h1.sb.s_block_bitmap = _
    rw [write_blocks_same]
  have hother : ∀ x, x ≠ h.sb.s_block_bitmap →
      (h1.unmarkBlock nb).device.blocks x = h1.device.blocks x := by
    intro x hx
    show (h1.device.write h1.sb.s_block_bitmap _).blocks x = _
    rw [write_blocks_other _ _ _ _ (by rw [hsb]; exact hx)]
  have hs2 : SbOk L (h1.unmarkBlock nb) := p1.of_eq rfl rfl
  have hib2 : (h1.unmarkBlock nb).disk_inode_bitmap = h1.disk_inode_bitmap := by
    show (h1.unmarkBlock nb).device.blocks h1.sb.s_inode_bitmap = _
    rw [hsb, hother _ (fun e => hs.bbm_ne_ibm e.symm), ← hsb]
    rfl
  have him : h1.inode_bitmap = h.inode_bitmap := by
    rw [f.eq]
    rfl
  refine ⟨hs2, ⟨hdisk.symm, ?_⟩, ?_, hsb, by rw [f.eq]; rfl, ?_, ?_, ?_⟩
  · show h1.inode_bitmap = (h1.unmarkBlock nb).disk_inode_bitmap
    rw [hib2]
    exact p2.2
  · intro b
    rw [hdisk, hbm, get_bit_clear_bit, get_bit_set_bit, hsync.1]
    by_cases e : b = nb
    · rw [if_pos e, e, f.clear]
    · rw [if_neg e, if_neg e]
  · rw [hib2, ← p2.2, him]
    exact hsync.2
  · intro b hb
    have := hb.1
    rw [hother b (by omega)]
    exact p4.blocks_keep b hb (fun x => x)
  · intro i
    rw [← p4.inodes_keep i (fun x => x)]
    refine read_inode_congr L h1 (h1.unmarkBlock nb) p1 ⟨rfl, rfl⟩ ?_ i
    intro j hj
    have := p1.tb_ne_bbm j hj
    show (h1.device.write h1.sb.s_block_bitmap _).blocks _ = _
    rw [write_blocks_other _ _ _ _ this]

theorem allocFail_frame {L : HfsLayout} {h h2 : HfsData} (a : AllocFail L h h2) :
    Frame L h h2 (fun _ => False) (fun _ => False) :=
  ⟨a.sb_eq, a.nb_eq, fun b hb => by rw [a.bits b]; exact hb,
    fun i hi => by rw [a.ibits]; exact hi, fun b hb _ => a.blocks_keep b hb,
    fun i _ => a.inodes_keep i⟩

theorem allocFail_free_blocks {L : HfsLayout} {h h2 : HfsData} (a : AllocFail L h h2) :
    h2.free_blocks = h.free_blocks := by
  unfold HfsData.free_blocks
  rw [a.sb_eq]
  apply List.countP_congr
  intro b _
  rw [a.bits b]

theorem allocFail_dataUsed {L : HfsLayout} {h h2 : HfsData} (a : AllocFail L h h2) (b : Nat) :
    h2.dataUsed b ↔ h.dataUsed b := by
  unfold HfsData.dataUsed
  rw [a.sb_eq, a.bits b]

theorem allocFail_inodeOk {L : HfsLayout} {h h2 : HfsData} {ino : Inode}
    (a : AllocFail L h h2) (ho : InodeOk L h ino) :
    InodeOk L h2 ino ∧ (∀ k, bmap L h2 ino k = bmap L h ino k) ∧
      ∀ p, file_byte L h2 ino p = file_byte L h ino p := by
  have e : ino.i_single_indirect_pointer ≠ 0 →
      h2.device.blocks ino.i_single_indirect_pointer
        = h.device.blocks ino.i_single_indirect_pointer := fun hi =>
    a.blocks_keep _ (ho.ptrs _ ⟨hi, Or.inl rfl⟩)
  have hb := bmap_congr L h h2 ino e
  refine ⟨⟨?_, ?_, ?_⟩, hb, ?_⟩
  · intro b hr
    exact (allocFail_dataUsed a b).2 (ho.ptrs b ((refsBlock_congr L h h2 ino e b).1 hr))
  · intro hd
    exact ho.ind_sep ((dataBlockOf_congr L h h2 ino e _).1 hd)
  · intro k k2 h0 e2
    rw [hb] at h0 e2
    rw [hb] at e2
    exact ho.inj k k2 h0 e2
  · intro p
    unfold file_byte
    rw [hb]
    by_cases e0 : bmap L h ino (p / L.BLOCK_SIZE) = 0
    · rw [if_pos e0, if_pos e0]
    · rw [if_neg e0, if_neg e0,
        a.blocks_keep _ (ho.ptrs _ (refsBlock_of_bmap L h ino _ e0))]

/-- Without device errors `alloc_block_for_offset` either succeeds, or it
fails for want of room and leaves the file system as it was. -/
theorem alloc_block_for_offset_cases (L : HfsLayout) (h : HfsData) (ino : Inode) (off : Nat)
    (hs : SbOk L h) (hsync : h.Synced) (hv : ino.Valid L) (hp : PtrsOk L h ino)
    (hsep : ¬ dataBlockOf L h ino ino.i_single_indirect_pointer) :
    (∃ (h2 : HfsData) (ino2 : Inode) (nb : Nat),
      alloc_block_for_offset L h ino off = (h2, ino2, (nb : Int)) ∧
      AllocAt L h ino (off / L.BLOCK_SIZE) h2 ino2 nb) ∨
    (∃ h2 : HfsData, alloc_block_for_offset L h ino off = (h2, ino, -1) ∧
      AllocFail L h h2 ∧ NoRoom L h ino (off / L.BLOCK_SIZE)) := by
  by_cases hfree : h.free_blocks = 0
  · right
    refine ⟨h, ?_, allocFail_same L h hs hsync, Or.inl hfree⟩
    unfold alloc_block_for_offset
    simp only [alloc_block_full L h hs hsync hfree]
    rw [if_pos (by decide)]
  obtain ⟨nb, ha, hw, f⟩ := alloc_zero_spec L h hs hsync (by omega)
  obtain ⟨p1, p2, p3, p4, p5, p6, p7, p8⟩ := f.props hs hsync
  have hnb := dataUsed_lt p1 p6
  have hu : toU32 (nb : Int) = nb := toU32_natCast nb (by omega)
  have hfb : free_block ((h.markBlock nb).setBlock nb zero_block) nb
      = ((h.markBlock nb).setBlock nb zero_block).unmarkBlock nb :=
    free_block_eq L _ p1 nb p6.1 p6.2.1
  unfold alloc_block_for_offset
  simp only [ha, natCast_not_neg, if_false, hu, hw]
  by_cases hd : off / L.BLOCK_SIZE < L.INODE_DIRECT_POINTERS
  · left
    rw [if_pos hd]
    exact ⟨_, _, nb, rfl, allocAt_direct L h _ ino _ nb hs hsync hv hp hsep hd f⟩
  · rw [if_neg hd]
    by_cases hcap : off / L.BLOCK_SIZE - L.INODE_DIRECT_POINTERS
        ≥ L.INODE_INDIRECT_POINTERS_PER_BLOCK
    · right
      rw [if_pos hcap]
      refine ⟨_, ?_, unmark_fresh f hs hsync, Or.inr (Or.inr (by omega))⟩
      exact congrArg (fun x => (x, ino, (-1 : Int))) hfb
    · rw [if_neg hcap]
      by_cases hi : ino.i_single_indirect_pointer = 0
      · by_cases h2f : 2 ≤ h.free_blocks
        · left
          obtain ⟨ib, hb, hbw, g⟩ := alloc_zero_spec L _ p1 p2 (by omega)
          obtain ⟨q1, q2, q3, q4, q5, q6, q7, q8⟩ := g.props p1 p2
          have hib := dataUsed_lt q1 q6
          have hub : toU32 (ib : Int) = ib := toU32_natCast ib (by omega)
          have hb' : alloc_block { h.markBlock nb with
              device := ((h.markBlock nb).setBlock nb zero_block).device }
                = (((h.markBlock nb).setBlock nb zero_block).markBlock ib, (ib : Int)) := hb
          simp only [hi, if_true, hb', natCast_not_neg, if_false, hub]
          have hbw' : blkwrite (((h.markBlock nb).setBlock nb zero_block).markBlock ib).device ib
              zero_block = some ((((h.markBlock nb).setBlock nb zero_block).markBlock ib).setBlock
                ib zero_block).device := hbw
          simp only [hbw']
          rw [blkread_of_lt _ _ hib.2.2]
          simp only []
          rw [blkwrite_of_lt _ _ _ hib.2.2]
          simp only [q5]
          exact ⟨_, _, nb, rfl, allocAt_new_indirect L h _ _ ino _ nb ib hs hsync hv hp
            (by omega) (by omega) hi f g⟩
        · right
          have h0 : ((h.markBlock nb).setBlock nb zero_block).free_blocks = 0 := by omega
          have hb := alloc_block_full L _ p1 p2 h0
          have hb' : alloc_block { h.markBlock nb with
              device := ((h.markBlock nb).setBlock nb zero_block).device }
                = ((h.markBlock nb).setBlock nb zero_block, -1) := hb
          simp only [hi, if_true, hb']
          rw [if_pos (by decide)]
          refine ⟨_, ?_, unmark_fresh f hs hsync, Or.inr (Or.inl ⟨by omega, by omega, hi⟩)⟩
          exact congrArg (fun x => (x, ino, (-1 : Int))) hfb
      · left
        have hiu := dataUsed_lt hs (hp _ ⟨hi, Or.inl rfl⟩)
        have hnbk : ino.i_single_indirect_pointer
            < ((h.markBlock nb).setBlock nb zero_block).device.num_blocks := hiu.2.2
        simp only [hi, if_false]
        rw [blkread_of_lt _ _ hnbk]
        simp only []
        rw [blkwrite_of_lt _ _ _ hnbk]
        exact ⟨_, _, nb, rfl, allocAt_indirect L h _ ino _ nb hs hsync hv hp hsep
          (by omega) (by omega) hi f⟩

/-! ## File system: writes to the inode and to a block of a file -/

theorem bmap_with_size (L : HfsLayout) (h : HfsData) (ino : Inode) (s k : Nat) :
    bmap L h { ino with i_size := s } k = bmap L h ino k := rfl

theorem file_byte_with_size (L : HfsLayout) (h : HfsData) (ino : Inode) (s p : Nat) :
    file_byte L h { ino with i_size := s } p = file_byte L h ino p := rfl

theorem inodeOk_with_size {L : HfsLayout} {h : HfsData} {ino : Inode} (ho : InodeOk L h ino)
    (s : Nat) : InodeOk L h { ino with i_size := s } :=
  ⟨fun b hb => ho.ptrs b hb, fun hd => ho.ind_sep hd, fun k k2 h0 e => ho.inj k k2 h0 e⟩

theorem valid_with_size {L : HfsLayout} {ino : Inode} (hv : ino.Valid L) (s : Nat)
    (hs : s < 4294967296) : Inode.Valid L { ino with i_size := s } :=
  ⟨hv.dir_lt, hs, hv.len, hv.ptr_lt, hv.ind_lt⟩

/-- A consistent inode stays consistent, with the same blocks and bytes, in a
state that leaves its blocks alone. -/
theorem inodeOk_of_frame {L : HfsLayout} {h h2 : HfsData} {X Y : Nat → Prop} {ino : Inode}
    (ho : InodeOk L h ino) (f : Frame L h h2 X Y)
    (hx : ∀ b, refsBlock L h ino b → ¬ X b) :
    InodeOk L h2 ino ∧ (∀ k, bmap L h2 ino k = bmap L h ino k) ∧
      (∀ p, file_byte L h2 ino p = file_byte L h ino p) ∧
      ∀ b, refsBlock L h2 ino b ↔ refsBlock L h ino b := by
  obtain ⟨q1, q2, q3⟩ := ptrsOk_of_frame ho.ptrs f
    (fun hi => hx _ ⟨hi, Or.inl rfl⟩)
  have e : ino.i_single_indirect_pointer ≠ 0 →
      h2.device.blocks ino.i_single_indirect_pointer
        = h.device.blocks ino.i_single_indirect_pointer := fun hi =>
    f.blocks_keep _ (ho.ptrs _ ⟨hi, Or.inl rfl⟩) (hx _ ⟨hi, Or.inl rfl⟩)
  refine ⟨⟨q1, fun hd => ho.ind_sep ((dataBlockOf_congr L h h2 ino e _).1 hd), ?_⟩, q2, ?_, q3⟩
  · intro k k2 h0 e2
    rw [q2] at h0 e2
    rw [q2] at e2
    exact ho.inj k k2 h0 e2
  · intro p
    unfold file_byte
    rw [q2]
    by_cases e0 : bmap L h ino (p / L.BLOCK_SIZE) = 0
    · rw [if_pos e0, if_pos e0]
    · rw [if_neg e0, if_neg e0]
      have hr := refsBlock_of_bmap L h ino _ e0
      rw [f.blocks_keep _ (ho.ptrs _ hr) (hx _ hr)]

/-- Writing a consistent inode into the inode table. -/
theorem fileOk_setInode (L : HfsLayout) (hL : L.Ok) (h : HfsData) (n : Nat) (ino : Inode)
    (hs : SbOk L h) (hsync : h.Synced) (hn : n < h.sb.s_inodes_count) (hv : ino.Valid L)
    (ho : InodeOk L h ino) :
    write_inode L h n ino = (h.setInode L n ino, 0) ∧
      FileOk L (h.setInode L n ino) n ino ∧
      (∀ k, bmap L (h.setInode L n ino) ino k = bmap L h ino k) ∧
      (∀ p, file_byte L (h.setInode L n ino) ino p = file_byte L h ino p) ∧
      (h.setInode L n ino).free_blocks = h.free_blocks ∧
      Frame L h (h.setInode L n ino) (fun _ => False) (fun j => j = n) ∧
      ∀ b, refsBlock L (h.setInode L n ino) ino b ↔ refsBlock L h ino b := by
  have f := setInode_frame L hL h hs n hn ino hv
  obtain ⟨q1, q2, q3, q4⟩ := inodeOk_of_frame ho f (fun _ _ x => x)
  have hs2 : SbOk L (h.setInode L n ino) := hs.of_eq rfl rfl
  have e1 := setInode_disk_block_bitmap L h hs n hn ino
  have e2 := setInode_disk_inode_bitmap L h hs n hn ino
  refine ⟨write_inode_spec L h hs n hn ino, ⟨hs2, ⟨?_, ?_⟩, hn, ?_, hv, q1⟩, q2, q3,
    free_blocks_congr h _ rfl e1, f, q4⟩
  · rw [e1]; exact hsync.1
  · rw [e2]; exact hsync.2
  · rw [read_inode_setInode L hL h hs n n hn ino hv, if_pos rfl]

/-- Overwriting the block of block index `k` of a file. -/
theorem fileOk_setBlock (L : HfsLayout) (h : HfsData) (n : Nat) (ino : Inode) (k : Nat)
    (blk : Nat → Nat) (F : FileOk L h n ino) (hk : bmap L h ino k ≠ 0) :
    FileOk L (h.setBlock (bmap L h ino k) blk) n ino ∧
      (∀ k2, bmap L (h.setBlock (bmap L h ino k) blk) ino k2 = bmap L h ino k2) ∧
      (∀ p, file_byte L (h.setBlock (bmap L h ino k) blk) ino p
        = if p / L.BLOCK_SIZE = k then blk (p % L.BLOCK_SIZE) else file_byte L h ino p) ∧
      (h.setBlock (bmap L h ino k) blk).free_blocks = h.free_blocks ∧
      Frame L h (h.setBlock (bmap L h ino k) blk) (refsBlock L h ino) (fun _ => False) ∧
      ∀ b, refsBlock L (h.setBlock (bmap L h ino k) blk) ino b ↔ refsBlock L h ino b := by
  have hd := bmap_dataBlockOf L h ino k hk
  have hu := F.ok.ptrs _ ⟨hk, Or.inr hd⟩
  have hbb := F.sb.bbm_lt
  have f := setBlock_frame L h F.sb (bmap L h ino k) blk hu.1
  obtain ⟨q1, q2, q3⟩ := ptrsOk_of_frame F.ok.ptrs f
    (fun _ x => F.ok.ind_sep (x ▸ hd))
  have e : ino.i_single_indirect_pointer ≠ 0 →
      (h.setBlock (bmap L h ino k) blk).device.blocks ino.i_single_indirect_pointer
        = h.device.blocks ino.i_single_indirect_pointer := fun hi =>
    f.blocks_keep _ (F.ok.ptrs _ ⟨hi, Or.inl rfl⟩) (fun x => F.ok.ind_sep (x ▸ hd))
  have hs2 : SbOk L (h.setBlock (bmap L h ino k) blk) := F.sb.of_eq rfl rfl
  refine ⟨⟨hs2, synced_setBlock F.synced L F.sb _ _ hu.1, F.lt, ?_, F.valid, q1,
    fun hd2 => F.ok.ind_sep ((dataBlockOf_congr L h _ ino e _).1 hd2), ?_⟩, q2, ?_,
    setBlock_free_blocks h _ _ (by have := hu.1; omega),
    f.mono (fun b hb => hb ▸ refsBlock_of_bmap L h ino k hk) (fun _ x => x), q3⟩
  · rw [f.inodes_keep n (fun x => x)]
    exact F.disk
  · intro k1 k2 h0 e2
    rw [q2] at h0 e2
    rw [q2] at e2
    exact F.ok.inj k1 k2 h0 e2
  · intro p
    unfold file_byte
    rw [q2]
    by_cases ek : p / L.BLOCK_SIZE = k
    · rw [if_pos ek, ek, if_neg hk, setBlock_blocks_same]
    · rw [if_neg ek]
      by_cases e0 : bmap L h ino (p / L.BLOCK_SIZE) = 0
      · rw [if_pos e0, if_pos e0]
      · rw [if_neg e0, if_neg e0]
        rw [setBlock_blocks_other _ _ _ _ (fun e3 => ek (F.ok.inj _ _ e0 e3))]

/-! ## File system: the loop of `hfs_write` -/

theorem block_split (bs a d : Nat) (hbs : 0 < bs) (h : a % bs + d < bs) :
    (a + d) / bs = a / bs ∧ (a + d) % bs = a % bs + d := by
  have e : a + d = (a % bs + d) + bs * (a / bs) := by
    have := Nat.mod_add_div a bs
    omega
  rw [e, Nat.add_mul_div_left _ _ hbs, Nat.add_mul_mod_self_left, Nat.div_eq_of_lt h,
    Nat.mod_eq_of_lt h, Nat.zero_add]
  exact ⟨rfl, rfl⟩

theorem block_outside (bs a p n : Nat) (hk : p / bs = a / bs) (hp : p < a ∨ a + n ≤ p) :
    ¬ (a % bs ≤ p % bs ∧ p % bs < a % bs + n) := by
  have h1 := Nat.mod_add_div a bs
  have h2 := Nat.mod_add_div p bs
  rw [hk] at h2
  omega

theorem hfs_write_exit (L : HfsLayout) (hL : L.Ok) (h : HfsData) (n : Nat) (ino : Inode)
    (F : FileOk L h n ino) (c : Prop) [Decidable c] (s : Nat) (hs : s < 4294967296) :
    ∃ ino1, ino1 = (if c then { ino with i_size := s } else ino) ∧
      (write_inode L h n ino1).1 = h.setInode L n ino1 ∧
      FileOk L (h.setInode L n ino1) n ino1 ∧
      (∀ k, bmap L (h.setInode L n ino1) ino1 k = bmap L h ino k) ∧
      (∀ p, file_byte L (h.setInode L n ino1) ino1 p = file_byte L h ino p) ∧
      (h.setInode L n ino1).free_blocks = h.free_blocks ∧
      ino1.i_single_indirect_pointer = ino.i_single_indirect_pointer ∧
      ino1.i_is_directory = ino.i_is_directory ∧
      Frame L h (h.setInode L n ino1) (fun _ => False) (fun j => j = n) ∧
      ∀ b, refsBlock L (h.setInode L n ino1) ino1 b ↔ refsBlock L h ino b := by
  by_cases hc : c
  · obtain ⟨q1, q2, q3, q4, q5, q6, q7⟩ := fileOk_setInode L hL h n { ino with i_size := s }
      F.sb F.synced F.lt (valid_with_size F.valid s hs) (inodeOk_with_size F.ok s)
    refine ⟨_, rfl, ?_⟩
    rw [if_pos hc]
    exact ⟨by rw [q1], q2, q3, q4, q5, rfl, rfl, q6, q7⟩
  · obtain ⟨q1, q2, q3, q4, q5, q6, q7⟩ := fileOk_setInode L hL h n ino F.sb F.synced F.lt
      F.valid F.ok
    refine ⟨_, rfl, ?_⟩
    rw [if_neg hc]
    exact ⟨by rw [q1], q2, q3, q4, q5, rfl, rfl, q6, q7⟩

/-- The number of bytes that one pass of the loops of `hfs_read` and
`hfs_write` handles at file position `pos` when `rest` bytes are left: up to
the end of the block. -/
theorem chunk_props (bs pos rest : Nat) (hbs : 0 < bs) (hr : 0 < rest) :
    0 < (if bs - pos % bs > rest then rest else bs - pos % bs) ∧
    (if bs - pos % bs > rest then rest else bs - pos % bs) ≤ rest ∧
    pos % bs + (if bs - pos % bs > rest then rest else bs - pos % bs) ≤ bs := by
  have := Nat.mod_lt pos hbs
  split_ifs <;> omega

/-- A pass of the loop of `hfs_write` at a position whose block exists. -/
theorem hfs_write_loop_existing (L : HfsLayout) (n offset size : Nat)
    (buf : Nat → Nat) (fuel : Nat) (h : HfsData) (ino : Inode) (w : Nat)
    (F : FileOk L h n ino) (hw : w < size) (hfit : offset + size < 2147483648)
    (hb : bmap L h ino ((offset + w) / L.BLOCK_SIZE) ≠ 0) :
    ∃ blk0, (∀ x, ¬ ((offset + w) % L.BLOCK_SIZE = 0 ∧
        (if L.BLOCK_SIZE - (offset + w) % L.BLOCK_SIZE > size - w then size - w
          else L.BLOCK_SIZE - (offset + w) % L.BLOCK_SIZE) = L.BLOCK_SIZE) →
        blk0 x = h.device.blocks (bmap L h ino ((offset + w) / L.BLOCK_SIZE)) x) ∧
    hfs_write_loop L n offset size buf (fuel + 1) h ino w
      = hfs_write_loop L n offset size buf fuel
          (h.setBlock (bmap L h ino ((offset + w) / L.BLOCK_SIZE))
            (copy_bytes blk0 ((offset + w) % L.BLOCK_SIZE) buf w
              (if L.BLOCK_SIZE - (offset + w) % L.BLOCK_SIZE > size - w then size - w
                else L.BLOCK_SIZE - (offset + w) % L.BLOCK_SIZE)))
          ino
          (w + (if L.BLOCK_SIZE - (offset + w) % L.BLOCK_SIZE > size - w then size - w
                else L.BLOCK_SIZE - (offset + w) % L.BLOCK_SIZE)) := by
  have hco : (offset + w) % U32 = offset + w := Nat.mod_eq_of_lt (by unfold U32; omega)
  have hu := dataUsed_lt F.sb (F.ok.ptrs _ (refsBlock_of_bmap L h ino _ hb))
  have e0 : ¬ ((bmap L h ino ((offset + w) / L.BLOCK_SIZE) : Nat) : Int) = 0 := by omega
  have eu : toU32 ((bmap L h ino ((offset + w) / L.BLOCK_SIZE) : Nat) : Int)
      = bmap L h ino ((offset + w) / L.BLOCK_SIZE) := toU32_natCast _ (by omega)
  rw [hfs_write_loop]
  simp only [if_pos hw, hco, get_block_eq_bmap L h F.sb ino F.ok.ptrs, e0, false_and, if_false,
    eu]
  by_cases hc : (offset + w) % L.BLOCK_SIZE ≠ 0 ∨
      (if L.BLOCK_SIZE - (offset + w) % L.BLOCK_SIZE > size - w then size - w
        else L.BLOCK_SIZE - (offset + w) % L.BLOCK_SIZE) ≠ L.BLOCK_SIZE
  · refine ⟨h.device.blocks (bmap L h ino ((offset + w) / L.BLOCK_SIZE)), fun _ _ => rfl, ?_⟩
    rw [if_pos hc, blkread_of_lt _ _ hu.2.2]
    simp only []
    rw [blkwrite_of_lt _ _ _ hu.2.2]
    rfl
  · refine ⟨zero_block, fun x hx => absurd ?_ hc, ?_⟩
    · by_cases e1 : (offset + w) % L.BLOCK_SIZE = 0
      · exact Or.inr (fun e2 => hx ⟨e1, e2⟩)
      · exact Or.inl e1
    · rw [if_neg hc]
      simp only []
      rw [blkwrite_of_lt _ _ _ hu.2.2]
      rfl

/-- A pass of the loop of `hfs_write` at a position in a hole. -/
theorem hfs_write_loop_hole (L : HfsLayout) (n offset size : Nat)
    (buf : Nat → Nat) (fuel : Nat) (h : HfsData) (ino : Inode) (w : Nat)
    (F : FileOk L h n ino) (hw : w < size) (hfit : offset + size < 2147483648)
    (hb : bmap L h ino ((offset + w) / L.BLOCK_SIZE) = 0) :
    (∃ h2 ino2 nb blk0, AllocAt L h ino ((offset + w) / L.BLOCK_SIZE) h2 ino2 nb ∧
      (∀ x, ¬ ((offset + w) % L.BLOCK_SIZE = 0 ∧
        (if L.BLOCK_SIZE - (offset + w) % L.BLOCK_SIZE > size - w then size - w
          else L.BLOCK_SIZE - (offset + w) % L.BLOCK_SIZE) = L.BLOCK_SIZE) →
        blk0 x = (h2.setInode L n ino2).device.blocks nb x) ∧
      hfs_write_loop L n offset size buf (fuel + 1) h ino w
        = hfs_write_loop L n offset size buf fuel
            ((h2.setInode L n ino2).setBlock nb
              (copy_bytes blk0 ((offset + w) % L.BLOCK_SIZE) buf w
                (if L.BLOCK_SIZE - (offset + w) % L.BLOCK_SIZE > size - w then size - w
                  else L.BLOCK_SIZE - (offset + w) % L.BLOCK_SIZE)))
            ino2
            (w + (if L.BLOCK_SIZE - (offset + w) % L.BLOCK_SIZE > size - w then size - w
                  else L.BLOCK_SIZE - (offset + w) % L.BLOCK_SIZE))) ∨
    (∃ hf, AllocFail L h hf ∧ NoRoom L h ino ((offset + w) / L.BLOCK_SIZE) ∧
      hfs_write_loop L n offset size buf (fuel + 1) h ino w
        = hfs_write_fail L hf n ino offset w) := by
  have hco : (offset + w) % U32 = offset + w := Nat.mod_eq_of_lt (by unfold U32; omega)
  have e0 : ((bmap L h ino ((offset + w) / L.BLOCK_SIZE) : Nat) : Int) = 0 := by omega
  rw [hfs_write_loop]
  simp only [if_pos hw, hco, get_block_eq_bmap L h F.sb ino F.ok.ptrs, e0, true_and, if_true]
  rcases alloc_block_for_offset_cases L h ino (offset + w) F.sb F.synced F.valid F.ok.ptrs
      F.ok.ind_sep with ⟨h2, ino2, nb, ha, A⟩ | ⟨hf, ha, A, R⟩
  · left
    have hnb0 : nb ≠ 0 := by
      have := F.sb.data_pos
      have := A.fresh_ge
      omega
    have hrnb : refsBlock L h2 ino2 nb := by
      have e := A.bmap_new
      have hr := refsBlock_of_bmap L h2 ino2 ((offset + w) / L.BLOCK_SIZE)
        (by rw [e]; exact hnb0)
      rw [e] at hr
      exact hr
    have hnbu := dataUsed_lt A.sb (A.ptrs _ hrnb)
    have hn2 : n < h2.sb.s_inodes_count := by rw [A.frame.sb_eq]; exact F.lt
    have eu : toU32 ((nb : Nat) : Int) = nb := toU32_natCast _ (by omega)
    have hnn : ¬ ((nb : Int) < 0) := by omega
    have hnbk : nb < (h2.setInode L n ino2).device.num_blocks := hnbu.2.2
    simp only [ha, hnn, if_false, write_inode_spec L h2 A.sb n hn2 ino2, eu]
    by_cases hc : (offset + w) % L.BLOCK_SIZE ≠ 0 ∨
        (if L.BLOCK_SIZE - (offset + w) % L.BLOCK_SIZE > size - w then size - w
          else L.BLOCK_SIZE - (offset + w) % L.BLOCK_SIZE) ≠ L.BLOCK_SIZE
    · refine ⟨h2, ino2, nb, (h2.setInode L n ino2).device.blocks nb, A, fun _ _ => rfl, ?_⟩
      rw [if_pos hc, blkread_of_lt _ _ hnbk]
      simp only []
      rw [blkwrite_of_lt _ _ _ hnbk]
      rfl
    · refine ⟨h2, ino2, nb, zero_block, A, fun x hx => absurd ?_ hc, ?_⟩
      · by_cases e1 : (offset + w) % L.BLOCK_SIZE = 0
        · exact Or.inr (fun e2 => hx ⟨e1, e2⟩)
        · exact Or.inl e1
      · rw [if_neg hc]
        simp only []
        rw [blkwrite_of_lt _ _ _ hnbk]
        rfl
  · right
    refine ⟨hf, A, R, ?_⟩
    simp only [ha]
    rw [if_pos (by decide)]

/-- The bytes of a file after one pass of the loop of `hfs_write` has written
its chunk into the block of the position. -/
theorem write_chunk (L : HfsLayout) (hL : L.Ok) (h : HfsData) (n : Nat) (ino : Inode)
    (pos w d : Nat) (buf blk0 : Nat → Nat) (F : FileOk L h n ino)
    (hb : bmap L h ino (pos / L.BLOCK_SIZE) ≠ 0) (hd : pos % L.BLOCK_SIZE + d ≤ L.BLOCK_SIZE)
    (hblk0 : ∀ x, ¬ (pos % L.BLOCK_SIZE = 0 ∧ d = L.BLOCK_SIZE) →
      blk0 x = h.device.blocks (bmap L h ino (pos / L.BLOCK_SIZE)) x) :
    FileOk L (h.setBlock (bmap L h ino (pos / L.BLOCK_SIZE))
        (copy_bytes blk0 (pos % L.BLOCK_SIZE) buf w d)) n ino ∧
      (∀ k2, bmap L (h.setBlock (bmap L h ino (pos / L.BLOCK_SIZE))
        (copy_bytes blk0 (pos % L.BLOCK_SIZE) buf w d)) ino k2 = bmap L h ino k2) ∧
      (h.setBlock (bmap L h ino (pos / L.BLOCK_SIZE))
        (copy_bytes blk0 (pos % L.BLOCK_SIZE) buf w d)).free_blocks = h.free_blocks ∧
      (∀ p, file_byte L (h.setBlock (bmap L h ino (pos / L.BLOCK_SIZE))
          (copy_bytes blk0 (pos % L.BLOCK_SIZE) buf w d)) ino p
        = if pos ≤ p ∧ p < pos + d then buf (w + (p - pos)) else file_byte L h ino p) ∧
      Frame L h (h.setBlock (bmap L h ino (pos / L.BLOCK_SIZE))
        (copy_bytes blk0 (pos % L.BLOCK_SIZE) buf w d)) (refsBlock L h ino) (fun _ => False) ∧
      ∀ b, refsBlock L (h.setBlock (bmap L h ino (pos / L.BLOCK_SIZE))
        (copy_bytes blk0 (pos % L.BLOCK_SIZE) buf w d)) ino b ↔ refsBlock L h ino b := by
  have hbs := block_size_pos L hL
  obtain ⟨q1, q2, q3, q4, q5, q6⟩ := fileOk_setBlock L h n ino (pos / L.BLOCK_SIZE)
    (copy_bytes blk0 (pos % L.BLOCK_SIZE) buf w d) F hb
  refine ⟨q1, q2, q4, ?_, q5, q6⟩
  intro p
  rw [q3]
  by_cases hin : pos ≤ p ∧ p < pos + d
  · obtain ⟨s1, s2⟩ := block_split L.BLOCK_SIZE pos (p - pos) hbs (by omega)
    have ep : pos + (p - pos) = p := by omega
    rw [ep] at s1 s2
    rw [if_pos hin, if_pos s1]
    unfold copy_bytes
    rw [if_pos (by omega), s2]
    congr 1
    omega
  · rw [if_neg hin]
    by_cases hk : p / L.BLOCK_SIZE = pos / L.BLOCK_SIZE
    · rw [if_pos hk]
      have ho := block_outside L.BLOCK_SIZE pos p d hk (by omega)
      unfold copy_bytes
      rw [if_neg ho]
      have hnf : ¬ (pos % L.BLOCK_SIZE = 0 ∧ d = L.BLOCK_SIZE) := by
        intro hf
        have h1 := Nat.mod_add_div pos L.BLOCK_SIZE
        have h2 := Nat.mod_add_div p L.BLOCK_SIZE
        have h3 := Nat.mod_lt p hbs
        rw [hk] at h2
        omega
      rw [hblk0 _ hnf]
      unfold file_byte
      rw [hk, if_neg hb]
    · rw [if_neg hk]

/-- One pass of the loop of `hfs_write` on a consistent file: either it writes
the bytes of the buffer up to the end of the block of the position and the
loop goes on from a consistent file, or the allocation of a block for a hole
fails for want of room and the loop ends with the short count. -/
theorem hfs_write_step (L : HfsLayout) (hL : L.Ok) (n offset size : Nat) (buf : Nat → Nat)
    (fuel : Nat) (h : HfsData) (ino : Inode) (w : Nat) (F : FileOk L h n ino) (hw : w < size)
    (hfit : offset + size < 2147483648) :
    (∃ h1 ino1 d, FileOk L h1 n ino1 ∧ ino1.i_size = ino.i_size ∧
      ino1.i_is_directory = ino.i_is_directory ∧ 0 < d ∧ w + d ≤ size ∧
      hfs_write_loop L n offset size buf (fuel + 1) h ino w
        = hfs_write_loop L n offset size buf fuel h1 ino1 (w + d) ∧
      (∀ p, file_byte L h1 ino1 p
        = if offset + w ≤ p ∧ p < offset + w + d then buf (p - offset)
          else file_byte L h ino p) ∧
      (∀ k, bmap L h ino k ≠ 0 → bmap L h1 ino1 k = bmap L h ino k) ∧
      (ino.i_single_indirect_pointer ≠ 0 →
        ino1.i_single_indirect_pointer = ino.i_single_indirect_pointer) ∧
      h.free_blocks ≤ h1.free_blocks + 2 ∧ h1.sb = h.sb ∧
      Frame L h h1 (refsBlock L h ino) (fun j => j = n) ∧
      (∀ b, refsBlock L h1 ino1 b → refsBlock L h ino b ∨ ¬ h.dataUsed b) ∧
      bmap L h1 ino1 ((offset + w) / L.BLOCK_SIZE) ≠ 0 ∧
      (offset + w) % L.BLOCK_SIZE + d ≤ L.BLOCK_SIZE) ∨
    (∃ hf, FileOk L hf n ino ∧
      hfs_write_loop L n offset size buf (fuel + 1) h ino w
        = hfs_write_fail L hf n ino offset w ∧
      (∀ k, bmap L hf ino k = bmap L h ino k) ∧
      (∀ p, file_byte L hf ino p = file_byte L h ino p) ∧
      NoRoom L hf ino ((offset + w) / L.BLOCK_SIZE) ∧
      bmap L hf ino ((offset + w) / L.BLOCK_SIZE) = 0 ∧
      hf.free_blocks = h.free_blocks ∧ hf.sb = h.sb ∧
      Frame L h hf (fun _ => False) (fun _ => False) ∧
      (∀ b, refsBlock L hf ino b ↔ refsBlock L h ino b)) := by
  have hbs := block_size_pos L hL
  obtain ⟨c1, c2, c3⟩ := chunk_props L.BLOCK_SIZE (offset + w) (size - w) hbs (by omega)
  by_cases hb : bmap L h ino ((offset + w) / L.BLOCK_SIZE) = 0
  · rcases hfs_write_loop_hole L n offset size buf fuel h ino w F hw hfit hb with
      ⟨h2, ino2, nb, blk0, A, hblk0, e⟩ | ⟨hf, A, R, e⟩
    · left
      have ho2 := allocAt_inodeOk F.sb F.ok A
      have hn2 : n < h2.sb.s_inodes_count := by rw [A.frame.sb_eq]; exact F.lt
      obtain ⟨i1, i2, i3, i4, i5, i6, i7⟩ := fileOk_setInode L hL h2 n ino2 A.sb A.synced hn2
        A.valid ho2
      have hnb0 : nb ≠ 0 := by
        have := F.sb.data_pos
        have := A.fresh_ge
        omega
      have ebm : bmap L (h2.setInode L n ino2) ino2 ((offset + w) / L.BLOCK_SIZE) = nb := by
        rw [i3, A.bmap_new]
      obtain ⟨g1, g2, g3, g4, g5, g6⟩ := write_chunk L hL (h2.setInode L n ino2) n ino2
        (offset + w) w _ buf blk0 i2 (by rw [ebm]; exact hnb0) c3 (by rw [ebm]; exact hblk0)
      rw [ebm] at g1 g2 g3 g4 g5 g6
      have hrefs : ∀ b, refsBlock L ((h2.setInode L n ino2).setBlock nb
          (copy_bytes blk0 ((offset + w) % L.BLOCK_SIZE) buf w
            (if L.BLOCK_SIZE - (offset + w) % L.BLOCK_SIZE > size - w then size - w
              else L.BLOCK_SIZE - (offset + w) % L.BLOCK_SIZE))) ino2 b →
          refsBlock L h ino b ∨ ¬ h.dataUsed b := fun b hb =>
        A.refs_new b ((i7 b).1 ((g6 b).1 hb))
      have hfr : Frame L h ((h2.setInode L n ino2).setBlock nb
          (copy_bytes blk0 ((offset + w) % L.BLOCK_SIZE) buf w
            (if L.BLOCK_SIZE - (offset + w) % L.BLOCK_SIZE > size - w then size - w
              else L.BLOCK_SIZE - (offset + w) % L.BLOCK_SIZE)))
          (refsBlock L h ino) (fun j => j = n) := by
        have f1 : Frame L h (h2.setInode L n ino2) (refsBlock L h ino) (fun j => j = n) := by
          refine Frame.comp A.frame i6 (fun b hb hx => ⟨fun e2 => hx ?_, fun x => x⟩)
            (fun i hi => ⟨fun x => x, hi⟩)
          have hb0 : b ≠ 0 := by
            have := F.sb.data_pos
            have := hb.1
            omega
          exact ⟨hb0, Or.inl e2.symm⟩
        refine Frame.comp f1 g5 (fun b hb hx => ⟨hx, fun hr => ?_⟩)
          (fun i hi => ⟨hi, fun x => x⟩)
        rcases A.refs_new b ((i7 b).1 hr) with r | r
        · exact hx r
        · exact r hb
      refine ⟨_, ino2, _, g1, A.size_eq, A.dir_eq, c1, by omega, e, ?_, ?_, ?_, ?_, ?_, hfr,
        hrefs, by rw [g2, i3, A.bmap_new]; exact hnb0, c3⟩
      · intro p
        rw [g4, i4, allocAt_file_byte F.sb F.ok A hb]
        by_cases hin : offset + w ≤ p ∧ p < offset + w + (if L.BLOCK_SIZE
            - (offset + w) % L.BLOCK_SIZE > size - w then size - w
            else L.BLOCK_SIZE - (offset + w) % L.BLOCK_SIZE)
        · rw [if_pos hin, if_pos hin]
          congr 1
          omega
        · rw [if_neg hin, if_neg hin]
      · intro k hk
        rw [g2, i3]
        exact A.bmap_old k (fun e2 => hk (e2 ▸ hb))
      · intro hi
        exact A.ind_keep (Or.inr hi)
      · rw [g3, i5]
        exact A.free
      · show h2.sb = h.sb
        exact A.frame.sb_eq
    · right
      obtain ⟨o1, o2, o3⟩ := allocFail_inodeOk A F.ok
      have o4 := (inodeOk_of_frame F.ok (allocFail_frame A) (fun _ _ x => x)).2.2.2
      refine ⟨hf, ⟨A.sb, A.synced, by rw [A.sb_eq]; exact F.lt, ?_, F.valid, o1⟩, e, o2, o3, ?_,
        by rw [o2]; exact hb, allocFail_free_blocks A, A.sb_eq, allocFail_frame A, o4⟩
      · rw [A.inodes_keep]
        exact F.disk
      · rcases R with r | ⟨r1, r2, r3⟩ | r
        · exact Or.inl (by rw [allocFail_free_blocks A]; exact r)
        · exact Or.inr (Or.inl ⟨by rw [allocFail_free_blocks A]; exact r1, r2, r3⟩)
        · exact Or.inr (Or.inr r)
  · left
    obtain ⟨blk0, hblk0, e⟩ := hfs_write_loop_existing L n offset size buf fuel h ino w F hw hfit hb
    obtain ⟨g1, g2, g3, g4, g5, g6⟩ := write_chunk L hL h n ino (offset + w) w _ buf blk0 F hb
      c3 hblk0
    refine ⟨_, ino, _, g1, rfl, rfl, c1, by omega, e, ?_, fun k _ => g2 k, fun _ => rfl,
      by rw [g3]; omega, rfl, g5.mono (fun _ x => x) (fun _ x => x.elim),
      fun b hb => Or.inl ((g6 b).1 hb), by rw [g2]; exact hb, c3⟩
    intro p
    rw [g4]
    by_cases hin : offset + w ≤ p ∧ p < offset + w + (if L.BLOCK_SIZE
        - (offset + w) % L.BLOCK_SIZE > size - w then size - w
        else L.BLOCK_SIZE - (offset + w) % L.BLOCK_SIZE)
    · rw [if_pos hin, if_pos hin]
      congr 1
      omega
    · rw [if_neg hin, if_neg hin]

/-- The end of `hfs_write`: the inode is written with the size advanced when
`c` holds. -/
theorem write_finish (L : HfsLayout) (hL : L.Ok) (h : HfsData) (n : Nat) (ino : Inode)
    (F : FileOk L h n ino) (c : Prop) [Decidable c] (s : Nat) (hs : s < 4294967296) :
    ∃ ino2, FileOk L (write_inode L h n (if c then { ino with i_size := s } else ino)).1 n ino2 ∧
      ino2.i_size = (if c then s else ino.i_size) ∧
      ino2.i_is_directory = ino.i_is_directory ∧
      ino2.i_single_indirect_pointer = ino.i_single_indirect_pointer ∧
      (∀ k, bmap L (write_inode L h n (if c then { ino with i_size := s } else ino)).1 ino2 k
        = bmap L h ino k) ∧
      (∀ p, file_byte L (write_inode L h n (if c then { ino with i_size := s } else ino)).1
        ino2 p = file_byte L h ino p) ∧
      (write_inode L h n (if c then { ino with i_size := s } else ino)).1.free_blocks
        = h.free_blocks ∧
      (write_inode L h n (if c then { ino with i_size := s } else ino)).1.sb = h.sb ∧
      Frame L h (write_inode L h n (if c then { ino with i_size := s } else ino)).1
        (fun _ => False) (fun j => j = n) ∧
      ∀ b, refsBlock L (write_inode L h n (if c then { ino with i_size := s } else ino)).1 ino2 b
        ↔ refsBlock L h ino b := by
  obtain ⟨ino1, e1, e2, e3, e4, e5, e6, e7, e8, e9, e10⟩ := hfs_write_exit L hL h n ino F c s hs
  rw [← e1, e2]
  refine ⟨ino1, e3, ?_, e8, e7, e4, e5, e6, rfl, e9, e10⟩
  rw [e1]
  by_cases hc : c
  · rw [if_pos hc, if_pos hc]
  · rw [if_neg hc, if_neg hc]

/-- The loop of `hfs_write` on a consistent file, without device errors: it
writes `w2 - w` more bytes of the buffer, all of them unless an allocation
fails for want of room, and leaves a consistent file whose other bytes are as
they were; the other inodes and the used blocks of other files are as they
were. -/
theorem hfs_write_loop_spec (L : HfsLayout) (hL : L.Ok) (n offset size : Nat) (buf : Nat → Nat)
    (hfit : offset + size < 2147483648) :
    ∀ (fuel : Nat) (h : HfsData) (ino : Inode) (w : Nat), FileOk L h n ino → w ≤ size →
      size - w ≤ fuel →
      ∃ h2 ino2 w2, w ≤ w2 ∧ w2 ≤ size ∧
        hfs_write_loop L n offset size buf fuel h ino w
          = (h2, if w2 = size then (size : Int) else if 0 < w2 then (w2 : Int) else -1) ∧
        FileOk L h2 n ino2 ∧
        ino2.i_size
          = (if w2 = size ∨ 0 < w2 then max ino.i_size (offset + w2) else ino.i_size) ∧
        ino2.i_is_directory = ino.i_is_directory ∧
        (∀ p, file_byte L h2 ino2 p
          = if offset + w ≤ p ∧ p < offset + w2 then buf (p - offset)
            else file_byte L h ino p) ∧
        (∀ k, bmap L h ino k ≠ 0 → bmap L h2 ino2 k = bmap L h ino k) ∧
        (ino.i_single_indirect_pointer ≠ 0 →
          ino2.i_single_indirect_pointer = ino.i_single_indirect_pointer) ∧
        (w2 < size → NoRoom L h2 ino2 ((offset + w2) / L.BLOCK_SIZE) ∧
          bmap L h2 ino2 ((offset + w2) / L.BLOCK_SIZE) = 0) ∧
        h2.sb = h.sb ∧
        Frame L h h2 (refsBlock L h ino) (fun j => j = n) ∧
        (∀ b, refsBlock L h2 ino2 b → refsBlock L h ino b ∨ ¬ h.dataUsed b) ∧
        (w2 = w → h2.free_blocks = h.free_blocks) ∧
        (∀ p, offset + w ≤ p → p < offset + w2 → bmap L h2 ino2 (p / L.BLOCK_SIZE) ≠ 0) := by
  have hdone : ∀ (h : HfsData) (ino : Inode), FileOk L h n ino →
      ∃ ino2, FileOk L (write_inode L h n
          (if (offset + size) % U32 > ino.i_size then
            { ino with i_size := (offset + size) % U32 } else ino)).1 n ino2 ∧
        ino2.i_size = max ino.i_size (offset + size) ∧
        ino2.i_is_directory = ino.i_is_directory ∧
        ino2.i_single_indirect_pointer = ino.i_single_indirect_pointer ∧
        (∀ k, bmap L (write_inode L h n
          (if (offset + size) % U32 > ino.i_size then
            { ino with i_size := (offset + size) % U32 } else ino)).1 ino2 k = bmap L h ino k) ∧
        (∀ p, file_byte L (write_inode L h n
          (if (offset + size) % U32 > ino.i_size then
            { ino with i_size := (offset + size) % U32 } else ino)).1 ino2 p
            = file_byte L h ino p) ∧
        (write_inode L h n
          (if (offset + size) % U32 > ino.i_size then
            { ino with i_size := (offset + size) % U32 } else ino)).1.sb = h.sb ∧
        Frame L h (write_inode L h n
          (if (offset + size) % U32 > ino.i_size then
            { ino with i_size := (offset + size) % U32 } else ino)).1
          (refsBlock L h ino) (fun j => j = n) ∧
        (∀ b, refsBlock L (write_inode L h n
          (if (offset + size) % U32 > ino.i_size then
            { ino with i_size := (offset + size) % U32 } else ino)).1 ino2 b →
          refsBlock L h ino b ∨ ¬ h.dataUsed b) ∧
        (write_inode L h n
          (if (offset + size) % U32 > ino.i_size then
            { ino with i_size := (offset + size) % U32 } else ino)).1.free_blocks
          = h.free_blocks := by
    intro h ino F
    have hco : (offset + size) % U32 = offset + size :=
      Nat.mod_eq_of_lt (by unfold U32; omega)
    obtain ⟨ino2, f1, f2, f3, f4, f5, f6, f7, f8, f9, f10⟩ := write_finish L hL h n ino F
      ((offset + size) % U32 > ino.i_size) ((offset + size) % U32) (Nat.mod_lt _ (by decide))
    refine ⟨ino2, f1, ?_, f3, f4, f5, f6, f8, f9.mono (fun _ x => x.elim) (fun _ x => x),
      fun b hb => Or.inl ((f10 b).1 hb), f7⟩
    rw [f2, hco]
    split_ifs <;> omega
  have hsz : toInt32 size = (size : Int) := toInt32_of_lt size (by omega)
  have hbs := block_size_pos L hL
  intro fuel
  induction fuel with
  | zero =>
    intro h ino w F hw hf
    have e : w = size := by omega
    subst e
    obtain ⟨ino2, f1, f2, f3, f4, f5, f6, f8, f9, f10, f11⟩ := hdone h ino F
    refine ⟨_, ino2, w, le_refl _, le_refl _, ?_, f1, ?_, f3, ?_, fun k _ => f5 k,
      fun _ => f4, fun hlt => absurd hlt (lt_irrefl _), f8, f9, f10, fun _ => f11,
      fun p _ _ => by omega⟩
    · rw [hfs_write_loop, if_pos rfl, hsz]
    · rw [if_pos (Or.inl rfl)]
      exact f2
    · intro p
      rw [f6, if_neg (by omega)]
  | succ fuel ih =>
    intro h ino w F hw hf
    by_cases hlt : w < size
    · rcases hfs_write_step L hL n offset size buf fuel h ino w F hlt hfit with
        ⟨h1, ino1, d, F1, s1, s2, s3, s4, s5, s6, s7, s8, _, s10, s11, s12, s13, s14⟩ |
        ⟨hf1, F1, s1, s2, s3, s4, s5, s6, s7, s8, s9⟩
      · obtain ⟨h2, ino2, w2, t1, t2, t3, t4, t5, t6, t7, t8, t9, t10, t11, t12, t13, _, t15⟩ :=
          ih h1 ino1 (w + d) F1 s4 (by omega)
        refine ⟨h2, ino2, w2, by omega, t2, by rw [s5, t3], t4, by rw [t5, s1], by rw [t6, s2],
          ?_, ?_, ?_, t10, by rw [t11, s10], ?_, ?_, fun e => by omega, ?_⟩
        · intro p
          rw [t7, s6]
          by_cases c1 : offset + (w + d) ≤ p ∧ p < offset + w2
          · rw [if_pos c1, if_pos (by omega)]
          · rw [if_neg c1]
            by_cases c2 : offset + w ≤ p ∧ p < offset + w + d
            · rw [if_pos c2, if_pos (by omega)]
            · rw [if_neg c2, if_neg (by omega)]
        · intro k hk
          rw [t8 k (by rw [s7 k hk]; exact hk), s7 k hk]
        · intro hi
          rw [t9 (by rw [s8 hi]; exact hi), s8 hi]
        · refine Frame.comp s11 t12 (fun b hb hx => ⟨hx, fun hr => ?_⟩)
            (fun i hi => ⟨hi, hi⟩)
          rcases s12 b hr with r | r
          · exact hx r
          · exact r hb
        · intro b hb
          rcases t13 b hb with r | r
          · exact s12 b r
          · exact Or.inr (fun hu => r (s11.dataUsed hu))
        · intro p p1 p2
          by_cases c1 : p < offset + w + d
          · obtain ⟨b1, _⟩ := block_split L.BLOCK_SIZE (offset + w) (p - (offset + w)) hbs
              (by omega)
            have ep : offset + w + (p - (offset + w)) = p := by omega
            rw [ep] at b1
            rw [b1, t8 _ s13]
            exact s13
          · exact t15 p (by omega) p2
      · have hco : (offset + w) % U32 = offset + w :=
          Nat.mod_eq_of_lt (by unfold U32; omega)
        obtain ⟨ino2, f1, f2, f3, f4, f5, f6, f7, f8, f9, f10⟩ := write_finish L hL hf1 n ino F1
          (w > 0 ∧ (offset + w) % U32 > ino.i_size) ((offset + w) % U32)
          (Nat.mod_lt _ (by decide))
        have hne : ¬ w = size := by omega
        refine ⟨_, ino2, w, le_refl _, hw, ?_, f1, ?_, f3, ?_, ?_, fun _ => f4, ?_,
          by rw [f8, s7], ?_, ?_, fun _ => by rw [f7, s6], fun p _ _ => by omega⟩
        · rw [s1, if_neg hne]
          unfold hfs_write_fail
          by_cases hw0 : 0 < w
          · rw [if_pos hw0, if_pos hw0, toInt32_of_lt w (by omega)]
          · rw [if_neg hw0, if_neg hw0]
        · rw [f2, hco]
          by_cases hw0 : 0 < w
          · rw [if_pos (Or.inr hw0)]
            split_ifs <;> omega
          · rw [if_neg (by omega), if_neg (by omega)]
        · intro p
          rw [f6, s3, if_neg (by omega)]
        · intro k _
          rw [f5, s2]
        · intro _
          refine ⟨?_, by rw [f5]; exact s5⟩
          rcases s4 with r | ⟨r1, r2, r3⟩ | r
          · exact Or.inl (by rw [f7]; exact r)
          · exact Or.inr (Or.inl ⟨by rw [f7]; exact r1, r2, by rw [f4]; exact r3⟩)
          · exact Or.inr (Or.inr r)
        · exact Frame.comp s8 f9 (fun b _ _ => ⟨fun x => x, fun x => x⟩)
            (fun i hi => ⟨fun x => x, hi⟩)
        · intro b hb
          exact Or.inl ((s9 b).1 ((f10 b).1 hb))
    · have e : w = size := by omega
      subst e
      obtain ⟨ino2, f1, f2, f3, f4, f5, f6, f8, f9, f10, f11⟩ := hdone h ino F
      refine ⟨_, ino2, w, le_refl _, le_refl _, ?_, f1, ?_, f3, ?_, fun k _ => f5 k,
        fun _ => f4, fun hlt2 => absurd hlt2 (lt_irrefl _), f8, f9, f10, fun _ => f11,
        fun p _ _ => by omega⟩
      · rw [hfs_write_loop, if_neg hlt, if_pos rfl, hsz]
      · rw [if_pos (Or.inl rfl)]
        exact f2
      · intro p
        rw [f6, if_neg (by omega)]

/-! ## File system: the loop of `hfs_read` -/

/-- The loop of `hfs_read` on an inode whose blocks are on the device: it
fills the buffer with the bytes of the file. -/
theorem hfs_read_loop_spec (L : HfsLayout) (hL : L.Ok) (h : HfsData) (ino : Inode)
    (offset size : Nat) (hs : SbOk L h) (hp : PtrsOk L h ino)
    (hfit : offset + size < 2147483648) :
    ∀ (fuel : Nat) (buf : Nat → Nat) (r : Nat), r ≤ size → size - r ≤ fuel →
      hfs_read_loop L h ino offset size fuel buf r
        = (fun i => if r ≤ i ∧ i < size then file_byte L h ino (offset + i) else buf i,
            (size : Int)) := by
  have hbs := block_size_pos L hL
  have hsz : toInt32 size = (size : Int) := toInt32_of_lt size (by omega)
  intro fuel
  induction fuel with
  | zero =>
    intro buf r hr hf
    have e : r = size := by omega
    subst e
    rw [hfs_read_loop, hsz]
    congr 1
    funext i
    rw [if_neg (by omega)]
  | succ fuel ih =>
    intro buf r hr hf
    by_cases hlt : r < size
    · have hco : (offset + r) % U32 = offset + r := Nat.mod_eq_of_lt (by unfold U32; omega)
      obtain ⟨c1, c2, c3⟩ := chunk_props L.BLOCK_SIZE (offset + r) (size - r) hbs (by omega)
      rw [hfs_read_loop]
      simp only [if_pos hlt, hco, get_block_eq_bmap L h hs ino hp]
      by_cases hb : bmap L h ino ((offset + r) / L.BLOCK_SIZE) = 0
      · have e0 : ((bmap L h ino ((offset + r) / L.BLOCK_SIZE) : Nat) : Int) ≤ 0 := by omega
        rw [if_pos e0, ih _ _ (by omega) (by omega)]
        congr 1
        funext i
        by_cases c4 : r + (if L.BLOCK_SIZE - (offset + r) % L.BLOCK_SIZE > size - r then size - r
            else L.BLOCK_SIZE - (offset + r) % L.BLOCK_SIZE) ≤ i ∧ i < size
        · rw [if_pos c4, if_pos (by omega)]
        · rw [if_neg c4]
          unfold zero_bytes
          by_cases c5 : r ≤ i ∧ i < r + (if L.BLOCK_SIZE - (offset + r) % L.BLOCK_SIZE
              > size - r then size - r else L.BLOCK_SIZE - (offset + r) % L.BLOCK_SIZE)
          · rw [if_pos c5, if_pos (by omega)]
            obtain ⟨s1, _⟩ := block_split L.BLOCK_SIZE (offset + r) (i - r) hbs (by omega)
            have ep : offset + r + (i - r) = offset + i := by omega
            rw [ep] at s1
            unfold file_byte
            rw [s1, if_pos hb]
          · rw [if_neg c5, if_neg (by omega)]
      · have hu := dataUsed_lt hs (hp _ (refsBlock_of_bmap L h ino _ hb))
        have e0 : ¬ ((bmap L h ino ((offset + r) / L.BLOCK_SIZE) : Nat) : Int) ≤ 0 := by omega
        have eu : toU32 ((bmap L h ino ((offset + r) / L.BLOCK_SIZE) : Nat) : Int)
            = bmap L h ino ((offset + r) / L.BLOCK_SIZE) := toU32_natCast _ (by omega)
        rw [if_neg e0, eu, blkread_of_lt _ _ hu.2.2]
        simp only []
        rw [ih _ _ (by omega) (by omega)]
        congr 1
        funext i
        by_cases c4 : r + (if L.BLOCK_SIZE - (offset + r) % L.BLOCK_SIZE > size - r then size - r
            else L.BLOCK_SIZE - (offset + r) % L.BLOCK_SIZE) ≤ i ∧ i < size
        · rw [if_pos c4, if_pos (by omega)]
        · rw [if_neg c4]
          unfold copy_bytes
          by_cases c5 : r ≤ i ∧ i < r + (if L.BLOCK_SIZE - (offset + r) % L.BLOCK_SIZE
              > size - r then size - r else L.BLOCK_SIZE - (offset + r) % L.BLOCK_SIZE)
          · rw [if_pos c5, if_pos (by omega)]
            obtain ⟨s1, s2⟩ := block_split L.BLOCK_SIZE (offset + r) (i - r) hbs (by omega)
            have ep : offset + r + (i - r) = offset + i := by omega
            rw [ep] at s1 s2
            unfold file_byte
            rw [s1, if_neg hb, s2]
          · rw [if_neg c5, if_neg (by omega)]
    · have e : r = size := by omega
      subst e
      rw [hfs_read_loop, if_neg hlt, hsz]
      congr 1
      funext i
      rw [if_neg (by omega)]

/-- `hfs_read` of a range that lies within the file gives its bytes. -/
theorem hfs_read_spec (L : HfsLayout) (hL : L.Ok) (h : HfsData) (nd : Vnode) (ino : Inode)
    (offset size : Nat) (q : Nat → Nat) (hs : SbOk L h) (hp : PtrsOk L h ino)
    (hdisk : read_inode L h nd.inode_num = some ino)
    (hfit : offset + size < 2147483648) (hle : offset + size ≤ ino.i_size) :
    hfs_read L h (some nd) offset size q
      = (fun i => if i < size then file_byte L h ino (offset + i) else q i, (size : Int)) := by
  have hco : (offset + size) % U32 = offset + size := Nat.mod_eq_of_lt (by unfold U32; omega)
  unfold hfs_read
  simp only [hdisk, hco]
  by_cases h0 : offset ≥ ino.i_size
  · rw [if_pos h0]
    have e : size = 0 := by omega
    subst e
    congr 1
  · rw [if_neg h0, if_neg (by omega), hfs_read_loop_spec L hL h ino offset size hs hp hfit
      size q 0 (by omega) (by omega)]
    congr 1
    funext i
    by_cases c : i < size
    · rw [if_pos c, if_pos ⟨by omega, c⟩]
    · rw [if_neg c, if_neg (by omega)]

/-! ## File system: `hfs_write` on a consistent file -/

theorem sync_synced (L : HfsLayout) (h : HfsData) (hs : SbOk L h) :
    (sync_bitmaps_from_disk h).Synced := by
  have h1 : h.sb.s_block_bitmap < h.device.num_blocks := by
    have := hs.bbm_lt
    have := hs.data_le
    have := hs.blocks_le_dev
    omega
  have h2 : h.sb.s_inode_bitmap < h.device.num_blocks := by
    have := hs.ibm_lt
    have := hs.data_le
    have := hs.blocks_le_dev
    omega
  unfold sync_bitmaps_from_disk
  rw [blkread_of_lt _ _ h1]
  simp only []
  rw [blkread_of_lt _ _ h2]
  exact ⟨rfl, rfl⟩

theorem frame_same_disk (L : HfsLayout) (h h2 : HfsData) (e1 : h2.device = h.device)
    (e2 : h2.sb = h.sb) : Frame L h h2 (fun _ => False) (fun _ => False) := by
  refine ⟨e2, by rw [e1], ?_, ?_, ?_, ?_⟩
  · intro b hb
    unfold HfsData.disk_block_bitmap
    rw [e1, e2]
    exact hb
  · intro b hb
    unfold HfsData.disk_inode_bitmap
    rw [e1, e2]
    exact hb
  · intro b _ _
    rw [e1]
  · intro i _
    exact read_inode_same_disk L h h2 e1 e2 i

/-- The state in which `hfs_write` starts its loop, after
`sync_bitmaps_from_disk`, holds the file consistently. -/
theorem fileOk_sync (L : HfsLayout) (h : HfsData) (n : Nat) (ino : Inode) (hs : SbOk L h)
    (hn : n < h.sb.s_inodes_count) (hdisk : read_inode L h n = some ino)
    (ho : InodeOk L h ino) :
    FileOk L (sync_bitmaps_from_disk h) n ino ∧
      (∀ k, bmap L (sync_bitmaps_from_disk h) ino k = bmap L h ino k) ∧
      (∀ p, file_byte L (sync_bitmaps_from_disk h) ino p = file_byte L h ino p) ∧
      (sync_bitmaps_from_disk h).free_blocks = h.free_blocks ∧
      Frame L h (sync_bitmaps_from_disk h) (fun _ => False) (fun _ => False) ∧
      (∀ b, refsBlock L (sync_bitmaps_from_disk h) ino b ↔ refsBlock L h ino b) := by
  have e1 := sync_device h
  have e2 := sync_sb h
  have f := frame_same_disk L h _ e1 e2
  obtain ⟨q1, q2, q3, q4⟩ := inodeOk_of_frame ho f (fun _ _ x => x)
  have hv : ino.Valid L := by
    rw [read_inode_eq L h hs n hn] at hdisk
    rw [← Option.some.inj hdisk]
    exact inode_load_valid L _ _
  refine ⟨⟨hs.of_eq e2 (by rw [e1]), sync_synced L h hs, by rw [e2]; exact hn, ?_, hv, q1⟩,
    q2, q3, ?_, f, q4⟩
  · rw [read_inode_same_disk L h _ e1 e2]
    exact hdisk
  · apply free_blocks_congr _ _ e2
    unfold HfsData.disk_block_bitmap
    rw [e1, e2]

/-- `hfs_write` to a consistent file, without device errors: it writes the
first `w` bytes of the buffer, all of them unless an allocation fails for want
of room, returns `w`, or -1 when it fails before the first byte, and leaves a
consistent file whose size is advanced over the bytes written and whose other
bytes are as they were. -/
theorem hfs_write_spec (L : HfsLayout) (hL : L.Ok) (h : HfsData) (nd : Vnode) (ino : Inode)
    (offset size : Nat) (buf : Nat → Nat) (hs : SbOk L h)
    (hn : nd.inode_num < h.sb.s_inodes_count)
    (hdisk : read_inode L h nd.inode_num = some ino) (ho : InodeOk L h ino)
    (hfit : offset + size < 2147483648) :
    ∃ h2 ino2 w, w ≤ size ∧
      hfs_write L h (some nd) offset size buf
        = (h2, if w = size then (size : Int) else if 0 < w then (w : Int) else -1) ∧
      FileOk L h2 nd.inode_num ino2 ∧
      ino2.i_size = (if w = size ∨ 0 < w then max ino.i_size (offset + w) else ino.i_size) ∧
      ino2.i_is_directory = ino.i_is_directory ∧
      (∀ p, file_byte L h2 ino2 p
        = if offset ≤ p ∧ p < offset + w then buf (p - offset) else file_byte L h ino p) ∧
      (∀ k, bmap L h ino k ≠ 0 → bmap L h2 ino2 k = bmap L h ino k) ∧
      (ino.i_single_indirect_pointer ≠ 0 →
        ino2.i_single_indirect_pointer = ino.i_single_indirect_pointer) ∧
      (w < size → NoRoom L h2 ino2 ((offset + w) / L.BLOCK_SIZE) ∧
        bmap L h2 ino2 ((offset + w) / L.BLOCK_SIZE) = 0) ∧
      h2.sb = h.sb ∧
      Frame L h h2 (refsBlock L h ino) (fun j => j = nd.inode_num) ∧
      (∀ b, refsBlock L h2 ino2 b → refsBlock L h ino b ∨ ¬ h.dataUsed b) ∧
      (w = 0 → h2.free_blocks = h.free_blocks) ∧
      (∀ p, offset ≤ p → p < offset + w → bmap L h2 ino2 (p / L.BLOCK_SIZE) ≠ 0) := by
  obtain ⟨F, b1, b2, b3, b4, b5⟩ := fileOk_sync L h nd.inode_num ino hs hn hdisk ho
  obtain ⟨h2, ino2, w, _, t2, t3, t4, t5, t6, t7, t8, t9, t10, t11, t12, t13, t14, t15⟩ :=
    hfs_write_loop_spec L hL nd.inode_num offset size buf hfit size _ ino 0 F (Nat.zero_le _)
      (by omega)
  refine ⟨h2, ino2, w, t2, ?_, t4, t5, t6, ?_, ?_, t9, t10, by rw [t11, sync_sb], ?_, ?_,
    fun e => by rw [t14 e, b3], fun p p1 p2 => t15 p (by omega) p2⟩
  · unfold hfs_write
    simp only [F.disk]
    exact t3
  · intro p
    rw [t7, b2]
    rfl
  · intro k hk
    rw [t8 k (by rw [b1]; exact hk), b1]
  · refine Frame.comp b4 t12 (fun b hb hx => ⟨fun x => x, fun hr => hx ((b5 b).1 hr)⟩)
      (fun i hi => ⟨fun x => x, hi⟩)
  · intro b hb
    rcases t13 b hb with r | r
    · exact Or.inl ((b5 b).1 r)
    · exact Or.inr (fun hu => r (b4.dataUsed hu))
/-! ## File system: a write that runs out of room -/

theorem hfs_read_nothing (L : HfsLayout) (h : HfsData) (nd : Vnode) (ino : Inode)
    (offset : Nat) (q : Nat → Nat) (hdisk : read_inode L h nd.inode_num = some ino)
    (hfit : offset < 2147483648) :
    hfs_read L h (some nd) offset 0 q = (q, 0) := by
  have hco : (offset + 0) % U32 = offset := Nat.mod_eq_of_lt (by unfold U32; omega)
  unfold hfs_read
  simp only [hdisk, hco]
  by_cases h0 : offset ≥ ino.i_size
  · rw [if_pos h0]
  · rw [if_neg h0, if_neg (by omega)]
    rfl

theorem bmap_new_inode (L : HfsLayout) (h : HfsData) (d k : Nat) :
    bmap L h (new_inode L d) k = 0 := by
  unfold bmap
  by_cases hk : k < L.INODE_DIRECT_POINTERS
  · rw [if_pos hk]
    exact new_inode_getD L d k
  · rw [if_neg hk]
    exact if_pos rfl

/-- An inode without blocks is consistent. -/
theorem inodeOk_new_inode (L : HfsLayout) (h : HfsData) (d : Nat) :
    InodeOk L h (new_inode L d) := by
  have hd : ∀ b, ¬ dataBlockOf L h (new_inode L d) b := by
    intro b hb
    obtain ⟨k, hk⟩ := dataBlockOf_bmap L h _ b hb
    rw [bmap_new_inode] at hk
    exact hb.1 hk.symm
  refine ⟨?_, hd _, ?_⟩
  · intro b hb
    rcases hb.2 with e | e
    · exact absurd (show (0 : Nat) = b from e) (fun e2 => hb.1 e2.symm)
    · exact absurd e (hd b)
  · intro k k2 h0 _
    exact absurd (bmap_new_inode L h d k) h0

/-- C25: on a mounted file system without device errors, whose inode `n` holds
a file with consistent blocks, let `hfs_write(node, offset, size, buf)` return
another value than `size`. Then an allocation failed: there is a number
`w < size` of bytes written such that the block index of position `offset + w`
has no block and there is no room for one (no data block is free, or one is
free and the index needs an indirect block too, or the index lies beyond the
indirect block). The call returns `w`, or -1 when `w` is 0; the inode on the
device has the size `max(old size, offset + w)` when `w` is positive and the
old size when `w` is 0; and `hfs_read(node, offset, w, q)` returns `w` and puts
the first `w` bytes of `buf` into `q`. -/
theorem hfs_write_partial_count (L : HfsLayout) (hL : L.Ok) (h : HfsData) (nd : Vnode) (ino : Inode)
    (offset size : Nat) (buf q : Nat → Nat) (hs : SbOk L h)
    (hn : nd.inode_num < h.sb.s_inodes_count)
    (hdisk : read_inode L h nd.inode_num = some ino) (ho : InodeOk L h ino)
    (hfit : offset + size < 2147483648)
    (hshort : (hfs_write L h (some nd) offset size buf).2 ≠ (size : Int)) :
    ∃ w ino2, w < size ∧
      NoRoom L (hfs_write L h (some nd) offset size buf).1 ino2
        ((offset + w) / L.BLOCK_SIZE) ∧
      bmap L (hfs_write L h (some nd) offset size buf).1 ino2 ((offset + w) / L.BLOCK_SIZE)
        = 0 ∧
      (hfs_write L h (some nd) offset size buf).2 = (if 0 < w then (w : Int) else -1) ∧
      read_inode L (hfs_write L h (some nd) offset size buf).1 nd.inode_num = some ino2 ∧
      ino2.i_size = (if 0 < w then max ino.i_size (offset + w) else ino.i_size) ∧
      hfs_read L (hfs_write L h (some nd) offset size buf).1 (some nd) offset w q
        = (fun i => if i < w then buf i else q i, (w : Int)) := by
  obtain ⟨h2, ino2, w, t1, t2, t3, t4, _, t6, _, _, t9, _⟩ :=
    hfs_write_spec L hL h nd ino offset size buf hs hn hdisk ho hfit
  rw [t2] at hshort ⊢
  have hne : ¬ w = size := by
    intro e
    rw [if_pos e] at hshort
    exact hshort rfl
  have hlt : w < size := by omega
  obtain ⟨r1, r2⟩ := t9 hlt
  refine ⟨w, ino2, hlt, r1, r2, by rw [if_neg hne], t3.disk, ?_, ?_⟩
  · rw [t4]
    by_cases hw0 : 0 < w
    · rw [if_pos (Or.inr hw0), if_pos hw0]
    · rw [if_neg (by omega), if_neg hw0]
  · by_cases hw0 : 0 < w
    · rw [hfs_read_spec L hL h2 nd ino2 offset w q t3.sb t3.ok.ptrs t3.disk (by omega)
        (by rw [t4, if_pos (Or.inr hw0)]; omega)]
      congr 1
      funext i
      by_cases c : i < w
      · rw [if_pos c, if_pos c, t6, if_pos (by omega)]
        congr 1
        omega
      · rw [if_neg c, if_neg c]
    · have e : w = 0 := by omega
      subst e
      rw [hfs_read_nothing L h2 nd ino2 offset q t3.disk (by omega)]
      congr 1

set_option maxRecDepth 100000 in
theorem hfs_write_partial_count_witness :
    SbOk hfsSmallLayout hfsTight ∧ hfsTight.free_blocks = 2 ∧
      read_inode hfsSmallLayout hfsTight 1 = some (new_inode hfsSmallLayout 0) ∧
      (hfs_write hfsSmallLayout hfsTight (some vnodeOne) 0 96 bufCount).2 = 32 ∧
      ∃ (w : Nat) (ino2 : Inode), w < 96 ∧
        (hfs_write hfsSmallLayout hfsTight (some vnodeOne) 0 96 bufCount).2
          = (if 0 < w then (w : Int) else -1) ∧
        read_inode hfsSmallLayout
          (hfs_write hfsSmallLayout hfsTight (some vnodeOne) 0 96 bufCount).1 1 = some ino2 ∧
        ino2.i_size = (if 0 < w then max 0 (0 + w) else 0) ∧
        hfs_read hfsSmallLayout
            (hfs_write hfsSmallLayout hfsTight (some vnodeOne) 0 96 bufCount).1
            (some vnodeOne) 0 w (fun _ => 0)
          = (fun i => if i < w then bufCount i else 0, (w : Int)) :=
  ⟨⟨by decide, by decide, by decide, by decide, by decide, by decide, by decide, by decide,
      by decide, by decide, by decide, by decide, by decide⟩,
    by decide, by decide, by decide,
    (hfs_write_partial_count hfsSmallLayout ⟨by decide, by decide, by decide, by decide⟩ hfsTight
      vnodeOne (new_inode hfsSmallLayout 0) 0 96 bufCount (fun _ => 0)
      ⟨by decide, by decide, by decide, by decide, by decide, by decide, by decide, by decide,
        by decide, by decide, by decide, by decide, by decide⟩
      (by decide) (by decide) (inodeOk_new_inode _ _ _) (by decide) (by decide)).elim
      (fun w hw => hw.elim (fun ino2 g =>
        ⟨w, ino2, g.1, g.2.2.2.1, g.2.2.2.2.1, g.2.2.2.2.2.1, g.2.2.2.2.2.2⟩))⟩
/-! ## File system: handing back the blocks of a file -/

theorem testBit_load32 (m : Nat → Nat) (A t : Nat) (ht : t < 32) :
    (load32 m A).testBit t = (m (A + t / 8) % 256).testBit (t % 8) := by
  have e : load32 m A
      = 2 ^ 8 * (2 ^ 8 * (2 ^ 8 * (m (A + 3) % 256) + m (A + 2) % 256) + m (A + 1) % 256)
        + m A % 256 := by
    unfold load32
    norm_num
    omega
  have b0 : m A % 256 < 2 ^ 8 := Nat.mod_lt _ (by decide)
  have b1 : m (A + 1) % 256 < 2 ^ 8 := Nat.mod_lt _ (by decide)
  have b2 : m (A + 2) % 256 < 2 ^ 8 := Nat.mod_lt _ (by decide)
  have b3 : m (A + 3) % 256 < 2 ^ 8 := Nat.mod_lt _ (by decide)
  rw [e, Nat.testBit_mul_pow_two_add _ b0]
  by_cases c0 : t < 8
  · rw [if_pos c0, Nat.div_eq_of_lt c0, Nat.mod_eq_of_lt c0]
    rfl
  · rw [if_neg c0, Nat.testBit_mul_pow_two_add _ b1]
    by_cases c1 : t - 8 < 8
    · have e1 : t / 8 = 1 := by omega
      have e2 : t % 8 = t - 8 := by omega
      rw [if_pos c1, e1, e2]
    · rw [if_neg c1, Nat.testBit_mul_pow_two_add _ b2]
      by_cases c2 : t - 8 - 8 < 8
      · have e1 : t / 8 = 2 := by omega
        have e2 : t % 8 = t - 8 - 8 := by omega
        rw [if_pos c2, e1, e2]
      · have e1 : t / 8 = 3 := by omega
        have e2 : t % 8 = t - 8 - 8 - 8 := by omega
        rw [if_neg c2, e1, e2]

/-- Filling bytes of a bitmap with zero sets no bit. -/
theorem get_bit_zero_bytes (m : Nat → Nat) (a n x : Nat)
    (h1 : get_bit (zero_bytes m a n) x = 1) : get_bit m x = 1 := by
  have ht : x % 32 < 32 := Nat.mod_lt _ (by decide)
  rw [get_bit_eq, testBit_load32 _ _ _ ht] at h1 ⊢
  unfold zero_bytes at h1
  by_cases c : a ≤ 4 * (x / 32) + x % 32 / 8 ∧ 4 * (x / 32) + x % 32 / 8 < a + n
  · rw [if_pos c] at h1
    simp at h1
  · rw [if_neg c] at h1
    exact h1

theorem freed_refl (L : HfsLayout) (h : HfsData) (hsync : h.Synced) : Freed L h h :=
  ⟨rfl, rfl, hsync, fun _ _ => rfl, fun _ x => x⟩

theorem freed_trans {L : HfsLayout} {a b c : HfsData} (x : Freed L a b) (y : Freed L b c) :
    Freed L a c :=
  ⟨by rw [y.sb_eq, x.sb_eq], by rw [y.nb_eq, x.nb_eq], y.synced,
    fun k hk => by rw [y.blocks_keep k (by rw [x.sb_eq]; exact hk), x.blocks_keep k hk],
    fun k hk => x.bits_le k (y.bits_le k hk)⟩

theorem freed_bit_zero {L : HfsLayout} {a b : HfsData} (f : Freed L a b) (x : Nat)
    (h0 : get_bit a.block_bitmap x = 0) : get_bit b.block_bitmap x = 0 := by
  rcases get_bit_cases b.block_bitmap x with e | e
  · exact e
  · have := f.bits_le x e
    omega

/-- `free_block` clears the bit of a data block in memory and on the device
and writes nothing else. -/
theorem freed_free_block (L : HfsLayout) (h : HfsData) (hs : SbOk L h) (hsync : h.Synced)
    (x : Nat) :
    Freed L h (free_block h x) ∧
      (h.sb.s_data_blocks_start ≤ x → x < h.sb.s_blocks_count →
        get_bit (free_block h x).block_bitmap x = 0) := by
  by_cases hr : h.sb.s_data_blocks_start ≤ x ∧ x < h.sb.s_blocks_count
  · rw [free_block_eq L h hs x hr.1 hr.2]
    refine ⟨⟨rfl, rfl, ⟨?_, ?_⟩, ?_, ?_⟩, fun _ _ => ?_⟩
    · show clear_bit h.block_bitmap x
        = (h.device.write h.sb.s_block_bitmap _).blocks h.sb.s_block_bitmap
      rw [write_blocks_same]
    · show h.inode_bitmap = (h.device.write h.sb.s_block_bitmap _).blocks h.sb.s_inode_bitmap
      rw [write_blocks_other _ _ _ _ (fun e => hs.bbm_ne_ibm e.symm)]
      exact hsync.2
    · intro b hb
      show (h.device.write h.sb.s_block_bitmap _).blocks b = _
      rw [write_blocks_other _ _ _ _ hb]
    · intro b hb
      change get_bit (clear_bit h.block_bitmap x) b = 1 at hb
      rw [get_bit_clear_bit] at hb
      by_cases e : b = x
      · rw [if_pos e] at hb
        exact absurd hb (by decide)
      · rw [if_neg e] at hb
        exact hb
    · show get_bit (clear_bit h.block_bitmap x) x = 0
      rw [get_bit_clear_bit, if_pos rfl]
  · have e : free_block h x = h := by
      unfold free_block
      rw [if_pos (by omega)]
    rw [e]
    exact ⟨freed_refl L h hsync, fun a b => absurd ⟨a, b⟩ hr⟩

theorem free_direct_loop_freed (L : HfsLayout) :
    ∀ (fuel i : Nat) (s : HfsData) (ino : Inode), SbOk L s → s.Synced →
      Freed L s (free_direct_loop fuel i s ino).1 := by
  intro fuel
  induction fuel with
  | zero => intro i s ino _ hsync; exact freed_refl L s hsync
  | succ f ih =>
    intro i s ino hs hsync
    rw [free_direct_loop]
    by_cases e : ino.i_direct_pointers.getD i 0 ≠ 0
    · rw [if_pos e]
      have F := (freed_free_block L s hs hsync (ino.i_direct_pointers.getD i 0)).1
      exact freed_trans F (ih _ _ _ (hs.of_eq F.sb_eq F.nb_eq) F.synced)
    · rw [if_neg e]
      exact ih _ _ _ hs hsync

theorem free_indirect_loop_freed (L : HfsLayout) (blk : Nat → Nat) :
    ∀ (fuel i : Nat) (s : HfsData), SbOk L s → s.Synced →
      Freed L s (free_indirect_loop blk fuel i s) ∧
        ∀ j, i ≤ j → j < i + fuel → s.sb.s_data_blocks_start ≤ load16 blk (2 * j) →
          load16 blk (2 * j) < s.sb.s_blocks_count →
          get_bit (free_indirect_loop blk fuel i s).block_bitmap (load16 blk (2 * j)) = 0 := by
  intro fuel
  induction fuel with
  | zero =>
    intro i s _ hsync
    exact ⟨freed_refl L s hsync, fun j h1 h2 => by omega⟩
  | succ f ih =>
    intro i s hs hsync
    rw [free_indirect_loop]
    have hstep : Freed L s (if load16 blk (2 * i) ≠ 0 then free_block s (load16 blk (2 * i))
        else s) ∧ (s.sb.s_data_blocks_start ≤ load16 blk (2 * i) →
          load16 blk (2 * i) < s.sb.s_blocks_count →
          get_bit (if load16 blk (2 * i) ≠ 0 then free_block s (load16 blk (2 * i))
            else s).block_bitmap (load16 blk (2 * i)) = 0) := by
      by_cases e : load16 blk (2 * i) ≠ 0
      · rw [if_pos e]
        exact freed_free_block L s hs hsync _
      · rw [if_neg e]
        refine ⟨freed_refl L s hsync, fun a _ => ?_⟩
        have := hs.data_pos
        omega
    obtain ⟨F, hz⟩ := hstep
    obtain ⟨G, hg⟩ := ih (i + 1) _ (hs.of_eq F.sb_eq F.nb_eq) F.synced
    refine ⟨freed_trans F G, fun j h1 h2 h3 h4 => ?_⟩
    by_cases ej : j = i
    · rw [ej] at h3 h4 ⊢
      exact freed_bit_zero G _ (hz h3 h4)
    · exact hg j (by omega) (by omega) (by rw [F.sb_eq]; exact h3) (by rw [F.sb_eq]; exact h4)

/-- `free_inode_blocks` of an inode with an indirect block: the bits of the
indirect block and of a data block that it holds are clear afterwards, in
memory and on the device. -/
theorem free_inode_blocks_freed (L : HfsLayout) (h : HfsData) (ino : Inode) (hs : SbOk L h)
    (hsync : h.Synced) (k : Nat) (hk : k < L.INODE_INDIRECT_POINTERS_PER_BLOCK)
    (hi1 : h.sb.s_data_blocks_start ≤ ino.i_single_indirect_pointer)
    (hi2 : ino.i_single_indirect_pointer < h.sb.s_blocks_count)
    (hn1 : h.sb.s_data_blocks_start
      ≤ load16 (h.device.blocks ino.i_single_indirect_pointer) (2 * k))
    (hn2 : load16 (h.device.blocks ino.i_single_indirect_pointer) (2 * k)
      < h.sb.s_blocks_count) :
    Freed L h (free_inode_blocks L h ino).1 ∧
      get_bit (free_inode_blocks L h ino).1.block_bitmap ino.i_single_indirect_pointer = 0 ∧
      get_bit (free_inode_blocks L h ino).1.block_bitmap
        (load16 (h.device.blocks ino.i_single_indirect_pointer) (2 * k)) = 0 := by
  have hd := free_direct_loop_keep_ind L.INODE_DIRECT_POINTERS 0 h ino
  have F1 := free_direct_loop_freed L L.INODE_DIRECT_POINTERS 0 h ino hs hsync
  have hs1 := hs.of_eq F1.sb_eq F1.nb_eq
  have hne : ino.i_single_indirect_pointer ≠ 0 := by
    have := hs.data_pos
    omega
  have hbb := hs.bbm_lt
  have hlt : ino.i_single_indirect_pointer
      < (free_direct_loop L.INODE_DIRECT_POINTERS 0 h ino).1.device.num_blocks := by
    rw [F1.nb_eq]
    have := hs.blocks_le_dev
    omega
  have hblk : (free_direct_loop L.INODE_DIRECT_POINTERS 0 h ino).1.device.blocks
      ino.i_single_indirect_pointer = h.device.blocks ino.i_single_indirect_pointer :=
    F1.blocks_keep _ (by omega)
  obtain ⟨F2, hz2⟩ := free_indirect_loop_freed L (h.device.blocks ino.i_single_indirect_pointer)
    L.INODE_INDIRECT_POINTERS_PER_BLOCK 0 _ hs1 F1.synced
  have hs2 := hs1.of_eq F2.sb_eq F2.nb_eq
  obtain ⟨F3, hz3⟩ := freed_free_block L _ hs2 F2.synced ino.i_single_indirect_pointer
  have e : (free_inode_blocks L h ino).1
      = free_block (free_indirect_loop (h.device.blocks ino.i_single_indirect_pointer)
          L.INODE_INDIRECT_POINTERS_PER_BLOCK 0
          (free_direct_loop L.INODE_DIRECT_POINTERS 0 h ino).1)
        ino.i_single_indirect_pointer := by
    unfold free_inode_blocks
    simp only [hd, if_pos hne]
    rw [blkread_of_lt _ _ hlt, hblk]
  rw [e]
  refine ⟨freed_trans F1 (freed_trans F2 F3), ?_, ?_⟩
  · exact hz3 (by rw [F2.sb_eq, F1.sb_eq]; exact hi1) (by rw [F2.sb_eq, F1.sb_eq]; exact hi2)
  · exact freed_bit_zero F3 _ (hz2 k (Nat.zero_le _) (by omega) (by rw [F1.sb_eq]; exact hn1)
      (by rw [F1.sb_eq]; exact hn2))

theorem shrunk_refl (h : HfsData) : Shrunk h h := ⟨rfl, rfl, rfl, fun _ x => x⟩

theorem shrunk_trans {a b c : HfsData} (x : Shrunk a b) (y : Shrunk b c) : Shrunk a c :=
  ⟨by rw [y.sb_eq, x.sb_eq], by rw [y.nb_eq, x.nb_eq], by rw [y.mem_eq, x.mem_eq],
    fun k hk => x.disk_le k (y.disk_le k hk)⟩

theorem shrunk_setBlock_other (h : HfsData) (b : Nat) (buf : Nat → Nat)
    (hb : b ≠ h.sb.s_block_bitmap) : Shrunk h (h.setBlock b buf) := by
  refine ⟨rfl, rfl, rfl, fun x hx => ?_⟩
  rw [setBlock_disk_block_bitmap h b buf hb] at hx
  exact hx

/-- Filling bytes of a block with zero sets no bit of the block bitmap on the
device, whichever block it is. -/
theorem shrunk_setBlock_zero (h : HfsData) (b a n : Nat) :
    Shrunk h (h.setBlock b (zero_bytes (h.device.blocks b) a n)) := by
  by_cases hb : b = h.sb.s_block_bitmap
  · refine ⟨rfl, rfl, rfl, fun x hx => ?_⟩
    have e : (h.setBlock b (zero_bytes (h.device.blocks b) a n)).disk_block_bitmap
        = zero_bytes (h.device.blocks b) a n := by
      show (h.device.write b _).blocks h.sb.s_block_bitmap = _
      rw [← hb, write_blocks_same]
    rw [e] at hx
    have := get_bit_zero_bytes _ a n x hx
    rw [hb] at this
    exact this
  · exact shrunk_setBlock_other h b _ hb

theorem shrunk_free_inode (L : HfsLayout) (h : HfsData) (hs : SbOk L h) (i : Nat) :
    Shrunk h (free_inode h i) := by
  have hib : h.sb.s_inode_bitmap < h.device.num_blocks := by
    have := hs.ibm_lt
    have := hs.data_le
    have := hs.blocks_le_dev
    omega
  unfold free_inode
  by_cases c : i = 0 ∨ i ≥ h.sb.s_inodes_count
  · rw [if_pos c]
    exact shrunk_refl h
  · rw [if_neg c]
    simp only []
    rw [blkwrite_of_lt _ _ _ hib]
    refine ⟨rfl, rfl, rfl, fun x hx => ?_⟩
    have e : ∀ (d : BlockDevice) (bm : Nat → Nat),
        ({ h with device := d, inode_bitmap := bm } : HfsData).disk_block_bitmap
          = d.blocks h.sb.s_block_bitmap := fun _ _ => rfl
    rw [e, write_blocks_other _ _ _ _ hs.bbm_ne_ibm] at hx
    exact hx

theorem shrunk_write_inode (L : HfsLayout) (h : HfsData) (hs : SbOk L h) (i : Nat)
    (ino : Inode) : Shrunk h (write_inode L h i ino).1 := by
  by_cases hi : i < h.sb.s_inodes_count
  · rw [write_inode_spec L h hs i hi ino]
    exact shrunk_setBlock_other h _ _ (hs.tb_ne_bbm i hi)
  · have e : write_inode L h i ino = (h, -1) := by
      unfold write_inode
      rw [if_pos (by omega)]
    rw [e]
    exact shrunk_refl h

theorem shrunk_remove_dir_entry_loop (L : HfsLayout) (h : HfsData) (pino : Inode)
    (name : List Nat) :
    ∀ (fuel i : Nat), Shrunk h (remove_dir_entry_loop L h pino name fuel i).1 := by
  intro fuel
  induction fuel with
  | zero => intro i; exact shrunk_refl h
  | succ f ih =>
    intro i
    rw [remove_dir_entry_loop]
    by_cases c : get_block_for_offset L h pino (i * L.BLOCK_SIZE % U32) ≤ 0
    · rw [if_pos c]
      exact ih (i + 1)
    · rw [if_neg c]
      by_cases hlt : toU32 (get_block_for_offset L h pino (i * L.BLOCK_SIZE % U32))
          < h.device.num_blocks
      · rw [blkread_of_lt _ _ hlt]
        simp only []
        cases hj : remove_dir_entry_block L
            (h.device.blocks (toU32 (get_block_for_offset L h pino (i * L.BLOCK_SIZE % U32))))
            name L.DIRECTORY_ENTRIES_PER_BLOCK 0 with
        | none => exact ih (i + 1)
        | some j =>
          simp only []
          rw [blkwrite_of_lt _ _ _ hlt]
          exact shrunk_setBlock_zero h _ _ _
      · have e : blkread h.device
            (toU32 (get_block_for_offset L h pino (i * L.BLOCK_SIZE % U32))) = none := by
          unfold blkread
          rw [if_neg hlt]
        rw [e]
        exact ih (i + 1)

theorem shrunk_remove_dir_entry (L : HfsLayout) (h : HfsData) (pino : Inode) (name : List Nat) :
    Shrunk h (remove_dir_entry L h pino name).1 := by
  unfold remove_dir_entry
  by_cases c : pino.i_is_directory = 0
  · rw [if_pos c]
    exact shrunk_refl h
  · rw [if_neg c]
    exact shrunk_remove_dir_entry_loop L h pino name _ _

/-- The end of `hfs_remove` returns 0 and, after the blocks of the inode are
handed back, sets no bit of the block bitmap. -/
theorem remove_finish_shrunk (L : HfsLayout) (s : HfsData) (tino : Inode) (n : Nat)
    (path pp fn : List Nat) (hs : SbOk L (free_inode_blocks L s tino).1)
    (hsplit : split_path L path = some (pp, fn)) :
    ∃ s3, hfs_remove_finish L s tino n path = some (s3, 0) ∧
      Shrunk (free_inode_blocks L s tino).1 s3 := by
  have S1 := shrunk_free_inode L _ hs n
  have hs1 : SbOk L (free_inode (free_inode_blocks L s tino).1 n) := hs.of_eq S1.sb_eq S1.nb_eq
  unfold hfs_remove_finish
  simp only [hsplit]
  by_cases c : resolve_path L (free_inode (free_inode_blocks L s tino).1 n) pp ≥ 0
  · rw [if_pos c]
    cases hr : read_inode L (free_inode (free_inode_blocks L s tino).1 n)
        (toU32 (resolve_path L (free_inode (free_inode_blocks L s tino).1 n) pp)) with
    | none => exact ⟨_, rfl, S1⟩
    | some pino =>
      refine ⟨_, rfl, shrunk_trans S1 ?_⟩
      have S2 := shrunk_remove_dir_entry L (free_inode (free_inode_blocks L s tino).1 n) pino fn
      exact shrunk_trans S2 (shrunk_write_inode L _ (hs1.of_eq S2.sb_eq S2.nb_eq) _ _)
  · rw [if_neg c]
    exact ⟨_, rfl, S1⟩

/-! ## File system: a write through a new indirect block -/

/-- A path that resolves in a consistent file system resolves to the same
inode after a write to a regular file. -/
theorem resolve_path_write (L : HfsLayout) (hL : L.Ok) (h h2 : HfsData) (n : Nat) (ino : Inode)
    (path : List Nat) (hok : HfsOk L h) (huse : h.inUse n)
    (hdisk : read_inode L h n = some ino) (hfile : ino.i_is_directory = 0)
    (f : Frame L h h2 (refsBlock L h ino) (fun j => j = n)) (hcs : CStr path)
    (h0 : 0 ≤ resolve_path L h path) : resolve_path L h2 path = resolve_path L h path := by
  have hs := hok.toSbOk
  have hne : path ≠ [] := by
    intro e
    rw [e] at h0
    unfold resolve_path at h0
    rw [if_pos rfl] at h0
    exact absurd h0 (by decide)
  rw [resolve_path_eq_tokens L h path hne] at h0 ⊢
  rw [resolve_path_eq_tokens L h2 path hne]
  refine (resolve_loop_transfer L h h2 (fun c => h.inUse c) (fun c hc => inUse_lt L hL h hs c hc)
    ?_ (path_tokens path) 0 ⟨hs.inodes_pos, Or.inl rfl⟩ (path_tokens_cstr path hcs) h0).1
  intro c dino t hc hr hd _ hf
  have dok := hok.dir_ok c dino hc hr hd
  rcases find_dir_entry_cases L hL h hs dino dok hd t with ⟨e, _⟩ | ⟨r, i0, e, hu, _, _, _⟩
  · rw [e] at hf
    exact absurd hf (by decide)
  · have hcn : c ≠ n := by
      intro e2
      rw [e2, hdisk] at hr
      injection hr with e3
      rw [e3] at hfile
      exact hd hfile
    have hr2 : r < 4294967296 := by
      have := inUse_lt L hL h hs r hu
      omega
    refine ⟨by rw [e, toU32_natCast r hr2]; exact hu, dino, ?_, hd, ?_⟩
    · rw [f.inodes_keep c hcn]
      exact hr
    · exact find_dir_entry_frame L hL h h2 _ _ dino hs f (dok.look hd)
        (fun b hb => hok.disjoint c n dino ino b hc huse hcn hr hdisk hb) t

/-- C21 (amended): in a consistent file system, for a regular file (not the
root inode) that has no single-indirect block and is named by `path`, and a
write of at least one byte that starts at or beyond
`INODE_DIRECT_POINTERS * BLOCK_SIZE` and within the indirect capacity, with no
device errors and at least two free blocks: `hfs_write` returns a count `r`
with `0 < r ≤ size`, the whole size when the write stays within the block of
the offset; two different blocks `ib` and `nb`, both free before the write,
are marked used after it, `ib` is the single-indirect block of the inode on
the device and holds `nb` at the index of the offset, so that
`get_block_for_offset` gives `nb`; `hfs_read` of the `r` bytes at the offset
returns the bytes written; and `hfs_remove(path)` after the write returns 0
and leaves the bits of `ib` and `nb` clear in the block bitmap, on the device
and in memory. -/
theorem hfs_write_indirect (L : HfsLayout) (hL : L.Ok) (h : HfsData) (nd : Vnode) (ino : Inode)
    (offset size : Nat) (buf q : Nat → Nat) (path parent name : List Nat)
    (hok : HfsOk L h) (huse : h.inUse nd.inode_num) (hroot : nd.inode_num ≠ 0)
    (hdisk : read_inode L h nd.inode_num = some ino) (hfile : ino.i_is_directory = 0)
    (hind : ino.i_single_indirect_pointer = 0)
    (hlo : L.INODE_DIRECT_POINTERS * L.BLOCK_SIZE ≤ offset)
    (hhi : offset / L.BLOCK_SIZE
      < L.INODE_DIRECT_POINTERS + L.INODE_INDIRECT_POINTERS_PER_BLOCK)
    (hsize : 0 < size) (hfit : offset + size < 2147483648) (hfree : 2 ≤ h.free_blocks)
    (hpath : resolve_path L h path = (nd.inode_num : Int)) (hcs : CStr path)
    (hsplit : split_path L path = some (parent, name)) :
    ∃ (h2 : HfsData) (r ib nb : Nat) (ino2 : Inode),
      hfs_write L h (some nd) offset size buf = (h2, (r : Int)) ∧ 0 < r ∧ r ≤ size ∧
      (offset % L.BLOCK_SIZE + size ≤ L.BLOCK_SIZE → r = size) ∧
      ¬ h.dataUsed ib ∧ ¬ h.dataUsed nb ∧ h2.dataUsed ib ∧ h2.dataUsed nb ∧ ib ≠ nb ∧
      read_inode L h2 nd.inode_num = some ino2 ∧ ino2.i_single_indirect_pointer = ib ∧
      load16 (h2.device.blocks ib) (2 * (offset / L.BLOCK_SIZE - L.INODE_DIRECT_POINTERS))
        = nb ∧
      get_block_for_offset L h2 ino2 offset = (nb : Int) ∧
      hfs_read L h2 (some nd) offset r q = (fun i => if i < r then buf i else q i, (r : Int)) ∧
      ∃ h3, hfs_remove L h2 path = some (h3, 0) ∧
        get_bit h3.disk_block_bitmap ib = 0 ∧ get_bit h3.disk_block_bitmap nb = 0 ∧
        get_bit h3.block_bitmap ib = 0 ∧ get_bit h3.block_bitmap nb = 0 := by
  have hs := hok.toSbOk
  have hbs := block_size_pos L hL
  have hio := hok.inode_ok _ _ huse hdisk
  obtain ⟨h2, ino2, w, t1, t2, t3, t4, t5, t6, t7, _, t9, _, t11, t12, t13, t14⟩ :=
    hfs_write_spec L hL h nd ino offset size buf hs huse.1 hdisk hio hfit
  have hk1 : L.INODE_DIRECT_POINTERS ≤ offset / L.BLOCK_SIZE :=
    (Nat.le_div_iff_mul_le hbs).2 hlo
  have hw : 0 < w := by
    by_contra hc
    have e0 : w = 0 := by omega
    obtain ⟨r1, _⟩ := t9 (by omega)
    rw [e0, Nat.add_zero] at r1
    have hf2 := t13 e0
    rcases r1 with r | ⟨r, _, _⟩ | r <;> omega
  have hmap : bmap L h2 ino2 (offset / L.BLOCK_SIZE) ≠ 0 := t14 offset (le_refl _) (by omega)
  have hib : ino2.i_single_indirect_pointer ≠ 0 := by
    intro e
    apply hmap
    unfold bmap
    rw [if_neg (by omega), if_pos e]
  have hbm : bmap L h2 ino2 (offset / L.BLOCK_SIZE)
      = load16 (h2.device.blocks ino2.i_single_indirect_pointer)
          (2 * (offset / L.BLOCK_SIZE - L.INODE_DIRECT_POINTERS)) := by
    unfold bmap
    rw [if_neg (by omega), if_neg hib, if_neg (by omega)]
  have hrefi : refsBlock L h2 ino2 ino2.i_single_indirect_pointer := ⟨hib, Or.inl rfl⟩
  have hrefn := refsBlock_of_bmap L h2 ino2 _ hmap
  have hdn := bmap_dataBlockOf L h2 ino2 _ hmap
  have hold : ∀ b, refsBlock L h ino b →
      ∃ j, j < L.INODE_DIRECT_POINTERS ∧ bmap L h ino j = b ∧ b ≠ 0 := by
    rintro b ⟨hb0, hb⟩
    rcases hb with e | ⟨_, ⟨j, hj, e⟩ | ⟨e, _⟩⟩
    · rw [hind] at e
      exact absurd e.symm hb0
    · exact ⟨j, hj, by unfold bmap; rw [if_pos hj]; exact e, hb0⟩
    · exact absurd hind e
  have hni : ¬ h.dataUsed ino2.i_single_indirect_pointer := by
    rcases t12 _ hrefi with r | r
    · obtain ⟨j, hj, e, b0⟩ := hold _ r
      have e2 := t7 j (by rw [e]; exact b0)
      rw [e] at e2
      have hd2 := bmap_dataBlockOf L h2 ino2 j (by rw [e2]; exact b0)
      rw [e2] at hd2
      exact absurd hd2 t3.ok.ind_sep
    · exact r
  have hnn : ¬ h.dataUsed (bmap L h2 ino2 (offset / L.BLOCK_SIZE)) := by
    rcases t12 _ hrefn with r | r
    · obtain ⟨j, hj, e, b0⟩ := hold _ r
      have e2 := t7 j (by rw [e]; exact b0)
      rw [e] at e2
      have := t3.ok.inj j (offset / L.BLOCK_SIZE) (by rw [e2]; exact hmap) e2
      omega
    · exact r
  have hne : ino2.i_single_indirect_pointer ≠ bmap L h2 ino2 (offset / L.BLOCK_SIZE) := by
    intro e
    rw [← e] at hdn
    exact t3.ok.ind_sep hdn
  have hret : (if w = size then (size : Int) else if 0 < w then (w : Int) else -1)
      = (w : Int) := by
    by_cases e : w = size
    · rw [if_pos e, e]
    · rw [if_neg e, if_pos hw]
  have hread : hfs_read L h2 (some nd) offset w q
      = (fun i => if i < w then buf i else q i, (w : Int)) := by
    rw [hfs_read_spec L hL h2 nd ino2 offset w q t3.sb t3.ok.ptrs t3.disk (by omega)
      (by rw [t4, if_pos (Or.inr hw)]; exact le_max_right _ _)]
    congr 1
    funext i
    by_cases c : i < w
    · rw [if_pos c, if_pos c, t6, if_pos ⟨by omega, by omega⟩]
      congr 1
      omega
    · rw [if_neg c, if_neg c]
  have hused_i := t3.ok.ptrs _ hrefi
  have hused_n := t3.ok.ptrs _ hrefn
  have hres : resolve_path L h2 path = (nd.inode_num : Int) := by
    rw [resolve_path_write L hL h h2 nd.inode_num ino path hok huse hdisk hfile t11 hcs
      (by rw [hpath]; omega)]
    exact hpath
  have hn31 := inUse_lt L hL h hs _ huse
  obtain ⟨F, z1, z2⟩ := free_inode_blocks_freed L h2 ino2 t3.sb t3.synced
    (offset / L.BLOCK_SIZE - L.INODE_DIRECT_POINTERS) (by omega) hused_i.1 hused_i.2.1
    (by rw [← hbm]; exact hused_n.1) (by rw [← hbm]; exact hused_n.2.1)
  rw [← hbm] at z2
  obtain ⟨h3, e3, S⟩ := remove_finish_shrunk L h2 ino2 nd.inode_num path parent name
    (t3.sb.of_eq F.sb_eq F.nb_eq) hsplit
  have hrm : hfs_remove L h2 path = some (h3, 0) := by
    show hfs_remove_depth L (511 + 1) h2 path = _
    rw [hfs_remove_depth]
    simp only [hres]
    rw [if_neg (by omega), if_neg (by omega), toU32_natCast _ (by omega), t3.disk]
    simp only []
    rw [if_neg (by rw [t5, hfile]; exact fun g => g rfl)]
    exact e3
  have bit0 : ∀ x, get_bit (free_inode_blocks L h2 ino2).1.block_bitmap x = 0 →
      get_bit h3.disk_block_bitmap x = 0 ∧ get_bit h3.block_bitmap x = 0 := by
    intro x hx
    refine ⟨?_, by rw [S.mem_eq]; exact hx⟩
    rcases get_bit_cases h3.disk_block_bitmap x with e | e
    · exact e
    · have := S.disk_le x e
      rw [← F.synced.1] at this
      omega
  refine ⟨h2, w, ino2.i_single_indirect_pointer, bmap L h2 ino2 (offset / L.BLOCK_SIZE), ino2,
    by rw [t2, hret], hw, t1, ?_, hni, hnn, hused_i, hused_n, hne, t3.disk, rfl, hbm.symm,
    get_block_eq_bmap L h2 t3.sb ino2 t3.ok.ptrs offset, hread, h3, hrm, (bit0 _ z1).1,
    (bit0 _ z2).1, (bit0 _ z1).2, (bit0 _ z2).2⟩
  intro hone
  by_contra hc
  obtain ⟨_, r2⟩ := t9 (by omega)
  obtain ⟨b1, _⟩ := block_split L.BLOCK_SIZE offset w hbs (by omega)
  rw [b1] at r2
  exact hmap r2
/-! ## File system: the example of a file in the root directory -/

theorem hfsWithFile_inUse (i : Nat) (hi : hfsWithFile.inUse i) : i = 0 ∨ i = 1 := by
  obtain ⟨h1, h2⟩ := hi
  have h8 : i < 8 := h1
  rcases h2 with e | e
  · exact Or.inl e
  · interval_cases i
    · exact Or.inl rfl
    · exact Or.inr rfl
    all_goals exact absurd e (by decide)

set_option maxRecDepth 100000 in
/-- The example file system is consistent. -/
theorem hfsOk_hfsWithFile : HfsOk hfsSmallLayout hfsWithFile := by
  have hsb : SbOk hfsSmallLayout hfsWithFile :=
    ⟨by decide, by decide, by decide, by decide, by decide, by decide, by decide, by decide,
      by decide, by decide, by decide, by decide, by decide⟩
  have r0 : read_inode hfsSmallLayout hfsWithFile 0
      = some (one_block_inode hfsSmallLayout 1 7 8) := by decide
  have r1 : read_inode hfsSmallLayout hfsWithFile 1 = some (new_inode hfsSmallLayout 0) := by
    decide
  have refs0 : ∀ b, refsBlock hfsSmallLayout hfsWithFile (one_block_inode hfsSmallLayout 1 7 8) b
      → b = 7 := by
    rintro b ⟨hb0, hb⟩
    rcases hb with e | ⟨_, ⟨j, hj, e⟩ | ⟨e, _⟩⟩
    · exact absurd e.symm hb0
    · have hj0 : j = 0 := by
        have : j < 1 := hj
        omega
      rw [hj0] at e
      exact e.symm
    · exact absurd rfl e
  have refs1 : ∀ b, ¬ refsBlock hfsSmallLayout hfsWithFile (new_inode hfsSmallLayout 0) b := by
    rintro b ⟨hb0, hb⟩
    rcases hb with e | ⟨_, ⟨j, hj, e⟩ | ⟨e, _⟩⟩
    · exact hb0 e.symm
    · have hj0 : j = 0 := by
        have : j < 1 := hj
        omega
      rw [hj0] at e
      exact hb0 e.symm
    · exact e rfl
  have bm0 : ∀ k, bmap hfsSmallLayout hfsWithFile (one_block_inode hfsSmallLayout 1 7 8) k ≠ 0
      → k = 0 := by
    intro k hk
    by_contra hc
    apply hk
    unfold bmap
    rw [if_neg (by show ¬ k < 1; omega)]
    exact if_pos rfl
  have bm7 : bmap hfsSmallLayout hfsWithFile (one_block_inode hfsSmallLayout 1 7 8) 0 = 7 := rfl
  have ents : ∀ j, j < 4 →
      dirent_inode_number hfsSmallLayout (hfsWithFile.device.blocks 7) j ≠ 0 →
      j = 0 ∧ dirent_inode_number hfsSmallLayout (hfsWithFile.device.blocks 7) j = 1 := by
    intro j hj hne
    interval_cases j
    · exact ⟨rfl, by decide⟩
    all_goals exact absurd (by decide) hne
  have use1 : hfsWithFile.inUse 1 := ⟨by decide, Or.inr (by decide)⟩
  have iok0 : InodeOk hfsSmallLayout hfsWithFile (one_block_inode hfsSmallLayout 1 7 8) := by
    refine ⟨fun b hb => ?_, ?_, ?_⟩
    · rw [refs0 b hb]
      exact ⟨by decide, by decide, by decide⟩
    · intro hd
      exact hd.1 rfl
    · intro k k2 hk e
      have e0 := bm0 k hk
      rw [e] at hk
      rw [e0, bm0 k2 hk]
  have dok0 : DirInodeOk hfsSmallLayout hfsWithFile (one_block_inode hfsSmallLayout 1 7 8) := by
    refine { toInodeOk := iok0, size_le := by decide, term := ?_, in_size := ?_, targets := ?_ }
    · intro b hb
      rw [refs0 b ⟨hb.1, Or.inr hb⟩]
      intro j hj hne
      obtain ⟨e, _⟩ := ents j hj hne
      rw [e]
      exact ⟨1, by decide, by decide⟩
    · intro i j hj hb hne
      have e0 := bm0 i hb
      rw [e0, bm7] at hne
      obtain ⟨e, _⟩ := ents j hj hne
      rw [e0, e]
      decide
    · intro b j hb hj hne
      rw [refs0 b ⟨hb.1, Or.inr hb⟩] at hne ⊢
      obtain ⟨_, e⟩ := ents j hj hne
      rw [e]
      exact use1
  refine { toSbOk := hsb, inode_ok := ?_, dir_ok := ?_, disjoint := ?_ }
  · intro i ino hi hr
    rcases hfsWithFile_inUse i hi with e | e
    · rw [e, r0] at hr
      injection hr with e2
      rw [← e2]
      exact iok0
    · rw [e, r1] at hr
      injection hr with e2
      rw [← e2]
      exact inodeOk_new_inode _ _ _
  · intro i ino hi hr hd
    rcases hfsWithFile_inUse i hi with e | e
    · rw [e, r0] at hr
      injection hr with e2
      rw [← e2]
      exact dok0
    · rw [e, r1] at hr
      injection hr with e2
      rw [← e2] at hd
      exact absurd rfl hd
  · intro i i2 ino ino2 b hi hi2 hne hr hr2 hb
    rcases hfsWithFile_inUse i hi with e | e
    · rcases hfsWithFile_inUse i2 hi2 with e3 | e3
      · exact absurd (e.trans e3.symm) hne
      · rw [e3, r1] at hr2
        injection hr2 with e2
        rw [← e2]
        exact refs1 b
    · rw [e, r1] at hr
      injection hr with e2
      rw [← e2] at hb
      exact absurd hb (refs1 b)

theorem cstr_path_f : CStr PATH_F := by
  intro c hc
  have e : c = 47 ∨ c = 102 := by simpa [PATH_F] using hc
  rcases e with e | e <;> rw [e] <;> decide

set_option maxRecDepth 100000 in
theorem hfs_write_indirect_witness :
    HfsOk hfsSmallLayout hfsWithFile ∧ hfsWithFile.free_blocks = 2 ∧
      read_inode hfsSmallLayout hfsWithFile 1 = some (new_inode hfsSmallLayout 0) ∧
      resolve_path hfsSmallLayout hfsWithFile PATH_F = 1 ∧
      (hfs_write hfsSmallLayout hfsWithFile (some vnodeOne) 32 32 bufCount).2 = 32 ∧
      ∃ (h2 : HfsData) (r ib nb : Nat) (ino2 : Inode),
        hfs_write hfsSmallLayout hfsWithFile (some vnodeOne) 32 32 bufCount = (h2, (r : Int)) ∧
        0 < r ∧ r ≤ 32 ∧
        (32 % hfsSmallLayout.BLOCK_SIZE + 32 ≤ hfsSmallLayout.BLOCK_SIZE → r = 32) ∧
        ¬ hfsWithFile.dataUsed ib ∧ ¬ hfsWithFile.dataUsed nb ∧ h2.dataUsed ib ∧
        h2.dataUsed nb ∧ ib ≠ nb ∧
        read_inode hfsSmallLayout h2 vnodeOne.inode_num = some ino2 ∧
        ino2.i_single_indirect_pointer = ib ∧
        load16 (h2.device.blocks ib)
          (2 * (32 / hfsSmallLayout.BLOCK_SIZE - hfsSmallLayout.INODE_DIRECT_POINTERS)) = nb ∧
        get_block_for_offset hfsSmallLayout h2 ino2 32 = (nb : Int) ∧
        hfs_read hfsSmallLayout h2 (some vnodeOne) 32 r (fun _ => 0)
          = (fun i => if i < r then bufCount i else 0, (r : Int)) ∧
        ∃ h3, hfs_remove hfsSmallLayout h2 PATH_F = some (h3, 0) ∧
          get_bit h3.disk_block_bitmap ib = 0 ∧ get_bit h3.disk_block_bitmap nb = 0 ∧
          get_bit h3.block_bitmap ib = 0 ∧ get_bit h3.block_bitmap nb = 0 :=
  ⟨hfsOk_hfsWithFile, by decide, by decide, by decide, by decide,
    hfs_write_indirect hfsSmallLayout ⟨by decide, by decide, by decide, by decide⟩ hfsWithFile
      vnodeOne (new_inode hfsSmallLayout 0) 32 32 bufCount (fun _ => 0) PATH_F [47] [102]
      hfsOk_hfsWithFile ⟨by decide, Or.inr (by decide)⟩ (by decide) (by decide) rfl rfl
      (by decide) (by decide) (by decide) (by decide) (by decide) (by decide) cstr_path_f
      (by decide)⟩

set_option maxRecDepth 100000 in
/-- The example file system has two free blocks and the file `/f`, inode 1,
without a single-indirect block; 32 is `INODE_DIRECT_POINTERS * BLOCK_SIZE`.
A write of 0 bytes at offset 32 returns 0 and allocates nothing: two blocks
are free after it and the inode has no single-indirect block. A write of 64
bytes at offset 32 takes the two free blocks for the indirect block and the
first data block and returns 32, and the read of the same 64 bytes returns
32. -/
theorem hfs_write_indirect_counterexample :
    read_inode hfsSmallLayout hfsWithFile 1 = some (new_inode hfsSmallLayout 0) ∧
      hfsWithFile.free_blocks = 2 ∧
      hfsSmallLayout.INODE_DIRECT_POINTERS * hfsSmallLayout.BLOCK_SIZE = 32 ∧
      (hfs_write hfsSmallLayout hfsWithFile (some vnodeOne) 32 0 bufCount).2 = 0 ∧
      (hfs_write hfsSmallLayout hfsWithFile (some vnodeOne) 32 0 bufCount).1.free_blocks = 2 ∧
      (read_inode hfsSmallLayout
          (hfs_write hfsSmallLayout hfsWithFile (some vnodeOne) 32 0 bufCount).1 1).map
        Inode.i_single_indirect_pointer = some 0 ∧
      (hfs_write hfsSmallLayout hfsWithFile (some vnodeOne) 32 64 bufCount).2 = 32 ∧
      (hfs_write hfsSmallLayout hfsWithFile (some vnodeOne) 32 64 bufCount).1.free_blocks = 0 ∧
      (hfs_read hfsSmallLayout
          (hfs_write hfsSmallLayout hfsWithFile (some vnodeOne) 32 64 bufCount).1
          (some vnodeOne) 32 64 (fun _ => 0)).2 = 32 :=
  ⟨by decide, by decide, by decide, by decide, by decide, by decide, by decide, by decide,
    by decide⟩
/-! ## ELF loader: validation of the header -/

theorem load32_eq_magic (m : Nat → Nat) :
    load32 m 0 = ELF_MAGIC ↔
      m 0 % 256 = 127 ∧ m 1 % 256 = 69 ∧ m 2 % 256 = 76 ∧ m 3 % 256 = 70 := by
  unfold load32 ELF_MAGIC
  have h0 := Nat.mod_lt (m 0) (show 0 < 256 by decide)
  have h1 := Nat.mod_lt (m 1) (show 0 < 256 by decide)
  have h2 := Nat.mod_lt (m 2) (show 0 < 256 by decide)
  have h3 := Nat.mod_lt (m 3) (show 0 < 256 by decide)
  simp only [Nat.zero_add]
  omega

/-- C36: `elf_check_hdr` returns true if and only if the identification bytes
0 to 3 are `0x7F 'E' 'L' 'F'`, byte 4 is the class 32-bit, byte 5 is the
little-endian data encoding, byte 6 is the current version, the type is EXEC
or DYN and the machine is i386; so every header that differs in one of these
fields is rejected. -/
theorem elf_check_hdr_accepts_iff (hdr : ElfHeader) :
    elf_check_hdr hdr = true ↔
      (hdr.e_ident 0 % 256 = 127 ∧ hdr.e_ident 1 % 256 = 69 ∧ hdr.e_ident 2 % 256 = 76 ∧
        hdr.e_ident 3 % 256 = 70) ∧
      hdr.e_ident 4 = ELF_CLASS_32 ∧ hdr.e_ident 5 = ELF_DATA_LSB ∧
      hdr.e_ident 6 = ELF_VERSION_CURRENT ∧
      (hdr.e_type = ELF_TYPE_EXEC ∨ hdr.e_type = ELF_TYPE_DYN) ∧
      hdr.e_machine = ELF_MACHINE_X86 := by
  rw [← load32_eq_magic]
  unfold elf_check_hdr
  constructor
  · intro h
    by_cases c : load32 hdr.e_ident 0 ≠ ELF_MAGIC ∨ hdr.e_ident 4 ≠ ELF_CLASS_32 ∨
        hdr.e_ident 5 ≠ ELF_DATA_LSB ∨ hdr.e_ident 6 ≠ ELF_VERSION_CURRENT ∨
        (hdr.e_type ≠ ELF_TYPE_EXEC ∧ hdr.e_type ≠ ELF_TYPE_DYN) ∨
        hdr.e_machine ≠ ELF_MACHINE_X86
    · rw [if_pos c] at h
      exact absurd h (by decide)
    · simp only [not_or, not_and, not_not] at c
      obtain ⟨c1, c2, c3, c4, c5, c6⟩ := c
      refine ⟨c1, c2, c3, c4, ?_, c6⟩
      by_cases e : hdr.e_type = ELF_TYPE_EXEC
      · exact Or.inl e
      · exact Or.inr (c5 e)
  · rintro ⟨c1, c2, c3, c4, c5, c6⟩
    rw [if_neg]
    simp only [not_or, not_and, not_not]
    refine ⟨c1, c2, c3, c4, fun e => ?_, c6⟩
    rcases c5 with c5 | c5
    · exact absurd c5 e
    · exact c5
/-! ## File system: `hfs_read` with a wrapping end offset -/

theorem get_block_no_blocks (L : HfsLayout) (h : HfsData) (ino : Inode)
    (hz : ∀ k, ino.i_direct_pointers.getD k 0 = 0) (hi : ino.i_single_indirect_pointer = 0)
    (off : Nat) : get_block_for_offset L h ino off = 0 := by
  unfold get_block_for_offset
  simp only []
  by_cases hk : off / L.BLOCK_SIZE < L.INODE_DIRECT_POINTERS
  · rw [if_pos hk, hz]
    rfl
  · rw [if_neg hk, if_pos hi]

/-- The loop of `hfs_read` on an inode without blocks fills the buffer with
zero bytes up to the size that it is given, whatever that size is. -/
theorem hfs_read_loop_holes (L : HfsLayout) (hbs : 0 < L.BLOCK_SIZE) (h : HfsData) (ino : Inode)
    (offset size : Nat) (hz : ∀ off, get_block_for_offset L h ino off = 0) :
    ∀ (fuel : Nat) (buf : Nat → Nat) (r : Nat), r ≤ size → size - r ≤ fuel →
      hfs_read_loop L h ino offset size fuel buf r
        = (fun i => if r ≤ i ∧ i < size then 0 else buf i, toInt32 size) := by
  intro fuel
  induction fuel with
  | zero =>
    intro buf r hr hf
    have e : r = size := by omega
    subst e
    rw [hfs_read_loop]
    congr 1
    funext i
    rw [if_neg (by omega)]
  | succ fuel ih =>
    intro buf r hr hf
    rw [hfs_read_loop]
    by_cases hlt : r < size
    · obtain ⟨c1, c2, _⟩ := chunk_props L.BLOCK_SIZE ((offset + r) % U32) (size - r) hbs
        (by omega)
      rw [if_pos hlt]
      simp only [hz, le_refl, if_true]
      rw [ih _ _ (by omega) (by omega)]
      congr 1
      funext i
      unfold zero_bytes
      by_cases a1 : r ≤ i ∧ i < size
      · rw [if_pos a1]
        by_cases a2 : r + (if L.BLOCK_SIZE - (offset + r) % U32 % L.BLOCK_SIZE > size - r
            then size - r else L.BLOCK_SIZE - (offset + r) % U32 % L.BLOCK_SIZE) ≤ i ∧ i < size
        · rw [if_pos a2]
        · rw [if_neg a2, if_pos ⟨a1.1, by omega⟩]
      · rw [if_neg a1, if_neg (by omega), if_neg (by omega)]
    · have e : r = size := by omega
      subst e
      rw [if_neg hlt]
      congr 1
      funext i
      rw [if_neg (by omega)]

set_option maxRecDepth 100000 in
/-- C38 (code evaluated at the failing input): the file `/f` of the example
has size 32 and no block. `hfs_read(node, 8, 0xFFFFFFF8, q)`, for which
`offset + size` wraps to 0, does not shorten the size to the 24 bytes that
are left of the file: it fills the bytes `0 .. 0xFFFFFFF7` of the buffer with
zero, also the byte at index 24 and the byte at index 1000000, and returns
`(int32_t)0xFFFFFFF8`, which is -8. -/
theorem hfs_read_wraps_past_end :
    read_inode hfsSmallLayout hfsNoBlocks 1
        = some { i_is_directory := 0, i_size := 32, i_direct_pointers := [0],
                 i_single_indirect_pointer := 0 } ∧
      (8 + 4294967288) % U32 = 0 ∧
      hfs_read hfsSmallLayout hfsNoBlocks (some vnodeOne) 8 4294967288 (fun _ => 7)
        = (fun i => if i < 4294967288 then 0 else 7, -8) ∧
      (hfs_read hfsSmallLayout hfsNoBlocks (some vnodeOne) 8 4294967288 (fun _ => 7)).1 24 = 0 ∧
      (hfs_read hfsSmallLayout hfsNoBlocks (some vnodeOne) 8 4294967288 (fun _ => 7)).1 1000000
        = 0 := by
  have hr : read_inode hfsSmallLayout hfsNoBlocks 1
      = some { i_is_directory := 0, i_size := 32, i_direct_pointers := [0],
               i_single_indirect_pointer := 0 } := by decide
  have hz : ∀ off, get_block_for_offset hfsSmallLayout hfsNoBlocks
      { i_is_directory := 0, i_size := 32, i_direct_pointers := [0],
        i_single_indirect_pointer := 0 } off = 0 := by
    intro off
    refine get_block_no_blocks _ _ _ (fun k => ?_) rfl off
    cases k with
    | zero => rfl
    | succ k => rfl
  have e : hfs_read hfsSmallLayout hfsNoBlocks (some vnodeOne) 8 4294967288 (fun _ => 7)
      = (fun i => if i < 4294967288 then 0 else 7, -8) := by
    unfold hfs_read
    have hv : vnodeOne.inode_num = 1 := rfl
    simp only [hv, hr]
    rw [if_neg (by decide), if_neg (by decide),
      hfs_read_loop_holes hfsSmallLayout (by decide) hfsNoBlocks _ 8 4294967288 hz
        4294967288 _ 0 (Nat.zero_le _) (by omega)]
    congr 1
    · funext i
      by_cases c : i < 4294967288
      · rw [if_pos ⟨Nat.zero_le _, c⟩, if_pos c]
      · rw [if_neg (fun g => c g.2), if_neg c]
  refine ⟨hr, by decide, e, ?_, ?_⟩
  · rw [e]
    decide
  · rw [e]
    decide
/-! ## The scheduler: the ready queue under ticks and posts -/

theorem chain_unique (s : SchedState) :
    ∀ (l l2 : List Nat) (a : Nat), Chain s a l → Chain s a l2 → l = l2 := by
  intro l
  induction l with
  | nil =>
    intro l2 a h h2
    cases l2 with
    | nil => rfl
    | cons t ts => exact absurd (h2.1.symm.trans h) h2.2.1
  | cons x xs ih =>
    intro l2 a h h2
    cases l2 with
    | nil => exact absurd (h.1.symm.trans h2) h.2.1
    | cons t ts =>
      have e : x = t := h.1.symm.trans h2.1
      subst e
      rw [ih ts _ h.2.2 h2.2.2]

theorem inQueue_iff (s : SchedState) (q : List Nat) (h : IsQueue s q) (t : Nat) :
    InQueue s t ↔ t ∈ q := by
  constructor
  · rintro ⟨l, hl, ht⟩
    rw [chain_unique s q l _ h.chain hl]
    exact ht
  · intro ht
    exact ⟨q, h.chain, ht⟩

theorem setProc_threads (s : SchedState) (p : Nat) (v : Process) :
    (s.setProc p v).threads = s.threads := rfl

theorem process_create_queue (s : SchedState) (p : Nat) (name : List Nat) (pr : Int) :
    (process_create s p name pr).ready_queue_head = s.ready_queue_head ∧
      (process_create s p name pr).ready_queue_tail = s.ready_queue_tail ∧
      (process_create s p name pr).current_thread = s.current_thread ∧
      (process_create s p name pr).threads = s.threads := by
  unfold process_create
  split_ifs
  · exact ⟨rfl, rfl, rfl, rfl⟩
  · exact ⟨rfl, rfl, rfl, rfl⟩

theorem scheduler_init_cases (s : SchedState) (heap_ready : Bool) :
    (scheduler_init s heap_ready).ready_queue_head = 0 ∧
      (scheduler_init s heap_ready).ready_queue_tail = 0 ∧
      ((scheduler_init s heap_ready).current_thread = s.current_thread ∨
        ((scheduler_init s heap_ready).current_thread ≠ 0 ∧
          ((scheduler_init s heap_ready).threads
              (scheduler_init s heap_ready).current_thread).state
            = ThreadState.THREAD_RUNNING ∧
          ((scheduler_init s heap_ready).threads
              (scheduler_init s heap_ready).current_thread).timeslice = DEFAULT_TIMESLICE)) := by
  unfold scheduler_init
  dsimp only
  split_ifs with h1 h2 h3 h4
  · exact ⟨rfl, rfl, Or.inl rfl⟩
  · exact ⟨rfl, rfl, Or.inl rfl⟩
  · exact ⟨(process_create_queue _ _ _ _).1, (process_create_queue _ _ _ _).2.1,
      Or.inl (process_create_queue _ _ _ _).2.2.1⟩
  · exact ⟨(process_create_queue _ _ _ _).1, (process_create_queue _ _ _ _).2.1,
      Or.inl (process_create_queue _ _ _ _).2.2.1⟩
  · refine ⟨(process_create_queue _ _ _ _).1, (process_create_queue _ _ _ _).2.1,
      Or.inr ⟨h3, ?_, ?_⟩⟩
    · simp only [setProc_threads, setThread_same]
    · simp only [setProc_threads, setThread_same]

theorem queueInv_init (s : SchedState) (heap_ready : Bool) (h0 : s.current_thread = 0) :
    QueueInv (scheduler_init s heap_ready) [] := by
  obtain ⟨a, b, c⟩ := scheduler_init_cases s heap_ready
  refine ⟨⟨a, fun x hx => by simp at hx, List.nodup_nil⟩, fun _ => ⟨a, b⟩,
    fun x hx => by simp at hx, fun hc => ?_⟩
  rcases c with c | c
  · exact absurd (c.trans h0) hc
  · refine ⟨c.2.1, by simp, ?_⟩
    rw [c.2.2]
    decide

theorem queueInv_post (s : SchedState) (q : List Nat) (t : Nat) (h : QueueInv s q)
    (ht : t ≠ s.current_thread) (hq : ¬ InQueue s t) :
    ∃ q2, QueueInv (scheduler_post s t) q2 ∧
      (scheduler_post s t).current_thread = s.current_thread := by
  by_cases t0 : t = 0
  · have e : scheduler_post s t = s := by
      unfold scheduler_post
      rw [if_pos t0]
    rw [e]
    exact ⟨q, h, rfl⟩
  · have htq : t ∉ q := fun hx => hq ((inQueue_iff s q h.queue t).2 hx)
    obtain ⟨p1, p2, p3, p4, _, _⟩ := scheduler_post_spec s q t h.queue t0 htq
    have hstate : ∀ x, x ≠ t → ((scheduler_post s t).threads x).state = (s.threads x).state ∧
        ((scheduler_post s t).threads x).timeslice = (s.threads x).timeslice := by
      intro x hx
      have e := p3 x hx
      simp only [Thread.mk.injEq] at e
      exact ⟨e.2.2.1, e.2.2.2.2.1⟩
    refine ⟨q ++ [t], ⟨p1, fun e => by simp at e, ?_, ?_⟩, p4⟩
    · intro x hx
      rcases List.mem_append.1 hx with hx | hx
      · have hxt : x ≠ t := fun e => htq (by rw [← e]; exact hx)
        rw [(hstate x hxt).1]
        exact h.ready x hx
      · have e : x = t := by simpa using hx
        rw [e, p2]
    · rw [p4]
      intro hc
      obtain ⟨c1, c2, c3⟩ := h.cur hc
      have hct : s.current_thread ≠ t := fun e => ht e.symm
      refine ⟨by rw [(hstate _ hct).1]; exact c1, ?_, by rw [(hstate _ hct).2]; exact c3⟩
      intro hx
      rcases List.mem_append.1 hx with hx | hx
      · exact c2 hx
      · exact hct (by simpa using hx)

theorem queueInv_tick (fuel : Nat) (s : SchedState) (q : List Nat) (context : Nat)
    (h : QueueInv s q) :
    ∃ s2 q2, scheduler_tick fuel s context = some s2 ∧ QueueInv s2 q2 ∧
      (s.current_thread ≠ 0 → s2.current_thread ≠ 0) ∧
      (∀ x, x ∈ q2 → x ∈ q ∨ x = s.current_thread) ∧
      (s2.current_thread = s.current_thread ∨ s2.current_thread ∈ q) := by
  by_cases hc : s.current_thread = 0
  · have e : scheduler_tick fuel s context
        = some { s with debug_tick_count := (s.debug_tick_count + 1) % U32 } := by
      unfold scheduler_tick
      dsimp only
      rw [if_pos hc]
    refine ⟨_, q, e, ⟨isQueue_congr s _ q h.queue rfl rfl (fun _ _ => rfl), h.empty, h.ready,
      fun hc2 => absurd hc hc2⟩, fun hc2 => absurd hc hc2, fun x hx => Or.inl hx, Or.inl rfl⟩
  · obtain ⟨c1, c2, c3⟩ := h.cur hc
    have R : Running s s.current_thread q (s.threads s.current_thread).timeslice :=
      ⟨rfl, hc, c1, rfl, h.queue, c2⟩
    obtain ⟨s2, hs2, k1, k2, k3⟩ := tick_running_spec fuel s context _ q _ R
    refine ⟨s2, ?_⟩
    by_cases ht : 1 < (s.threads s.current_thread).timeslice
    · obtain ⟨r1, r2, r3, r4⟩ := k1 ht
      refine ⟨q, hs2, ⟨r1.queue, fun e => ?_, fun x hx => ?_, fun _ => ?_⟩, fun _ => ?_,
        fun x hx => Or.inl hx, Or.inl r1.cur⟩
      · rw [r2, r3]
        exact h.empty e
      · rw [(r4 x).1]
        exact h.ready x hx
      · rw [r1.cur]
        refine ⟨r1.state, r1.not_queued, ?_⟩
        rw [r1.slice]
        omega
      · rw [r1.cur]
        exact hc
    · have ht1 : (s.threads s.current_thread).timeslice = 1 := by omega
      cases hq : q with
      | nil =>
        obtain ⟨r1, r2⟩ := k2 ht1 hq
        have hh : s.ready_queue_head = 0 := (h.empty hq).1
        have e := scheduler_tick_running_eq fuel s context hc c1
        rw [ht1, if_neg (fun z => absurd z.1 (by decide)), if_pos hh] at e
        have e2 : s2 = _ := Option.some.inj (hs2.symm.trans e)
        have htl : s2.ready_queue_tail = 0 := by
          rw [e2]
          exact (h.empty hq).2
        refine ⟨[], hs2, ⟨r1.queue, fun _ => ⟨r1.queue.chain, htl⟩, fun x hx => by simp at hx,
          fun _ => ?_⟩, fun _ => ?_, fun x hx => by simp at hx, Or.inl r1.cur⟩
        · rw [r1.cur]
          refine ⟨r1.state, r1.not_queued, ?_⟩
          rw [r1.slice]
          decide
        · rw [r1.cur]
          exact hc
      | cons a rest =>
        obtain ⟨r1, r2, r3⟩ := k3 ht1 a rest hq
        have hnd : (a :: rest).Nodup := by rw [← hq]; exact h.queue.nodup
        refine ⟨rest ++ [s.current_thread], hs2,
          ⟨r1.queue, fun e => by simp at e, fun x hx => ?_, fun _ => ?_⟩, fun _ => ?_,
          fun x hx => ?_, Or.inr (by rw [r1.cur]; exact List.mem_cons_self _ _)⟩
        · rcases List.mem_append.1 hx with hx | hx
          · have hxa : x ≠ a := fun e => (List.nodup_cons.1 hnd).1 (by rw [← e]; exact hx)
            have hxq : x ∈ q := by rw [hq]; exact List.mem_cons_of_mem _ hx
            have hxc : x ≠ s.current_thread := fun e => c2 (by rw [← e]; exact hxq)
            rw [r3 x hxc hxa]
            exact h.ready x hxq
          · have e : x = s.current_thread := by simpa using hx
            rw [e]
            exact r2
        · rw [r1.cur]
          refine ⟨r1.state, r1.not_queued, ?_⟩
          rw [r1.slice]
          decide
        · rw [r1.cur]
          exact r1.ne
        · rcases List.mem_append.1 hx with hx | hx
          · exact Or.inl (List.mem_cons_of_mem _ hx)
          · exact Or.inr (by simpa using hx)

theorem queueInv_run (fuel : Nat) :
    ∀ (ops : List SchedOp) (s : SchedState) (q : List Nat), QueueInv s q →
      PostsFresh fuel ops s →
      ∃ s2 q2, sched_run fuel ops s = some s2 ∧ QueueInv s2 q2 ∧
        (s.current_thread ≠ 0 → s2.current_thread ≠ 0) := by
  intro ops
  induction ops with
  | nil =>
    intro s q h _
    exact ⟨s, q, rfl, h, fun e => e⟩
  | cons op rest ih =>
    intro s q h hp
    obtain ⟨hp1, hp2⟩ := hp
    cases op with
    | tick context =>
      obtain ⟨s1, q1, e1, i1, n1, _, _⟩ := queueInv_tick fuel s q context h
      obtain ⟨s2, q2, e2, i2, n2⟩ := ih s1 q1 i1 (hp2 s1 e1)
      refine ⟨s2, q2, ?_, i2, fun e => n2 (n1 e)⟩
      show (match sched_step fuel s (SchedOp.tick context) with
        | none => none
        | some s1 => sched_run fuel rest s1) = some s2
      rw [show sched_step fuel s (SchedOp.tick context) = some s1 from e1]
      exact e2
    | post t =>
      obtain ⟨a1, a2⟩ := hp1 t rfl
      obtain ⟨q1, i1, n1⟩ := queueInv_post s q t h a1 a2
      obtain ⟨s2, q2, e2, i2, n2⟩ := ih (scheduler_post s t) q1 i1 (hp2 _ rfl)
      refine ⟨s2, q2, e2, i2, fun e => n2 (by rw [n1]; exact e)⟩

theorem not_inQueue_of_head (s : SchedState) (t : Nat) (h : s.ready_queue_head = 0) :
    ¬ InQueue s t := by
  rintro ⟨l, hl, ht⟩
  cases l with
  | nil => simp at ht
  | cons x xs => exact hl.2.1 (hl.1.symm.trans h)

theorem postsFresh_ticks (fuel : Nat) (a b : Nat) (s : SchedState) :
    PostsFresh fuel [SchedOp.tick a, SchedOp.tick b] s :=
  ⟨fun _ e => SchedOp.noConfusion e, fun _ _ => ⟨fun _ e => SchedOp.noConfusion e, fun _ _ => trivial⟩⟩

/-- C40: starting from `scheduler_init` at boot (no current thread before it)
and after every sequence of `scheduler_tick` calls and of `scheduler_post`
calls on threads that are neither current nor in the ready queue, every call
returns and the ready queue is a list without repetitions that the `next`
links reach from `ready_queue_head` and whose last element is
`ready_queue_tail`, both pointers are NULL when it is empty, every queued
thread is READY, and the current thread is RUNNING and not in the queue; the
current thread that `scheduler_init` sets up is never lost (when
`scheduler_init` finds no memory there is no current thread at all). -/
theorem scheduler_queue_invariant (fuel : Nat) (s : SchedState) (heap_ready : Bool)
    (ops : List SchedOp) (h0 : s.current_thread = 0)
    (hp : PostsFresh fuel ops (scheduler_init s heap_ready)) :
    ∃ s2 q, sched_run fuel ops (scheduler_init s heap_ready) = some s2 ∧
      Chain s2 s2.ready_queue_head q ∧ q.Nodup ∧
      (∀ x, q.getLast? = some x → s2.ready_queue_tail = x) ∧
      (q = [] → s2.ready_queue_head = 0 ∧ s2.ready_queue_tail = 0) ∧
      (∀ x, x ∈ q → (s2.threads x).state = ThreadState.THREAD_READY) ∧
      (s2.current_thread ≠ 0 →
        (s2.threads s2.current_thread).state = ThreadState.THREAD_RUNNING ∧
          s2.current_thread ∉ q) ∧
      ((scheduler_init s heap_ready).current_thread ≠ 0 → s2.current_thread ≠ 0) := by
  obtain ⟨s2, q, e, i, n⟩ :=
    queueInv_run fuel ops _ [] (queueInv_init s heap_ready h0) hp
  exact ⟨s2, q, e, i.queue.chain, i.queue.nodup, i.queue.tail, i.empty, i.ready,
    fun hc => ⟨(i.cur hc).1, (i.cur hc).2.1⟩, n⟩

set_option maxRecDepth 100000 in
theorem scheduler_queue_invariant_witness :
    schedBoot.current_thread = 0 ∧ (scheduler_init schedBoot true).current_thread = 98120 ∧
      ∃ s2 q, sched_run 10 [SchedOp.post 300, SchedOp.tick 0, SchedOp.tick 5]
            (scheduler_init schedBoot true) = some s2 ∧
        Chain s2 s2.ready_queue_head q ∧ q.Nodup ∧
        (∀ x, q.getLast? = some x → s2.ready_queue_tail = x) ∧
        (q = [] → s2.ready_queue_head = 0 ∧ s2.ready_queue_tail = 0) ∧
        (∀ x, x ∈ q → (s2.threads x).state = ThreadState.THREAD_READY) ∧
        (s2.current_thread ≠ 0 →
          (s2.threads s2.current_thread).state = ThreadState.THREAD_RUNNING ∧
            s2.current_thread ∉ q) ∧
        ((scheduler_init schedBoot true).current_thread ≠ 0 → s2.current_thread ≠ 0) :=
  ⟨rfl, by decide,
    scheduler_queue_invariant 10 schedBoot true
      [SchedOp.post 300, SchedOp.tick 0, SchedOp.tick 5] rfl
      ⟨fun t e => by
          have e2 : t = 300 := (SchedOp.post.inj e).symm
          rw [e2]
          exact ⟨by decide, not_inQueue_of_head _ _ (by decide)⟩,
        fun s1 _ => postsFresh_ticks 10 0 5 s1⟩⟩
/-! ## The invariant of the process table and `process_fork` -/

/-- Three `kmalloc` calls in a row that succeed: the invariant of the heap
holds for the old live pointers and the three new ones, which are fresh; the
old blocks keep their orders and the third block has room for its request. -/
theorem kmalloc3_inv (h : BuddyState) (live : List Nat) (ord : Nat → Nat) (n1 n2 n3 : Nat)
    (H : HeapInv h live ord)
    (h1 : (kmalloc h n1).2 ≠ 0)
    (h2 : (kmalloc (kmalloc h n1).1 n2).2 ≠ 0)
    (h3 : (kmalloc (kmalloc (kmalloc h n1).1 n2).1 n3).2 ≠ 0)
    (hn3 : n3 + 15 < U32) :
    ∃ ord3,
      HeapInv (kmalloc (kmalloc (kmalloc h n1).1 n2).1 n3).1
        (live ++ [(kmalloc h n1).2] ++ [(kmalloc (kmalloc h n1).1 n2).2] ++
          [(kmalloc (kmalloc (kmalloc h n1).1 n2).1 n3).2]) ord3 ∧
      (∀ p, p ∈ live → ord3 p = ord p) ∧
      n3 + 8 ≤ 2 ^ ord3 (kmalloc (kmalloc (kmalloc h n1).1 n2).1 n3).2 ∧
      (kmalloc h n1).2 ∉ live ∧
      (kmalloc (kmalloc h n1).1 n2).2 ∉ live ++ [(kmalloc h n1).2] ∧
      (kmalloc (kmalloc (kmalloc h n1).1 n2).1 n3).2 ∉
        live ++ [(kmalloc h n1).2] ++ [(kmalloc (kmalloc h n1).1 n2).2] ∧
      (kmalloc (kmalloc (kmalloc h n1).1 n2).1 n3).1.base = h.base ∧
      (kmalloc (kmalloc (kmalloc h n1).1 n2).1 n3).1.max_order = h.max_order := by
  obtain ⟨c1, o1, _, H1⟩ := (kmalloc_inv h live ord n1 H).2 h1
  obtain ⟨c2, o2, _, H2⟩ := (kmalloc_inv _ _ _ n2 H1).2 h2
  obtain ⟨c3, o3, s3, H3⟩ := (kmalloc_inv _ _ _ n3 H2).2 h3
  obtain ⟨b1, m1, _⟩ := kmalloc_static h live ord n1 H
  obtain ⟨b2, m2, _⟩ := kmalloc_static _ _ _ n2 H1
  obtain ⟨b3, m3, _⟩ := kmalloc_static _ _ _ n3 H2
  refine ⟨_, H3, ?_, ?_, c1, c2, c3, by rw [b3, b2, b1], by rw [m3, m2, m1]⟩
  · intro p hp
    have e1 : p ≠ (kmalloc h n1).2 := fun e => c1 (e ▸ hp)
    have e2 : p ≠ (kmalloc (kmalloc h n1).1 n2).2 :=
      fun e => c2 (e ▸ List.mem_append_left _ hp)
    have e3 : p ≠ (kmalloc (kmalloc (kmalloc h n1).1 n2).1 n3).2 :=
      fun e => c3 (e ▸ List.mem_append_left _ (List.mem_append_left _ hp))
    rw [if_neg e3, if_neg e2, if_neg e1]
  · rw [if_pos rfl]
    exact s3 hn3

theorem owned_mono (h h2 : BuddyState) (live live2 : List Nat) (ord ord2 : Nat → Nat) (a : Nat)
    (hb : h2.base = h.base) (hm : h2.max_order = h.max_order)
    (hl : ∀ p, p ∈ live → p ∈ live2 ∧ ord2 p = ord p) (ho : Owned h live ord a) :
    Owned h2 live2 ord2 a := by
  rcases ho with ho | ho | ho | ⟨p, hp, g1, g2⟩
  · exact Or.inl ho
  · exact Or.inr (Or.inl (by rw [hb]; exact ho))
  · exact Or.inr (Or.inr (Or.inl (by rw [hb, hm]; exact ho)))
  · exact Or.inr (Or.inr (Or.inr ⟨p, (hl p hp).1, by rw [(hl p hp).2]; exact ⟨g1, g2⟩⟩))

theorem pow_ge_16384 (o : Nat) (h : 8200 ≤ 2 ^ o) : 16384 ≤ 2 ^ o := by
  by_contra hc
  have ho : o ≤ 13 := by
    by_contra h14
    have g : 2 ^ 14 ≤ 2 ^ o := Nat.pow_le_pow_right (by decide) (by omega)
    have e : (2 : Nat) ^ 14 = 16384 := by norm_num
    omega
  have g : 2 ^ o ≤ 2 ^ 13 := Nat.pow_le_pow_right (by decide) ho
  have e : (2 : Nat) ^ 13 = 8192 := by norm_num
  omega

/-- The trap frame at the top of a kernel stack of `KSTACK_SIZE` bytes that
`kmalloc` returned lies in the block of the stack. -/
theorem kstack_frame (h : BuddyState) (L : List Nat) (ord : Nat → Nat) (k : Nat)
    (H : HeapInv h L ord) (hk : k ∈ L) (hsz : KSTACK_SIZE + 8 ≤ 2 ^ ord k) :
    (k + KSTACK_SIZE) % U32 = k + 8192 ∧
      ((k + KSTACK_SIZE) % U32 + (U32 - CONTEXT_SIZE)) % U32 = k + 8128 ∧
      k - 8 ≤ k + 8128 ∧ k + 8128 < k - 8 + 2 ^ ord k ∧ h.base ≤ k - 8 ∧
      k - 8 + 2 ^ ord k ≤ h.base + 2 ^ h.max_order ∧ 8 ≤ k := by
  obtain ⟨_, _, h8, _, _, hb, _, hfit⟩ := H.live_hdr k hk
  have hU := H.fit
  have e1 : KSTACK_SIZE = 8192 := rfl
  have e2 : CONTEXT_SIZE = 64 := rfl
  rw [e1] at hsz ⊢
  rw [e2]
  have h16 := pow_ge_16384 (ord k) (by omega)
  unfold U32 at hU ⊢
  refine ⟨by omega, by omega, by omega, by omega, hb, hfit, h8⟩

/-- The trap frame at the top of a new kernel stack is not an address that
was owned before the stack was allocated. -/
theorem kstack_frame_fresh (h h3 : BuddyState) (live L : List Nat) (ord ord3 : Nat → Nat)
    (k a : Nat) (H3 : HeapInv h3 L ord3) (hk : k ∈ L) (hkl : k ∉ live)
    (hsz : KSTACK_SIZE + 8 ≤ 2 ^ ord3 k) (hb : h3.base = h.base)
    (hm : h3.max_order = h.max_order) (hl : ∀ p, p ∈ live → p ∈ L ∧ ord3 p = ord p)
    (ho : Owned h live ord a) :
    ((k + KSTACK_SIZE) % U32 + (U32 - CONTEXT_SIZE)) % U32 ≠ a := by
  obtain ⟨_, f2, f3, f4, f5, f6, f7⟩ := kstack_frame h3 L ord3 k H3 hk hsz
  rw [f2]
  rcases ho with ho | ho | ho | ⟨p, hp, g1, g2⟩
  · omega
  · rw [← hb] at ho
    omega
  · rw [← hb, ← hm] at ho
    omega
  · obtain ⟨hpL, hpo⟩ := hl p hp
    have hne : p ≠ k := fun e => hkl (e ▸ hp)
    rw [← hpo] at g2
    rcases H3.live_disj p k hpL hk hne with d | d
    · omega
    · omega

theorem mem_app3 (live : List Nat) (c t k x : Nat) :
    x ∈ live ++ [c] ++ [t] ++ [k] ↔ x ∈ live ∨ x = c ∨ x = t ∨ x = k := by
  simp only [List.mem_append, List.mem_singleton]
  tauto

/-- The trap frame at the top of a live kernel stack of `KSTACK_SIZE` bytes is
owned. -/
theorem owned_kstack_frame (h : BuddyState) (L : List Nat) (ord : Nat → Nat) (k : Nat)
    (H : HeapInv h L ord) (hk : k ∈ L) (hsz : KSTACK_SIZE + 8 ≤ 2 ^ ord k) :
    Owned h L ord (k + 8128) := by
  obtain ⟨_, _, f3, f4, _, _, _⟩ := kstack_frame h L ord k H hk hsz
  exact Or.inr (Or.inr (Or.inr ⟨k, hk, f3, f4⟩))

theorem queueInv_congr (s B : SchedState) (q : List Nat) (h : QueueInv s q)
    (hh : B.ready_queue_head = s.ready_queue_head)
    (ht : B.ready_queue_tail = s.ready_queue_tail)
    (hc : B.current_thread = s.current_thread)
    (hth : ∀ x, x ∈ q ∨ x = s.current_thread → B.threads x = s.threads x) : QueueInv B q := by
  refine ⟨isQueue_congr s B q h.queue hh ht (fun x hx => by rw [hth x (Or.inl hx)]),
    fun e => by rw [hh, ht]; exact h.empty e,
    fun x hx => by rw [hth x (Or.inl hx)]; exact h.ready x hx, fun hcur => ?_⟩
  rw [hc] at hcur ⊢
  rw [hth _ (Or.inr rfl)]
  exact h.cur hcur

/-- `scheduler_post` of a thread that is neither current nor queued keeps the
invariant of the ready queue and appends the thread. -/
theorem queueInv_post_append (s : SchedState) (q : List Nat) (t : Nat) (h : QueueInv s q)
    (t0 : t ≠ 0) (ht : t ≠ s.current_thread) (htq : t ∉ q) :
    QueueInv (scheduler_post s t) (q ++ [t]) := by
  obtain ⟨p1, p2, p3, p4, _, _⟩ := scheduler_post_spec s q t h.queue t0 htq
  have hstate : ∀ x, x ≠ t → ((scheduler_post s t).threads x).state = (s.threads x).state ∧
      ((scheduler_post s t).threads x).timeslice = (s.threads x).timeslice := by
    intro x hx
    have e := p3 x hx
    simp only [Thread.mk.injEq] at e
    exact ⟨e.2.2.1, e.2.2.2.2.1⟩
  refine ⟨p1, fun e => by simp at e, ?_, ?_⟩
  · intro x hx
    rcases List.mem_append.1 hx with hx | hx
    · have hxt : x ≠ t := fun e => htq (by rw [← e]; exact hx)
      rw [(hstate x hxt).1]
      exact h.ready x hx
    · have e : x = t := by simpa using hx
      rw [e, p2]
  · rw [p4]
    intro hc
    obtain ⟨c1, c2, c3⟩ := h.cur hc
    have hct : s.current_thread ≠ t := fun e => ht e.symm
    refine ⟨by rw [(hstate _ hct).1]; exact c1, ?_, by rw [(hstate _ hct).2]; exact c3⟩
    intro hx
    rcases List.mem_append.1 hx with hx | hx
    · exact c2 hx
    · exact hct (by simpa using hx)

/-- A successful `process_fork` keeps the invariant of the process table, as
long as the PID counter does not wrap: the child process, the child thread and
its kernel stack are the new live pointers, the child process is the new head
of the process list and the child thread the new last element of the ready
queue. -/
theorem procInv_fork (fuel : Nat) (s : SchedState) (live : List Nat) (ord : Nat → Nat)
    (pl q : List Nat) (hinv : ProcInv s live ord pl q) (hpid : s.next_pid + 1 < U32)
    (hcp : s.current_proc ≠ 0) (hct : s.current_thread ≠ 0)
    (hchild : fork_child s ≠ 0) (hclone : (vmm_clone_pagedir s.vmm).2 ≠ 0)
    (hthread : fork_thread s ≠ 0) (hstack : fork_kstack s ≠ 0) :
    ∃ s2 ord2, process_fork fuel s = some (s2, toInt32 s.next_pid) ∧
      ProcInv s2 (live ++ [fork_child s] ++ [fork_thread s] ++ [fork_kstack s]) ord2
        (fork_child s :: pl) (q ++ [fork_thread s]) := by
  obtain ⟨ord3, H3, ho, hsz, c1, c2, c3, hb, hm⟩ :=
    kmalloc3_inv s.heap live ord PROCESS_SIZE THREAD_SIZE KSTACK_SIZE hinv.heap hchild hthread
      hstack (by decide)
  have hlive : ∀ p, p ∈ live →
      p ∈ live ++ [fork_child s] ++ [fork_thread s] ++ [fork_kstack s] ∧ ord3 p = ord p :=
    fun p hp => ⟨(mem_app3 _ _ _ _ _).2 (Or.inl hp), ho p hp⟩
  have hkL : fork_kstack s ∈ live ++ [fork_child s] ++ [fork_thread s] ++ [fork_kstack s] :=
    (mem_app3 _ _ _ _ _).2 (Or.inr (Or.inr (Or.inr rfl)))
  have hfp : fork_child s ∉ pl := fun h => c1 (hinv.procs_live _ h)
  have hft : fork_thread s ∉ q :=
    fun h => c2 (List.mem_append_left _ (hinv.queue_live _ h))
  have hcur : fork_thread s ≠ s.current_thread := by
    intro e
    apply c2
    apply List.mem_append_left
    have := hinv.cur_live hct
    rw [← e] at this
    exact this
  have hframe : fork_frame s ≠ (s.threads s.current_thread).trap_frame :=
    kstack_frame_fresh s.heap _ live _ ord ord3 (fork_kstack s) _ H3 hkL
      (fun h => c3 (List.mem_append_left _ (List.mem_append_left _ h))) hsz hb hm hlive
      (hinv.frames _ (Or.inr ⟨rfl, hct⟩))
  obtain ⟨B, hB, b1, b2, b3, b4, b5, b6, b7, b8, b9, b10, b11, b12, b13, b14, b15⟩ :=
    process_fork_pre fuel s hcp hct hchild hclone hthread hstack hcur hframe
  have hQB : QueueInv B q := by
    refine queueInv_congr s B q hinv.queue b1 b2 b3 (fun x hx => b8 x ?_)
    rcases hx with hx | hx
    · exact fun e => hft (e ▸ hx)
    · exact fun e => hcur (e.symm.trans hx)
  have hQ := queueInv_post_append B q (fork_thread s) hQB hthread (by rw [b3]; exact hcur) hft
  obtain ⟨p1, p2, p3, p4, p5, p6⟩ := scheduler_post_spec B q (fork_thread s) hQB.queue hthread hft
  obtain ⟨r1, r2, r3, r4, r5⟩ := scheduler_post_rest B (fork_thread s)
  have hpidB : (B.procs (fork_child s)).pid = s.next_pid := by rw [b11]
  have hnextB : (B.procs (fork_child s)).next = s.process_list := by rw [b11]
  have htrapB : (B.threads (fork_thread s)).trap_frame = fork_frame s := by rw [b9]
  obtain ⟨S, hS⟩ : ∃ S, scheduler_post B (fork_thread s) = S := ⟨_, rfl⟩
  rw [hS] at hQ p1 p2 p3 p4 p5 p6 r1 r2 r3 r4 r5 hB
  refine ⟨S, ord3, by rw [hB, hpidB], ⟨?_, hQ, ?_, ?_, ?_, ?_, ?_, ?_⟩⟩
  · rw [r5, b15]
    exact H3
  · rw [r2, b5]
    refine ⟨rfl, hchild, ?_⟩
    rw [p6, hnextB]
    refine procChain_congr s _ pl _ hinv.procs ?_
    intro x hx
    rw [p6, b10 x (fun h => hfp (h ▸ hx))]
  · intro p hp
    rw [r4, b7, Nat.mod_eq_of_lt hpid, p6]
    rcases List.mem_cons.1 hp with e | hp
    · rw [e, hpidB]
      omega
    · rw [b10 p (fun h => hfp (h ▸ hp))]
      have := hinv.pids p hp
      omega
  · intro p hp
    rcases List.mem_cons.1 hp with e | hp
    · rw [e]
      exact (mem_app3 _ _ _ _ _).2 (Or.inr (Or.inl rfl))
    · exact (hlive p (hinv.procs_live p hp)).1
  · intro t ht
    rcases List.mem_append.1 ht with ht | ht
    · exact (hlive t (hinv.queue_live t ht)).1
    · have e : t = fork_thread s := by simpa using ht
      rw [e]
      exact (mem_app3 _ _ _ _ _).2 (Or.inr (Or.inr (Or.inl rfl)))
  · intro _
    rw [p4, b3]
    exact (hlive _ (hinv.cur_live hct)).1
  · intro x hx
    rw [r5, b15]
    by_cases hxt : x = fork_thread s
    · rw [hxt, p2]
      show Owned _ _ _ (B.threads (fork_thread s)).trap_frame
      rw [htrapB]
      obtain ⟨_, f2, _⟩ := kstack_frame _ _ ord3 (fork_kstack s) H3 hkL hsz
      have e : fork_frame s = fork_kstack s + 8128 := f2
      rw [e]
      exact owned_kstack_frame _ _ ord3 (fork_kstack s) H3 hkL hsz
    · have e : (S.threads x).trap_frame = (s.threads x).trap_frame := by
        have g := congrArg Thread.trap_frame (p3 x hxt)
        rw [b8 x hxt] at g
        exact g
      rw [e]
      refine owned_mono s.heap _ live _ ord ord3 _ hb hm hlive (hinv.frames x ?_)
      rcases hx with hx | ⟨hx, hx0⟩
      · rcases List.mem_append.1 hx with hx | hx
        · exact Or.inl hx
        · exact absurd (by simpa using hx) hxt
      · exact Or.inr ⟨by rw [hx, p4, b3], hx0⟩

/-- A `thread_create` whose two allocations succeed: the thread is the first
pointer, its trap frame lies `sizeof(interrupt_context_t)` below the top of
the kernel stack, the second pointer; no other thread changes, and no process
changes its PID or its `next` link. -/
theorem thread_create_spec (s : SchedState) (p entry arg : Nat) (hp : p ≠ 0)
    (ht : (kmalloc s.heap THREAD_SIZE).2 ≠ 0)
    (hk : (kmalloc (kmalloc s.heap THREAD_SIZE).1 KSTACK_SIZE).2 ≠ 0) :
    (thread_create s p entry arg).2 = (kmalloc s.heap THREAD_SIZE).2 ∧
    (thread_create s p entry arg).1.heap
      = (kmalloc (kmalloc s.heap THREAD_SIZE).1 KSTACK_SIZE).1 ∧
    (thread_create s p entry arg).1.ready_queue_head = s.ready_queue_head ∧
    (thread_create s p entry arg).1.ready_queue_tail = s.ready_queue_tail ∧
    (thread_create s p entry arg).1.current_thread = s.current_thread ∧
    (thread_create s p entry arg).1.process_list = s.process_list ∧
    (thread_create s p entry arg).1.next_pid = s.next_pid ∧
    (∀ x, x ≠ (kmalloc s.heap THREAD_SIZE).2 →
      (thread_create s p entry arg).1.threads x = s.threads x) ∧
    ((thread_create s p entry arg).1.threads (kmalloc s.heap THREAD_SIZE).2).trap_frame
      = (((kmalloc (kmalloc s.heap THREAD_SIZE).1 KSTACK_SIZE).2 + KSTACK_SIZE) % U32
          + (U32 - CONTEXT_SIZE)) % U32 ∧
    (∀ x, ((thread_create s p entry arg).1.procs x).pid = (s.procs x).pid ∧
      ((thread_create s p entry arg).1.procs x).next = (s.procs x).next ∧
      ((thread_create s p entry arg).1.procs x).page_dir = (s.procs x).page_dir) := by
  unfold thread_create
  rw [if_neg hp]
  lift_lets
  intro m1 thread s1 s2 m2 t3 s3 a t4 s4 frame s5 pd f6 s6 f7 s7 t8 s8 p9 s9 p10 s10
  have em1 : m1 = kmalloc s.heap THREAD_SIZE := rfl
  have eth : thread = m1.2 := rfl
  have es1 : s1 = { s with heap := m1.1 } := rfl
  have es2 : s2 = s1.setThread thread zero_thread := rfl
  have em2 : m2 = kmalloc s2.heap KSTACK_SIZE := rfl
  have et3 : t3 = s2.threads thread := rfl
  have es3 : s3 = SchedState.setThread { s2 with heap := m2.1 } thread
      { t3 with kstack := m2.2 } := rfl
  have ea : a = alloc_tid s3 := rfl
  have et4 : t4 = a.1.threads thread := rfl
  have es4 : s4 = a.1.setThread thread
      { t4 with
        tid := a.2, proc := p, state := ThreadState.THREAD_READY,
        priority := (a.1.procs p).priority, timeslice := DEFAULT_TIMESLICE,
        kstack_size := KSTACK_SIZE, kstack_top := (m2.2 + KSTACK_SIZE) % U32 } := rfl
  have efr : frame = ((s4.threads thread).kstack_top + (U32 - CONTEXT_SIZE)) % U32 := rfl
  have es5 : s5 = s4.setFrame frame zero_context := rfl
  have es6 : ∃ v, s6 = s5.setFrame frame v := by
    show ∃ v, (if pd ≠ 0 ∧ pd ≠ s5.vmm.kernel_directory then _ else _ : SchedState) = _
    split_ifs <;> exact ⟨_, rfl⟩
  have es7 : s7 = s6.setFrame frame
      { f7 with eip := entry, eflags := 514, eax := arg, ebp := 0, esp := (frame + 20) % U32 } :=
    rfl
  have et8 : t8 = s7.threads thread := rfl
  have es8 : s8 = s7.setThread thread
      { t8 with trap_frame := frame, next := (s7.procs p).thread_list } := rfl
  have ep9 : p9 = s8.procs p := rfl
  have es9 : s9 = s8.setProc p { p9 with thread_list := thread } := rfl
  have ep10 : p10 = s9.procs p := rfl
  have es10 : s10 = if (s9.procs p).main_thread = 0 then
      s9.setProc p { p10 with main_thread := thread } else s9 := rfl
  clear_value s10 p10 s9 p9 s8 t8 s7 f7 s6 f6 pd s5 frame s4 t4 a s3 t3 m2 s2 s1 thread m1
  obtain ⟨v6, es6⟩ := es6
  have i1 : ¬ thread = 0 := by rw [eth, em1]; exact ht
  have hm2 : m2 = kmalloc (kmalloc s.heap THREAD_SIZE).1 KSTACK_SIZE := by
    rw [em2, es2, es1, em1]
    rfl
  have i2 : ¬ m2.2 = 0 := by rw [hm2]; exact hk
  rw [if_neg i1, if_neg i2]
  have th4 : ∀ x, x ≠ thread → s4.threads x = s.threads x := by
    intro x hx
    rw [es4, setThread_other _ _ _ _ hx, ea]
    show s3.threads x = _
    rw [es3, setThread_other _ _ _ _ hx]
    show s2.threads x = _
    rw [es2, setThread_other _ _ _ _ hx, es1]
  have top4 : (s4.threads thread).kstack_top = (m2.2 + KSTACK_SIZE) % U32 := by
    rw [es4, setThread_same]
  have th7 : s7.threads = s4.threads := by
    rw [es7]
    show s6.threads = _
    rw [es6, es5]
    rfl
  have pr8 : s8.procs = s.procs := by
    rw [es8]
    show s7.procs = _
    rw [es7]
    show s6.procs = _
    rw [es6, es5, es4, ea, es3, es2, es1]
    rfl
  have h9 : ∀ x, (s9.procs x).pid = (s.procs x).pid ∧ (s9.procs x).next = (s.procs x).next ∧
      (s9.procs x).page_dir = (s.procs x).page_dir := by
    intro x
    by_cases hx : x = p
    · rw [hx, es9, setProc_same, ep9, pr8]
      exact ⟨rfl, rfl, rfl⟩
    · rw [es9, setProc_other _ _ _ _ hx, pr8]
      exact ⟨rfl, rfl, rfl⟩
  have st8 : s8.heap = m2.1 ∧ s8.ready_queue_head = s.ready_queue_head ∧
      s8.ready_queue_tail = s.ready_queue_tail ∧ s8.current_thread = s.current_thread ∧
      s8.process_list = s.process_list ∧ s8.next_pid = s.next_pid := by
    rw [es8]
    show s7.heap = _ ∧ s7.ready_queue_head = _ ∧ s7.ready_queue_tail = _ ∧
      s7.current_thread = _ ∧ s7.process_list = _ ∧ s7.next_pid = _
    rw [es7]
    show s6.heap = _ ∧ s6.ready_queue_head = _ ∧ s6.ready_queue_tail = _ ∧
      s6.current_thread = _ ∧ s6.process_list = _ ∧ s6.next_pid = _
    rw [es6, es5, es4, ea, es3, es2, es1]
    exact ⟨rfl, rfl, rfl, rfl, rfl, rfl⟩
  have key : ∀ S : SchedState, S.threads = s8.threads → S.heap = s8.heap →
      S.ready_queue_head = s8.ready_queue_head → S.ready_queue_tail = s8.ready_queue_tail →
      S.current_thread = s8.current_thread → S.process_list = s8.process_list →
      S.next_pid = s8.next_pid →
      (∀ x, (S.procs x).pid = (s.procs x).pid ∧ (S.procs x).next = (s.procs x).next ∧
        (S.procs x).page_dir = (s.procs x).page_dir) →
      (S, thread).2 = (kmalloc s.heap THREAD_SIZE).2 ∧
      (S, thread).1.heap = (kmalloc (kmalloc s.heap THREAD_SIZE).1 KSTACK_SIZE).1 ∧
      (S, thread).1.ready_queue_head = s.ready_queue_head ∧
      (S, thread).1.ready_queue_tail = s.ready_queue_tail ∧
      (S, thread).1.current_thread = s.current_thread ∧
      (S, thread).1.process_list = s.process_list ∧
      (S, thread).1.next_pid = s.next_pid ∧
      (∀ x, x ≠ (kmalloc s.heap THREAD_SIZE).2 → (S, thread).1.threads x = s.threads x) ∧
      ((S, thread).1.threads (kmalloc s.heap THREAD_SIZE).2).trap_frame
        = (((kmalloc (kmalloc s.heap THREAD_SIZE).1 KSTACK_SIZE).2 + KSTACK_SIZE) % U32
            + (U32 - CONTEXT_SIZE)) % U32 ∧
      (∀ x, ((S, thread).1.procs x).pid = (s.procs x).pid ∧
        ((S, thread).1.procs x).next = (s.procs x).next ∧
        ((S, thread).1.procs x).page_dir = (s.procs x).page_dir) := by
    intro S k1 k2 k3 k4 k5 k6 k7 k8
    have ethr : thread = (kmalloc s.heap THREAD_SIZE).2 := by rw [eth, em1]
    refine ⟨ethr, ?_, k3.trans st8.2.1, k4.trans st8.2.2.1, k5.trans st8.2.2.2.1,
      k6.trans st8.2.2.2.2.1, k7.trans st8.2.2.2.2.2, ?_, ?_, k8⟩
    · show S.heap = _
      rw [k2, st8.1, hm2]
    · intro x hx
      rw [← ethr] at hx
      show S.threads x = _
      rw [k1, es8, setThread_other _ _ _ _ hx, th7]
      exact th4 x hx
    · rw [← ethr, ← hm2]
      show (S.threads thread).trap_frame = _
      rw [k1, es8, setThread_same]
      show frame = _
      rw [efr, top4]
  by_cases hmain : (s9.procs p).main_thread = 0
  · rw [if_pos hmain] at es10
    refine key s10 (by rw [es10, es9]; rfl) (by rw [es10, es9]; rfl) (by rw [es10, es9]; rfl)
      (by rw [es10, es9]; rfl) (by rw [es10, es9]; rfl) (by rw [es10, es9]; rfl)
      (by rw [es10, es9]; rfl) ?_
    intro x
    by_cases hx : x = p
    · rw [hx, es10, setProc_same, ep10]
      exact h9 p
    · rw [es10, setProc_other _ _ _ _ hx]
      exact h9 x
  · rw [if_neg hmain] at es10
    exact key s10 (by rw [es10, es9]; rfl) (by rw [es10, es9]; rfl) (by rw [es10, es9]; rfl)
      (by rw [es10, es9]; rfl) (by rw [es10, es9]; rfl) (by rw [es10, es9]; rfl)
      (by rw [es10, es9]; rfl) (by rw [es10]; exact h9)

/-- A `process_spawn` that succeeds: the state before the final
`scheduler_post` of the main thread of the new process. -/
theorem process_spawn_pre (fuel : Nat) (s : SchedState) (name : List Nat)
    (load : VmmState → Nat → ElfLoad)
    (hproc : fork_child s ≠ 0) (hdir : (vmm_create_address_space s.vmm).2 ≠ 0)
    (hres : ¬ (load (vmm_create_address_space s.vmm).1
      (vmm_create_address_space s.vmm).2).result < 0)
    (hentry : (load (vmm_create_address_space s.vmm).1
      (vmm_create_address_space s.vmm).2).entry_point ≠ 0)
    (hthread : fork_thread s ≠ 0) (hstack : fork_kstack s ≠ 0) :
    ∃ B, process_spawn fuel s (some name) load
        = some (scheduler_post B (fork_thread s), toInt32 s.next_pid) ∧
      B.heap = (kmalloc (kmalloc (kmalloc s.heap PROCESS_SIZE).1 THREAD_SIZE).1 KSTACK_SIZE).1 ∧
      B.ready_queue_head = s.ready_queue_head ∧ B.ready_queue_tail = s.ready_queue_tail ∧
      B.current_thread = s.current_thread ∧
      B.process_list = fork_child s ∧ B.next_pid = (s.next_pid + 1) % U32 ∧
      (∀ x, x ≠ fork_thread s → B.threads x = s.threads x) ∧
      (B.threads (fork_thread s)).trap_frame = fork_frame s ∧
      (∀ p, p ≠ fork_child s →
        (B.procs p).pid = (s.procs p).pid ∧ (B.procs p).next = (s.procs p).next) ∧
      (B.procs (fork_child s)).pid = s.next_pid ∧
      (B.procs (fork_child s)).next = s.process_list ∧
      (B.procs (fork_child s)).page_dir = (vmm_create_address_space s.vmm).2 := by
  unfold process_spawn
  dsimp -zeta only
  lift_lets
  intro m1 proc s1 s2 c p3 s3 l s4 t main_thread p6 s6
  have em1 : m1 = kmalloc s.heap PROCESS_SIZE := rfl
  have epr : proc = m1.2 := rfl
  have es1 : s1 = { s with heap := m1.1 } := rfl
  have es2 : s2 = process_create s1 proc name 0 := rfl
  have ec : c = vmm_create_address_space s2.vmm := rfl
  have ep3 : p3 = s2.procs proc := rfl
  have es3 : s3 = SchedState.setProc { s2 with vmm := c.1 } proc { p3 with page_dir := c.2 } :=
    rfl
  have el : l = load s3.vmm (s3.procs proc).page_dir := rfl
  have es4 : s4 = { s3 with vmm := l.vmm } := rfl
  have et : t = thread_create s4 proc l.entry_point 0 := rfl
  have emt : main_thread = t.2 := rfl
  have ep6 : p6 = t.1.procs proc := rfl
  have es6 : s6 = t.1.setProc proc { p6 with main_thread := main_thread } := rfl
  clear_value s6 p6 main_thread t s4 l s3 p3 c s2 s1 proc m1
  have hpr : proc = fork_child s := by rw [epr, em1]; rfl
  have i1 : ¬ proc = 0 := by rw [hpr]; exact hproc
  obtain ⟨d1, d2, d3, d4, d5, d6, d7, d8, d9, d10, d11, d12, d13⟩ :=
    process_create_spec s1 proc name 0 i1
  rw [← es2] at d1 d2 d3 d4 d5 d6 d7 d8 d9 d10 d11 d12 d13
  have hc : c = vmm_create_address_space s.vmm := by rw [ec, d4, es1]
  have hp3 : s3.procs proc = { p3 with page_dir := c.2 } := by rw [es3, setProc_same]
  have hpd : (s3.procs proc).page_dir = c.2 := by rw [hp3]
  have hl : l = load (vmm_create_address_space s.vmm).1 (vmm_create_address_space s.vmm).2 := by
    rw [el, hpd, es3, hc]
    rfl
  have i2 : ¬ (s3.procs proc).page_dir = 0 := by rw [hpd, hc]; exact hdir
  have i3 : ¬ (l.result < 0 ∨ l.entry_point = 0) := by
    rw [hl]
    intro h
    rcases h with h | h
    · exact hres h
    · exact hentry h
  have h4heap : s4.heap = (kmalloc s.heap PROCESS_SIZE).1 := by
    rw [es4, es3]
    show s2.heap = _
    rw [d3, es1, em1]
  have ht1 : (kmalloc s4.heap THREAD_SIZE).2 ≠ 0 := by rw [h4heap]; exact hthread
  have ht2 : (kmalloc (kmalloc s4.heap THREAD_SIZE).1 KSTACK_SIZE).2 ≠ 0 := by
    rw [h4heap]
    exact hstack
  obtain ⟨t1, t2, t3, t4, t5, t6, t7, t8, t9, t10⟩ :=
    thread_create_spec s4 proc l.entry_point 0 i1 ht1 ht2
  rw [← et, h4heap] at t1 t2 t8 t9
  rw [← et] at t3 t4 t5 t6 t7 t10
  have i4 : ¬ main_thread = 0 := by
    rw [emt, t1]
    exact hthread
  rw [if_neg i1, if_neg i2, if_neg i3, if_neg i4]
  have h4thr : s4.threads = s.threads := by
    rw [es4, es3]
    show s2.threads = _
    rw [d1, es1]
  have h4procs : ∀ x, x ≠ proc → s4.procs x = s.procs x := by
    intro x hx
    rw [es4]
    show s3.procs x = _
    rw [es3, setProc_other _ _ _ _ hx]
    show s2.procs x = _
    rw [d13 x hx, es1]
  have h4proc : s4.procs proc = { p3 with page_dir := c.2 } := by
    rw [es4]
    exact hp3
  have hpid1 : s1.next_pid = s.next_pid := by rw [es1]
  have hpl1 : s1.process_list = s.process_list := by rw [es1]
  have h6other : ∀ x, x ≠ proc → s6.procs x = t.1.procs x := by
    intro x hx
    rw [es6, setProc_other _ _ _ _ hx]
  have h6proc : (s6.procs proc).pid = s.next_pid ∧ (s6.procs proc).next = s.process_list ∧
      (s6.procs proc).page_dir = c.2 := by
    rw [es6, setProc_same, ep6]
    refine ⟨?_, ?_, ?_⟩
    · show (t.1.procs proc).pid = _
      rw [(t10 proc).1, h4proc, ep3, d12, hpid1]
    · show (t.1.procs proc).next = _
      rw [(t10 proc).2.1, h4proc, ep3, d12, hpl1]
    · show (t.1.procs proc).page_dir = _
      rw [(t10 proc).2.2, h4proc]
  refine ⟨s6, ?_, ?_, ?_, ?_, ?_, ?_, ?_, ?_, ?_, ?_, ?_, ?_, ?_⟩
  · rw [emt, t1, h6proc.1]
    rfl
  · rw [es6]
    show t.1.heap = _
    rw [t2]
  · rw [es6]
    show t.1.ready_queue_head = _
    rw [t3, es4, es3]
    show s2.ready_queue_head = _
    rw [d8, es1]
  · rw [es6]
    show t.1.ready_queue_tail = _
    rw [t4, es4, es3]
    show s2.ready_queue_tail = _
    rw [d9, es1]
  · rw [es6]
    show t.1.current_thread = _
    rw [t5, es4, es3]
    show s2.current_thread = _
    rw [d5, es1]
  · rw [es6]
    show t.1.process_list = _
    rw [t6, es4, es3, ← hpr]
    exact d11
  · rw [es6]
    show t.1.next_pid = _
    rw [t7, es4, es3, ← hpid1]
    exact d10
  · intro x hx
    rw [es6]
    show t.1.threads x = _
    rw [t8 x hx, h4thr]
  · rw [es6]
    show (t.1.threads (fork_thread s)).trap_frame = _
    exact t9
  · intro p hp
    rw [← hpr] at hp
    rw [h6other p hp, (t10 p).1, (t10 p).2.1, h4procs p hp]
    exact ⟨rfl, rfl⟩
  · rw [← hpr]
    exact h6proc.1
  · rw [← hpr]
    exact h6proc.2.1
  · rw [← hpr, ← hc]
    exact h6proc.2.2

/-- A successful `process_spawn` keeps the invariant of the process table, as
long as the PID counter does not wrap: the new process, its main thread and
the kernel stack of the thread are the new live pointers, the new process is
the new head of the process list and has the PID `next_pid`, and its main
thread is the new last element of the ready queue. -/
theorem procInv_spawn (fuel : Nat) (s : SchedState) (live : List Nat) (ord : Nat → Nat)
    (pl q : List Nat) (name : List Nat) (load : VmmState → Nat → ElfLoad)
    (hinv : ProcInv s live ord pl q) (hpid : s.next_pid + 1 < U32)
    (hproc : fork_child s ≠ 0) (hdir : (vmm_create_address_space s.vmm).2 ≠ 0)
    (hres : ¬ (load (vmm_create_address_space s.vmm).1
      (vmm_create_address_space s.vmm).2).result < 0)
    (hentry : (load (vmm_create_address_space s.vmm).1
      (vmm_create_address_space s.vmm).2).entry_point ≠ 0)
    (hthread : fork_thread s ≠ 0) (hstack : fork_kstack s ≠ 0) :
    ∃ s2 ord2, process_spawn fuel s (some name) load = some (s2, toInt32 s.next_pid) ∧
      ProcInv s2 (live ++ [fork_child s] ++ [fork_thread s] ++ [fork_kstack s]) ord2
        (fork_child s :: pl) (q ++ [fork_thread s]) ∧
      (s2.procs (fork_child s)).pid = s.next_pid ∧
      (s2.procs (fork_child s)).page_dir = (vmm_create_address_space s.vmm).2 := by
  obtain ⟨ord3, H3, ho, hsz, c1, c2, c3, hb, hm⟩ :=
    kmalloc3_inv s.heap live ord PROCESS_SIZE THREAD_SIZE KSTACK_SIZE hinv.heap hproc hthread
      hstack (by decide)
  have hlive : ∀ p, p ∈ live →
      p ∈ live ++ [fork_child s] ++ [fork_thread s] ++ [fork_kstack s] ∧ ord3 p = ord p :=
    fun p hp => ⟨(mem_app3 _ _ _ _ _).2 (Or.inl hp), ho p hp⟩
  have hkL : fork_kstack s ∈ live ++ [fork_child s] ++ [fork_thread s] ++ [fork_kstack s] :=
    (mem_app3 _ _ _ _ _).2 (Or.inr (Or.inr (Or.inr rfl)))
  have hfp : fork_child s ∉ pl := fun h => c1 (hinv.procs_live _ h)
  have hft : fork_thread s ∉ q :=
    fun h => c2 (List.mem_append_left _ (hinv.queue_live _ h))
  have hcur : fork_thread s ≠ s.current_thread := by
    intro e
    by_cases hc0 : s.current_thread = 0
    · exact hthread (e.trans hc0)
    · apply c2
      apply List.mem_append_left
      have := hinv.cur_live hc0
      rw [← e] at this
      exact this
  obtain ⟨B, hB, b0, b1, b2, b3, b5, b7, b8, b9, b10, b11, b12, b13⟩ :=
    process_spawn_pre fuel s name load hproc hdir hres hentry hthread hstack
  have hQB : QueueInv B q := by
    refine queueInv_congr s B q hinv.queue b1 b2 b3 (fun x hx => b8 x ?_)
    rcases hx with hx | hx
    · exact fun e => hft (e ▸ hx)
    · exact fun e => hcur (e.symm.trans hx)
  have hQ := queueInv_post_append B q (fork_thread s) hQB hthread (by rw [b3]; exact hcur) hft
  obtain ⟨p1, p2, p3, p4, p5, p6⟩ := scheduler_post_spec B q (fork_thread s) hQB.queue hthread hft
  obtain ⟨r1, r2, r3, r4, r5⟩ := scheduler_post_rest B (fork_thread s)
  obtain ⟨S, hS⟩ : ∃ S, scheduler_post B (fork_thread s) = S := ⟨_, rfl⟩
  rw [hS] at hQ p1 p2 p3 p4 p5 p6 r1 r2 r3 r4 r5 hB
  refine ⟨S, ord3, hB, ⟨?_, hQ, ?_, ?_, ?_, ?_, ?_, ?_⟩, by rw [p6, b11], by rw [p6, b13]⟩
  · rw [r5, b0]
    exact H3
  · rw [r2, b5]
    refine ⟨rfl, hproc, ?_⟩
    rw [p6, b12]
    refine procChain_congr s _ pl _ hinv.procs ?_
    intro x hx
    rw [p6, (b10 x (fun h => hfp (h ▸ hx))).2]
  · intro p hp
    rw [r4, b7, Nat.mod_eq_of_lt hpid, p6]
    rcases List.mem_cons.1 hp with e | hp
    · rw [e, b11]
      omega
    · rw [(b10 p (fun h => hfp (h ▸ hp))).1]
      have := hinv.pids p hp
      omega
  · intro p hp
    rcases List.mem_cons.1 hp with e | hp
    · rw [e]
      exact (mem_app3 _ _ _ _ _).2 (Or.inr (Or.inl rfl))
    · exact (hlive p (hinv.procs_live p hp)).1
  · intro t ht
    rcases List.mem_append.1 ht with ht | ht
    · exact (hlive t (hinv.queue_live t ht)).1
    · have e : t = fork_thread s := by simpa using ht
      rw [e]
      exact (mem_app3 _ _ _ _ _).2 (Or.inr (Or.inr (Or.inl rfl)))
  · intro h0
    rw [p4, b3] at h0 ⊢
    exact (hlive _ (hinv.cur_live h0)).1
  · intro x hx
    rw [r5, b0]
    by_cases hxt : x = fork_thread s
    · rw [hxt, p2]
      show Owned _ _ _ (B.threads (fork_thread s)).trap_frame
      rw [b9]
      obtain ⟨_, f2, _⟩ := kstack_frame _ _ ord3 (fork_kstack s) H3 hkL hsz
      have e : fork_frame s = fork_kstack s + 8128 := f2
      rw [e]
      exact owned_kstack_frame _ _ ord3 (fork_kstack s) H3 hkL hsz
    · have e : (S.threads x).trap_frame = (s.threads x).trap_frame := by
        have g := congrArg Thread.trap_frame (p3 x hxt)
        rw [b8 x hxt] at g
        exact g
      rw [e]
      refine owned_mono s.heap _ live _ ord ord3 _ hb hm hlive (hinv.frames x ?_)
      rcases hx with hx | ⟨hx, hx0⟩
      · rcases List.mem_append.1 hx with hx | hx
        · exact Or.inl hx
        · exact absurd (by simpa using hx) hxt
      · exact Or.inr ⟨by rw [hx, p4, b3], hx0⟩

theorem sbOk_bbm_lt {L : HfsLayout} {h : HfsData} (hs : SbOk L h) :
    h.sb.s_block_bitmap < h.device.num_blocks := by
  have := hs.bbm_lt
  have := hs.data_le
  have := hs.blocks_le_dev
  omega

theorem sbOk_ibm_lt {L : HfsLayout} {h : HfsData} (hs : SbOk L h) :
    h.sb.s_inode_bitmap < h.device.num_blocks := by
  have := hs.ibm_lt
  have := hs.data_le
  have := hs.blocks_le_dev
  omega

/-- A block number that `alloc_block` returns is that of a data block whose
bit was clear in the bitmap in which it was found: in the bitmap in memory,
or, when that has no clear bit, in the bitmap read from the device. -/
theorem alloc_block_range (L : HfsLayout) (h : HfsData) (hs : SbOk L h) (b : Nat)
    (hb : (alloc_block h).2 = (b : Int)) :
    h.sb.s_data_blocks_start ≤ b ∧ b < h.sb.s_blocks_count ∧
      (get_bit h.block_bitmap b = 0 ∨ get_bit h.disk_block_bitmap b = 0) := by
  have hcnt : h.sb.s_blocks_count ≤ 2147483648 := by have := hs.blocks_le_u16; omega
  have hbb := sbOk_bbm_lt hs
  unfold alloc_block at hb
  rcases find_free_bit_from_spec h.block_bitmap h.sb.s_data_blocks_start
      h.sb.s_blocks_count hcnt with ⟨b0, h1, h2, h3, h4⟩ | ⟨_, h4⟩
  · have hnn : ¬ ((b0 : Int) < 0) := by omega
    simp only [h4, hnn, if_false] at hb
    rw [blkwrite_of_lt _ _ _ hbb] at hb
    simp only [] at hb
    have e : b0 = b := by omega
    rw [← e]
    exact ⟨h1, h2, Or.inl h3⟩
  · have hneg : ((-1 : Int) < 0) := by decide
    simp only [h4, hneg, if_true] at hb
    rw [blkread_of_lt _ _ hbb] at hb
    simp only [] at hb
    rcases find_free_bit_from_spec (h.device.blocks h.sb.s_block_bitmap)
        h.sb.s_data_blocks_start h.sb.s_blocks_count hcnt with ⟨b0, h1, h2, h3, h5⟩ | ⟨_, h5⟩
    · have hnn : ¬ ((b0 : Int) < 0) := by omega
      simp only [h5, hnn, if_false] at hb
      rw [blkwrite_of_lt _ _ _ hbb] at hb
      simp only [] at hb
      have e : b0 = b := by omega
      rw [← e]
      exact ⟨h1, h2, Or.inr h3⟩
    · simp only [h5, hneg, if_true] at hb
      omega

/-- An inode number that `alloc_inode` returns is at least 1 and its bit was
clear in the bitmap in which it was found: in the bitmap in memory, or, when
that has no clear bit, in the bitmap read from the device. -/
theorem alloc_inode_range (L : HfsLayout) (hL : L.Ok) (h : HfsData) (hs : SbOk L h) (n : Nat)
    (hn : (alloc_inode h).2 = (n : Int)) :
    1 ≤ n ∧ n < h.sb.s_inodes_count ∧
      (get_bit h.inode_bitmap n = 0 ∨ get_bit h.disk_inode_bitmap n = 0) := by
  have hcnt : h.sb.s_inodes_count ≤ 2147483648 := by
    have := hs.inodes_le_bits
    have := eight_bs_lt L hL
    omega
  have hbb := sbOk_ibm_lt hs
  unfold alloc_inode at hn
  rcases find_free_bit_from_spec h.inode_bitmap 1 h.sb.s_inodes_count hcnt with
    ⟨b0, h1, h2, h3, h4⟩ | ⟨_, h4⟩
  · have hnn : ¬ ((b0 : Int) < 0) := by omega
    simp only [h4, hnn, if_false] at hn
    rw [blkwrite_of_lt _ _ _ hbb] at hn
    simp only [] at hn
    have e : b0 = n := by omega
    rw [← e]
    exact ⟨h1, h2, Or.inl h3⟩
  · have hneg : ((-1 : Int) < 0) := by decide
    simp only [h4, hneg, if_true] at hn
    rw [blkread_of_lt _ _ hbb] at hn
    simp only [] at hn
    rcases find_free_bit_from_spec (h.device.blocks h.sb.s_inode_bitmap) 1
        h.sb.s_inodes_count hcnt with ⟨b0, h1, h2, h3, h5⟩ | ⟨_, h5⟩
    · have hnn : ¬ ((b0 : Int) < 0) := by omega
      simp only [h5, hnn, if_false] at hn
      rw [blkwrite_of_lt _ _ _ hbb] at hn
      simp only [] at hn
      have e : b0 = n := by omega
      rw [← e]
      exact ⟨h1, h2, Or.inr h3⟩
    · simp only [h5, hneg, if_true] at hn
      omega

/-- With the bitmaps in memory equal to those on the device, `alloc_inode`
fails and leaves the state as it is, or marks a free inode in memory and on
the device. -/
theorem alloc_inode_cases (L : HfsLayout) (hL : L.Ok) (h : HfsData) (hs : SbOk L h)
    (hsync : h.Synced) :
    alloc_inode h = (h, -1) ∨
      ∃ n, 1 ≤ n ∧ n < h.sb.s_inodes_count ∧ get_bit h.inode_bitmap n = 0 ∧
        alloc_inode h = (h.markInode n, (n : Int)) := by
  have hcnt : h.sb.s_inodes_count ≤ 2147483648 := by
    have := hs.inodes_le_bits
    have := eight_bs_lt L hL
    omega
  have hbb := sbOk_ibm_lt hs
  rcases find_free_bit_from_spec h.inode_bitmap 1 h.sb.s_inodes_count hcnt with
    ⟨b0, h1, h2, h3, h4⟩ | ⟨_, h4⟩
  · right
    refine ⟨b0, h1, h2, h3, ?_⟩
    have hnn : ¬ ((b0 : Int) < 0) := by omega
    unfold alloc_inode
    simp only [h4, hnn, if_false]
    rw [toU32_natCast b0 (by omega), blkwrite_of_lt _ _ _ hbb]
    rfl
  · left
    unfold alloc_inode
    simp only [h4]
    rw [blkread_of_lt _ _ hbb]
    have e : h.device.blocks h.sb.s_inode_bitmap = h.inode_bitmap := hsync.2.symm
    simp only [e, h4]
    rfl

theorem markInode_synced (L : HfsLayout) (h : HfsData) (hs : SbOk L h) (hsync : h.Synced)
    (n : Nat) : (h.markInode n).Synced := by
  refine ⟨?_, ?_⟩
  · show h.block_bitmap = (h.device.write _ _).blocks h.sb.s_block_bitmap
    rw [write_blocks_other _ _ _ _ hs.bbm_ne_ibm]
    exact hsync.1
  · show set_bit h.inode_bitmap n = (h.device.write _ _).blocks h.sb.s_inode_bitmap
    rw [write_blocks_same]

/-- `free_inode` keeps the bitmaps in memory equal to those on the device and
writes no block but the inode bitmap. -/
theorem free_inode_synced (L : HfsLayout) (h : HfsData) (hs : SbOk L h) (hsync : h.Synced)
    (i : Nat) :
    (free_inode h i).Synced ∧ (free_inode h i).sb = h.sb ∧
      (free_inode h i).device.num_blocks = h.device.num_blocks ∧
      ∀ b, b ≠ h.sb.s_inode_bitmap → (free_inode h i).device.blocks b = h.device.blocks b := by
  unfold free_inode
  by_cases c : i = 0 ∨ i ≥ h.sb.s_inodes_count
  · rw [if_pos c]
    exact ⟨hsync, rfl, rfl, fun _ _ => rfl⟩
  · rw [if_neg c]
    simp only []
    rw [blkwrite_of_lt _ _ _ (sbOk_ibm_lt hs)]
    refine ⟨⟨?_, ?_⟩, rfl, rfl, fun b hb => ?_⟩
    · show h.block_bitmap = (h.device.write _ _).blocks h.sb.s_block_bitmap
      rw [write_blocks_other _ _ _ _ hs.bbm_ne_ibm]
      exact hsync.1
    · show clear_bit h.inode_bitmap i = (h.device.write _ _).blocks h.sb.s_inode_bitmap
      rw [write_blocks_same]
    · show (h.device.write _ _).blocks b = _
      rw [write_blocks_other _ _ _ _ hb]

/-- A state whose device and superblock are those of a consistent state is
consistent. -/
theorem hfsOk_same_disk (L : HfsLayout) (h h2 : HfsData) (e1 : h2.device = h.device)
    (e2 : h2.sb = h.sb) (hok : HfsOk L h) : HfsOk L h2 := by
  have key : ∀ (d : BlockDevice) (s : Superblock) (bm im bm2 im2 : Nat → Nat),
      HfsOk L { device := d, sb := s, block_bitmap := bm, inode_bitmap := im } →
      HfsOk L { device := d, sb := s, block_bitmap := bm2, inode_bitmap := im2 } :=
    fun d s bm im bm2 im2 x =>
      ⟨⟨x.blocks_le_dev, x.blocks_le_bits, x.blocks_le_u16, x.inodes_pos, x.inodes_le_bits,
        x.data_pos, x.data_le, x.bbm_lt, x.ibm_lt, x.bbm_ne_ibm, x.table_lt, x.table_ne_bbm,
        x.table_ne_ibm⟩,
        fun i ino hu hr =>
          ⟨(x.inode_ok i ino hu hr).ptrs, (x.inode_ok i ino hu hr).ind_sep,
            (x.inode_ok i ino hu hr).inj⟩,
        fun i ino hu hr hd =>
          ⟨⟨(x.dir_ok i ino hu hr hd).ptrs, (x.dir_ok i ino hu hr hd).ind_sep,
            (x.dir_ok i ino hu hr hd).inj⟩, (x.dir_ok i ino hu hr hd).size_le,
            (x.dir_ok i ino hu hr hd).term, (x.dir_ok i ino hu hr hd).in_size,
            (x.dir_ok i ino hu hr hd).targets⟩,
        x.disjoint⟩
  cases h with
  | mk d s bm im =>
    cases h2 with
    | mk d2 s2 bm2 im2 =>
      simp only at e1 e2
      subst e1 e2
      exact key _ _ _ _ _ _ hok
/-! ## File system: `hfs_write` and the bitmaps -/

theorem allocFail_fileOk {L : HfsLayout} {h hf : HfsData} {n : Nat} {ino : Inode}
    (A : AllocFail L h hf) (F : FileOk L h n ino) : FileOk L hf n ino :=
  ⟨A.sb, A.synced, by rw [A.sb_eq]; exact F.lt, by rw [A.inodes_keep]; exact F.disk, F.valid,
    (allocFail_inodeOk A F.ok).1⟩

/-- The exit of `hfs_write` after a failure leaves a consistent file. -/
theorem hfs_write_fail_ok (L : HfsLayout) (hL : L.Ok) (h : HfsData) (n : Nat) (ino : Inode)
    (offset w : Nat) (F : FileOk L h n ino) :
    ∃ ino1, FileOk L (hfs_write_fail L h n ino offset w).1 n ino1 := by
  obtain ⟨ino1, e1, e2, F2, _⟩ := hfs_write_exit L hL h n ino F
    (w > 0 ∧ (offset + w) % U32 > ino.i_size) ((offset + w) % U32)
    (Nat.mod_lt _ (by unfold U32; norm_num))
  refine ⟨ino1, ?_⟩
  unfold hfs_write_fail
  simp only []
  rw [← e1, e2]
  exact F2

/-- The end of `hfs_write` after its loop leaves a consistent file. -/
theorem hfs_write_end_ok (L : HfsLayout) (hL : L.Ok) (h : HfsData) (n : Nat) (ino : Inode)
    (offset w : Nat) (F : FileOk L h n ino) :
    ∃ ino1, FileOk L (write_inode L h n
      (if (offset + w) % U32 > ino.i_size then { ino with i_size := (offset + w) % U32 }
        else ino)).1 n ino1 := by
  obtain ⟨ino1, e1, e2, F2, _⟩ := hfs_write_exit L hL h n ino F
    ((offset + w) % U32 > ino.i_size) ((offset + w) % U32)
    (Nat.mod_lt _ (by unfold U32; norm_num))
  refine ⟨ino1, ?_⟩
  rw [← e1, e2]
  exact F2

/-- The loop of `hfs_write` keeps the file consistent and the bitmaps in memory
equal to those on the device, for every offset and size. -/
theorem hfs_write_loop_ok (L : HfsLayout) (hL : L.Ok) (n offset size : Nat) (buf : Nat → Nat) :
    ∀ (fuel : Nat) (h : HfsData) (ino : Inode) (w : Nat), FileOk L h n ino →
      ∃ ino2, FileOk L (hfs_write_loop L n offset size buf fuel h ino w).1 n ino2 := by
  intro fuel
  induction fuel with
  | zero =>
    intro h ino w F
    rw [hfs_write_loop]
    exact hfs_write_end_ok L hL h n ino offset w F
  | succ fuel ih =>
    intro h ino w F
    rw [hfs_write_loop]
    by_cases hw : w < size
    · simp only [if_pos hw, get_block_eq_bmap L h F.sb ino F.ok.ptrs]
      generalize (offset + w) % U32 = pos
      generalize (if L.BLOCK_SIZE - pos % L.BLOCK_SIZE > size - w then size - w
        else L.BLOCK_SIZE - pos % L.BLOCK_SIZE) = cnt
      by_cases hb : bmap L h ino (pos / L.BLOCK_SIZE) = 0
      · have e0 : ((bmap L h ino (pos / L.BLOCK_SIZE) : Nat) : Int) = 0 := by omega
        simp only [e0, true_and, if_true]
        rcases alloc_block_for_offset_cases L h ino pos F.sb F.synced F.valid F.ok.ptrs
            F.ok.ind_sep with ⟨h2, ino2, nb, ha, A⟩ | ⟨hf, ha, A, _⟩
        · have hnb0 : nb ≠ 0 := by
            have := F.sb.data_pos
            have := A.fresh_ge
            omega
          have hrnb : refsBlock L h2 ino2 nb := by
            have e := A.bmap_new
            have hr := refsBlock_of_bmap L h2 ino2 (pos / L.BLOCK_SIZE) (by rw [e]; exact hnb0)
            rw [e] at hr
            exact hr
          have hnbu := dataUsed_lt A.sb (A.ptrs _ hrnb)
          have hn2 : n < h2.sb.s_inodes_count := by rw [A.frame.sb_eq]; exact F.lt
          have eu : toU32 ((nb : Nat) : Int) = nb := toU32_natCast _ (by omega)
          have hnn : ¬ ((nb : Int) < 0) := by omega
          have hnbk : nb < (h2.setInode L n ino2).device.num_blocks := hnbu.2.2
          obtain ⟨_, F1, q2, _⟩ := fileOk_setInode L hL h2 n ino2 A.sb A.synced hn2 A.valid
            (allocAt_inodeOk F.sb F.ok A)
          have ek : bmap L (h2.setInode L n ino2) ino2 (pos / L.BLOCK_SIZE) = nb := by
            rw [q2, A.bmap_new]
          have F3 : ∀ blk, FileOk L ((h2.setInode L n ino2).setBlock nb blk) n ino2 := by
            intro blk
            have := (fileOk_setBlock L _ n ino2 (pos / L.BLOCK_SIZE) blk F1
              (by rw [ek]; exact hnb0)).1
            rw [ek] at this
            exact this
          simp only [ha, hnn, if_false, write_inode_spec L h2 A.sb n hn2 ino2, eu]
          by_cases hc : pos % L.BLOCK_SIZE ≠ 0 ∨ cnt ≠ L.BLOCK_SIZE
          · rw [if_pos hc, blkread_of_lt _ _ hnbk]
            simp only []
            rw [blkwrite_of_lt _ _ _ hnbk]
            exact ih _ _ _ (F3 _)
          · rw [if_neg hc]
            simp only []
            rw [blkwrite_of_lt _ _ _ hnbk]
            exact ih _ _ _ (F3 _)
        · simp only [ha]
          rw [if_pos (by decide)]
          exact hfs_write_fail_ok L hL hf n ino offset w (allocFail_fileOk A F)
      · have hu := dataUsed_lt F.sb (F.ok.ptrs _ (refsBlock_of_bmap L h ino _ hb))
        have e0 : ¬ ((bmap L h ino (pos / L.BLOCK_SIZE) : Nat) : Int) = 0 := by omega
        have eu : toU32 ((bmap L h ino (pos / L.BLOCK_SIZE) : Nat) : Int)
            = bmap L h ino (pos / L.BLOCK_SIZE) := toU32_natCast _ (by omega)
        have F3 : ∀ blk, FileOk L (h.setBlock (bmap L h ino (pos / L.BLOCK_SIZE)) blk) n ino :=
          fun blk => (fileOk_setBlock L h n ino (pos / L.BLOCK_SIZE) blk F hb).1
        simp only [e0, false_and, if_false, eu]
        by_cases hc : pos % L.BLOCK_SIZE ≠ 0 ∨ cnt ≠ L.BLOCK_SIZE
        · rw [if_pos hc, blkread_of_lt _ _ hu.2.2]
          simp only []
          rw [blkwrite_of_lt _ _ _ hu.2.2]
          exact ih _ _ _ (F3 _)
        · rw [if_neg hc]
          simp only []
          rw [blkwrite_of_lt _ _ _ hu.2.2]
          exact ih _ _ _ (F3 _)
    · rw [if_neg hw]
      exact hfs_write_end_ok L hL h n ino offset w F

/-- `hfs_write` on an inode whose blocks are consistent keeps the bitmaps in
memory equal to those on the device. -/
theorem hfs_write_synced (L : HfsLayout) (hL : L.Ok) (h : HfsData) (hs : SbOk L h)
    (hsync : h.Synced) (node : Option Vnode) (offset size : Nat) (buf : Nat → Nat)
    (hino : ∀ nd ino, node = some nd → read_inode L h nd.inode_num = some ino →
      InodeOk L h ino) :
    (hfs_write L h node offset size buf).1.Synced := by
  cases node with
  | none => exact hsync
  | some nd =>
    unfold hfs_write
    simp only [sync_of_synced h hsync]
    cases hr : read_inode L h nd.inode_num with
    | none => exact hsync
    | some ino =>
      simp only []
      have hlt : nd.inode_num < h.sb.s_inodes_count := by
        by_contra hc
        rw [read_inode_none L h _ (by omega)] at hr
        exact absurd hr (by simp)
      have hv : ino.Valid L := by
        rw [read_inode_eq L h hs _ hlt] at hr
        rw [← Option.some.inj hr]
        exact inode_load_valid L _ _
      obtain ⟨ino2, F⟩ := hfs_write_loop_ok L hL nd.inode_num offset size buf size h ino 0
        ⟨hs, hsync, hlt, hr, hv, hino nd ino rfl hr⟩
      exact F.synced
/-! ## File system: lookups after entries were cleared -/

theorem pruned_refl (L : HfsLayout) (h : HfsData) (hsync : h.Synced) : Pruned L h h :=
  ⟨rfl, rfl, hsync, fun _ => rfl, fun _ _ _ _ _ => rfl, fun _ _ _ _ _ => rfl⟩

theorem pruned_sbOk {L : HfsLayout} {h0 h : HfsData} (P : Pruned L h0 h) (hs : SbOk L h0) :
    SbOk L h :=
  hs.of_eq P.sb_eq P.nb_eq

/-- A state that differs from a pruned state in the bitmaps and the inode
table only, and holds the same inodes, is pruned. -/
theorem pruned_of_data {L : HfsLayout} {h0 h s : HfsData} (P : Pruned L h0 h)
    (hok : HfsOk L h0) (e1 : s.sb = h.sb) (e2 : s.device.num_blocks = h.device.num_blocks)
    (hsync : s.Synced) (hi : ∀ i, read_inode L s i = read_inode L h i)
    (hb : ∀ b, h.sb.s_data_blocks_start ≤ b → s.device.blocks b = h.device.blocks b) :
    Pruned L h0 s := by
  refine ⟨by rw [e1, P.sb_eq], by rw [e2, P.nb_eq], hsync, fun i => by rw [hi, P.inodes_eq],
    ?_, ?_⟩
  · intro i ino hu hr hne
    have hd := (hok.inode_ok i ino hu hr).ptrs _ ⟨hne, Or.inl rfl⟩
    rw [hb _ (by rw [P.sb_eq]; exact hd.1)]
    exact P.ind_eq i ino hu hr hne
  · intro b j h1 h2 hne
    rw [hb b (by rw [P.sb_eq]; exact h1)] at hne ⊢
    exact P.slots b j h1 h2 hne

/-- A state that differs from a pruned state in the two bitmap blocks only is
pruned. -/
theorem pruned_of_bitmaps {L : HfsLayout} {h0 h s : HfsData} (P : Pruned L h0 h)
    (hok : HfsOk L h0) (e1 : s.sb = h.sb) (e2 : s.device.num_blocks = h.device.num_blocks)
    (hsync : s.Synced)
    (hb : ∀ b, b ≠ h.sb.s_block_bitmap → b ≠ h.sb.s_inode_bitmap →
      s.device.blocks b = h.device.blocks b) :
    Pruned L h0 s := by
  have hs := pruned_sbOk P hok.toSbOk
  refine pruned_of_data P hok e1 e2 hsync ?_ ?_
  · exact read_inode_congr L h s hs ⟨e1, e2⟩
      (fun i hi => hb _ (hs.tb_ne_bbm i hi) (hs.tb_ne_ibm i hi))
  · intro b hb1
    have := hs.bbm_lt
    have := hs.ibm_lt
    exact hb b (by omega) (by omega)

theorem pruned_free_block {L : HfsLayout} {h0 h : HfsData} (P : Pruned L h0 h)
    (hok : HfsOk L h0) (b : Nat) : Pruned L h0 (free_block h b) := by
  have hs := pruned_sbOk P hok.toSbOk
  have f := (freed_free_block L h hs P.synced b).1
  exact pruned_of_bitmaps P hok f.sb_eq f.nb_eq f.synced (fun x hx _ => f.blocks_keep x hx)

theorem pruned_free_inode {L : HfsLayout} {h0 h : HfsData} (P : Pruned L h0 h)
    (hok : HfsOk L h0) (i : Nat) : Pruned L h0 (free_inode h i) := by
  have hs := pruned_sbOk P hok.toSbOk
  obtain ⟨f1, f2, f3, f4⟩ := free_inode_synced L h hs P.synced i
  exact pruned_of_bitmaps P hok f2 f3 f1 (fun x _ hx => f4 x hx)

/-- Writing back the inode that the table holds leaves a pruned state
pruned. -/
theorem pruned_write_inode {L : HfsLayout} (hL : L.Ok) {h0 h : HfsData} (P : Pruned L h0 h)
    (hok : HfsOk L h0) (n : Nat) (ino : Inode) (hr : read_inode L h n = some ino) :
    Pruned L h0 (write_inode L h n ino).1 := by
  have hs := pruned_sbOk P hok.toSbOk
  have hn : n < h.sb.s_inodes_count := by
    by_contra hc
    rw [read_inode_none L h _ (by omega)] at hr
    exact absurd hr (by simp)
  have hv : ino.Valid L := by
    rw [read_inode_eq L h hs _ hn] at hr
    rw [← Option.some.inj hr]
    exact inode_load_valid L _ _
  rw [write_inode_spec L h hs n hn ino]
  refine pruned_of_data P hok rfl rfl ⟨?_, ?_⟩ ?_ ?_
  · rw [setInode_disk_block_bitmap L h hs n hn ino]; exact P.synced.1
  · rw [setInode_disk_inode_bitmap L h hs n hn ino]; exact P.synced.2
  · intro i
    rw [read_inode_setInode L hL h hs n i hn ino hv]
    by_cases e : i = n
    · rw [if_pos e, e, hr]
    · rw [if_neg e]
  · intro b hb
    exact setInode_blocks_data L h hs n hn ino b hb

/-- The block of an inode in use is looked up in a pruned state as in the
consistent state. -/
theorem pruned_get_block {L : HfsLayout} {h0 h : HfsData} (P : Pruned L h0 h)
    (hok : HfsOk L h0) (i : Nat) (ino : Inode) (hu : h0.inUse i)
    (hr : read_inode L h0 i = some ino) (off : Nat) :
    get_block_for_offset L h ino off = (bmap L h0 ino (off / L.BLOCK_SIZE) : Int) := by
  rw [← get_block_eq_bmap L h0 hok.toSbOk ino (hok.inode_ok i ino hu hr).ptrs]
  unfold get_block_for_offset blkread
  rw [P.nb_eq]
  by_cases hi : ino.i_single_indirect_pointer = 0
  · simp only [hi, if_true]
  · rw [P.ind_eq i ino hu hr hi]

/-- A block of a directory in use is a data block on the device. -/
theorem dir_block_props {L : HfsLayout} {h0 : HfsData} (hok : HfsOk L h0) (i : Nat)
    (ino : Inode) (hu : h0.inUse i) (hr : read_inode L h0 i = some ino) (k : Nat)
    (hk : bmap L h0 ino k ≠ 0) :
    h0.sb.s_data_blocks_start ≤ bmap L h0 ino k ∧ bmap L h0 ino k < h0.sb.s_blocks_count ∧
      bmap L h0 ino k < h0.device.num_blocks ∧ bmap L h0 ino k < 65536 ∧
      dataBlockOf L h0 ino (bmap L h0 ino k) := by
  have hd := bmap_dataBlockOf L h0 ino k hk
  have hused := (hok.inode_ok i ino hu hr).ptrs _ ⟨hk, Or.inr hd⟩
  have hl := dataUsed_lt hok.toSbOk hused
  exact ⟨hused.1, hused.2.1, hl.2.2, hl.2.1, hd⟩

theorem pruned_find_loop {L : HfsLayout} (hL : L.Ok) {h0 h : HfsData} (P : Pruned L h0 h)
    (hok : HfsOk L h0) (i : Nat) (ino : Inode) (hu : h0.inUse i)
    (hr : read_inode L h0 i = some ino) (hdir : ino.i_is_directory ≠ 0) (t : List Nat) :
    ∀ (fuel k : Nat), 0 ≤ find_dir_entry_loop L h ino t fuel k →
      h0.inUse (toU32 (find_dir_entry_loop L h ino t fuel k)) := by
  intro fuel
  induction fuel with
  | zero =>
    intro k h1
    rw [find_dir_entry_loop] at h1
    exact absurd h1 (by decide)
  | succ fuel ih =>
    intro k
    rw [find_dir_entry_loop]
    simp only [pruned_get_block P hok i ino hu hr]
    generalize k * L.BLOCK_SIZE % U32 / L.BLOCK_SIZE = q
    by_cases hb : bmap L h0 ino q = 0
    · rw [if_pos (by omega)]
      exact ih (k + 1)
    · obtain ⟨b1, b2, b3, b4, b5⟩ := dir_block_props hok i ino hu hr q hb
      rw [if_neg (by omega), toU32_natCast _ (by omega),
        blkread_of_lt _ _ (by rw [P.nb_eq]; exact b3)]
      simp only []
      cases hf : find_dir_entry_block L (h.device.blocks (bmap L h0 ino q)) t
          L.DIRECTORY_ENTRIES_PER_BLOCK 0 with
      | none => exact ih (k + 1)
      | some r =>
        simp only []
        intro _
        obtain ⟨j2, _, hj2, e1, e2, _⟩ := find_dir_entry_block_some L _ t _ _ r hf
        have e3 := P.slots _ j2 b1 b2 (by rw [e1]; exact e2)
        have ht := (hok.dir_ok i ino hu hr hdir).targets _ j2 b5 (by omega)
          (by rw [← e3, e1]; exact e2)
        rw [← e3, e1] at ht
        rw [toU32_toInt32 r (inUse_lt L hL h0 hok.toSbOk r ht)]
        exact ht

/-- A lookup in a directory of a pruned state finds an inode that the
consistent state has in use. -/
theorem pruned_find {L : HfsLayout} (hL : L.Ok) {h0 h : HfsData} (P : Pruned L h0 h)
    (hok : HfsOk L h0) (i : Nat) (ino : Inode) (hu : h0.inUse i)
    (hr : read_inode L h0 i = some ino) (t : List Nat)
    (h1 : 0 ≤ find_dir_entry L h ino t) :
    h0.inUse (toU32 (find_dir_entry L h ino t)) := by
  unfold find_dir_entry at h1 ⊢
  by_cases hd : ino.i_is_directory = 0
  · rw [if_pos hd] at h1
    exact absurd h1 (by decide)
  · rw [if_neg hd] at h1 ⊢
    exact pruned_find_loop hL P hok i ino hu hr hd t _ _ h1

theorem pruned_resolve_loop {L : HfsLayout} (hL : L.Ok) {h0 h : HfsData} (P : Pruned L h0 h)
    (hok : HfsOk L h0) :
    ∀ (toks : List (List Nat)) (c : Nat), h0.inUse c → 0 ≤ resolve_path_loop L h toks c →
      h0.inUse (toU32 (resolve_path_loop L h toks c)) := by
  intro toks
  induction toks with
  | nil =>
    intro c hc _
    simp only [resolve_path_loop]
    rw [toU32_toInt32 c (inUse_lt L hL h0 hok.toSbOk c hc)]
    exact hc
  | cons x xs ih =>
    intro c hc h1
    obtain ⟨ino, hr, hd, hf⟩ := resolve_loop_cons_nonneg L h x xs c h1
    rw [resolve_loop_cons L h x xs c ino hr hd hf] at h1 ⊢
    exact ih _ (pruned_find hL P hok c ino hc (by rw [← P.inodes_eq]; exact hr) x (by omega)) h1

theorem inUse_root {L : HfsLayout} {h : HfsData} (hs : SbOk L h) : h.inUse 0 :=
  ⟨hs.inodes_pos, Or.inl rfl⟩

/-- A path that resolves in a pruned state resolves to an inode that the
consistent state has in use. -/
theorem pruned_resolve {L : HfsLayout} (hL : L.Ok) {h0 h : HfsData} (P : Pruned L h0 h)
    (hok : HfsOk L h0) (path : List Nat) (h1 : 0 ≤ resolve_path L h path) :
    h0.inUse (toU32 (resolve_path L h path)) := by
  unfold resolve_path at h1 ⊢
  by_cases e1 : path = []
  · rw [if_pos e1] at h1
    exact absurd h1 (by decide)
  · rw [if_neg e1] at h1 ⊢
    by_cases e2 : path = [SLASH]
    · rw [if_pos e2]
      exact inUse_root hok.toSbOk
    · rw [if_neg e2] at h1 ⊢
      exact pruned_resolve_loop hL P hok _ 0 (inUse_root hok.toSbOk) h1
/-! ## File system: `hfs_create`, `hfs_mkdir` and the bitmaps -/

/-- The blocks of an inode stay consistent in a state with the same block
bitmap and the same data blocks. -/
theorem inodeOk_congr {L : HfsLayout} {h h2 : HfsData} {ino : Inode} (ho : InodeOk L h ino)
    (e1 : h2.sb = h.sb) (hbits : h2.disk_block_bitmap = h.disk_block_bitmap)
    (hb : ∀ b, h.sb.s_data_blocks_start ≤ b → h2.device.blocks b = h.device.blocks b) :
    InodeOk L h2 ino := by
  have e : ino.i_single_indirect_pointer ≠ 0 →
      h2.device.blocks ino.i_single_indirect_pointer
        = h.device.blocks ino.i_single_indirect_pointer := fun hi =>
    hb _ (ho.ptrs _ ⟨hi, Or.inl rfl⟩).1
  refine ⟨fun b hr => ?_, fun hd => ho.ind_sep ((dataBlockOf_congr L h h2 ino e _).1 hd), ?_⟩
  · have hu := ho.ptrs b ((refsBlock_congr L h h2 ino e b).1 hr)
    exact ⟨by rw [e1]; exact hu.1, by rw [e1]; exact hu.2.1, by rw [hbits]; exact hu.2.2⟩
  · intro k k2 h0 e2
    rw [bmap_congr L h h2 ino e] at h0 e2
    rw [bmap_congr L h h2 ino e] at e2
    exact ho.inj k k2 h0 e2

/-- `write_inode` keeps the bitmaps in memory equal to those on the device. -/
theorem write_inode_synced (L : HfsLayout) (h : HfsData) (hs : SbOk L h) (hsync : h.Synced)
    (i : Nat) (ino : Inode) :
    (write_inode L h i ino).1.Synced ∧ (write_inode L h i ino).1.sb = h.sb ∧
      (write_inode L h i ino).1.device.num_blocks = h.device.num_blocks := by
  by_cases hi : i < h.sb.s_inodes_count
  · rw [write_inode_spec L h hs i hi ino]
    refine ⟨⟨?_, ?_⟩, rfl, rfl⟩
    · rw [setInode_disk_block_bitmap L h hs i hi ino]; exact hsync.1
    · rw [setInode_disk_inode_bitmap L h hs i hi ino]; exact hsync.2
  · have e : write_inode L h i ino = (h, -1) := by
      unfold write_inode
      rw [if_pos (by omega)]
    rw [e]
    exact ⟨hsync, rfl, rfl⟩

/-- The first loop of `add_dir_entry` keeps the bitmaps in memory equal to
those on the device, and the directory inode consistent while it runs. -/
theorem add_dir_entry_loop_ok (L : HfsLayout) (name : List Nat) (n : Nat) :
    ∀ (fuel : Nat) (h : HfsData) (ino : Inode) (i : Nat), SbOk L h → h.Synced → ino.Valid L →
      InodeOk L h ino →
      ∃ h1 ino1 o, add_dir_entry_loop L name n fuel h ino i = (h1, ino1, o) ∧ SbOk L h1 ∧
        h1.Synced ∧ (o = none → ino1.Valid L ∧ InodeOk L h1 ino1) := by
  intro fuel
  induction fuel with
  | zero =>
    intro h ino i hs hsync hv ho
    exact ⟨h, ino, none, rfl, hs, hsync, fun _ => ⟨hv, ho⟩⟩
  | succ fuel ih =>
    intro h ino i hs hsync hv ho
    rw [add_dir_entry_loop]
    simp only [get_block_eq_bmap L h hs ino ho.ptrs]
    generalize i * L.BLOCK_SIZE % U32 = pos
    by_cases hb : bmap L h ino (pos / L.BLOCK_SIZE) = 0
    · have e0 : ((bmap L h ino (pos / L.BLOCK_SIZE) : Nat) : Int) = 0 := by omega
      simp only [e0, true_and, if_true]
      rcases alloc_block_for_offset_cases L h ino pos hs hsync hv ho.ptrs ho.ind_sep with
        ⟨h2, ino2, nb, ha, A⟩ | ⟨hf, ha, A, _⟩
      · have hnb0 : nb ≠ 0 := by
          have := hs.data_pos
          have := A.fresh_ge
          omega
        have hrnb : refsBlock L h2 ino2 nb := by
          have e := A.bmap_new
          have hr := refsBlock_of_bmap L h2 ino2 (pos / L.BLOCK_SIZE) (by rw [e]; exact hnb0)
          rw [e] at hr
          exact hr
        have hnbu := dataUsed_lt A.sb (A.ptrs _ hrnb)
        have eu : toU32 ((nb : Nat) : Int) = nb := toU32_natCast _ (by omega)
        have hnn : ¬ ((nb : Int) < 0) := by omega
        simp only [ha, hnn, if_false, eu]
        rw [blkread_of_lt _ _ hnbu.2.2]
        simp only []
        cases find_free_entry L (h2.device.blocks nb) L.DIRECTORY_ENTRIES_PER_BLOCK 0 with
        | none => exact ih h2 ino2 (i + 1) A.sb A.synced A.valid (allocAt_inodeOk hs ho A)
        | some j =>
          simp only []
          rw [blkwrite_of_lt _ _ _ hnbu.2.2]
          exact ⟨_, _, _, rfl, SbOk.of_eq A.sb rfl rfl,
            synced_setBlock A.synced L A.sb nb _ (by rw [A.frame.sb_eq]; exact A.fresh_ge),
            fun hx => absurd hx (by simp)⟩
      · simp only [ha]
        rw [if_pos (by decide)]
        exact ⟨_, _, _, rfl, A.sb, A.synced, fun hx => absurd hx (by simp)⟩
    · have hused := ho.ptrs _ (refsBlock_of_bmap L h ino _ hb)
      have hu := dataUsed_lt hs hused
      have e0 : ¬ ((bmap L h ino (pos / L.BLOCK_SIZE) : Nat) : Int) = 0 := by omega
      have eu : toU32 ((bmap L h ino (pos / L.BLOCK_SIZE) : Nat) : Int)
          = bmap L h ino (pos / L.BLOCK_SIZE) := toU32_natCast _ (by omega)
      simp only [e0, false_and, if_false, eu]
      rw [blkread_of_lt _ _ hu.2.2]
      simp only []
      cases find_free_entry L (h.device.blocks (bmap L h ino (pos / L.BLOCK_SIZE)))
          L.DIRECTORY_ENTRIES_PER_BLOCK 0 with
      | none => exact ih h ino (i + 1) hs hsync hv ho
      | some j =>
        simp only []
        rw [blkwrite_of_lt _ _ _ hu.2.2]
        exact ⟨_, _, _, rfl, SbOk.of_eq hs rfl rfl, synced_setBlock hsync L hs _ _ hused.1,
          fun hx => absurd hx (by simp)⟩

/-- `add_dir_entry` on a consistent directory inode keeps the bitmaps in memory
equal to those on the device, whether it succeeds or fails. -/
theorem add_dir_entry_ok (L : HfsLayout) (h : HfsData) (pino : Inode) (name : List Nat)
    (n : Nat) (hs : SbOk L h) (hsync : h.Synced) (hv : pino.Valid L) (ho : InodeOk L h pino) :
    SbOk L (add_dir_entry L h pino name n).1 ∧ (add_dir_entry L h pino name n).1.Synced := by
  unfold add_dir_entry
  by_cases hd : pino.i_is_directory = 0
  · rw [if_pos hd]
    exact ⟨hs, hsync⟩
  · rw [if_neg hd]
    simp only []
    generalize (if (pino.i_size + L.BLOCK_SIZE - 1) % U32 / L.BLOCK_SIZE = 0 then 1
      else (pino.i_size + L.BLOCK_SIZE - 1) % U32 / L.BLOCK_SIZE) = NB
    obtain ⟨h1, ino1, o, hloop, hs1, hsync1, hn⟩ :=
      add_dir_entry_loop_ok L name n NB h pino 0 hs hsync hv ho
    rw [hloop]
    cases o with
    | some r => exact ⟨hs1, hsync1⟩
    | none =>
      simp only []
      obtain ⟨hv1, ho1⟩ := hn rfl
      generalize NB * L.BLOCK_SIZE % U32 = pos
      rcases alloc_block_for_offset_cases L h1 ino1 pos hs1 hsync1 hv1 ho1.ptrs ho1.ind_sep with
        ⟨h2, ino2, nb, ha, A⟩ | ⟨hf, ha, A, _⟩
      · have hnb0 : nb ≠ 0 := by
          have := hs1.data_pos
          have := A.fresh_ge
          omega
        have hrnb : refsBlock L h2 ino2 nb := by
          have e := A.bmap_new
          have hr := refsBlock_of_bmap L h2 ino2 (pos / L.BLOCK_SIZE) (by rw [e]; exact hnb0)
          rw [e] at hr
          exact hr
        have hnbu := dataUsed_lt A.sb (A.ptrs _ hrnb)
        have eu : toU32 ((nb : Nat) : Int) = nb := toU32_natCast _ (by omega)
        have hnn : ¬ ((nb : Int) < 0) := by omega
        simp only [ha, hnn, if_false, eu]
        rw [blkwrite_of_lt _ _ _ hnbu.2.2]
        exact ⟨SbOk.of_eq A.sb rfl rfl,
          synced_setBlock A.synced L A.sb nb _ (by rw [A.frame.sb_eq]; exact A.fresh_ge)⟩
      · simp only [ha]
        rw [if_pos (by decide)]
        exact ⟨A.sb, A.synced⟩

/-- The common body of `hfs_create` and `hfs_mkdir` keeps the bitmaps in
memory equal to those on the device. -/
theorem make_node_synced (L : HfsLayout) (hL : L.Ok) (new_inode : Inode) (h : HfsData)
    (hok : HfsOk L h) (hsync : h.Synced) (path : List Nat) (r : HfsData × Int)
    (hr : make_node L new_inode h path = some r) : r.1.Synced := by
  have hs := hok.toSbOk
  unfold make_node at hr
  simp only [sync_of_synced h hsync] at hr
  cases hsp : split_path L path with
  | none =>
    rw [hsp] at hr
    exact absurd hr (by simp)
  | some pf =>
    obtain ⟨pp, fn⟩ := pf
    rw [hsp] at hr
    simp only [] at hr
    by_cases c1 : fn.length = 0
    · rw [if_pos c1] at hr
      rw [← Option.some.inj hr]
      exact hsync
    rw [if_neg c1] at hr
    by_cases c2 : resolve_path L h pp < 0
    · rw [if_pos c2] at hr
      rw [← Option.some.inj hr]
      exact hsync
    rw [if_neg c2] at hr
    have hpu := pruned_resolve hL (pruned_refl L h hsync) hok pp (by omega)
    cases hri : read_inode L h (toU32 (resolve_path L h pp)) with
    | none =>
      rw [hri] at hr
      rw [← Option.some.inj hr]
      exact hsync
    | some pino =>
      rw [hri] at hr
      simp only [] at hr
      by_cases c3 : pino.i_is_directory = 0
      · rw [if_pos c3] at hr
        rw [← Option.some.inj hr]
        exact hsync
      rw [if_neg c3] at hr
      by_cases c4 : find_dir_entry L h pino fn ≥ 0
      · rw [if_pos c4] at hr
        rw [← Option.some.inj hr]
        exact hsync
      rw [if_neg c4] at hr
      have hpo := hok.inode_ok _ pino hpu hri
      have hpv : pino.Valid L := by
        rw [read_inode_eq L h hs _ hpu.1] at hri
        rw [← Option.some.inj hri]
        exact inode_load_valid L _ _
      rcases alloc_inode_cases L hL h hs hsync with ha | ⟨n, hn1, hn2, _, ha⟩
      · have hneg : ((-1 : Int) < 0) := by decide
        simp only [ha, hneg, if_true] at hr
        rw [← Option.some.inj hr]
        exact hsync
      · have hnn : ¬ ((n : Int) < 0) := by omega
        have hn3 : n < 4294967296 := by
          have := hs.inodes_le_bits
          have := eight_bs_lt L hL
          omega
        have hs1 : SbOk L (h.markInode n) := hs.of_eq rfl rfl
        have hsync1 := markInode_synced L h hs hsync n
        have hs2 : SbOk L ((h.markInode n).setInode L n new_inode) := hs1.of_eq rfl rfl
        have hsync2 := (write_inode_synced L (h.markInode n) hs1 hsync1 n new_inode).1
        rw [write_inode_spec L (h.markInode n) hs1 n hn2 new_inode] at hsync2
        have hpo2 : InodeOk L ((h.markInode n).setInode L n new_inode) pino := by
          refine inodeOk_congr hpo rfl ?_ ?_
          · rw [setInode_disk_block_bitmap L _ hs1 n hn2 new_inode]
            show (h.device.write _ _).blocks h.sb.s_block_bitmap = _
            rw [write_blocks_other _ _ _ _ hs.bbm_ne_ibm]
            rfl
          · intro b hb
            rw [setInode_blocks_data L _ hs1 n hn2 new_inode b hb]
            show (h.device.write _ _).blocks b = _
            rw [write_blocks_other _ _ _ _ (by have := hs.ibm_lt; omega)]
        obtain ⟨hs3, hsync3⟩ := add_dir_entry_ok L _ pino fn n hs2 hsync2 hpv hpo2
        simp only [ha, hnn, if_false, toU32_natCast n hn3,
          write_inode_spec L (h.markInode n) hs1 n hn2 new_inode] at hr
        rw [if_neg (by decide)] at hr
        by_cases c5 : (add_dir_entry L ((h.markInode n).setInode L n new_inode) pino fn n).2.2 < 0
        · rw [if_pos c5] at hr
          rw [← Option.some.inj hr]
          exact (free_inode_synced L _ hs3 hsync3 n).1
        · rw [if_neg c5] at hr
          have hw := (write_inode_synced L _ hs3 hsync3 (toU32 (resolve_path L h pp))
            (add_dir_entry L ((h.markInode n).setInode L n new_inode) pino fn n).2.1).1
          by_cases c6 : (write_inode L
              (add_dir_entry L ((h.markInode n).setInode L n new_inode) pino fn n).1
              (toU32 (resolve_path L h pp))
              (add_dir_entry L ((h.markInode n).setInode L n new_inode) pino fn n).2.1).2 < 0
          · rw [if_pos c6] at hr
            rw [← Option.some.inj hr]
            exact hw
          · rw [if_neg c6] at hr
            rw [← Option.some.inj hr]
            exact hw
/-! ## File system: `hfs_remove` and the bitmaps -/

/-- Filling an entry of a directory block with zero bytes sets its inode
number to 0 and leaves the inode numbers of the other entries. -/
theorem dirent_inum_zero_bytes (L : HfsLayout) (blk : Nat → Nat) (j j2 : Nat) :
    dirent_inode_number L (zero_bytes blk (j * L.DIRENT_SIZE) L.DIRENT_SIZE) j2
      = if j2 = j then 0 else dirent_inode_number L blk j2 := by
  unfold dirent_inode_number
  have hds : L.DIRENT_SIZE = L.DIRECTORY_NAME_SIZE + 4 := rfl
  by_cases e : j2 = j
  · rw [if_pos e, e, ← load32_zero_block (j * L.DIRENT_SIZE + L.DIRECTORY_NAME_SIZE)]
    apply load32_congr
    intro i hi
    unfold zero_bytes
    rw [if_pos (by omega)]
    rfl
  · rw [if_neg e]
    apply load32_congr
    intro i hi
    unfold zero_bytes
    have := slot_outside j2 j L.DIRENT_SIZE (L.DIRECTORY_NAME_SIZE + i) e (by omega)
    rw [if_neg (by omega)]

/-- Clearing an entry of a block of a directory in use leaves a pruned state
pruned. -/
theorem pruned_clear_entry {L : HfsLayout} {h0 h : HfsData} (P : Pruned L h0 h)
    (hok : HfsOk L h0) (p : Nat) (pino : Inode) (hu : h0.inUse p)
    (hr : read_inode L h0 p = some pino) (k j : Nat) (hk : bmap L h0 pino k ≠ 0) :
    Pruned L h0 (h.setBlock (bmap L h0 pino k)
      (zero_bytes (h.device.blocks (bmap L h0 pino k)) (j * L.DIRENT_SIZE) L.DIRENT_SIZE)) := by
  have hs := pruned_sbOk P hok.toSbOk
  obtain ⟨b1, b2, b3, b4, b5⟩ := dir_block_props hok p pino hu hr k hk
  refine ⟨P.sb_eq, P.nb_eq, synced_setBlock P.synced L hs _ _ (by rw [P.sb_eq]; exact b1), ?_,
    ?_, ?_⟩
  · intro i
    rw [read_inode_setBlock L h hs _ _ (fun i2 hi2 => by
      have := hs.tb_lt i2 hi2
      rw [P.sb_eq] at this
      omega)]
    exact P.inodes_eq i
  · intro i ino hiu hir hne
    have hne2 : ino.i_single_indirect_pointer ≠ bmap L h0 pino k := by
      intro e
      by_cases hip : i = p
      · rw [hip, hr] at hir
        rw [← Option.some.inj hir] at e
        rw [← e] at b5
        exact (hok.inode_ok p pino hu hr).ind_sep b5
      · refine hok.disjoint p i pino ino _ hu hiu (fun x => hip x.symm) hr hir ⟨hk, Or.inr b5⟩ ?_
        exact ⟨hk, Or.inl e⟩
    rw [setBlock_blocks_other _ _ _ _ hne2]
    exact P.ind_eq i ino hiu hir hne
  · intro b j2 h1 h2 hne
    by_cases hb : b = bmap L h0 pino k
    · rw [hb, setBlock_blocks_same, dirent_inum_zero_bytes] at hne ⊢
      by_cases e : j2 = j
      · rw [if_pos e] at hne
        exact absurd rfl hne
      · rw [if_neg e] at hne ⊢
        exact P.slots _ j2 b1 b2 hne
    · rw [setBlock_blocks_other _ _ _ _ hb] at hne ⊢
      exact P.slots b j2 h1 h2 hne

theorem pruned_remove_loop {L : HfsLayout} {h0 h : HfsData} (P : Pruned L h0 h)
    (hok : HfsOk L h0) (p : Nat) (pino : Inode) (hu : h0.inUse p)
    (hr : read_inode L h0 p = some pino) (name : List Nat) :
    ∀ (fuel i : Nat), Pruned L h0 (remove_dir_entry_loop L h pino name fuel i).1 := by
  intro fuel
  induction fuel with
  | zero => intro i; exact P
  | succ fuel ih =>
    intro i
    rw [remove_dir_entry_loop]
    simp only [pruned_get_block P hok p pino hu hr]
    generalize i * L.BLOCK_SIZE % U32 / L.BLOCK_SIZE = q
    by_cases hb : bmap L h0 pino q = 0
    · rw [if_pos (by omega)]
      exact ih (i + 1)
    · obtain ⟨b1, b2, b3, b4, b5⟩ := dir_block_props hok p pino hu hr q hb
      have hlt : bmap L h0 pino q < h.device.num_blocks := by rw [P.nb_eq]; exact b3
      rw [if_neg (by omega), toU32_natCast _ (by omega), blkread_of_lt _ _ hlt]
      simp only []
      cases remove_dir_entry_block L (h.device.blocks (bmap L h0 pino q)) name
          L.DIRECTORY_ENTRIES_PER_BLOCK 0 with
      | none => exact ih (i + 1)
      | some j =>
        simp only []
        rw [blkwrite_of_lt _ _ _ hlt]
        exact pruned_clear_entry P hok p pino hu hr q j hb

/-- `remove_dir_entry` on a directory in use leaves a pruned state pruned. -/
theorem pruned_remove_dir_entry {L : HfsLayout} {h0 h : HfsData} (P : Pruned L h0 h)
    (hok : HfsOk L h0) (p : Nat) (pino : Inode) (hu : h0.inUse p)
    (hr : read_inode L h0 p = some pino) (name : List Nat) :
    Pruned L h0 (remove_dir_entry L h pino name).1 := by
  unfold remove_dir_entry
  by_cases c : pino.i_is_directory = 0
  · rw [if_pos c]
    exact P
  · rw [if_neg c]
    exact pruned_remove_loop P hok p pino hu hr name _ _

theorem pruned_free_direct_loop {L : HfsLayout} {h0 : HfsData} (hok : HfsOk L h0) :
    ∀ (fuel i : Nat) (h : HfsData) (ino : Inode), Pruned L h0 h →
      Pruned L h0 (free_direct_loop fuel i h ino).1 := by
  intro fuel
  induction fuel with
  | zero => intro i h ino P; exact P
  | succ fuel ih =>
    intro i h ino P
    rw [free_direct_loop]
    by_cases c : ino.i_direct_pointers.getD i 0 ≠ 0
    · rw [if_pos c]
      exact ih _ _ _ (pruned_free_block P hok _)
    · rw [if_neg c]
      exact ih _ _ _ P

theorem pruned_free_indirect_loop {L : HfsLayout} {h0 : HfsData} (hok : HfsOk L h0)
    (blk : Nat → Nat) :
    ∀ (fuel i : Nat) (h : HfsData), Pruned L h0 h →
      Pruned L h0 (free_indirect_loop blk fuel i h) := by
  intro fuel
  induction fuel with
  | zero => intro i h P; exact P
  | succ fuel ih =>
    intro i h P
    rw [free_indirect_loop]
    by_cases c : load16 blk (2 * i) ≠ 0
    · rw [if_pos c]
      exact ih _ _ (pruned_free_block P hok _)
    · rw [if_neg c]
      exact ih _ _ P

/-- `free_inode_blocks` leaves a pruned state pruned, whatever the inode. -/
theorem pruned_free_inode_blocks {L : HfsLayout} {h0 h : HfsData} (P : Pruned L h0 h)
    (hok : HfsOk L h0) (ino : Inode) : Pruned L h0 (free_inode_blocks L h ino).1 := by
  have P1 := pruned_free_direct_loop hok L.INODE_DIRECT_POINTERS 0 h ino P
  unfold free_inode_blocks
  simp only []
  by_cases c : (free_direct_loop L.INODE_DIRECT_POINTERS 0 h ino).2.i_single_indirect_pointer ≠ 0
  · rw [if_pos c]
    simp only []
    cases blkread (free_direct_loop L.INODE_DIRECT_POINTERS 0 h ino).1.device
        (free_direct_loop L.INODE_DIRECT_POINTERS 0 h ino).2.i_single_indirect_pointer with
    | none => exact pruned_free_block P1 hok _
    | some blk =>
      exact pruned_free_block (pruned_free_indirect_loop hok blk _ _ _ P1) hok _
  · rw [if_neg c]
    exact P1

/-- The end of `hfs_remove` leaves a pruned state pruned. -/
theorem pruned_remove_finish {L : HfsLayout} (hL : L.Ok) {h0 h : HfsData} (P : Pruned L h0 h)
    (hok : HfsOk L h0) (tino : Inode) (n : Nat) (path : List Nat) (r : HfsData × Int)
    (hr : hfs_remove_finish L h tino n path = some r) : Pruned L h0 r.1 := by
  have P2 := pruned_free_inode (pruned_free_inode_blocks P hok tino) hok n
  unfold hfs_remove_finish at hr
  simp only [] at hr
  cases hsp : split_path L path with
  | none =>
    rw [hsp] at hr
    exact absurd hr (by simp)
  | some pf =>
    obtain ⟨pp, fn⟩ := pf
    rw [hsp] at hr
    simp only [] at hr
    by_cases c : resolve_path L (free_inode (free_inode_blocks L h tino).1 n) pp ≥ 0
    · rw [if_pos c] at hr
      have hu := pruned_resolve hL P2 hok pp c
      cases hri : read_inode L (free_inode (free_inode_blocks L h tino).1 n)
          (toU32 (resolve_path L (free_inode (free_inode_blocks L h tino).1 n) pp)) with
      | none =>
        rw [hri] at hr
        rw [← Option.some.inj hr]
        exact P2
      | some pino =>
        rw [hri] at hr
        rw [← Option.some.inj hr]
        have hri0 := hri
        rw [P2.inodes_eq] at hri0
        have P3 := pruned_remove_dir_entry P2 hok _ pino hu hri0 fn
        exact pruned_write_inode hL P3 hok _ pino (by rw [P3.inodes_eq]; exact hri0)
    · rw [if_neg c] at hr
      rw [← Option.some.inj hr]
      exact P2

theorem pruned_remove_entries {L : HfsLayout} {h0 : HfsData}
    (rm : HfsData → List Nat → Option HfsData)
    (hrm : ∀ s p s2, Pruned L h0 s → rm s p = some s2 → Pruned L h0 s2)
    (path : List Nat) (blk : Nat → Nat) :
    ∀ (fuel j : Nat) (s s2 : HfsData), Pruned L h0 s →
      hfs_remove_entries L rm path blk fuel j s = some s2 → Pruned L h0 s2 := by
  intro fuel
  induction fuel with
  | zero =>
    intro j s s2 P hr
    rw [hfs_remove_entries] at hr
    rw [← Option.some.inj hr]
    exact P
  | succ fuel ih =>
    intro j s s2 P hr
    rw [hfs_remove_entries] at hr
    by_cases c : dirent_inode_number L blk j ≠ 0
    · rw [if_pos c] at hr
      cases hn : cstr_at blk L.DIRECTORY_NAME_SIZE (j * L.DIRENT_SIZE) with
      | none =>
        rw [hn] at hr
        exact absurd hr (by simp)
      | some name =>
        rw [hn] at hr
        simp only [] at hr
        by_cases c2 : path.length + 1 + name.length + 1 < 512
        · rw [if_pos c2] at hr
          cases hc : rm s (path ++ SLASH :: name) with
          | none =>
            rw [hc] at hr
            exact absurd hr (by simp)
          | some s1 =>
            rw [hc] at hr
            exact ih _ _ _ (hrm _ _ _ P hc) hr
        · rw [if_neg c2] at hr
          exact ih _ _ _ P hr
    · rw [if_neg c] at hr
      exact ih _ _ _ P hr

theorem pruned_remove_children {L : HfsLayout} {h0 : HfsData}
    (rm : HfsData → List Nat → Option HfsData)
    (hrm : ∀ s p s2, Pruned L h0 s → rm s p = some s2 → Pruned L h0 s2)
    (path : List Nat) (tino : Inode) :
    ∀ (fuel i : Nat) (s s2 : HfsData), Pruned L h0 s →
      hfs_remove_children L rm path tino fuel i s = some s2 → Pruned L h0 s2 := by
  intro fuel
  induction fuel with
  | zero =>
    intro i s s2 P hr
    rw [hfs_remove_children] at hr
    rw [← Option.some.inj hr]
    exact P
  | succ fuel ih =>
    intro i s s2 P hr
    rw [hfs_remove_children] at hr
    by_cases c : get_block_for_offset L s tino (i * L.BLOCK_SIZE % U32) ≤ 0
    · rw [if_pos c] at hr
      exact ih _ _ _ P hr
    · rw [if_neg c] at hr
      cases hb : blkread s.device
          (toU32 (get_block_for_offset L s tino (i * L.BLOCK_SIZE % U32))) with
      | none =>
        rw [hb] at hr
        exact ih _ _ _ P hr
      | some blk =>
        rw [hb] at hr
        simp only [] at hr
        cases he : hfs_remove_entries L rm path blk L.DIRECTORY_ENTRIES_PER_BLOCK 0 s with
        | none =>
          rw [he] at hr
          exact absurd hr (by simp)
        | some s1 =>
          rw [he] at hr
          exact ih _ _ _ (pruned_remove_entries rm hrm path blk _ _ _ _ P he) hr

/-- `hfs_remove`, with its recursion into the directories, leaves a pruned
state pruned. -/
theorem pruned_remove_depth {L : HfsLayout} (hL : L.Ok) {h0 : HfsData} (hok : HfsOk L h0) :
    ∀ (depth : Nat) (s : HfsData) (path : List Nat) (r : HfsData × Int), Pruned L h0 s →
      hfs_remove_depth L depth s path = some r → Pruned L h0 r.1 := by
  intro depth
  induction depth with
  | zero =>
    intro s path r _ hr
    rw [hfs_remove_depth] at hr
    exact absurd hr (by simp)
  | succ depth ih =>
    intro s path r P hr
    have hrm : ∀ s1 p s2, Pruned L h0 s1 →
        (hfs_remove_depth L depth s1 p).map Prod.fst = some s2 → Pruned L h0 s2 := by
      intro s1 p s2 P1 hm
      cases hd : hfs_remove_depth L depth s1 p with
      | none =>
        rw [hd] at hm
        exact absurd hm (by simp)
      | some r1 =>
        rw [hd] at hm
        have e : r1.1 = s2 := Option.some.inj hm
        rw [← e]
        exact ih s1 p r1 P1 hd
    rw [hfs_remove_depth] at hr
    simp only [] at hr
    by_cases c1 : resolve_path L s path < 0
    · rw [if_pos c1] at hr
      rw [← Option.some.inj hr]
      exact P
    rw [if_neg c1] at hr
    by_cases c2 : resolve_path L s path = 0
    · rw [if_pos c2] at hr
      rw [← Option.some.inj hr]
      exact P
    rw [if_neg c2] at hr
    cases hri : read_inode L s (toU32 (resolve_path L s path)) with
    | none =>
      rw [hri] at hr
      rw [← Option.some.inj hr]
      exact P
    | some tino =>
      rw [hri] at hr
      simp only [] at hr
      by_cases c3 : tino.i_is_directory ≠ 0
      · rw [if_pos c3] at hr
        cases hc : hfs_remove_children L
            (fun h p => (hfs_remove_depth L depth h p).map Prod.fst) path tino
            ((tino.i_size + L.BLOCK_SIZE - 1) % U32 / L.BLOCK_SIZE) 0 s with
        | none =>
          rw [hc] at hr
          exact absurd hr (by simp)
        | some s1 =>
          rw [hc] at hr
          simp only [] at hr
          exact pruned_remove_finish hL
            (pruned_remove_children _ hrm path tino _ _ _ _ P hc) hok tino _ path r hr
      · rw [if_neg c3] at hr
        simp only [] at hr
        exact pruned_remove_finish hL P hok tino _ path r hr

/-- `hfs_remove` on a consistent file system keeps the bitmaps in memory equal
to those on the device. -/
theorem hfs_remove_synced (L : HfsLayout) (hL : L.Ok) (h : HfsData) (hok : HfsOk L h)
    (hsync : h.Synced) (path : List Nat) (r : HfsData × Int)
    (hr : hfs_remove L h path = some r) : r.1.Synced :=
  (pruned_remove_depth hL hok 512 h path r (pruned_refl L h hsync) hr).synced
/-! ## File system: coherence of the bitmaps in memory -/

theorem hfsWithFile_synced : hfsWithFile.Synced := by
  constructor <;> funext i <;> by_cases hi : i = 0 <;>
    simp [hfsWithFile, HfsData.disk_block_bitmap, HfsData.disk_inode_bitmap, hi]

/-- C39: on a consistent mounted file system, where every block that the
inodes in use refer to is a data block of the device so that no block-device
operation fails, whose block and inode bitmaps in memory equal the bitmap
blocks on the device: the bitmaps in memory equal the bitmap blocks again
when `hfs_create`, `hfs_mkdir`, `hfs_write` through the vnode of an inode in
use, or `hfs_remove` returns; every block number that `alloc_block` hands out
is at or above `s_data_blocks_start`, below `s_blocks_count`, and had its bit
clear before the call; and every inode number that `alloc_inode` hands out is
at least 1, below `s_inodes_count`, and had its bit clear. For the allocators
this holds in every state whose superblock describes the device: the bit was
clear in the bitmap in which it was found, which is the bitmap in memory or,
when that one is full, the one read from the device. -/
theorem hfs_bitmaps_coherent (L : HfsLayout) (hL : L.Ok) (h : HfsData) (hok : HfsOk L h)
    (hsync : h.Synced) :
    (∀ path r, hfs_create L h path = some r → r.1.Synced) ∧
    (∀ path r, hfs_mkdir L h path = some r → r.1.Synced) ∧
    (∀ node offset size buf, (∀ nd, node = some nd → h.inUse nd.inode_num) →
      (hfs_write L h node offset size buf).1.Synced) ∧
    (∀ path r, hfs_remove L h path = some r → r.1.Synced) ∧
    (∀ b : Nat, (alloc_block h).2 = (b : Int) →
      h.sb.s_data_blocks_start ≤ b ∧ b < h.sb.s_blocks_count ∧
        get_bit h.block_bitmap b = 0 ∧ get_bit h.disk_block_bitmap b = 0) ∧
    (∀ n : Nat, (alloc_inode h).2 = (n : Int) →
      1 ≤ n ∧ n < h.sb.s_inodes_count ∧
        get_bit h.inode_bitmap n = 0 ∧ get_bit h.disk_inode_bitmap n = 0) ∧
    (∀ g : HfsData, SbOk L g → ∀ b : Nat, (alloc_block g).2 = (b : Int) →
      g.sb.s_data_blocks_start ≤ b ∧ b < g.sb.s_blocks_count ∧
        (get_bit g.block_bitmap b = 0 ∨ get_bit g.disk_block_bitmap b = 0)) ∧
    (∀ g : HfsData, SbOk L g → ∀ n : Nat, (alloc_inode g).2 = (n : Int) →
      1 ≤ n ∧ n < g.sb.s_inodes_count ∧
        (get_bit g.inode_bitmap n = 0 ∨ get_bit g.disk_inode_bitmap n = 0)) := by
  have hs := hok.toSbOk
  refine ⟨?_, ?_, ?_, ?_, ?_, ?_, ?_, ?_⟩
  · intro path r hr
    rw [hfs_create_eq] at hr
    exact make_node_synced L hL _ h hok hsync path r hr
  · intro path r hr
    rw [hfs_mkdir_eq] at hr
    exact make_node_synced L hL _ h hok hsync path r hr
  · intro node offset size buf hu
    exact hfs_write_synced L hL h hs hsync node offset size buf
      (fun nd ino e hr => hok.inode_ok _ ino (hu nd e) hr)
  · intro path r hr
    exact hfs_remove_synced L hL h hok hsync path r hr
  · intro b hb
    obtain ⟨h1, h2, h3⟩ := alloc_block_range L h hs b hb
    have e := hsync.1
    refine ⟨h1, h2, ?_, ?_⟩
    · rcases h3 with h3 | h3
      · exact h3
      · rw [e]; exact h3
    · rcases h3 with h3 | h3
      · rw [← e]; exact h3
      · exact h3
  · intro n hn
    obtain ⟨h1, h2, h3⟩ := alloc_inode_range L hL h hs n hn
    have e := hsync.2
    refine ⟨h1, h2, ?_, ?_⟩
    · rcases h3 with h3 | h3
      · exact h3
      · rw [e]; exact h3
    · rcases h3 with h3 | h3
      · rw [← e]; exact h3
      · exact h3
  · intro g hg b hb
    exact alloc_block_range L g hg b hb
  · intro g hg n hn
    exact alloc_inode_range L hL g hg n hn

set_option maxRecDepth 100000 in
theorem hfs_bitmaps_coherent_witness :
    HfsOk hfsSmallLayout hfsWithFile ∧ hfsWithFile.Synced ∧
      (∃ r, hfs_create hfsSmallLayout hfsWithFile [47, 103] = some r ∧ r.2 = 0 ∧ r.1.Synced) ∧
      (∃ r, hfs_mkdir hfsSmallLayout hfsWithFile [47, 100] = some r ∧ r.2 = 0 ∧ r.1.Synced) ∧
      ((hfs_write hfsSmallLayout hfsWithFile (some vnodeOne) 0 20 bufCount).2 = 20 ∧
        (hfs_write hfsSmallLayout hfsWithFile (some vnodeOne) 0 20 bufCount).1.Synced) ∧
      (∃ r, hfs_remove hfsSmallLayout hfsWithFile PATH_F = some r ∧ r.2 = 0 ∧ r.1.Synced) ∧
      ((alloc_block hfsWithFile).2 = 8 ∧ get_bit hfsWithFile.block_bitmap 8 = 0) ∧
      ((alloc_inode hfsWithFile).2 = 2 ∧ get_bit hfsWithFile.inode_bitmap 2 = 0) := by
  have T := hfs_bitmaps_coherent hfsSmallLayout ⟨by decide, by decide, by decide, by decide⟩
    hfsWithFile hfsOk_hfsWithFile hfsWithFile_synced
  have c1 : (hfs_create hfsSmallLayout hfsWithFile [47, 103]).map Prod.snd = some 0 := by
    decide
  have c2 : (hfs_mkdir hfsSmallLayout hfsWithFile [47, 100]).map Prod.snd = some 0 := by
    decide
  have c3 : (hfs_remove hfsSmallLayout hfsWithFile PATH_F).map Prod.snd = some 0 := by
    decide
  refine ⟨hfsOk_hfsWithFile, hfsWithFile_synced, ?_, ?_, ⟨by decide, ?_⟩, ?_,
    ⟨by decide, (T.2.2.2.2.1 8 (by decide)).2.2.1⟩,
    ⟨by decide, (T.2.2.2.2.2.1 2 (by decide)).2.2.1⟩⟩
  · cases hc : hfs_create hfsSmallLayout hfsWithFile [47, 103] with
    | none =>
      rw [hc] at c1
      exact absurd c1 (by simp)
    | some r =>
      rw [hc] at c1
      exact ⟨r, rfl, Option.some.inj c1, T.1 _ r hc⟩
  · cases hc : hfs_mkdir hfsSmallLayout hfsWithFile [47, 100] with
    | none =>
      rw [hc] at c2
      exact absurd c2 (by simp)
    | some r =>
      rw [hc] at c2
      exact ⟨r, rfl, Option.some.inj c2, T.2.1 _ r hc⟩
  · exact T.2.2.1 (some vnodeOne) 0 20 bufCount (fun nd e => by
      rw [← Option.some.inj e]
      exact ⟨by decide, Or.inr (by decide)⟩)
  · cases hc : hfs_remove hfsSmallLayout hfsWithFile PATH_F with
    | none =>
      rw [hc] at c3
      exact absurd c3 (by simp)
    | some r =>
      rw [hc] at c3
      exact ⟨r, rfl, Option.some.inj c3, T.2.2.2.1 _ r hc⟩
end X86Kernel
